import Mathlib

/-!
# Halfedge Catmull-Clark subdivision: topology and geometry refinement

A shallow embedding of the topology kernels of `CatmullClark.cpp`
(`ccs__RefineCageHalfedges`, `ccs__RefineHalfedges`, `ccs__RefineCageCreases`,
`ccs__RefineCreases`, `ccs_VertexPointToHalfedgeID`) and of its vertex point
kernels (face, edge and vertex points, gather and scatter), together with the
properties they satisfy.

Conventions of the embedding.

* Identifiers (`int32_t` in the source) are `Int`; a negative identifier means
  "absent".  Counts are `Nat`.  No identifier of a valid mesh comes near
  `2^31`, so the arithmetic is the unbounded one.
* A C array is a `List`; reading or writing outside of it has no defined
  behaviour in C and makes the embedded kernel return `none`.
* Sharpness values and coordinates (`float` in the source) are rationals: the
  statements on them are statements in exact arithmetic.
* The subdivision stores its levels one after the other in one buffer; here
  every level is a `List` of its own (the region of the buffer that holds the
  level).
* `#pragma omp for` loops are run in increasing index order; every iteration
  writes slots no other iteration touches.
-/

namespace CatmullClark

/-! ## Data model -/

/-- Modelled from the spec: the cage halfedge record `cc_Halfedge` of the header
`CatmullClark.h` (section 3, and the container layout of section 6:
`twinID, nextID, prevID, faceID, edgeID, vertexID, uvID`). -/
structure cc_Halfedge where
  twinID : Int
  nextID : Int
  prevID : Int
  faceID : Int
  edgeID : Int
  vertexID : Int
  uvID : Int
deriving DecidableEq, Repr

/-- Modelled from the spec: the halfedge record `cc_Halfedge_SemiRegular` of the
header `CatmullClark.h` used at every level at least 1 (section 3:
`twinID, edgeID, vertexID, uvID`). -/
structure cc_Halfedge_SemiRegular where
  twinID : Int
  edgeID : Int
  vertexID : Int
  uvID : Int
deriving DecidableEq, Repr

/-- Modelled from the spec: the crease record `cc_Crease` of the header
`CatmullClark.h` (section 3: `nextID, prevID, sharpness`); the sharpness is an
exact rational. -/
structure cc_Crease where
  nextID : Int
  prevID : Int
  sharpness : ℚ
deriving DecidableEq, Repr

/-- Modelled from the spec: a vertex point `cc_VertexPoint` of the header
`CatmullClark.h`, a 3-tuple of coordinates (section 3); the coordinates are
exact rationals. -/
abbrev cc_VertexPoint := ℚ × ℚ × ℚ

/-- Modelled from the spec: a texture coordinate `cc_VertexUv` of the header
`CatmullClark.h`, a 2-tuple of coordinates (section 3); the coordinates are
exact rationals. -/
abbrev cc_VertexUv := ℚ × ℚ

/-- Modelled from the spec: the mesh `cc_Mesh` of the header `CatmullClark.h`,
reduced to the parts the kernels read: the vertex, edge and face counts, the
halfedge array, the crease array (one crease per edge), and (section 6) the
arrays `vertexToHalfedgeIDs`, `edgeToHalfedgeIDs`, `faceToHalfedgeIDs`,
`vertexPoints` and `uvs`, which are empty when a mesh is given by its topology
alone; `uvCount` is the number of records of `uvs`. -/
structure cc_Mesh where
  vertexCount : Nat
  edgeCount : Nat
  faceCount : Nat
  halfedges : List cc_Halfedge
  creases : List cc_Crease
  vertexToHalfedgeIDs : List Int := []
  edgeToHalfedgeIDs : List Int := []
  faceToHalfedgeIDs : List Int := []
  vertexPoints : List cc_VertexPoint := []
  uvs : List cc_VertexUv := []
deriving DecidableEq, Repr

/-- Modelled from the spec: the subdivision `cc_Subd` of the header
`CatmullClark.h`, reduced to the parts the kernels touch: the cage it refines,
the maximal depth, and the halfedge, crease and vertex point buffers.  Entry
`d - 1` of a buffer is the region that holds level `d` (for
`1 ≤ d ≤ maxDepth`); the region of level `d` of the vertex point buffer is laid
out as `[V_(d-1) vertex points | F_(d-1) face points | E_(d-1) edge points]`
(section 3). -/
structure cc_Subd where
  cage : cc_Mesh
  maxDepth : Nat
  halfedges : List (List cc_Halfedge_SemiRegular)
  creases : List (List cc_Crease)
  vertexPoints : List (List cc_VertexPoint) := []
deriving DecidableEq, Repr

/-! ## Array access -/

/-- Reading `xs[i]` for a signed index: `none` outside of the array. -/
def readAt {α : Type} (xs : List α) (i : Int) : Option α :=
  if 0 ≤ i then xs[i.toNat]? else none

/-- Updating the record `xs[i]` in place: `none` outside of the array. -/
def writeAt {α : Type} (xs : List α) (i : Int) (f : α → α) : Option (List α) :=
  match readAt xs i with
  | some x => some (xs.set i.toNat (f x))
  | none => none

/-- The assignment `halfedges[i].twinID = v`. -/
def setTwinID (xs : List cc_Halfedge_SemiRegular) (i v : Int) :
    Option (List cc_Halfedge_SemiRegular) :=
  writeAt xs i (fun r => { r with twinID := v })

/-- The assignment `halfedges[i].edgeID = v`. -/
def setEdgeID (xs : List cc_Halfedge_SemiRegular) (i v : Int) :
    Option (List cc_Halfedge_SemiRegular) :=
  writeAt xs i (fun r => { r with edgeID := v })

/-- The assignment `halfedges[i].vertexID = v`. -/
def setVertexID (xs : List cc_Halfedge_SemiRegular) (i v : Int) :
    Option (List cc_Halfedge_SemiRegular) :=
  writeAt xs i (fun r => { r with vertexID := v })

/-! ## Cage accessors -/

/-- Modelled from the spec: `ccm_VertexCount` of the header, the cage count `V0`. -/
def ccm_VertexCount (cage : cc_Mesh) : Nat := cage.vertexCount

/-- Modelled from the spec: `ccm_EdgeCount` of the header, the cage count `E0`. -/
def ccm_EdgeCount (cage : cc_Mesh) : Nat := cage.edgeCount

/-- Modelled from the spec: `ccm_FaceCount` of the header, the cage count `F0`. -/
def ccm_FaceCount (cage : cc_Mesh) : Nat := cage.faceCount

/-- Modelled from the spec: `ccm_HalfedgeCount` of the header, the cage count
`H0`, the number of records of the halfedge array. -/
def ccm_HalfedgeCount (cage : cc_Mesh) : Nat := cage.halfedges.length

/-- Modelled from the spec: `ccm_HalfedgeTwinID` of the header reads the cage
array (section 4.1: "for level 0 these read the cage's arrays"). -/
def ccm_HalfedgeTwinID (cage : cc_Mesh) (halfedgeID : Int) : Option Int :=
  (readAt cage.halfedges halfedgeID).map (fun r => r.twinID)

/-- Modelled from the spec: `ccm_HalfedgeNextID` of the header reads the cage array. -/
def ccm_HalfedgeNextID (cage : cc_Mesh) (halfedgeID : Int) : Option Int :=
  (readAt cage.halfedges halfedgeID).map (fun r => r.nextID)

/-- Modelled from the spec: `ccm_HalfedgePrevID` of the header reads the cage array. -/
def ccm_HalfedgePrevID (cage : cc_Mesh) (halfedgeID : Int) : Option Int :=
  (readAt cage.halfedges halfedgeID).map (fun r => r.prevID)

/-- Modelled from the spec: `ccm_HalfedgeFaceID` of the header reads the cage array. -/
def ccm_HalfedgeFaceID (cage : cc_Mesh) (halfedgeID : Int) : Option Int :=
  (readAt cage.halfedges halfedgeID).map (fun r => r.faceID)

/-- Modelled from the spec: `ccm_HalfedgeEdgeID` of the header reads the cage array. -/
def ccm_HalfedgeEdgeID (cage : cc_Mesh) (halfedgeID : Int) : Option Int :=
  (readAt cage.halfedges halfedgeID).map (fun r => r.edgeID)

/-- Modelled from the spec: `ccm_HalfedgeVertexID` of the header reads the cage array. -/
def ccm_HalfedgeVertexID (cage : cc_Mesh) (halfedgeID : Int) : Option Int :=
  (readAt cage.halfedges halfedgeID).map (fun r => r.vertexID)

/-! ## `ccs__RefineCageHalfedges` -/

/-- The twelve assignments that end an iteration of `ccs__RefineCageHalfedges`
and of `ccs__RefineHalfedges` (the two kernels have the same text there):
`newHalfedges[i]` is the slot `4 * halfedgeID + i` of `halfedgesOut`. -/
def writeNewHalfedges (vertexCount edgeCount faceCount : Int)
    (halfedgesOut : List cc_Halfedge_SemiRegular)
    (halfedgeID twinID prevID nextID faceID edgeID prevEdgeID prevTwinID vertexID
      twinNextID : Int) : Option (List cc_Halfedge_SemiRegular) := do
  -- twinIDs
  let out ← setTwinID halfedgesOut (4 * halfedgeID + 0) (4 * twinNextID + 3)
  let out ← setTwinID out (4 * halfedgeID + 1) (4 * nextID + 2)
  let out ← setTwinID out (4 * halfedgeID + 2) (4 * prevID + 1)
  let out ← setTwinID out (4 * halfedgeID + 3) (4 * prevTwinID + 0)
  -- edgeIDs
  let out ← setEdgeID out (4 * halfedgeID + 0) (2 * edgeID + (if halfedgeID > twinID then 0 else 1))
  let out ← setEdgeID out (4 * halfedgeID + 1) (2 * edgeCount + halfedgeID)
  let out ← setEdgeID out (4 * halfedgeID + 2) (2 * edgeCount + prevID)
  let out ← setEdgeID out (4 * halfedgeID + 3) (2 * prevEdgeID + (if prevID > prevTwinID then 1 else 0))
  -- vertexIDs
  let out ← setVertexID out (4 * halfedgeID + 0) vertexID
  let out ← setVertexID out (4 * halfedgeID + 1) (vertexCount + faceCount + edgeID)
  let out ← setVertexID out (4 * halfedgeID + 2) (vertexCount + faceID)
  setVertexID out (4 * halfedgeID + 3) (vertexCount + faceCount + prevEdgeID)

/-- One iteration of the loop of `ccs__RefineCageHalfedges`: the reads of the
cage, then the assignments to the four new halfedges. -/
def ccs__RefineCageHalfedges_iteration (cage : cc_Mesh) (vertexCount edgeCount faceCount : Int)
    (halfedgesOut : List cc_Halfedge_SemiRegular) (halfedgeID : Int) :
    Option (List cc_Halfedge_SemiRegular) := do
  let twinID ← ccm_HalfedgeTwinID cage halfedgeID
  let prevID ← ccm_HalfedgePrevID cage halfedgeID
  let nextID ← ccm_HalfedgeNextID cage halfedgeID
  let faceID ← ccm_HalfedgeFaceID cage halfedgeID
  let edgeID ← ccm_HalfedgeEdgeID cage halfedgeID
  let prevEdgeID ← ccm_HalfedgeEdgeID cage prevID
  let prevTwinID ← ccm_HalfedgeTwinID cage prevID
  let vertexID ← ccm_HalfedgeVertexID cage halfedgeID
  let twinNextID ← if twinID ≥ 0 then ccm_HalfedgeNextID cage twinID else some (-1)
  writeNewHalfedges vertexCount edgeCount faceCount halfedgesOut
    halfedgeID twinID prevID nextID faceID edgeID prevEdgeID prevTwinID vertexID twinNextID

/-- The loop of `ccs__RefineCageHalfedges` over the cage halfedges. -/
def ccs__RefineCageHalfedges_loop (cage : cc_Mesh) (vertexCount edgeCount faceCount : Int)
    (halfedgeCount : Nat) (halfedgesOut : List cc_Halfedge_SemiRegular) :
    Option (List cc_Halfedge_SemiRegular) :=
  (List.range halfedgeCount).foldlM
    (fun out (halfedgeID : Nat) =>
      ccs__RefineCageHalfedges_iteration cage vertexCount edgeCount faceCount out halfedgeID)
    halfedgesOut

/-- The kernel `ccs__RefineCageHalfedges`: `halfedgesOut = subd->halfedges` is
the region of level 1. -/
def ccs__RefineCageHalfedges (subd : cc_Subd) : Option cc_Subd := do
  let cage := subd.cage
  let vertexCount := ccm_VertexCount cage
  let edgeCount := ccm_EdgeCount cage
  let faceCount := ccm_FaceCount cage
  let halfedgeCount := ccm_HalfedgeCount cage
  let halfedgesOut ← subd.halfedges[0]?
  let out ← ccs__RefineCageHalfedges_loop cage vertexCount edgeCount faceCount halfedgeCount
    halfedgesOut
  some { subd with halfedges := subd.halfedges.set 0 out }

/-! ## Counts and accessors of the levels at least 1 -/

/-- Modelled from the spec: `ccm_HalfedgeCountAtDepth` of the header,
`H_l = H0 * 4^l` (section 3). -/
def ccm_HalfedgeCountAtDepth (cage : cc_Mesh) (depth : Nat) : Nat :=
  ccm_HalfedgeCount cage * 4 ^ depth

/-- Modelled from the spec: `ccm_FaceCountAtDepth_Fast` of the header,
`F_0 = F0`, `F_1 = H0` and `F_(l+1) = 4 * F_l` (section 3). -/
def ccm_FaceCountAtDepth_Fast (cage : cc_Mesh) (depth : Nat) : Nat :=
  match depth with
  | 0 => ccm_FaceCount cage
  | d + 1 => ccm_HalfedgeCount cage * 4 ^ d

/-- Modelled from the spec: `ccm_EdgeCountAtDepth_Fast` of the header,
`E_(l+1) = 2 * E_l + H_l` (section 3). -/
def ccm_EdgeCountAtDepth_Fast (cage : cc_Mesh) (depth : Nat) : Nat :=
  match depth with
  | 0 => ccm_EdgeCount cage
  | d + 1 => 2 * ccm_EdgeCountAtDepth_Fast cage d + ccm_HalfedgeCountAtDepth cage d

/-- Modelled from the spec: `ccm_VertexCountAtDepth_Fast` of the header,
`V_(l+1) = V_l + F_l + E_l` (section 3). -/
def ccm_VertexCountAtDepth_Fast (cage : cc_Mesh) (depth : Nat) : Nat :=
  match depth with
  | 0 => ccm_VertexCount cage
  | d + 1 => ccm_VertexCountAtDepth_Fast cage d + ccm_FaceCountAtDepth_Fast cage d
      + ccm_EdgeCountAtDepth_Fast cage d

/-- Modelled from the spec: `ccm_CreaseCountAtDepth` of the header; every edge
has exactly one crease record (section 3), so this is the edge count `E_l`. -/
def ccm_CreaseCountAtDepth (cage : cc_Mesh) (depth : Nat) : Nat :=
  ccm_EdgeCountAtDepth_Fast cage depth

/-- Modelled from the spec: `ccm_HalfedgeNextID_Quad` of the header,
`4f + (h+1) mod 4` in the block `[4f, 4f+4)` of four consecutive identifiers
that holds `h` (section 3); `f` is the floor of `h/4` and `mod` the remainder in
`[0, 4)`, also for a negative `h`. -/
def ccm_HalfedgeNextID_Quad (halfedgeID : Int) : Int :=
  4 * (halfedgeID / 4) + (halfedgeID + 1) % 4

/-- Modelled from the spec: `ccm_HalfedgePrevID_Quad` of the header,
`4f + (h+3) mod 4` in the block `[4f, 4f+4)` that holds `h` (section 3). -/
def ccm_HalfedgePrevID_Quad (halfedgeID : Int) : Int :=
  4 * (halfedgeID / 4) + (halfedgeID + 3) % 4

/-- Modelled from the spec: `ccm_HalfedgeFaceID_Quad` of the header, `h/4`
(section 3). -/
def ccm_HalfedgeFaceID_Quad (halfedgeID : Int) : Int :=
  halfedgeID / 4

/-- Modelled from the spec: `ccm_FaceToHalfedgeID_Quad` of the header, the first
halfedge `4f` of the block `[4f, 4f+4)` of the quad `f` (section 3). -/
def ccm_FaceToHalfedgeID_Quad (faceID : Int) : Int :=
  4 * faceID

/-- The region of a buffer of the subdivision that holds level `depth`. -/
def ccs__Level {α : Type} (buffer : List (List α)) (depth : Nat) : Option (List α) :=
  if 1 ≤ depth then buffer[depth - 1]? else none

/-- Modelled from the spec: `ccs_MaxDepth` of the header. -/
def ccs_MaxDepth (subd : cc_Subd) : Nat := subd.maxDepth

/-- Modelled from the spec: `ccs_HalfedgeTwinID` of the header reads the
halfedge record of the level (section 4.1: "edge and twin read the derived
halfedge record"). -/
def ccs_HalfedgeTwinID (subd : cc_Subd) (halfedgeID : Int) (depth : Nat) : Option Int := do
  let level ← ccs__Level subd.halfedges depth
  (readAt level halfedgeID).map (fun r => r.twinID)

/-- Modelled from the spec: `ccs_HalfedgeEdgeID` of the header reads the halfedge
record of the level. -/
def ccs_HalfedgeEdgeID (subd : cc_Subd) (halfedgeID : Int) (depth : Nat) : Option Int := do
  let level ← ccs__Level subd.halfedges depth
  (readAt level halfedgeID).map (fun r => r.edgeID)

/-- Modelled from the spec: `ccs_HalfedgeVertexID` of the header reads the
halfedge record of the level. -/
def ccs_HalfedgeVertexID (subd : cc_Subd) (halfedgeID : Int) (depth : Nat) : Option Int := do
  let level ← ccs__Level subd.halfedges depth
  (readAt level halfedgeID).map (fun r => r.vertexID)

/-! ## `ccs__RefineHalfedges` and `ccs_RefineHalfedges` -/

/-- One iteration of the loop of `ccs__RefineHalfedges`: the reads of level
`depth`, then the assignments to the four new halfedges. -/
def ccs__RefineHalfedges_iteration (subd : cc_Subd) (depth : Nat)
    (vertexCount edgeCount faceCount : Int)
    (halfedgesOut : List cc_Halfedge_SemiRegular) (halfedgeID : Int) :
    Option (List cc_Halfedge_SemiRegular) := do
  let twinID ← ccs_HalfedgeTwinID subd halfedgeID depth
  let prevID := ccm_HalfedgePrevID_Quad halfedgeID
  let nextID := ccm_HalfedgeNextID_Quad halfedgeID
  let faceID := ccm_HalfedgeFaceID_Quad halfedgeID
  let edgeID ← ccs_HalfedgeEdgeID subd halfedgeID depth
  let vertexID ← ccs_HalfedgeVertexID subd halfedgeID depth
  let prevEdgeID ← ccs_HalfedgeEdgeID subd prevID depth
  let prevTwinID ← ccs_HalfedgeTwinID subd prevID depth
  let twinNextID := ccm_HalfedgeNextID_Quad twinID
  writeNewHalfedges vertexCount edgeCount faceCount halfedgesOut
    halfedgeID twinID prevID nextID faceID edgeID prevEdgeID prevTwinID vertexID twinNextID

/-- The loop of `ccs__RefineHalfedges` over the halfedges of level `depth`. -/
def ccs__RefineHalfedges_loop (subd : cc_Subd) (depth : Nat)
    (vertexCount edgeCount faceCount : Int)
    (halfedgeCount : Nat) (halfedgesOut : List cc_Halfedge_SemiRegular) :
    Option (List cc_Halfedge_SemiRegular) :=
  (List.range halfedgeCount).foldlM
    (fun out (halfedgeID : Nat) =>
      ccs__RefineHalfedges_iteration subd depth vertexCount edgeCount faceCount out halfedgeID)
    halfedgesOut

/-- The kernel `ccs__RefineHalfedges`: `halfedgesOut = &subd->halfedges[stride]`
is the region of level `depth + 1`. -/
def ccs__RefineHalfedges (subd : cc_Subd) (depth : Nat) : Option cc_Subd := do
  let cage := subd.cage
  let halfedgeCount := ccm_HalfedgeCountAtDepth cage depth
  let vertexCount := ccm_VertexCountAtDepth_Fast cage depth
  let edgeCount := ccm_EdgeCountAtDepth_Fast cage depth
  let faceCount := ccm_FaceCountAtDepth_Fast cage depth
  let halfedgesOut ← ccs__Level subd.halfedges (depth + 1)
  let out ← ccs__RefineHalfedges_loop subd depth vertexCount edgeCount faceCount halfedgeCount
    halfedgesOut
  some { subd with halfedges := subd.halfedges.set depth out }

/-- The entry point `ccs_RefineHalfedges`: the cage kernel, then the kernel of
every depth `1 ≤ depth < maxDepth`. -/
def ccs_RefineHalfedges (subd : cc_Subd) : Option cc_Subd := do
  let maxDepth := ccs_MaxDepth subd
  let subd ← ccs__RefineCageHalfedges subd
  (List.range' 1 (maxDepth - 1)).foldlM (fun s depth => ccs__RefineHalfedges s depth) subd

/-! ## Array access lemmas -/

theorem readAt_natCast {α : Type} (xs : List α) (n : Nat) : readAt xs (n : Int) = xs[n]? := by
  simp [readAt]

theorem readAt_eq_some_iff {α : Type} (xs : List α) (i : Int) (x : α) :
    readAt xs i = some x ↔ 0 ≤ i ∧ xs[i.toNat]? = some x := by
  unfold readAt
  split <;> simp_all

theorem writeAt_natCast {α : Type} (xs : List α) (n : Nat) (f : α → α)
    (h : n < xs.length) : writeAt xs (n : Int) f = some (xs.modify f n) := by
  have h1 : xs[n]? = some xs[n] := List.getElem?_eq_getElem h
  simp only [writeAt, readAt_natCast, h1, Int.toNat_ofNat]
  congr 1
  apply List.ext_getElem?
  intro m
  rw [List.getElem?_modify, List.getElem?_set]
  by_cases hm : n = m
  · subst hm
    simp [h]
  · simp [hm]

/-- The record the twelve assignments leave in a slot: the three written
fields, and the `uvID` the slot had. -/
def newHalfedge (twinID edgeID vertexID : Int) (old : cc_Halfedge_SemiRegular) :
    cc_Halfedge_SemiRegular :=
  { twinID := twinID, edgeID := edgeID, vertexID := vertexID, uvID := old.uvID }

/-- The effect of the twelve assignments of one iteration on the slot `j` whose
content was `old`. -/
def newHalfedges_slot (V E F : Int) (h : Nat) (t p n f e ep pt v tn : Int) (j : Nat)
    (old : cc_Halfedge_SemiRegular) : cc_Halfedge_SemiRegular :=
  if j = 4 * h then newHalfedge (4 * tn + 3) (2 * e + (if (h : Int) > t then 0 else 1)) v old
  else if j = 4 * h + 1 then newHalfedge (4 * n + 2) (2 * E + h) (V + F + e) old
  else if j = 4 * h + 2 then newHalfedge (4 * p + 1) (2 * E + p) (V + f) old
  else if j = 4 * h + 3 then
    newHalfedge (4 * pt + 0) (2 * ep + (if p > pt then 1 else 0)) (V + F + ep) old
  else old

theorem writeNewHalfedges_spec (V E F : Int) (out : List cc_Halfedge_SemiRegular) (h : Nat)
    (t p n f e ep pt v tn : Int) (hlen : 4 * h + 3 < out.length) :
    ∃ out', writeNewHalfedges V E F out (h : Int) t p n f e ep pt v tn = some out' ∧
      out'.length = out.length ∧
      ∀ j, out'[j]? = (out[j]?).map (newHalfedges_slot V E F h t p n f e ep pt v tn j) := by
  have e0 : (4 * (h : Int) + 0) = ((4 * h : Nat) : Int) := by push_cast; ring
  have e1 : (4 * (h : Int) + 1) = ((4 * h + 1 : Nat) : Int) := by push_cast; ring
  have e2 : (4 * (h : Int) + 2) = ((4 * h + 2 : Nat) : Int) := by push_cast; ring
  have e3 : (4 * (h : Int) + 3) = ((4 * h + 3 : Nat) : Int) := by push_cast; ring
  unfold writeNewHalfedges setTwinID setEdgeID setVertexID
  rw [e0, e1, e2, e3]
  simp only [Option.bind_eq_bind]
  rw [writeAt_natCast _ _ _ (by omega)]
  simp only [Option.some_bind]
  iterate 10
    rw [writeAt_natCast _ _ _ (by simp only [List.length_modify]; omega)]
    simp only [Option.some_bind]
  rw [writeAt_natCast _ _ _ (by simp only [List.length_modify]; omega)]
  refine ⟨_, rfl, by simp only [List.length_modify], ?_⟩
  intro j
  simp only [List.getElem?_modify, Option.map_eq_map, Option.map_map]
  cases hj : out[j]? with
  | none => simp
  | some old =>
    simp only [Option.map_some', Function.comp_apply, newHalfedges_slot, newHalfedge]
    by_cases c0 : j = 4 * h
    · subst c0; simp
    · by_cases c1 : j = 4 * h + 1
      · subst c1; simp
      · by_cases c2 : j = 4 * h + 2
        · subst c2; simp
        · by_cases c3 : j = 4 * h + 3
          · subst c3; simp
          · have d0 : ¬ (4 * h = j) := fun hh => c0 hh.symm
            have d1 : ¬ (4 * h + 1 = j) := fun hh => c1 hh.symm
            have d2 : ¬ (4 * h + 2 = j) := fun hh => c2 hh.symm
            have d3 : ¬ (4 * h + 3 = j) := fun hh => c3 hh.symm
            simp [c0, c1, c2, c3, d0, d1, d2, d3]

/-! ## The loop over the parent halfedges -/

/-- A loop whose iteration `h` rewrites the slots of the block `[4h, 4h+4)` and
no other slot rewrites, after `n` iterations, the slots below `4n`. -/
theorem foldlM_blocks (it : List cc_Halfedge_SemiRegular → Nat → Option (List cc_Halfedge_SemiRegular))
    (slot : Nat → Nat → cc_Halfedge_SemiRegular → cc_Halfedge_SemiRegular)
    (H : Nat) (out : List cc_Halfedge_SemiRegular)
    (hit : ∀ h, h < H → ∀ o : List cc_Halfedge_SemiRegular, o.length = out.length →
      ∃ o', it o h = some o' ∧ o'.length = o.length ∧ ∀ j, o'[j]? = (o[j]?).map (slot h j))
    (hslot : ∀ h j old, j / 4 ≠ h → slot h j old = old) :
    ∀ n, n ≤ H → ∃ o', (List.range n).foldlM it out = some o' ∧ o'.length = out.length ∧
      ∀ j, o'[j]? = (out[j]?).map (fun old => if j < 4 * n then slot (j / 4) j old else old) := by
  intro n
  induction n with
  | zero =>
    intro _
    refine ⟨out, by simp, rfl, ?_⟩
    intro j
    cases out[j]? <;> simp
  | succ n ih =>
    intro hn
    obtain ⟨o1, h1, l1, g1⟩ := ih (by omega)
    obtain ⟨o2, h2, l2, g2⟩ := hit n (by omega) o1 l1
    refine ⟨o2, ?_, by omega, ?_⟩
    · rw [List.range_succ, List.foldlM_append, h1]
      simp [h2]
    · intro j
      rw [g2, g1]
      cases out[j]? with
      | none => simp
      | some old =>
        simp only [Option.map_some', Option.some.injEq]
        by_cases c : j / 4 = n
        · have c1 : ¬ (j < 4 * n) := by omega
          have c2 : j < 4 * (n + 1) := by omega
          simp [c1, c2, c]
        · rw [hslot n j _ c]
          by_cases c1 : j < 4 * n
          · have c2 : j < 4 * (n + 1) := by omega
            simp [c1, c2]
          · have c2 : ¬ (j < 4 * (n + 1)) := by omega
            simp [c1, c2]

theorem newHalfedges_slot_other (V E F : Int) (h : Nat) (t p n f e ep pt v tn : Int) (j : Nat)
    (old : cc_Halfedge_SemiRegular) (hj : j / 4 ≠ h) :
    newHalfedges_slot V E F h t p n f e ep pt v tn j old = old := by
  unfold newHalfedges_slot
  have c0 : ¬ (j = 4 * h) := by omega
  have c1 : ¬ (j = 4 * h + 1) := by omega
  have c2 : ¬ (j = 4 * h + 2) := by omega
  have c3 : ¬ (j = 4 * h + 3) := by omega
  simp [c0, c1, c2, c3]

/-- The parent level as the kernels see it: the counts, the connectivity of
every parent halfedge, and the `twinNextID` its iteration computes. -/
structure Parent where
  H : Nat
  V : Int
  E : Int
  F : Int
  twin : Int → Int
  next : Int → Int
  prev : Int → Int
  face : Int → Int
  edge : Int → Int
  vertex : Int → Int
  twinNext : Int → Int

/-- The effect of the iteration `h` on the slot `j`. -/
def Parent.slot (P : Parent) (h j : Nat) (old : cc_Halfedge_SemiRegular) :
    cc_Halfedge_SemiRegular :=
  newHalfedges_slot P.V P.E P.F h (P.twin h) (P.prev h) (P.next h) (P.face h) (P.edge h)
    (P.edge (P.prev h)) (P.twin (P.prev h)) (P.vertex h) (P.twinNext h) j old

/-- The effect of the whole loop on the slot `j`. -/
def Parent.child (P : Parent) (j : Nat) (old : cc_Halfedge_SemiRegular) :
    cc_Halfedge_SemiRegular :=
  if j < 4 * P.H then P.slot (j / 4) j old else old

instance : Inhabited cc_Halfedge := ⟨⟨0, 0, 0, 0, 0, 0, 0⟩⟩

instance : Inhabited cc_Halfedge_SemiRegular := ⟨⟨0, 0, 0, 0⟩⟩

/-- The cage as a parent level. -/
def cageParent (cage : cc_Mesh) : Parent where
  H := ccm_HalfedgeCount cage
  V := ccm_VertexCount cage
  E := ccm_EdgeCount cage
  F := ccm_FaceCount cage
  twin := fun h => (cage.halfedges.getD h.toNat default).twinID
  next := fun h => (cage.halfedges.getD h.toNat default).nextID
  prev := fun h => (cage.halfedges.getD h.toNat default).prevID
  face := fun h => (cage.halfedges.getD h.toNat default).faceID
  edge := fun h => (cage.halfedges.getD h.toNat default).edgeID
  vertex := fun h => (cage.halfedges.getD h.toNat default).vertexID
  twinNext := fun h =>
    if (cage.halfedges.getD h.toNat default).twinID ≥ 0 then
      (cage.halfedges.getD (cage.halfedges.getD h.toNat default).twinID.toNat default).nextID
    else -1

/-- Every index the cage kernel follows stays inside the halfedge array: the
`prevID` of every halfedge, and its `twinID` when it is not negative. -/
def ccm_LinksInBounds (cage : cc_Mesh) : Prop :=
  ∀ r ∈ cage.halfedges, 0 ≤ r.prevID ∧ r.prevID < (ccm_HalfedgeCount cage : Int) ∧
    r.twinID < (ccm_HalfedgeCount cage : Int)

instance (cage : cc_Mesh) : Decidable (ccm_LinksInBounds cage) := by
  unfold ccm_LinksInBounds
  infer_instance

theorem readAt_getD {α : Type} [Inhabited α] (xs : List α) (i : Int) (h0 : 0 ≤ i)
    (h1 : i < (xs.length : Int)) : readAt xs i = some (xs.getD i.toNat default) := by
  have h2 : i.toNat < xs.length := by omega
  simp [readAt, h0, List.getD_eq_getElem?_getD, List.getElem?_eq_getElem h2]

theorem cage_iteration_spec (cage : cc_Mesh) (hw : ccm_LinksInBounds cage) (h : Nat)
    (hh : h < ccm_HalfedgeCount cage) (out : List cc_Halfedge_SemiRegular)
    (hlen : 4 * ccm_HalfedgeCount cage ≤ out.length) :
    ∃ out', ccs__RefineCageHalfedges_iteration cage (ccm_VertexCount cage) (ccm_EdgeCount cage)
        (ccm_FaceCount cage) out (h : Int) = some out' ∧ out'.length = out.length ∧
      ∀ j, out'[j]? = (out[j]?).map ((cageParent cage).slot h j) := by
  unfold ccm_HalfedgeCount at hh hlen
  have rh : readAt cage.halfedges (h : Int) = some (cage.halfedges.getD h default) := by
    have := readAt_getD cage.halfedges (h : Int) (by omega) (by omega)
    simpa using this
  have hmem : cage.halfedges.getD h default ∈ cage.halfedges := by
    rw [List.getD_eq_getElem?_getD, List.getElem?_eq_getElem hh]
    exact List.getElem_mem _
  obtain ⟨hp0, hp1, ht1⟩ := hw _ hmem
  unfold ccm_HalfedgeCount at hp1 ht1
  have rp := readAt_getD cage.halfedges _ hp0 hp1
  unfold ccs__RefineCageHalfedges_iteration ccm_HalfedgeTwinID ccm_HalfedgePrevID
    ccm_HalfedgeNextID ccm_HalfedgeFaceID ccm_HalfedgeEdgeID ccm_HalfedgeVertexID
  simp only [rh, rp, Option.map_some', Option.bind_eq_bind, Option.some_bind]
  by_cases ht : (cage.halfedges.getD h default).twinID ≥ 0
  · have rt := readAt_getD cage.halfedges _ ht ht1
    simp only [ht, if_true, rt, Option.map_some', Option.some_bind]
    obtain ⟨o, e1, e2, e3⟩ := writeNewHalfedges_spec (ccm_VertexCount cage) (ccm_EdgeCount cage)
      (ccm_FaceCount cage) out h (cage.halfedges.getD h default).twinID
      (cage.halfedges.getD h default).prevID (cage.halfedges.getD h default).nextID
      (cage.halfedges.getD h default).faceID (cage.halfedges.getD h default).edgeID
      (cage.halfedges.getD (cage.halfedges.getD h default).prevID.toNat default).edgeID
      (cage.halfedges.getD (cage.halfedges.getD h default).prevID.toNat default).twinID
      (cage.halfedges.getD h default).vertexID
      (cage.halfedges.getD (cage.halfedges.getD h default).twinID.toNat default).nextID
      (by omega)
    refine ⟨o, e1, e2, ?_⟩
    intro j
    rw [e3]
    unfold Parent.slot cageParent
    simp only [if_pos ht, Int.toNat_ofNat]
  · simp only [ht, if_false, Option.some_bind]
    obtain ⟨o, e1, e2, e3⟩ := writeNewHalfedges_spec (ccm_VertexCount cage) (ccm_EdgeCount cage)
      (ccm_FaceCount cage) out h (cage.halfedges.getD h default).twinID
      (cage.halfedges.getD h default).prevID (cage.halfedges.getD h default).nextID
      (cage.halfedges.getD h default).faceID (cage.halfedges.getD h default).edgeID
      (cage.halfedges.getD (cage.halfedges.getD h default).prevID.toNat default).edgeID
      (cage.halfedges.getD (cage.halfedges.getD h default).prevID.toNat default).twinID
      (cage.halfedges.getD h default).vertexID (-1) (by omega)
    refine ⟨o, e1, e2, ?_⟩
    intro j
    rw [e3]
    unfold Parent.slot cageParent
    simp only [if_neg ht, Int.toNat_ofNat]

theorem cage_loop_spec (cage : cc_Mesh) (hw : ccm_LinksInBounds cage)
    (out : List cc_Halfedge_SemiRegular) (hlen : 4 * ccm_HalfedgeCount cage ≤ out.length) :
    ∃ out', ccs__RefineCageHalfedges_loop cage (ccm_VertexCount cage) (ccm_EdgeCount cage)
        (ccm_FaceCount cage) (ccm_HalfedgeCount cage) out = some out' ∧
      out'.length = out.length ∧
      ∀ j, out'[j]? = (out[j]?).map ((cageParent cage).child j) := by
  have := foldlM_blocks
    (fun o (h : Nat) => ccs__RefineCageHalfedges_iteration cage (ccm_VertexCount cage)
      (ccm_EdgeCount cage) (ccm_FaceCount cage) o (h : Int))
    (cageParent cage).slot (ccm_HalfedgeCount cage) out
    (fun h hh o ho => cage_iteration_spec cage hw h hh o (by omega))
    (fun h j old hj => newHalfedges_slot_other _ _ _ _ _ _ _ _ _ _ _ _ _ _ _ hj)
    (ccm_HalfedgeCount cage) (le_refl _)
  obtain ⟨o, e1, e2, e3⟩ := this
  exact ⟨o, e1, e2, e3⟩

theorem cage_kernel_spec (subd : cc_Subd) (out : List cc_Halfedge_SemiRegular)
    (hout : subd.halfedges[0]? = some out) (hw : ccm_LinksInBounds subd.cage)
    (hlen : 4 * ccm_HalfedgeCount subd.cage ≤ out.length) :
    ∃ out', ccs__RefineCageHalfedges subd = some { subd with halfedges := subd.halfedges.set 0 out' } ∧
      out'.length = out.length ∧
      ∀ j, out'[j]? = (out[j]?).map ((cageParent subd.cage).child j) := by
  obtain ⟨o, e1, e2, e3⟩ := cage_loop_spec subd.cage hw out hlen
  refine ⟨o, ?_, e2, e3⟩
  unfold ccs__RefineCageHalfedges
  simp only [hout, Option.bind_eq_bind, Option.some_bind, e1]

/-- Level `depth` of the subdivision as a parent level; `halfedgesIn` is its
region of the halfedge buffer. -/
def levelParent (cage : cc_Mesh) (depth : Nat) (halfedgesIn : List cc_Halfedge_SemiRegular) :
    Parent where
  H := ccm_HalfedgeCountAtDepth cage depth
  V := ccm_VertexCountAtDepth_Fast cage depth
  E := ccm_EdgeCountAtDepth_Fast cage depth
  F := ccm_FaceCountAtDepth_Fast cage depth
  twin := fun h => (halfedgesIn.getD h.toNat default).twinID
  next := fun h => ccm_HalfedgeNextID_Quad h
  prev := fun h => ccm_HalfedgePrevID_Quad h
  face := fun h => ccm_HalfedgeFaceID_Quad h
  edge := fun h => (halfedgesIn.getD h.toNat default).edgeID
  vertex := fun h => (halfedgesIn.getD h.toNat default).vertexID
  twinNext := fun h => ccm_HalfedgeNextID_Quad (halfedgesIn.getD h.toNat default).twinID

theorem ccm_HalfedgeCountAtDepth_dvd (cage : cc_Mesh) (depth : Nat) (hd : 1 ≤ depth) :
    4 ∣ ccm_HalfedgeCountAtDepth cage depth := by
  unfold ccm_HalfedgeCountAtDepth
  obtain ⟨d, rfl⟩ : ∃ d, depth = d + 1 := ⟨depth - 1, by omega⟩
  exact Dvd.intro_left _ (by rw [pow_succ, mul_assoc])

theorem level_iteration_spec (subd : cc_Subd) (depth : Nat)
    (halfedgesIn : List cc_Halfedge_SemiRegular)
    (hin : ccs__Level subd.halfedges depth = some halfedgesIn)
    (hH : halfedgesIn.length = ccm_HalfedgeCountAtDepth subd.cage depth)
    (h : Nat) (hh : h < ccm_HalfedgeCountAtDepth subd.cage depth)
    (out : List cc_Halfedge_SemiRegular)
    (hlen : 4 * ccm_HalfedgeCountAtDepth subd.cage depth ≤ out.length) :
    ∃ out', ccs__RefineHalfedges_iteration subd depth (ccm_VertexCountAtDepth_Fast subd.cage depth)
        (ccm_EdgeCountAtDepth_Fast subd.cage depth) (ccm_FaceCountAtDepth_Fast subd.cage depth)
        out (h : Int) = some out' ∧ out'.length = out.length ∧
      ∀ j, out'[j]? = (out[j]?).map ((levelParent subd.cage depth halfedgesIn).slot h j) := by
  have hd : 1 ≤ depth := by
    unfold ccs__Level at hin
    by_contra hc
    simp [hc] at hin
  obtain ⟨k, hk⟩ := ccm_HalfedgeCountAtDepth_dvd subd.cage depth hd
  have rh : readAt halfedgesIn (h : Int) = some (halfedgesIn.getD h default) := by
    have := readAt_getD halfedgesIn (h : Int) (by omega) (by omega)
    simpa using this
  have hp0 : 0 ≤ ccm_HalfedgePrevID_Quad (h : Int) := by
    unfold ccm_HalfedgePrevID_Quad; omega
  have hp1 : ccm_HalfedgePrevID_Quad (h : Int) < (halfedgesIn.length : Int) := by
    unfold ccm_HalfedgePrevID_Quad; omega
  have rp := readAt_getD halfedgesIn _ hp0 hp1
  unfold ccs__RefineHalfedges_iteration ccs_HalfedgeTwinID ccs_HalfedgeEdgeID ccs_HalfedgeVertexID
  simp only [hin, rh, rp, Option.map_some', Option.bind_eq_bind, Option.some_bind]
  obtain ⟨o, e1, e2, e3⟩ := writeNewHalfedges_spec (ccm_VertexCountAtDepth_Fast subd.cage depth)
    (ccm_EdgeCountAtDepth_Fast subd.cage depth) (ccm_FaceCountAtDepth_Fast subd.cage depth)
    out h (halfedgesIn.getD h default).twinID
    (ccm_HalfedgePrevID_Quad h) (ccm_HalfedgeNextID_Quad h) (ccm_HalfedgeFaceID_Quad h)
    (halfedgesIn.getD h default).edgeID
    (halfedgesIn.getD (ccm_HalfedgePrevID_Quad h).toNat default).edgeID
    (halfedgesIn.getD (ccm_HalfedgePrevID_Quad h).toNat default).twinID
    (halfedgesIn.getD h default).vertexID
    (ccm_HalfedgeNextID_Quad (halfedgesIn.getD h default).twinID)
    (by omega)
  refine ⟨o, e1, e2, ?_⟩
  intro j
  rw [e3]
  unfold Parent.slot levelParent
  simp only [Int.toNat_ofNat]

theorem level_kernel_spec (subd : cc_Subd) (depth : Nat)
    (halfedgesIn out : List cc_Halfedge_SemiRegular)
    (hin : ccs__Level subd.halfedges depth = some halfedgesIn)
    (hH : halfedgesIn.length = ccm_HalfedgeCountAtDepth subd.cage depth)
    (hout : ccs__Level subd.halfedges (depth + 1) = some out)
    (hlen : 4 * ccm_HalfedgeCountAtDepth subd.cage depth ≤ out.length) :
    ∃ out', ccs__RefineHalfedges subd depth =
        some { subd with halfedges := subd.halfedges.set depth out' } ∧
      out'.length = out.length ∧
      ∀ j, out'[j]? = (out[j]?).map ((levelParent subd.cage depth halfedgesIn).child j) := by
  have := foldlM_blocks
    (fun o (h : Nat) => ccs__RefineHalfedges_iteration subd depth
      (ccm_VertexCountAtDepth_Fast subd.cage depth) (ccm_EdgeCountAtDepth_Fast subd.cage depth)
      (ccm_FaceCountAtDepth_Fast subd.cage depth) o (h : Int))
    (levelParent subd.cage depth halfedgesIn).slot (ccm_HalfedgeCountAtDepth subd.cage depth) out
    (fun h hh o ho => level_iteration_spec subd depth halfedgesIn hin hH h hh o (by omega))
    (fun h j old hj => newHalfedges_slot_other _ _ _ _ _ _ _ _ _ _ _ _ _ _ _ hj)
    (ccm_HalfedgeCountAtDepth subd.cage depth) (le_refl _)
  obtain ⟨o, e1, e2, e3⟩ := this
  refine ⟨o, ?_, e2, e3⟩
  unfold ccs__RefineHalfedges ccs__RefineHalfedges_loop
  simp only [hout, Option.bind_eq_bind, Option.some_bind, e1]

/-! ## The child level in closed form -/

/-- The `twinID` of the child `i` of the parent halfedge `h`. -/
def Parent.cTwin (P : Parent) (h : Int) (i : Nat) : Int :=
  match i with
  | 0 => 4 * P.twinNext h + 3
  | 1 => 4 * P.next h + 2
  | 2 => 4 * P.prev h + 1
  | _ => 4 * P.twin (P.prev h) + 0

/-- The `edgeID` of the child `i` of the parent halfedge `h`. -/
def Parent.cEdge (P : Parent) (h : Int) (i : Nat) : Int :=
  match i with
  | 0 => 2 * P.edge h + (if h > P.twin h then 0 else 1)
  | 1 => 2 * P.E + h
  | 2 => 2 * P.E + P.prev h
  | _ => 2 * P.edge (P.prev h) + (if P.prev h > P.twin (P.prev h) then 1 else 0)

/-- The `vertexID` of the child `i` of the parent halfedge `h`. -/
def Parent.cVertex (P : Parent) (h : Int) (i : Nat) : Int :=
  match i with
  | 0 => P.vertex h
  | 1 => P.V + P.F + P.edge h
  | 2 => P.V + P.face h
  | _ => P.V + P.F + P.edge (P.prev h)

theorem Parent.child_eq (P : Parent) (h i : Nat) (hi : i < 4) (hh : h < P.H)
    (old : cc_Halfedge_SemiRegular) :
    P.child (4 * h + i) old = newHalfedge (P.cTwin h i) (P.cEdge h i) (P.cVertex h i) old := by
  have hj : 4 * h + i < 4 * P.H := by omega
  have hd : (4 * h + i) / 4 = h := by omega
  unfold Parent.child Parent.slot newHalfedges_slot
  rw [if_pos hj, hd]
  have h4 : i = 0 ∨ i = 1 ∨ i = 2 ∨ i = 3 := by omega
  rcases h4 with rfl | rfl | rfl | rfl <;> simp [Parent.cTwin, Parent.cEdge, Parent.cVertex]

/-- The parent level is a halfedge mesh: `next` and `prev` are inverse
permutations of the halfedges, `twin` is an involution on the halfedges that
have one and keeps the edge, and `twinNext` is the successor of the twin,
negative when there is no twin. -/
structure Parent.Valid (P : Parent) : Prop where
  next_range : ∀ h : Int, 0 ≤ h → h < P.H → 0 ≤ P.next h ∧ P.next h < P.H
  prev_range : ∀ h : Int, 0 ≤ h → h < P.H → 0 ≤ P.prev h ∧ P.prev h < P.H
  next_prev : ∀ h : Int, 0 ≤ h → h < P.H → P.next (P.prev h) = h
  prev_next : ∀ h : Int, 0 ≤ h → h < P.H → P.prev (P.next h) = h
  twin_lt : ∀ h : Int, 0 ≤ h → h < P.H → P.twin h < P.H
  twin_twin : ∀ h : Int, 0 ≤ h → h < P.H → 0 ≤ P.twin h → P.twin (P.twin h) = h
  twin_edge : ∀ h : Int, 0 ≤ h → h < P.H → 0 ≤ P.twin h → P.edge (P.twin h) = P.edge h
  twinNext_pos : ∀ h : Int, 0 ≤ h → h < P.H → 0 ≤ P.twin h → P.twinNext h = P.next (P.twin h)
  twinNext_neg : ∀ h : Int, 0 ≤ h → h < P.H → P.twin h < 0 → P.twinNext h < 0

/-- No halfedge is its own twin. -/
def Parent.TwinIrreflexive (P : Parent) : Prop :=
  ∀ h : Int, 0 ≤ h → h < P.H → P.twin h ≠ h

/-- The twin of a child that has one is a child, its twin is the child itself,
and the two are on the same child edge. -/
theorem Parent.child_twin (P : Parent) (hv : P.Valid) (hne : P.TwinIrreflexive)
    (h : Int) (h0 : 0 ≤ h) (hH : h < P.H) (i : Nat) (hi : i < 4) (ht : 0 ≤ P.cTwin h i) :
    ∃ (h2 : Int) (i2 : Nat), 0 ≤ h2 ∧ h2 < P.H ∧ i2 < 4 ∧ P.cTwin h i = 4 * h2 + i2 ∧
      P.cTwin h2 i2 = 4 * h + i ∧ P.cEdge h2 i2 = P.cEdge h i := by
  have h4 : i = 0 ∨ i = 1 ∨ i = 2 ∨ i = 3 := by omega
  obtain ⟨hn0, hn1⟩ := hv.next_range h h0 hH
  obtain ⟨hp0, hp1⟩ := hv.prev_range h h0 hH
  rcases h4 with rfl | rfl | rfl | rfl
  · -- c0: the twin is c3 of next (twin h)
    simp only [Parent.cTwin] at ht
    have htw : 0 ≤ P.twin h := by
      by_contra hc
      have := hv.twinNext_neg h h0 hH (by omega)
      omega
    have htl := hv.twin_lt h h0 hH
    have e1 := hv.twinNext_pos h h0 hH htw
    obtain ⟨a0, a1⟩ := hv.next_range (P.twin h) htw htl
    have e2 := hv.prev_next (P.twin h) htw htl
    have e3 := hv.twin_twin h h0 hH htw
    have e4 := hv.twin_edge h h0 hH htw
    have e5 := hne h h0 hH
    refine ⟨P.next (P.twin h), 3, a0, a1, by omega, ?_, ?_, ?_⟩
    · simp only [Parent.cTwin, e1]; push_cast; ring
    · simp only [Parent.cTwin, e2, e3]; push_cast; ring
    · simp only [Parent.cEdge, e2, e3, e4]
      split_ifs <;> omega
  · -- c1: the twin is c2 of next h
    have e2 := hv.prev_next h h0 hH
    refine ⟨P.next h, 2, hn0, hn1, by omega, ?_, ?_, ?_⟩
    · simp only [Parent.cTwin]; push_cast; ring
    · simp only [Parent.cTwin, e2]; push_cast; ring
    · simp only [Parent.cEdge, e2]
  · -- c2: the twin is c1 of prev h
    have e2 := hv.next_prev h h0 hH
    refine ⟨P.prev h, 1, hp0, hp1, by omega, ?_, ?_, ?_⟩
    · simp only [Parent.cTwin]; push_cast; ring
    · simp only [Parent.cTwin, e2]; push_cast; ring
    · simp only [Parent.cEdge]
  · -- c3: the twin is c0 of twin (prev h)
    simp only [Parent.cTwin] at ht
    have htw : 0 ≤ P.twin (P.prev h) := by omega
    have htl := hv.twin_lt (P.prev h) hp0 hp1
    have e1 := hv.twin_twin (P.prev h) hp0 hp1 htw
    have e2 := hv.twinNext_pos (P.twin (P.prev h)) htw htl (by rw [e1]; exact hp0)
    have e3 := hv.next_prev h h0 hH
    have e4 := hv.twin_edge (P.prev h) hp0 hp1 htw
    have e5 := hne (P.prev h) hp0 hp1
    refine ⟨P.twin (P.prev h), 0, htw, htl, by omega, ?_, ?_, ?_⟩
    · simp only [Parent.cTwin]; push_cast; ring
    · simp only [Parent.cTwin, e2, e1, e3]; push_cast; ring
    · simp only [Parent.cEdge, e1, e4]
      split_ifs <;> omega

/-! ## Invariants of a cage and of a level, stated on the arrays -/

/-- On the cage, `next(prev(h)) = h` and `prev(next(h)) = h` for every halfedge
`h` (the reads succeed and give back `h`). -/
def ccm_NextPrevInvariant (cage : cc_Mesh) : Prop :=
  ∀ h : Nat, h < ccm_HalfedgeCount cage →
    (ccm_HalfedgePrevID cage h).bind (ccm_HalfedgeNextID cage) = some (h : Int) ∧
    (ccm_HalfedgeNextID cage h).bind (ccm_HalfedgePrevID cage) = some (h : Int)

/-- On the cage, `twin(twin(h)) = h` and `edge(twin(h)) = edge(h)` for every
halfedge `h` whose twin is not negative. -/
def ccm_TwinInvariant (cage : cc_Mesh) : Prop :=
  ∀ h : Nat, h < ccm_HalfedgeCount cage → ∀ t ∈ ccm_HalfedgeTwinID cage h, 0 ≤ t →
    ccm_HalfedgeTwinID cage t = some (h : Int) ∧
    ccm_HalfedgeEdgeID cage t = ccm_HalfedgeEdgeID cage h

/-- On the cage, no halfedge is its own twin. -/
def ccm_TwinIrreflexive (cage : cc_Mesh) : Prop :=
  ∀ h : Nat, h < ccm_HalfedgeCount cage → ccm_HalfedgeTwinID cage h ≠ some (h : Int)

/-- On the first `n` halfedges of a level: the twin of a halfedge that has one
is among them, its twin is the halfedge itself, and both are on the same edge. -/
def ccs_TwinInvariant (halfedges : List cc_Halfedge_SemiRegular) (n : Nat) : Prop :=
  n ≤ halfedges.length ∧
  ∀ c : Nat, c < n → ∀ r ∈ halfedges[c]?, 0 ≤ r.twinID →
    r.twinID < n ∧ ∃ rt ∈ readAt halfedges r.twinID, rt.twinID = c ∧ rt.edgeID = r.edgeID

/-- On the first `n` halfedges of a level, no halfedge is its own twin. -/
def ccs_TwinIrreflexive (halfedges : List cc_Halfedge_SemiRegular) (n : Nat) : Prop :=
  ∀ c : Nat, c < n → ∀ r ∈ halfedges[c]?, r.twinID ≠ c

instance (cage : cc_Mesh) : Decidable (ccm_NextPrevInvariant cage) := by
  unfold ccm_NextPrevInvariant
  infer_instance

instance (cage : cc_Mesh) : Decidable (ccm_TwinInvariant cage) := by
  unfold ccm_TwinInvariant
  infer_instance

instance (cage : cc_Mesh) : Decidable (ccm_TwinIrreflexive cage) := by
  unfold ccm_TwinIrreflexive
  infer_instance

instance (halfedges : List cc_Halfedge_SemiRegular) (n : Nat) :
    Decidable (ccs_TwinInvariant halfedges n) := by
  unfold ccs_TwinInvariant
  infer_instance

instance (halfedges : List cc_Halfedge_SemiRegular) (n : Nat) :
    Decidable (ccs_TwinIrreflexive halfedges n) := by
  unfold ccs_TwinIrreflexive
  infer_instance

/-! ## From the arrays to the parent view -/

theorem readAt_map_some_range {α β : Type} (xs : List α) (f : α → β) (i : Int) (v : β)
    (h : (readAt xs i).map f = some v) : 0 ≤ i ∧ i < (xs.length : Int) := by
  unfold readAt at h
  by_cases h0 : 0 ≤ i
  · rw [if_pos h0] at h
    refine ⟨h0, ?_⟩
    by_contra hc
    have : xs.length ≤ i.toNat := by omega
    rw [List.getElem?_eq_none this] at h
    simp at h
  · rw [if_neg h0] at h
    simp at h

theorem cage_twin_eq (cage : cc_Mesh) (h : Int) (h0 : 0 ≤ h) (h1 : h < (ccm_HalfedgeCount cage : Int)) :
    ccm_HalfedgeTwinID cage h = some ((cageParent cage).twin h) := by
  unfold ccm_HalfedgeTwinID
  rw [readAt_getD _ _ h0 h1]
  rfl

theorem cage_next_eq (cage : cc_Mesh) (h : Int) (h0 : 0 ≤ h) (h1 : h < (ccm_HalfedgeCount cage : Int)) :
    ccm_HalfedgeNextID cage h = some ((cageParent cage).next h) := by
  unfold ccm_HalfedgeNextID
  rw [readAt_getD _ _ h0 h1]
  rfl

theorem cage_prev_eq (cage : cc_Mesh) (h : Int) (h0 : 0 ≤ h) (h1 : h < (ccm_HalfedgeCount cage : Int)) :
    ccm_HalfedgePrevID cage h = some ((cageParent cage).prev h) := by
  unfold ccm_HalfedgePrevID
  rw [readAt_getD _ _ h0 h1]
  rfl

theorem cage_edge_eq (cage : cc_Mesh) (h : Int) (h0 : 0 ≤ h) (h1 : h < (ccm_HalfedgeCount cage : Int)) :
    ccm_HalfedgeEdgeID cage h = some ((cageParent cage).edge h) := by
  unfold ccm_HalfedgeEdgeID
  rw [readAt_getD _ _ h0 h1]
  rfl

theorem cage_face_eq (cage : cc_Mesh) (h : Int) (h0 : 0 ≤ h) (h1 : h < (ccm_HalfedgeCount cage : Int)) :
    ccm_HalfedgeFaceID cage h = some ((cageParent cage).face h) := by
  unfold ccm_HalfedgeFaceID
  rw [readAt_getD _ _ h0 h1]
  rfl

theorem cage_vertex_eq (cage : cc_Mesh) (h : Int) (h0 : 0 ≤ h) (h1 : h < (ccm_HalfedgeCount cage : Int)) :
    ccm_HalfedgeVertexID cage h = some ((cageParent cage).vertex h) := by
  unfold ccm_HalfedgeVertexID
  rw [readAt_getD _ _ h0 h1]
  rfl

theorem cageParent_H (cage : cc_Mesh) : (cageParent cage).H = ccm_HalfedgeCount cage := rfl

theorem cageParent_valid (cage : cc_Mesh) (hnp : ccm_NextPrevInvariant cage)
    (htw : ccm_TwinInvariant cage) : (cageParent cage).Valid := by
  have key : ∀ h : Int, 0 ≤ h → h < (ccm_HalfedgeCount cage : Int) →
      (0 ≤ (cageParent cage).prev h ∧ (cageParent cage).prev h < (ccm_HalfedgeCount cage : Int) ∧
        (cageParent cage).next ((cageParent cage).prev h) = h) ∧
      (0 ≤ (cageParent cage).next h ∧ (cageParent cage).next h < (ccm_HalfedgeCount cage : Int) ∧
        (cageParent cage).prev ((cageParent cage).next h) = h) := by
    intro h h0 h1
    obtain ⟨a, b⟩ := hnp h.toNat (by omega)
    have hc : ((h.toNat : Nat) : Int) = h := by omega
    rw [hc] at a b
    rw [cage_prev_eq cage h h0 h1, Option.some_bind] at a
    rw [cage_next_eq cage h h0 h1, Option.some_bind] at b
    obtain ⟨a0, a1⟩ := readAt_map_some_range _ _ _ _ a
    obtain ⟨b0, b1⟩ := readAt_map_some_range _ _ _ _ b
    rw [cage_next_eq cage _ a0 a1] at a
    rw [cage_prev_eq cage _ b0 b1] at b
    exact ⟨⟨a0, a1, Option.some.inj a⟩, ⟨b0, b1, Option.some.inj b⟩⟩
  have tkey : ∀ h : Int, 0 ≤ h → h < (ccm_HalfedgeCount cage : Int) →
      0 ≤ (cageParent cage).twin h →
      (cageParent cage).twin h < (ccm_HalfedgeCount cage : Int) ∧
      (cageParent cage).twin ((cageParent cage).twin h) = h ∧
      (cageParent cage).edge ((cageParent cage).twin h) = (cageParent cage).edge h := by
    intro h h0 h1 ht
    have hc : ((h.toNat : Nat) : Int) = h := by omega
    have := htw h.toNat (by omega) ((cageParent cage).twin h)
      (by rw [hc, cage_twin_eq cage h h0 h1]; exact rfl) ht
    rw [hc] at this
    obtain ⟨a, b⟩ := this
    obtain ⟨a0, a1⟩ := readAt_map_some_range _ _ _ _ a
    rw [cage_twin_eq cage _ a0 a1] at a
    rw [cage_edge_eq cage _ a0 a1, cage_edge_eq cage h h0 h1] at b
    exact ⟨a1, Option.some.inj a, Option.some.inj b⟩
  constructor
  · intro h h0 h1; exact ⟨(key h h0 h1).2.1, (key h h0 h1).2.2.1⟩
  · intro h h0 h1; exact ⟨(key h h0 h1).1.1, (key h h0 h1).1.2.1⟩
  · intro h h0 h1; exact (key h h0 h1).1.2.2
  · intro h h0 h1; exact (key h h0 h1).2.2.2
  · intro h h0 h1
    by_cases ht : 0 ≤ (cageParent cage).twin h
    · exact (tkey h h0 h1 ht).1
    · have : (cageParent cage).H = ccm_HalfedgeCount cage := rfl
      omega
  · intro h h0 h1 ht; exact (tkey h h0 h1 ht).2.1
  · intro h h0 h1 ht; exact (tkey h h0 h1 ht).2.2
  · intro h h0 h1 ht
    have ht2 : (cage.halfedges.getD h.toNat default).twinID ≥ 0 := ht
    show (if (cage.halfedges.getD h.toNat default).twinID ≥ 0 then _ else _) = _
    rw [if_pos ht2]
    rfl
  · intro h h0 h1 ht
    show (if (cage.halfedges.getD h.toNat default).twinID ≥ 0 then _ else _) < 0
    have : ¬ ((cage.halfedges.getD h.toNat default).twinID ≥ 0) := by
      intro hc; exact absurd ht (not_lt.2 hc)
    rw [if_neg this]
    decide

theorem cageParent_irreflexive (cage : cc_Mesh) (hne : ccm_TwinIrreflexive cage) :
    (cageParent cage).TwinIrreflexive := by
  intro h h0 h1 hc
  have hcast : ((h.toNat : Nat) : Int) = h := by omega
  have h2 : h < (ccm_HalfedgeCount cage : Int) := h1
  apply hne h.toNat (by omega)
  rw [hcast, cage_twin_eq cage h h0 h2, hc]

theorem cage_linksInBounds (cage : cc_Mesh) (hnp : ccm_NextPrevInvariant cage)
    (htw : ccm_TwinInvariant cage) : ccm_LinksInBounds cage := by
  have hv := cageParent_valid cage hnp htw
  intro r hr
  obtain ⟨n, hn, rfl⟩ := List.getElem_of_mem hr
  have e : cage.halfedges.getD ((n : Int).toNat) default = cage.halfedges[n] := by
    simp [List.getD_eq_getElem?_getD, List.getElem?_eq_getElem hn]
  have hn2 : (n : Int) < ((cageParent cage).H : Int) := by
    show (n : Int) < ((cage.halfedges.length : Nat) : Int)
    omega
  have a := hv.prev_range n (by omega) hn2
  have b := hv.twin_lt n (by omega) hn2
  simp only [cageParent] at a b
  rw [e] at a b
  exact ⟨a.1, a.2, b⟩

theorem level_read_eq (halfedgesIn : List cc_Halfedge_SemiRegular) (h : Int) (h0 : 0 ≤ h)
    (h1 : h < (halfedgesIn.length : Int)) :
    readAt halfedgesIn h = some (halfedgesIn.getD h.toNat default) :=
  readAt_getD _ _ h0 h1

theorem levelParent_valid (cage : cc_Mesh) (depth : Nat) (hd : 1 ≤ depth)
    (halfedgesIn : List cc_Halfedge_SemiRegular)
    (hH : halfedgesIn.length = ccm_HalfedgeCountAtDepth cage depth)
    (htw : ccs_TwinInvariant halfedgesIn (ccm_HalfedgeCountAtDepth cage depth)) :
    (levelParent cage depth halfedgesIn).Valid := by
  obtain ⟨k, hk⟩ := ccm_HalfedgeCountAtDepth_dvd cage depth hd
  have hPH : (levelParent cage depth halfedgesIn).H = ccm_HalfedgeCountAtDepth cage depth := rfl
  have tkey : ∀ h : Int, 0 ≤ h → h < (ccm_HalfedgeCountAtDepth cage depth : Int) →
      0 ≤ (levelParent cage depth halfedgesIn).twin h →
      (levelParent cage depth halfedgesIn).twin h < (ccm_HalfedgeCountAtDepth cage depth : Int) ∧
      (levelParent cage depth halfedgesIn).twin ((levelParent cage depth halfedgesIn).twin h) = h ∧
      (levelParent cage depth halfedgesIn).edge ((levelParent cage depth halfedgesIn).twin h) =
        (levelParent cage depth halfedgesIn).edge h := by
    intro h h0 h1 ht
    have hc : ((h.toNat : Nat) : Int) = h := by omega
    have hlt : h.toNat < halfedgesIn.length := by omega
    have hr : halfedgesIn[h.toNat]? = some (halfedgesIn.getD h.toNat default) := by
      simp [List.getD_eq_getElem?_getD, List.getElem?_eq_getElem hlt]
    have ht' : 0 ≤ (halfedgesIn.getD h.toNat default).twinID := ht
    obtain ⟨a, rt, hrt, b, c⟩ := htw.2 h.toNat (by omega) _ hr ht'
    have hrt2 : readAt halfedgesIn (halfedgesIn.getD h.toNat default).twinID = some rt := hrt
    rw [level_read_eq halfedgesIn _ ht' (by omega)] at hrt2
    have e := Option.some.inj hrt2
    refine ⟨a, ?_, ?_⟩
    · show (halfedgesIn.getD (halfedgesIn.getD h.toNat default).twinID.toNat default).twinID = h
      rw [e, b, hc]
    · show (halfedgesIn.getD (halfedgesIn.getD h.toNat default).twinID.toNat default).edgeID = _
      rw [e, c]
      rfl
  constructor
  · intro h h0 h1
    show 0 ≤ ccm_HalfedgeNextID_Quad h ∧ ccm_HalfedgeNextID_Quad h < _
    rw [hPH] at h1 ⊢
    unfold ccm_HalfedgeNextID_Quad
    omega
  · intro h h0 h1
    show 0 ≤ ccm_HalfedgePrevID_Quad h ∧ ccm_HalfedgePrevID_Quad h < _
    rw [hPH] at h1 ⊢
    unfold ccm_HalfedgePrevID_Quad
    omega
  · intro h h0 h1
    show ccm_HalfedgeNextID_Quad (ccm_HalfedgePrevID_Quad h) = h
    unfold ccm_HalfedgeNextID_Quad ccm_HalfedgePrevID_Quad
    omega
  · intro h h0 h1
    show ccm_HalfedgePrevID_Quad (ccm_HalfedgeNextID_Quad h) = h
    unfold ccm_HalfedgeNextID_Quad ccm_HalfedgePrevID_Quad
    omega
  · intro h h0 h1
    rw [hPH] at h1 ⊢
    by_cases ht : 0 ≤ (levelParent cage depth halfedgesIn).twin h
    · exact (tkey h h0 h1 ht).1
    · omega
  · intro h h0 h1 ht; rw [hPH] at h1; exact (tkey h h0 h1 ht).2.1
  · intro h h0 h1 ht; rw [hPH] at h1; exact (tkey h h0 h1 ht).2.2
  · intro h h0 h1 ht; rfl
  · intro h h0 h1 ht
    show ccm_HalfedgeNextID_Quad (halfedgesIn.getD h.toNat default).twinID < 0
    have ht2 : (halfedgesIn.getD h.toNat default).twinID < 0 := ht
    unfold ccm_HalfedgeNextID_Quad
    omega

theorem levelParent_irreflexive (cage : cc_Mesh) (depth : Nat)
    (halfedgesIn : List cc_Halfedge_SemiRegular)
    (hH : halfedgesIn.length = ccm_HalfedgeCountAtDepth cage depth)
    (hne : ccs_TwinIrreflexive halfedgesIn (ccm_HalfedgeCountAtDepth cage depth)) :
    (levelParent cage depth halfedgesIn).TwinIrreflexive := by
  intro h h0 h1 hc
  have hPH : (levelParent cage depth halfedgesIn).H = ccm_HalfedgeCountAtDepth cage depth := rfl
  rw [hPH] at h1
  have hcast : ((h.toNat : Nat) : Int) = h := by omega
  have hlt : h.toNat < halfedgesIn.length := by omega
  have hr : halfedgesIn[h.toNat]? = some (halfedgesIn.getD h.toNat default) := by
    simp [List.getD_eq_getElem?_getD, List.getElem?_eq_getElem hlt]
  apply hne h.toNat (by omega) _ hr
  rw [hcast]
  exact hc

/-! ## From the parent view to the written array -/

/-- The array `out'` is the array `out` after the loop over the parent `P`. -/
def Refined (P : Parent) (out out' : List cc_Halfedge_SemiRegular) : Prop :=
  4 * P.H ≤ out.length ∧ out'.length = out.length ∧
    ∀ j, out'[j]? = (out[j]?).map (P.child j)

theorem Refined.slot {P : Parent} {out out' : List cc_Halfedge_SemiRegular}
    (hr : Refined P out out') (h i : Nat) (hh : h < P.H) (hi : i < 4) :
    ∃ old, out[4 * h + i]? = some old ∧
      out'[4 * h + i]? = some (newHalfedge (P.cTwin h i) (P.cEdge h i) (P.cVertex h i) old) := by
  obtain ⟨hlen, _, hj⟩ := hr
  have hlt : 4 * h + i < out.length := by omega
  refine ⟨out[4 * h + i], List.getElem?_eq_getElem hlt, ?_⟩
  rw [hj, List.getElem?_eq_getElem hlt, Option.map_some', P.child_eq h i hi hh]

theorem Refined.twinInvariant {P : Parent} {out out' : List cc_Halfedge_SemiRegular}
    (hr : Refined P out out') (hv : P.Valid) (hne : P.TwinIrreflexive) :
    ccs_TwinInvariant out' (4 * P.H) := by
  refine ⟨by have := hr.1; have := hr.2.1; omega, ?_⟩
  intro c hc r hrc ht
  obtain ⟨old, _, ho⟩ := hr.slot (c / 4) (c % 4) (by omega) (Nat.mod_lt _ (by decide))
  have hcc : 4 * (c / 4) + c % 4 = c := Nat.div_add_mod c 4
  rw [hcc] at ho
  have hrc2 : out'[c]? = some r := hrc
  rw [ho] at hrc2
  have hr_eq := Option.some.inj hrc2
  subst hr_eq
  simp only [newHalfedge] at ht ⊢
  obtain ⟨h2, i2, a0, a1, a2, a3, a4, a5⟩ :=
    P.child_twin hv hne (c / 4 : Nat) (by omega) (by push_cast; omega) (c % 4)
      (Nat.mod_lt _ (by decide)) ht
  obtain ⟨old2, _, ho2⟩ := hr.slot h2.toNat i2 (by omega) a2
  have hcast : ((h2.toNat : Nat) : Int) = h2 := by omega
  rw [hcast] at ho2
  refine ⟨by rw [a3]; push_cast; omega,
    newHalfedge (P.cTwin h2 i2) (P.cEdge h2 i2) (P.cVertex h2 i2) old2, ?_, ?_, ?_⟩
  · show readAt out' _ = some _
    rw [a3]
    have : (4 * h2 + (i2 : Int)) = ((4 * h2.toNat + i2 : Nat) : Int) := by push_cast; omega
    rw [this, readAt_natCast, ho2]
  · simp only [newHalfedge]
    rw [a4]
    push_cast
    omega
  · simp only [newHalfedge]
    exact a5

theorem cage_kernel_refined (subd : cc_Subd) (out : List cc_Halfedge_SemiRegular)
    (hout : subd.halfedges[0]? = some out) (hw : ccm_LinksInBounds subd.cage)
    (hlen : 4 * ccm_HalfedgeCount subd.cage ≤ out.length) :
    ∃ out', ccs__RefineCageHalfedges subd = some { subd with halfedges := subd.halfedges.set 0 out' } ∧
      Refined (cageParent subd.cage) out out' := by
  obtain ⟨o, e1, e2, e3⟩ := cage_kernel_spec subd out hout hw hlen
  exact ⟨o, e1, hlen, e2, e3⟩

theorem level_kernel_refined (subd : cc_Subd) (depth : Nat)
    (halfedgesIn out : List cc_Halfedge_SemiRegular)
    (hin : ccs__Level subd.halfedges depth = some halfedgesIn)
    (hH : halfedgesIn.length = ccm_HalfedgeCountAtDepth subd.cage depth)
    (hout : ccs__Level subd.halfedges (depth + 1) = some out)
    (hlen : 4 * ccm_HalfedgeCountAtDepth subd.cage depth ≤ out.length) :
    ∃ out', ccs__RefineHalfedges subd depth =
        some { subd with halfedges := subd.halfedges.set depth out' } ∧
      Refined (levelParent subd.cage depth halfedgesIn) out out' := by
  obtain ⟨o, e1, e2, e3⟩ := level_kernel_spec subd depth halfedgesIn out hin hH hout hlen
  exact ⟨o, e1, hlen, e2, e3⟩

theorem ccs__Level_depth_pos {α : Type} (buffer : List (List α)) (depth : Nat) (xs : List α)
    (h : ccs__Level buffer depth = some xs) : 1 ≤ depth := by
  unfold ccs__Level at h
  by_contra hc
  simp [hc] at h

/-! ## Example meshes -/

/-- A single open quad: four halfedges, all on the boundary. -/
def quadCage : cc_Mesh :=
  { vertexCount := 4, edgeCount := 4, faceCount := 1, creases := [],
    halfedges := [⟨-1, 1, 3, 0, 0, 0, 0⟩, ⟨-1, 2, 0, 0, 1, 1, 0⟩, ⟨-1, 3, 1, 0, 2, 2, 0⟩,
      ⟨-1, 0, 2, 0, 3, 3, 0⟩] }

/-- Two triangles glued along the edge 0 (halfedges 0 and 3 are twins). -/
def twoTriangles : cc_Mesh :=
  { vertexCount := 4, edgeCount := 5, faceCount := 2, creases := [],
    halfedges := [⟨3, 1, 2, 0, 0, 0, 0⟩, ⟨-1, 2, 0, 0, 1, 1, 0⟩, ⟨-1, 0, 1, 0, 2, 2, 0⟩,
      ⟨0, 4, 5, 1, 0, 1, 0⟩, ⟨-1, 5, 3, 1, 3, 0, 0⟩, ⟨-1, 3, 4, 1, 4, 3, 0⟩] }

/-- A degenerate cage: one halfedge that is its own next, prev and twin. -/
def selfTwinCage : cc_Mesh :=
  { vertexCount := 1, edgeCount := 1, faceCount := 1, creases := [],
    halfedges := [⟨0, 0, 0, 0, 0, 0, 0⟩] }

/-- Level 1 of the open quad, as `ccs__RefineCageHalfedges` writes it. -/
def quadLevel1 : List cc_Halfedge_SemiRegular :=
  [⟨-1, 0, 0, 0⟩, ⟨6, 8, 5, 0⟩, ⟨13, 11, 4, 0⟩, ⟨-4, 7, 8, 0⟩,
   ⟨-1, 2, 1, 0⟩, ⟨10, 9, 6, 0⟩, ⟨1, 8, 4, 0⟩, ⟨-4, 1, 5, 0⟩,
   ⟨-1, 4, 2, 0⟩, ⟨14, 10, 7, 0⟩, ⟨5, 9, 4, 0⟩, ⟨-4, 3, 6, 0⟩,
   ⟨-1, 6, 3, 0⟩, ⟨2, 11, 8, 0⟩, ⟨9, 10, 4, 0⟩, ⟨-4, 5, 7, 0⟩]

/-- A subdivision of depth 2 of the open quad whose level 1 is refined and
whose level 2 is still blank. -/
def quadSubd : cc_Subd :=
  { cage := quadCage, maxDepth := 2, creases := [],
    halfedges := [quadLevel1, List.replicate 64 ⟨0, 0, 0, 0⟩] }

/-! ## C1: the twin invariant -/

/-- C1 (as amended): halfedge refinement preserves the twin invariant on a
parent level in which no halfedge is its own twin.  Cage kernel: if
`next(prev(h)) = prev(next(h)) = h` for every cage halfedge, and
`twin(twin(h)) = h`, `edge(twin(h)) = edge(h)`, `twin(h) ≠ h` whenever
`twin(h) ≥ 0`, then `ccs__RefineCageHalfedges` returns, and every child `c` in
`[0, 4H)` with `twin(c) ≥ 0` has `twin(c) < 4H`, `twin(twin(c)) = c` and
`edge(twin(c)) = edge(c)`.  Level kernel: the same for `ccs__RefineHalfedges`
on a level `depth ≥ 1` of `H = H0 * 4^depth` halfedges (there `next` and `prev`
are the quad forms). -/
theorem C1_twin_invariant_preserved :
    (∀ (subd : cc_Subd) (out : List cc_Halfedge_SemiRegular),
      subd.halfedges[0]? = some out →
      4 * ccm_HalfedgeCount subd.cage ≤ out.length →
      ccm_NextPrevInvariant subd.cage →
      ccm_TwinInvariant subd.cage →
      ccm_TwinIrreflexive subd.cage →
      ∃ out', ccs__RefineCageHalfedges subd =
          some { subd with halfedges := subd.halfedges.set 0 out' } ∧
        ccs_TwinInvariant out' (4 * ccm_HalfedgeCount subd.cage)) ∧
    (∀ (subd : cc_Subd) (depth : Nat) (halfedgesIn out : List cc_Halfedge_SemiRegular),
      ccs__Level subd.halfedges depth = some halfedgesIn →
      halfedgesIn.length = ccm_HalfedgeCountAtDepth subd.cage depth →
      ccs__Level subd.halfedges (depth + 1) = some out →
      4 * ccm_HalfedgeCountAtDepth subd.cage depth ≤ out.length →
      ccs_TwinInvariant halfedgesIn (ccm_HalfedgeCountAtDepth subd.cage depth) →
      ccs_TwinIrreflexive halfedgesIn (ccm_HalfedgeCountAtDepth subd.cage depth) →
      ∃ out', ccs__RefineHalfedges subd depth =
          some { subd with halfedges := subd.halfedges.set depth out' } ∧
        ccs_TwinInvariant out' (4 * ccm_HalfedgeCountAtDepth subd.cage depth)) := by
  constructor
  · intro subd out hout hlen hnp htw hne
    obtain ⟨o, e1, e2⟩ := cage_kernel_refined subd out hout
      (cage_linksInBounds subd.cage hnp htw) hlen
    exact ⟨o, e1, e2.twinInvariant (cageParent_valid subd.cage hnp htw)
      (cageParent_irreflexive subd.cage hne)⟩
  · intro subd depth halfedgesIn out hin hH hout hlen htw hne
    obtain ⟨o, e1, e2⟩ := level_kernel_refined subd depth halfedgesIn out hin hH hout hlen
    exact ⟨o, e1, e2.twinInvariant
      (levelParent_valid subd.cage depth (ccs__Level_depth_pos _ _ _ hin) halfedgesIn hH htw)
      (levelParent_irreflexive subd.cage depth halfedgesIn hH hne)⟩

/-- C1, witness: the two glued triangles (cage kernel) and level 1 of the open
quad (level kernel) satisfy the hypotheses. -/
theorem C1_twin_invariant_preserved_witness :
    (∃ out', ccs__RefineCageHalfedges
        { cage := twoTriangles, maxDepth := 1, creases := [],
          halfedges := [List.replicate 24 ⟨0, 0, 0, 0⟩] } =
          some { cage := twoTriangles, maxDepth := 1, creases := [], halfedges := [out'] } ∧
        ccs_TwinInvariant out' 24) ∧
    (∃ out', ccs__RefineHalfedges quadSubd 1 =
          some { quadSubd with halfedges := quadSubd.halfedges.set 1 out' } ∧
        ccs_TwinInvariant out' 64) :=
  ⟨C1_twin_invariant_preserved.1
      { cage := twoTriangles, maxDepth := 1, creases := [],
        halfedges := [List.replicate 24 ⟨0, 0, 0, 0⟩] }
      (List.replicate 24 ⟨0, 0, 0, 0⟩) rfl (by decide) (by decide) (by decide) (by decide),
    C1_twin_invariant_preserved.2 quadSubd 1 quadLevel1 (List.replicate 64 ⟨0, 0, 0, 0⟩)
      rfl (by decide) rfl (by decide) (by decide) (by decide)⟩

/-- C1, counterexample: the cage `selfTwinCage` satisfies every hypothesis the
claim lists (`next(prev(h)) = prev(next(h)) = h`, `twin(twin(h)) = h`,
`edge(twin(h)) = edge(h)`), yet in the level `ccs__RefineCageHalfedges` writes
the child 0 has the twin 3 and the edge 1 while the child 3 has the edge 0. -/
theorem C1_counterexample :
    ccm_NextPrevInvariant selfTwinCage ∧ ccm_TwinInvariant selfTwinCage ∧
    ccs__RefineCageHalfedges
      { cage := selfTwinCage, maxDepth := 1, creases := [],
        halfedges := [List.replicate 4 ⟨0, 0, 0, 0⟩] } =
      some { cage := selfTwinCage, maxDepth := 1, creases := [],
             halfedges := [[⟨3, 1, 0, 0⟩, ⟨2, 2, 2, 0⟩, ⟨1, 2, 1, 0⟩, ⟨0, 0, 2, 0⟩]] } ∧
    ¬ ccs_TwinInvariant [⟨3, 1, 0, 0⟩, ⟨2, 2, 2, 0⟩, ⟨1, 2, 1, 0⟩, ⟨0, 0, 2, 0⟩] 4 := by
  decide

/-! ## C2 and C3: the wiring table -/

/-- The child wiring table of section 4.2 of the specification: the row of the
child `i` gives its `(twin, edge, vertex)` from `t = twin(h)`, `n = next(h)`,
`p = prev(h)`, `pt = twin(p)`, `tn`, `e = edge(h)`, `e_p = edge(p)`, the face
and the vertex of `h`, and the counts `V0`, `F0`, `E0` of the parent level. -/
def wiringTable (V0 F0 E0 : Int) (h t n p pt tn e e_p face vertex : Int) :
    Nat → Int × Int × Int
  | 0 => (4 * tn + 3, 2 * e + (if h > t then 0 else 1), vertex)
  | 1 => (4 * n + 2, 2 * E0 + h, V0 + F0 + e)
  | 2 => (4 * p + 1, 2 * E0 + p, V0 + face)
  | _ => (4 * pt + 0, 2 * e_p + (if p > pt then 1 else 0), V0 + F0 + e_p)

/-- The halfedge record made of a row of the wiring table and of a `uvID`. -/
def wiredHalfedge (row : Int × Int × Int) (uvID : Int) : cc_Halfedge_SemiRegular :=
  { twinID := row.1, edgeID := row.2.1, vertexID := row.2.2, uvID := uvID }

theorem Parent.wiringTable_eq (P : Parent) (h : Int) (i : Nat) (hi : i < 4)
    (old : cc_Halfedge_SemiRegular) :
    newHalfedge (P.cTwin h i) (P.cEdge h i) (P.cVertex h i) old =
      wiredHalfedge (wiringTable P.V P.F P.E h (P.twin h) (P.next h) (P.prev h)
        (P.twin (P.prev h)) (P.twinNext h) (P.edge h) (P.edge (P.prev h)) (P.face h)
        (P.vertex h) i) old.uvID := by
  have h4 : i = 0 ∨ i = 1 ∨ i = 2 ∨ i = 3 := by omega
  rcases h4 with rfl | rfl | rfl | rfl <;> rfl

theorem Refined.above {P : Parent} {out out' : List cc_Halfedge_SemiRegular}
    (hr : Refined P out out') (j : Nat) (hj : 4 * P.H ≤ j) : out'[j]? = out[j]? := by
  rw [hr.2.2 j]
  have hn : ¬ (j < 4 * P.H) := by omega
  cases out[j]? with
  | none => rfl
  | some old => simp only [Option.map_some', Parent.child, if_neg hn]

/-- C2: on a cage whose `prevID` and (non-negative) `twinID` links stay inside
the halfedge array, `ccs__RefineCageHalfedges` returns; it leaves every slot from
`4 * H0` on untouched, and for every cage halfedge `h` the slots `4h .. 4h+3`
hold the rows `0 .. 3` of the wiring table, evaluated at `t = twin(h)`,
`n = next(h)`, `p = prev(h)`, `pt = twin(p)`, `e = edge(h)`, `e_p = edge(p)`,
`tn = next(t)` or `-1` when `t` is negative, with the counts of the cage; the
`uvID` of a slot is the one it had. -/
theorem C2_cage_wiring (subd : cc_Subd) (out : List cc_Halfedge_SemiRegular)
    (hout : subd.halfedges[0]? = some out)
    (hlen : 4 * ccm_HalfedgeCount subd.cage ≤ out.length)
    (hw : ccm_LinksInBounds subd.cage) :
    ∃ out', ccs__RefineCageHalfedges subd =
        some { subd with halfedges := subd.halfedges.set 0 out' } ∧
      out'.length = out.length ∧
      (∀ j : Nat, 4 * ccm_HalfedgeCount subd.cage ≤ j → out'[j]? = out[j]?) ∧
      ∀ h : Nat, h < ccm_HalfedgeCount subd.cage →
        ∃ t n p pt tn e e_p f v : Int,
          ccm_HalfedgeTwinID subd.cage h = some t ∧
          ccm_HalfedgeNextID subd.cage h = some n ∧
          ccm_HalfedgePrevID subd.cage h = some p ∧
          ccm_HalfedgeTwinID subd.cage p = some pt ∧
          (if t ≥ 0 then ccm_HalfedgeNextID subd.cage t else some (-1)) = some tn ∧
          ccm_HalfedgeEdgeID subd.cage h = some e ∧
          ccm_HalfedgeEdgeID subd.cage p = some e_p ∧
          ccm_HalfedgeFaceID subd.cage h = some f ∧
          ccm_HalfedgeVertexID subd.cage h = some v ∧
          ∀ i : Nat, i < 4 → ∃ old, out[4 * h + i]? = some old ∧
            out'[4 * h + i]? = some (wiredHalfedge
              (wiringTable (ccm_VertexCount subd.cage) (ccm_FaceCount subd.cage)
                (ccm_EdgeCount subd.cage) h t n p pt tn e e_p f v i) old.uvID) := by
  obtain ⟨o, e1, e2⟩ := cage_kernel_refined subd out hout hw hlen
  refine ⟨o, e1, e2.2.1, fun j hj => e2.above j hj, ?_⟩
  intro h hh
  have h0 : (0 : Int) ≤ h := by omega
  have h1 : (h : Int) < (ccm_HalfedgeCount subd.cage : Int) := by omega
  have hmem : subd.cage.halfedges.getD h default ∈ subd.cage.halfedges := by
    rw [List.getD_eq_getElem?_getD, List.getElem?_eq_getElem hh]
    exact List.getElem_mem _
  obtain ⟨hp0, hp1, ht1⟩ := hw _ hmem
  have hp0' : 0 ≤ (cageParent subd.cage).prev h := by
    show 0 ≤ (subd.cage.halfedges.getD (h : Int).toNat default).prevID
    simpa using hp0
  have hp1' : (cageParent subd.cage).prev h < (ccm_HalfedgeCount subd.cage : Int) := by
    show (subd.cage.halfedges.getD (h : Int).toNat default).prevID < _
    simpa using hp1
  have ht1' : (cageParent subd.cage).twin h < (ccm_HalfedgeCount subd.cage : Int) := by
    show (subd.cage.halfedges.getD (h : Int).toNat default).twinID < _
    simpa using ht1
  refine ⟨(cageParent subd.cage).twin h, (cageParent subd.cage).next h,
    (cageParent subd.cage).prev h, (cageParent subd.cage).twin ((cageParent subd.cage).prev h),
    (cageParent subd.cage).twinNext h, (cageParent subd.cage).edge h,
    (cageParent subd.cage).edge ((cageParent subd.cage).prev h),
    (cageParent subd.cage).face h, (cageParent subd.cage).vertex h,
    cage_twin_eq _ _ h0 h1, cage_next_eq _ _ h0 h1, cage_prev_eq _ _ h0 h1,
    cage_twin_eq _ _ hp0' hp1', ?_, cage_edge_eq _ _ h0 h1, cage_edge_eq _ _ hp0' hp1',
    cage_face_eq _ _ h0 h1, cage_vertex_eq _ _ h0 h1, ?_⟩
  · by_cases ht : (cageParent subd.cage).twin h ≥ 0
    · rw [if_pos ht, cage_next_eq _ _ ht ht1']
      have ht2 : (subd.cage.halfedges.getD (h : Int).toNat default).twinID ≥ 0 := ht
      show _ = some (if (subd.cage.halfedges.getD (h : Int).toNat default).twinID ≥ 0 then _ else _)
      rw [if_pos ht2]
      rfl
    · rw [if_neg ht]
      have ht2 : ¬ (subd.cage.halfedges.getD (h : Int).toNat default).twinID ≥ 0 := ht
      show _ = some (if (subd.cage.halfedges.getD (h : Int).toNat default).twinID ≥ 0 then _ else _)
      rw [if_neg ht2]
  · intro i hi
    obtain ⟨old, a, b⟩ := e2.slot h i hh hi
    refine ⟨old, a, ?_⟩
    rw [b, (cageParent subd.cage).wiringTable_eq h i hi old]
    rfl

/-- C2, witness: the two glued triangles. -/
theorem C2_cage_wiring_witness :
    ∃ out', ccs__RefineCageHalfedges
        { cage := twoTriangles, maxDepth := 1, creases := [],
          halfedges := [List.replicate 24 ⟨0, 0, 0, 7⟩] } =
        some { cage := twoTriangles, maxDepth := 1, creases := [], halfedges := [out'] } ∧
      out'.length = 24 ∧
      (∀ j : Nat, 24 ≤ j → out'[j]? = (List.replicate 24 (⟨0, 0, 0, 7⟩ : cc_Halfedge_SemiRegular))[j]?) ∧
      ∀ h : Nat, h < 6 →
        ∃ t n p pt tn e e_p f v : Int,
          ccm_HalfedgeTwinID twoTriangles h = some t ∧
          ccm_HalfedgeNextID twoTriangles h = some n ∧
          ccm_HalfedgePrevID twoTriangles h = some p ∧
          ccm_HalfedgeTwinID twoTriangles p = some pt ∧
          (if t ≥ 0 then ccm_HalfedgeNextID twoTriangles t else some (-1)) = some tn ∧
          ccm_HalfedgeEdgeID twoTriangles h = some e ∧
          ccm_HalfedgeEdgeID twoTriangles p = some e_p ∧
          ccm_HalfedgeFaceID twoTriangles h = some f ∧
          ccm_HalfedgeVertexID twoTriangles h = some v ∧
          ∀ i : Nat, i < 4 → ∃ old,
            (List.replicate 24 (⟨0, 0, 0, 7⟩ : cc_Halfedge_SemiRegular))[4 * h + i]? = some old ∧
            out'[4 * h + i]? = some (wiredHalfedge
              (wiringTable 4 2 5 h t n p pt tn e e_p f v i) old.uvID) :=
  C2_cage_wiring
    { cage := twoTriangles, maxDepth := 1, creases := [],
      halfedges := [List.replicate 24 ⟨0, 0, 0, 7⟩] }
    (List.replicate 24 ⟨0, 0, 0, 7⟩) rfl (by decide) (by decide)

theorem level_twin_eq (subd : cc_Subd) (depth : Nat) (halfedgesIn : List cc_Halfedge_SemiRegular)
    (hin : ccs__Level subd.halfedges depth = some halfedgesIn) (h : Int) (h0 : 0 ≤ h)
    (h1 : h < (halfedgesIn.length : Int)) :
    ccs_HalfedgeTwinID subd h depth = some ((levelParent subd.cage depth halfedgesIn).twin h) := by
  unfold ccs_HalfedgeTwinID
  rw [hin, Option.bind_eq_bind, Option.some_bind, readAt_getD _ _ h0 h1]
  rfl

theorem level_edge_eq (subd : cc_Subd) (depth : Nat) (halfedgesIn : List cc_Halfedge_SemiRegular)
    (hin : ccs__Level subd.halfedges depth = some halfedgesIn) (h : Int) (h0 : 0 ≤ h)
    (h1 : h < (halfedgesIn.length : Int)) :
    ccs_HalfedgeEdgeID subd h depth = some ((levelParent subd.cage depth halfedgesIn).edge h) := by
  unfold ccs_HalfedgeEdgeID
  rw [hin, Option.bind_eq_bind, Option.some_bind, readAt_getD _ _ h0 h1]
  rfl

theorem level_vertex_eq (subd : cc_Subd) (depth : Nat) (halfedgesIn : List cc_Halfedge_SemiRegular)
    (hin : ccs__Level subd.halfedges depth = some halfedgesIn) (h : Int) (h0 : 0 ≤ h)
    (h1 : h < (halfedgesIn.length : Int)) :
    ccs_HalfedgeVertexID subd h depth =
      some ((levelParent subd.cage depth halfedgesIn).vertex h) := by
  unfold ccs_HalfedgeVertexID
  rw [hin, Option.bind_eq_bind, Option.some_bind, readAt_getD _ _ h0 h1]
  rfl

theorem quad_prev_range (H : Nat) (hdvd : 4 ∣ H) (h : Int) (h0 : 0 ≤ h) (h1 : h < (H : Int)) :
    0 ≤ ccm_HalfedgePrevID_Quad h ∧ ccm_HalfedgePrevID_Quad h < (H : Int) := by
  obtain ⟨k, hk⟩ := hdvd
  unfold ccm_HalfedgePrevID_Quad
  omega

theorem quad_next_negative (t : Int) (ht : t < 0) : ccm_HalfedgeNextID_Quad t < 0 := by
  unfold ccm_HalfedgeNextID_Quad
  omega

/-- C3 (as amended): on a level `depth ≥ 1` of `H = H0 * 4^depth` halfedges,
`ccs__RefineHalfedges` returns; it leaves every slot from `4 * H` on untouched,
and for every halfedge `h` of the level the slots `4h .. 4h+3` hold the rows
`0 .. 3` of the cage wiring table, evaluated with the quad forms of `next`,
`prev` and `face`, the counts `V_l`, `F_l`, `E_l` of the level, and
`tn = next(twin(h))` in quad form whether `twin(h)` is absent or not.  When
`twin(h)` is absent (negative), `tn` and `twin(c0) = 4 * tn + 3` are negative
(so `c0` has no twin); for `twin(h) = -1` they are `-4` and `-13`. -/
theorem C3_level_wiring (subd : cc_Subd) (depth : Nat)
    (halfedgesIn out : List cc_Halfedge_SemiRegular)
    (hin : ccs__Level subd.halfedges depth = some halfedgesIn)
    (hH : halfedgesIn.length = ccm_HalfedgeCountAtDepth subd.cage depth)
    (hout : ccs__Level subd.halfedges (depth + 1) = some out)
    (hlen : 4 * ccm_HalfedgeCountAtDepth subd.cage depth ≤ out.length) :
    ∃ out', ccs__RefineHalfedges subd depth =
        some { subd with halfedges := subd.halfedges.set depth out' } ∧
      out'.length = out.length ∧
      (∀ j : Nat, 4 * ccm_HalfedgeCountAtDepth subd.cage depth ≤ j → out'[j]? = out[j]?) ∧
      ∀ h : Nat, h < ccm_HalfedgeCountAtDepth subd.cage depth →
        ∃ t pt e e_p v : Int,
          ccs_HalfedgeTwinID subd h depth = some t ∧
          ccs_HalfedgeTwinID subd (ccm_HalfedgePrevID_Quad h) depth = some pt ∧
          ccs_HalfedgeEdgeID subd h depth = some e ∧
          ccs_HalfedgeEdgeID subd (ccm_HalfedgePrevID_Quad h) depth = some e_p ∧
          ccs_HalfedgeVertexID subd h depth = some v ∧
          (t < 0 → 4 * ccm_HalfedgeNextID_Quad t + 3 < 0) ∧
          (t = -1 → 4 * ccm_HalfedgeNextID_Quad t + 3 = -13) ∧
          ∀ i : Nat, i < 4 → ∃ old, out[4 * h + i]? = some old ∧
            out'[4 * h + i]? = some (wiredHalfedge
              (wiringTable (ccm_VertexCountAtDepth_Fast subd.cage depth)
                (ccm_FaceCountAtDepth_Fast subd.cage depth)
                (ccm_EdgeCountAtDepth_Fast subd.cage depth)
                h t (ccm_HalfedgeNextID_Quad h) (ccm_HalfedgePrevID_Quad h) pt
                (ccm_HalfedgeNextID_Quad t) e e_p (ccm_HalfedgeFaceID_Quad h) v i)
              old.uvID) := by
  obtain ⟨o, e1, e2⟩ := level_kernel_refined subd depth halfedgesIn out hin hH hout hlen
  refine ⟨o, e1, e2.2.1, fun j hj => e2.above j hj, ?_⟩
  intro h hh
  have h0 : (0 : Int) ≤ h := by omega
  have h1 : (h : Int) < (halfedgesIn.length : Int) := by omega
  have hd := ccs__Level_depth_pos _ _ _ hin
  obtain ⟨hp0, hp1⟩ := quad_prev_range _ (ccm_HalfedgeCountAtDepth_dvd subd.cage depth hd) h h0
    (by omega)
  rw [← hH] at hp1
  refine ⟨_, _, _, _, _, level_twin_eq subd depth halfedgesIn hin h h0 h1,
    level_twin_eq subd depth halfedgesIn hin _ hp0 hp1,
    level_edge_eq subd depth halfedgesIn hin h h0 h1,
    level_edge_eq subd depth halfedgesIn hin _ hp0 hp1,
    level_vertex_eq subd depth halfedgesIn hin h h0 h1, ?_, ?_, ?_⟩
  · intro ht
    have := quad_next_negative _ ht
    omega
  · intro ht
    rw [ht]
    decide
  · intro i hi
    obtain ⟨old, a, b⟩ := e2.slot h i hh hi
    refine ⟨old, a, ?_⟩
    rw [b, (levelParent subd.cage depth halfedgesIn).wiringTable_eq h i hi old]
    rfl

/-- C3, witness: level 1 of the open quad. -/
theorem C3_level_wiring_witness :
    ∃ out', ccs__RefineHalfedges quadSubd 1 =
        some { quadSubd with halfedges := quadSubd.halfedges.set 1 out' } ∧
      out'.length = (List.replicate 64 (⟨0, 0, 0, 0⟩ : cc_Halfedge_SemiRegular)).length ∧
      (∀ j : Nat, 4 * ccm_HalfedgeCountAtDepth quadSubd.cage 1 ≤ j →
        out'[j]? = (List.replicate 64 (⟨0, 0, 0, 0⟩ : cc_Halfedge_SemiRegular))[j]?) ∧
      ∀ h : Nat, h < ccm_HalfedgeCountAtDepth quadSubd.cage 1 →
        ∃ t pt e e_p v : Int,
          ccs_HalfedgeTwinID quadSubd h 1 = some t ∧
          ccs_HalfedgeTwinID quadSubd (ccm_HalfedgePrevID_Quad h) 1 = some pt ∧
          ccs_HalfedgeEdgeID quadSubd h 1 = some e ∧
          ccs_HalfedgeEdgeID quadSubd (ccm_HalfedgePrevID_Quad h) 1 = some e_p ∧
          ccs_HalfedgeVertexID quadSubd h 1 = some v ∧
          (t < 0 → 4 * ccm_HalfedgeNextID_Quad t + 3 < 0) ∧
          (t = -1 → 4 * ccm_HalfedgeNextID_Quad t + 3 = -13) ∧
          ∀ i : Nat, i < 4 → ∃ old,
            (List.replicate 64 (⟨0, 0, 0, 0⟩ : cc_Halfedge_SemiRegular))[4 * h + i]? = some old ∧
            out'[4 * h + i]? = some (wiredHalfedge
              (wiringTable (ccm_VertexCountAtDepth_Fast quadSubd.cage 1)
                (ccm_FaceCountAtDepth_Fast quadSubd.cage 1)
                (ccm_EdgeCountAtDepth_Fast quadSubd.cage 1)
                h t (ccm_HalfedgeNextID_Quad h) (ccm_HalfedgePrevID_Quad h) pt
                (ccm_HalfedgeNextID_Quad t) e e_p (ccm_HalfedgeFaceID_Quad h) v i)
              old.uvID) :=
  C3_level_wiring quadSubd 1 quadLevel1 (List.replicate 64 ⟨0, 0, 0, 0⟩) rfl (by decide) rfl
    (by decide)

/-- C3, counterexample: at level 1 of the open quad the halfedge 0 has no twin
(`twinID = -1`); `ccs__RefineHalfedges` computes `twinNextID = -4` for it and
writes `twinID = -13`, not `-1`, into its child 0 (the slot 0 of level 2). -/
theorem C3_counterexample :
    ccs_HalfedgeTwinID quadSubd 0 1 = some (-1) ∧
    ccm_HalfedgeNextID_Quad (-1) = -4 ∧
    (ccs__RefineHalfedges quadSubd 1).bind (fun s => ccs_HalfedgeTwinID s 0 2) = some (-13) := by
  decide

/-! ## C4: the range of the child twins -/

/-- The twins of the four children `r0 .. r3` of a parent halfedge, `t` being the
twin of the parent halfedge and `pt` the twin of its predecessor: negative for
`r0` when `t` is negative and for `r3` when `pt` is negative, in `[0, 4H)` in
every other case. -/
def ChildTwinsInRange (H : Nat) (t pt : Int) (r0 r1 r2 r3 : cc_Halfedge_SemiRegular) : Prop :=
  (t < 0 → r0.twinID < 0) ∧
  (0 ≤ t → 0 ≤ r0.twinID ∧ r0.twinID < 4 * (H : Int)) ∧
  (0 ≤ r1.twinID ∧ r1.twinID < 4 * (H : Int)) ∧
  (0 ≤ r2.twinID ∧ r2.twinID < 4 * (H : Int)) ∧
  (pt < 0 → r3.twinID < 0 ∧ r3.twinID = 4 * pt) ∧
  (0 ≤ pt → 0 ≤ r3.twinID ∧ r3.twinID < 4 * (H : Int))

theorem Refined.twinsInRange {P : Parent} {out out' : List cc_Halfedge_SemiRegular}
    (hr : Refined P out out') (hv : P.Valid) (h : Nat) (hh : h < P.H) :
    ∃ r0 r1 r2 r3, out'[4 * h]? = some r0 ∧ out'[4 * h + 1]? = some r1 ∧
      out'[4 * h + 2]? = some r2 ∧ out'[4 * h + 3]? = some r3 ∧
      r0.twinID = 4 * P.twinNext h + 3 ∧
      ChildTwinsInRange P.H (P.twin h) (P.twin (P.prev h)) r0 r1 r2 r3 := by
  have h0 : (0 : Int) ≤ h := by omega
  have h1 : (h : Int) < (P.H : Int) := by omega
  obtain ⟨o0, _, b0⟩ := hr.slot h 0 hh (by decide)
  obtain ⟨o1, _, b1⟩ := hr.slot h 1 hh (by decide)
  obtain ⟨o2, _, b2⟩ := hr.slot h 2 hh (by decide)
  obtain ⟨o3, _, b3⟩ := hr.slot h 3 hh (by decide)
  obtain ⟨hn0, hn1⟩ := hv.next_range h h0 h1
  obtain ⟨hp0, hp1⟩ := hv.prev_range h h0 h1
  refine ⟨_, _, _, _, b0, b1, b2, b3, rfl, ?_, ?_, ?_, ?_, ?_, ?_⟩
  · intro ht
    have := hv.twinNext_neg h h0 h1 ht
    show 4 * P.twinNext h + 3 < 0
    omega
  · intro ht
    have e := hv.twinNext_pos h h0 h1 ht
    obtain ⟨a0, a1⟩ := hv.next_range (P.twin h) ht (hv.twin_lt h h0 h1)
    show 0 ≤ 4 * P.twinNext h + 3 ∧ 4 * P.twinNext h + 3 < 4 * (P.H : Int)
    omega
  · show 0 ≤ 4 * P.next h + 2 ∧ 4 * P.next h + 2 < 4 * (P.H : Int)
    omega
  · show 0 ≤ 4 * P.prev h + 1 ∧ 4 * P.prev h + 1 < 4 * (P.H : Int)
    omega
  · intro ht
    show 4 * P.twin (P.prev h) + 0 < 0 ∧ 4 * P.twin (P.prev h) + 0 = 4 * P.twin (P.prev h)
    omega
  · intro ht
    have := hv.twin_lt (P.prev h) hp0 hp1
    show 0 ≤ 4 * P.twin (P.prev h) + 0 ∧ 4 * P.twin (P.prev h) + 0 < 4 * (P.H : Int)
    omega

/-- C4 (as amended): at every refined level the twin of a halfedge is either
negative (boundary) or a halfedge index of that level.  For every halfedge `h`
of a parent level that has the next/prev and twin invariants, with `t = twin(h)`
and `pt = twin(prev(h))`, the children `r0 .. r3` that `ccs__RefineCageHalfedges`
(first part) and `ccs__RefineHalfedges` (second part) write have: `twin(r0)`
negative when `t` is absent (exactly `-1` in the cage kernel), `twin(r3) = 4 * pt`
negative when `pt` is absent (`-4` for `pt = -1`), and every other child twin in
`[0, 4H)`. -/
theorem C4_child_twin_range :
    (∀ (subd : cc_Subd) (out : List cc_Halfedge_SemiRegular),
      subd.halfedges[0]? = some out →
      4 * ccm_HalfedgeCount subd.cage ≤ out.length →
      ccm_NextPrevInvariant subd.cage →
      ccm_TwinInvariant subd.cage →
      ∃ out', ccs__RefineCageHalfedges subd =
          some { subd with halfedges := subd.halfedges.set 0 out' } ∧
        ∀ h : Nat, h < ccm_HalfedgeCount subd.cage →
          ∃ (t pt : Int) (r0 r1 r2 r3 : cc_Halfedge_SemiRegular),
            ccm_HalfedgeTwinID subd.cage h = some t ∧
            (ccm_HalfedgePrevID subd.cage h).bind (ccm_HalfedgeTwinID subd.cage) = some pt ∧
            out'[4 * h]? = some r0 ∧ out'[4 * h + 1]? = some r1 ∧
            out'[4 * h + 2]? = some r2 ∧ out'[4 * h + 3]? = some r3 ∧
            (t < 0 → r0.twinID = -1) ∧
            ChildTwinsInRange (ccm_HalfedgeCount subd.cage) t pt r0 r1 r2 r3) ∧
    (∀ (subd : cc_Subd) (depth : Nat) (halfedgesIn out : List cc_Halfedge_SemiRegular),
      ccs__Level subd.halfedges depth = some halfedgesIn →
      halfedgesIn.length = ccm_HalfedgeCountAtDepth subd.cage depth →
      ccs__Level subd.halfedges (depth + 1) = some out →
      4 * ccm_HalfedgeCountAtDepth subd.cage depth ≤ out.length →
      ccs_TwinInvariant halfedgesIn (ccm_HalfedgeCountAtDepth subd.cage depth) →
      ∃ out', ccs__RefineHalfedges subd depth =
          some { subd with halfedges := subd.halfedges.set depth out' } ∧
        ∀ h : Nat, h < ccm_HalfedgeCountAtDepth subd.cage depth →
          ∃ (t pt : Int) (r0 r1 r2 r3 : cc_Halfedge_SemiRegular),
            ccs_HalfedgeTwinID subd h depth = some t ∧
            ccs_HalfedgeTwinID subd (ccm_HalfedgePrevID_Quad h) depth = some pt ∧
            out'[4 * h]? = some r0 ∧ out'[4 * h + 1]? = some r1 ∧
            out'[4 * h + 2]? = some r2 ∧ out'[4 * h + 3]? = some r3 ∧
            ChildTwinsInRange (ccm_HalfedgeCountAtDepth subd.cage depth) t pt r0 r1 r2 r3) := by
  constructor
  · intro subd out hout hlen hnp htw
    have hv := cageParent_valid subd.cage hnp htw
    obtain ⟨o, e1, e2⟩ := cage_kernel_refined subd out hout
      (cage_linksInBounds subd.cage hnp htw) hlen
    refine ⟨o, e1, ?_⟩
    intro h hh
    have h0 : (0 : Int) ≤ h := by omega
    have h1 : (h : Int) < (ccm_HalfedgeCount subd.cage : Int) := by omega
    obtain ⟨hp0, hp1⟩ := hv.prev_range h h0 h1
    obtain ⟨r0, r1, r2, r3, a0, a1, a2, a3, a4, a5⟩ := e2.twinsInRange hv h hh
    refine ⟨_, _, r0, r1, r2, r3, cage_twin_eq _ _ h0 h1, ?_, a0, a1, a2, a3, ?_, a5⟩
    · rw [cage_prev_eq _ _ h0 h1, Option.some_bind]
      exact cage_twin_eq _ _ hp0 hp1
    · intro ht
      rw [a4]
      have ht2 : ¬ (subd.cage.halfedges.getD (h : Int).toNat default).twinID ≥ 0 := by
        intro hc; exact absurd ht (not_lt.2 hc)
      show 4 * (if (subd.cage.halfedges.getD (h : Int).toNat default).twinID ≥ 0 then _
        else (-1 : Int)) + 3 = -1
      rw [if_neg ht2]
      decide
  · intro subd depth halfedgesIn out hin hH hout hlen htw
    have hd := ccs__Level_depth_pos _ _ _ hin
    have hv := levelParent_valid subd.cage depth hd halfedgesIn hH htw
    obtain ⟨o, e1, e2⟩ := level_kernel_refined subd depth halfedgesIn out hin hH hout hlen
    refine ⟨o, e1, ?_⟩
    intro h hh
    have h0 : (0 : Int) ≤ h := by omega
    have h1 : (h : Int) < (halfedgesIn.length : Int) := by omega
    obtain ⟨hp0, hp1⟩ := quad_prev_range _ (ccm_HalfedgeCountAtDepth_dvd subd.cage depth hd) h h0
      (by omega)
    rw [← hH] at hp1
    obtain ⟨r0, r1, r2, r3, a0, a1, a2, a3, _, a5⟩ := e2.twinsInRange hv h hh
    exact ⟨_, _, r0, r1, r2, r3, level_twin_eq subd depth halfedgesIn hin h h0 h1,
      level_twin_eq subd depth halfedgesIn hin _ hp0 hp1, a0, a1, a2, a3, a5⟩

/-- C4, witness: the two glued triangles (cage kernel) and level 1 of the open
quad (level kernel). -/
theorem C4_child_twin_range_witness :
    (∃ out', ccs__RefineCageHalfedges
        { cage := twoTriangles, maxDepth := 1, creases := [],
          halfedges := [List.replicate 24 ⟨0, 0, 0, 0⟩] } =
          some { cage := twoTriangles, maxDepth := 1, creases := [], halfedges := [out'] } ∧
        ∀ h : Nat, h < 6 →
          ∃ (t pt : Int) (r0 r1 r2 r3 : cc_Halfedge_SemiRegular),
            ccm_HalfedgeTwinID twoTriangles h = some t ∧
            (ccm_HalfedgePrevID twoTriangles h).bind (ccm_HalfedgeTwinID twoTriangles) = some pt ∧
            out'[4 * h]? = some r0 ∧ out'[4 * h + 1]? = some r1 ∧
            out'[4 * h + 2]? = some r2 ∧ out'[4 * h + 3]? = some r3 ∧
            (t < 0 → r0.twinID = -1) ∧
            ChildTwinsInRange 6 t pt r0 r1 r2 r3) ∧
    (∃ out', ccs__RefineHalfedges quadSubd 1 =
          some { quadSubd with halfedges := quadSubd.halfedges.set 1 out' } ∧
        ∀ h : Nat, h < ccm_HalfedgeCountAtDepth quadSubd.cage 1 →
          ∃ (t pt : Int) (r0 r1 r2 r3 : cc_Halfedge_SemiRegular),
            ccs_HalfedgeTwinID quadSubd h 1 = some t ∧
            ccs_HalfedgeTwinID quadSubd (ccm_HalfedgePrevID_Quad h) 1 = some pt ∧
            out'[4 * h]? = some r0 ∧ out'[4 * h + 1]? = some r1 ∧
            out'[4 * h + 2]? = some r2 ∧ out'[4 * h + 3]? = some r3 ∧
            ChildTwinsInRange (ccm_HalfedgeCountAtDepth quadSubd.cage 1) t pt r0 r1 r2 r3) :=
  ⟨C4_child_twin_range.1
      { cage := twoTriangles, maxDepth := 1, creases := [],
        halfedges := [List.replicate 24 ⟨0, 0, 0, 0⟩] }
      (List.replicate 24 ⟨0, 0, 0, 0⟩) rfl (by decide) (by decide) (by decide),
    C4_child_twin_range.2 quadSubd 1 quadLevel1 (List.replicate 64 ⟨0, 0, 0, 0⟩)
      rfl (by decide) rfl (by decide) (by decide)⟩

/-- C4, counterexample: on the open quad the predecessor of the halfedge 0 is
the halfedge 3, which has no twin (`twinID = -1`); `ccs__RefineCageHalfedges`
writes `twinID = 4 * (-1) + 0 = -4` into the child 3 of the halfedge 0, which is
neither `-1` nor in `[0, 16)`. -/
theorem C4_counterexample :
    (ccm_HalfedgePrevID quadCage 0).bind (ccm_HalfedgeTwinID quadCage) = some (-1) ∧
    ccs__RefineCageHalfedges
      { cage := quadCage, maxDepth := 2, creases := [],
        halfedges := [List.replicate 16 ⟨0, 0, 0, 0⟩, List.replicate 64 ⟨0, 0, 0, 0⟩] } =
      some quadSubd ∧
    ccs_HalfedgeTwinID quadSubd 3 1 = some (-4) := by
  decide

/-! ## C5: the child edges -/

/-- The edges of the parent level: every halfedge is on an edge `0 ≤ e < E`, and
two halfedges on the same edge are equal or twins. -/
structure Parent.EdgeValid (P : Parent) : Prop where
  edge_range : ∀ h : Int, 0 ≤ h → h < P.H → 0 ≤ P.edge h ∧ P.edge h < P.E
  edge_carriers : ∀ h h2 : Int, 0 ≤ h → h < P.H → 0 ≤ h2 → h2 < P.H →
    P.edge h = P.edge h2 → h = h2 ∨ P.twin h = h2

theorem Parent.child_edge_carriers (P : Parent) (hv : P.Valid) (hne : P.TwinIrreflexive)
    (he : P.EdgeValid) (h : Int) (h0 : 0 ≤ h) (hH : h < P.H) (i : Nat) (hi : i < 4)
    (h2 : Int) (k0 : 0 ≤ h2) (kH : h2 < P.H) (i2 : Nat) (hi2 : i2 < 4)
    (heq : P.cEdge h i = P.cEdge h2 i2) :
    (h = h2 ∧ i = i2) ∨ P.cTwin h i = 4 * h2 + i2 := by
  obtain ⟨hn0, hn1⟩ := hv.next_range h h0 hH
  obtain ⟨hp0, hp1⟩ := hv.prev_range h h0 hH
  obtain ⟨kn0, kn1⟩ := hv.next_range h2 k0 kH
  obtain ⟨kp0, kp1⟩ := hv.prev_range h2 k0 kH
  have hnp := hv.next_prev h h0 hH
  have knp := hv.next_prev h2 k0 kH
  obtain ⟨a0, a1⟩ := he.edge_range h h0 hH
  obtain ⟨b0, b1⟩ := he.edge_range h2 k0 kH
  obtain ⟨c0, c1⟩ := he.edge_range (P.prev h) hp0 hp1
  obtain ⟨d0, d1⟩ := he.edge_range (P.prev h2) kp0 kp1
  have h4 : i = 0 ∨ i = 1 ∨ i = 2 ∨ i = 3 := by omega
  have k4 : i2 = 0 ∨ i2 = 1 ∨ i2 = 2 ∨ i2 = 3 := by omega
  rcases h4 with rfl | rfl | rfl | rfl <;> rcases k4 with rfl | rfl | rfl | rfl <;>
    simp only [Parent.cEdge] at heq
  · -- (0, 0)
    have ee : P.edge h = P.edge h2 := by split_ifs at heq <;> omega
    rcases he.edge_carriers h h2 h0 hH k0 kH ee with hc | hc
    · exact Or.inl ⟨hc, rfl⟩
    · have e1 := hv.twin_twin h h0 hH (by omega)
      rw [hc] at e1
      have e2 := hne h h0 hH
      exfalso
      split_ifs at heq <;> omega
  · exfalso; split_ifs at heq <;> omega
  · exfalso; split_ifs at heq <;> omega
  · -- (0, 3)
    have ee : P.edge h = P.edge (P.prev h2) := by split_ifs at heq <;> omega
    rcases he.edge_carriers h (P.prev h2) h0 hH kp0 kp1 ee with hc | hc
    · exfalso
      rw [← hc] at heq
      split_ifs at heq <;> omega
    · right
      have e1 := hv.twinNext_pos h h0 hH (by omega)
      simp only [Parent.cTwin, e1, hc, knp]
      push_cast
      ring
  · exfalso; split_ifs at heq <;> omega
  · exact Or.inl ⟨by omega, rfl⟩
  · -- (1, 2)
    right
    have e1 : h = P.prev h2 := by omega
    simp only [Parent.cTwin]
    rw [e1, knp]
    push_cast
    ring
  · exfalso; split_ifs at heq <;> omega
  · exfalso; split_ifs at heq <;> omega
  · -- (2, 1)
    right
    have e1 : P.prev h = h2 := by omega
    simp only [Parent.cTwin]
    rw [e1]
    push_cast
    ring
  · -- (2, 2)
    left
    have e1 : P.prev h = P.prev h2 := by omega
    refine ⟨?_, rfl⟩
    rw [← hnp, e1, knp]
  · exfalso; split_ifs at heq <;> omega
  · -- (3, 0)
    have ee : P.edge (P.prev h) = P.edge h2 := by split_ifs at heq <;> omega
    rcases he.edge_carriers (P.prev h) h2 hp0 hp1 k0 kH ee with hc | hc
    · exfalso
      rw [hc] at heq
      split_ifs at heq <;> omega
    · right
      simp only [Parent.cTwin, hc]
      push_cast
      ring
  · exfalso; split_ifs at heq <;> omega
  · exfalso; split_ifs at heq <;> omega
  · -- (3, 3)
    have ee : P.edge (P.prev h) = P.edge (P.prev h2) := by split_ifs at heq <;> omega
    rcases he.edge_carriers (P.prev h) (P.prev h2) hp0 hp1 kp0 kp1 ee with hc | hc
    · left
      refine ⟨?_, rfl⟩
      rw [← hnp, hc, knp]
    · exfalso
      have e1 := hv.twin_twin (P.prev h) hp0 hp1 (by omega)
      rw [hc] at e1
      have e2 := hne (P.prev h) hp0 hp1
      split_ifs at heq <;> omega

theorem Parent.child_edge_halves (P : Parent) (hv : P.Valid)
    (h : Int) (h0 : 0 ≤ h) (hH : h < P.H) :
    (P.cEdge h 0 = 2 * P.edge h ∧ P.cEdge (P.next h) 3 = 2 * P.edge h + 1) ∨
    (P.cEdge h 0 = 2 * P.edge h + 1 ∧ P.cEdge (P.next h) 3 = 2 * P.edge h) := by
  have e := hv.prev_next h h0 hH
  simp only [Parent.cEdge, e]
  split_ifs <;> omega

theorem Parent.child_edge_tiebreak (P : Parent) (hv : P.Valid) (hne : P.TwinIrreflexive)
    (h : Int) (h0 : 0 ≤ h) (hH : h < P.H) (ht : 0 ≤ P.twin h) :
    P.cEdge h 0 = P.cEdge (P.next (P.twin h)) 3 ∧ P.cEdge h 0 ≠ P.cEdge (P.twin h) 0 := by
  have htl := hv.twin_lt h h0 hH
  have e1 := hv.prev_next (P.twin h) ht htl
  have e2 := hv.twin_twin h h0 hH ht
  have e3 := hv.twin_edge h h0 hH ht
  have e4 := hne h h0 hH
  simp only [Parent.cEdge, e1, e2, e3]
  constructor
  · split_ifs <;> omega
  · split_ifs <;> omega

/-- On the cage, every halfedge is on an edge `0 ≤ e < E0`, and two halfedges on
the same edge are equal or twins. -/
def ccm_EdgeInvariant (cage : cc_Mesh) : Prop :=
  ∀ h : Nat, h < ccm_HalfedgeCount cage → ∀ e ∈ ccm_HalfedgeEdgeID cage h,
    0 ≤ e ∧ e < (ccm_EdgeCount cage : Int) ∧
    ∀ h2 : Nat, h2 < ccm_HalfedgeCount cage → ccm_HalfedgeEdgeID cage h2 = some e →
      h = h2 ∨ ccm_HalfedgeTwinID cage h = some (h2 : Int)

/-- On the first `n` halfedges of a level with `E` edges, every halfedge is on
an edge `0 ≤ e < E`, and two halfedges on the same edge are equal or twins. -/
def ccs_EdgeInvariant (halfedges : List cc_Halfedge_SemiRegular) (n E : Nat) : Prop :=
  ∀ c : Nat, c < n → ∀ r ∈ halfedges[c]?,
    0 ≤ r.edgeID ∧ r.edgeID < (E : Int) ∧
    ∀ c2 : Nat, c2 < n → ∀ r2 ∈ halfedges[c2]?, r.edgeID = r2.edgeID →
      c = c2 ∨ r.twinID = c2

/-- On the first `n` halfedges of a level, an edge is carried by one halfedge
or by two halfedges that are each other's twins. -/
def ccs_EdgeCarriers (halfedges : List cc_Halfedge_SemiRegular) (n : Nat) : Prop :=
  n ≤ halfedges.length ∧
  ∀ c : Nat, c < n → ∀ r ∈ halfedges[c]?, ∀ c2 : Nat, c2 < n → ∀ r2 ∈ halfedges[c2]?,
    r.edgeID = r2.edgeID → c = c2 ∨ (r.twinID = c2 ∧ r2.twinID = c)

instance (cage : cc_Mesh) : Decidable (ccm_EdgeInvariant cage) := by
  unfold ccm_EdgeInvariant
  infer_instance

instance (halfedges : List cc_Halfedge_SemiRegular) (n E : Nat) :
    Decidable (ccs_EdgeInvariant halfedges n E) := by
  unfold ccs_EdgeInvariant
  infer_instance

instance (halfedges : List cc_Halfedge_SemiRegular) (n : Nat) :
    Decidable (ccs_EdgeCarriers halfedges n) := by
  unfold ccs_EdgeCarriers
  infer_instance

theorem cageParent_edgeValid (cage : cc_Mesh) (he : ccm_EdgeInvariant cage) :
    (cageParent cage).EdgeValid := by
  have hPH : (cageParent cage).H = ccm_HalfedgeCount cage := rfl
  constructor
  · intro h h0 h1
    rw [hPH] at h1
    have hc : ((h.toNat : Nat) : Int) = h := by omega
    have := he h.toNat (by omega) ((cageParent cage).edge h)
      (by rw [hc, cage_edge_eq cage h h0 h1]; exact rfl)
    exact ⟨this.1, this.2.1⟩
  · intro h h2 h0 h1 k0 k1 heq
    rw [hPH] at h1 k1
    have hc : ((h.toNat : Nat) : Int) = h := by omega
    have kc : ((h2.toNat : Nat) : Int) = h2 := by omega
    have := (he h.toNat (by omega) ((cageParent cage).edge h)
      (by rw [hc, cage_edge_eq cage h h0 h1]; exact rfl)).2.2 h2.toNat (by omega)
      (by rw [kc, cage_edge_eq cage h2 k0 k1, heq])
    rcases this with a | a
    · left; omega
    · right
      rw [hc, kc, cage_twin_eq cage h h0 h1] at a
      exact Option.some.inj a

theorem level_getElem_getD (halfedgesIn : List cc_Halfedge_SemiRegular) (h : Int) (h0 : 0 ≤ h)
    (h1 : h < (halfedgesIn.length : Int)) :
    halfedgesIn[h.toNat]? = some (halfedgesIn.getD h.toNat default) := by
  have hlt : h.toNat < halfedgesIn.length := by omega
  simp [List.getD_eq_getElem?_getD, List.getElem?_eq_getElem hlt]

theorem levelParent_edgeValid (cage : cc_Mesh) (depth : Nat)
    (halfedgesIn : List cc_Halfedge_SemiRegular)
    (hH : halfedgesIn.length = ccm_HalfedgeCountAtDepth cage depth)
    (he : ccs_EdgeInvariant halfedgesIn (ccm_HalfedgeCountAtDepth cage depth)
      (ccm_EdgeCountAtDepth_Fast cage depth)) :
    (levelParent cage depth halfedgesIn).EdgeValid := by
  have hPH : (levelParent cage depth halfedgesIn).H = ccm_HalfedgeCountAtDepth cage depth := rfl
  constructor
  · intro h h0 h1
    rw [hPH] at h1
    have := he h.toNat (by omega) _ (level_getElem_getD halfedgesIn h h0 (by omega))
    exact ⟨this.1, this.2.1⟩
  · intro h h2 h0 h1 k0 k1 heq
    rw [hPH] at h1 k1
    have := (he h.toNat (by omega) _ (level_getElem_getD halfedgesIn h h0 (by omega))).2.2
      h2.toNat (by omega) _ (level_getElem_getD halfedgesIn h2 k0 (by omega)) heq
    rcases this with a | a
    · left; omega
    · right
      have a2 : (levelParent cage depth halfedgesIn).twin h = (h2.toNat : Int) := a
      omega

theorem Refined.slotInt {P : Parent} {out out' : List cc_Halfedge_SemiRegular}
    (hr : Refined P out out') (h : Int) (h0 : 0 ≤ h) (hH : h < P.H) (i : Nat) (hi : i < 4) :
    ∃ old, readAt out' (4 * h + i) =
      some (newHalfedge (P.cTwin h i) (P.cEdge h i) (P.cVertex h i) old) := by
  obtain ⟨old, _, b⟩ := hr.slot h.toNat i (by omega) hi
  have hcast : ((h.toNat : Nat) : Int) = h := by omega
  rw [hcast] at b
  refine ⟨old, ?_⟩
  have : (4 * h + (i : Int)) = ((4 * h.toNat + i : Nat) : Int) := by push_cast; omega
  rw [this, readAt_natCast, b]

theorem Refined.slotNat {P : Parent} {out out' : List cc_Halfedge_SemiRegular}
    (hr : Refined P out out') (c : Nat) (hc : c < 4 * P.H) (r : cc_Halfedge_SemiRegular)
    (hrc : out'[c]? = some r) :
    r.twinID = P.cTwin (c / 4 : Nat) (c % 4) ∧ r.edgeID = P.cEdge (c / 4 : Nat) (c % 4) ∧
      r.vertexID = P.cVertex (c / 4 : Nat) (c % 4) := by
  obtain ⟨old, _, ho⟩ := hr.slot (c / 4) (c % 4) (by omega) (Nat.mod_lt _ (by decide))
  have hcc : 4 * (c / 4) + c % 4 = c := Nat.div_add_mod c 4
  rw [hcc, hrc] at ho
  have := Option.some.inj ho
  subst this
  exact ⟨rfl, rfl, rfl⟩

theorem Refined.edgeCarriers {P : Parent} {out out' : List cc_Halfedge_SemiRegular}
    (hr : Refined P out out') (hv : P.Valid) (hne : P.TwinIrreflexive) (he : P.EdgeValid) :
    ccs_EdgeCarriers out' (4 * P.H) := by
  refine ⟨by have := hr.1; have := hr.2.1; omega, ?_⟩
  intro c hc r hrc c2 hc2 r2 hrc2 heq
  obtain ⟨a1, a2, _⟩ := hr.slotNat c hc r hrc
  obtain ⟨b1, b2, _⟩ := hr.slotNat c2 hc2 r2 hrc2
  rw [a2, b2] at heq
  have hd : ((c / 4 : Nat) : Int) < P.H := by omega
  have hd2 : ((c2 / 4 : Nat) : Int) < P.H := by omega
  have hm := Nat.mod_lt c (by decide : 4 > 0)
  have hm2 := Nat.mod_lt c2 (by decide : 4 > 0)
  rcases P.child_edge_carriers hv hne he _ (by omega) hd _ hm _ (by omega) hd2 _ hm2 heq
    with ⟨x, y⟩ | x
  · left; omega
  · right
    have x2 : P.cTwin (c2 / 4 : Nat) (c2 % 4) = 4 * ((c / 4 : Nat) : Int) + ((c % 4 : Nat) : Int) := by
      rcases P.child_edge_carriers hv hne he _ (by omega) hd2 _ hm2 _ (by omega) hd _ hm heq.symm
        with ⟨x3, y3⟩ | x3
      · -- the two children are the same one: its twin is itself, which cannot be
        exfalso
        have hcc : c = c2 := by omega
        subst hcc
        obtain ⟨h3, i3, _, _, _, t1, t2, _⟩ := P.child_twin hv hne _ (by omega) hd _ hm
          (by rw [x]; omega)
        have h4 : c % 4 = 0 ∨ c % 4 = 1 ∨ c % 4 = 2 ∨ c % 4 = 3 := by omega
        have q1 := hv.next_prev (c / 4 : Nat) (by omega) hd
        have q2 := hv.prev_next (c / 4 : Nat) (by omega) hd
        rcases h4 with e | e | e | e <;> rw [e] at x <;> simp only [Parent.cTwin] at x <;> omega
      · exact x3
    rw [a1, b1, x, x2]
    push_cast
    omega

/-- The two halves `r0` (child 0 of `h`) and `r3` (child 3 of `next(h)`) of the
parent edge `e` carry the two child edges `2e` and `2e + 1`. -/
def EdgeHalves (e : Int) (r0 r3 : cc_Halfedge_SemiRegular) : Prop :=
  (r0.edgeID = 2 * e ∧ r3.edgeID = 2 * e + 1) ∨ (r0.edgeID = 2 * e + 1 ∧ r3.edgeID = 2 * e)

theorem Refined.edgeHalves {P : Parent} {out out' : List cc_Halfedge_SemiRegular}
    (hr : Refined P out out') (hv : P.Valid) (h : Nat) (hh : h < P.H) :
    ∃ r0 r3, out'[4 * h]? = some r0 ∧ readAt out' (4 * P.next h + 3) = some r3 ∧
      EdgeHalves (P.edge h) r0 r3 := by
  have h0 : (0 : Int) ≤ h := by omega
  have h1 : (h : Int) < (P.H : Int) := by omega
  obtain ⟨hn0, hn1⟩ := hv.next_range h h0 h1
  obtain ⟨o0, _, b0⟩ := hr.slot h 0 hh (by decide)
  obtain ⟨o3, b3⟩ := hr.slotInt (P.next h) hn0 hn1 3 (by decide)
  exact ⟨_, _, b0, b3, P.child_edge_halves hv h h0 h1⟩

theorem Refined.edgeTiebreak {P : Parent} {out out' : List cc_Halfedge_SemiRegular}
    (hr : Refined P out out') (hv : P.Valid) (hne : P.TwinIrreflexive) (h : Nat) (hh : h < P.H)
    (r0 : cc_Halfedge_SemiRegular) (hr0 : out'[4 * h]? = some r0) (ht : 0 ≤ P.twin h) :
    ∃ q3 s0, readAt out' (4 * P.next (P.twin h) + 3) = some q3 ∧
      readAt out' (4 * P.twin h) = some s0 ∧ r0.edgeID = q3.edgeID ∧ r0.edgeID ≠ s0.edgeID := by
  have h0 : (0 : Int) ≤ h := by omega
  have h1 : (h : Int) < (P.H : Int) := by omega
  have htl := hv.twin_lt h h0 h1
  obtain ⟨hn0, hn1⟩ := hv.next_range (P.twin h) ht htl
  obtain ⟨o0, _, b0⟩ := hr.slot h 0 hh (by decide)
  have b0' : out'[4 * h]? =
      some (newHalfedge (P.cTwin h 0) (P.cEdge h 0) (P.cVertex h 0) o0) := b0
  rw [hr0] at b0'
  have e0 := Option.some.inj b0'
  obtain ⟨o3, b3⟩ := hr.slotInt (P.next (P.twin h)) hn0 hn1 3 (by decide)
  obtain ⟨o4, b4⟩ := hr.slotInt (P.twin h) ht htl 0 (by decide)
  obtain ⟨t1, t2⟩ := P.child_edge_tiebreak hv hne h h0 h1 ht
  refine ⟨_, newHalfedge (P.cTwin (P.twin h) 0) (P.cEdge (P.twin h) 0)
    (P.cVertex (P.twin h) 0) o4, b3, ?_, ?_, ?_⟩
  · have : (4 * P.twin h) = 4 * P.twin h + ((0 : Nat) : Int) := by push_cast; ring
    rw [this]
    exact b4
  · rw [e0]; exact t1
  · rw [e0]; exact t2

/-- C5: for a valid parent level (next/prev and twin invariants, no halfedge its
own twin, every edge in `[0, E)` and carried by one halfedge or by two twins),
`ccs__RefineCageHalfedges` (first part) and `ccs__RefineHalfedges` (second part)
return a level in which a child edge is carried by one child halfedge or by two
that are each other's twins; for every parent halfedge `h` on the edge `e` the
two halves of `h` (child 0 of `h`, child 3 of `next(h)`) carry the two distinct
edges `2e` and `2e + 1`; and when `t = twin(h)` is present, child 0 of `h` and
child 3 of `next(t)` carry the same edge while child 0 of `h` and child 0 of `t`
carry different ones. -/
theorem C5_child_edges :
    (∀ (subd : cc_Subd) (out : List cc_Halfedge_SemiRegular),
      subd.halfedges[0]? = some out →
      4 * ccm_HalfedgeCount subd.cage ≤ out.length →
      ccm_NextPrevInvariant subd.cage →
      ccm_TwinInvariant subd.cage →
      ccm_TwinIrreflexive subd.cage →
      ccm_EdgeInvariant subd.cage →
      ∃ out', ccs__RefineCageHalfedges subd =
          some { subd with halfedges := subd.halfedges.set 0 out' } ∧
        ccs_EdgeCarriers out' (4 * ccm_HalfedgeCount subd.cage) ∧
        ∀ h : Nat, h < ccm_HalfedgeCount subd.cage →
          ∃ (e n t : Int) (r0 r3 : cc_Halfedge_SemiRegular),
            ccm_HalfedgeEdgeID subd.cage h = some e ∧
            ccm_HalfedgeNextID subd.cage h = some n ∧
            ccm_HalfedgeTwinID subd.cage h = some t ∧
            out'[4 * h]? = some r0 ∧ readAt out' (4 * n + 3) = some r3 ∧
            EdgeHalves e r0 r3 ∧
            (0 ≤ t → ∃ (tn : Int) (q3 s0 : cc_Halfedge_SemiRegular),
              ccm_HalfedgeNextID subd.cage t = some tn ∧
              readAt out' (4 * tn + 3) = some q3 ∧ readAt out' (4 * t) = some s0 ∧
              r0.edgeID = q3.edgeID ∧ r0.edgeID ≠ s0.edgeID)) ∧
    (∀ (subd : cc_Subd) (depth : Nat) (halfedgesIn out : List cc_Halfedge_SemiRegular),
      ccs__Level subd.halfedges depth = some halfedgesIn →
      halfedgesIn.length = ccm_HalfedgeCountAtDepth subd.cage depth →
      ccs__Level subd.halfedges (depth + 1) = some out →
      4 * ccm_HalfedgeCountAtDepth subd.cage depth ≤ out.length →
      ccs_TwinInvariant halfedgesIn (ccm_HalfedgeCountAtDepth subd.cage depth) →
      ccs_TwinIrreflexive halfedgesIn (ccm_HalfedgeCountAtDepth subd.cage depth) →
      ccs_EdgeInvariant halfedgesIn (ccm_HalfedgeCountAtDepth subd.cage depth)
        (ccm_EdgeCountAtDepth_Fast subd.cage depth) →
      ∃ out', ccs__RefineHalfedges subd depth =
          some { subd with halfedges := subd.halfedges.set depth out' } ∧
        ccs_EdgeCarriers out' (4 * ccm_HalfedgeCountAtDepth subd.cage depth) ∧
        ∀ h : Nat, h < ccm_HalfedgeCountAtDepth subd.cage depth →
          ∃ (e t : Int) (r0 r3 : cc_Halfedge_SemiRegular),
            ccs_HalfedgeEdgeID subd h depth = some e ∧
            ccs_HalfedgeTwinID subd h depth = some t ∧
            out'[4 * h]? = some r0 ∧
            readAt out' (4 * ccm_HalfedgeNextID_Quad h + 3) = some r3 ∧
            EdgeHalves e r0 r3 ∧
            (0 ≤ t → ∃ (q3 s0 : cc_Halfedge_SemiRegular),
              readAt out' (4 * ccm_HalfedgeNextID_Quad t + 3) = some q3 ∧
              readAt out' (4 * t) = some s0 ∧
              r0.edgeID = q3.edgeID ∧ r0.edgeID ≠ s0.edgeID)) := by
  constructor
  · intro subd out hout hlen hnp htw hne hed
    have hv := cageParent_valid subd.cage hnp htw
    have hi := cageParent_irreflexive subd.cage hne
    obtain ⟨o, e1, e2⟩ := cage_kernel_refined subd out hout
      (cage_linksInBounds subd.cage hnp htw) hlen
    refine ⟨o, e1, e2.edgeCarriers hv hi (cageParent_edgeValid subd.cage hed), ?_⟩
    intro h hh
    have h0 : (0 : Int) ≤ h := by omega
    have h1 : (h : Int) < (ccm_HalfedgeCount subd.cage : Int) := by omega
    obtain ⟨r0, r3, a0, a1, a2⟩ := e2.edgeHalves hv h hh
    refine ⟨_, _, _, r0, r3, cage_edge_eq _ _ h0 h1, cage_next_eq _ _ h0 h1,
      cage_twin_eq _ _ h0 h1, a0, a1, a2, ?_⟩
    intro ht
    obtain ⟨q3, s0, b0, b1, b2, b3⟩ := e2.edgeTiebreak hv hi h hh r0 a0 ht
    exact ⟨_, q3, s0, cage_next_eq _ _ ht (hv.twin_lt h h0 h1), b0, b1, b2, b3⟩
  · intro subd depth halfedgesIn out hin hH hout hlen htw hne hed
    have hd := ccs__Level_depth_pos _ _ _ hin
    have hv := levelParent_valid subd.cage depth hd halfedgesIn hH htw
    have hi := levelParent_irreflexive subd.cage depth halfedgesIn hH hne
    obtain ⟨o, e1, e2⟩ := level_kernel_refined subd depth halfedgesIn out hin hH hout hlen
    refine ⟨o, e1, e2.edgeCarriers hv hi (levelParent_edgeValid subd.cage depth halfedgesIn hH hed),
      ?_⟩
    intro h hh
    have h0 : (0 : Int) ≤ h := by omega
    have h1 : (h : Int) < (halfedgesIn.length : Int) := by omega
    obtain ⟨r0, r3, a0, a1, a2⟩ := e2.edgeHalves hv h hh
    refine ⟨_, _, r0, r3, level_edge_eq subd depth halfedgesIn hin h h0 h1,
      level_twin_eq subd depth halfedgesIn hin h h0 h1, a0, a1, a2, ?_⟩
    intro ht
    obtain ⟨q3, s0, b0, b1, b2, b3⟩ := e2.edgeTiebreak hv hi h hh r0 a0 ht
    exact ⟨q3, s0, b0, b1, b2, b3⟩

/-- C5, witness: the two glued triangles (cage kernel) and level 1 of the open
quad (level kernel). -/
theorem C5_child_edges_witness :
    (∃ out', ccs__RefineCageHalfedges
        { cage := twoTriangles, maxDepth := 1, creases := [],
          halfedges := [List.replicate 24 ⟨0, 0, 0, 0⟩] } =
          some { cage := twoTriangles, maxDepth := 1, creases := [], halfedges := [out'] } ∧
        ccs_EdgeCarriers out' 24 ∧
        ∀ h : Nat, h < 6 →
          ∃ (e n t : Int) (r0 r3 : cc_Halfedge_SemiRegular),
            ccm_HalfedgeEdgeID twoTriangles h = some e ∧
            ccm_HalfedgeNextID twoTriangles h = some n ∧
            ccm_HalfedgeTwinID twoTriangles h = some t ∧
            out'[4 * h]? = some r0 ∧ readAt out' (4 * n + 3) = some r3 ∧
            EdgeHalves e r0 r3 ∧
            (0 ≤ t → ∃ (tn : Int) (q3 s0 : cc_Halfedge_SemiRegular),
              ccm_HalfedgeNextID twoTriangles t = some tn ∧
              readAt out' (4 * tn + 3) = some q3 ∧ readAt out' (4 * t) = some s0 ∧
              r0.edgeID = q3.edgeID ∧ r0.edgeID ≠ s0.edgeID)) ∧
    (∃ out', ccs__RefineHalfedges quadSubd 1 =
          some { quadSubd with halfedges := quadSubd.halfedges.set 1 out' } ∧
        ccs_EdgeCarriers out' (4 * ccm_HalfedgeCountAtDepth quadSubd.cage 1) ∧
        ∀ h : Nat, h < ccm_HalfedgeCountAtDepth quadSubd.cage 1 →
          ∃ (e t : Int) (r0 r3 : cc_Halfedge_SemiRegular),
            ccs_HalfedgeEdgeID quadSubd h 1 = some e ∧
            ccs_HalfedgeTwinID quadSubd h 1 = some t ∧
            out'[4 * h]? = some r0 ∧
            readAt out' (4 * ccm_HalfedgeNextID_Quad h + 3) = some r3 ∧
            EdgeHalves e r0 r3 ∧
            (0 ≤ t → ∃ (q3 s0 : cc_Halfedge_SemiRegular),
              readAt out' (4 * ccm_HalfedgeNextID_Quad t + 3) = some q3 ∧
              readAt out' (4 * t) = some s0 ∧
              r0.edgeID = q3.edgeID ∧ r0.edgeID ≠ s0.edgeID)) :=
  ⟨C5_child_edges.1
      { cage := twoTriangles, maxDepth := 1, creases := [],
        halfedges := [List.replicate 24 ⟨0, 0, 0, 0⟩] }
      (List.replicate 24 ⟨0, 0, 0, 0⟩) rfl (by decide) (by decide) (by decide) (by decide)
      (by decide),
    C5_child_edges.2 quadSubd 1 quadLevel1 (List.replicate 64 ⟨0, 0, 0, 0⟩)
      rfl (by decide) rfl (by decide) (by decide) (by decide) (by decide)⟩

/-! ## C6: the child vertex and edge identifiers -/

/-- Every parent halfedge has its vertex in `[0, V)`, its face in `[0, F)` and
its edge in `[0, E)`, and every vertex, face and edge is the one of some parent
halfedge. -/
structure Parent.Covered (P : Parent) : Prop where
  vertex_range : ∀ h : Int, 0 ≤ h → h < P.H → 0 ≤ P.vertex h ∧ P.vertex h < P.V
  face_range : ∀ h : Int, 0 ≤ h → h < P.H → 0 ≤ P.face h ∧ P.face h < P.F
  edge_range : ∀ h : Int, 0 ≤ h → h < P.H → 0 ≤ P.edge h ∧ P.edge h < P.E
  vertex_surj : ∀ v : Int, 0 ≤ v → v < P.V → ∃ h : Int, 0 ≤ h ∧ h < P.H ∧ P.vertex h = v
  face_surj : ∀ f : Int, 0 ≤ f → f < P.F → ∃ h : Int, 0 ≤ h ∧ h < P.H ∧ P.face h = f
  edge_surj : ∀ e : Int, 0 ≤ e → e < P.E → ∃ h : Int, 0 ≤ h ∧ h < P.H ∧ P.edge h = e

theorem Parent.child_vertex_range (P : Parent) (hv : P.Valid) (hc : P.Covered)
    (h : Int) (h0 : 0 ≤ h) (hH : h < P.H) (i : Nat) (hi : i < 4) :
    0 ≤ P.cVertex h i ∧ P.cVertex h i < P.V + P.F + P.E := by
  obtain ⟨hp0, hp1⟩ := hv.prev_range h h0 hH
  have a := hc.vertex_range h h0 hH
  have b := hc.face_range h h0 hH
  have c := hc.edge_range h h0 hH
  have d := hc.edge_range (P.prev h) hp0 hp1
  have h4 : i = 0 ∨ i = 1 ∨ i = 2 ∨ i = 3 := by omega
  rcases h4 with rfl | rfl | rfl | rfl <;> simp only [Parent.cVertex] <;> omega

theorem Parent.child_vertex_surj (P : Parent) (hc : P.Covered)
    (v : Int) (v0 : 0 ≤ v) (v1 : v < P.V + P.F + P.E) :
    ∃ (h : Int) (i : Nat), 0 ≤ h ∧ h < P.H ∧ i < 4 ∧ P.cVertex h i = v := by
  by_cases c1 : v < P.V
  · obtain ⟨h, a, b, c⟩ := hc.vertex_surj v v0 c1
    exact ⟨h, 0, a, b, by decide, c⟩
  · by_cases c2 : v < P.V + P.F
    · obtain ⟨h, a, b, c⟩ := hc.face_surj (v - P.V) (by omega) (by omega)
      refine ⟨h, 2, a, b, by decide, ?_⟩
      simp only [Parent.cVertex, c]
      ring
    · obtain ⟨h, a, b, c⟩ := hc.edge_surj (v - P.V - P.F) (by omega) (by omega)
      refine ⟨h, 1, a, b, by decide, ?_⟩
      simp only [Parent.cVertex, c]
      ring

theorem Parent.child_edge_range (P : Parent) (hv : P.Valid) (hc : P.Covered)
    (h : Int) (h0 : 0 ≤ h) (hH : h < P.H) (i : Nat) (hi : i < 4) :
    0 ≤ P.cEdge h i ∧ P.cEdge h i < 2 * P.E + P.H := by
  obtain ⟨hp0, hp1⟩ := hv.prev_range h h0 hH
  have c := hc.edge_range h h0 hH
  have d := hc.edge_range (P.prev h) hp0 hp1
  have h4 : i = 0 ∨ i = 1 ∨ i = 2 ∨ i = 3 := by omega
  rcases h4 with rfl | rfl | rfl | rfl <;> simp only [Parent.cEdge] <;> omega

theorem Parent.child_edge_surj (P : Parent) (hv : P.Valid) (hc : P.Covered)
    (e : Int) (e0 : 0 ≤ e) (e1 : e < 2 * P.E + P.H) :
    ∃ (h : Int) (i : Nat), 0 ≤ h ∧ h < P.H ∧ i < 4 ∧ P.cEdge h i = e := by
  by_cases c1 : e < 2 * P.E
  · obtain ⟨h, a, b, c⟩ := hc.edge_surj (e / 2) (by omega) (by omega)
    obtain ⟨hn0, hn1⟩ := hv.next_range h a b
    rcases P.child_edge_halves hv h a b with ⟨x, y⟩ | ⟨x, y⟩
    · by_cases par : e % 2 = 0
      · exact ⟨h, 0, a, b, by decide, by rw [x, c]; omega⟩
      · exact ⟨P.next h, 3, hn0, hn1, by decide, by rw [y, c]; omega⟩
    · by_cases par : e % 2 = 0
      · exact ⟨P.next h, 3, hn0, hn1, by decide, by rw [y, c]; omega⟩
      · exact ⟨h, 0, a, b, by decide, by rw [x, c]; omega⟩
  · refine ⟨e - 2 * P.E, 1, by omega, by omega, by decide, ?_⟩
    simp only [Parent.cEdge]
    ring

/-- The vertex identifiers of the first `n` halfedges of a level are exactly the
`V` identifiers `0 .. V - 1`. -/
def ccs_VertexIDsExactly (halfedges : List cc_Halfedge_SemiRegular) (n V : Nat) : Prop :=
  (∀ c : Nat, c < n → ∀ r ∈ halfedges[c]?, 0 ≤ r.vertexID ∧ r.vertexID < (V : Int)) ∧
  (∀ v : Nat, v < V → ∃ c : Nat, c < n ∧ ∃ r ∈ halfedges[c]?, r.vertexID = (v : Int))

/-- The edge identifiers of the first `n` halfedges of a level are exactly the
`E` identifiers `0 .. E - 1`. -/
def ccs_EdgeIDsExactly (halfedges : List cc_Halfedge_SemiRegular) (n E : Nat) : Prop :=
  (∀ c : Nat, c < n → ∀ r ∈ halfedges[c]?, 0 ≤ r.edgeID ∧ r.edgeID < (E : Int)) ∧
  (∀ e : Nat, e < E → ∃ c : Nat, c < n ∧ ∃ r ∈ halfedges[c]?, r.edgeID = (e : Int))

/-- On the cage, every halfedge has its vertex in `[0, V0)`, its face in
`[0, F0)` and its edge in `[0, E0)`, and every vertex, face and edge is
referenced by some halfedge. -/
def ccm_Covered (cage : cc_Mesh) : Prop :=
  (∀ r ∈ cage.halfedges,
    0 ≤ r.vertexID ∧ r.vertexID < (ccm_VertexCount cage : Int) ∧
    0 ≤ r.faceID ∧ r.faceID < (ccm_FaceCount cage : Int) ∧
    0 ≤ r.edgeID ∧ r.edgeID < (ccm_EdgeCount cage : Int)) ∧
  (∀ v : Nat, v < ccm_VertexCount cage →
    ∃ h : Nat, h < ccm_HalfedgeCount cage ∧ ccm_HalfedgeVertexID cage h = some (v : Int)) ∧
  (∀ f : Nat, f < ccm_FaceCount cage →
    ∃ h : Nat, h < ccm_HalfedgeCount cage ∧ ccm_HalfedgeFaceID cage h = some (f : Int)) ∧
  (∀ e : Nat, e < ccm_EdgeCount cage →
    ∃ h : Nat, h < ccm_HalfedgeCount cage ∧ ccm_HalfedgeEdgeID cage h = some (e : Int))

instance (halfedges : List cc_Halfedge_SemiRegular) (n V : Nat) :
    Decidable (ccs_VertexIDsExactly halfedges n V) := by
  unfold ccs_VertexIDsExactly
  infer_instance

instance (halfedges : List cc_Halfedge_SemiRegular) (n E : Nat) :
    Decidable (ccs_EdgeIDsExactly halfedges n E) := by
  unfold ccs_EdgeIDsExactly
  infer_instance

instance (cage : cc_Mesh) : Decidable (ccm_Covered cage) := by
  unfold ccm_Covered
  infer_instance

/-- The unit cube: 8 vertices, 12 edges, 6 quad faces, 24 halfedges. -/
def cubeCage : cc_Mesh :=
  { vertexCount := 8, edgeCount := 12, faceCount := 6, creases := [],
    halfedges := [
      ⟨19, 1, 3, 0, 0, 0, 0⟩,
      ⟨15, 2, 0, 0, 1, 2, 0⟩,
      ⟨20, 3, 1, 0, 2, 3, 0⟩,
      ⟨8, 0, 2, 0, 3, 1, 0⟩,
      ⟨10, 5, 7, 1, 4, 4, 0⟩,
      ⟨22, 6, 4, 1, 5, 5, 0⟩,
      ⟨13, 7, 5, 1, 6, 7, 0⟩,
      ⟨17, 4, 6, 1, 7, 6, 0⟩,
      ⟨3, 9, 11, 2, 3, 0, 0⟩,
      ⟨23, 10, 8, 2, 8, 1, 0⟩,
      ⟨4, 11, 9, 2, 4, 5, 0⟩,
      ⟨16, 8, 10, 2, 9, 4, 0⟩,
      ⟨18, 13, 15, 3, 10, 2, 0⟩,
      ⟨6, 14, 12, 3, 6, 6, 0⟩,
      ⟨21, 15, 13, 3, 11, 7, 0⟩,
      ⟨1, 12, 14, 3, 1, 3, 0⟩,
      ⟨11, 17, 19, 4, 9, 0, 0⟩,
      ⟨7, 18, 16, 4, 7, 4, 0⟩,
      ⟨12, 19, 17, 4, 10, 6, 0⟩,
      ⟨0, 16, 18, 4, 0, 2, 0⟩,
      ⟨2, 21, 23, 5, 2, 1, 0⟩,
      ⟨14, 22, 20, 5, 11, 3, 0⟩,
      ⟨5, 23, 21, 5, 5, 7, 0⟩,
      ⟨9, 20, 22, 5, 8, 5, 0⟩] }

/-- A blank subdivision of depth 2 of the cube. -/
def cubeSubd : cc_Subd :=
  { cage := cubeCage, maxDepth := 2, creases := [],
    halfedges := [List.replicate 96 ⟨0, 0, 0, 0⟩, List.replicate 384 ⟨0, 0, 0, 0⟩] }

theorem cubeCage_valid :
    ccm_NextPrevInvariant cubeCage ∧ ccm_TwinInvariant cubeCage ∧ ccm_Covered cubeCage := by
  decide

theorem cageParent_covered (cage : cc_Mesh) (hc : ccm_Covered cage) :
    (cageParent cage).Covered := by
  have hPH : (cageParent cage).H = ccm_HalfedgeCount cage := rfl
  obtain ⟨hr, hv, hf, he⟩ := hc
  have key : ∀ h : Int, 0 ≤ h → h < (ccm_HalfedgeCount cage : Int) →
      cage.halfedges.getD h.toNat default ∈ cage.halfedges := by
    intro h h0 h1
    have hlt : h.toNat < cage.halfedges.length := by
      unfold ccm_HalfedgeCount at h1; omega
    rw [List.getD_eq_getElem?_getD, List.getElem?_eq_getElem hlt]
    exact List.getElem_mem _
  constructor
  · intro h h0 h1
    have := hr _ (key h h0 h1)
    exact ⟨this.1, this.2.1⟩
  · intro h h0 h1
    have := hr _ (key h h0 h1)
    exact ⟨this.2.2.1, this.2.2.2.1⟩
  · intro h h0 h1
    have := hr _ (key h h0 h1)
    exact ⟨this.2.2.2.2.1, this.2.2.2.2.2⟩
  · intro v v0 v1
    have v1' : v < ((ccm_VertexCount cage : Nat) : Int) := v1
    obtain ⟨h, a, b⟩ := hv v.toNat (by omega)
    have hc : ((v.toNat : Nat) : Int) = v := by omega
    rw [hc, cage_vertex_eq cage h (by omega) (by omega)] at b
    exact ⟨h, by omega, by rw [hPH]; omega, Option.some.inj b⟩
  · intro v v0 v1
    have v1' : v < ((ccm_FaceCount cage : Nat) : Int) := v1
    obtain ⟨h, a, b⟩ := hf v.toNat (by omega)
    have hc : ((v.toNat : Nat) : Int) = v := by omega
    rw [hc, cage_face_eq cage h (by omega) (by omega)] at b
    exact ⟨h, by omega, by rw [hPH]; omega, Option.some.inj b⟩
  · intro v v0 v1
    have v1' : v < ((ccm_EdgeCount cage : Nat) : Int) := v1
    obtain ⟨h, a, b⟩ := he v.toNat (by omega)
    have hc : ((v.toNat : Nat) : Int) = v := by omega
    rw [hc, cage_edge_eq cage h (by omega) (by omega)] at b
    exact ⟨h, by omega, by rw [hPH]; omega, Option.some.inj b⟩

theorem ccm_HalfedgeCountAtDepth_eq_faces (cage : cc_Mesh) (depth : Nat) (hd : 1 ≤ depth) :
    ccm_HalfedgeCountAtDepth cage depth = 4 * ccm_FaceCountAtDepth_Fast cage depth := by
  obtain ⟨d, rfl⟩ : ∃ d, depth = d + 1 := ⟨depth - 1, by omega⟩
  unfold ccm_HalfedgeCountAtDepth ccm_FaceCountAtDepth_Fast
  rw [pow_succ]
  ring

theorem levelParent_covered (cage : cc_Mesh) (depth : Nat) (hd : 1 ≤ depth)
    (halfedgesIn : List cc_Halfedge_SemiRegular)
    (hH : halfedgesIn.length = ccm_HalfedgeCountAtDepth cage depth)
    (hvx : ccs_VertexIDsExactly halfedgesIn (ccm_HalfedgeCountAtDepth cage depth)
      (ccm_VertexCountAtDepth_Fast cage depth))
    (hex : ccs_EdgeIDsExactly halfedgesIn (ccm_HalfedgeCountAtDepth cage depth)
      (ccm_EdgeCountAtDepth_Fast cage depth)) :
    (levelParent cage depth halfedgesIn).Covered := by
  have hPH : (levelParent cage depth halfedgesIn).H = ccm_HalfedgeCountAtDepth cage depth := rfl
  have hF := ccm_HalfedgeCountAtDepth_eq_faces cage depth hd
  have getr : ∀ (c : Nat) (r : cc_Halfedge_SemiRegular), halfedgesIn[c]? = some r →
      halfedgesIn.getD ((c : Int).toNat) default = r := by
    intro c r hr
    simp [List.getD_eq_getElem?_getD, hr]
  constructor
  · intro h h0 h1
    rw [hPH] at h1
    exact hvx.1 h.toNat (by omega) _ (level_getElem_getD halfedgesIn h h0 (by omega))
  · intro h h0 h1
    rw [hPH] at h1
    show 0 ≤ ccm_HalfedgeFaceID_Quad h ∧
      ccm_HalfedgeFaceID_Quad h < ((ccm_FaceCountAtDepth_Fast cage depth : Nat) : Int)
    unfold ccm_HalfedgeFaceID_Quad
    omega
  · intro h h0 h1
    rw [hPH] at h1
    exact hex.1 h.toNat (by omega) _ (level_getElem_getD halfedgesIn h h0 (by omega))
  · intro v v0 v1
    have v1' : v < ((ccm_VertexCountAtDepth_Fast cage depth : Nat) : Int) := v1
    obtain ⟨c, a, r, hr, b⟩ := hvx.2 v.toNat (by omega)
    refine ⟨c, by omega, by rw [hPH]; omega, ?_⟩
    show (halfedgesIn.getD ((c : Int).toNat) default).vertexID = v
    rw [getr c r hr, b]
    omega
  · intro f f0 f1
    have f1' : f < ((ccm_FaceCountAtDepth_Fast cage depth : Nat) : Int) := f1
    refine ⟨4 * f, by omega, by rw [hPH]; omega, ?_⟩
    show ccm_HalfedgeFaceID_Quad (4 * f) = f
    unfold ccm_HalfedgeFaceID_Quad
    omega
  · intro e e0 e1
    have e1' : e < ((ccm_EdgeCountAtDepth_Fast cage depth : Nat) : Int) := e1
    obtain ⟨c, a, r, hr, b⟩ := hex.2 e.toNat (by omega)
    refine ⟨c, by omega, by rw [hPH]; omega, ?_⟩
    show (halfedgesIn.getD ((c : Int).toNat) default).edgeID = e
    rw [getr c r hr, b]
    omega

theorem Refined.vertexIDsExactly {P : Parent} {out out' : List cc_Halfedge_SemiRegular}
    (hr : Refined P out out') (hv : P.Valid) (hc : P.Covered) (n : Nat)
    (hn : (n : Int) = P.V + P.F + P.E) : ccs_VertexIDsExactly out' (4 * P.H) n := by
  constructor
  · intro c hcl r hrc
    obtain ⟨_, _, a⟩ := hr.slotNat c hcl r hrc
    have := P.child_vertex_range hv hc (c / 4 : Nat) (by omega) (by omega) (c % 4)
      (Nat.mod_lt _ (by decide))
    rw [a, hn]
    exact this
  · intro v hvn
    obtain ⟨h, i, h0, h1, hi, e⟩ := P.child_vertex_surj hc v (by omega) (by omega)
    obtain ⟨old, _, b⟩ := hr.slot h.toNat i (by omega) hi
    have hcast : ((h.toNat : Nat) : Int) = h := by omega
    rw [hcast] at b
    exact ⟨4 * h.toNat + i, by omega, _, b, e⟩

theorem Refined.edgeIDsExactly {P : Parent} {out out' : List cc_Halfedge_SemiRegular}
    (hr : Refined P out out') (hv : P.Valid) (hc : P.Covered) (n : Nat)
    (hn : (n : Int) = 2 * P.E + P.H) : ccs_EdgeIDsExactly out' (4 * P.H) n := by
  constructor
  · intro c hcl r hrc
    obtain ⟨_, a, _⟩ := hr.slotNat c hcl r hrc
    have := P.child_edge_range hv hc (c / 4 : Nat) (by omega) (by omega) (c % 4)
      (Nat.mod_lt _ (by decide))
    rw [a, hn]
    exact this
  · intro v hvn
    obtain ⟨h, i, h0, h1, hi, e⟩ := P.child_edge_surj hv hc v (by omega) (by omega)
    obtain ⟨old, _, b⟩ := hr.slot h.toNat i (by omega) hi
    have hcast : ((h.toNat : Nat) : Int) = h := by omega
    rw [hcast] at b
    exact ⟨4 * h.toNat + i, by omega, _, b, e⟩

/-! ## All the levels: `ccs_RefineHalfedges` -/

/-- The halfedge buffer of the subdivision has one region per level
`1 .. maxDepth`, and the region of level `d` has `H0 * 4^d` slots. -/
def ccs_Allocated (subd : cc_Subd) : Prop :=
  subd.halfedges.length = ccs_MaxDepth subd ∧
  ∀ d : Nat, d < ccs_MaxDepth subd → ∀ l ∈ subd.halfedges[d]?,
    l.length = ccm_HalfedgeCountAtDepth subd.cage (d + 1)

instance (subd : cc_Subd) : Decidable (ccs_Allocated subd) := by
  unfold ccs_Allocated
  infer_instance

/-- The subdivision `s` is the subdivision `subd0` after the cage kernel and the
level kernels of the depths below `k`: the levels `1 .. k` are refined, the
others are as they were. -/
structure RefinedLevels (subd0 s : cc_Subd) (k : Nat) : Prop where
  cage_eq : s.cage = subd0.cage
  maxDepth_eq : s.maxDepth = subd0.maxDepth
  creases_eq : s.creases = subd0.creases
  length_eq : s.halfedges.length = subd0.halfedges.length
  untouched : ∀ d : Nat, k ≤ d → s.halfedges[d]? = subd0.halfedges[d]?
  first : ∃ out out', subd0.halfedges[0]? = some out ∧ s.halfedges[0]? = some out' ∧
    Refined (cageParent subd0.cage) out out'
  next : ∀ d : Nat, 1 ≤ d → d < k → ∃ hin out out', s.halfedges[d - 1]? = some hin ∧
    subd0.halfedges[d]? = some out ∧ s.halfedges[d]? = some out' ∧
    Refined (levelParent subd0.cage d hin) out out'

theorem ccm_HalfedgeCountAtDepth_succ (cage : cc_Mesh) (d : Nat) :
    ccm_HalfedgeCountAtDepth cage (d + 1) = 4 * ccm_HalfedgeCountAtDepth cage d := by
  unfold ccm_HalfedgeCountAtDepth
  rw [pow_succ]
  ring

theorem ccm_HalfedgeCountAtDepth_zero (cage : cc_Mesh) :
    ccm_HalfedgeCountAtDepth cage 0 = ccm_HalfedgeCount cage := by
  unfold ccm_HalfedgeCountAtDepth
  simp

theorem refine_cage_levels (subd0 : cc_Subd) (ha : ccs_Allocated subd0)
    (hD : 1 ≤ ccs_MaxDepth subd0) (hw : ccm_LinksInBounds subd0.cage) :
    ∃ s, ccs__RefineCageHalfedges subd0 = some s ∧ RefinedLevels subd0 s 1 := by
  have hlen0 : 0 < subd0.halfedges.length := by rw [ha.1]; omega
  have hout : subd0.halfedges[0]? = some subd0.halfedges[0] := List.getElem?_eq_getElem hlen0
  have hl := ha.2 0 (by omega) _ hout
  rw [ccm_HalfedgeCountAtDepth_succ, ccm_HalfedgeCountAtDepth_zero] at hl
  obtain ⟨o, e1, e2⟩ := cage_kernel_refined subd0 _ hout hw (by omega)
  refine ⟨_, e1, ⟨rfl, rfl, rfl, by simp, ?_, ⟨_, o, hout, by simp [hlen0], e2⟩, ?_⟩⟩
  · intro d hd
    simp only
    rw [List.getElem?_set_ne (by omega)]
  · intro d h1 h2
    omega

theorem RefinedLevels.level {subd0 s : cc_Subd} {k : Nat} (hr : RefinedLevels subd0 s k)
    (ha : ccs_Allocated subd0) (d : Nat) (h1 : 1 ≤ d) (h2 : d ≤ k)
    (h3 : d ≤ ccs_MaxDepth subd0) :
    ∃ l, ccs__Level s.halfedges d = some l ∧
      l.length = ccm_HalfedgeCountAtDepth subd0.cage d := by
  unfold ccs__Level
  rw [if_pos h1]
  by_cases hd : d = 1
  · subst hd
    obtain ⟨out, out', a, b, c⟩ := hr.first
    refine ⟨out', b, ?_⟩
    rw [c.2.1]
    exact ha.2 0 (by omega) _ a
  · obtain ⟨hin, out, out', a, b, c, e⟩ := hr.next (d - 1) (by omega) (by omega)
    refine ⟨out', c, ?_⟩
    rw [e.2.1]
    have := ha.2 (d - 1) (by omega) _ b
    rw [this]
    congr 1
    omega

theorem refine_level_step (subd0 s : cc_Subd) (k : Nat) (ha : ccs_Allocated subd0)
    (hr : RefinedLevels subd0 s k) (h1 : 1 ≤ k) (h2 : k < ccs_MaxDepth subd0) :
    ∃ s', ccs__RefineHalfedges s k = some s' ∧ RefinedLevels subd0 s' (k + 1) := by
  obtain ⟨hin, a, b⟩ := hr.level ha k h1 (le_refl _) (by omega)
  have hklen : k < subd0.halfedges.length := by rw [ha.1]; omega
  have hout0 : subd0.halfedges[k]? = some subd0.halfedges[k] := List.getElem?_eq_getElem hklen
  have hout : ccs__Level s.halfedges (k + 1) = some subd0.halfedges[k] := by
    unfold ccs__Level
    rw [if_pos (by omega)]
    show s.halfedges[k]? = _
    rw [hr.untouched k (le_refl _), hout0]
  have hl := ha.2 k h2 _ hout0
  rw [ccm_HalfedgeCountAtDepth_succ] at hl
  rw [← hr.cage_eq] at b hl
  obtain ⟨o, e1, e2⟩ := level_kernel_refined s k hin _ a b hout (by omega)
  have hks : k < s.halfedges.length := by rw [hr.length_eq]; exact hklen
  refine ⟨_, e1, ⟨hr.cage_eq, hr.maxDepth_eq, hr.creases_eq, by simp [hr.length_eq], ?_, ?_, ?_⟩⟩
  · intro d hd
    simp only
    rw [List.getElem?_set_ne (by omega)]
    exact hr.untouched d (by omega)
  · obtain ⟨out, out', x, y, z⟩ := hr.first
    refine ⟨out, out', x, ?_, z⟩
    simp only
    rw [List.getElem?_set_ne (by omega)]
    exact y
  · intro d d1 d2
    by_cases hd : d = k
    · subst hd
      unfold ccs__Level at a
      rw [if_pos h1] at a
      refine ⟨hin, _, o, ?_, hout0, ?_, ?_⟩
      · simp only
        rw [List.getElem?_set_ne (by omega)]
        exact a
      · simp only
        rw [List.getElem?_set_self hks]
      · rw [← hr.cage_eq]
        exact e2
    · obtain ⟨hin2, out2, out2', x, y, z, w⟩ := hr.next d d1 (by omega)
      refine ⟨hin2, out2, out2', ?_, y, ?_, w⟩
      · simp only
        rw [List.getElem?_set_ne (by omega)]
        exact x
      · simp only
        rw [List.getElem?_set_ne (by omega)]
        exact z

theorem refine_levels_fold (subd0 s1 : cc_Subd) (ha : ccs_Allocated subd0)
    (hr : RefinedLevels subd0 s1 1) :
    ∀ n : Nat, n + 1 ≤ ccs_MaxDepth subd0 →
      ∃ s, (List.range' 1 n).foldlM (fun s depth => ccs__RefineHalfedges s depth) s1 = some s ∧
        RefinedLevels subd0 s (n + 1) := by
  intro n
  induction n with
  | zero =>
    intro _
    exact ⟨s1, rfl, hr⟩
  | succ n ih =>
    intro hn
    obtain ⟨s, e1, e2⟩ := ih (by omega)
    obtain ⟨s', f1, f2⟩ := refine_level_step subd0 s (n + 1) ha e2 (by omega) (by omega)
    refine ⟨s', ?_, f2⟩
    rw [List.range'_concat, List.foldlM_append, e1]
    simp only [Option.bind_eq_bind, Option.some_bind, one_mul, List.foldlM_cons,
      List.foldlM_nil]
    have : 1 + n = n + 1 := by omega
    rw [this, f1]
    rfl

/-- On an allocated subdivision of depth at least 1 of a cage whose links are in
bounds, `ccs_RefineHalfedges` returns, and every level is refined. -/
theorem refine_all_levels (subd0 : cc_Subd) (ha : ccs_Allocated subd0)
    (hD : 1 ≤ ccs_MaxDepth subd0) (hw : ccm_LinksInBounds subd0.cage) :
    ∃ s, ccs_RefineHalfedges subd0 = some s ∧ RefinedLevels subd0 s (ccs_MaxDepth subd0) := by
  obtain ⟨s1, e1, e2⟩ := refine_cage_levels subd0 ha hD hw
  obtain ⟨s, f1, f2⟩ := refine_levels_fold subd0 s1 ha e2 (ccs_MaxDepth subd0 - 1) (by omega)
  refine ⟨s, ?_, ?_⟩
  · unfold ccs_RefineHalfedges
    simp only [e1, Option.bind_eq_bind, Option.some_bind]
    exact f1
  · have : ccs_MaxDepth subd0 - 1 + 1 = ccs_MaxDepth subd0 := by omega
    rw [this] at f2
    exact f2

theorem Refined.twinIrreflexive {P : Parent} {out out' : List cc_Halfedge_SemiRegular}
    (hr : Refined P out out') : ccs_TwinIrreflexive out' (4 * P.H) := by
  intro c hc r hrc
  obtain ⟨a, _, _⟩ := hr.slotNat c hc r hrc
  rw [a]
  have h4 : c % 4 = 0 ∨ c % 4 = 1 ∨ c % 4 = 2 ∨ c % 4 = 3 := by omega
  rcases h4 with e | e | e | e <;> rw [e] <;> simp only [Parent.cTwin] <;> omega

/-- A level of the subdivision is valid: its region has exactly `H_d` slots, it
has the twin invariant, no halfedge is its own twin, and the vertex and edge
identifiers it carries are exactly `[0, V_d)` and `[0, E_d)`. -/
def ccs_ValidLevel (cage : cc_Mesh) (depth : Nat) (halfedges : List cc_Halfedge_SemiRegular) :
    Prop :=
  halfedges.length = ccm_HalfedgeCountAtDepth cage depth ∧
  ccs_TwinInvariant halfedges (ccm_HalfedgeCountAtDepth cage depth) ∧
  ccs_TwinIrreflexive halfedges (ccm_HalfedgeCountAtDepth cage depth) ∧
  ccs_VertexIDsExactly halfedges (ccm_HalfedgeCountAtDepth cage depth)
    (ccm_VertexCountAtDepth_Fast cage depth) ∧
  ccs_EdgeIDsExactly halfedges (ccm_HalfedgeCountAtDepth cage depth)
    (ccm_EdgeCountAtDepth_Fast cage depth)

instance (cage : cc_Mesh) (depth : Nat) (halfedges : List cc_Halfedge_SemiRegular) :
    Decidable (ccs_ValidLevel cage depth halfedges) := by
  unfold ccs_ValidLevel
  infer_instance

theorem cage_child_valid (cage : cc_Mesh) (out out' : List cc_Halfedge_SemiRegular)
    (hr : Refined (cageParent cage) out out')
    (hlen : out.length = ccm_HalfedgeCountAtDepth cage 1)
    (hnp : ccm_NextPrevInvariant cage) (htw : ccm_TwinInvariant cage)
    (hne : ccm_TwinIrreflexive cage) (hc : ccm_Covered cage) :
    ccs_ValidLevel cage 1 out' := by
  have hv := cageParent_valid cage hnp htw
  have hH : 4 * (cageParent cage).H = ccm_HalfedgeCountAtDepth cage 1 := by
    rw [ccm_HalfedgeCountAtDepth_succ, ccm_HalfedgeCountAtDepth_zero]
    rfl
  have h1 := hr.twinInvariant hv (cageParent_irreflexive cage hne)
  have h2 := hr.twinIrreflexive
  have h3 := hr.vertexIDsExactly hv (cageParent_covered cage hc)
    (ccm_VertexCountAtDepth_Fast cage 1) (by
      show ((ccm_VertexCount cage + ccm_FaceCount cage + ccm_EdgeCount cage : Nat) : Int) = _
      push_cast
      rfl)
  have h4 := hr.edgeIDsExactly hv (cageParent_covered cage hc)
    (ccm_EdgeCountAtDepth_Fast cage 1) (by
      show ((2 * ccm_EdgeCount cage + ccm_HalfedgeCountAtDepth cage 0 : Nat) : Int) = _
      rw [ccm_HalfedgeCountAtDepth_zero]
      push_cast
      rfl)
  rw [hH] at h1 h2 h3 h4
  exact ⟨by rw [hr.2.1, hlen], h1, h2, h3, h4⟩

theorem level_child_valid (cage : cc_Mesh) (depth : Nat) (hd : 1 ≤ depth)
    (halfedgesIn out out' : List cc_Halfedge_SemiRegular)
    (hr : Refined (levelParent cage depth halfedgesIn) out out')
    (hlen : out.length = ccm_HalfedgeCountAtDepth cage (depth + 1))
    (hin : ccs_ValidLevel cage depth halfedgesIn) :
    ccs_ValidLevel cage (depth + 1) out' := by
  obtain ⟨a, b, c, d, e⟩ := hin
  have hv := levelParent_valid cage depth hd halfedgesIn a b
  have hc := levelParent_covered cage depth hd halfedgesIn a d e
  have hH : 4 * (levelParent cage depth halfedgesIn).H = ccm_HalfedgeCountAtDepth cage (depth + 1) := by
    rw [ccm_HalfedgeCountAtDepth_succ]
    rfl
  have h1 := hr.twinInvariant hv (levelParent_irreflexive cage depth halfedgesIn a c)
  have h2 := hr.twinIrreflexive
  have h3 := hr.vertexIDsExactly hv hc (ccm_VertexCountAtDepth_Fast cage (depth + 1)) (by
      show ((ccm_VertexCountAtDepth_Fast cage depth + ccm_FaceCountAtDepth_Fast cage depth
        + ccm_EdgeCountAtDepth_Fast cage depth : Nat) : Int) = _
      push_cast
      rfl)
  have h4 := hr.edgeIDsExactly hv hc (ccm_EdgeCountAtDepth_Fast cage (depth + 1)) (by
      show ((2 * ccm_EdgeCountAtDepth_Fast cage depth + ccm_HalfedgeCountAtDepth cage depth : Nat)
        : Int) = _
      push_cast
      rfl)
  rw [hH] at h1 h2 h3 h4
  exact ⟨by rw [hr.2.1, hlen], h1, h2, h3, h4⟩

theorem RefinedLevels.valid {subd0 s : cc_Subd} {k : Nat} (hr : RefinedLevels subd0 s k)
    (ha : ccs_Allocated subd0)
    (hnp : ccm_NextPrevInvariant subd0.cage) (htw : ccm_TwinInvariant subd0.cage)
    (hne : ccm_TwinIrreflexive subd0.cage) (hc : ccm_Covered subd0.cage) :
    ∀ d : Nat, 1 ≤ d → d ≤ k → d ≤ ccs_MaxDepth subd0 →
      ∃ l, ccs__Level s.halfedges d = some l ∧ ccs_ValidLevel subd0.cage d l := by
  intro d
  induction d with
  | zero => intro h; omega
  | succ d ih =>
    intro _ h2 h3
    by_cases hd : d = 0
    · subst hd
      obtain ⟨out, out', a, b, c⟩ := hr.first
      refine ⟨out', ?_, cage_child_valid subd0.cage out out' c (ha.2 0 (by omega) _ a)
        hnp htw hne hc⟩
      unfold ccs__Level
      rw [if_pos (by omega)]
      exact b
    · obtain ⟨l, x, y⟩ := ih (by omega) (by omega) (by omega)
      obtain ⟨hin, out, out', a, b, c, e⟩ := hr.next d (by omega) (by omega)
      unfold ccs__Level at x
      rw [if_pos (by omega), a] at x
      have := Option.some.inj x
      subst this
      refine ⟨out', ?_, level_child_valid subd0.cage d (by omega) hin out out' e
        (ha.2 d (by omega) _ b) y⟩
      unfold ccs__Level
      rw [if_pos (by omega)]
      exact c

theorem cubeCage_irreflexive : ccm_TwinIrreflexive cubeCage := by
  decide

set_option maxRecDepth 100000 in
theorem cubeSubd_allocated : ccs_Allocated cubeSubd := by
  decide

/-- C6: for a valid parent level (next/prev and twin invariants) with counts
`V`, `F`, `E`, `H` whose halfedges have their vertex, face and edge in range
and reference every vertex, face and edge, the vertex identifiers written by
`ccs__RefineCageHalfedges` (first part) and by `ccs__RefineHalfedges` (second
part) into the `4H` children are exactly `[0, V + F + E)` and the edge
identifiers exactly `[0, 2E + H)`; these are the counts `V_(l+1)` and `E_(l+1)`
of the next level (third part); on the cube (`V0 = 8`, `F0 = 6`, `E0 = 12`,
`H0 = 24`) `ccs_RefineHalfedges` writes exactly the vertex identifiers `[0, 26)`
at level 1 and `[0, 98)` at level 2 (fourth part). -/
theorem C6_child_ids :
    (∀ (subd : cc_Subd) (out : List cc_Halfedge_SemiRegular),
      subd.halfedges[0]? = some out →
      4 * ccm_HalfedgeCount subd.cage ≤ out.length →
      ccm_NextPrevInvariant subd.cage →
      ccm_TwinInvariant subd.cage →
      ccm_Covered subd.cage →
      ∃ out', ccs__RefineCageHalfedges subd =
          some { subd with halfedges := subd.halfedges.set 0 out' } ∧
        ccs_VertexIDsExactly out' (4 * ccm_HalfedgeCount subd.cage)
          (ccm_VertexCount subd.cage + ccm_FaceCount subd.cage + ccm_EdgeCount subd.cage) ∧
        ccs_EdgeIDsExactly out' (4 * ccm_HalfedgeCount subd.cage)
          (2 * ccm_EdgeCount subd.cage + ccm_HalfedgeCount subd.cage)) ∧
    (∀ (subd : cc_Subd) (depth : Nat) (halfedgesIn out : List cc_Halfedge_SemiRegular),
      ccs__Level subd.halfedges depth = some halfedgesIn →
      halfedgesIn.length = ccm_HalfedgeCountAtDepth subd.cage depth →
      ccs__Level subd.halfedges (depth + 1) = some out →
      4 * ccm_HalfedgeCountAtDepth subd.cage depth ≤ out.length →
      ccs_TwinInvariant halfedgesIn (ccm_HalfedgeCountAtDepth subd.cage depth) →
      ccs_VertexIDsExactly halfedgesIn (ccm_HalfedgeCountAtDepth subd.cage depth)
        (ccm_VertexCountAtDepth_Fast subd.cage depth) →
      ccs_EdgeIDsExactly halfedgesIn (ccm_HalfedgeCountAtDepth subd.cage depth)
        (ccm_EdgeCountAtDepth_Fast subd.cage depth) →
      ∃ out', ccs__RefineHalfedges subd depth =
          some { subd with halfedges := subd.halfedges.set depth out' } ∧
        ccs_VertexIDsExactly out' (4 * ccm_HalfedgeCountAtDepth subd.cage depth)
          (ccm_VertexCountAtDepth_Fast subd.cage depth + ccm_FaceCountAtDepth_Fast subd.cage depth
            + ccm_EdgeCountAtDepth_Fast subd.cage depth) ∧
        ccs_EdgeIDsExactly out' (4 * ccm_HalfedgeCountAtDepth subd.cage depth)
          (2 * ccm_EdgeCountAtDepth_Fast subd.cage depth
            + ccm_HalfedgeCountAtDepth subd.cage depth)) ∧
    (∀ (cage : cc_Mesh) (depth : Nat),
      ccm_VertexCountAtDepth_Fast cage (depth + 1) =
        ccm_VertexCountAtDepth_Fast cage depth + ccm_FaceCountAtDepth_Fast cage depth
          + ccm_EdgeCountAtDepth_Fast cage depth ∧
      ccm_EdgeCountAtDepth_Fast cage (depth + 1) =
        2 * ccm_EdgeCountAtDepth_Fast cage depth + ccm_HalfedgeCountAtDepth cage depth) ∧
    (∃ s l1 l2, ccs_RefineHalfedges cubeSubd = some s ∧
      ccs__Level s.halfedges 1 = some l1 ∧ ccs__Level s.halfedges 2 = some l2 ∧
      ccs_VertexIDsExactly l1 96 26 ∧ ccs_VertexIDsExactly l2 384 98) := by
  refine ⟨?_, ?_, fun cage depth => ⟨rfl, rfl⟩, ?_⟩
  · intro subd out hout hlen hnp htw hc
    have hv := cageParent_valid subd.cage hnp htw
    obtain ⟨o, e1, e2⟩ := cage_kernel_refined subd out hout
      (cage_linksInBounds subd.cage hnp htw) hlen
    exact ⟨o, e1, e2.vertexIDsExactly hv (cageParent_covered subd.cage hc) _
        (by push_cast; rfl),
      e2.edgeIDsExactly hv (cageParent_covered subd.cage hc) _ (by push_cast; rfl)⟩
  · intro subd depth halfedgesIn out hin hH hout hlen htw hvx hex
    have hd := ccs__Level_depth_pos _ _ _ hin
    have hv := levelParent_valid subd.cage depth hd halfedgesIn hH htw
    have hc := levelParent_covered subd.cage depth hd halfedgesIn hH hvx hex
    obtain ⟨o, e1, e2⟩ := level_kernel_refined subd depth halfedgesIn out hin hH hout hlen
    exact ⟨o, e1, e2.vertexIDsExactly hv hc _ (by push_cast; rfl),
      e2.edgeIDsExactly hv hc _ (by push_cast; rfl)⟩
  · obtain ⟨s, e1, e2⟩ := refine_all_levels cubeSubd cubeSubd_allocated (by decide)
      (cage_linksInBounds cubeCage cubeCage_valid.1 cubeCage_valid.2.1)
    obtain ⟨l1, a1, b1⟩ := e2.valid cubeSubd_allocated cubeCage_valid.1 cubeCage_valid.2.1
      cubeCage_irreflexive cubeCage_valid.2.2 1 (by decide) (by decide) (by decide)
    obtain ⟨l2, a2, b2⟩ := e2.valid cubeSubd_allocated cubeCage_valid.1 cubeCage_valid.2.1
      cubeCage_irreflexive cubeCage_valid.2.2 2 (by decide) (by decide) (by decide)
    exact ⟨s, l1, l2, e1, a1, a2, b1.2.2.2.1, b2.2.2.2.1⟩

/-- C6, witness: the two glued triangles (cage kernel) and level 1 of the open
quad (level kernel). -/
theorem C6_child_ids_witness :
    (∃ out', ccs__RefineCageHalfedges
        { cage := twoTriangles, maxDepth := 1, creases := [],
          halfedges := [List.replicate 24 ⟨0, 0, 0, 0⟩] } =
          some { cage := twoTriangles, maxDepth := 1, creases := [], halfedges := [out'] } ∧
        ccs_VertexIDsExactly out' 24 11 ∧ ccs_EdgeIDsExactly out' 24 16) ∧
    (∃ out', ccs__RefineHalfedges quadSubd 1 =
          some { quadSubd with halfedges := quadSubd.halfedges.set 1 out' } ∧
        ccs_VertexIDsExactly out' 64 25 ∧ ccs_EdgeIDsExactly out' 64 40) :=
  ⟨C6_child_ids.1
      { cage := twoTriangles, maxDepth := 1, creases := [],
        halfedges := [List.replicate 24 ⟨0, 0, 0, 0⟩] }
      (List.replicate 24 ⟨0, 0, 0, 0⟩) rfl (by decide) (by decide) (by decide) (by decide),
    C6_child_ids.2.1 quadSubd 1 quadLevel1 (List.replicate 64 ⟨0, 0, 0, 0⟩)
      rfl (by decide) rfl (by decide) (by decide) (by decide) (by decide)⟩

/-! ## `ccs_VertexPointToHalfedgeID` -/

/-- The recursive version of `ccs_VertexPointToHalfedgeID` (the `#if 0` branch
of the source).  The functions `ccs_EdgeToHalfedgeID(subd, ., .)` and
`ccs__VertexToHalfedgeID_First(cage, .)` are not in the source file: they are
the parameters `edgeToHalfedgeID` and `vertexToHalfedgeID_First`. -/
def ccs_VertexPointToHalfedgeID_recursive (cage : cc_Mesh)
    (edgeToHalfedgeID : Int → Nat → Int) (vertexToHalfedgeID_First : Int → Int)
    (vertexID : Int) : Nat → Int
  | 0 => vertexToHalfedgeID_First vertexID
  | 1 => vertexToHalfedgeID_First vertexID
  | depth + 2 =>
    let vertexCount : Int := ccm_VertexCountAtDepth_Fast cage (depth + 1)
    let faceCount : Int := ccm_FaceCountAtDepth_Fast cage (depth + 1)
    if vertexID ≥ vertexCount + faceCount then
      let edgeID := vertexID - vertexCount - faceCount
      4 * edgeToHalfedgeID edgeID (depth + 1) + 1
    else if vertexID ≥ vertexCount then
      let faceID := vertexID - vertexCount
      4 * ccm_FaceToHalfedgeID_Quad faceID + 2
    else
      4 * ccs_VertexPointToHalfedgeID_recursive cage edgeToHalfedgeID vertexToHalfedgeID_First
        vertexID (depth + 1) + 0

/-- The local variables of the loop version of `ccs_VertexPointToHalfedgeID`;
`halfedgeID` is `none` as long as it is not assigned. -/
structure HeapState where
  heapDepth : Nat
  stride : Nat
  halfedgeID : Option Int
deriving DecidableEq, Repr

/-- The loop `for (; heapDepth > 1; --heapDepth)` of `ccs_VertexPointToHalfedgeID`,
run for at most `fuel` iterations: the state at the exit of the loop (by the
loop condition or by `break`), or `none` when `fuel` iterations do not reach the
exit. -/
def ccs_VertexPointToHalfedgeID_loop (cage : cc_Mesh) (edgeToHalfedgeID : Int → Nat → Int)
    (vertexID : Int) : Nat → HeapState → Option HeapState
  | fuel, st =>
    if st.heapDepth > 1 then
      match fuel with
      | 0 => none
      | fuel + 1 =>
        let vertexCount : Int := ccm_VertexCountAtDepth_Fast cage (st.heapDepth - 1)
        let faceCount : Int := ccm_FaceCountAtDepth_Fast cage (st.heapDepth - 1)
        if vertexID ≥ vertexCount + faceCount then
          let edgeID := vertexID - faceCount - vertexCount
          some { st with halfedgeID := some (4 * edgeToHalfedgeID edgeID (st.heapDepth - 1) + 1) }
        else if vertexID ≥ vertexCount then
          let faceID := vertexID - vertexCount
          some { st with halfedgeID := some (4 * ccm_FaceToHalfedgeID_Quad faceID + 2) }
        else
          ccs_VertexPointToHalfedgeID_loop cage edgeToHalfedgeID vertexID fuel
            { st with heapDepth := st.heapDepth - 1, stride := st.stride + 2 }
    else some st

/-- The compiled (loop) version of `ccs_VertexPointToHalfedgeID`, its loop run
for at most `fuel` iterations: `none` when the loop does not exit within `fuel`
iterations or when `halfedgeID` is returned without having been assigned.  The
shift `halfedgeID << stride` is the product by `2 ^ stride`. -/
def ccs_VertexPointToHalfedgeID (cage : cc_Mesh) (edgeToHalfedgeID : Int → Nat → Int)
    (vertexToHalfedgeID_First : Int → Int) (vertexID : Int) (depth : Nat) (fuel : Nat) :
    Option Int := do
  let st ← ccs_VertexPointToHalfedgeID_loop cage edgeToHalfedgeID vertexID fuel
    { heapDepth := depth, stride := 0, halfedgeID := none }
  let halfedgeID ←
    if st.heapDepth = 1 then some (vertexToHalfedgeID_First vertexID) else st.halfedgeID
  some (halfedgeID * 2 ^ st.stride)

/-- The end of the loop version, from the state at the exit of the loop. -/
def heapResult (vertexToHalfedgeID_First : Int → Int) (vertexID : Int) (st : HeapState) :
    Option Int :=
  (if st.heapDepth = 1 then some (vertexToHalfedgeID_First vertexID) else st.halfedgeID).map
    (fun halfedgeID => halfedgeID * 2 ^ st.stride)

theorem ccs_VertexPointToHalfedgeID_eq (cage : cc_Mesh) (edgeToHalfedgeID : Int → Nat → Int)
    (vertexToHalfedgeID_First : Int → Int) (vertexID : Int) (depth fuel : Nat) :
    ccs_VertexPointToHalfedgeID cage edgeToHalfedgeID vertexToHalfedgeID_First vertexID depth fuel =
      (ccs_VertexPointToHalfedgeID_loop cage edgeToHalfedgeID vertexID fuel
        { heapDepth := depth, stride := 0, halfedgeID := none }).bind
        (heapResult vertexToHalfedgeID_First vertexID) := by
  unfold ccs_VertexPointToHalfedgeID heapResult
  cases ccs_VertexPointToHalfedgeID_loop cage edgeToHalfedgeID vertexID fuel
      { heapDepth := depth, stride := 0, halfedgeID := none } with
  | none => rfl
  | some st =>
    simp only [Option.bind_eq_bind, Option.some_bind]
    by_cases c : st.heapDepth = 1
    · simp [c]
    · cases hx : st.halfedgeID <;> simp [c, hx]

theorem loop_eq_recursive (cage : cc_Mesh) (edgeToHalfedgeID : Int → Nat → Int)
    (vertexToHalfedgeID_First : Int → Int) (vertexID : Int) :
    ∀ (d fuel stride : Nat) (x : Option Int), d ≤ fuel →
      (ccs_VertexPointToHalfedgeID_loop cage edgeToHalfedgeID vertexID fuel
        { heapDepth := d + 1, stride := stride, halfedgeID := x }).bind
        (heapResult vertexToHalfedgeID_First vertexID) =
      some (ccs_VertexPointToHalfedgeID_recursive cage edgeToHalfedgeID
        vertexToHalfedgeID_First vertexID (d + 1) * 2 ^ stride) := by
  intro d
  induction d with
  | zero =>
    intro fuel stride x _
    unfold ccs_VertexPointToHalfedgeID_loop
    simp [heapResult, ccs_VertexPointToHalfedgeID_recursive]
  | succ d ih =>
    intro fuel stride x hf
    obtain ⟨f, rfl⟩ : ∃ f, fuel = f + 1 := ⟨fuel - 1, by omega⟩
    unfold ccs_VertexPointToHalfedgeID_loop
    have hgt : d + 1 + 1 > 1 := by omega
    simp only [hgt, if_true, Nat.add_sub_cancel]
    unfold ccs_VertexPointToHalfedgeID_recursive
    simp only
    by_cases c1 : vertexID ≥ (ccm_VertexCountAtDepth_Fast cage (d + 1) : Int)
        + (ccm_FaceCountAtDepth_Fast cage (d + 1) : Int)
    · rw [if_pos c1, if_pos c1]
      have hne : ¬ (d + 1 + 1 = 1) := by omega
      simp only [Option.some_bind, heapResult, hne, if_false, Option.map_some']
      have hsub : vertexID - (ccm_FaceCountAtDepth_Fast cage (d + 1) : Int)
          - (ccm_VertexCountAtDepth_Fast cage (d + 1) : Int)
          = vertexID - (ccm_VertexCountAtDepth_Fast cage (d + 1) : Int)
          - (ccm_FaceCountAtDepth_Fast cage (d + 1) : Int) := by omega
      rw [hsub]
    · rw [if_neg c1, if_neg c1]
      by_cases c2 : vertexID ≥ (ccm_VertexCountAtDepth_Fast cage (d + 1) : Int)
      · rw [if_pos c2, if_pos c2]
        have hne : ¬ (d + 1 + 1 = 1) := by omega
        simp only [Option.some_bind, heapResult, hne, if_false, Option.map_some']
      · rw [if_neg c2, if_neg c2]
        rw [ih f (stride + 2) x (by omega)]
        congr 1
        rw [pow_add]
        ring

/-- C8: for every depth at least 1 and every `vertexID`, the loop version of
`ccs_VertexPointToHalfedgeID` exits its loop within `depth - 1` iterations with
`halfedgeID` assigned, and returns the value of the recursive version:
`4 * EdgeToHalfedgeID(e, l-1) + 1` for an edge-point,
`4 * FaceToHalfedgeID_Quad(f) + 2` for a face-point, 4 times the answer of level
`l - 1` for a carried-over vertex, `VertexToHalfedgeID_First` at `l = 1` (third
part: the equations of the recursive version). -/
theorem C8_loop_equals_recursive (cage : cc_Mesh)
    (edgeToHalfedgeID : Int → Nat → Int) (vertexToHalfedgeID_First : Int → Int)
    (vertexID : Int) (depth : Nat) (hd : 1 ≤ depth) :
    (∀ fuel : Nat, depth - 1 ≤ fuel →
      ccs_VertexPointToHalfedgeID cage edgeToHalfedgeID vertexToHalfedgeID_First vertexID depth
        fuel =
      some (ccs_VertexPointToHalfedgeID_recursive cage edgeToHalfedgeID
        vertexToHalfedgeID_First vertexID depth)) ∧
    (∃ st, ccs_VertexPointToHalfedgeID_loop cage edgeToHalfedgeID vertexID (depth - 1)
        { heapDepth := depth, stride := 0, halfedgeID := none } = some st ∧
      (st.heapDepth = 1 ∨ st.halfedgeID.isSome)) ∧
    (ccs_VertexPointToHalfedgeID_recursive cage edgeToHalfedgeID vertexToHalfedgeID_First
        vertexID 1 = vertexToHalfedgeID_First vertexID ∧
      ∀ l : Nat, 2 ≤ l →
        ccs_VertexPointToHalfedgeID_recursive cage edgeToHalfedgeID vertexToHalfedgeID_First
          vertexID l =
        if vertexID ≥ (ccm_VertexCountAtDepth_Fast cage (l - 1) : Int)
            + (ccm_FaceCountAtDepth_Fast cage (l - 1) : Int) then
          4 * edgeToHalfedgeID (vertexID - (ccm_VertexCountAtDepth_Fast cage (l - 1) : Int)
            - (ccm_FaceCountAtDepth_Fast cage (l - 1) : Int)) (l - 1) + 1
        else if vertexID ≥ (ccm_VertexCountAtDepth_Fast cage (l - 1) : Int) then
          4 * ccm_FaceToHalfedgeID_Quad
            (vertexID - (ccm_VertexCountAtDepth_Fast cage (l - 1) : Int)) + 2
        else
          4 * ccs_VertexPointToHalfedgeID_recursive cage edgeToHalfedgeID
            vertexToHalfedgeID_First vertexID (l - 1)) := by
  obtain ⟨d, rfl⟩ : ∃ d, depth = d + 1 := ⟨depth - 1, by omega⟩
  have main : ∀ fuel : Nat, d ≤ fuel →
      ccs_VertexPointToHalfedgeID cage edgeToHalfedgeID vertexToHalfedgeID_First vertexID (d + 1)
        fuel =
      some (ccs_VertexPointToHalfedgeID_recursive cage edgeToHalfedgeID
        vertexToHalfedgeID_First vertexID (d + 1)) := by
    intro fuel hf
    rw [ccs_VertexPointToHalfedgeID_eq,
      loop_eq_recursive cage edgeToHalfedgeID vertexToHalfedgeID_First vertexID d fuel 0 none hf]
    simp
  refine ⟨fun fuel hf => main fuel (by omega), ?_, rfl, ?_⟩
  · have h := main d (le_refl _)
    rw [ccs_VertexPointToHalfedgeID_eq] at h
    simp only [Nat.add_sub_cancel]
    cases hst : ccs_VertexPointToHalfedgeID_loop cage edgeToHalfedgeID vertexID d
        { heapDepth := d + 1, stride := 0, halfedgeID := none } with
    | none => rw [hst] at h; simp at h
    | some st =>
      refine ⟨st, rfl, ?_⟩
      rw [hst] at h
      simp only [Option.some_bind, heapResult] at h
      by_cases c : st.heapDepth = 1
      · exact Or.inl c
      · right
        rw [if_neg c] at h
        cases hx : st.halfedgeID with
        | none => rw [hx] at h; simp at h
        | some y => rfl
  · intro l hl
    obtain ⟨m, rfl⟩ : ∃ m, l = m + 2 := ⟨l - 2, by omega⟩
    show ccs_VertexPointToHalfedgeID_recursive cage edgeToHalfedgeID vertexToHalfedgeID_First
      vertexID (m + 2) = _
    rw [ccs_VertexPointToHalfedgeID_recursive]
    simp only [Nat.add_sub_cancel, show m + 2 - 1 = m + 1 from rfl, add_zero]

/-- C8, witness: depth 3 on the open quad. -/
theorem C8_loop_equals_recursive_witness :
    (∀ fuel : Nat, 3 - 1 ≤ fuel →
      ccs_VertexPointToHalfedgeID quadCage (fun e _ => e) (fun v => 4 * v) 5 3 fuel =
      some (ccs_VertexPointToHalfedgeID_recursive quadCage (fun e _ => e) (fun v => 4 * v) 5 3)) ∧
    (∃ st, ccs_VertexPointToHalfedgeID_loop quadCage (fun e _ => e) 5 (3 - 1)
        { heapDepth := 3, stride := 0, halfedgeID := none } = some st ∧
      (st.heapDepth = 1 ∨ st.halfedgeID.isSome)) ∧
    (ccs_VertexPointToHalfedgeID_recursive quadCage (fun e _ => e) (fun v => 4 * v) 5 1 =
        (fun v => 4 * v) 5 ∧
      ∀ l : Nat, 2 ≤ l →
        ccs_VertexPointToHalfedgeID_recursive quadCage (fun e _ => e) (fun v => 4 * v) 5 l =
        if (5 : Int) ≥ (ccm_VertexCountAtDepth_Fast quadCage (l - 1) : Int)
            + (ccm_FaceCountAtDepth_Fast quadCage (l - 1) : Int) then
          4 * (fun (e : Int) (_ : Nat) => e) (5 - (ccm_VertexCountAtDepth_Fast quadCage (l - 1) : Int)
            - (ccm_FaceCountAtDepth_Fast quadCage (l - 1) : Int)) (l - 1) + 1
        else if (5 : Int) ≥ (ccm_VertexCountAtDepth_Fast quadCage (l - 1) : Int) then
          4 * ccm_FaceToHalfedgeID_Quad
            (5 - (ccm_VertexCountAtDepth_Fast quadCage (l - 1) : Int)) + 2
        else
          4 * ccs_VertexPointToHalfedgeID_recursive quadCage (fun e _ => e) (fun v => 4 * v) 5
            (l - 1)) :=
  C8_loop_equals_recursive quadCage (fun e _ => e) (fun v => 4 * v) 5 3 (by decide)

/-! ## C7: the halfedge of a vertex point -/

theorem readAt_map_inv {β : Type} (xs : List cc_Halfedge_SemiRegular)
    (f : cc_Halfedge_SemiRegular → β) (i : Int) (v : β)
    (h : (readAt xs i).map f = some v) :
    0 ≤ i ∧ i < (xs.length : Int) ∧ f (xs.getD i.toNat default) = v := by
  obtain ⟨h0, h1⟩ := readAt_map_some_range xs f i v h
  rw [readAt_getD xs i h0 h1] at h
  exact ⟨h0, h1, Option.some.inj h⟩

theorem level_vertex_inv (s : cc_Subd) (d : Nat) (x v : Int)
    (h : ccs_HalfedgeVertexID s x d = some v) :
    ∃ lvl, ccs__Level s.halfedges d = some lvl ∧ 0 ≤ x ∧ x < (lvl.length : Int) ∧
      (lvl.getD x.toNat default).vertexID = v := by
  unfold ccs_HalfedgeVertexID at h
  cases hl : ccs__Level s.halfedges d with
  | none => rw [hl] at h; simp at h
  | some lvl =>
    rw [hl] at h
    simp only [Option.bind_eq_bind, Option.some_bind] at h
    exact ⟨lvl, rfl, readAt_map_inv lvl _ x v h⟩

theorem level_edge_inv (s : cc_Subd) (d : Nat) (x e : Int)
    (h : ccs_HalfedgeEdgeID s x d = some e) :
    ∃ lvl, ccs__Level s.halfedges d = some lvl ∧ 0 ≤ x ∧ x < (lvl.length : Int) ∧
      (lvl.getD x.toNat default).edgeID = e := by
  unfold ccs_HalfedgeEdgeID at h
  cases hl : ccs__Level s.halfedges d with
  | none => rw [hl] at h; simp at h
  | some lvl =>
    rw [hl] at h
    simp only [Option.bind_eq_bind, Option.some_bind] at h
    exact ⟨lvl, rfl, readAt_map_inv lvl _ x e h⟩

theorem level_vertex_of_read (s : cc_Subd) (d : Nat) (lvl : List cc_Halfedge_SemiRegular)
    (hl : ccs__Level s.halfedges d = some lvl) (x : Int) (r : cc_Halfedge_SemiRegular)
    (hr : readAt lvl x = some r) : ccs_HalfedgeVertexID s x d = some r.vertexID := by
  unfold ccs_HalfedgeVertexID
  rw [hl]
  simp only [Option.bind_eq_bind, Option.some_bind, hr, Option.map_some']

theorem RefinedLevels.next_level {subd0 s : cc_Subd} {k : Nat} (hr : RefinedLevels subd0 s k)
    (ha : ccs_Allocated subd0) (d : Nat) (h1 : 1 ≤ d) (h2 : d < k)
    (h3 : d < ccs_MaxDepth subd0) :
    ∃ hin out out', ccs__Level s.halfedges d = some hin ∧
      hin.length = ccm_HalfedgeCountAtDepth subd0.cage d ∧
      ccs__Level s.halfedges (d + 1) = some out' ∧
      Refined (levelParent subd0.cage d hin) out out' := by
  obtain ⟨hin, out, out', a, b, c, e⟩ := hr.next d h1 h2
  obtain ⟨l, x, y⟩ := hr.level ha d h1 (by omega) (by omega)
  have a' : ccs__Level s.halfedges d = some hin := by
    unfold ccs__Level
    rw [if_pos h1]
    exact a
  rw [a'] at x
  have := Option.some.inj x
  subst this
  refine ⟨hin, out, out', a', y, ?_, e⟩
  unfold ccs__Level
  rw [if_pos (by omega)]
  exact c

theorem vertexPoint_recursive_correct {subd0 s : cc_Subd} {k : Nat}
    (hr : RefinedLevels subd0 s k) (ha : ccs_Allocated subd0)
    (edgeToHalfedgeID : Int → Nat → Int) (vertexToHalfedgeID_First : Int → Int)
    (hE : ∀ d : Nat, 1 ≤ d → d < ccs_MaxDepth subd0 → ∀ e : Int, 0 ≤ e →
      e < (ccm_EdgeCountAtDepth_Fast subd0.cage d : Int) →
      ccs_HalfedgeEdgeID s (edgeToHalfedgeID e d) d = some e)
    (hF : ∀ v : Int, 0 ≤ v → v < (ccm_VertexCountAtDepth_Fast subd0.cage 1 : Int) →
      ccs_HalfedgeVertexID s (vertexToHalfedgeID_First v) 1 = some v) :
    ∀ l : Nat, 1 ≤ l → l ≤ k → l ≤ ccs_MaxDepth subd0 → ∀ v : Int, 0 ≤ v →
      v < (ccm_VertexCountAtDepth_Fast subd0.cage l : Int) →
      0 ≤ ccs_VertexPointToHalfedgeID_recursive subd0.cage edgeToHalfedgeID
          vertexToHalfedgeID_First v l ∧
      ccs_VertexPointToHalfedgeID_recursive subd0.cage edgeToHalfedgeID
          vertexToHalfedgeID_First v l < (ccm_HalfedgeCountAtDepth subd0.cage l : Int) ∧
      ccs_HalfedgeVertexID s (ccs_VertexPointToHalfedgeID_recursive subd0.cage edgeToHalfedgeID
          vertexToHalfedgeID_First v l) l = some v := by
  intro l
  induction l with
  | zero => intro h; omega
  | succ m ih =>
    intro _ h2 h3 v v0 v1
    by_cases hm : m = 0
    · subst hm
      have hv := hF v v0 v1
      obtain ⟨lvl, a, b, c, _⟩ := level_vertex_inv s 1 _ v hv
      obtain ⟨l2, x, y⟩ := hr.level ha 1 (by omega) (by omega) (by omega)
      rw [a] at x
      have := Option.some.inj x
      subst this
      have y' : (lvl.length : Int) = (ccm_HalfedgeCountAtDepth subd0.cage (0 + 1) : Nat) := by
        rw [y]
      refine ⟨b, ?_, hv⟩
      show vertexToHalfedgeID_First v < _
      omega
    · obtain ⟨m2, rfl⟩ : ∃ m2, m = m2 + 1 := ⟨m - 1, by omega⟩
      obtain ⟨hin, out, out', a, b, c, e⟩ := hr.next_level ha (m2 + 1) (by omega) (by omega)
        (by omega)
      have hPH : (levelParent subd0.cage (m2 + 1) hin).H
          = ccm_HalfedgeCountAtDepth subd0.cage (m2 + 1) := rfl
      have hsucc := ccm_HalfedgeCountAtDepth_succ subd0.cage (m2 + 1)
      have hfaces := ccm_HalfedgeCountAtDepth_eq_faces subd0.cage (m2 + 1) (by omega)
      have hV : (ccm_VertexCountAtDepth_Fast subd0.cage (m2 + 1 + 1) : Int)
          = (ccm_VertexCountAtDepth_Fast subd0.cage (m2 + 1) : Int)
            + (ccm_FaceCountAtDepth_Fast subd0.cage (m2 + 1) : Int)
            + (ccm_EdgeCountAtDepth_Fast subd0.cage (m2 + 1) : Int) := by
        show ((ccm_VertexCountAtDepth_Fast subd0.cage (m2 + 1)
          + ccm_FaceCountAtDepth_Fast subd0.cage (m2 + 1)
          + ccm_EdgeCountAtDepth_Fast subd0.cage (m2 + 1) : Nat) : Int) = _
        push_cast
        rfl
      rw [hV] at v1
      rw [ccs_VertexPointToHalfedgeID_recursive]
      simp only
      by_cases c1 : v ≥ (ccm_VertexCountAtDepth_Fast subd0.cage (m2 + 1) : Int)
          + (ccm_FaceCountAtDepth_Fast subd0.cage (m2 + 1) : Int)
      · rw [if_pos c1]
        have he := hE (m2 + 1) (by omega) (by omega)
          (v - (ccm_VertexCountAtDepth_Fast subd0.cage (m2 + 1) : Int)
            - (ccm_FaceCountAtDepth_Fast subd0.cage (m2 + 1) : Int)) (by omega) (by omega)
        obtain ⟨lvl, x, x0, x1, x2⟩ := level_edge_inv s (m2 + 1) _ _ he
        rw [a] at x
        have := Option.some.inj x
        subst this
        obtain ⟨old, rd⟩ := e.slotInt _ x0 (by rw [hPH]; omega) 1 (by decide)
        refine ⟨by omega, by omega, ?_⟩
        have hread := level_vertex_of_read s (m2 + 1 + 1) out' c _ _ rd
        simp only [Nat.cast_one] at hread
        rw [hread]
        show some ((ccm_VertexCountAtDepth_Fast subd0.cage (m2 + 1) : Int)
          + (ccm_FaceCountAtDepth_Fast subd0.cage (m2 + 1) : Int) + (hin.getD _ default).edgeID) = _
        rw [x2]
        congr 1
        ring
      · rw [if_neg c1]
        by_cases c2 : v ≥ (ccm_VertexCountAtDepth_Fast subd0.cage (m2 + 1) : Int)
        · rw [if_pos c2]
          have f0 : 0 ≤ ccm_FaceToHalfedgeID_Quad
              (v - (ccm_VertexCountAtDepth_Fast subd0.cage (m2 + 1) : Int)) := by
            unfold ccm_FaceToHalfedgeID_Quad; omega
          have f1 : ccm_FaceToHalfedgeID_Quad
              (v - (ccm_VertexCountAtDepth_Fast subd0.cage (m2 + 1) : Int))
              < (ccm_HalfedgeCountAtDepth subd0.cage (m2 + 1) : Int) := by
            unfold ccm_FaceToHalfedgeID_Quad; omega
          obtain ⟨old, rd⟩ := e.slotInt _ f0 (by rw [hPH]; exact f1) 2 (by decide)
          refine ⟨by omega, by omega, ?_⟩
          have hread := level_vertex_of_read s (m2 + 1 + 1) out' c _ _ rd
          simp only [Nat.cast_ofNat] at hread
          rw [hread]
          show some ((ccm_VertexCountAtDepth_Fast subd0.cage (m2 + 1) : Int)
            + ccm_HalfedgeFaceID_Quad (ccm_FaceToHalfedgeID_Quad _)) = _
          congr 1
          unfold ccm_HalfedgeFaceID_Quad ccm_FaceToHalfedgeID_Quad
          omega
        · rw [if_neg c2]
          obtain ⟨i0, i1, i2⟩ := ih (by omega) (by omega) (by omega) v v0 (by omega)
          obtain ⟨lvl, x, x0, x1, x2⟩ := level_vertex_inv s (m2 + 1) _ _ i2
          rw [a] at x
          have := Option.some.inj x
          subst this
          obtain ⟨old, rd⟩ := e.slotInt _ i0 (by rw [hPH]; exact i1) 0 (by decide)
          refine ⟨by omega, by omega, ?_⟩
          have hread := level_vertex_of_read s (m2 + 1 + 1) out' c _ _ rd
          simp only [Nat.cast_zero] at hread
          rw [hread]
          show some (hin.getD _ default).vertexID = _
          rw [x2]

/-- C7: on an allocated subdivision of depth `D ≥ 1` of a cage whose links are in
bounds, `ccs_RefineHalfedges` returns a subdivision `s` of the same cage; and if
`edgeToHalfedgeID e d` is at every level `1 ≤ d < D` a halfedge of `s` whose
edge is `e`, and `vertexToHalfedgeID_First v` is a level-1 halfedge of `s` whose
vertex is `v`, then for every level `1 ≤ l ≤ D` and every vertex
`0 ≤ v < V_l`, `ccs_VertexPointToHalfedgeID` (its loop run for `l - 1`
iterations) returns a halfedge `0 ≤ h < H_l` of level `l` with
`vertex(h) = v`. -/
theorem C7_vertexPoint_halfedge (subd0 : cc_Subd) (ha : ccs_Allocated subd0)
    (hD : 1 ≤ ccs_MaxDepth subd0) (hw : ccm_LinksInBounds subd0.cage) :
    ∃ s, ccs_RefineHalfedges subd0 = some s ∧ s.cage = subd0.cage ∧
      ∀ (edgeToHalfedgeID : Int → Nat → Int) (vertexToHalfedgeID_First : Int → Int),
        (∀ d : Nat, 1 ≤ d → d < ccs_MaxDepth subd0 → ∀ e : Int, 0 ≤ e →
          e < (ccm_EdgeCountAtDepth_Fast subd0.cage d : Int) →
          ccs_HalfedgeEdgeID s (edgeToHalfedgeID e d) d = some e) →
        (∀ v : Int, 0 ≤ v → v < (ccm_VertexCountAtDepth_Fast subd0.cage 1 : Int) →
          ccs_HalfedgeVertexID s (vertexToHalfedgeID_First v) 1 = some v) →
        ∀ l : Nat, 1 ≤ l → l ≤ ccs_MaxDepth subd0 → ∀ v : Int, 0 ≤ v →
          v < (ccm_VertexCountAtDepth_Fast subd0.cage l : Int) →
          ∃ h : Int, ccs_VertexPointToHalfedgeID s.cage edgeToHalfedgeID
              vertexToHalfedgeID_First v l (l - 1) = some h ∧
            0 ≤ h ∧ h < (ccm_HalfedgeCountAtDepth subd0.cage l : Int) ∧
            ccs_HalfedgeVertexID s h l = some v := by
  obtain ⟨s, e1, e2⟩ := refine_all_levels subd0 ha hD hw
  refine ⟨s, e1, e2.cage_eq, ?_⟩
  intro edgeToHalfedgeID vertexToHalfedgeID_First hE hF l l1 l2 v v0 v1
  obtain ⟨a, b, c⟩ := vertexPoint_recursive_correct e2 ha edgeToHalfedgeID
    vertexToHalfedgeID_First hE hF l l1 l2 l2 v v0 v1
  refine ⟨_, ?_, a, b, c⟩
  obtain ⟨d, rfl⟩ : ∃ d, l = d + 1 := ⟨l - 1, by omega⟩
  rw [e2.cage_eq, ccs_VertexPointToHalfedgeID_eq, Nat.add_sub_cancel,
    loop_eq_recursive subd0.cage edgeToHalfedgeID vertexToHalfedgeID_First v d d 0 none
      (le_refl _)]
  simp

/-- A blank subdivision of depth 2 of the open quad. -/
def quadBlank : cc_Subd :=
  { cage := quadCage, maxDepth := 2, creases := [],
    halfedges := [List.replicate 16 ⟨0, 0, 0, 0⟩, List.replicate 64 ⟨0, 0, 0, 0⟩] }

/-- A halfedge of level 1 of the open quad on each of its 12 edges. -/
def quadEdgeToHalfedgeID (e : Int) (_depth : Nat) : Int :=
  ([0, 7, 4, 11, 8, 15, 12, 3, 1, 5, 9, 2] : List Int).getD e.toNat 0

/-- A halfedge of level 1 of the open quad at each of its 9 vertices. -/
def quadVertexToHalfedgeID_First (v : Int) : Int :=
  ([0, 4, 8, 12, 2, 1, 5, 9, 3] : List Int).getD v.toNat 0

theorem quadBlank_edges : ∀ n : Nat, n < 12 →
    (ccs_RefineHalfedges quadBlank).bind
      (fun s => ccs_HalfedgeEdgeID s (quadEdgeToHalfedgeID n 1) 1) = some (n : Int) := by
  decide

theorem quadBlank_vertices : ∀ n : Nat, n < 9 →
    (ccs_RefineHalfedges quadBlank).bind
      (fun s => ccs_HalfedgeVertexID s (quadVertexToHalfedgeID_First n) 1) = some (n : Int) := by
  decide

/-- C7, witness: the open quad at depth 2, with a table for `edgeToHalfedgeID`
and for `vertexToHalfedgeID_First`. -/
theorem C7_vertexPoint_halfedge_witness :
    ∃ s, ccs_RefineHalfedges quadBlank = some s ∧
      ∀ l : Nat, 1 ≤ l → l ≤ 2 → ∀ v : Int, 0 ≤ v →
        v < (ccm_VertexCountAtDepth_Fast quadCage l : Int) →
        ∃ h : Int, ccs_VertexPointToHalfedgeID s.cage quadEdgeToHalfedgeID
            quadVertexToHalfedgeID_First v l (l - 1) = some h ∧
          0 ≤ h ∧ h < (ccm_HalfedgeCountAtDepth quadCage l : Int) ∧
          ccs_HalfedgeVertexID s h l = some v := by
  obtain ⟨s, hs, _, hmain⟩ := C7_vertexPoint_halfedge quadBlank (by decide) (by decide)
    (by decide)
  refine ⟨s, hs, hmain quadEdgeToHalfedgeID quadVertexToHalfedgeID_First ?_ ?_⟩
  · intro d d1 d2 e e0 e1
    have hd : d = 1 := by
      have : ccs_MaxDepth quadBlank = 2 := rfl
      omega
    subst hd
    have e2 : e < 12 := e1
    have := quadBlank_edges e.toNat (by omega)
    rw [hs, Option.some_bind] at this
    have hc : ((e.toNat : Nat) : Int) = e := by omega
    rw [hc] at this
    exact this
  · intro v v0 v1
    have v2 : v < 9 := v1
    have := quadBlank_vertices v.toNat (by omega)
    rw [hs, Option.some_bind] at this
    have hc : ((v.toNat : Nat) : Int) = v := by omega
    rw [hc] at this
    exact this

/-! ## Crease refinement: `ccs__RefineCageCreases`, `ccs__RefineCreases` -/

/-- Modelled from the spec: `cc__Maxf` of the header, the maximum of two values. -/
def cc__Maxf (a b : ℚ) : ℚ := max a b

/-- Modelled from the spec: `ccm_CreaseNextID` of the header reads the crease
array of the cage. -/
def ccm_CreaseNextID (cage : cc_Mesh) (edgeID : Int) : Option Int :=
  (readAt cage.creases edgeID).map (fun c => c.nextID)

/-- Modelled from the spec: `ccm_CreasePrevID` of the header reads the crease
array of the cage. -/
def ccm_CreasePrevID (cage : cc_Mesh) (edgeID : Int) : Option Int :=
  (readAt cage.creases edgeID).map (fun c => c.prevID)

/-- Modelled from the spec: `ccm_CreaseSharpness` of the header reads the crease
array of the cage. -/
def ccm_CreaseSharpness (cage : cc_Mesh) (edgeID : Int) : Option ℚ :=
  (readAt cage.creases edgeID).map (fun c => c.sharpness)

/-- Modelled from the spec: `ccs_CreaseNextID_Fast` of the header reads the
crease record of the level, without any check. -/
def ccs_CreaseNextID_Fast (subd : cc_Subd) (edgeID : Int) (depth : Nat) : Option Int := do
  let level ← ccs__Level subd.creases depth
  (readAt level edgeID).map (fun c => c.nextID)

/-- Modelled from the spec: `ccs_CreasePrevID_Fast` of the header reads the
crease record of the level, without any check. -/
def ccs_CreasePrevID_Fast (subd : cc_Subd) (edgeID : Int) (depth : Nat) : Option Int := do
  let level ← ccs__Level subd.creases depth
  (readAt level edgeID).map (fun c => c.prevID)

/-- Modelled from the spec: `ccs_CreaseSharpness_Fast` of the header reads the
crease record of the level, without any check. -/
def ccs_CreaseSharpness_Fast (subd : cc_Subd) (edgeID : Int) (depth : Nat) : Option ℚ := do
  let level ← ccs__Level subd.creases depth
  (readAt level edgeID).map (fun c => c.sharpness)

/-- The six assignments that end an iteration of `ccs__RefineCageCreases` and of
`ccs__RefineCreases` (the two kernels have the same text there):
`newCreases[i]` is the slot `2 * edgeID + i` of `creasesOut`. -/
def writeNewCreases (creasesOut : List cc_Crease) (edgeID nextID prevID : Int) (t1 t2 : Bool)
    (thisS nextS prevS : ℚ) : Option (List cc_Crease) := do
  -- next rule
  let out ← writeAt creasesOut (2 * edgeID + 0) (fun c => { c with nextID := 2 * edgeID + 1 })
  let out ← writeAt out (2 * edgeID + 1)
    (fun c => { c with nextID := 2 * nextID + (if t1 then 0 else 1) })
  -- prev rule
  let out ← writeAt out (2 * edgeID + 0)
    (fun c => { c with prevID := 2 * prevID + (if t2 then 1 else 0) })
  let out ← writeAt out (2 * edgeID + 1) (fun c => { c with prevID := 2 * edgeID + 0 })
  -- sharpness rule
  let out ← writeAt out (2 * edgeID + 0)
    (fun c => { c with sharpness := cc__Maxf 0 ((prevS + thisS) / 4 - 1) })
  writeAt out (2 * edgeID + 1)
    (fun c => { c with sharpness := cc__Maxf 0 ((thisS + nextS) / 4 - 1) })

/-- One iteration of the loop of `ccs__RefineCageCreases`. -/
def ccs__RefineCageCreases_iteration (cage : cc_Mesh) (creasesOut : List cc_Crease)
    (edgeID : Int) : Option (List cc_Crease) := do
  let nextID ← ccm_CreaseNextID cage edgeID
  let prevID ← ccm_CreasePrevID cage edgeID
  let nextPrevID ← ccm_CreasePrevID cage nextID
  let t1 := decide (nextPrevID = edgeID) && decide (nextID ≠ edgeID)
  let prevNextID ← ccm_CreaseNextID cage prevID
  let t2 := decide (prevNextID = edgeID) && decide (prevID ≠ edgeID)
  let thisS := 3 * (← ccm_CreaseSharpness cage edgeID)
  let nextS ← ccm_CreaseSharpness cage nextID
  let prevS ← ccm_CreaseSharpness cage prevID
  writeNewCreases creasesOut edgeID nextID prevID t1 t2 thisS nextS prevS

/-- The kernel `ccs__RefineCageCreases`: `creasesOut = subd->creases` is the
region of level 1. -/
def ccs__RefineCageCreases (subd : cc_Subd) : Option cc_Subd := do
  let cage := subd.cage
  let edgeCount := ccm_EdgeCount cage
  let creasesOut ← subd.creases[0]?
  let out ← (List.range edgeCount).foldlM
    (fun out (edgeID : Nat) => ccs__RefineCageCreases_iteration cage out edgeID) creasesOut
  some { subd with creases := subd.creases.set 0 out }

/-- One iteration of the loop of `ccs__RefineCreases`. -/
def ccs__RefineCreases_iteration (subd : cc_Subd) (depth : Nat) (creasesOut : List cc_Crease)
    (edgeID : Int) : Option (List cc_Crease) := do
  let nextID ← ccs_CreaseNextID_Fast subd edgeID depth
  let prevID ← ccs_CreasePrevID_Fast subd edgeID depth
  let nextPrevID ← ccs_CreasePrevID_Fast subd nextID depth
  let t1 := decide (nextPrevID = edgeID) && decide (nextID ≠ edgeID)
  let prevNextID ← ccs_CreaseNextID_Fast subd prevID depth
  let t2 := decide (prevNextID = edgeID) && decide (prevID ≠ edgeID)
  let thisS := 3 * (← ccs_CreaseSharpness_Fast subd edgeID depth)
  let nextS ← ccs_CreaseSharpness_Fast subd nextID depth
  let prevS ← ccs_CreaseSharpness_Fast subd prevID depth
  writeNewCreases creasesOut edgeID nextID prevID t1 t2 thisS nextS prevS

/-- The kernel `ccs__RefineCreases`: `creasesOut = &subd->creases[stride]` is the
region of level `depth + 1`. -/
def ccs__RefineCreases (subd : cc_Subd) (depth : Nat) : Option cc_Subd := do
  let cage := subd.cage
  let creaseCount := ccm_CreaseCountAtDepth cage depth
  let creasesOut ← ccs__Level subd.creases (depth + 1)
  let out ← (List.range creaseCount).foldlM
    (fun out (edgeID : Nat) => ccs__RefineCreases_iteration subd depth out edgeID) creasesOut
  some { subd with creases := subd.creases.set depth out }

/-- The entry point `ccs_RefineCreases`: the cage kernel, then the kernel of
every depth `1 ≤ depth < maxDepth`. -/
def ccs_RefineCreases (subd : cc_Subd) : Option cc_Subd := do
  let maxDepth := ccs_MaxDepth subd
  let subd ← ccs__RefineCageCreases subd
  (List.range' 1 (maxDepth - 1)).foldlM (fun s depth => ccs__RefineCreases s depth) subd

/-- A cage with two edges whose creases form a cycle, of sharpness 2 and 3, and
no halfedge. -/
def creaseCage : cc_Mesh :=
  { vertexCount := 0, edgeCount := 2, faceCount := 0, halfedges := [],
    creases := [⟨1, 1, 2⟩, ⟨0, 0, 3⟩] }

instance : Inhabited cc_Crease := ⟨⟨0, 0, 0⟩⟩

/-- The parent creases as the kernels see them. -/
structure CreaseParent where
  E : Nat
  next : Int → Int
  prev : Int → Int
  sharp : Int → ℚ

/-- The first child crease of the edge `e` (section 4.3 of the specification):
`next = 2e + 1`, `prev = 2p + (t2 ? 1 : 0)`,
`sharpness = max(0, (S_p + 3S)/4 - 1)`. -/
def creaseChild0 (e p : Int) (t2 : Prop) [Decidable t2] (S S_p : ℚ) : cc_Crease :=
  { nextID := 2 * e + 1, prevID := 2 * p + (if t2 then 1 else 0),
    sharpness := max 0 ((S_p + 3 * S) / 4 - 1) }

/-- The second child crease of the edge `e` (section 4.3 of the specification):
`next = 2n + (t1 ? 0 : 1)`, `prev = 2e`, `sharpness = max(0, (3S + S_n)/4 - 1)`. -/
def creaseChild1 (e n : Int) (t1 : Prop) [Decidable t1] (S S_n : ℚ) : cc_Crease :=
  { nextID := 2 * n + (if t1 then 0 else 1), prevID := 2 * e,
    sharpness := max 0 ((3 * S + S_n) / 4 - 1) }

/-- The effect of the iteration `e` on the slot `j`. -/
def CreaseParent.slot (P : CreaseParent) (e j : Nat) (old : cc_Crease) : cc_Crease :=
  if j = 2 * e then
    creaseChild0 e (P.prev e) (P.next (P.prev e) = e ∧ P.prev e ≠ e) (P.sharp e)
      (P.sharp (P.prev e))
  else if j = 2 * e + 1 then
    creaseChild1 e (P.next e) (P.prev (P.next e) = e ∧ P.next e ≠ e) (P.sharp e)
      (P.sharp (P.next e))
  else old

/-- The effect of the whole loop on the slot `j`. -/
def CreaseParent.child (P : CreaseParent) (j : Nat) (old : cc_Crease) : cc_Crease :=
  if j < 2 * P.E then P.slot (j / 2) j old else old

/-- The array `out'` is the array `out` after the loop over the parent creases. -/
def CreaseRefined (P : CreaseParent) (out out' : List cc_Crease) : Prop :=
  2 * P.E ≤ out.length ∧ out'.length = out.length ∧
    ∀ j, out'[j]? = (out[j]?).map (P.child j)

theorem writeNewCreases_spec (P : CreaseParent) (out : List cc_Crease) (e : Nat)
    (hlen : 2 * e + 1 < out.length) :
    ∃ out', writeNewCreases out (e : Int) (P.next e) (P.prev e)
        (decide (P.prev (P.next e) = e) && decide (P.next e ≠ e))
        (decide (P.next (P.prev e) = e) && decide (P.prev e ≠ e))
        (3 * P.sharp e) (P.sharp (P.next e)) (P.sharp (P.prev e)) = some out' ∧
      out'.length = out.length ∧
      ∀ j, out'[j]? = (out[j]?).map (P.slot e j) := by
  have e0 : (2 * (e : Int) + 0) = ((2 * e : Nat) : Int) := by push_cast; ring
  have e1 : (2 * (e : Int) + 1) = ((2 * e + 1 : Nat) : Int) := by push_cast; ring
  unfold writeNewCreases
  simp only [Option.bind_eq_bind]
  rw [e0, e1]
  rw [writeAt_natCast _ _ _ (by omega)]
  simp only [Option.some_bind]
  iterate 4
    rw [writeAt_natCast _ _ _ (by simp only [List.length_modify]; omega)]
    simp only [Option.some_bind]
  rw [writeAt_natCast _ _ _ (by simp only [List.length_modify]; omega)]
  refine ⟨_, rfl, by simp only [List.length_modify], ?_⟩
  intro j
  simp only [List.getElem?_modify, Option.map_eq_map, Option.map_map]
  cases hj : out[j]? with
  | none => simp
  | some old =>
    simp only [Option.map_some', Function.comp_apply, CreaseParent.slot, creaseChild0,
      creaseChild1, cc__Maxf]
    by_cases c0 : j = 2 * e
    · subst c0
      simp only [if_true, Nat.cast_mul, Nat.cast_ofNat]
      have hne : ¬ (2 * e + 1 = 2 * e) := by omega
      simp only [hne, if_false, Bool.and_eq_true, decide_eq_true_eq, e0]
      simp only [Nat.cast_add, Nat.cast_mul, Nat.cast_ofNat, Nat.cast_one]
    · by_cases c1 : j = 2 * e + 1
      · subst c1
        have hne : ¬ (2 * e = 2 * e + 1) := by omega
        simp only [c0, hne, if_false, if_true, Bool.and_eq_true, decide_eq_true_eq, e0]
        simp only [Nat.cast_add, Nat.cast_mul, Nat.cast_ofNat, Nat.cast_one]
      · have d0 : ¬ (2 * e = j) := fun hh => c0 hh.symm
        have d1 : ¬ (2 * e + 1 = j) := fun hh => c1 hh.symm
        simp only [c0, c1, d0, d1, if_false]

theorem foldlM_blocks2 (it : List cc_Crease → Nat → Option (List cc_Crease))
    (slot : Nat → Nat → cc_Crease → cc_Crease) (E : Nat) (out : List cc_Crease)
    (hit : ∀ h, h < E → ∀ o : List cc_Crease, o.length = out.length →
      ∃ o', it o h = some o' ∧ o'.length = o.length ∧ ∀ j, o'[j]? = (o[j]?).map (slot h j))
    (hslot : ∀ h j old, j / 2 ≠ h → slot h j old = old) :
    ∀ n, n ≤ E → ∃ o', (List.range n).foldlM it out = some o' ∧ o'.length = out.length ∧
      ∀ j, o'[j]? = (out[j]?).map (fun old => if j < 2 * n then slot (j / 2) j old else old) := by
  intro n
  induction n with
  | zero =>
    intro _
    refine ⟨out, by simp, rfl, ?_⟩
    intro j
    cases out[j]? <;> simp
  | succ n ih =>
    intro hn
    obtain ⟨o1, h1, l1, g1⟩ := ih (by omega)
    obtain ⟨o2, h2, l2, g2⟩ := hit n (by omega) o1 l1
    refine ⟨o2, ?_, by omega, ?_⟩
    · rw [List.range_succ, List.foldlM_append, h1]
      simp [h2]
    · intro j
      rw [g2, g1]
      cases out[j]? with
      | none => simp
      | some old =>
        simp only [Option.map_some', Option.some.injEq]
        by_cases c : j / 2 = n
        · have c1 : ¬ (j < 2 * n) := by omega
          have c2 : j < 2 * (n + 1) := by omega
          simp [c1, c2, c]
        · rw [hslot n j _ c]
          by_cases c1 : j < 2 * n
          · have c2 : j < 2 * (n + 1) := by omega
            simp [c1, c2]
          · have c2 : ¬ (j < 2 * (n + 1)) := by omega
            simp [c1, c2]

theorem CreaseParent.slot_other (P : CreaseParent) (e j : Nat) (old : cc_Crease)
    (hj : j / 2 ≠ e) : P.slot e j old = old := by
  unfold CreaseParent.slot
  have c0 : ¬ (j = 2 * e) := by omega
  have c1 : ¬ (j = 2 * e + 1) := by omega
  simp [c0, c1]

/-- The crease links stay inside the first `E` crease records: the `nextID` and
the `prevID` of each of them is in `[0, E)`. -/
def ccs_CreaseLinksInBounds (creases : List cc_Crease) (E : Nat) : Prop :=
  E ≤ creases.length ∧
  ∀ e : Nat, e < E → ∀ c ∈ creases[e]?,
    0 ≤ c.nextID ∧ c.nextID < (E : Int) ∧ 0 ≤ c.prevID ∧ c.prevID < (E : Int)

instance (creases : List cc_Crease) (E : Nat) : Decidable (ccs_CreaseLinksInBounds creases E) := by
  unfold ccs_CreaseLinksInBounds
  infer_instance

/-- The first `E` records of a crease array as parent creases. -/
def creaseParent (creases : List cc_Crease) (E : Nat) : CreaseParent where
  E := E
  next := fun e => (creases.getD e.toNat default).nextID
  prev := fun e => (creases.getD e.toNat default).prevID
  sharp := fun e => (creases.getD e.toNat default).sharpness

theorem creaseParent_range (creases : List cc_Crease) (E : Nat)
    (hw : ccs_CreaseLinksInBounds creases E) (e : Int) (e0 : 0 ≤ e) (e1 : e < (E : Int)) :
    0 ≤ (creaseParent creases E).next e ∧ (creaseParent creases E).next e < (E : Int) ∧
    0 ≤ (creaseParent creases E).prev e ∧ (creaseParent creases E).prev e < (E : Int) := by
  have hlt : e.toNat < creases.length := by have := hw.1; omega
  have hr : creases[e.toNat]? = some (creases.getD e.toNat default) := by
    simp [List.getD_eq_getElem?_getD, List.getElem?_eq_getElem hlt]
  exact hw.2 e.toNat (by omega) _ hr

theorem crease_iteration_spec (creases : List cc_Crease) (E : Nat)
    (hw : ccs_CreaseLinksInBounds creases E)
    (next prev : Int → Option Int) (sharp : Int → Option ℚ)
    (hnext : ∀ e : Int, next e = (readAt creases e).map (fun c => c.nextID))
    (hprev : ∀ e : Int, prev e = (readAt creases e).map (fun c => c.prevID))
    (hsharp : ∀ e : Int, sharp e = (readAt creases e).map (fun c => c.sharpness))
    (e : Nat) (he : e < E) (out : List cc_Crease) (hlen : 2 * E ≤ out.length) :
    ∃ out', (do
        let nextID ← next e
        let prevID ← prev e
        let nextPrevID ← prev nextID
        let t1 := decide (nextPrevID = (e : Int)) && decide (nextID ≠ (e : Int))
        let prevNextID ← next prevID
        let t2 := decide (prevNextID = (e : Int)) && decide (prevID ≠ (e : Int))
        let thisS := 3 * (← sharp e)
        let nextS ← sharp nextID
        let prevS ← sharp prevID
        writeNewCreases out e nextID prevID t1 t2 thisS nextS prevS) = some out' ∧
      out'.length = out.length ∧
      ∀ j, out'[j]? = (out[j]?).map ((creaseParent creases E).slot e j) := by
  have hE := hw.1
  obtain ⟨n0, n1, p0, p1⟩ := creaseParent_range creases E hw e (by omega) (by omega)
  have re := readAt_getD creases (e : Int) (by omega) (by omega)
  have rn := readAt_getD creases _ n0 (by omega)
  have rp := readAt_getD creases _ p0 (by omega)
  obtain ⟨o, a, b, c⟩ := writeNewCreases_spec (creaseParent creases E) out e (by omega)
  refine ⟨o, ?_, b, c⟩
  rw [← a]
  simp only [hnext, hprev, hsharp, re, Option.map_some', Option.bind_eq_bind, Option.some_bind]
  have rn' : readAt creases (creases.getD (e : Int).toNat default).nextID = _ := rn
  have rp' : readAt creases (creases.getD (e : Int).toNat default).prevID = _ := rp
  simp only [rn', rp', Option.map_some', Option.some_bind]
  rfl

theorem cage_crease_kernel_spec (subd : cc_Subd) (out : List cc_Crease)
    (hout : subd.creases[0]? = some out)
    (hw : ccs_CreaseLinksInBounds subd.cage.creases (ccm_EdgeCount subd.cage))
    (hlen : 2 * ccm_EdgeCount subd.cage ≤ out.length) :
    ∃ out', ccs__RefineCageCreases subd = some { subd with creases := subd.creases.set 0 out' } ∧
      CreaseRefined (creaseParent subd.cage.creases (ccm_EdgeCount subd.cage)) out out' := by
  have := foldlM_blocks2
    (fun o (e : Nat) => ccs__RefineCageCreases_iteration subd.cage o (e : Int))
    (creaseParent subd.cage.creases (ccm_EdgeCount subd.cage)).slot (ccm_EdgeCount subd.cage) out
    (fun e he o ho => crease_iteration_spec subd.cage.creases (ccm_EdgeCount subd.cage) hw
      (ccm_CreaseNextID subd.cage) (ccm_CreasePrevID subd.cage) (ccm_CreaseSharpness subd.cage)
      (fun _ => rfl) (fun _ => rfl) (fun _ => rfl) e he o (by omega))
    (fun e j old hj => CreaseParent.slot_other _ e j old hj)
    (ccm_EdgeCount subd.cage) (le_refl _)
  obtain ⟨o, e1, e2, e3⟩ := this
  refine ⟨o, ?_, hlen, e2, e3⟩
  unfold ccs__RefineCageCreases
  simp only [hout, Option.bind_eq_bind, Option.some_bind, e1]

theorem level_crease_kernel_spec (subd : cc_Subd) (depth : Nat) (creasesIn out : List cc_Crease)
    (hin : ccs__Level subd.creases depth = some creasesIn)
    (hout : ccs__Level subd.creases (depth + 1) = some out)
    (hw : ccs_CreaseLinksInBounds creasesIn (ccm_CreaseCountAtDepth subd.cage depth))
    (hlen : 2 * ccm_CreaseCountAtDepth subd.cage depth ≤ out.length) :
    ∃ out', ccs__RefineCreases subd depth =
        some { subd with creases := subd.creases.set depth out' } ∧
      CreaseRefined (creaseParent creasesIn (ccm_CreaseCountAtDepth subd.cage depth)) out out' := by
  have := foldlM_blocks2
    (fun o (e : Nat) => ccs__RefineCreases_iteration subd depth o (e : Int))
    (creaseParent creasesIn (ccm_CreaseCountAtDepth subd.cage depth)).slot
    (ccm_CreaseCountAtDepth subd.cage depth) out
    (fun e he o ho => crease_iteration_spec creasesIn (ccm_CreaseCountAtDepth subd.cage depth) hw
      (fun x => ccs_CreaseNextID_Fast subd x depth) (fun x => ccs_CreasePrevID_Fast subd x depth)
      (fun x => ccs_CreaseSharpness_Fast subd x depth)
      (fun _ => by unfold ccs_CreaseNextID_Fast; rw [hin]; rfl)
      (fun _ => by unfold ccs_CreasePrevID_Fast; rw [hin]; rfl)
      (fun _ => by unfold ccs_CreaseSharpness_Fast; rw [hin]; rfl) e he o (by omega))
    (fun e j old hj => CreaseParent.slot_other _ e j old hj)
    (ccm_CreaseCountAtDepth subd.cage depth) (le_refl _)
  obtain ⟨o, e1, e2, e3⟩ := this
  refine ⟨o, ?_, hlen, e2, e3⟩
  unfold ccs__RefineCreases
  simp only [hout, Option.bind_eq_bind, Option.some_bind, e1]

/-! ## C9: the child creases -/

theorem CreaseRefined.slots {P : CreaseParent} {out out' : List cc_Crease}
    (hr : CreaseRefined P out out') (e : Nat) (he : e < P.E) :
    out'[2 * e]? = some (creaseChild0 e (P.prev e) (P.next (P.prev e) = e ∧ P.prev e ≠ e)
        (P.sharp e) (P.sharp (P.prev e))) ∧
    out'[2 * e + 1]? = some (creaseChild1 e (P.next e) (P.prev (P.next e) = e ∧ P.next e ≠ e)
        (P.sharp e) (P.sharp (P.next e))) := by
  obtain ⟨hlen, _, hj⟩ := hr
  have l0 : 2 * e < out.length := by omega
  have l1 : 2 * e + 1 < out.length := by omega
  have d0 : (2 * e) / 2 = e := by omega
  have d1 : (2 * e + 1) / 2 = e := by omega
  have c0 : 2 * e < 2 * P.E := by omega
  have c1 : 2 * e + 1 < 2 * P.E := by omega
  have hne : ¬ (2 * e + 1 = 2 * e) := by omega
  constructor
  · rw [hj, List.getElem?_eq_getElem l0, Option.map_some']
    simp only [CreaseParent.child, CreaseParent.slot, c0, d0, if_true]
  · rw [hj, List.getElem?_eq_getElem l1, Option.map_some']
    simp only [CreaseParent.child, CreaseParent.slot, c1, d1, hne, if_true, if_false]

theorem CreaseRefined.untouched {P : CreaseParent} {out out' : List cc_Crease}
    (hr : CreaseRefined P out out') (j : Nat) (hj : 2 * P.E ≤ j) : out'[j]? = out[j]? := by
  rw [hr.2.2 j]
  have hn : ¬ (j < 2 * P.E) := by omega
  cases out[j]? with
  | none => rfl
  | some old => simp only [Option.map_some', CreaseParent.child, if_neg hn]

theorem creaseParent_reads (creases : List cc_Crease) (E : Nat)
    (hw : ccs_CreaseLinksInBounds creases E) (e : Nat) (he : e < E) :
    readAt creases (e : Int) = some (creases.getD e default) ∧
    readAt creases ((creaseParent creases E).next e)
      = some (creases.getD ((creaseParent creases E).next e).toNat default) ∧
    readAt creases ((creaseParent creases E).prev e)
      = some (creases.getD ((creaseParent creases E).prev e).toNat default) := by
  have hE := hw.1
  obtain ⟨n0, n1, p0, p1⟩ := creaseParent_range creases E hw e (by omega) (by omega)
  have re := readAt_getD creases (e : Int) (by omega) (by omega)
  simp only [Int.toNat_ofNat] at re
  exact ⟨re, readAt_getD creases _ n0 (by omega), readAt_getD creases _ p0 (by omega)⟩

/-- C9: on parent creases whose links stay in `[0, E)`, `ccs__RefineCageCreases`
(first part, `E = E0`) and `ccs__RefineCreases` (second part, `E` the crease
count of the level) return; they leave every slot from `2E` on untouched, and
for every edge `e < E`, with `n = creaseNext(e)`, `p = creasePrev(e)`,
`t1 = (creasePrev(n) = e and n ≠ e)`, `t2 = (creaseNext(p) = e and p ≠ e)` and
the sharpnesses `S`, `S_n`, `S_p` of `e`, `n`, `p`, the slot `2e` holds
`(next 2e+1, prev 2p + (t2 ? 1 : 0), sharpness max(0, (S_p + 3S)/4 - 1))` and
the slot `2e + 1` holds
`(next 2n + (t1 ? 0 : 1), prev 2e, sharpness max(0, (3S + S_n)/4 - 1))`. -/
theorem C9_crease_wiring :
    (∀ (subd : cc_Subd) (out : List cc_Crease),
      subd.creases[0]? = some out →
      2 * ccm_EdgeCount subd.cage ≤ out.length →
      ccs_CreaseLinksInBounds subd.cage.creases (ccm_EdgeCount subd.cage) →
      ∃ out', ccs__RefineCageCreases subd =
          some { subd with creases := subd.creases.set 0 out' } ∧
        out'.length = out.length ∧
        (∀ j : Nat, 2 * ccm_EdgeCount subd.cage ≤ j → out'[j]? = out[j]?) ∧
        ∀ e : Nat, e < ccm_EdgeCount subd.cage →
          ∃ (n p np pn : Int) (S S_n S_p : ℚ),
            ccm_CreaseNextID subd.cage e = some n ∧
            ccm_CreasePrevID subd.cage e = some p ∧
            ccm_CreasePrevID subd.cage n = some np ∧
            ccm_CreaseNextID subd.cage p = some pn ∧
            ccm_CreaseSharpness subd.cage e = some S ∧
            ccm_CreaseSharpness subd.cage n = some S_n ∧
            ccm_CreaseSharpness subd.cage p = some S_p ∧
            out'[2 * e]? = some (creaseChild0 e p (pn = e ∧ p ≠ e) S S_p) ∧
            out'[2 * e + 1]? = some (creaseChild1 e n (np = e ∧ n ≠ e) S S_n)) ∧
    (∀ (subd : cc_Subd) (depth : Nat) (creasesIn out : List cc_Crease),
      ccs__Level subd.creases depth = some creasesIn →
      ccs__Level subd.creases (depth + 1) = some out →
      2 * ccm_CreaseCountAtDepth subd.cage depth ≤ out.length →
      ccs_CreaseLinksInBounds creasesIn (ccm_CreaseCountAtDepth subd.cage depth) →
      ∃ out', ccs__RefineCreases subd depth =
          some { subd with creases := subd.creases.set depth out' } ∧
        out'.length = out.length ∧
        (∀ j : Nat, 2 * ccm_CreaseCountAtDepth subd.cage depth ≤ j → out'[j]? = out[j]?) ∧
        ∀ e : Nat, e < ccm_CreaseCountAtDepth subd.cage depth →
          ∃ (n p np pn : Int) (S S_n S_p : ℚ),
            ccs_CreaseNextID_Fast subd e depth = some n ∧
            ccs_CreasePrevID_Fast subd e depth = some p ∧
            ccs_CreasePrevID_Fast subd n depth = some np ∧
            ccs_CreaseNextID_Fast subd p depth = some pn ∧
            ccs_CreaseSharpness_Fast subd e depth = some S ∧
            ccs_CreaseSharpness_Fast subd n depth = some S_n ∧
            ccs_CreaseSharpness_Fast subd p depth = some S_p ∧
            out'[2 * e]? = some (creaseChild0 e p (pn = e ∧ p ≠ e) S S_p) ∧
            out'[2 * e + 1]? = some (creaseChild1 e n (np = e ∧ n ≠ e) S S_n)) := by
  constructor
  · intro subd out hout hlen hw
    obtain ⟨o, e1, e2⟩ := cage_crease_kernel_spec subd out hout hw hlen
    refine ⟨o, e1, e2.2.1, fun j hj => e2.untouched j hj, ?_⟩
    intro e he
    obtain ⟨re, rn, rp⟩ := creaseParent_reads _ _ hw e he
    obtain ⟨s0, s1⟩ := e2.slots e he
    refine ⟨_, _, _, _, _, _, _, ?_, ?_, ?_, ?_, ?_, ?_, ?_, s0, s1⟩
    · unfold ccm_CreaseNextID; rw [re]; simp [creaseParent]
    · unfold ccm_CreasePrevID; rw [re]; simp [creaseParent]
    · unfold ccm_CreasePrevID; rw [rn]; rfl
    · unfold ccm_CreaseNextID; rw [rp]; rfl
    · unfold ccm_CreaseSharpness; rw [re]; simp [creaseParent]
    · unfold ccm_CreaseSharpness; rw [rn]; rfl
    · unfold ccm_CreaseSharpness; rw [rp]; rfl
  · intro subd depth creasesIn out hin hout hlen hw
    obtain ⟨o, e1, e2⟩ := level_crease_kernel_spec subd depth creasesIn out hin hout hw hlen
    refine ⟨o, e1, e2.2.1, fun j hj => e2.untouched j hj, ?_⟩
    intro e he
    obtain ⟨re, rn, rp⟩ := creaseParent_reads _ _ hw e he
    obtain ⟨s0, s1⟩ := e2.slots e he
    refine ⟨_, _, _, _, _, _, _, ?_, ?_, ?_, ?_, ?_, ?_, ?_, s0, s1⟩
    · unfold ccs_CreaseNextID_Fast; rw [hin]
      simp only [Option.bind_eq_bind, Option.some_bind, re]; simp [creaseParent]
    · unfold ccs_CreasePrevID_Fast; rw [hin]
      simp only [Option.bind_eq_bind, Option.some_bind, re]; simp [creaseParent]
    · unfold ccs_CreasePrevID_Fast; rw [hin]
      simp only [Option.bind_eq_bind, Option.some_bind, rn]; rfl
    · unfold ccs_CreaseNextID_Fast; rw [hin]
      simp only [Option.bind_eq_bind, Option.some_bind, rp]; rfl
    · unfold ccs_CreaseSharpness_Fast; rw [hin]
      simp only [Option.bind_eq_bind, Option.some_bind, re]; simp [creaseParent]
    · unfold ccs_CreaseSharpness_Fast; rw [hin]
      simp only [Option.bind_eq_bind, Option.some_bind, rn]; rfl
    · unfold ccs_CreaseSharpness_Fast; rw [hin]
      simp only [Option.bind_eq_bind, Option.some_bind, rp]; rfl

/-- The subdivision of `creaseCage` at depth 2: the creases of level 1, and the
blank region of level 2. -/
def creaseSubd : cc_Subd :=
  { cage := creaseCage, maxDepth := 2, halfedges := [],
    creases := [[⟨1, 3, 5 / 4⟩, ⟨2, 0, 5 / 4⟩, ⟨3, 1, 7 / 4⟩, ⟨0, 2, 7 / 4⟩],
      List.replicate 8 ⟨0, 0, 0⟩] }

/-- C9, witness: the two creases of `creaseCage` (cage kernel), whose edge 0 has
the children `(1, 3, 5/4)` and `(2, 0, 5/4)`, and level 1 of `creaseSubd`
(level kernel), whose edge 3 has the children `(7, 5, 3/4)` and `(0, 6, 5/8)`. -/
theorem C9_crease_wiring_witness :
    (∃ out', ccs__RefineCageCreases
        { cage := creaseCage, maxDepth := 1, halfedges := [],
          creases := [List.replicate 4 ⟨0, 0, 0⟩] } =
          some { cage := creaseCage, maxDepth := 1, halfedges := [], creases := [out'] } ∧
        out'[0]? = some ⟨1, 3, 5 / 4⟩ ∧ out'[1]? = some ⟨2, 0, 5 / 4⟩) ∧
    (∃ out', ccs__RefineCreases creaseSubd 1 =
          some { creaseSubd with creases := creaseSubd.creases.set 1 out' } ∧
        out'[6]? = some ⟨7, 5, 3 / 4⟩ ∧ out'[7]? = some ⟨0, 6, 5 / 8⟩) := by
  constructor
  · obtain ⟨out', h1, _, _, h4⟩ := C9_crease_wiring.1
      { cage := creaseCage, maxDepth := 1, halfedges := [],
        creases := [List.replicate 4 ⟨0, 0, 0⟩] }
      (List.replicate 4 ⟨0, 0, 0⟩) rfl (by decide) (by decide)
    obtain ⟨n, p, np, pn, S, S_n, S_p, a1, a2, a3, a4, a5, a6, a7, s0, s1⟩ := h4 0 (by decide)
    simp [ccm_CreaseNextID, readAt, creaseCage] at a1
    subst a1
    simp [ccm_CreasePrevID, readAt, creaseCage] at a2
    subst a2
    simp [ccm_CreasePrevID, readAt, creaseCage] at a3
    subst a3
    simp [ccm_CreaseNextID, readAt, creaseCage] at a4
    subst a4
    simp [ccm_CreaseSharpness, readAt, creaseCage] at a5
    subst a5
    simp [ccm_CreaseSharpness, readAt, creaseCage] at a6
    subst a6
    simp [ccm_CreaseSharpness, readAt, creaseCage] at a7
    subst a7
    refine ⟨out', h1, ?_, ?_⟩
    · rw [s0]; norm_num [creaseChild0]
    · rw [s1]; norm_num [creaseChild1]
  · obtain ⟨out', h1, _, _, h4⟩ := C9_crease_wiring.2 creaseSubd 1
      [⟨1, 3, 5 / 4⟩, ⟨2, 0, 5 / 4⟩, ⟨3, 1, 7 / 4⟩, ⟨0, 2, 7 / 4⟩] (List.replicate 8 ⟨0, 0, 0⟩)
      rfl rfl (by decide) (by decide)
    obtain ⟨n, p, np, pn, S, S_n, S_p, a1, a2, a3, a4, a5, a6, a7, s0, s1⟩ := h4 3 (by decide)
    simp [ccs_CreaseNextID_Fast, ccs__Level, readAt, creaseSubd] at a1
    subst a1
    simp [ccs_CreasePrevID_Fast, ccs__Level, readAt, creaseSubd] at a2
    subst a2
    simp [ccs_CreasePrevID_Fast, ccs__Level, readAt, creaseSubd] at a3
    subst a3
    simp [ccs_CreaseNextID_Fast, ccs__Level, readAt, creaseSubd] at a4
    subst a4
    simp [ccs_CreaseSharpness_Fast, ccs__Level, readAt, creaseSubd] at a5
    subst a5
    simp [ccs_CreaseSharpness_Fast, ccs__Level, readAt, creaseSubd] at a6
    subst a6
    simp [ccs_CreaseSharpness_Fast, ccs__Level, readAt, creaseSubd] at a7
    subst a7
    refine ⟨out', h1, ?_, ?_⟩
    · have s0' : out'[6]? = _ := s0
      rw [s0']; norm_num [creaseChild0]
    · have s1' : out'[7]? = _ := s1
      rw [s1']; norm_num [creaseChild1]

/-! ## C10: the sum of the child sharpnesses -/

/-- The sum of the sharpnesses of the first `n` records of a crease array. -/
def creaseSharpnessSum (creases : List cc_Crease) (n : Nat) : ℚ :=
  ((creases.take n).map (fun c => c.sharpness)).sum

/-- The link `creaseNext` is a bijection of the first `E` creases, with
`creasePrev` its inverse: `creasePrev(creaseNext(e)) = e` and
`creaseNext(creasePrev(e)) = e` for every `e < E` (with
`ccs_CreaseLinksInBounds` the links stay in `[0, E)`). -/
def ccs_CreaseBijection (creases : List cc_Crease) (E : Nat) : Prop :=
  ∀ e : Nat, e < E → ∀ c ∈ creases[e]?,
    (readAt creases c.nextID).map (fun x => x.prevID) = some (e : Int) ∧
    (readAt creases c.prevID).map (fun x => x.nextID) = some (e : Int)

instance (creases : List cc_Crease) (E : Nat) : Decidable (ccs_CreaseBijection creases E) := by
  unfold ccs_CreaseBijection
  infer_instance

/-- No child sharpness is clamped by `max(0, .)`: for every `e < E`, of
sharpness `S`, with `S_n` and `S_p` the sharpnesses of `creaseNext(e)` and
`creasePrev(e)`, both `(S_p + 3S)/4 - 1` and `(3S + S_n)/4 - 1` are
non-negative. -/
def ccs_CreaseUnclamped (creases : List cc_Crease) (E : Nat) : Prop :=
  ∀ e : Nat, e < E → ∀ c ∈ creases[e]?,
    ∀ cn ∈ readAt creases c.nextID, ∀ cp ∈ readAt creases c.prevID,
      0 ≤ (cp.sharpness + 3 * c.sharpness) / 4 - 1 ∧
      0 ≤ (3 * c.sharpness + cn.sharpness) / 4 - 1

theorem sum_take_map {α : Type} [Inhabited α] (f : α → ℚ) (l : List α) (n : Nat)
    (hn : n ≤ l.length) :
    ((l.take n).map f).sum = ∑ i ∈ Finset.range n, f (l.getD i default) := by
  induction n with
  | zero => simp
  | succ k ih =>
    have hk : k < l.length := by omega
    rw [List.take_succ, List.map_append, List.sum_append, ih (by omega), Finset.sum_range_succ]
    simp [List.getD_eq_getElem?_getD, List.getElem?_eq_getElem hk]

theorem sum_range_pairs (g : Nat → ℚ) (E : Nat) :
    ∑ j ∈ Finset.range (2 * E), g j = ∑ e ∈ Finset.range E, (g (2 * e) + g (2 * e + 1)) := by
  induction E with
  | zero => simp
  | succ k ih =>
    have h2 : 2 * (k + 1) = 2 * k + 1 + 1 := by ring
    rw [h2, Finset.sum_range_succ, Finset.sum_range_succ, ih, Finset.sum_range_succ]
    ring

theorem CreaseRefined.sharpness_sum {P : CreaseParent} {out out' : List cc_Crease}
    (hr : CreaseRefined P out out')
    (hrange : ∀ e : Nat, e < P.E →
      0 ≤ P.next e ∧ P.next e < (P.E : Int) ∧ 0 ≤ P.prev e ∧ P.prev e < (P.E : Int))
    (hbij : ∀ e : Nat, e < P.E → P.prev (P.next e) = e ∧ P.next (P.prev e) = e)
    (hnc : ∀ e : Nat, e < P.E →
      0 ≤ (P.sharp (P.prev e) + 3 * P.sharp e) / 4 - 1 ∧
      0 ≤ (3 * P.sharp e + P.sharp (P.next e)) / 4 - 1) :
    creaseSharpnessSum out' (2 * P.E)
      = 2 * (∑ e ∈ Finset.range P.E, P.sharp (e : Int)) - 2 * (P.E : ℚ) := by
  have hlen : 2 * P.E ≤ out'.length := by rw [hr.2.1]; exact hr.1
  unfold creaseSharpnessSum
  rw [sum_take_map _ _ _ hlen, sum_range_pairs]
  have hterm : ∀ e ∈ Finset.range P.E,
      (out'.getD (2 * e) default).sharpness + (out'.getD (2 * e + 1) default).sharpness
        = (P.sharp (P.prev e) + 6 * P.sharp e + P.sharp (P.next e)) / 4 - 2 := by
    intro e he
    have he' : e < P.E := Finset.mem_range.mp he
    obtain ⟨s0, s1⟩ := hr.slots e he'
    obtain ⟨n0, n1⟩ := hnc e he'
    rw [List.getD_eq_getElem?_getD, List.getD_eq_getElem?_getD, s0, s1]
    simp only [Option.getD_some, creaseChild0, creaseChild1]
    rw [max_eq_right n0, max_eq_right n1]
    ring
  rw [Finset.sum_congr rfl hterm]
  have hnext : ∑ e ∈ Finset.range P.E, P.sharp (P.next e)
      = ∑ e ∈ Finset.range P.E, P.sharp (e : Int) := by
    refine Finset.sum_nbij' (fun e => (P.next e).toNat) (fun e => (P.prev e).toNat)
      ?_ ?_ ?_ ?_ ?_
    · intro e he
      have := hrange e (Finset.mem_range.mp he)
      exact Finset.mem_range.mpr (show (P.next (e : Int)).toNat < P.E by omega)
    · intro e he
      have := hrange e (Finset.mem_range.mp he)
      exact Finset.mem_range.mpr (show (P.prev (e : Int)).toNat < P.E by omega)
    · intro e he
      have h1 := hrange e (Finset.mem_range.mp he)
      have h2 := hbij e (Finset.mem_range.mp he)
      show (P.prev ((P.next e).toNat : Int)).toNat = e
      rw [Int.toNat_of_nonneg h1.1, h2.1]; rfl
    · intro e he
      have h1 := hrange e (Finset.mem_range.mp he)
      have h2 := hbij e (Finset.mem_range.mp he)
      show (P.next ((P.prev e).toNat : Int)).toNat = e
      rw [Int.toNat_of_nonneg h1.2.2.1, h2.2]; rfl
    · intro e he
      have h1 := hrange e (Finset.mem_range.mp he)
      show P.sharp (P.next e) = P.sharp ((P.next e).toNat : Int)
      rw [Int.toNat_of_nonneg h1.1]
  have hprev : ∑ e ∈ Finset.range P.E, P.sharp (P.prev e)
      = ∑ e ∈ Finset.range P.E, P.sharp (e : Int) := by
    refine Finset.sum_nbij' (fun e => (P.prev e).toNat) (fun e => (P.next e).toNat)
      ?_ ?_ ?_ ?_ ?_
    · intro e he
      have := hrange e (Finset.mem_range.mp he)
      exact Finset.mem_range.mpr (show (P.prev (e : Int)).toNat < P.E by omega)
    · intro e he
      have := hrange e (Finset.mem_range.mp he)
      exact Finset.mem_range.mpr (show (P.next (e : Int)).toNat < P.E by omega)
    · intro e he
      have h1 := hrange e (Finset.mem_range.mp he)
      have h2 := hbij e (Finset.mem_range.mp he)
      show (P.next ((P.prev e).toNat : Int)).toNat = e
      rw [Int.toNat_of_nonneg h1.2.2.1, h2.2]; rfl
    · intro e he
      have h1 := hrange e (Finset.mem_range.mp he)
      have h2 := hbij e (Finset.mem_range.mp he)
      show (P.prev ((P.next e).toNat : Int)).toNat = e
      rw [Int.toNat_of_nonneg h1.1, h2.1]; rfl
    · intro e he
      have h1 := hrange e (Finset.mem_range.mp he)
      show P.sharp (P.prev e) = P.sharp ((P.prev e).toNat : Int)
      rw [Int.toNat_of_nonneg h1.2.2.1]
  rw [Finset.sum_sub_distrib, ← Finset.sum_div, Finset.sum_add_distrib, Finset.sum_add_distrib,
    ← Finset.mul_sum, hnext, hprev]
  simp only [Finset.sum_const, Finset.card_range, nsmul_eq_mul]
  ring

theorem creaseParent_sum (creases : List cc_Crease) (E : Nat) (hE : E ≤ creases.length) :
    creaseSharpnessSum creases E
      = ∑ e ∈ Finset.range E, (creaseParent creases E).sharp (e : Int) := by
  unfold creaseSharpnessSum
  rw [sum_take_map _ _ _ hE]
  rfl

theorem creaseParent_bijection (creases : List cc_Crease) (E : Nat)
    (hw : ccs_CreaseLinksInBounds creases E) (hb : ccs_CreaseBijection creases E)
    (e : Nat) (he : e < E) :
    (creaseParent creases E).prev ((creaseParent creases E).next e) = e ∧
    (creaseParent creases E).next ((creaseParent creases E).prev e) = e := by
  have hE := hw.1
  obtain ⟨_, rn, rp⟩ := creaseParent_reads creases E hw e he
  have hlt : e < creases.length := by omega
  have hr : creases[e]? = some (creases.getD e default) := by
    simp [List.getD_eq_getElem?_getD, List.getElem?_eq_getElem hlt]
  obtain ⟨b1, b2⟩ := hb e he _ hr
  have rn' : readAt creases (creases.getD e default).nextID = _ := rn
  have rp' : readAt creases (creases.getD e default).prevID = _ := rp
  rw [rn', Option.map_some'] at b1
  rw [rp', Option.map_some'] at b2
  exact ⟨Option.some.inj b1, Option.some.inj b2⟩

theorem creaseParent_unclamped (creases : List cc_Crease) (E : Nat)
    (hw : ccs_CreaseLinksInBounds creases E) (hu : ccs_CreaseUnclamped creases E)
    (e : Nat) (he : e < E) :
    0 ≤ ((creaseParent creases E).sharp ((creaseParent creases E).prev e)
        + 3 * (creaseParent creases E).sharp e) / 4 - 1 ∧
    0 ≤ (3 * (creaseParent creases E).sharp e
        + (creaseParent creases E).sharp ((creaseParent creases E).next e)) / 4 - 1 := by
  have hE := hw.1
  obtain ⟨_, rn, rp⟩ := creaseParent_reads creases E hw e he
  have hlt : e < creases.length := by omega
  have hr : creases[e]? = some (creases.getD e default) := by
    simp [List.getD_eq_getElem?_getD, List.getElem?_eq_getElem hlt]
  have := hu e he _ hr _ rn _ rp
  simpa [creaseParent] using this

theorem creaseRefined_sharpness (creases : List cc_Crease) (E : Nat)
    (hw : ccs_CreaseLinksInBounds creases E) (out out' : List cc_Crease)
    (hr : CreaseRefined (creaseParent creases E) out out') :
    (ccs_CreaseBijection creases E → ccs_CreaseUnclamped creases E →
      creaseSharpnessSum out' (2 * E) = 2 * creaseSharpnessSum creases E - 2 * (E : ℚ) ∧
      (0 < E → creaseSharpnessSum out' (2 * E) / (2 * E : ℚ)
        = creaseSharpnessSum creases E / (E : ℚ) - 1)) ∧
    (∀ e : Nat, e < E → ∀ c ∈ creases[e]?,
      ∀ cn ∈ readAt creases c.nextID, ∀ cp ∈ readAt creases c.prevID,
        cn.sharpness = c.sharpness → cp.sharpness = c.sharpness →
        (out'[2 * e]?).map (fun x => x.sharpness) = some (max 0 (c.sharpness - 1)) ∧
        (out'[2 * e + 1]?).map (fun x => x.sharpness) = some (max 0 (c.sharpness - 1))) := by
  constructor
  · intro hb hu
    have hs := hr.sharpness_sum
      (fun e he => creaseParent_range creases E hw e (by omega) (by exact_mod_cast he))
      (creaseParent_bijection creases E hw hb) (creaseParent_unclamped creases E hw hu)
    have hs' : creaseSharpnessSum out' (2 * E)
        = 2 * creaseSharpnessSum creases E - 2 * (E : ℚ) := by
      rw [creaseParent_sum creases E hw.1]; exact hs
    refine ⟨hs', fun hE => ?_⟩
    have hne : (E : ℚ) ≠ 0 := by exact_mod_cast (Nat.pos_iff_ne_zero.mp hE)
    rw [hs']
    field_simp
    ring
  · intro e he c hc cn hcn cp hcp h1 h2
    obtain ⟨re, rn, rp⟩ := creaseParent_reads creases E hw e he
    have hc' : readAt creases (e : Int) = some c := by rw [readAt_natCast]; exact hc
    rw [re] at hc'
    have hceq : creases.getD e default = c := Option.some.inj hc'
    subst hceq
    have hcn' : readAt creases ((creaseParent creases E).next e) = some cn := hcn
    have hcp' : readAt creases ((creaseParent creases E).prev e) = some cp := hcp
    rw [rn] at hcn'
    rw [rp] at hcp'
    have en : (creaseParent creases E).sharp ((creaseParent creases E).next e) = cn.sharpness :=
      congrArg (fun x => x.sharpness) (Option.some.inj hcn')
    have ep : (creaseParent creases E).sharp ((creaseParent creases E).prev e) = cp.sharpness :=
      congrArg (fun x => x.sharpness) (Option.some.inj hcp')
    have ee : (creaseParent creases E).sharp e = (creases.getD e default).sharpness := by
      simp [creaseParent]
    obtain ⟨s0, s1⟩ := hr.slots e he
    rw [s0, s1]
    simp only [Option.map_some', creaseChild0, creaseChild1, en, ep, ee, h1, h2]
    constructor
    · congr 2; ring
    · congr 2; ring

/-- A cage with four edges whose creases form one cycle, of sharpness 2, 2, 2
and 3, and no halfedge. -/
def creaseRing : cc_Mesh :=
  { vertexCount := 0, edgeCount := 4, faceCount := 0, halfedges := [],
    creases := [⟨1, 3, 2⟩, ⟨2, 0, 2⟩, ⟨3, 1, 2⟩, ⟨0, 2, 3⟩] }

/-- C10: on parent creases whose links stay in `[0, E)`, `ccs__RefineCageCreases`
(first part, `E = E0`) and `ccs__RefineCreases` (second part, `E` the crease
count of the level) return, and when `creaseNext` is a bijection of `[0, E)`
with `creasePrev` its inverse and no child value is clamped by `max(0, .)`, the
sum of the `2E` child sharpnesses is `2 * (sum of the E parent sharpnesses) - 2E`
and, for `E > 0`, the mean child sharpness is the mean parent sharpness minus 1;
moreover (with or without these two conditions) an edge whose two neighbours
have its own sharpness `S` gets two children of sharpness `max(0, S - 1)`. -/
theorem C10_sharpness_decrement :
    (∀ (subd : cc_Subd) (out : List cc_Crease),
      subd.creases[0]? = some out →
      2 * ccm_EdgeCount subd.cage ≤ out.length →
      ccs_CreaseLinksInBounds subd.cage.creases (ccm_EdgeCount subd.cage) →
      ∃ out', ccs__RefineCageCreases subd =
          some { subd with creases := subd.creases.set 0 out' } ∧
        (ccs_CreaseBijection subd.cage.creases (ccm_EdgeCount subd.cage) →
          ccs_CreaseUnclamped subd.cage.creases (ccm_EdgeCount subd.cage) →
          creaseSharpnessSum out' (2 * ccm_EdgeCount subd.cage)
            = 2 * creaseSharpnessSum subd.cage.creases (ccm_EdgeCount subd.cage)
              - 2 * (ccm_EdgeCount subd.cage : ℚ) ∧
          (0 < ccm_EdgeCount subd.cage →
            creaseSharpnessSum out' (2 * ccm_EdgeCount subd.cage)
                / (2 * ccm_EdgeCount subd.cage : ℚ)
              = creaseSharpnessSum subd.cage.creases (ccm_EdgeCount subd.cage)
                / (ccm_EdgeCount subd.cage : ℚ) - 1)) ∧
        (∀ e : Nat, e < ccm_EdgeCount subd.cage → ∀ c ∈ subd.cage.creases[e]?,
          ∀ cn ∈ readAt subd.cage.creases c.nextID, ∀ cp ∈ readAt subd.cage.creases c.prevID,
            cn.sharpness = c.sharpness → cp.sharpness = c.sharpness →
            (out'[2 * e]?).map (fun x => x.sharpness) = some (max 0 (c.sharpness - 1)) ∧
            (out'[2 * e + 1]?).map (fun x => x.sharpness)
              = some (max 0 (c.sharpness - 1)))) ∧
    (∀ (subd : cc_Subd) (depth : Nat) (creasesIn out : List cc_Crease),
      ccs__Level subd.creases depth = some creasesIn →
      ccs__Level subd.creases (depth + 1) = some out →
      2 * ccm_CreaseCountAtDepth subd.cage depth ≤ out.length →
      ccs_CreaseLinksInBounds creasesIn (ccm_CreaseCountAtDepth subd.cage depth) →
      ∃ out', ccs__RefineCreases subd depth =
          some { subd with creases := subd.creases.set depth out' } ∧
        (ccs_CreaseBijection creasesIn (ccm_CreaseCountAtDepth subd.cage depth) →
          ccs_CreaseUnclamped creasesIn (ccm_CreaseCountAtDepth subd.cage depth) →
          creaseSharpnessSum out' (2 * ccm_CreaseCountAtDepth subd.cage depth)
            = 2 * creaseSharpnessSum creasesIn (ccm_CreaseCountAtDepth subd.cage depth)
              - 2 * (ccm_CreaseCountAtDepth subd.cage depth : ℚ) ∧
          (0 < ccm_CreaseCountAtDepth subd.cage depth →
            creaseSharpnessSum out' (2 * ccm_CreaseCountAtDepth subd.cage depth)
                / (2 * ccm_CreaseCountAtDepth subd.cage depth : ℚ)
              = creaseSharpnessSum creasesIn (ccm_CreaseCountAtDepth subd.cage depth)
                / (ccm_CreaseCountAtDepth subd.cage depth : ℚ) - 1)) ∧
        (∀ e : Nat, e < ccm_CreaseCountAtDepth subd.cage depth → ∀ c ∈ creasesIn[e]?,
          ∀ cn ∈ readAt creasesIn c.nextID, ∀ cp ∈ readAt creasesIn c.prevID,
            cn.sharpness = c.sharpness → cp.sharpness = c.sharpness →
            (out'[2 * e]?).map (fun x => x.sharpness) = some (max 0 (c.sharpness - 1)) ∧
            (out'[2 * e + 1]?).map (fun x => x.sharpness)
              = some (max 0 (c.sharpness - 1)))) := by
  constructor
  · intro subd out hout hlen hw
    obtain ⟨o, e1, e2⟩ := cage_crease_kernel_spec subd out hout hw hlen
    exact ⟨o, e1, creaseRefined_sharpness _ _ hw out o e2⟩
  · intro subd depth creasesIn out hin hout hlen hw
    obtain ⟨o, e1, e2⟩ := level_crease_kernel_spec subd depth creasesIn out hin hout hw hlen
    exact ⟨o, e1, creaseRefined_sharpness _ _ hw out o e2⟩

/-- C10, witness: on `creaseRing` (cage kernel) the parent sharpnesses sum to 9
and the eight child sharpnesses to `2 * 9 - 8 = 10`, and the edge 1, whose
neighbours 0 and 2 have its sharpness 2, gets two children of sharpness 1; on
level 1 of `creaseSubd` (level kernel) the parent sharpnesses sum to 6 and the
eight child sharpnesses to `2 * 6 - 8 = 4`. -/
theorem C10_sharpness_decrement_witness :
    (ccs_CreaseBijection creaseRing.creases 4 ∧ ccs_CreaseUnclamped creaseRing.creases 4 ∧
      creaseSharpnessSum creaseRing.creases 4 = 9 ∧
      ∃ out', ccs__RefineCageCreases
        { cage := creaseRing, maxDepth := 1, halfedges := [],
          creases := [List.replicate 8 ⟨0, 0, 0⟩] } =
          some { cage := creaseRing, maxDepth := 1, halfedges := [], creases := [out'] } ∧
        creaseSharpnessSum out' 8 = 10 ∧
        (out'[2]?).map (fun x => x.sharpness) = some 1 ∧
        (out'[3]?).map (fun x => x.sharpness) = some 1) ∧
    (ccs_CreaseBijection [⟨1, 3, 5 / 4⟩, ⟨2, 0, 5 / 4⟩, ⟨3, 1, 7 / 4⟩, ⟨0, 2, 7 / 4⟩] 4 ∧
      ccs_CreaseUnclamped [⟨1, 3, 5 / 4⟩, ⟨2, 0, 5 / 4⟩, ⟨3, 1, 7 / 4⟩, ⟨0, 2, 7 / 4⟩] 4 ∧
      creaseSharpnessSum [⟨1, 3, 5 / 4⟩, ⟨2, 0, 5 / 4⟩, ⟨3, 1, 7 / 4⟩, ⟨0, 2, 7 / 4⟩] 4 = 6 ∧
      ∃ out', ccs__RefineCreases creaseSubd 1 =
          some { creaseSubd with creases := creaseSubd.creases.set 1 out' } ∧
        creaseSharpnessSum out' 8 = 4) := by
  have hb1 : ccs_CreaseBijection creaseRing.creases 4 := by decide
  have hu1 : ccs_CreaseUnclamped creaseRing.creases 4 := by
    intro e he c hc cn hcn cp hcp
    interval_cases e <;> simp [creaseRing] at hc <;> subst hc <;>
      simp [readAt, creaseRing] at hcn hcp <;> subst hcn <;> subst hcp <;> norm_num
  have hs1 : creaseSharpnessSum creaseRing.creases 4 = 9 := by
    norm_num [creaseSharpnessSum, creaseRing]
  have hb2 :
      ccs_CreaseBijection [⟨1, 3, 5 / 4⟩, ⟨2, 0, 5 / 4⟩, ⟨3, 1, 7 / 4⟩, ⟨0, 2, 7 / 4⟩] 4 := by
    decide
  have hu2 :
      ccs_CreaseUnclamped [⟨1, 3, 5 / 4⟩, ⟨2, 0, 5 / 4⟩, ⟨3, 1, 7 / 4⟩, ⟨0, 2, 7 / 4⟩] 4 := by
    intro e he c hc cn hcn cp hcp
    interval_cases e <;> simp at hc <;> subst hc <;>
      simp [readAt] at hcn hcp <;> subst hcn <;> subst hcp <;> norm_num
  have hs2 :
      creaseSharpnessSum [⟨1, 3, 5 / 4⟩, ⟨2, 0, 5 / 4⟩, ⟨3, 1, 7 / 4⟩, ⟨0, 2, 7 / 4⟩] 4 = 6 := by
    norm_num [creaseSharpnessSum]
  refine ⟨⟨hb1, hu1, hs1, ?_⟩, ⟨hb2, hu2, hs2, ?_⟩⟩
  · obtain ⟨out', h1, h2, h3⟩ := C10_sharpness_decrement.1
      { cage := creaseRing, maxDepth := 1, halfedges := [],
        creases := [List.replicate 8 ⟨0, 0, 0⟩] }
      (List.replicate 8 ⟨0, 0, 0⟩) rfl (by decide) (by decide)
    have h4 := (h2 hb1 hu1).1
    have h5 := h3 1 (by decide) ⟨2, 0, 2⟩ rfl ⟨3, 1, 2⟩ rfl ⟨1, 3, 2⟩ rfl rfl rfl
    refine ⟨out', h1, ?_, ?_, ?_⟩
    · have h4' : creaseSharpnessSum out' 8
          = 2 * creaseSharpnessSum creaseRing.creases 4 - 2 * ((4 : Nat) : ℚ) := h4
      rw [h4', hs1]; norm_num
    · have h6 : (out'[2]?).map (fun x => x.sharpness) = some (max 0 ((2 : ℚ) - 1)) := h5.1
      rw [h6]; norm_num
    · have h7 : (out'[3]?).map (fun x => x.sharpness) = some (max 0 ((2 : ℚ) - 1)) := h5.2
      rw [h7]; norm_num
  · obtain ⟨out', h1, h2, _⟩ := C10_sharpness_decrement.2 creaseSubd 1
      [⟨1, 3, 5 / 4⟩, ⟨2, 0, 5 / 4⟩, ⟨3, 1, 7 / 4⟩, ⟨0, 2, 7 / 4⟩] (List.replicate 8 ⟨0, 0, 0⟩)
      rfl rfl (by decide) (by decide)
    have h4 := (h2 hb2 hu2).1
    refine ⟨out', h1, ?_⟩
    have h4' : creaseSharpnessSum out' 8
        = 2 * creaseSharpnessSum [⟨1, 3, 5 / 4⟩, ⟨2, 0, 5 / 4⟩, ⟨3, 1, 7 / 4⟩, ⟨0, 2, 7 / 4⟩] 4
          - 2 * ((4 : Nat) : ℚ) := h4
    rw [h4', hs2]; norm_num

/-! ## C11: the crease records of a level -/

/-- The open quad with one crease record per edge; every crease is its own
successor and predecessor, and the sharpnesses are 0, 1, 2 and 3. -/
def creasedQuad : cc_Mesh :=
  { vertexCount := 4, edgeCount := 4, faceCount := 1,
    creases := [⟨0, 0, 0⟩, ⟨1, 1, 1⟩, ⟨2, 2, 2⟩, ⟨3, 3, 3⟩],
    halfedges := [⟨-1, 1, 3, 0, 0, 0, 0⟩, ⟨-1, 2, 0, 0, 1, 1, 0⟩, ⟨-1, 3, 1, 0, 2, 2, 0⟩,
      ⟨-1, 0, 2, 0, 3, 3, 0⟩] }

/-- The records the crease kernels write: the slots `[0, 2E)` hold a record of
sharpness at least 0 whose links are in `[0, 2E)`, and the slots from `2E` on
hold what they held before. -/
def ccs_CreasesWritten (E : Nat) (out out' : List cc_Crease) : Prop :=
  out'.length = out.length ∧
  (∀ j : Nat, j < 2 * E → ∃ c, out'[j]? = some c ∧ 0 ≤ c.sharpness ∧
    0 ≤ c.nextID ∧ c.nextID < (2 * E : Nat) ∧ 0 ≤ c.prevID ∧ c.prevID < (2 * E : Nat)) ∧
  (∀ j : Nat, 2 * E ≤ j → out'[j]? = out[j]?)

theorem creaseRefined_written (creases : List cc_Crease) (E : Nat)
    (hw : ccs_CreaseLinksInBounds creases E) (out out' : List cc_Crease)
    (hr : CreaseRefined (creaseParent creases E) out out') :
    ccs_CreasesWritten E out out' := by
  refine ⟨hr.2.1, ?_, fun j hj => hr.untouched j hj⟩
  intro j hj
  have he : j / 2 < E := by omega
  obtain ⟨s0, s1⟩ := hr.slots (j / 2) he
  obtain ⟨n0, n1, p0, p1⟩ := creaseParent_range creases E hw (j / 2 : Nat) (by omega)
    (by exact_mod_cast he)
  have hE : (creaseParent creases E).E = E := rfl
  rcases Nat.mod_two_eq_zero_or_one j with hj2 | hj2
  · have hj' : 2 * (j / 2) = j := by omega
    rw [hj'] at s0
    refine ⟨_, s0, le_max_left _ _, ?_, ?_, ?_, ?_⟩ <;>
      simp only [creaseChild0] <;>
      first | (split_ifs <;> omega) | omega
  · have hj' : 2 * (j / 2) + 1 = j := by omega
    rw [hj'] at s1
    refine ⟨_, s1, le_max_left _ _, ?_, ?_, ?_, ?_⟩ <;>
      simp only [creaseChild1] <;>
      first | (split_ifs <;> omega) | omega

/-- C11 (as amended): on parent creases whose links stay in `[0, E)`,
`ccs__RefineCageCreases` (first part, `E = E0`) and `ccs__RefineCreases` (second
part, `E` the crease count of level `depth`) return and write exactly the `2E`
records of the slots `[0, 2E)` of the next level, two per parent crease: each of
them has a sharpness at least 0 and links in `[0, 2E)`, and every slot from `2E`
on holds what it held before.  The next level has `2 * E_l + H_l` edges (third
part), so the records of its last `H_l` edges are not written. -/
theorem C11_crease_records :
    (∀ (subd : cc_Subd) (out : List cc_Crease),
      subd.creases[0]? = some out →
      2 * ccm_EdgeCount subd.cage ≤ out.length →
      ccs_CreaseLinksInBounds subd.cage.creases (ccm_EdgeCount subd.cage) →
      ∃ out', ccs__RefineCageCreases subd =
          some { subd with creases := subd.creases.set 0 out' } ∧
        ccs_CreasesWritten (ccm_EdgeCount subd.cage) out out') ∧
    (∀ (subd : cc_Subd) (depth : Nat) (creasesIn out : List cc_Crease),
      ccs__Level subd.creases depth = some creasesIn →
      ccs__Level subd.creases (depth + 1) = some out →
      2 * ccm_CreaseCountAtDepth subd.cage depth ≤ out.length →
      ccs_CreaseLinksInBounds creasesIn (ccm_CreaseCountAtDepth subd.cage depth) →
      ∃ out', ccs__RefineCreases subd depth =
          some { subd with creases := subd.creases.set depth out' } ∧
        ccs_CreasesWritten (ccm_CreaseCountAtDepth subd.cage depth) out out') ∧
    (∀ (cage : cc_Mesh) (depth : Nat),
      ccm_EdgeCountAtDepth_Fast cage (depth + 1) =
        2 * ccm_EdgeCountAtDepth_Fast cage depth + ccm_HalfedgeCountAtDepth cage depth ∧
      ccm_CreaseCountAtDepth cage depth = ccm_EdgeCountAtDepth_Fast cage depth) := by
  refine ⟨?_, ?_, fun _ _ => ⟨rfl, rfl⟩⟩
  · intro subd out hout hlen hw
    obtain ⟨o, e1, e2⟩ := cage_crease_kernel_spec subd out hout hw hlen
    exact ⟨o, e1, creaseRefined_written _ _ hw out o e2⟩
  · intro subd depth creasesIn out hin hout hlen hw
    obtain ⟨o, e1, e2⟩ := level_crease_kernel_spec subd depth creasesIn out hin hout hw hlen
    exact ⟨o, e1, creaseRefined_written _ _ hw out o e2⟩

/-- C11, witness: the two creases of `creaseCage` (cage kernel) and level 1 of
`creaseSubd` (level kernel). -/
theorem C11_crease_records_witness :
    (∃ out', ccs__RefineCageCreases
        { cage := creaseCage, maxDepth := 1, halfedges := [],
          creases := [List.replicate 4 ⟨0, 0, 0⟩] } =
          some { cage := creaseCage, maxDepth := 1, halfedges := [], creases := [out'] } ∧
        ccs_CreasesWritten 2 (List.replicate 4 ⟨0, 0, 0⟩) out') ∧
    (∃ out', ccs__RefineCreases creaseSubd 1 =
          some { creaseSubd with creases := creaseSubd.creases.set 1 out' } ∧
        ccs_CreasesWritten 4 (List.replicate 8 ⟨0, 0, 0⟩) out') :=
  ⟨C11_crease_records.1
      { cage := creaseCage, maxDepth := 1, halfedges := [],
        creases := [List.replicate 4 ⟨0, 0, 0⟩] }
      (List.replicate 4 ⟨0, 0, 0⟩) rfl (by decide) (by decide),
    C11_crease_records.2.1 creaseSubd 1
      [⟨1, 3, 5 / 4⟩, ⟨2, 0, 5 / 4⟩, ⟨3, 1, 7 / 4⟩, ⟨0, 2, 7 / 4⟩] (List.replicate 8 ⟨0, 0, 0⟩)
      rfl rfl (by decide) (by decide)⟩

/-- C11, counterexample: the open quad has `E0 = 4` edges and `H0 = 4`
halfedges, so level 1 has `E_1 = 2 * 4 + 4 = 12` edges.  On a level 1 region of
12 records that all hold `(-7, -7, -1)`, `ccs_RefineCreases` writes the 8
records of the slots `0 .. 7`; the records of the edges `8 .. 11` still hold
`(-7, -7, -1)`, of sharpness `-1`: they are not written. -/
theorem C11_counterexample :
    ccm_EdgeCountAtDepth_Fast creasedQuad 1 = 12 ∧
    ∃ out', ccs_RefineCreases
        { cage := creasedQuad, maxDepth := 1, halfedges := [],
          creases := [List.replicate 12 ⟨-7, -7, -1⟩] } =
          some { cage := creasedQuad, maxDepth := 1, halfedges := [], creases := [out'] } ∧
      (∀ j : Nat, j < 8 → ∃ c, out'[j]? = some c ∧ 0 ≤ c.sharpness) ∧
      (∀ j : Nat, 8 ≤ j → j < 12 → out'[j]? = some ⟨-7, -7, -1⟩) := by
  refine ⟨by decide, ?_⟩
  obtain ⟨o, e1, e2⟩ := cage_crease_kernel_spec
    { cage := creasedQuad, maxDepth := 1, halfedges := [],
      creases := [List.replicate 12 ⟨-7, -7, -1⟩] }
    (List.replicate 12 ⟨-7, -7, -1⟩) rfl (by decide) (by decide)
  have hw : ccs_CreaseLinksInBounds creasedQuad.creases 4 := by decide
  obtain ⟨_, w1, w2⟩ := creaseRefined_written _ _ hw _ o e2
  refine ⟨o, ?_, ?_, ?_⟩
  · unfold ccs_RefineCreases
    rw [e1]
    rfl
  · intro j hj
    obtain ⟨c, c1, c2, _⟩ := w1 j hj
    exact ⟨c, c1, c2⟩
  · intro j hj hj'
    rw [w2 j hj]
    interval_cases j <;> rfl

/-! ## Vertex points: arithmetic, accessors and loops -/

/-- Modelled from the spec: `cc__Add3f` of the header, the sum of two points. -/
def cc__Add3f (x y : cc_VertexPoint) : cc_VertexPoint := x + y

/-- Modelled from the spec: `cc__Mul3f` of the header, the product of a point by
a number. -/
def cc__Mul3f (x : cc_VertexPoint) (s : ℚ) : cc_VertexPoint := s • x

/-- Modelled from the spec: `cc__Lerp3f` of the header, the linear interpolation
`x + u (y - x)` between `x` (for `u = 0`) and `y` (for `u = 1`) (section 4.5:
"linear interpolation between `smooth` and `sharp` by `saturate(sharpness(e))`
(0 ⇒ smooth, ≥1 ⇒ sharp)"). -/
def cc__Lerp3f (x y : cc_VertexPoint) (u : ℚ) : cc_VertexPoint := x + u • (y - x)

/-- Modelled from the spec: `cc__Satf` of the header, `saturate`: the clamp to
`[0, 1]` (section 4.5, section 9). -/
def cc__Satf (x : ℚ) : ℚ := max 0 (min 1 x)

/-- Modelled from the spec: `cc__Signf` of the header, the sign `-1`, `0` or `1`
(section 9: "`sign(·) ∈ {0,1}` for non-negative sharpness"). -/
def cc__Signf (x : ℚ) : ℚ := if x < 0 then -1 else if x > 0 then 1 else 0

/-- Modelled from the spec: `cc__Max` of the header, the maximum of two integers. -/
def cc__Max (a b : Int) : Int := max a b

/-- Modelled from the spec: `ccm_VertexToHalfedgeID` of the header reads the array
`vertexToHalfedgeIDs` of the cage (section 6). -/
def ccm_VertexToHalfedgeID (cage : cc_Mesh) (vertexID : Int) : Option Int :=
  readAt cage.vertexToHalfedgeIDs vertexID

/-- Modelled from the spec: `ccm_EdgeToHalfedgeID` of the header reads the array
`edgeToHalfedgeIDs` of the cage (section 6). -/
def ccm_EdgeToHalfedgeID (cage : cc_Mesh) (edgeID : Int) : Option Int :=
  readAt cage.edgeToHalfedgeIDs edgeID

/-- Modelled from the spec: `ccm_FaceToHalfedgeID` of the header reads the array
`faceToHalfedgeIDs` of the cage (section 6). -/
def ccm_FaceToHalfedgeID (cage : cc_Mesh) (faceID : Int) : Option Int :=
  readAt cage.faceToHalfedgeIDs faceID

/-- Modelled from the spec: `ccm_VertexPoint` of the header reads the array
`vertexPoints` of the cage (section 6). -/
def ccm_VertexPoint (cage : cc_Mesh) (vertexID : Int) : Option cc_VertexPoint :=
  readAt cage.vertexPoints vertexID

/-- Modelled from the spec: `ccm_HalfedgeVertexPoint` of the header, the position
of the vertex of a cage halfedge (section 4.5: `position(vertex(h))`). -/
def ccm_HalfedgeVertexPoint (cage : cc_Mesh) (halfedgeID : Int) : Option cc_VertexPoint :=
  (ccm_HalfedgeVertexID cage halfedgeID).bind (ccm_VertexPoint cage)

/-- Modelled from the spec: `ccm_PrevVertexHalfedgeID` of the header, the rotation
around the vertex of a halfedge (section 4.5: "rotate via `prevVertexHalfedge`");
it is the twin of the predecessor, the step the creased kernels of the source
take in their own text (`forwardIterator = ccm_HalfedgeTwinID(cage, prevID)`). -/
def ccm_PrevVertexHalfedgeID (cage : cc_Mesh) (halfedgeID : Int) : Option Int :=
  (ccm_HalfedgePrevID cage halfedgeID).bind (ccm_HalfedgeTwinID cage)

/-- Modelled from the spec: `ccm_HalfedgeSharpness` of the header, the sharpness
of the crease of the edge of a cage halfedge (section 4.5: "sharpness of incident
halfedges"). -/
def ccm_HalfedgeSharpness (cage : cc_Mesh) (halfedgeID : Int) : Option ℚ :=
  (ccm_HalfedgeEdgeID cage halfedgeID).bind (ccm_CreaseSharpness cage)

/-- Modelled from the spec: `ccs_VertexPoint` of the header reads the region of
level `depth` of the vertex point buffer. -/
def ccs_VertexPoint (subd : cc_Subd) (vertexID : Int) (depth : Nat) : Option cc_VertexPoint := do
  let level ← ccs__Level subd.vertexPoints depth
  readAt level vertexID

/-- Modelled from the spec: `ccs_HalfedgeVertexPoint` of the header, the position
of the vertex of a halfedge of level `depth`. -/
def ccs_HalfedgeVertexPoint (subd : cc_Subd) (halfedgeID : Int) (depth : Nat) :
    Option cc_VertexPoint :=
  (ccs_HalfedgeVertexID subd halfedgeID depth).bind (fun v => ccs_VertexPoint subd v depth)

/-- Modelled from the spec: `ccs_HalfedgeNextID` of the header, the quad form of
`next` (section 4.1: "for ℓ≥1, face and next/prev are the pure-arithmetic quad
relations"). -/
def ccs_HalfedgeNextID (_subd : cc_Subd) (halfedgeID : Int) (_depth : Nat) : Int :=
  ccm_HalfedgeNextID_Quad halfedgeID

/-- Modelled from the spec: `ccs_HalfedgePrevID` of the header, the quad form of
`prev` (section 4.1). -/
def ccs_HalfedgePrevID (_subd : cc_Subd) (halfedgeID : Int) (_depth : Nat) : Int :=
  ccm_HalfedgePrevID_Quad halfedgeID

/-- Modelled from the spec: `ccs_HalfedgeFaceID` of the header, the quad form of
`face` (section 4.1). -/
def ccs_HalfedgeFaceID (_subd : cc_Subd) (halfedgeID : Int) (_depth : Nat) : Int :=
  ccm_HalfedgeFaceID_Quad halfedgeID

/-- Modelled from the spec: `ccs_FaceToHalfedgeID` of the header, the first
halfedge `4f` of the quad `f` (section 3). -/
def ccs_FaceToHalfedgeID (_subd : cc_Subd) (faceID : Int) (_depth : Nat) : Int :=
  ccm_FaceToHalfedgeID_Quad faceID

/-- Modelled from the spec: `ccs_PrevVertexHalfedgeID` of the header, the rotation
around the vertex of a halfedge of level `depth`: the twin of the predecessor. -/
def ccs_PrevVertexHalfedgeID (subd : cc_Subd) (halfedgeID : Int) (depth : Nat) : Option Int :=
  ccs_HalfedgeTwinID subd (ccs_HalfedgePrevID subd halfedgeID depth) depth

/-- Modelled from the spec: `ccs_CreaseSharpness` of the header reads the crease
record of the edge at level `depth` (section 3: "each edge has exactly one crease
record"). -/
def ccs_CreaseSharpness (subd : cc_Subd) (edgeID : Int) (depth : Nat) : Option ℚ := do
  let level ← ccs__Level subd.creases depth
  (readAt level edgeID).map (fun c => c.sharpness)

/-- Modelled from the spec: `ccs_HalfedgeSharpness` of the header, the sharpness
of the crease of the edge of a halfedge of level `depth`. -/
def ccs_HalfedgeSharpness (subd : cc_Subd) (halfedgeID : Int) (depth : Nat) : Option ℚ :=
  (ccs_HalfedgeEdgeID subd halfedgeID depth).bind (fun e => ccs_CreaseSharpness subd e depth)

/-- A loop `for (it = start; cont(it); it = ...) { ... }` of the source, run for
at most `fuel` iterations: `body it s` is the effect of one iteration (the body
and the increment) on the iterator and on the local variables `s`.  The result
is the iterator and the local variables at the exit of the loop, or `none` when
`fuel` iterations do not reach the exit or when an iteration reads outside of an
array. -/
def forLoop {σ : Type} (cont : Int → Bool) (body : Int → σ → Option (Int × σ)) :
    Nat → Int → σ → Option (Int × σ)
  | fuel, it, s =>
    if cont it then
      match fuel with
      | 0 => none
      | fuel + 1 => (body it s).bind (fun r => forLoop cont body fuel r.1 r.2)
    else some (it, s)

/-- The values the iterator of a loop `for (it = start; cont(it); it = step(it))`
takes inside of the loop, in order, and its value at the exit; `none` when
`fuel` iterations do not reach the exit. -/
def ringWalk (step : Int → Option Int) (cont : Int → Bool) :
    Nat → Int → Option (List Int × Int)
  | fuel, it =>
    if cont it then
      match fuel with
      | 0 => none
      | fuel + 1 =>
        (step it).bind (fun nxt =>
          (ringWalk step cont fuel nxt).map (fun r => (it :: r.1, r.2)))
    else some ([], it)

theorem forLoop_succ {σ : Type} (cont : Int → Bool) (body : Int → σ → Option (Int × σ))
    (fuel : Nat) (it : Int) (s : σ) :
    forLoop cont body (fuel + 1) it s =
      if cont it then (body it s).bind (fun r => forLoop cont body fuel r.1 r.2)
      else some (it, s) := by
  rw [forLoop.eq_def]

theorem forLoop_exit {σ : Type} (cont : Int → Bool) (body : Int → σ → Option (Int × σ))
    (fuel : Nat) (it : Int) (s : σ) (h : cont it = false) :
    forLoop cont body fuel it s = some (it, s) := by
  rw [forLoop.eq_def]
  simp [h]

theorem forLoop_of_ringWalk {σ : Type} (step : Int → Option Int) (cont : Int → Bool)
    (body : Int → σ → Option (Int × σ)) (upd : Int → σ → σ) :
    ∀ (fuel : Nat) (it : Int) (ring : List Int) (last : Int) (s : σ),
      ringWalk step cont fuel it = some (ring, last) →
      (∀ h ∈ ring, ∀ (nxt : Int) (s' : σ), step h = some nxt →
        body h s' = some (nxt, upd h s')) →
      forLoop cont body fuel it s = some (last, ring.foldl (fun s' h => upd h s') s) := by
  intro fuel
  induction fuel with
  | zero =>
    intro it ring last s hw _
    unfold ringWalk at hw
    unfold forLoop
    by_cases c : cont it = true
    · simp [c] at hw
    · simp only [c, if_false, Option.some.injEq, Prod.mk.injEq] at hw ⊢
      obtain ⟨rfl, rfl⟩ := hw
      simp
  | succ n ih =>
    intro it ring last s hw hb
    unfold ringWalk at hw
    unfold forLoop
    by_cases c : cont it = true
    · simp only [c, if_true] at hw ⊢
      cases hs : step it with
      | none => simp [hs] at hw
      | some nxt =>
        simp only [hs, Option.some_bind] at hw
        cases hr : ringWalk step cont n nxt with
        | none => simp [hr] at hw
        | some r =>
          obtain ⟨rest, l⟩ := r
          simp only [hr, Option.map_some', Option.some.injEq, Prod.mk.injEq] at hw
          obtain ⟨rfl, rfl⟩ := hw
          rw [hb it (List.mem_cons_self _ _) nxt s hs]
          simp only [Option.some_bind, List.foldl_cons]
          exact ih nxt rest l (upd it s) hr
            (fun h hh nx s' hst => hb h (List.mem_cons_of_mem _ hh) nx s' hst)
    · simp only [c, if_false, Option.some.injEq, Prod.mk.injEq] at hw ⊢
      obtain ⟨rfl, rfl⟩ := hw
      simp

theorem ringWalk_mem (step : Int → Option Int) (cont : Int → Bool) :
    ∀ (fuel : Nat) (it : Int) (ring : List Int) (last : Int),
      ringWalk step cont fuel it = some (ring, last) →
      (∀ h ∈ ring, cont h = true ∧ ∃ nxt, step h = some nxt) ∧ cont last = false := by
  intro fuel
  induction fuel with
  | zero =>
    intro it ring last hw
    unfold ringWalk at hw
    by_cases c : cont it = true
    · simp [c] at hw
    · simp only [c, if_false, Option.some.injEq, Prod.mk.injEq] at hw
      obtain ⟨rfl, rfl⟩ := hw
      simpa using c
  | succ n ih =>
    intro it ring last hw
    unfold ringWalk at hw
    by_cases c : cont it = true
    · simp only [c, if_true] at hw
      cases hs : step it with
      | none => simp [hs] at hw
      | some nxt =>
        simp only [hs, Option.some_bind] at hw
        cases hr : ringWalk step cont n nxt with
        | none => simp [hr] at hw
        | some r =>
          obtain ⟨rest, l⟩ := r
          simp only [hr, Option.map_some', Option.some.injEq, Prod.mk.injEq] at hw
          obtain ⟨rfl, rfl⟩ := hw
          obtain ⟨a, b⟩ := ih nxt rest l hr
          refine ⟨?_, b⟩
          intro h hh
          rcases List.mem_cons.mp hh with rfl | hh
          · exact ⟨c, nxt, hs⟩
          · exact a h hh
    · simp only [c, if_false, Option.some.injEq, Prod.mk.injEq] at hw
      obtain ⟨rfl, rfl⟩ := hw
      simpa using c

/-- The loop of a gather kernel over its `n` outputs: the iteration `i` computes
its value from the buffer and writes it in the slot `base + i`. -/
theorem gather_foldlM {α : Type} (n base : Nat) (ib : Int) (hib : ib = (base : Int))
    (body : List α → Nat → Option α)
    (val : Nat → α) (out : List α) (hlen : base + n ≤ out.length)
    (hbody : ∀ (o : List α) (i : Nat), i < n → o.length = out.length →
      (∀ j : Nat, (j < base ∨ base + n ≤ j) → o[j]? = out[j]?) → body o i = some (val i)) :
    ∃ out', (List.range n).foldlM
        (fun o (i : Nat) => (body o i).bind
          (fun v => writeAt o (ib + (i : Int)) (fun _ => v))) out = some out' ∧
      out'.length = out.length ∧
      (∀ i : Nat, i < n → out'[base + i]? = some (val i)) ∧
      (∀ j : Nat, (j < base ∨ base + n ≤ j) → out'[j]? = out[j]?) := by
  subst hib
  have key : ∀ m, m ≤ n → ∃ out', (List.range m).foldlM
        (fun o (i : Nat) => (body o i).bind
          (fun v => writeAt o ((base : Int) + (i : Int)) (fun _ => v))) out = some out' ∧
      out'.length = out.length ∧
      (∀ i : Nat, i < m → out'[base + i]? = some (val i)) ∧
      (∀ j : Nat, (j < base ∨ base + m ≤ j) → out'[j]? = out[j]?) := by
    intro m
    induction m with
    | zero =>
      intro _
      exact ⟨out, by simp, rfl, fun i hi => absurd hi (Nat.not_lt_zero _), fun _ _ => rfl⟩
    | succ m ih =>
      intro hm
      obtain ⟨o1, h1, l1, g1, f1⟩ := ih (by omega)
      have hb := hbody o1 m (by omega) l1 (fun j hj => f1 j (by omega))
      have hc : ((base : Int) + (m : Int)) = ((base + m : Nat) : Int) := by push_cast; rfl
      have hw : writeAt o1 ((base : Int) + (m : Int)) (fun _ => val m)
          = some (o1.modify (fun _ => val m) (base + m)) := by
        rw [hc]
        exact writeAt_natCast _ _ _ (by omega)
      refine ⟨o1.modify (fun _ => val m) (base + m), ?_, ?_, ?_, ?_⟩
      · rw [List.range_succ, List.foldlM_append, h1]
        simp [hb, hw]
      · simp only [List.length_modify]; exact l1
      · intro i hi
        rw [List.getElem?_modify]
        by_cases c : i = m
        · subst c
          have hlt : base + i < o1.length := by omega
          simp [List.getElem?_eq_getElem hlt]
        · have hne : ¬ (base + m = base + i) := by omega
          simp only [hne, if_false, id_map']
          exact g1 i (by omega)
      · intro j hj
        rw [List.getElem?_modify]
        have hne : ¬ (base + m = j) := by omega
        simp only [hne, if_false, id_map']
        exact f1 j (by omega)
  exact key n (le_refl _)

/-- The loop of a scatter kernel over its `n` halfedges: the iteration `i`
computes a slot `ib + tgt i` of the region `[base, base + m)` and a contribution
from the buffer outside of that region, and adds the contribution to the slot. -/
theorem scatter_foldlM (n base m : Nat) (ib : Int) (hib : ib = (base : Int))
    (body : List cc_VertexPoint → Nat → Option (Int × cc_VertexPoint))
    (tgt : Nat → Nat) (c : Nat → cc_VertexPoint) (out : List cc_VertexPoint)
    (hlen : base + m ≤ out.length) (htgt : ∀ i, i < n → tgt i < m)
    (hbody : ∀ (o : List cc_VertexPoint) (i : Nat), i < n → o.length = out.length →
      (∀ j : Nat, (j < base ∨ base + m ≤ j) → o[j]? = out[j]?) →
      body o i = some ((tgt i : Int), c i)) :
    ∃ out', (List.range n).foldlM
        (fun o (i : Nat) => (body o i).bind
          (fun r => writeAt o (ib + r.1) (fun p => cc__Add3f p r.2))) out = some out' ∧
      out'.length = out.length ∧
      (∀ k : Nat, k < m → out'[base + k]? =
        (out[base + k]?).map (fun p =>
          p + (((List.range n).filter (fun i => tgt i = k)).map c).sum)) ∧
      (∀ j : Nat, (j < base ∨ base + m ≤ j) → out'[j]? = out[j]?) := by
  subst hib
  have key : ∀ l, l ≤ n → ∃ out', (List.range l).foldlM
        (fun o (i : Nat) => (body o i).bind
          (fun r => writeAt o ((base : Int) + r.1) (fun p => cc__Add3f p r.2))) out = some out' ∧
      out'.length = out.length ∧
      (∀ k : Nat, k < m → out'[base + k]? =
        (out[base + k]?).map (fun p =>
          p + (((List.range l).filter (fun i => tgt i = k)).map c).sum)) ∧
      (∀ j : Nat, (j < base ∨ base + m ≤ j) → out'[j]? = out[j]?) := by
    intro l
    induction l with
    | zero =>
      intro _
      refine ⟨out, by simp, rfl, fun k _ => ?_, fun _ _ => rfl⟩
      cases out[base + k]? <;> simp
    | succ l ih =>
      intro hl
      obtain ⟨o1, h1, l1, g1, f1⟩ := ih (by omega)
      have hb := hbody o1 l (by omega) l1 f1
      have ht := htgt l (by omega)
      have hc : ((base : Int) + ((tgt l : Nat) : Int)) = ((base + tgt l : Nat) : Int) := by
        push_cast; rfl
      have hw : writeAt o1 ((base : Int) + ((tgt l : Nat) : Int)) (fun p => cc__Add3f p (c l))
          = some (o1.modify (fun p => cc__Add3f p (c l)) (base + tgt l)) := by
        rw [hc]
        exact writeAt_natCast _ _ _ (by omega)
      refine ⟨o1.modify (fun p => cc__Add3f p (c l)) (base + tgt l), ?_, ?_, ?_, ?_⟩
      · rw [List.range_succ, List.foldlM_append, h1]
        simp [hb, hw]
      · simp only [List.length_modify]; exact l1
      · intro k hk
        rw [List.getElem?_modify, g1 k hk, List.range_succ, List.filter_append, List.map_append,
          List.sum_append]
        have hlt : base + k < out.length := by omega
        rw [List.getElem?_eq_getElem hlt]
        by_cases ck : tgt l = k
        · subst ck
          simp [cc__Add3f, add_assoc]
        · have hne : ¬ (base + tgt l = base + k) := by omega
          simp [hne, ck]
      · intro j hj
        rw [List.getElem?_modify]
        have hne : ¬ (base + tgt l = j) := by omega
        simp only [hne, if_false, id_map']
        exact f1 j hj
  exact key n (le_refl _)

/-! ## Face points: `ccs__CageFacePoints_*` and `ccs__FacePoints_*` -/

/-- The body of the loop over the faces of `ccs__CageFacePoints_Gather`: the
value of `newFacePoint` that is stored in `newFacePoints[faceID]`.  The inner
loop follows `next` from the halfedge of the face until it is back. -/
def ccs__CageFacePoints_Gather_face (cage : cc_Mesh) (fuel : Nat) (faceID : Int) :
    Option cc_VertexPoint := do
  let halfedgeID ← ccm_FaceToHalfedgeID cage faceID
  let newFacePoint ← ccm_HalfedgeVertexPoint cage halfedgeID
  let faceVertexCount : ℚ := 1
  let start ← ccm_HalfedgeNextID cage halfedgeID
  let r ← forLoop (fun halfedgeIt => decide (halfedgeIt ≠ halfedgeID))
    (fun halfedgeIt (acc : cc_VertexPoint × ℚ) => do
      let vertexPoint ← ccm_HalfedgeVertexPoint cage halfedgeIt
      let next ← ccm_HalfedgeNextID cage halfedgeIt
      some (next, cc__Add3f acc.1 vertexPoint, acc.2 + 1))
    fuel start (newFacePoint, faceVertexCount)
  some (cc__Mul3f r.2.1 (1 / r.2.2))

/-- The kernel `ccs__CageFacePoints_Gather`: `newFacePoints` is the region of
level 1 of the vertex point buffer from the slot `vertexCount` on. -/
def ccs__CageFacePoints_Gather (subd : cc_Subd) (fuel : Nat) : Option cc_Subd := do
  let cage := subd.cage
  let vertexCount := ccm_VertexCount cage
  let faceCount := ccm_FaceCount cage
  let points ← subd.vertexPoints[0]?
  let out ← (List.range faceCount).foldlM
    (fun out (faceID : Nat) => do
      let newFacePoint ← ccs__CageFacePoints_Gather_face cage fuel faceID
      writeAt out ((vertexCount : Int) + (faceID : Int)) (fun _ => newFacePoint))
    points
  some { subd with vertexPoints := subd.vertexPoints.set 0 out }

/-- The body of the loop over the halfedges of `ccs__CageFacePoints_Scatter`: the
face of the halfedge and the contribution `vertexPoint / faceVertexCount` that
is added to its face point. -/
def ccs__CageFacePoints_Scatter_halfedge (cage : cc_Mesh) (fuel : Nat) (halfedgeID : Int) :
    Option (Int × cc_VertexPoint) := do
  let vertexPoint ← ccm_HalfedgeVertexPoint cage halfedgeID
  let faceID ← ccm_HalfedgeFaceID cage halfedgeID
  let faceVertexCount : ℚ := 1
  let start ← ccm_HalfedgeNextID cage halfedgeID
  let r ← forLoop (fun halfedgeIt => decide (halfedgeIt ≠ halfedgeID))
    (fun halfedgeIt (faceVertexCount : ℚ) => do
      let next ← ccm_HalfedgeNextID cage halfedgeIt
      some (next, faceVertexCount + 1))
    fuel start faceVertexCount
  some (faceID, cc__Mul3f vertexPoint (1 / r.2))

/-- The kernel `ccs__CageFacePoints_Scatter`; the atomic additions are run in
the order of the halfedges. -/
def ccs__CageFacePoints_Scatter (subd : cc_Subd) (fuel : Nat) : Option cc_Subd := do
  let cage := subd.cage
  let vertexCount := ccm_VertexCount cage
  let halfedgeCount := ccm_HalfedgeCount cage
  let points ← subd.vertexPoints[0]?
  let out ← (List.range halfedgeCount).foldlM
    (fun out (halfedgeID : Nat) => do
      let r ← ccs__CageFacePoints_Scatter_halfedge cage fuel halfedgeID
      writeAt out ((vertexCount : Int) + r.1) (fun p => cc__Add3f p r.2))
    points
  some { subd with vertexPoints := subd.vertexPoints.set 0 out }

/-- The body of the loop over the faces of `ccs__FacePoints_Gather`. -/
def ccs__FacePoints_Gather_face (subd : cc_Subd) (depth : Nat) (fuel : Nat) (faceID : Int) :
    Option cc_VertexPoint := do
  let halfedgeID := ccs_FaceToHalfedgeID subd faceID depth
  let newFacePoint ← ccs_HalfedgeVertexPoint subd halfedgeID depth
  let r ← forLoop (fun halfedgeIt => decide (halfedgeIt ≠ halfedgeID))
    (fun halfedgeIt (newFacePoint : cc_VertexPoint) => do
      let vertexPoint ← ccs_HalfedgeVertexPoint subd halfedgeIt depth
      some (ccs_HalfedgeNextID subd halfedgeIt depth, cc__Add3f newFacePoint vertexPoint))
    fuel (ccs_HalfedgeNextID subd halfedgeID depth) newFacePoint
  some (cc__Mul3f r.2 0.25)

/-- The kernel `ccs__FacePoints_Gather`: `newFacePoints` is the region of level
`depth + 1` of the vertex point buffer from the slot `vertexCount` on. -/
def ccs__FacePoints_Gather (subd : cc_Subd) (depth : Nat) (fuel : Nat) : Option cc_Subd := do
  let cage := subd.cage
  let vertexCount := ccm_VertexCountAtDepth_Fast cage depth
  let faceCount := ccm_FaceCountAtDepth_Fast cage depth
  let points ← ccs__Level subd.vertexPoints (depth + 1)
  let out ← (List.range faceCount).foldlM
    (fun out (faceID : Nat) => do
      let newFacePoint ← ccs__FacePoints_Gather_face subd depth fuel faceID
      writeAt out ((vertexCount : Int) + (faceID : Int)) (fun _ => newFacePoint))
    points
  some { subd with vertexPoints := subd.vertexPoints.set depth out }

/-- The body of the loop over the halfedges of `ccs__FacePoints_Scatter`: the
face of the halfedge and the contribution `vertexPoint / 4`. -/
def ccs__FacePoints_Scatter_halfedge (subd : cc_Subd) (depth : Nat) (halfedgeID : Int) :
    Option (Int × cc_VertexPoint) := do
  let vertexPoint ← ccs_HalfedgeVertexPoint subd halfedgeID depth
  let faceID := ccs_HalfedgeFaceID subd halfedgeID depth
  some (faceID, cc__Mul3f vertexPoint (1 / 4))

/-- The kernel `ccs__FacePoints_Scatter`; the atomic additions are run in the
order of the halfedges. -/
def ccs__FacePoints_Scatter (subd : cc_Subd) (depth : Nat) : Option cc_Subd := do
  let cage := subd.cage
  let halfedgeCount := ccm_HalfedgeCountAtDepth cage depth
  let vertexCount := ccm_VertexCountAtDepth_Fast cage depth
  let points ← ccs__Level subd.vertexPoints (depth + 1)
  let out ← (List.range halfedgeCount).foldlM
    (fun out (halfedgeID : Nat) => do
      let r ← ccs__FacePoints_Scatter_halfedge subd depth halfedgeID
      writeAt out ((vertexCount : Int) + r.1) (fun p => cc__Add3f p r.2))
    points
  some { subd with vertexPoints := subd.vertexPoints.set depth out }

/-! ## Edge points: `ccs__CageEdgePoints_*`, `ccs__EdgePoints_*` and the creased
gather kernels -/

/-- The body of the loop over the edges of `ccs__CageEdgePoints_Gather`: the
value stored in `newEdgePoints[edgeID]`; `points` is the region of level 1 of
the vertex point buffer, which holds `newFacePoints` from the slot
`vertexCount` on. -/
def ccs__CageEdgePoints_Gather_edge (cage : cc_Mesh) (vertexCount : Int)
    (points : List cc_VertexPoint) (edgeID : Int) : Option cc_VertexPoint := do
  let halfedgeID ← ccm_EdgeToHalfedgeID cage edgeID
  let twinID ← ccm_HalfedgeTwinID cage halfedgeID
  let nextID ← ccm_HalfedgeNextID cage halfedgeID
  let edgeWeight : ℚ := if twinID < 0 then 0 else 1
  let oldEdgePoints0 ← ccm_HalfedgeVertexPoint cage halfedgeID
  let oldEdgePoints1 ← ccm_HalfedgeVertexPoint cage nextID
  let newFacePointPair0 ← (ccm_HalfedgeFaceID cage halfedgeID).bind
    (fun f => readAt points (vertexCount + f))
  let newFacePointPair1 ← (ccm_HalfedgeFaceID cage (cc__Max 0 twinID)).bind
    (fun f => readAt points (vertexCount + f))
  let tmp1 := cc__Add3f oldEdgePoints0 oldEdgePoints1
  let tmp2 := cc__Add3f newFacePointPair0 newFacePointPair1
  let sharpEdgePoint := cc__Mul3f tmp1 0.5
  let smoothEdgePoint := cc__Mul3f (cc__Add3f tmp1 tmp2) 0.25
  some (cc__Lerp3f sharpEdgePoint smoothEdgePoint edgeWeight)

/-- The kernel `ccs__CageEdgePoints_Gather`: `newEdgePoints` is the region of
level 1 of the vertex point buffer from the slot `vertexCount + faceCount` on. -/
def ccs__CageEdgePoints_Gather (subd : cc_Subd) : Option cc_Subd := do
  let cage := subd.cage
  let vertexCount := ccm_VertexCount cage
  let edgeCount := ccm_EdgeCount cage
  let faceCount := ccm_FaceCount cage
  let points ← subd.vertexPoints[0]?
  let out ← (List.range edgeCount).foldlM
    (fun out (edgeID : Nat) => do
      let newEdgePoint ← ccs__CageEdgePoints_Gather_edge cage vertexCount out edgeID
      writeAt out ((vertexCount : Int) + (faceCount : Int) + (edgeID : Int))
        (fun _ => newEdgePoint))
    points
  some { subd with vertexPoints := subd.vertexPoints.set 0 out }

/-- The body of the loop over the halfedges of `ccs__CageEdgePoints_Scatter`: the
edge of the halfedge and the contribution `atomicWeight` that is added to its
edge point. -/
def ccs__CageEdgePoints_Scatter_halfedge (cage : cc_Mesh) (vertexCount : Int)
    (points : List cc_VertexPoint) (halfedgeID : Int) : Option (Int × cc_VertexPoint) := do
  let faceID ← ccm_HalfedgeFaceID cage halfedgeID
  let edgeID ← ccm_HalfedgeEdgeID cage halfedgeID
  let twinID ← ccm_HalfedgeTwinID cage halfedgeID
  let nextID ← ccm_HalfedgeNextID cage halfedgeID
  let newFacePoint ← readAt points (vertexCount + faceID)
  let weight : ℚ := if twinID ≥ 0 then 0.5 else 1
  let tmp1 := cc__Mul3f newFacePoint 0.5
  let tmp2 := cc__Mul3f (← ccm_HalfedgeVertexPoint cage halfedgeID) weight
  let tmp3 := cc__Mul3f (← ccm_HalfedgeVertexPoint cage nextID) weight
  let tmp4 := cc__Lerp3f tmp2 tmp3 0.5
  let atomicWeight := cc__Lerp3f tmp1 tmp4 weight
  some (edgeID, atomicWeight)

/-- The kernel `ccs__CageEdgePoints_Scatter`; the atomic additions are run in
the order of the halfedges. -/
def ccs__CageEdgePoints_Scatter (subd : cc_Subd) : Option cc_Subd := do
  let cage := subd.cage
  let faceCount := ccm_FaceCount cage
  let vertexCount := ccm_VertexCount cage
  let halfedgeCount := ccm_HalfedgeCount cage
  let points ← subd.vertexPoints[0]?
  let out ← (List.range halfedgeCount).foldlM
    (fun out (halfedgeID : Nat) => do
      let r ← ccs__CageEdgePoints_Scatter_halfedge cage vertexCount out halfedgeID
      writeAt out ((vertexCount : Int) + (faceCount : Int) + r.1) (fun p => cc__Add3f p r.2))
    points
  some { subd with vertexPoints := subd.vertexPoints.set 0 out }

/-- The body of the loop over the edges of `ccs__EdgePoints_Gather`; `points` is
the region of level `depth + 1` of the vertex point buffer.  The function
`ccs_EdgeToHalfedgeID(subd, ., .)` is not in the source file: it is the
parameter `edgeToHalfedgeID`. -/
def ccs__EdgePoints_Gather_edge (subd : cc_Subd) (edgeToHalfedgeID : Int → Nat → Int)
    (depth : Nat) (vertexCount : Int) (points : List cc_VertexPoint) (edgeID : Int) :
    Option cc_VertexPoint := do
  let halfedgeID := edgeToHalfedgeID edgeID depth
  let twinID ← ccs_HalfedgeTwinID subd halfedgeID depth
  let nextID := ccs_HalfedgeNextID subd halfedgeID depth
  let edgeWeight : ℚ := if twinID < 0 then 0 else 1
  let oldEdgePoints0 ← ccs_HalfedgeVertexPoint subd halfedgeID depth
  let oldEdgePoints1 ← ccs_HalfedgeVertexPoint subd nextID depth
  let newAdjacentFacePoints0 ←
    readAt points (vertexCount + ccs_HalfedgeFaceID subd halfedgeID depth)
  let newAdjacentFacePoints1 ←
    readAt points (vertexCount + ccs_HalfedgeFaceID subd (cc__Max 0 twinID) depth)
  let tmp1 := cc__Add3f oldEdgePoints0 oldEdgePoints1
  let tmp2 := cc__Add3f newAdjacentFacePoints0 newAdjacentFacePoints1
  let sharpEdgePoint := cc__Mul3f tmp1 0.5
  let smoothEdgePoint := cc__Mul3f (cc__Add3f tmp1 tmp2) 0.25
  some (cc__Lerp3f sharpEdgePoint smoothEdgePoint edgeWeight)

/-- The kernel `ccs__EdgePoints_Gather`. -/
def ccs__EdgePoints_Gather (subd : cc_Subd) (edgeToHalfedgeID : Int → Nat → Int)
    (depth : Nat) : Option cc_Subd := do
  let cage := subd.cage
  let vertexCount := ccm_VertexCountAtDepth_Fast cage depth
  let edgeCount := ccm_EdgeCountAtDepth_Fast cage depth
  let faceCount := ccm_FaceCountAtDepth_Fast cage depth
  let points ← ccs__Level subd.vertexPoints (depth + 1)
  let out ← (List.range edgeCount).foldlM
    (fun out (edgeID : Nat) => do
      let newEdgePoint ←
        ccs__EdgePoints_Gather_edge subd edgeToHalfedgeID depth vertexCount out edgeID
      writeAt out ((vertexCount : Int) + (faceCount : Int) + (edgeID : Int))
        (fun _ => newEdgePoint))
    points
  some { subd with vertexPoints := subd.vertexPoints.set depth out }

/-- The body of the loop over the halfedges of `ccs__EdgePoints_Scatter`. -/
def ccs__EdgePoints_Scatter_halfedge (subd : cc_Subd) (depth : Nat) (vertexCount : Int)
    (points : List cc_VertexPoint) (halfedgeID : Int) : Option (Int × cc_VertexPoint) := do
  let faceID := ccs_HalfedgeFaceID subd halfedgeID depth
  let edgeID ← ccs_HalfedgeEdgeID subd halfedgeID depth
  let twinID ← ccs_HalfedgeTwinID subd halfedgeID depth
  let nextID := ccs_HalfedgeNextID subd halfedgeID depth
  let newFacePoint ← readAt points (vertexCount + faceID)
  let weight : ℚ := if twinID ≥ 0 then 0.5 else 1
  let tmp1 := cc__Mul3f newFacePoint 0.5
  let tmp2 := cc__Mul3f (← ccs_HalfedgeVertexPoint subd halfedgeID depth) weight
  let tmp3 := cc__Mul3f (← ccs_HalfedgeVertexPoint subd nextID depth) weight
  let tmp4 := cc__Lerp3f tmp2 tmp3 0.5
  let atomicWeight := cc__Lerp3f tmp1 tmp4 weight
  some (edgeID, atomicWeight)

/-- The kernel `ccs__EdgePoints_Scatter`; the atomic additions are run in the
order of the halfedges. -/
def ccs__EdgePoints_Scatter (subd : cc_Subd) (depth : Nat) : Option cc_Subd := do
  let cage := subd.cage
  let halfedgeCount := ccm_HalfedgeCountAtDepth cage depth
  let vertexCount := ccm_VertexCountAtDepth_Fast cage depth
  let faceCount := ccm_FaceCountAtDepth_Fast cage depth
  let points ← ccs__Level subd.vertexPoints (depth + 1)
  let out ← (List.range halfedgeCount).foldlM
    (fun out (halfedgeID : Nat) => do
      let r ← ccs__EdgePoints_Scatter_halfedge subd depth vertexCount out halfedgeID
      writeAt out ((vertexCount : Int) + (faceCount : Int) + r.1) (fun p => cc__Add3f p r.2))
    points
  some { subd with vertexPoints := subd.vertexPoints.set depth out }

/-- The body of the loop over the edges of `ccs__CreasedCageEdgePoints_Gather`. -/
def ccs__CreasedCageEdgePoints_Gather_edge (cage : cc_Mesh) (vertexCount : Int)
    (points : List cc_VertexPoint) (edgeID : Int) : Option cc_VertexPoint := do
  let halfedgeID ← ccm_EdgeToHalfedgeID cage edgeID
  let twinID ← ccm_HalfedgeTwinID cage halfedgeID
  let nextID ← ccm_HalfedgeNextID cage halfedgeID
  let sharp ← ccm_CreaseSharpness cage edgeID
  let edgeWeight := cc__Satf sharp
  let oldEdgePoints0 ← ccm_HalfedgeVertexPoint cage halfedgeID
  let oldEdgePoints1 ← ccm_HalfedgeVertexPoint cage nextID
  let newAdjacentFacePoints0 ← (ccm_HalfedgeFaceID cage halfedgeID).bind
    (fun f => readAt points (vertexCount + f))
  let newAdjacentFacePoints1 ← (ccm_HalfedgeFaceID cage (cc__Max 0 twinID)).bind
    (fun f => readAt points (vertexCount + f))
  let tmp1 := cc__Add3f oldEdgePoints0 oldEdgePoints1
  let tmp2 := cc__Add3f newAdjacentFacePoints0 newAdjacentFacePoints1
  let sharpEdgePoint := cc__Mul3f tmp1 0.5
  let smoothEdgePoint := cc__Mul3f (cc__Add3f tmp1 tmp2) 0.25
  some (cc__Lerp3f smoothEdgePoint sharpEdgePoint edgeWeight)

/-- The kernel `ccs__CreasedCageEdgePoints_Gather`. -/
def ccs__CreasedCageEdgePoints_Gather (subd : cc_Subd) : Option cc_Subd := do
  let cage := subd.cage
  let vertexCount := ccm_VertexCount cage
  let edgeCount := ccm_EdgeCount cage
  let faceCount := ccm_FaceCount cage
  let points ← subd.vertexPoints[0]?
  let out ← (List.range edgeCount).foldlM
    (fun out (edgeID : Nat) => do
      let newEdgePoint ← ccs__CreasedCageEdgePoints_Gather_edge cage vertexCount out edgeID
      writeAt out ((vertexCount : Int) + (faceCount : Int) + (edgeID : Int))
        (fun _ => newEdgePoint))
    points
  some { subd with vertexPoints := subd.vertexPoints.set 0 out }

/-- The body of the loop over the edges of `ccs__CreasedEdgePoints_Gather`. -/
def ccs__CreasedEdgePoints_Gather_edge (subd : cc_Subd) (edgeToHalfedgeID : Int → Nat → Int)
    (depth : Nat) (vertexCount : Int) (points : List cc_VertexPoint) (edgeID : Int) :
    Option cc_VertexPoint := do
  let halfedgeID := edgeToHalfedgeID edgeID depth
  let twinID ← ccs_HalfedgeTwinID subd halfedgeID depth
  let nextID := ccs_HalfedgeNextID subd halfedgeID depth
  let sharp ← ccs_CreaseSharpness subd edgeID depth
  let edgeWeight := cc__Satf sharp
  let oldEdgePoints0 ← ccs_HalfedgeVertexPoint subd halfedgeID depth
  let oldEdgePoints1 ← ccs_HalfedgeVertexPoint subd nextID depth
  let newAdjacentFacePoints0 ←
    readAt points (vertexCount + ccs_HalfedgeFaceID subd halfedgeID depth)
  let newAdjacentFacePoints1 ←
    readAt points (vertexCount + ccs_HalfedgeFaceID subd (cc__Max 0 twinID) depth)
  let tmp1 := cc__Add3f oldEdgePoints0 oldEdgePoints1
  let tmp2 := cc__Add3f newAdjacentFacePoints0 newAdjacentFacePoints1
  let sharpEdgePoint := cc__Mul3f tmp1 0.5
  let smoothEdgePoint := cc__Mul3f (cc__Add3f tmp1 tmp2) 0.25
  some (cc__Lerp3f smoothEdgePoint sharpEdgePoint edgeWeight)

/-- The kernel `ccs__CreasedEdgePoints_Gather`. -/
def ccs__CreasedEdgePoints_Gather (subd : cc_Subd) (edgeToHalfedgeID : Int → Nat → Int)
    (depth : Nat) : Option cc_Subd := do
  let cage := subd.cage
  let vertexCount := ccm_VertexCountAtDepth_Fast cage depth
  let faceCount := ccm_FaceCountAtDepth_Fast cage depth
  let edgeCount := ccm_EdgeCountAtDepth_Fast cage depth
  let points ← ccs__Level subd.vertexPoints (depth + 1)
  let out ← (List.range edgeCount).foldlM
    (fun out (edgeID : Nat) => do
      let newEdgePoint ←
        ccs__CreasedEdgePoints_Gather_edge subd edgeToHalfedgeID depth vertexCount out edgeID
      writeAt out ((vertexCount : Int) + (faceCount : Int) + (edgeID : Int))
        (fun _ => newEdgePoint))
    points
  some { subd with vertexPoints := subd.vertexPoints.set depth out }

/-! ## C12: the face points -/

/-- The next-ring of the cage halfedge `halfedgeID`: the halfedge, then the
halfedges `next` reaches from it until it is back; `none` when `fuel` steps do
not close the ring. -/
def ccm_HalfedgeRing (cage : cc_Mesh) (fuel : Nat) (halfedgeID : Int) : Option (List Int) := do
  let start ← ccm_HalfedgeNextID cage halfedgeID
  let r ← ringWalk (ccm_HalfedgeNextID cage) (fun halfedgeIt => decide (halfedgeIt ≠ halfedgeID))
    fuel start
  some (halfedgeID :: r.1)

/-- The next-ring of the cage face `faceID`: the next-ring of its halfedge
`ccm_FaceToHalfedgeID(cage, faceID)`. -/
def ccm_FaceRing (cage : cc_Mesh) (fuel : Nat) (faceID : Int) : Option (List Int) :=
  (ccm_FaceToHalfedgeID cage faceID).bind (ccm_HalfedgeRing cage fuel)

/-- Every face of the cage has a next-ring that closes within `fuel` steps, and
every halfedge of the ring has a vertex that has a position. -/
def ccm_FaceRingsReadable (cage : cc_Mesh) (fuel : Nat) : Prop :=
  ∀ f : Nat, f < ccm_FaceCount cage → ∃ ring ∈ ccm_FaceRing cage fuel f,
    ∀ h ∈ ring, (ccm_HalfedgeVertexPoint cage h).isSome = true

instance (cage : cc_Mesh) (fuel : Nat) : Decidable (ccm_FaceRingsReadable cage fuel) := by
  unfold ccm_FaceRingsReadable
  infer_instance

theorem foldl_sum_count (g : Int → cc_VertexPoint) (ring : List Int) :
    ∀ (p : cc_VertexPoint) (c : ℚ),
      ring.foldl (fun (s : cc_VertexPoint × ℚ) h => (cc__Add3f s.1 (g h), s.2 + 1)) (p, c)
        = (p + (ring.map g).sum, c + (ring.length : ℚ)) := by
  induction ring with
  | nil => intro p c; simp
  | cons h t ih =>
    intro p c
    rw [List.foldl_cons, ih]
    simp only [cc__Add3f, List.map_cons, List.sum_cons, List.length_cons, Nat.cast_add,
      Nat.cast_one, Prod.mk.injEq]
    constructor
    · rw [add_assoc]
    · ring

theorem map_eq_map_some {α β : Type} [Inhabited β] (f : α → Option β) (l : List α) (pts : List β)
    (h : l.map f = pts.map some) :
    pts = l.map (fun a => (f a).getD default) ∧ ∀ a ∈ l, f a = some ((f a).getD default) := by
  induction l generalizing pts with
  | nil =>
    cases pts with
    | nil => simp
    | cons _ _ => simp at h
  | cons a t ih =>
    cases pts with
    | nil => simp at h
    | cons p ps =>
      simp only [List.map_cons, List.cons.injEq] at h
      obtain ⟨h1, h2⟩ := h
      obtain ⟨i1, i2⟩ := ih ps h2
      constructor
      · simp [h1, ← i1]
      · intro b hb
        rcases List.mem_cons.mp hb with rfl | hb
        · simp [h1]
        · exact i2 b hb

theorem map_some_of_isSome {α β : Type} [Inhabited β] (f : α → Option β) (l : List α)
    (h : ∀ a ∈ l, (f a).isSome = true) :
    l.map f = (l.map (fun a => (f a).getD default)).map some := by
  induction l with
  | nil => simp
  | cons a t ih =>
    simp only [List.map_cons, List.cons.injEq]
    refine ⟨?_, ih (fun b hb => h b (List.mem_cons_of_mem _ hb))⟩
    have := h a (List.mem_cons_self _ _)
    cases hfa : f a with
    | none => simp [hfa] at this
    | some x => simp

theorem cage_face_body (cage : cc_Mesh) (fuel : Nat) (f : Int) (ring : List Int)
    (pts : List cc_VertexPoint) (hr : ccm_FaceRing cage fuel f = some ring)
    (hp : ring.map (ccm_HalfedgeVertexPoint cage) = pts.map some) :
    ccs__CageFacePoints_Gather_face cage fuel f
      = some ((1 / (ring.length : ℚ)) • pts.sum) := by
  unfold ccm_FaceRing ccm_HalfedgeRing at hr
  unfold ccs__CageFacePoints_Gather_face
  cases h0 : ccm_FaceToHalfedgeID cage f with
  | none => simp [h0] at hr
  | some halfedgeID =>
    simp only [h0, Option.bind_eq_bind, Option.some_bind] at hr ⊢
    cases hs : ccm_HalfedgeNextID cage halfedgeID with
    | none => simp [hs] at hr
    | some start =>
      simp only [hs, Option.some_bind] at hr ⊢
      cases hw : ringWalk (ccm_HalfedgeNextID cage)
          (fun halfedgeIt => decide (halfedgeIt ≠ halfedgeID)) fuel start with
      | none =>
        rw [hw] at hr
        exact absurd hr (by simp)
      | some r =>
        obtain ⟨rest, last⟩ := r
        rw [hw] at hr
        simp only [Option.some_bind, Option.some.injEq] at hr
        subst hr
        obtain ⟨e1, e2⟩ := map_eq_map_some _ _ _ hp
        have e0 := e2 halfedgeID (List.mem_cons_self _ _)
        rw [e0]
        simp only [Option.some_bind]
        have hl := forLoop_of_ringWalk (ccm_HalfedgeNextID cage)
          (fun halfedgeIt => decide (halfedgeIt ≠ halfedgeID))
          (fun halfedgeIt (acc : cc_VertexPoint × ℚ) =>
            (ccm_HalfedgeVertexPoint cage halfedgeIt).bind (fun vertexPoint =>
              (ccm_HalfedgeNextID cage halfedgeIt).bind (fun next =>
                some (next, cc__Add3f acc.1 vertexPoint, acc.2 + 1))))
          (fun h (s : cc_VertexPoint × ℚ) =>
            (cc__Add3f s.1 ((ccm_HalfedgeVertexPoint cage h).getD default), s.2 + 1))
          fuel start rest last
          ((ccm_HalfedgeVertexPoint cage halfedgeID).getD default, 1) hw
          (by
            intro h hh nxt s' hst
            beta_reduce
            rw [e2 h (List.mem_cons_of_mem _ hh), hst]
            simp)
        rw [hl]
        simp only [Option.some_bind, Option.some.injEq]
        rw [foldl_sum_count, e1]
        simp only [cc__Mul3f, List.map_cons, List.sum_cons, List.length_cons, Nat.cast_add,
          Nat.cast_one, List.length_map]
        rw [add_comm (1 : ℚ)]

theorem quadNext_0 (f : Int) : ccm_HalfedgeNextID_Quad (4 * f) = 4 * f + 1 := by
  unfold ccm_HalfedgeNextID_Quad; omega

theorem quadNext_1 (f : Int) : ccm_HalfedgeNextID_Quad (4 * f + 1) = 4 * f + 2 := by
  unfold ccm_HalfedgeNextID_Quad; omega

theorem quadNext_2 (f : Int) : ccm_HalfedgeNextID_Quad (4 * f + 2) = 4 * f + 3 := by
  unfold ccm_HalfedgeNextID_Quad; omega

theorem quadNext_3 (f : Int) : ccm_HalfedgeNextID_Quad (4 * f + 3) = 4 * f := by
  unfold ccm_HalfedgeNextID_Quad; omega

theorem level_face_body (subd : cc_Subd) (depth : Nat) (fuel : Nat) (hfuel : 3 ≤ fuel)
    (f : Int) (p0 p1 p2 p3 : cc_VertexPoint)
    (h0 : ccs_HalfedgeVertexPoint subd (4 * f) depth = some p0)
    (h1 : ccs_HalfedgeVertexPoint subd (4 * f + 1) depth = some p1)
    (h2 : ccs_HalfedgeVertexPoint subd (4 * f + 2) depth = some p2)
    (h3 : ccs_HalfedgeVertexPoint subd (4 * f + 3) depth = some p3) :
    ccs__FacePoints_Gather_face subd depth fuel f
      = some ((1 / 4 : ℚ) • (p0 + p1 + p2 + p3)) := by
  obtain ⟨k, rfl⟩ : ∃ k, fuel = k + 1 + 1 + 1 := ⟨fuel - 3, by omega⟩
  have c1 : decide (4 * f + 1 ≠ 4 * f) = true := by simp
  have c2 : decide (4 * f + 2 ≠ 4 * f) = true := by simp
  have c3 : decide (4 * f + 3 ≠ 4 * f) = true := by simp
  unfold ccs__FacePoints_Gather_face
  simp only [ccs_FaceToHalfedgeID, ccm_FaceToHalfedgeID_Quad, ccs_HalfedgeNextID, h0,
    Option.bind_eq_bind, Option.some_bind, quadNext_0]
  rw [forLoop_succ]
  simp only [c1, if_true, h1, Option.some_bind, quadNext_1]
  rw [forLoop_succ]
  simp only [c2, if_true, h2, Option.some_bind, quadNext_2]
  rw [forLoop_succ]
  simp only [c3, if_true, h3, Option.some_bind, quadNext_3]
  rw [forLoop_exit _ _ _ _ _ (by simp)]
  simp only [Option.some_bind, Option.some.injEq, cc__Mul3f, cc__Add3f]
  norm_num

/-- The open quad with its geometry: the unit square of the plane `z = 0`. -/
def quadMesh : cc_Mesh :=
  { quadCage with
    creases := [⟨0, 0, 0⟩, ⟨1, 1, 0⟩, ⟨2, 2, 0⟩, ⟨3, 3, 0⟩],
    vertexToHalfedgeIDs := [0, 1, 2, 3], edgeToHalfedgeIDs := [0, 1, 2, 3],
    faceToHalfedgeIDs := [0],
    vertexPoints := [(0, 0, 0), (1, 0, 0), (1, 1, 0), (0, 1, 0)] }

/-- The two glued triangles with their geometry: the triangle `(0,0,0)`,
`(1,0,0)`, `(0,1,0)` and the triangle `(1,0,0)`, `(0,0,0)`, `(1,-1,0)`; the
halfedge of every boundary vertex is the one without a twin. -/
def trianglesMesh : cc_Mesh :=
  { twoTriangles with
    creases := [⟨0, 0, 0⟩, ⟨1, 1, 0⟩, ⟨2, 2, 0⟩, ⟨3, 3, 0⟩, ⟨4, 4, 0⟩],
    vertexToHalfedgeIDs := [4, 1, 2, 5], edgeToHalfedgeIDs := [0, 1, 2, 4, 5],
    faceToHalfedgeIDs := [0, 3],
    vertexPoints := [(0, 0, 0), (1, 0, 0), (0, 1, 0), (1, -1, 0)] }

/-- The vertex points of level 1 of the open quad: its 4 corners, its centre and
the 4 midpoints of its edges. -/
def quadPoints1 : List cc_VertexPoint :=
  [(0, 0, 0), (1, 0, 0), (1, 1, 0), (0, 1, 0), (1 / 2, 1 / 2, 0),
   (1 / 2, 0, 0), (1, 1 / 2, 0), (1 / 2, 1, 0), (0, 1 / 2, 0)]

/-- The subdivision of depth 2 of the open quad with the halfedges and the
vertex points of level 1; the region of level 2 of the vertex point buffer
(25 points) is zeroed. -/
def quadPointsSubd : cc_Subd :=
  { quadSubd with vertexPoints := [quadPoints1, List.replicate 25 (0, 0, 0)] }

/-- C12: `ccs__CageFacePoints_Gather` (first part), on a cage whose faces have
closed next-rings, returns and writes at the slot `V0 + f`, for every face `f`
whose next-ring has `n` halfedges, the centroid
`(1/n) * sum over h in ring(f) of position(vertex(h))`, and no slot outside of
`[V0, V0 + F0)`.  `ccs__FacePoints_Gather` at `depth` (second part) writes at
the slot `V_depth + f` the average of the positions of the vertices of the four
halfedges `4f .. 4f + 3` of the quad `f`. -/
theorem C12_face_points :
    (∀ (subd : cc_Subd) (fuel : Nat) (out : List cc_VertexPoint),
      subd.vertexPoints[0]? = some out →
      ccm_VertexCount subd.cage + ccm_FaceCount subd.cage ≤ out.length →
      ccm_FaceRingsReadable subd.cage fuel →
      ∃ out', ccs__CageFacePoints_Gather subd fuel =
          some { subd with vertexPoints := subd.vertexPoints.set 0 out' } ∧
        out'.length = out.length ∧
        (∀ j : Nat, (j < ccm_VertexCount subd.cage ∨
            ccm_VertexCount subd.cage + ccm_FaceCount subd.cage ≤ j) → out'[j]? = out[j]?) ∧
        ∀ f : Nat, f < ccm_FaceCount subd.cage →
          ∀ (ring : List Int) (pts : List cc_VertexPoint),
            ccm_FaceRing subd.cage fuel f = some ring →
            ring.map (ccm_HalfedgeVertexPoint subd.cage) = pts.map some →
            out'[ccm_VertexCount subd.cage + f]? = some ((1 / (ring.length : ℚ)) • pts.sum)) ∧
    (∀ (subd : cc_Subd) (depth fuel : Nat) (out : List cc_VertexPoint),
      ccs__Level subd.vertexPoints (depth + 1) = some out →
      3 ≤ fuel →
      ccm_VertexCountAtDepth_Fast subd.cage depth + ccm_FaceCountAtDepth_Fast subd.cage depth
        ≤ out.length →
      (∀ h : Nat, h < 4 * ccm_FaceCountAtDepth_Fast subd.cage depth →
        (ccs_HalfedgeVertexPoint subd h depth).isSome = true) →
      ∃ out', ccs__FacePoints_Gather subd depth fuel =
          some { subd with vertexPoints := subd.vertexPoints.set depth out' } ∧
        out'.length = out.length ∧
        (∀ j : Nat, (j < ccm_VertexCountAtDepth_Fast subd.cage depth ∨
            ccm_VertexCountAtDepth_Fast subd.cage depth
              + ccm_FaceCountAtDepth_Fast subd.cage depth ≤ j) → out'[j]? = out[j]?) ∧
        ∀ f : Nat, f < ccm_FaceCountAtDepth_Fast subd.cage depth →
          ∀ p0 p1 p2 p3 : cc_VertexPoint,
            ccs_HalfedgeVertexPoint subd (4 * f) depth = some p0 →
            ccs_HalfedgeVertexPoint subd (4 * f + 1) depth = some p1 →
            ccs_HalfedgeVertexPoint subd (4 * f + 2) depth = some p2 →
            ccs_HalfedgeVertexPoint subd (4 * f + 3) depth = some p3 →
            out'[ccm_VertexCountAtDepth_Fast subd.cage depth + f]?
              = some ((1 / 4 : ℚ) • (p0 + p1 + p2 + p3))) := by
  constructor
  · intro subd fuel out hout hlen hr
    obtain ⟨o, e1, e2, e3, e4⟩ := gather_foldlM (ccm_FaceCount subd.cage)
      (ccm_VertexCount subd.cage) (ccm_VertexCount subd.cage : Int) rfl
      (fun _ (f : Nat) => ccs__CageFacePoints_Gather_face subd.cage fuel f)
      (fun f => (ccs__CageFacePoints_Gather_face subd.cage fuel f).getD default) out hlen
      (by
        intro o f hf _ _
        obtain ⟨ring, h1, h2⟩ := hr f hf
        beta_reduce
        rw [cage_face_body subd.cage fuel f ring _ (Option.mem_def.mp h1)
          (map_some_of_isSome _ _ h2)]
        rfl)
    refine ⟨o, ?_, e2, e4, ?_⟩
    · unfold ccs__CageFacePoints_Gather
      simp only [hout, Option.bind_eq_bind, Option.some_bind]
      rw [e1]
      rfl
    · intro f hf ring pts h1 h2
      rw [e3 f hf, cage_face_body subd.cage fuel f ring pts h1 h2]
      rfl
  · intro subd depth fuel out hout hfuel hlen hr
    have hb : ∀ f : Nat, f < ccm_FaceCountAtDepth_Fast subd.cage depth →
        ∃ p0 p1 p2 p3 : cc_VertexPoint,
          ccs_HalfedgeVertexPoint subd (4 * (f : Int)) depth = some p0 ∧
          ccs_HalfedgeVertexPoint subd (4 * (f : Int) + 1) depth = some p1 ∧
          ccs_HalfedgeVertexPoint subd (4 * (f : Int) + 2) depth = some p2 ∧
          ccs_HalfedgeVertexPoint subd (4 * (f : Int) + 3) depth = some p3 := by
      intro f hf
      have a0 := hr (4 * f) (by omega)
      have a1 := hr (4 * f + 1) (by omega)
      have a2 := hr (4 * f + 2) (by omega)
      have a3 := hr (4 * f + 3) (by omega)
      simp only [Nat.cast_add, Nat.cast_mul, Nat.cast_ofNat, Nat.cast_one] at a0 a1 a2 a3
      exact ⟨_, _, _, _, Option.eq_some_of_isSome a0, Option.eq_some_of_isSome a1,
        Option.eq_some_of_isSome a2, Option.eq_some_of_isSome a3⟩
    obtain ⟨o, e1, e2, e3, e4⟩ := gather_foldlM (ccm_FaceCountAtDepth_Fast subd.cage depth)
      (ccm_VertexCountAtDepth_Fast subd.cage depth)
      (ccm_VertexCountAtDepth_Fast subd.cage depth : Int) rfl
      (fun _ (f : Nat) => ccs__FacePoints_Gather_face subd depth fuel f)
      (fun f => (ccs__FacePoints_Gather_face subd depth fuel f).getD default) out hlen
      (by
        intro o f hf _ _
        obtain ⟨p0, p1, p2, p3, a0, a1, a2, a3⟩ := hb f hf
        beta_reduce
        rw [level_face_body subd depth fuel hfuel f p0 p1 p2 p3 a0 a1 a2 a3]
        rfl)
    refine ⟨o, ?_, e2, e4, ?_⟩
    · unfold ccs__FacePoints_Gather
      simp only [hout, Option.bind_eq_bind, Option.some_bind]
      rw [e1]
      rfl
    · intro f hf p0 p1 p2 p3 a0 a1 a2 a3
      rw [e3 f hf, level_face_body subd depth fuel hfuel f p0 p1 p2 p3 a0 a1 a2 a3]
      rfl

/-- C12, witness: the two glued triangles (cage kernel), whose face 1 has the
ring `3, 4, 5` and gets the centroid `(2/3, -1/3, 0)` at the slot `4 + 1`, and
level 1 of the open quad (level kernel), whose quad 0 gets the average
`(1/4, 1/4, 0)` of its corners at the slot `9 + 0`. -/
theorem C12_face_points_witness :
    (∃ out' : List cc_VertexPoint, ccs__CageFacePoints_Gather
        { cage := trianglesMesh, maxDepth := 1, halfedges := [], creases := [],
          vertexPoints := [List.replicate 11 (0, 0, 0)] } 3 =
          some { cage := trianglesMesh, maxDepth := 1, halfedges := [], creases := [],
                 vertexPoints := [out'] } ∧
        ccm_FaceRing trianglesMesh 3 1 = some [3, 4, 5] ∧
        out'[5]? = some ((2 / 3, -1 / 3, 0) : cc_VertexPoint)) ∧
    (∃ out' : List cc_VertexPoint, ccs__FacePoints_Gather quadPointsSubd 1 3 =
          some { quadPointsSubd with vertexPoints := quadPointsSubd.vertexPoints.set 1 out' } ∧
        out'[9]? = some ((1 / 4, 1 / 4, 0) : cc_VertexPoint)) := by
  constructor
  · obtain ⟨out', h1, _, _, h4⟩ := C12_face_points.1
      { cage := trianglesMesh, maxDepth := 1, halfedges := [], creases := [],
        vertexPoints := [List.replicate 11 (0, 0, 0)] } 3
      (List.replicate 11 (0, 0, 0)) rfl (by decide) (by decide)
    refine ⟨out', h1, by decide, ?_⟩
    have h5 := h4 1 (by decide) [3, 4, 5] [(1, 0, 0), (0, 0, 0), (1, -1, 0)] (by decide) rfl
    have h6 : out'[5]? = _ := h5
    rw [h6]
    norm_num
  · obtain ⟨out', h1, _, _, h4⟩ := C12_face_points.2 quadPointsSubd 1 3
      (List.replicate 25 (0, 0, 0)) rfl (by decide) (by decide) (by decide)
    refine ⟨out', h1, ?_⟩
    have h5 := h4 0 (by decide) (0, 0, 0) (1 / 2, 0, 0) (1 / 2, 1 / 2, 0) (0, 1 / 2, 0)
      rfl rfl rfl rfl
    have h6 : out'[9]? = _ := h5
    rw [h6]
    norm_num

/-! ## C19: the face points, gather and scatter -/

/-- The faces of the cage are its next-rings: every halfedge has a face in
`[0, F0)` and a vertex with a position, its next-ring closes within `fuel`
steps and lists, in some order, the halfedges of its face; and the halfedge
`ccm_FaceToHalfedgeID(cage, f)` of every face `f` is a halfedge of `f`. -/
def ccm_FacesAreRings (cage : cc_Mesh) (fuel : Nat) : Prop :=
  (∀ h : Nat, h < ccm_HalfedgeCount cage →
    (ccm_HalfedgeVertexPoint cage h).isSome = true ∧
    ∃ f : Nat, f < ccm_FaceCount cage ∧ ccm_HalfedgeFaceID cage h = some (f : Int) ∧
      ∃ ring ∈ ccm_HalfedgeRing cage fuel h,
        List.Perm ring (((List.range (ccm_HalfedgeCount cage)).filter
          (fun h2 => ccm_HalfedgeFaceID cage (h2 : Nat) = some (f : Int))).map Int.ofNat)) ∧
  (∀ f : Nat, f < ccm_FaceCount cage →
    ∃ h : Nat, h < ccm_HalfedgeCount cage ∧ ccm_FaceToHalfedgeID cage f = some (h : Int) ∧
      ccm_HalfedgeFaceID cage h = some (f : Int))

instance (cage : cc_Mesh) (fuel : Nat) : Decidable (ccm_FacesAreRings cage fuel) := by
  unfold ccm_FacesAreRings
  infer_instance

theorem foldl_count (ring : List Int) :
    ∀ c : ℚ, ring.foldl (fun (s : ℚ) (_ : Int) => s + 1) c = c + (ring.length : ℚ) := by
  induction ring with
  | nil => intro c; simp
  | cons h t ih =>
    intro c
    rw [List.foldl_cons, ih]
    simp only [List.length_cons, Nat.cast_add, Nat.cast_one]
    ring

theorem cage_face_scatter_body (cage : cc_Mesh) (fuel : Nat) (h : Int) (ring : List Int)
    (p : cc_VertexPoint) (f : Int) (hr : ccm_HalfedgeRing cage fuel h = some ring)
    (hp : ccm_HalfedgeVertexPoint cage h = some p) (hf : ccm_HalfedgeFaceID cage h = some f) :
    ccs__CageFacePoints_Scatter_halfedge cage fuel h
      = some (f, (1 / (ring.length : ℚ)) • p) := by
  unfold ccm_HalfedgeRing at hr
  unfold ccs__CageFacePoints_Scatter_halfedge
  simp only [hp, hf, Option.bind_eq_bind, Option.some_bind] at hr ⊢
  cases hs : ccm_HalfedgeNextID cage h with
  | none => simp [hs] at hr
  | some start =>
    simp only [hs, Option.some_bind] at hr ⊢
    cases hw : ringWalk (ccm_HalfedgeNextID cage)
        (fun halfedgeIt => decide (halfedgeIt ≠ h)) fuel start with
    | none =>
      rw [hw] at hr
      exact absurd hr (by simp)
    | some r =>
      obtain ⟨rest, last⟩ := r
      rw [hw] at hr
      simp only [Option.some_bind, Option.some.injEq] at hr
      subst hr
      have hl := forLoop_of_ringWalk (ccm_HalfedgeNextID cage)
        (fun halfedgeIt => decide (halfedgeIt ≠ h))
        (fun halfedgeIt (faceVertexCount : ℚ) =>
          (ccm_HalfedgeNextID cage halfedgeIt).bind (fun next =>
            some (next, faceVertexCount + 1)))
        (fun _ (s : ℚ) => s + 1)
        fuel start rest last 1 hw
        (by
          intro h2 _ nxt s' hst
          beta_reduce
          rw [hst]
          simp)
      rw [hl]
      simp only [Option.some_bind, Option.some.injEq, Prod.mk.injEq, true_and]
      rw [foldl_count]
      simp only [cc__Mul3f, List.length_cons, Nat.cast_add, Nat.cast_one]
      rw [add_comm (1 : ℚ)]

theorem sum_map_smul (a : ℚ) (l : List cc_VertexPoint) :
    (l.map (fun p => a • p)).sum = a • l.sum := by
  induction l with
  | nil => simp
  | cons p t ih => simp [ih, smul_add]

theorem filter_quad (F f : Nat) (hf : f < F) :
    (List.range (4 * F)).filter (fun i => i / 4 = f) = [4 * f, 4 * f + 1, 4 * f + 2, 4 * f + 3] := by
  induction F with
  | zero => omega
  | succ F ih =>
    have hr : List.range (4 * (F + 1))
        = List.range (4 * F) ++ [4 * F, 4 * F + 1, 4 * F + 2, 4 * F + 3] := by
      have : 4 * (F + 1) = 4 * F + 1 + 1 + 1 + 1 := by ring
      rw [this, List.range_succ, List.range_succ, List.range_succ, List.range_succ]
      simp
    rw [hr, List.filter_append]
    by_cases c : f = F
    · subst c
      have h1 : (List.range (4 * f)).filter (fun i => i / 4 = f) = [] := by
        rw [List.filter_eq_nil_iff]
        intro i hi
        have := List.mem_range.mp hi
        simp only [decide_eq_true_eq]
        omega
      rw [h1]
      have a0 : (4 * f) / 4 = f := by omega
      have a1 : (4 * f + 1) / 4 = f := by omega
      have a2 : (4 * f + 2) / 4 = f := by omega
      have a3 : (4 * f + 3) / 4 = f := by omega
      simp [List.filter_cons, a0, a1, a2, a3]
    · rw [ih (by omega)]
      have a0 : ¬ ((4 * F) / 4 = f) := by omega
      have a1 : ¬ ((4 * F + 1) / 4 = f) := by omega
      have a2 : ¬ ((4 * F + 2) / 4 = f) := by omega
      have a3 : ¬ ((4 * F + 3) / 4 = f) := by omega
      have c2 : ¬ (F = f) := fun hh => c hh.symm
      simp [List.filter_cons, a0, a1, a2, a3, c2]

theorem cage_face_target (cage : cc_Mesh) (fuel : Nat) (hv : ccm_FacesAreRings cage fuel)
    (h : Nat) (hh : h < ccm_HalfedgeCount cage) :
    ∃ (f : Nat) (ring : List Int) (p : cc_VertexPoint), f < ccm_FaceCount cage ∧
      ccm_HalfedgeFaceID cage h = some (f : Int) ∧
      ccm_HalfedgeVertexPoint cage h = some p ∧
      ccm_HalfedgeRing cage fuel h = some ring ∧
      List.Perm ring (((List.range (ccm_HalfedgeCount cage)).filter
          (fun h2 => ccm_HalfedgeFaceID cage (h2 : Nat) = some (f : Int))).map Int.ofNat) := by
  obtain ⟨a, f, b, c, ring, d, e⟩ := hv.1 h hh
  exact ⟨f, ring, _, b, c, Option.eq_some_of_isSome a, Option.mem_def.mp d, e⟩

theorem cage_face_ring (cage : cc_Mesh) (fuel : Nat) (hv : ccm_FacesAreRings cage fuel)
    (f : Nat) (hf : f < ccm_FaceCount cage) :
    ∃ ring : List Int, ccm_FaceRing cage fuel f = some ring ∧
      (∀ h ∈ ring, (ccm_HalfedgeVertexPoint cage h).isSome = true) ∧
      List.Perm ring (((List.range (ccm_HalfedgeCount cage)).filter
          (fun h2 => ccm_HalfedgeFaceID cage (h2 : Nat) = some (f : Int))).map Int.ofNat) := by
  obtain ⟨h0, a, b, c⟩ := hv.2 f hf
  obtain ⟨f2, ring, p, d, e, g, i, j⟩ := cage_face_target cage fuel hv h0 a
  have hff : f2 = f := by
    rw [c] at e
    exact_mod_cast (Option.some.inj e).symm
  subst hff
  refine ⟨ring, ?_, ?_, j⟩
  · unfold ccm_FaceRing
    rw [b]
    exact i
  · intro h hh
    have hm := (List.Perm.mem_iff j).mp hh
    simp only [List.mem_map, List.mem_filter, List.mem_range] at hm
    obtain ⟨h2, ⟨k1, _⟩, rfl⟩ := hm
    exact (hv.1 h2 k1).1

theorem cage_face_scatter_sum (cage : cc_Mesh) (fuel : Nat) (hv : ccm_FacesAreRings cage fuel)
    (f : Nat) (ring : List Int)
    (j : List.Perm ring (((List.range (ccm_HalfedgeCount cage)).filter
          (fun h2 => ccm_HalfedgeFaceID cage (h2 : Nat) = some (f : Int))).map Int.ofNat)) :
    (((List.range (ccm_HalfedgeCount cage)).filter
        (fun h : Nat => ((ccm_HalfedgeFaceID cage h).getD 0).toNat = f)).map
      (fun h : Nat => (1 / ((((ccm_HalfedgeRing cage fuel h).getD []).length : Nat) : ℚ)) •
        ((ccm_HalfedgeVertexPoint cage h).getD default))).sum
      = (1 / (ring.length : ℚ)) •
        (ring.map (fun a => (ccm_HalfedgeVertexPoint cage a).getD default)).sum := by
  have hfilter : (List.range (ccm_HalfedgeCount cage)).filter
        (fun h : Nat => ((ccm_HalfedgeFaceID cage h).getD 0).toNat = f)
      = (List.range (ccm_HalfedgeCount cage)).filter
        (fun h2 => ccm_HalfedgeFaceID cage (h2 : Nat) = some (f : Int)) := by
    apply List.filter_congr
    intro h hh
    have hh2 := List.mem_range.mp hh
    obtain ⟨f2, _, _, _, e2, _, _, _⟩ := cage_face_target cage fuel hv h hh2
    simp only [e2, Option.getD_some, Int.toNat_ofNat, Option.some.injEq, Nat.cast_inj]
  rw [hfilter]
  have hlen2 : ∀ h ∈ (List.range (ccm_HalfedgeCount cage)).filter
        (fun h2 => ccm_HalfedgeFaceID cage (h2 : Nat) = some (f : Int)),
      (1 / ((((ccm_HalfedgeRing cage fuel h).getD []).length : Nat) : ℚ)) •
        ((ccm_HalfedgeVertexPoint cage h).getD default)
      = (1 / (ring.length : ℚ)) • ((ccm_HalfedgeVertexPoint cage h).getD default) := by
    intro h hh
    simp only [List.mem_filter, List.mem_range, decide_eq_true_eq] at hh
    obtain ⟨f2, ring2, _, _, e2, _, i2, j2⟩ := cage_face_target cage fuel hv h hh.1
    have hf2 : f2 = f := by
      rw [hh.2] at e2
      exact_mod_cast (Option.some.inj e2).symm
    subst hf2
    rw [i2, Option.getD_some, (j2.trans j.symm).length_eq]
  rw [List.map_congr_left hlen2]
  have hcomp : (fun h : Nat => (1 / (ring.length : ℚ)) •
        (ccm_HalfedgeVertexPoint cage (h : Nat)).getD default)
      = (fun p => (1 / (ring.length : ℚ)) • p) ∘
        (fun h : Nat => (ccm_HalfedgeVertexPoint cage (h : Nat)).getD default) := rfl
  rw [hcomp, ← List.map_map, sum_map_smul]
  have hperm := (j.map (fun a => (ccm_HalfedgeVertexPoint cage a).getD default)).sum_eq
  rw [hperm, List.map_map]
  rfl

/-- C19: on a cage whose faces are its next-rings, `ccs__CageFacePoints_Scatter`
run on a level 1 region whose face points are zero and
`ccs__CageFacePoints_Gather` both return, and they leave the same value in the
slot `V0 + f` of every face `f` (first part); likewise `ccs__FacePoints_Scatter`
and `ccs__FacePoints_Gather` at every depth at least 1, in the slot
`V_depth + f` of every quad `f` (second part). -/
theorem C19_face_gather_scatter :
    (∀ (subd : cc_Subd) (fuel : Nat) (out : List cc_VertexPoint),
      subd.vertexPoints[0]? = some out →
      ccm_VertexCount subd.cage + ccm_FaceCount subd.cage ≤ out.length →
      (∀ f : Nat, f < ccm_FaceCount subd.cage →
        out[ccm_VertexCount subd.cage + f]? = some (0, 0, 0)) →
      ccm_FacesAreRings subd.cage fuel →
      ∃ outS outG : List cc_VertexPoint,
        ccs__CageFacePoints_Scatter subd fuel =
          some { subd with vertexPoints := subd.vertexPoints.set 0 outS } ∧
        ccs__CageFacePoints_Gather subd fuel =
          some { subd with vertexPoints := subd.vertexPoints.set 0 outG } ∧
        ∀ f : Nat, f < ccm_FaceCount subd.cage →
          ∃ p : cc_VertexPoint, outS[ccm_VertexCount subd.cage + f]? = some p ∧
            outG[ccm_VertexCount subd.cage + f]? = some p) ∧
    (∀ (subd : cc_Subd) (depth fuel : Nat) (out : List cc_VertexPoint),
      1 ≤ depth →
      ccs__Level subd.vertexPoints (depth + 1) = some out →
      3 ≤ fuel →
      ccm_VertexCountAtDepth_Fast subd.cage depth + ccm_FaceCountAtDepth_Fast subd.cage depth
        ≤ out.length →
      (∀ f : Nat, f < ccm_FaceCountAtDepth_Fast subd.cage depth →
        out[ccm_VertexCountAtDepth_Fast subd.cage depth + f]? = some (0, 0, 0)) →
      (∀ h : Nat, h < ccm_HalfedgeCountAtDepth subd.cage depth →
        (ccs_HalfedgeVertexPoint subd h depth).isSome = true) →
      ∃ outS outG : List cc_VertexPoint,
        ccs__FacePoints_Scatter subd depth =
          some { subd with vertexPoints := subd.vertexPoints.set depth outS } ∧
        ccs__FacePoints_Gather subd depth fuel =
          some { subd with vertexPoints := subd.vertexPoints.set depth outG } ∧
        ∀ f : Nat, f < ccm_FaceCountAtDepth_Fast subd.cage depth →
          ∃ p : cc_VertexPoint,
            outS[ccm_VertexCountAtDepth_Fast subd.cage depth + f]? = some p ∧
            outG[ccm_VertexCountAtDepth_Fast subd.cage depth + f]? = some p) := by
  constructor
  · intro subd fuel out hout hlen hzero hv
    obtain ⟨oG, g1, g2, g3, g4⟩ := gather_foldlM (ccm_FaceCount subd.cage)
      (ccm_VertexCount subd.cage) (ccm_VertexCount subd.cage : Int) rfl
      (fun _ (f : Nat) => ccs__CageFacePoints_Gather_face subd.cage fuel f)
      (fun f => (ccs__CageFacePoints_Gather_face subd.cage fuel f).getD default) out hlen
      (by
        intro o f hf _ _
        obtain ⟨ring, h1, h2, _⟩ := cage_face_ring subd.cage fuel hv f hf
        beta_reduce
        rw [cage_face_body subd.cage fuel f ring _ h1 (map_some_of_isSome _ _ h2)]
        rfl)
    obtain ⟨oS, s1, s2, s3, s4⟩ := scatter_foldlM (ccm_HalfedgeCount subd.cage)
      (ccm_VertexCount subd.cage) (ccm_FaceCount subd.cage) (ccm_VertexCount subd.cage : Int) rfl
      (fun _ (h : Nat) => ccs__CageFacePoints_Scatter_halfedge subd.cage fuel h)
      (fun h => ((ccm_HalfedgeFaceID subd.cage h).getD 0).toNat)
      (fun h => (1 / ((((ccm_HalfedgeRing subd.cage fuel h).getD []).length : Nat) : ℚ)) •
        ((ccm_HalfedgeVertexPoint subd.cage h).getD default))
      out hlen
      (by
        intro h hh
        obtain ⟨f, ring, p, d, e, g, i, j⟩ := cage_face_target subd.cage fuel hv h hh
        simp only [e, Option.getD_some, Int.toNat_ofNat]
        exact d)
      (by
        intro o h hh _ _
        obtain ⟨f, ring, p, d, e, g, i, j⟩ := cage_face_target subd.cage fuel hv h hh
        beta_reduce
        rw [cage_face_scatter_body subd.cage fuel h ring p f i g e]
        simp only [e, g, i, Option.getD_some, Int.toNat_ofNat])
    refine ⟨oS, oG, ?_, ?_, ?_⟩
    · unfold ccs__CageFacePoints_Scatter
      simp only [hout, Option.bind_eq_bind, Option.some_bind]
      rw [s1]
      rfl
    · unfold ccs__CageFacePoints_Gather
      simp only [hout, Option.bind_eq_bind, Option.some_bind]
      rw [g1]
      rfl
    · intro f hf
      obtain ⟨ring, h1, h2, j⟩ := cage_face_ring subd.cage fuel hv f hf
      refine ⟨(1 / (ring.length : ℚ)) •
        (ring.map (fun a => (ccm_HalfedgeVertexPoint subd.cage a).getD default)).sum, ?_, ?_⟩
      · rw [s3 f hf, hzero f hf, cage_face_scatter_sum subd.cage fuel hv f ring j]
        simp
      · rw [g3 f hf, cage_face_body subd.cage fuel f ring _ h1 (map_some_of_isSome _ _ h2)]
        rfl
  · intro subd depth fuel out hd hout hfuel hlen hzero hr
    have hH := ccm_HalfedgeCountAtDepth_eq_faces subd.cage depth hd
    have hb : ∀ f : Nat, f < ccm_FaceCountAtDepth_Fast subd.cage depth →
        ∃ p0 p1 p2 p3 : cc_VertexPoint,
          ccs_HalfedgeVertexPoint subd (4 * (f : Int)) depth = some p0 ∧
          ccs_HalfedgeVertexPoint subd (4 * (f : Int) + 1) depth = some p1 ∧
          ccs_HalfedgeVertexPoint subd (4 * (f : Int) + 2) depth = some p2 ∧
          ccs_HalfedgeVertexPoint subd (4 * (f : Int) + 3) depth = some p3 := by
      intro f hf
      have a0 := hr (4 * f) (by omega)
      have a1 := hr (4 * f + 1) (by omega)
      have a2 := hr (4 * f + 2) (by omega)
      have a3 := hr (4 * f + 3) (by omega)
      simp only [Nat.cast_add, Nat.cast_mul, Nat.cast_ofNat, Nat.cast_one] at a0 a1 a2 a3
      exact ⟨_, _, _, _, Option.eq_some_of_isSome a0, Option.eq_some_of_isSome a1,
        Option.eq_some_of_isSome a2, Option.eq_some_of_isSome a3⟩
    obtain ⟨oG, g1, g2, g3, g4⟩ := gather_foldlM (ccm_FaceCountAtDepth_Fast subd.cage depth)
      (ccm_VertexCountAtDepth_Fast subd.cage depth)
      (ccm_VertexCountAtDepth_Fast subd.cage depth : Int) rfl
      (fun _ (f : Nat) => ccs__FacePoints_Gather_face subd depth fuel f)
      (fun f => (ccs__FacePoints_Gather_face subd depth fuel f).getD default) out hlen
      (by
        intro o f hf _ _
        obtain ⟨p0, p1, p2, p3, a0, a1, a2, a3⟩ := hb f hf
        beta_reduce
        rw [level_face_body subd depth fuel hfuel f p0 p1 p2 p3 a0 a1 a2 a3]
        rfl)
    obtain ⟨oS, s1, s2, s3, s4⟩ := scatter_foldlM (ccm_HalfedgeCountAtDepth subd.cage depth)
      (ccm_VertexCountAtDepth_Fast subd.cage depth) (ccm_FaceCountAtDepth_Fast subd.cage depth)
      (ccm_VertexCountAtDepth_Fast subd.cage depth : Int) rfl
      (fun _ (h : Nat) => ccs__FacePoints_Scatter_halfedge subd depth h)
      (fun h => h / 4)
      (fun h => (1 / 4 : ℚ) • ((ccs_HalfedgeVertexPoint subd (h : Nat) depth).getD default))
      out hlen
      (by intro h hh; show h / 4 < _; omega)
      (by
        intro o h hh _ _
        obtain ⟨p, a⟩ := Option.isSome_iff_exists.mp (hr h hh)
        show ccs__FacePoints_Scatter_halfedge subd depth (h : Int)
          = some (((h / 4 : Nat) : Int),
              (1 / 4 : ℚ) • (ccs_HalfedgeVertexPoint subd (h : Nat) depth).getD default)
        unfold ccs__FacePoints_Scatter_halfedge
        simp only [a, Option.bind_eq_bind, Option.some_bind, Option.getD_some, cc__Mul3f,
          ccs_HalfedgeFaceID, ccm_HalfedgeFaceID_Quad, Option.some.injEq, Prod.mk.injEq, and_true]
        omega)
    refine ⟨oS, oG, ?_, ?_, ?_⟩
    · unfold ccs__FacePoints_Scatter
      simp only [hout, Option.bind_eq_bind, Option.some_bind]
      rw [s1]
      rfl
    · unfold ccs__FacePoints_Gather
      simp only [hout, Option.bind_eq_bind, Option.some_bind]
      rw [g1]
      rfl
    · intro f hf
      obtain ⟨p0, p1, p2, p3, a0, a1, a2, a3⟩ := hb f hf
      refine ⟨(1 / 4 : ℚ) • (p0 + p1 + p2 + p3), ?_, ?_⟩
      · rw [s3 f hf, hzero f hf, hH, filter_quad _ f hf]
        simp only [List.map_cons, List.map_nil, List.sum_cons, List.sum_nil, Nat.cast_add,
          Nat.cast_mul, Nat.cast_ofNat, Nat.cast_one, a0, a1, a2, a3, Option.getD_some,
          Option.map_some', Option.some.injEq]
        rw [show ((0, 0, 0) : cc_VertexPoint) = 0 from rfl]
        module
      · rw [g3 f hf, level_face_body subd depth fuel hfuel f p0 p1 p2 p3 a0 a1 a2 a3]
        rfl

/-- C19, witness: the two glued triangles (cage kernels) and level 1 of the open
quad (level kernels), from zeroed regions. -/
theorem C19_face_gather_scatter_witness :
    (ccm_FacesAreRings trianglesMesh 3 ∧
      ∃ outS outG : List cc_VertexPoint,
        ccs__CageFacePoints_Scatter
          { cage := trianglesMesh, maxDepth := 1, halfedges := [], creases := [],
            vertexPoints := [List.replicate 11 (0, 0, 0)] } 3 =
          some { cage := trianglesMesh, maxDepth := 1, halfedges := [], creases := [],
                 vertexPoints := [outS] } ∧
        ccs__CageFacePoints_Gather
          { cage := trianglesMesh, maxDepth := 1, halfedges := [], creases := [],
            vertexPoints := [List.replicate 11 (0, 0, 0)] } 3 =
          some { cage := trianglesMesh, maxDepth := 1, halfedges := [], creases := [],
                 vertexPoints := [outG] } ∧
        ∀ f : Nat, f < 2 → ∃ p : cc_VertexPoint, outS[4 + f]? = some p ∧ outG[4 + f]? = some p) ∧
    (∃ outS outG : List cc_VertexPoint,
        ccs__FacePoints_Scatter quadPointsSubd 1 =
          some { quadPointsSubd with vertexPoints := quadPointsSubd.vertexPoints.set 1 outS } ∧
        ccs__FacePoints_Gather quadPointsSubd 1 3 =
          some { quadPointsSubd with vertexPoints := quadPointsSubd.vertexPoints.set 1 outG } ∧
        ∀ f : Nat, f < 4 → ∃ p : cc_VertexPoint, outS[9 + f]? = some p ∧ outG[9 + f]? = some p) :=
  ⟨⟨by decide, C19_face_gather_scatter.1
      { cage := trianglesMesh, maxDepth := 1, halfedges := [], creases := [],
        vertexPoints := [List.replicate 11 (0, 0, 0)] } 3
      (List.replicate 11 (0, 0, 0)) rfl (by decide)
      (by intro f hf; have hf' : f < 2 := hf; interval_cases f <;> rfl) (by decide)⟩,
    C19_face_gather_scatter.2 quadPointsSubd 1 3 (List.replicate 25 (0, 0, 0))
      (by decide) rfl (by decide) (by decide)
      (by intro f hf; have hf' : f < 4 := hf; interval_cases f <;> rfl) (by decide)⟩

/-! ## C13: the edge points without creases -/

/-- The edge `e` of the cage has a halfedge `ccm_EdgeToHalfedgeID(cage, e)` whose
twin and successor can be read, whose two end points have a position, and whose
face, like the face of the halfedge `cc__Max(0, twinID)`, is in `[0, F0)`. -/
def ccm_EdgeReadable (cage : cc_Mesh) (e : Int) : Prop :=
  ∃ h ∈ ccm_EdgeToHalfedgeID cage e, ∃ t ∈ ccm_HalfedgeTwinID cage h,
    ∃ n ∈ ccm_HalfedgeNextID cage h,
      ((ccm_HalfedgeVertexPoint cage h).isSome = true ∧
        (ccm_HalfedgeVertexPoint cage n).isSome = true) ∧
      (∃ f ∈ ccm_HalfedgeFaceID cage h, 0 ≤ f ∧ f < (ccm_FaceCount cage : Int)) ∧
      (∃ f ∈ ccm_HalfedgeFaceID cage (cc__Max 0 t), 0 ≤ f ∧ f < (ccm_FaceCount cage : Int))

instance (cage : cc_Mesh) (e : Int) : Decidable (ccm_EdgeReadable cage e) := by
  unfold ccm_EdgeReadable
  infer_instance

/-- Every edge of the cage is readable (`ccm_EdgeReadable`). -/
def ccm_EdgeReadsInBounds (cage : cc_Mesh) : Prop :=
  ∀ e : Nat, e < ccm_EdgeCount cage → ccm_EdgeReadable cage e

instance (cage : cc_Mesh) : Decidable (ccm_EdgeReadsInBounds cage) := by
  unfold ccm_EdgeReadsInBounds
  infer_instance

/-- Every edge of level `depth` has a halfedge `edgeToHalfedgeID e depth` whose
twin can be read, whose two end points have a position, and whose face, like
the face of the halfedge `cc__Max(0, twinID)`, is in `[0, F_depth)`. -/
def ccs_EdgeReadsInBounds (subd : cc_Subd) (edgeToHalfedgeID : Int → Nat → Int) (depth : Nat) :
    Prop :=
  ∀ e : Nat, e < ccm_EdgeCountAtDepth_Fast subd.cage depth →
    ∃ t ∈ ccs_HalfedgeTwinID subd (edgeToHalfedgeID e depth) depth,
      (ccs_HalfedgeVertexPoint subd (edgeToHalfedgeID e depth) depth).isSome = true ∧
      (ccs_HalfedgeVertexPoint subd
        (ccs_HalfedgeNextID subd (edgeToHalfedgeID e depth) depth) depth).isSome = true ∧
      (0 ≤ ccs_HalfedgeFaceID subd (edgeToHalfedgeID e depth) depth ∧
        ccs_HalfedgeFaceID subd (edgeToHalfedgeID e depth) depth
          < (ccm_FaceCountAtDepth_Fast subd.cage depth : Int)) ∧
      (0 ≤ ccs_HalfedgeFaceID subd (cc__Max 0 t) depth ∧
        ccs_HalfedgeFaceID subd (cc__Max 0 t) depth
          < (ccm_FaceCountAtDepth_Fast subd.cage depth : Int))

instance (subd : cc_Subd) (edgeToHalfedgeID : Int → Nat → Int) (depth : Nat) :
    Decidable (ccs_EdgeReadsInBounds subd edgeToHalfedgeID depth) := by
  unfold ccs_EdgeReadsInBounds
  infer_instance

theorem readAt_agree {α : Type} (o out : List α) (V F : Nat) (f : Int) (f0 : 0 ≤ f)
    (f1 : f < (F : Int)) (hlen : V + F ≤ out.length)
    (h : ∀ j : Nat, j < V + F → o[j]? = out[j]?) :
    readAt o ((V : Int) + f) = readAt out ((V : Int) + f) ∧
    (readAt out ((V : Int) + f)).isSome = true := by
  obtain ⟨k, rfl⟩ : ∃ k : Nat, f = (k : Int) := ⟨f.toNat, by omega⟩
  have hk : k < F := by omega
  have hc : ((V : Int) + (k : Int)) = ((V + k : Nat) : Int) := by push_cast; rfl
  rw [hc, readAt_natCast, readAt_natCast, h (V + k) (by omega)]
  refine ⟨rfl, ?_⟩
  have hlt : V + k < out.length := by omega
  simp [List.getElem?_eq_getElem hlt]

theorem edge_rule_boundary (A B S : cc_VertexPoint) :
    cc__Lerp3f (cc__Mul3f (cc__Add3f A B) 0.5) S 0 = (1 / 2 : ℚ) • (A + B) := by
  simp only [cc__Lerp3f, cc__Mul3f, cc__Add3f]
  module

theorem edge_rule_interior (A B F1 F2 : cc_VertexPoint) :
    cc__Lerp3f (cc__Mul3f (cc__Add3f A B) 0.5)
      (cc__Mul3f (cc__Add3f (cc__Add3f A B) (cc__Add3f F1 F2)) 0.25) 1
      = (1 / 4 : ℚ) • (A + B + F1 + F2) := by
  simp only [cc__Lerp3f, cc__Mul3f, cc__Add3f]
  module

theorem cage_edge_body (cage : cc_Mesh) (V : Int) (pts : List cc_VertexPoint) (e h t n : Int)
    (A B F1 F2 : cc_VertexPoint)
    (he : ccm_EdgeToHalfedgeID cage e = some h) (ht : ccm_HalfedgeTwinID cage h = some t)
    (hn : ccm_HalfedgeNextID cage h = some n)
    (hA : ccm_HalfedgeVertexPoint cage h = some A) (hB : ccm_HalfedgeVertexPoint cage n = some B)
    (hF1 : (ccm_HalfedgeFaceID cage h).bind (fun f => readAt pts (V + f)) = some F1)
    (hF2 : (ccm_HalfedgeFaceID cage (cc__Max 0 t)).bind (fun f => readAt pts (V + f))
      = some F2) :
    ccs__CageEdgePoints_Gather_edge cage V pts e
      = some (if t < 0 then (1 / 2 : ℚ) • (A + B) else (1 / 4 : ℚ) • (A + B + F1 + F2)) := by
  unfold ccs__CageEdgePoints_Gather_edge
  simp only [he, ht, hn, hA, hB, hF1, hF2, Option.bind_eq_bind, Option.some_bind]
  split_ifs
  · rw [edge_rule_boundary]
  · rw [edge_rule_interior]

theorem level_edge_body (subd : cc_Subd) (e2h : Int → Nat → Int) (depth : Nat) (V : Int)
    (pts : List cc_VertexPoint) (e t : Int) (A B F1 F2 : cc_VertexPoint)
    (ht : ccs_HalfedgeTwinID subd (e2h e depth) depth = some t)
    (hA : ccs_HalfedgeVertexPoint subd (e2h e depth) depth = some A)
    (hB : ccs_HalfedgeVertexPoint subd (ccs_HalfedgeNextID subd (e2h e depth) depth) depth
      = some B)
    (hF1 : readAt pts (V + ccs_HalfedgeFaceID subd (e2h e depth) depth) = some F1)
    (hF2 : readAt pts (V + ccs_HalfedgeFaceID subd (cc__Max 0 t) depth) = some F2) :
    ccs__EdgePoints_Gather_edge subd e2h depth V pts e
      = some (if t < 0 then (1 / 2 : ℚ) • (A + B) else (1 / 4 : ℚ) • (A + B + F1 + F2)) := by
  unfold ccs__EdgePoints_Gather_edge
  simp only [ht, hA, hB, hF1, hF2, Option.bind_eq_bind, Option.some_bind]
  split_ifs
  · rw [edge_rule_boundary]
  · rw [edge_rule_interior]

/-- The reads of an edge of the cage, on a buffer that agrees with `out` on the
vertex points and on the face points. -/
theorem cage_edge_reads (cage : cc_Mesh) (hv : ccm_EdgeReadsInBounds cage)
    (o out : List cc_VertexPoint)
    (hlen : ccm_VertexCount cage + ccm_FaceCount cage ≤ out.length)
    (hag : ∀ j : Nat, j < ccm_VertexCount cage + ccm_FaceCount cage → o[j]? = out[j]?)
    (e : Nat) (he : e < ccm_EdgeCount cage) :
    ∃ (h t n : Int) (A B F1 F2 : cc_VertexPoint),
      ccm_EdgeToHalfedgeID cage e = some h ∧ ccm_HalfedgeTwinID cage h = some t ∧
      ccm_HalfedgeNextID cage h = some n ∧
      ccm_HalfedgeVertexPoint cage h = some A ∧ ccm_HalfedgeVertexPoint cage n = some B ∧
      (ccm_HalfedgeFaceID cage h).bind (fun f => readAt out ((ccm_VertexCount cage : Int) + f))
        = some F1 ∧
      (ccm_HalfedgeFaceID cage (cc__Max 0 t)).bind
        (fun f => readAt out ((ccm_VertexCount cage : Int) + f)) = some F2 ∧
      (ccm_HalfedgeFaceID cage h).bind (fun f => readAt o ((ccm_VertexCount cage : Int) + f))
        = some F1 ∧
      (ccm_HalfedgeFaceID cage (cc__Max 0 t)).bind
        (fun f => readAt o ((ccm_VertexCount cage : Int) + f)) = some F2 := by
  obtain ⟨h, a, t, b, n, c, ⟨d1, d2⟩, ⟨f1, g1, g2, g3⟩, ⟨f2, k1, k2, k3⟩⟩ := hv e he
  obtain ⟨A, hA⟩ := Option.isSome_iff_exists.mp d1
  obtain ⟨B, hB⟩ := Option.isSome_iff_exists.mp d2
  obtain ⟨r1, r2⟩ := readAt_agree o out _ _ f1 g2 g3 hlen hag
  obtain ⟨r3, r4⟩ := readAt_agree o out _ _ f2 k2 k3 hlen hag
  obtain ⟨F1, hF1⟩ := Option.isSome_iff_exists.mp r2
  obtain ⟨F2, hF2⟩ := Option.isSome_iff_exists.mp r4
  rw [Option.mem_def] at a b c g1 k1
  refine ⟨h, t, n, A, B, F1, F2, a, b, c, hA, hB, ?_, ?_, ?_, ?_⟩
  · rw [g1]; exact hF1
  · rw [k1]; exact hF2
  · rw [g1]; exact r1.trans hF1
  · rw [k1]; exact r3.trans hF2

theorem level_edge_reads (subd : cc_Subd) (e2h : Int → Nat → Int) (depth : Nat)
    (hv : ccs_EdgeReadsInBounds subd e2h depth) (o out : List cc_VertexPoint)
    (hlen : ccm_VertexCountAtDepth_Fast subd.cage depth
      + ccm_FaceCountAtDepth_Fast subd.cage depth ≤ out.length)
    (hag : ∀ j : Nat, j < ccm_VertexCountAtDepth_Fast subd.cage depth
      + ccm_FaceCountAtDepth_Fast subd.cage depth → o[j]? = out[j]?)
    (e : Nat) (he : e < ccm_EdgeCountAtDepth_Fast subd.cage depth) :
    ∃ (t : Int) (A B F1 F2 : cc_VertexPoint),
      ccs_HalfedgeTwinID subd (e2h e depth) depth = some t ∧
      ccs_HalfedgeVertexPoint subd (e2h e depth) depth = some A ∧
      ccs_HalfedgeVertexPoint subd (ccs_HalfedgeNextID subd (e2h e depth) depth) depth
        = some B ∧
      readAt out ((ccm_VertexCountAtDepth_Fast subd.cage depth : Int)
        + ccs_HalfedgeFaceID subd (e2h e depth) depth) = some F1 ∧
      readAt out ((ccm_VertexCountAtDepth_Fast subd.cage depth : Int)
        + ccs_HalfedgeFaceID subd (cc__Max 0 t) depth) = some F2 ∧
      readAt o ((ccm_VertexCountAtDepth_Fast subd.cage depth : Int)
        + ccs_HalfedgeFaceID subd (e2h e depth) depth) = some F1 ∧
      readAt o ((ccm_VertexCountAtDepth_Fast subd.cage depth : Int)
        + ccs_HalfedgeFaceID subd (cc__Max 0 t) depth) = some F2 := by
  obtain ⟨t, b, d1, d2, ⟨g2, g3⟩, ⟨k2, k3⟩⟩ := hv e he
  obtain ⟨A, hA⟩ := Option.isSome_iff_exists.mp d1
  obtain ⟨B, hB⟩ := Option.isSome_iff_exists.mp d2
  obtain ⟨r1, r2⟩ := readAt_agree o out _ _ _ g2 g3 hlen hag
  obtain ⟨r3, r4⟩ := readAt_agree o out _ _ _ k2 k3 hlen hag
  obtain ⟨F1, hF1⟩ := Option.isSome_iff_exists.mp r2
  obtain ⟨F2, hF2⟩ := Option.isSome_iff_exists.mp r4
  rw [Option.mem_def] at b
  exact ⟨t, A, B, F1, F2, b, hA, hB, hF1, hF2, r1.trans hF1, r3.trans hF2⟩

theorem cage_edge_kernel (subd : cc_Subd) (out : List cc_VertexPoint)
    (hout : subd.vertexPoints[0]? = some out)
    (hlen : ccm_VertexCount subd.cage + ccm_FaceCount subd.cage + ccm_EdgeCount subd.cage
      ≤ out.length)
    (hv : ccm_EdgeReadsInBounds subd.cage) :
    ∃ out', ccs__CageEdgePoints_Gather subd =
        some { subd with vertexPoints := subd.vertexPoints.set 0 out' } ∧
      out'.length = out.length ∧
      (∀ j : Nat, (j < ccm_VertexCount subd.cage + ccm_FaceCount subd.cage ∨
          ccm_VertexCount subd.cage + ccm_FaceCount subd.cage + ccm_EdgeCount subd.cage ≤ j) →
        out'[j]? = out[j]?) ∧
      ∀ e : Nat, e < ccm_EdgeCount subd.cage →
        out'[ccm_VertexCount subd.cage + ccm_FaceCount subd.cage + e]? =
          ccs__CageEdgePoints_Gather_edge subd.cage (ccm_VertexCount subd.cage) out e ∧
        (ccs__CageEdgePoints_Gather_edge subd.cage (ccm_VertexCount subd.cage) out e).isSome
          = true := by
  have hbody : ∀ (o : List cc_VertexPoint) (e : Nat), e < ccm_EdgeCount subd.cage →
      (∀ j : Nat, j < ccm_VertexCount subd.cage + ccm_FaceCount subd.cage → o[j]? = out[j]?) →
      ccs__CageEdgePoints_Gather_edge subd.cage (ccm_VertexCount subd.cage) o e
        = ccs__CageEdgePoints_Gather_edge subd.cage (ccm_VertexCount subd.cage) out e ∧
      (ccs__CageEdgePoints_Gather_edge subd.cage (ccm_VertexCount subd.cage) out e).isSome
        = true := by
    intro o e he hag
    obtain ⟨h, t, n, A, B, F1, F2, a1, a2, a3, a4, a5, a6, a7, a8, a9⟩ :=
      cage_edge_reads subd.cage hv o out (by omega) hag e he
    rw [cage_edge_body subd.cage _ o e h t n A B F1 F2 a1 a2 a3 a4 a5 a8 a9,
      cage_edge_body subd.cage _ out e h t n A B F1 F2 a1 a2 a3 a4 a5 a6 a7]
    exact ⟨rfl, rfl⟩
  obtain ⟨o, e1, e2, e3, e4⟩ := gather_foldlM (ccm_EdgeCount subd.cage)
    (ccm_VertexCount subd.cage + ccm_FaceCount subd.cage)
    ((ccm_VertexCount subd.cage : Int) + (ccm_FaceCount subd.cage : Int)) (by push_cast; rfl)
    (fun o (e : Nat) =>
      ccs__CageEdgePoints_Gather_edge subd.cage (ccm_VertexCount subd.cage) o e)
    (fun e => (ccs__CageEdgePoints_Gather_edge subd.cage (ccm_VertexCount subd.cage) out
      e).getD default) out hlen
    (by
      intro o e he _ hag
      obtain ⟨b1, b2⟩ := hbody o e he (fun j hj => hag j (Or.inl hj))
      beta_reduce
      rw [b1]
      obtain ⟨x, hx⟩ := Option.isSome_iff_exists.mp b2
      rw [hx]
      rfl)
  refine ⟨o, ?_, e2, e4, ?_⟩
  · unfold ccs__CageEdgePoints_Gather
    simp only [hout, Option.bind_eq_bind, Option.some_bind]
    rw [e1]
    rfl
  · intro e he
    obtain ⟨_, b2⟩ := hbody out e he (fun _ _ => rfl)
    refine ⟨?_, b2⟩
    rw [e3 e he]
    obtain ⟨x, hx⟩ := Option.isSome_iff_exists.mp b2
    rw [hx]
    rfl

theorem level_edge_kernel (subd : cc_Subd) (e2h : Int → Nat → Int) (depth : Nat)
    (out : List cc_VertexPoint)
    (hout : ccs__Level subd.vertexPoints (depth + 1) = some out)
    (hlen : ccm_VertexCountAtDepth_Fast subd.cage depth
      + ccm_FaceCountAtDepth_Fast subd.cage depth
      + ccm_EdgeCountAtDepth_Fast subd.cage depth ≤ out.length)
    (hv : ccs_EdgeReadsInBounds subd e2h depth) :
    ∃ out', ccs__EdgePoints_Gather subd e2h depth =
        some { subd with vertexPoints := subd.vertexPoints.set depth out' } ∧
      out'.length = out.length ∧
      (∀ j : Nat, (j < ccm_VertexCountAtDepth_Fast subd.cage depth
            + ccm_FaceCountAtDepth_Fast subd.cage depth ∨
          ccm_VertexCountAtDepth_Fast subd.cage depth
            + ccm_FaceCountAtDepth_Fast subd.cage depth
            + ccm_EdgeCountAtDepth_Fast subd.cage depth ≤ j) →
        out'[j]? = out[j]?) ∧
      ∀ e : Nat, e < ccm_EdgeCountAtDepth_Fast subd.cage depth →
        out'[ccm_VertexCountAtDepth_Fast subd.cage depth
            + ccm_FaceCountAtDepth_Fast subd.cage depth + e]? =
          ccs__EdgePoints_Gather_edge subd e2h depth
            (ccm_VertexCountAtDepth_Fast subd.cage depth) out e ∧
        (ccs__EdgePoints_Gather_edge subd e2h depth
            (ccm_VertexCountAtDepth_Fast subd.cage depth) out e).isSome = true := by
  have hbody : ∀ (o : List cc_VertexPoint) (e : Nat),
      e < ccm_EdgeCountAtDepth_Fast subd.cage depth →
      (∀ j : Nat, j < ccm_VertexCountAtDepth_Fast subd.cage depth
        + ccm_FaceCountAtDepth_Fast subd.cage depth → o[j]? = out[j]?) →
      ccs__EdgePoints_Gather_edge subd e2h depth
          (ccm_VertexCountAtDepth_Fast subd.cage depth) o e
        = ccs__EdgePoints_Gather_edge subd e2h depth
          (ccm_VertexCountAtDepth_Fast subd.cage depth) out e ∧
      (ccs__EdgePoints_Gather_edge subd e2h depth
          (ccm_VertexCountAtDepth_Fast subd.cage depth) out e).isSome = true := by
    intro o e he hag
    obtain ⟨t, A, B, F1, F2, a2, a4, a5, a6, a7, a8, a9⟩ :=
      level_edge_reads subd e2h depth hv o out (by omega) hag e he
    rw [level_edge_body subd e2h depth _ o e t A B F1 F2 a2 a4 a5 a8 a9,
      level_edge_body subd e2h depth _ out e t A B F1 F2 a2 a4 a5 a6 a7]
    exact ⟨rfl, rfl⟩
  obtain ⟨o, e1, e2, e3, e4⟩ := gather_foldlM (ccm_EdgeCountAtDepth_Fast subd.cage depth)
    (ccm_VertexCountAtDepth_Fast subd.cage depth + ccm_FaceCountAtDepth_Fast subd.cage depth)
    ((ccm_VertexCountAtDepth_Fast subd.cage depth : Int)
      + (ccm_FaceCountAtDepth_Fast subd.cage depth : Int)) (by push_cast; rfl)
    (fun o (e : Nat) => ccs__EdgePoints_Gather_edge subd e2h depth
      (ccm_VertexCountAtDepth_Fast subd.cage depth) o e)
    (fun e => (ccs__EdgePoints_Gather_edge subd e2h depth
      (ccm_VertexCountAtDepth_Fast subd.cage depth) out e).getD default) out hlen
    (by
      intro o e he _ hag
      obtain ⟨b1, b2⟩ := hbody o e he (fun j hj => hag j (Or.inl hj))
      beta_reduce
      rw [b1]
      obtain ⟨x, hx⟩ := Option.isSome_iff_exists.mp b2
      rw [hx]
      rfl)
  refine ⟨o, ?_, e2, e4, ?_⟩
  · unfold ccs__EdgePoints_Gather
    simp only [hout, Option.bind_eq_bind, Option.some_bind]
    rw [e1]
    rfl
  · intro e he
    obtain ⟨_, b2⟩ := hbody out e he (fun _ _ => rfl)
    refine ⟨?_, b2⟩
    rw [e3 e he]
    obtain ⟨x, hx⟩ := Option.isSome_iff_exists.mp b2
    rw [hx]
    rfl

/-- C13: on a cage whose edges are readable, `ccs__CageEdgePoints_Gather` (first
part) returns, writes no slot outside of `[V0 + F0, V0 + F0 + E0)`, and for
every edge `e`, with `h` its halfedge, `t = twin(h)`, `n = next(h)` and `A`, `B`
the positions of the vertices of `h` and `n`, it writes at the slot
`V0 + F0 + e` the midpoint `(A + B)/2` when `t < 0`, whatever the face points
are, and `(A + B + F1 + F2)/4` when `t ≥ 0`, where `F1` and `F2` are the face
points of the faces of `h` and of `t`.  `ccs__EdgePoints_Gather` (second part)
does the same at every depth. -/
theorem C13_edge_points :
    (∀ (subd : cc_Subd) (out : List cc_VertexPoint),
      subd.vertexPoints[0]? = some out →
      ccm_VertexCount subd.cage + ccm_FaceCount subd.cage + ccm_EdgeCount subd.cage
        ≤ out.length →
      ccm_EdgeReadsInBounds subd.cage →
      ∃ out', ccs__CageEdgePoints_Gather subd =
          some { subd with vertexPoints := subd.vertexPoints.set 0 out' } ∧
        out'.length = out.length ∧
        (∀ j : Nat, (j < ccm_VertexCount subd.cage + ccm_FaceCount subd.cage ∨
            ccm_VertexCount subd.cage + ccm_FaceCount subd.cage + ccm_EdgeCount subd.cage ≤ j) →
          out'[j]? = out[j]?) ∧
        ∀ e : Nat, e < ccm_EdgeCount subd.cage →
          ∀ (h t n : Int) (A B : cc_VertexPoint),
            ccm_EdgeToHalfedgeID subd.cage e = some h →
            ccm_HalfedgeTwinID subd.cage h = some t →
            ccm_HalfedgeNextID subd.cage h = some n →
            ccm_HalfedgeVertexPoint subd.cage h = some A →
            ccm_HalfedgeVertexPoint subd.cage n = some B →
            (t < 0 → out'[ccm_VertexCount subd.cage + ccm_FaceCount subd.cage + e]?
              = some ((1 / 2 : ℚ) • (A + B))) ∧
            (0 ≤ t → ∀ F1 F2 : cc_VertexPoint,
              (ccm_HalfedgeFaceID subd.cage h).bind
                (fun f => readAt out ((ccm_VertexCount subd.cage : Int) + f)) = some F1 →
              (ccm_HalfedgeFaceID subd.cage t).bind
                (fun f => readAt out ((ccm_VertexCount subd.cage : Int) + f)) = some F2 →
              out'[ccm_VertexCount subd.cage + ccm_FaceCount subd.cage + e]?
                = some ((1 / 4 : ℚ) • (A + B + F1 + F2)))) ∧
    (∀ (subd : cc_Subd) (edgeToHalfedgeID : Int → Nat → Int) (depth : Nat)
      (out : List cc_VertexPoint),
      ccs__Level subd.vertexPoints (depth + 1) = some out →
      ccm_VertexCountAtDepth_Fast subd.cage depth + ccm_FaceCountAtDepth_Fast subd.cage depth
        + ccm_EdgeCountAtDepth_Fast subd.cage depth ≤ out.length →
      ccs_EdgeReadsInBounds subd edgeToHalfedgeID depth →
      ∃ out', ccs__EdgePoints_Gather subd edgeToHalfedgeID depth =
          some { subd with vertexPoints := subd.vertexPoints.set depth out' } ∧
        out'.length = out.length ∧
        (∀ j : Nat, (j < ccm_VertexCountAtDepth_Fast subd.cage depth
              + ccm_FaceCountAtDepth_Fast subd.cage depth ∨
            ccm_VertexCountAtDepth_Fast subd.cage depth
              + ccm_FaceCountAtDepth_Fast subd.cage depth
              + ccm_EdgeCountAtDepth_Fast subd.cage depth ≤ j) →
          out'[j]? = out[j]?) ∧
        ∀ e : Nat, e < ccm_EdgeCountAtDepth_Fast subd.cage depth →
          ∀ (t : Int) (A B : cc_VertexPoint),
            ccs_HalfedgeTwinID subd (edgeToHalfedgeID e depth) depth = some t →
            ccs_HalfedgeVertexPoint subd (edgeToHalfedgeID e depth) depth = some A →
            ccs_HalfedgeVertexPoint subd
              (ccs_HalfedgeNextID subd (edgeToHalfedgeID e depth) depth) depth = some B →
            (t < 0 → out'[ccm_VertexCountAtDepth_Fast subd.cage depth
                + ccm_FaceCountAtDepth_Fast subd.cage depth + e]?
              = some ((1 / 2 : ℚ) • (A + B))) ∧
            (0 ≤ t → ∀ F1 F2 : cc_VertexPoint,
              readAt out ((ccm_VertexCountAtDepth_Fast subd.cage depth : Int)
                + ccs_HalfedgeFaceID subd (edgeToHalfedgeID e depth) depth) = some F1 →
              readAt out ((ccm_VertexCountAtDepth_Fast subd.cage depth : Int)
                + ccs_HalfedgeFaceID subd t depth) = some F2 →
              out'[ccm_VertexCountAtDepth_Fast subd.cage depth
                  + ccm_FaceCountAtDepth_Fast subd.cage depth + e]?
                = some ((1 / 4 : ℚ) • (A + B + F1 + F2)))) := by
  constructor
  · intro subd out hout hlen hv
    obtain ⟨o, e1, e2, e3, e4⟩ := cage_edge_kernel subd out hout hlen hv
    refine ⟨o, e1, e2, e3, ?_⟩
    intro e he h t n A B a1 a2 a3 a4 a5
    obtain ⟨h', t', n', A', B', F1, F2, b1, b2, b3, b4, b5, b6, b7, _, _⟩ :=
      cage_edge_reads subd.cage hv out out (by omega) (fun _ _ => rfl) e he
    rw [a1] at b1; cases b1
    rw [a2] at b2; cases b2
    rw [a3] at b3; cases b3
    rw [a4] at b4; cases b4
    rw [a5] at b5; cases b5
    have hb := cage_edge_body subd.cage _ out e h t n A B F1 F2 a1 a2 a3 a4 a5 b6 b7
    constructor
    · intro ht
      rw [(e4 e he).1, hb, if_pos ht]
    · intro ht F1' F2' c1 c2
      have hm : cc__Max 0 t = t := max_eq_right ht
      rw [hm] at b7
      rw [c1] at b6; cases b6
      rw [c2] at b7; cases b7
      rw [(e4 e he).1, hb, if_neg (by omega)]
  · intro subd e2h depth out hout hlen hv
    obtain ⟨o, e1, e2, e3, e4⟩ := level_edge_kernel subd e2h depth out hout hlen hv
    refine ⟨o, e1, e2, e3, ?_⟩
    intro e he t A B a2 a4 a5
    obtain ⟨t', A', B', F1, F2, b2, b4, b5, b6, b7, _, _⟩ :=
      level_edge_reads subd e2h depth hv out out (by omega) (fun _ _ => rfl) e he
    rw [a2] at b2; cases b2
    rw [a4] at b4; cases b4
    rw [a5] at b5; cases b5
    have hb := level_edge_body subd e2h depth _ out e t A B F1 F2 a2 a4 a5 b6 b7
    constructor
    · intro ht
      rw [(e4 e he).1, hb, if_pos ht]
    · intro ht F1' F2' c1 c2
      have hm : cc__Max 0 t = t := max_eq_right ht
      rw [hm] at b7
      rw [c1] at b6; cases b6
      rw [c2] at b7; cases b7
      rw [(e4 e he).1, hb, if_neg (by omega)]

/-- The region of level 1 of the vertex point buffer of the two glued triangles
after `ccs__CageFacePoints_Gather`: the 2 face points are computed, the other
slots are zero. -/
def trianglesFacePoints : List cc_VertexPoint :=
  [(0, 0, 0), (0, 0, 0), (0, 0, 0), (0, 0, 0), (1 / 3, 1 / 3, 0), (2 / 3, -1 / 3, 0),
   (0, 0, 0), (0, 0, 0), (0, 0, 0), (0, 0, 0), (0, 0, 0)]

/-- The region of level 2 of the vertex point buffer of the open quad after
`ccs__FacePoints_Gather`: the 4 face points (slots 9 to 12) are computed, the
other slots are zero. -/
def quadFacePoints2 : List cc_VertexPoint :=
  [(0, 0, 0), (0, 0, 0), (0, 0, 0), (0, 0, 0), (0, 0, 0), (0, 0, 0), (0, 0, 0), (0, 0, 0),
   (0, 0, 0), (1 / 4, 1 / 4, 0), (3 / 4, 1 / 4, 0), (3 / 4, 3 / 4, 0), (1 / 4, 3 / 4, 0),
   (0, 0, 0), (0, 0, 0), (0, 0, 0), (0, 0, 0), (0, 0, 0), (0, 0, 0), (0, 0, 0), (0, 0, 0),
   (0, 0, 0), (0, 0, 0), (0, 0, 0), (0, 0, 0)]

/-- The subdivision of depth 2 of the open quad with the halfedges and the
vertex points of level 1, and `quadFacePoints2` as region of level 2 of the
vertex point buffer. -/
def quadFacesSubd : cc_Subd :=
  { quadSubd with vertexPoints := [quadPoints1, quadFacePoints2] }

/-- C13, witness: the two glued triangles (cage kernel), whose edge 0 is
interior and whose edge 1 is on the boundary, and level 1 of the open quad
(level kernel), whose edge 0 is on the boundary and whose edge 8 is interior. -/
theorem C13_edge_points_witness :
    (∃ out' : List cc_VertexPoint, ccs__CageEdgePoints_Gather
        { cage := trianglesMesh, maxDepth := 1, halfedges := [], creases := [],
          vertexPoints := [trianglesFacePoints] } =
          some { cage := trianglesMesh, maxDepth := 1, halfedges := [], creases := [],
                 vertexPoints := [out'] } ∧
        out'[6]? = some ((1 / 2, 0, 0) : cc_VertexPoint) ∧
        out'[7]? = some ((1 / 2, 1 / 2, 0) : cc_VertexPoint)) ∧
    (∃ out' : List cc_VertexPoint,
        ccs__EdgePoints_Gather quadFacesSubd quadEdgeToHalfedgeID 1 =
          some { quadFacesSubd with vertexPoints := quadFacesSubd.vertexPoints.set 1 out' } ∧
        out'[13]? = some ((1 / 4, 0, 0) : cc_VertexPoint) ∧
        out'[21]? = some ((1 / 2, 1 / 4, 0) : cc_VertexPoint)) := by
  constructor
  · obtain ⟨out', h1, _, _, h4⟩ := C13_edge_points.1
      { cage := trianglesMesh, maxDepth := 1, halfedges := [], creases := [],
        vertexPoints := [trianglesFacePoints] }
      trianglesFacePoints rfl (by decide) (by decide)
    refine ⟨out', h1, ?_, ?_⟩
    · have h5 := (h4 0 (by decide) 0 3 1 (0, 0, 0) (1, 0, 0) rfl rfl rfl rfl rfl).2
        (by decide) (1 / 3, 1 / 3, 0) (2 / 3, -1 / 3, 0) rfl rfl
      have h6 : out'[6]? = _ := h5
      rw [h6]
      norm_num
    · have h5 := (h4 1 (by decide) 1 (-1) 2 (1, 0, 0) (0, 1, 0) rfl rfl rfl rfl rfl).1
        (by decide)
      have h6 : out'[7]? = _ := h5
      rw [h6]
      norm_num
  · obtain ⟨out', h1, _, _, h4⟩ := C13_edge_points.2 quadFacesSubd quadEdgeToHalfedgeID 1
      quadFacePoints2 rfl (by decide) (by decide)
    refine ⟨out', h1, ?_, ?_⟩
    · have h5 := (h4 0 (by decide) (-1) (0, 0, 0) (1 / 2, 0, 0) rfl rfl rfl).1 (by decide)
      have h6 : out'[13]? = _ := h5
      rw [h6]
      norm_num
    · have h5 := (h4 8 (by decide) 6 (1 / 2, 0, 0) (1 / 2, 1 / 2, 0) rfl rfl rfl).2
        (by decide) (1 / 4, 1 / 4, 0) (3 / 4, 1 / 4, 0) rfl rfl
      have h6 : out'[21]? = _ := h5
      rw [h6]
      norm_num

/-! ## C14: the edge points with creases -/

/-- Every edge of the cage is readable (`ccm_EdgeReadable`) and has a crease
record. -/
def ccm_CreasedEdgeReadsInBounds (cage : cc_Mesh) : Prop :=
  ∀ e : Nat, e < ccm_EdgeCount cage →
    ccm_EdgeReadable cage e ∧ (ccm_CreaseSharpness cage e).isSome = true

instance (cage : cc_Mesh) : Decidable (ccm_CreasedEdgeReadsInBounds cage) := by
  unfold ccm_CreasedEdgeReadsInBounds
  infer_instance

/-- Every edge of level `depth` is readable (`ccs_EdgeReadsInBounds`) and has a
crease record. -/
def ccs_CreasedEdgeReadsInBounds (subd : cc_Subd) (edgeToHalfedgeID : Int → Nat → Int)
    (depth : Nat) : Prop :=
  ccs_EdgeReadsInBounds subd edgeToHalfedgeID depth ∧
  ∀ e : Nat, e < ccm_EdgeCountAtDepth_Fast subd.cage depth →
    (ccs_CreaseSharpness subd e depth).isSome = true

instance (subd : cc_Subd) (edgeToHalfedgeID : Int → Nat → Int) (depth : Nat) :
    Decidable (ccs_CreasedEdgeReadsInBounds subd edgeToHalfedgeID depth) := by
  unfold ccs_CreasedEdgeReadsInBounds
  infer_instance

/-- The creased edge rule of section 4.5: the interpolation
`smooth + saturate(S) * (sharp - smooth)` between `smooth = (A + B + F1 + F2)/4`
and `sharp = (A + B)/2`. -/
def creasedEdgePoint (A B F1 F2 : cc_VertexPoint) (S : ℚ) : cc_VertexPoint :=
  (1 / 4 : ℚ) • (A + B + F1 + F2)
    + (max 0 (min 1 S)) • ((1 / 2 : ℚ) • (A + B) - (1 / 4 : ℚ) • (A + B + F1 + F2))

theorem creasedEdgePoint_smooth (A B F1 F2 : cc_VertexPoint) (S : ℚ) (hS : S ≤ 0) :
    creasedEdgePoint A B F1 F2 S = (1 / 4 : ℚ) • (A + B + F1 + F2) := by
  unfold creasedEdgePoint
  have h1 : min 1 S = S := min_eq_right (by linarith)
  rw [h1, max_eq_left hS, zero_smul, add_zero]

theorem creasedEdgePoint_sharp (A B F1 F2 : cc_VertexPoint) (S : ℚ) (hS : 1 ≤ S) :
    creasedEdgePoint A B F1 F2 S = (1 / 2 : ℚ) • (A + B) := by
  unfold creasedEdgePoint
  have h1 : min 1 S = 1 := min_eq_left hS
  rw [h1, max_eq_right (by norm_num), one_smul]
  module

theorem creased_edge_rule (A B F1 F2 : cc_VertexPoint) (S : ℚ) :
    cc__Lerp3f (cc__Mul3f (cc__Add3f (cc__Add3f A B) (cc__Add3f F1 F2)) 0.25)
      (cc__Mul3f (cc__Add3f A B) 0.5) (cc__Satf S) = creasedEdgePoint A B F1 F2 S := by
  simp only [cc__Lerp3f, cc__Mul3f, cc__Add3f, cc__Satf, creasedEdgePoint]
  module

theorem cage_creased_edge_body (cage : cc_Mesh) (V : Int) (pts : List cc_VertexPoint)
    (e h t n : Int) (S : ℚ) (A B F1 F2 : cc_VertexPoint)
    (he : ccm_EdgeToHalfedgeID cage e = some h) (ht : ccm_HalfedgeTwinID cage h = some t)
    (hn : ccm_HalfedgeNextID cage h = some n) (hS : ccm_CreaseSharpness cage e = some S)
    (hA : ccm_HalfedgeVertexPoint cage h = some A) (hB : ccm_HalfedgeVertexPoint cage n = some B)
    (hF1 : (ccm_HalfedgeFaceID cage h).bind (fun f => readAt pts (V + f)) = some F1)
    (hF2 : (ccm_HalfedgeFaceID cage (cc__Max 0 t)).bind (fun f => readAt pts (V + f))
      = some F2) :
    ccs__CreasedCageEdgePoints_Gather_edge cage V pts e
      = some (creasedEdgePoint A B F1 F2 S) := by
  unfold ccs__CreasedCageEdgePoints_Gather_edge
  simp only [he, ht, hn, hS, hA, hB, hF1, hF2, Option.bind_eq_bind, Option.some_bind]
  rw [creased_edge_rule]

theorem level_creased_edge_body (subd : cc_Subd) (e2h : Int → Nat → Int) (depth : Nat)
    (V : Int) (pts : List cc_VertexPoint) (e t : Int) (S : ℚ) (A B F1 F2 : cc_VertexPoint)
    (ht : ccs_HalfedgeTwinID subd (e2h e depth) depth = some t)
    (hS : ccs_CreaseSharpness subd e depth = some S)
    (hA : ccs_HalfedgeVertexPoint subd (e2h e depth) depth = some A)
    (hB : ccs_HalfedgeVertexPoint subd (ccs_HalfedgeNextID subd (e2h e depth) depth) depth
      = some B)
    (hF1 : readAt pts (V + ccs_HalfedgeFaceID subd (e2h e depth) depth) = some F1)
    (hF2 : readAt pts (V + ccs_HalfedgeFaceID subd (cc__Max 0 t) depth) = some F2) :
    ccs__CreasedEdgePoints_Gather_edge subd e2h depth V pts e
      = some (creasedEdgePoint A B F1 F2 S) := by
  unfold ccs__CreasedEdgePoints_Gather_edge
  simp only [ht, hS, hA, hB, hF1, hF2, Option.bind_eq_bind, Option.some_bind]
  rw [creased_edge_rule]

theorem cage_creased_edge_kernel (subd : cc_Subd) (out : List cc_VertexPoint)
    (hout : subd.vertexPoints[0]? = some out)
    (hlen : ccm_VertexCount subd.cage + ccm_FaceCount subd.cage + ccm_EdgeCount subd.cage
      ≤ out.length)
    (hv : ccm_CreasedEdgeReadsInBounds subd.cage) :
    ∃ out', ccs__CreasedCageEdgePoints_Gather subd =
        some { subd with vertexPoints := subd.vertexPoints.set 0 out' } ∧
      out'.length = out.length ∧
      (∀ j : Nat, (j < ccm_VertexCount subd.cage + ccm_FaceCount subd.cage ∨
          ccm_VertexCount subd.cage + ccm_FaceCount subd.cage + ccm_EdgeCount subd.cage ≤ j) →
        out'[j]? = out[j]?) ∧
      ∀ e : Nat, e < ccm_EdgeCount subd.cage →
        ∃ (h t n : Int) (S : ℚ) (A B F1 F2 : cc_VertexPoint),
          ccm_EdgeToHalfedgeID subd.cage e = some h ∧ ccm_HalfedgeTwinID subd.cage h = some t ∧
          ccm_HalfedgeNextID subd.cage h = some n ∧ ccm_CreaseSharpness subd.cage e = some S ∧
          ccm_HalfedgeVertexPoint subd.cage h = some A ∧
          ccm_HalfedgeVertexPoint subd.cage n = some B ∧
          (ccm_HalfedgeFaceID subd.cage h).bind
            (fun f => readAt out ((ccm_VertexCount subd.cage : Int) + f)) = some F1 ∧
          (ccm_HalfedgeFaceID subd.cage (cc__Max 0 t)).bind
            (fun f => readAt out ((ccm_VertexCount subd.cage : Int) + f)) = some F2 ∧
          out'[ccm_VertexCount subd.cage + ccm_FaceCount subd.cage + e]?
            = some (creasedEdgePoint A B F1 F2 S) := by
  have hv1 : ccm_EdgeReadsInBounds subd.cage := fun e he => (hv e he).1
  have hbody : ∀ (o : List cc_VertexPoint) (e : Nat), e < ccm_EdgeCount subd.cage →
      (∀ j : Nat, j < ccm_VertexCount subd.cage + ccm_FaceCount subd.cage → o[j]? = out[j]?) →
      ∃ (h t n : Int) (S : ℚ) (A B F1 F2 : cc_VertexPoint),
        ccm_EdgeToHalfedgeID subd.cage e = some h ∧ ccm_HalfedgeTwinID subd.cage h = some t ∧
        ccm_HalfedgeNextID subd.cage h = some n ∧ ccm_CreaseSharpness subd.cage e = some S ∧
        ccm_HalfedgeVertexPoint subd.cage h = some A ∧
        ccm_HalfedgeVertexPoint subd.cage n = some B ∧
        (ccm_HalfedgeFaceID subd.cage h).bind
          (fun f => readAt out ((ccm_VertexCount subd.cage : Int) + f)) = some F1 ∧
        (ccm_HalfedgeFaceID subd.cage (cc__Max 0 t)).bind
          (fun f => readAt out ((ccm_VertexCount subd.cage : Int) + f)) = some F2 ∧
        ccs__CreasedCageEdgePoints_Gather_edge subd.cage (ccm_VertexCount subd.cage) o e
          = some (creasedEdgePoint A B F1 F2 S) ∧
        ccs__CreasedCageEdgePoints_Gather_edge subd.cage (ccm_VertexCount subd.cage) out e
          = some (creasedEdgePoint A B F1 F2 S) := by
    intro o e he hag
    obtain ⟨h, t, n, A, B, F1, F2, a1, a2, a3, a4, a5, a6, a7, a8, a9⟩ :=
      cage_edge_reads subd.cage hv1 o out (by omega) hag e he
    obtain ⟨S, hS⟩ := Option.isSome_iff_exists.mp (hv e he).2
    exact ⟨h, t, n, S, A, B, F1, F2, a1, a2, a3, hS, a4, a5, a6, a7,
      cage_creased_edge_body subd.cage _ o e h t n S A B F1 F2 a1 a2 a3 hS a4 a5 a8 a9,
      cage_creased_edge_body subd.cage _ out e h t n S A B F1 F2 a1 a2 a3 hS a4 a5 a6 a7⟩
  obtain ⟨o, e1, e2, e3, e4⟩ := gather_foldlM (ccm_EdgeCount subd.cage)
    (ccm_VertexCount subd.cage + ccm_FaceCount subd.cage)
    ((ccm_VertexCount subd.cage : Int) + (ccm_FaceCount subd.cage : Int)) (by push_cast; rfl)
    (fun o (e : Nat) =>
      ccs__CreasedCageEdgePoints_Gather_edge subd.cage (ccm_VertexCount subd.cage) o e)
    (fun e => (ccs__CreasedCageEdgePoints_Gather_edge subd.cage (ccm_VertexCount subd.cage) out
      e).getD default) out hlen
    (by
      intro o e he _ hag
      obtain ⟨h, t, n, S, A, B, F1, F2, _, _, _, _, _, _, _, _, b1, b2⟩ :=
        hbody o e he (fun j hj => hag j (Or.inl hj))
      beta_reduce
      rw [b1, b2]
      rfl)
  refine ⟨o, ?_, e2, e4, ?_⟩
  · unfold ccs__CreasedCageEdgePoints_Gather
    simp only [hout, Option.bind_eq_bind, Option.some_bind]
    rw [e1]
    rfl
  · intro e he
    obtain ⟨h, t, n, S, A, B, F1, F2, a1, a2, a3, a4, a5, a6, a7, a8, _, b2⟩ :=
      hbody out e he (fun _ _ => rfl)
    refine ⟨h, t, n, S, A, B, F1, F2, a1, a2, a3, a4, a5, a6, a7, a8, ?_⟩
    rw [e3 e he, b2]
    rfl

theorem level_creased_edge_kernel (subd : cc_Subd) (e2h : Int → Nat → Int) (depth : Nat)
    (out : List cc_VertexPoint)
    (hout : ccs__Level subd.vertexPoints (depth + 1) = some out)
    (hlen : ccm_VertexCountAtDepth_Fast subd.cage depth
      + ccm_FaceCountAtDepth_Fast subd.cage depth
      + ccm_EdgeCountAtDepth_Fast subd.cage depth ≤ out.length)
    (hv : ccs_CreasedEdgeReadsInBounds subd e2h depth) :
    ∃ out', ccs__CreasedEdgePoints_Gather subd e2h depth =
        some { subd with vertexPoints := subd.vertexPoints.set depth out' } ∧
      out'.length = out.length ∧
      (∀ j : Nat, (j < ccm_VertexCountAtDepth_Fast subd.cage depth
            + ccm_FaceCountAtDepth_Fast subd.cage depth ∨
          ccm_VertexCountAtDepth_Fast subd.cage depth
            + ccm_FaceCountAtDepth_Fast subd.cage depth
            + ccm_EdgeCountAtDepth_Fast subd.cage depth ≤ j) →
        out'[j]? = out[j]?) ∧
      ∀ e : Nat, e < ccm_EdgeCountAtDepth_Fast subd.cage depth →
        ∃ (t : Int) (S : ℚ) (A B F1 F2 : cc_VertexPoint),
          ccs_HalfedgeTwinID subd (e2h e depth) depth = some t ∧
          ccs_CreaseSharpness subd e depth = some S ∧
          ccs_HalfedgeVertexPoint subd (e2h e depth) depth = some A ∧
          ccs_HalfedgeVertexPoint subd (ccs_HalfedgeNextID subd (e2h e depth) depth) depth
            = some B ∧
          readAt out ((ccm_VertexCountAtDepth_Fast subd.cage depth : Int)
            + ccs_HalfedgeFaceID subd (e2h e depth) depth) = some F1 ∧
          readAt out ((ccm_VertexCountAtDepth_Fast subd.cage depth : Int)
            + ccs_HalfedgeFaceID subd (cc__Max 0 t) depth) = some F2 ∧
          out'[ccm_VertexCountAtDepth_Fast subd.cage depth
              + ccm_FaceCountAtDepth_Fast subd.cage depth + e]?
            = some (creasedEdgePoint A B F1 F2 S) := by
  have hbody : ∀ (o : List cc_VertexPoint) (e : Nat),
      e < ccm_EdgeCountAtDepth_Fast subd.cage depth →
      (∀ j : Nat, j < ccm_VertexCountAtDepth_Fast subd.cage depth
        + ccm_FaceCountAtDepth_Fast subd.cage depth → o[j]? = out[j]?) →
      ∃ (t : Int) (S : ℚ) (A B F1 F2 : cc_VertexPoint),
        ccs_HalfedgeTwinID subd (e2h e depth) depth = some t ∧
        ccs_CreaseSharpness subd e depth = some S ∧
        ccs_HalfedgeVertexPoint subd (e2h e depth) depth = some A ∧
        ccs_HalfedgeVertexPoint subd (ccs_HalfedgeNextID subd (e2h e depth) depth) depth
          = some B ∧
        readAt out ((ccm_VertexCountAtDepth_Fast subd.cage depth : Int)
          + ccs_HalfedgeFaceID subd (e2h e depth) depth) = some F1 ∧
        readAt out ((ccm_VertexCountAtDepth_Fast subd.cage depth : Int)
          + ccs_HalfedgeFaceID subd (cc__Max 0 t) depth) = some F2 ∧
        ccs__CreasedEdgePoints_Gather_edge subd e2h depth
            (ccm_VertexCountAtDepth_Fast subd.cage depth) o e
          = some (creasedEdgePoint A B F1 F2 S) ∧
        ccs__CreasedEdgePoints_Gather_edge subd e2h depth
            (ccm_VertexCountAtDepth_Fast subd.cage depth) out e
          = some (creasedEdgePoint A B F1 F2 S) := by
    intro o e he hag
    obtain ⟨t, A, B, F1, F2, a2, a4, a5, a6, a7, a8, a9⟩ :=
      level_edge_reads subd e2h depth hv.1 o out (by omega) hag e he
    obtain ⟨S, hS⟩ := Option.isSome_iff_exists.mp (hv.2 e he)
    exact ⟨t, S, A, B, F1, F2, a2, hS, a4, a5, a6, a7,
      level_creased_edge_body subd e2h depth _ o e t S A B F1 F2 a2 hS a4 a5 a8 a9,
      level_creased_edge_body subd e2h depth _ out e t S A B F1 F2 a2 hS a4 a5 a6 a7⟩
  obtain ⟨o, e1, e2, e3, e4⟩ := gather_foldlM (ccm_EdgeCountAtDepth_Fast subd.cage depth)
    (ccm_VertexCountAtDepth_Fast subd.cage depth + ccm_FaceCountAtDepth_Fast subd.cage depth)
    ((ccm_VertexCountAtDepth_Fast subd.cage depth : Int)
      + (ccm_FaceCountAtDepth_Fast subd.cage depth : Int)) (by push_cast; rfl)
    (fun o (e : Nat) => ccs__CreasedEdgePoints_Gather_edge subd e2h depth
      (ccm_VertexCountAtDepth_Fast subd.cage depth) o e)
    (fun e => (ccs__CreasedEdgePoints_Gather_edge subd e2h depth
      (ccm_VertexCountAtDepth_Fast subd.cage depth) out e).getD default) out hlen
    (by
      intro o e he _ hag
      obtain ⟨t, S, A, B, F1, F2, _, _, _, _, _, _, b1, b2⟩ :=
        hbody o e he (fun j hj => hag j (Or.inl hj))
      beta_reduce
      rw [b1, b2]
      rfl)
  refine ⟨o, ?_, e2, e4, ?_⟩
  · unfold ccs__CreasedEdgePoints_Gather
    simp only [hout, Option.bind_eq_bind, Option.some_bind]
    rw [e1]
    rfl
  · intro e he
    obtain ⟨t, S, A, B, F1, F2, a2, a3, a4, a5, a6, a7, _, b2⟩ :=
      hbody out e he (fun _ _ => rfl)
    refine ⟨t, S, A, B, F1, F2, a2, a3, a4, a5, a6, a7, ?_⟩
    rw [e3 e he, b2]
    rfl

/-- C14 (as amended): on a cage whose edges are readable and have a crease
record, `ccs__CreasedCageEdgePoints_Gather` (first part) returns, writes no slot
outside of `[V0 + F0, V0 + F0 + E0)`, and for every edge `e`, with `h` its
halfedge, `t = twin(h)`, `n = next(h)`, `S` its sharpness, `A`, `B` the
positions of the vertices of `h` and `n`, `F1` the face point of the face of `h`
and `F2` the face point of the face of the halfedge `cc__Max(0, t)` (that is `t`
when `t ≥ 0`, and the halfedge 0 of the mesh when `e` is on the boundary), it
writes at the slot `V0 + F0 + e` the point
`smooth + saturate(S) * (sharp - smooth)` with `sharp = (A + B)/2` and
`smooth = (A + B + F1 + F2)/4`: `smooth` when `S ≤ 0` and exactly `sharp` when
`S ≥ 1`.  `ccs__CreasedEdgePoints_Gather` (second part) does the same at every
depth. -/
theorem C14_creased_edge_points :
    (∀ (subd : cc_Subd) (out : List cc_VertexPoint),
      subd.vertexPoints[0]? = some out →
      ccm_VertexCount subd.cage + ccm_FaceCount subd.cage + ccm_EdgeCount subd.cage
        ≤ out.length →
      ccm_CreasedEdgeReadsInBounds subd.cage →
      ∃ out', ccs__CreasedCageEdgePoints_Gather subd =
          some { subd with vertexPoints := subd.vertexPoints.set 0 out' } ∧
        out'.length = out.length ∧
        (∀ j : Nat, (j < ccm_VertexCount subd.cage + ccm_FaceCount subd.cage ∨
            ccm_VertexCount subd.cage + ccm_FaceCount subd.cage + ccm_EdgeCount subd.cage ≤ j) →
          out'[j]? = out[j]?) ∧
        ∀ e : Nat, e < ccm_EdgeCount subd.cage →
          ∀ (h t n : Int) (S : ℚ) (A B F1 F2 : cc_VertexPoint),
            ccm_EdgeToHalfedgeID subd.cage e = some h →
            ccm_HalfedgeTwinID subd.cage h = some t →
            ccm_HalfedgeNextID subd.cage h = some n →
            ccm_CreaseSharpness subd.cage e = some S →
            ccm_HalfedgeVertexPoint subd.cage h = some A →
            ccm_HalfedgeVertexPoint subd.cage n = some B →
            (ccm_HalfedgeFaceID subd.cage h).bind
              (fun f => readAt out ((ccm_VertexCount subd.cage : Int) + f)) = some F1 →
            (ccm_HalfedgeFaceID subd.cage (cc__Max 0 t)).bind
              (fun f => readAt out ((ccm_VertexCount subd.cage : Int) + f)) = some F2 →
            out'[ccm_VertexCount subd.cage + ccm_FaceCount subd.cage + e]?
              = some ((1 / 4 : ℚ) • (A + B + F1 + F2) + cc__Satf S •
                  ((1 / 2 : ℚ) • (A + B) - (1 / 4 : ℚ) • (A + B + F1 + F2))) ∧
            (S ≤ 0 → out'[ccm_VertexCount subd.cage + ccm_FaceCount subd.cage + e]?
              = some ((1 / 4 : ℚ) • (A + B + F1 + F2))) ∧
            (1 ≤ S → out'[ccm_VertexCount subd.cage + ccm_FaceCount subd.cage + e]?
              = some ((1 / 2 : ℚ) • (A + B)))) ∧
    (∀ (subd : cc_Subd) (edgeToHalfedgeID : Int → Nat → Int) (depth : Nat)
      (out : List cc_VertexPoint),
      ccs__Level subd.vertexPoints (depth + 1) = some out →
      ccm_VertexCountAtDepth_Fast subd.cage depth + ccm_FaceCountAtDepth_Fast subd.cage depth
        + ccm_EdgeCountAtDepth_Fast subd.cage depth ≤ out.length →
      ccs_CreasedEdgeReadsInBounds subd edgeToHalfedgeID depth →
      ∃ out', ccs__CreasedEdgePoints_Gather subd edgeToHalfedgeID depth =
          some { subd with vertexPoints := subd.vertexPoints.set depth out' } ∧
        out'.length = out.length ∧
        (∀ j : Nat, (j < ccm_VertexCountAtDepth_Fast subd.cage depth
              + ccm_FaceCountAtDepth_Fast subd.cage depth ∨
            ccm_VertexCountAtDepth_Fast subd.cage depth
              + ccm_FaceCountAtDepth_Fast subd.cage depth
              + ccm_EdgeCountAtDepth_Fast subd.cage depth ≤ j) →
          out'[j]? = out[j]?) ∧
        ∀ e : Nat, e < ccm_EdgeCountAtDepth_Fast subd.cage depth →
          ∀ (t : Int) (S : ℚ) (A B F1 F2 : cc_VertexPoint),
            ccs_HalfedgeTwinID subd (edgeToHalfedgeID e depth) depth = some t →
            ccs_CreaseSharpness subd e depth = some S →
            ccs_HalfedgeVertexPoint subd (edgeToHalfedgeID e depth) depth = some A →
            ccs_HalfedgeVertexPoint subd
              (ccs_HalfedgeNextID subd (edgeToHalfedgeID e depth) depth) depth = some B →
            readAt out ((ccm_VertexCountAtDepth_Fast subd.cage depth : Int)
              + ccs_HalfedgeFaceID subd (edgeToHalfedgeID e depth) depth) = some F1 →
            readAt out ((ccm_VertexCountAtDepth_Fast subd.cage depth : Int)
              + ccs_HalfedgeFaceID subd (cc__Max 0 t) depth) = some F2 →
            out'[ccm_VertexCountAtDepth_Fast subd.cage depth
                + ccm_FaceCountAtDepth_Fast subd.cage depth + e]?
              = some ((1 / 4 : ℚ) • (A + B + F1 + F2) + cc__Satf S •
                  ((1 / 2 : ℚ) • (A + B) - (1 / 4 : ℚ) • (A + B + F1 + F2))) ∧
            (S ≤ 0 → out'[ccm_VertexCountAtDepth_Fast subd.cage depth
                + ccm_FaceCountAtDepth_Fast subd.cage depth + e]?
              = some ((1 / 4 : ℚ) • (A + B + F1 + F2))) ∧
            (1 ≤ S → out'[ccm_VertexCountAtDepth_Fast subd.cage depth
                + ccm_FaceCountAtDepth_Fast subd.cage depth + e]?
              = some ((1 / 2 : ℚ) • (A + B)))) := by
  constructor
  · intro subd out hout hlen hv
    obtain ⟨o, e1, e2, e3, e4⟩ := cage_creased_edge_kernel subd out hout hlen hv
    refine ⟨o, e1, e2, e3, ?_⟩
    intro e he h t n S A B F1 F2 a1 a2 a3 a4 a5 a6 a7 a8
    obtain ⟨h', t', n', S', A', B', F1', F2', b1, b2, b3, b4, b5, b6, b7, b8, b9⟩ := e4 e he
    rw [a1] at b1; cases b1
    rw [a2] at b2; cases b2
    rw [a3] at b3; cases b3
    rw [a4] at b4; cases b4
    rw [a5] at b5; cases b5
    rw [a6] at b6; cases b6
    rw [a7] at b7; cases b7
    rw [a8] at b8; cases b8
    refine ⟨b9, ?_, ?_⟩
    · intro hS
      rw [b9, creasedEdgePoint_smooth _ _ _ _ _ hS]
    · intro hS
      rw [b9, creasedEdgePoint_sharp _ _ _ _ _ hS]
  · intro subd e2h depth out hout hlen hv
    obtain ⟨o, e1, e2, e3, e4⟩ := level_creased_edge_kernel subd e2h depth out hout hlen hv
    refine ⟨o, e1, e2, e3, ?_⟩
    intro e he t S A B F1 F2 a2 a4 a5 a6 a7 a8
    obtain ⟨t', S', A', B', F1', F2', b2, b4, b5, b6, b7, b8, b9⟩ := e4 e he
    rw [a2] at b2; cases b2
    rw [a4] at b4; cases b4
    rw [a5] at b5; cases b5
    rw [a6] at b6; cases b6
    rw [a7] at b7; cases b7
    rw [a8] at b8; cases b8
    refine ⟨b9, ?_, ?_⟩
    · intro hS
      rw [b9, creasedEdgePoint_smooth _ _ _ _ _ hS]
    · intro hS
      rw [b9, creasedEdgePoint_sharp _ _ _ _ _ hS]

/-- The two glued triangles with a sharpness on their edges: `1/2` on the
interior edge 0, `2` on the boundary edge 1 and `0` on the boundary edges 2, 3
and 4. -/
def creasedTriangles : cc_Mesh :=
  { trianglesMesh with
    creases := [⟨0, 0, 1 / 2⟩, ⟨1, 1, 2⟩, ⟨2, 2, 0⟩, ⟨3, 3, 0⟩, ⟨4, 4, 0⟩] }

/-- The subdivision `quadFacesSubd` of the open quad with creases on level 1:
sharpness `1/2` on its edge 0, `2` on its edge 1 and `0` elsewhere. -/
def quadCreasedSubd : cc_Subd :=
  { quadFacesSubd with
    creases := [[⟨0, 0, 1 / 2⟩, ⟨1, 1, 2⟩, ⟨2, 2, 0⟩, ⟨3, 3, 0⟩, ⟨4, 4, 0⟩, ⟨5, 5, 0⟩,
      ⟨6, 6, 0⟩, ⟨7, 7, 0⟩, ⟨8, 8, 0⟩, ⟨9, 9, 0⟩, ⟨10, 10, 0⟩, ⟨11, 11, 0⟩]] }

/-- C14, witness: the two glued triangles (cage kernel), with the sharpness 2 on
the boundary edge 1 and the sharpness 0 on the boundary edge 2, and level 1 of
the open quad (level kernel), with the sharpness `1/2` on the edge 0 and the
sharpness 2 on the edge 1. -/
theorem C14_creased_edge_points_witness :
    (∃ out' : List cc_VertexPoint, ccs__CreasedCageEdgePoints_Gather
        { cage := creasedTriangles, maxDepth := 1, halfedges := [], creases := [],
          vertexPoints := [trianglesFacePoints] } =
          some { cage := creasedTriangles, maxDepth := 1, halfedges := [], creases := [],
                 vertexPoints := [out'] } ∧
        out'[7]? = some ((1 / 2, 1 / 2, 0) : cc_VertexPoint) ∧
        out'[8]? = some ((1 / 6, 5 / 12, 0) : cc_VertexPoint)) ∧
    (∃ out' : List cc_VertexPoint,
        ccs__CreasedEdgePoints_Gather quadCreasedSubd quadEdgeToHalfedgeID 1 =
          some { quadCreasedSubd with
                 vertexPoints := quadCreasedSubd.vertexPoints.set 1 out' } ∧
        out'[13]? = some ((1 / 4, 1 / 16, 0) : cc_VertexPoint) ∧
        out'[14]? = some ((3 / 4, 0, 0) : cc_VertexPoint)) := by
  constructor
  · obtain ⟨out', h1, _, _, h4⟩ := C14_creased_edge_points.1
      { cage := creasedTriangles, maxDepth := 1, halfedges := [], creases := [],
        vertexPoints := [trianglesFacePoints] }
      trianglesFacePoints rfl (by decide) (by decide)
    refine ⟨out', h1, ?_, ?_⟩
    · have h5 := (h4 1 (by decide) 1 (-1) 2 2 (1, 0, 0) (0, 1, 0) (1 / 3, 1 / 3, 0)
        (1 / 3, 1 / 3, 0) rfl rfl rfl rfl rfl rfl rfl rfl).2.2 (by norm_num)
      have h6 : out'[7]? = _ := h5
      rw [h6]
      norm_num
    · have h5 := (h4 2 (by decide) 2 (-1) 0 0 (0, 1, 0) (0, 0, 0) (1 / 3, 1 / 3, 0)
        (1 / 3, 1 / 3, 0) rfl rfl rfl rfl rfl rfl rfl rfl).2.1 (by norm_num)
      have h6 : out'[8]? = _ := h5
      rw [h6]
      norm_num
  · obtain ⟨out', h1, _, _, h4⟩ := C14_creased_edge_points.2 quadCreasedSubd
      quadEdgeToHalfedgeID 1 quadFacePoints2 rfl (by decide) (by decide)
    refine ⟨out', h1, ?_, ?_⟩
    · have h5 := (h4 0 (by decide) (-1) (1 / 2) (0, 0, 0) (1 / 2, 0, 0) (1 / 4, 1 / 4, 0)
        (1 / 4, 1 / 4, 0) rfl rfl rfl rfl rfl rfl).1
      have h6 : out'[13]? = _ := h5
      rw [h6]
      simp only [cc__Satf]
      norm_num
    · have h5 := (h4 1 (by decide) (-4) 2 (1 / 2, 0, 0) (1, 0, 0) (3 / 4, 1 / 4, 0)
        (1 / 4, 1 / 4, 0) rfl rfl rfl rfl rfl rfl).2.2 (by norm_num)
      have h6 : out'[14]? = _ := h5
      rw [h6]
      norm_num

/-- C14, counterexample: the edge 3 of the two glued triangles is on the
boundary, with the halfedge 4 of the face 1 as its only halfedge, and its
sharpness is 0.  The point `ccs__CreasedCageEdgePoints_Gather` writes for it
(slot 9) changes with the face point of the face 0 (slot 4), which is not
adjacent to the edge: `F2` is read at the face of the halfedge 0. -/
theorem C14_counterexample :
    ccm_EdgeToHalfedgeID trianglesMesh 3 = some 4 ∧
    ccm_HalfedgeTwinID trianglesMesh 4 = some (-1) ∧
    ccm_HalfedgeFaceID trianglesMesh 4 = some 1 ∧
    (∀ h : Nat, h < ccm_HalfedgeCount trianglesMesh →
      ccm_HalfedgeEdgeID trianglesMesh h = some 3 → h = 4) ∧
    ccm_CreaseSharpness trianglesMesh 3 = some 0 ∧
    (∃ out1 out2 : List cc_VertexPoint,
      ccs__CreasedCageEdgePoints_Gather
        { cage := trianglesMesh, maxDepth := 1, halfedges := [], creases := [],
          vertexPoints := [trianglesFacePoints] } =
          some { cage := trianglesMesh, maxDepth := 1, halfedges := [], creases := [],
                 vertexPoints := [out1] } ∧
      ccs__CreasedCageEdgePoints_Gather
        { cage := trianglesMesh, maxDepth := 1, halfedges := [], creases := [],
          vertexPoints := [trianglesFacePoints.set 4 (1 / 3, 4 / 3, 0)] } =
          some { cage := trianglesMesh, maxDepth := 1, halfedges := [], creases := [],
                 vertexPoints := [out2] } ∧
      out1[9]? = some ((1 / 2, -1 / 4, 0) : cc_VertexPoint) ∧
      out2[9]? = some ((1 / 2, 0, 0) : cc_VertexPoint)) := by
  refine ⟨rfl, rfl, rfl, by decide, rfl, ?_⟩
  obtain ⟨out1, h1, _, _, h4⟩ := cage_creased_edge_kernel
    { cage := trianglesMesh, maxDepth := 1, halfedges := [], creases := [],
      vertexPoints := [trianglesFacePoints] }
    trianglesFacePoints rfl (by decide) (by decide)
  obtain ⟨out2, k1, _, _, k4⟩ := cage_creased_edge_kernel
    { cage := trianglesMesh, maxDepth := 1, halfedges := [], creases := [],
      vertexPoints := [trianglesFacePoints.set 4 (1 / 3, 4 / 3, 0)] }
    (trianglesFacePoints.set 4 (1 / 3, 4 / 3, 0)) rfl (by decide) (by decide)
  refine ⟨out1, out2, h1, k1, ?_, ?_⟩
  · obtain ⟨h, t, n, S, A, B, F1, F2, b1, b2, b3, b4, b5, b6, b7, b8, b9⟩ := h4 3 (by decide)
    have c1 : some (4 : Int) = some h := b1
    cases c1
    have c2 : some (-1 : Int) = some t := b2
    cases c2
    have c3 : some (5 : Int) = some n := b3
    cases c3
    have c4 : some (0 : ℚ) = some S := b4
    cases c4
    have c5 : some ((0, 0, 0) : cc_VertexPoint) = some A := b5
    cases c5
    have c6 : some ((1, -1, 0) : cc_VertexPoint) = some B := b6
    cases c6
    have c7 : some ((2 / 3, -1 / 3, 0) : cc_VertexPoint) = some F1 := b7
    cases c7
    have c8 : some ((1 / 3, 1 / 3, 0) : cc_VertexPoint) = some F2 := b8
    cases c8
    have h6 : out1[9]? = _ := b9
    rw [h6, creasedEdgePoint_smooth _ _ _ _ _ (le_refl 0)]
    norm_num
  · obtain ⟨h, t, n, S, A, B, F1, F2, b1, b2, b3, b4, b5, b6, b7, b8, b9⟩ := k4 3 (by decide)
    have c1 : some (4 : Int) = some h := b1
    cases c1
    have c2 : some (-1 : Int) = some t := b2
    cases c2
    have c3 : some (5 : Int) = some n := b3
    cases c3
    have c4 : some (0 : ℚ) = some S := b4
    cases c4
    have c5 : some ((0, 0, 0) : cc_VertexPoint) = some A := b5
    cases c5
    have c6 : some ((1, -1, 0) : cc_VertexPoint) = some B := b6
    cases c6
    have c7 : some ((2 / 3, -1 / 3, 0) : cc_VertexPoint) = some F1 := b7
    cases c7
    have c8 : some ((1 / 3, 4 / 3, 0) : cc_VertexPoint) = some F2 := b8
    cases c8
    have h6 : out2[9]? = _ := b9
    rw [h6, creasedEdgePoint_smooth _ _ _ _ _ (le_refl 0)]
    norm_num

/-! ## C20: the edge points without creases, gather and scatter -/

/-- The halfedge `g` of the cage can be scattered: its edge is in `[0, E0)`, its
face in `[0, F0)`, its twin and its successor can be read, and its two end
points have a position. -/
def ccm_HalfedgeReadable (cage : cc_Mesh) (g : Int) : Prop :=
  (∃ e ∈ ccm_HalfedgeEdgeID cage g, 0 ≤ e ∧ e < (ccm_EdgeCount cage : Int)) ∧
  (∃ f ∈ ccm_HalfedgeFaceID cage g, 0 ≤ f ∧ f < (ccm_FaceCount cage : Int)) ∧
  (ccm_HalfedgeTwinID cage g).isSome = true ∧
  (ccm_HalfedgeVertexPoint cage g).isSome = true ∧
  (∃ n ∈ ccm_HalfedgeNextID cage g, (ccm_HalfedgeVertexPoint cage n).isSome = true)

instance (cage : cc_Mesh) (g : Int) : Decidable (ccm_HalfedgeReadable cage g) := by
  unfold ccm_HalfedgeReadable
  infer_instance

/-- The halfedges of the edge `e` of the cage are `h = ccm_EdgeToHalfedgeID(cage, e)`
alone when `h` has no twin, and `h` and its twin `t` otherwise; then `t` has a
twin, and `t` runs from the end point of `h` to the start point of `h`. -/
def ccm_EdgeCarried (cage : cc_Mesh) (e : Nat) : Prop :=
  ∃ h ∈ ccm_EdgeToHalfedgeID cage e, ∃ t ∈ ccm_HalfedgeTwinID cage h,
    ∃ n ∈ ccm_HalfedgeNextID cage h,
      List.Perm (((List.range (ccm_HalfedgeCount cage)).filter
          (fun g : Nat => ccm_HalfedgeEdgeID cage g = some (e : Int))).map Int.ofNat)
        (if t < 0 then [h] else [h, t]) ∧
      (0 ≤ t →
        ((∃ t2 ∈ ccm_HalfedgeTwinID cage t, 0 ≤ t2) ∧
          ccm_HalfedgeVertexID cage t = ccm_HalfedgeVertexID cage n) ∧
        (ccm_HalfedgeNextID cage t).bind (ccm_HalfedgeVertexID cage)
          = ccm_HalfedgeVertexID cage h)

instance (cage : cc_Mesh) (e : Nat) : Decidable (ccm_EdgeCarried cage e) := by
  unfold ccm_EdgeCarried
  infer_instance

/-- The cage is a halfedge mesh as far as the edge point kernels go: every
halfedge can be scattered (`ccm_HalfedgeReadable`) and every edge is carried by
one halfedge or by two twins (`ccm_EdgeCarried`). -/
def ccm_EdgesCarried (cage : cc_Mesh) : Prop :=
  (∀ g : Nat, g < ccm_HalfedgeCount cage → ccm_HalfedgeReadable cage g) ∧
  (∀ e : Nat, e < ccm_EdgeCount cage → ccm_EdgeCarried cage e)

instance (cage : cc_Mesh) : Decidable (ccm_EdgesCarried cage) := by
  unfold ccm_EdgesCarried
  infer_instance

/-- The halfedge `g` of level `depth` can be scattered. -/
def ccs_HalfedgeReadable (subd : cc_Subd) (depth : Nat) (g : Int) : Prop :=
  (∃ e ∈ ccs_HalfedgeEdgeID subd g depth,
    0 ≤ e ∧ e < (ccm_EdgeCountAtDepth_Fast subd.cage depth : Int)) ∧
  (0 ≤ ccs_HalfedgeFaceID subd g depth ∧
    ccs_HalfedgeFaceID subd g depth < (ccm_FaceCountAtDepth_Fast subd.cage depth : Int)) ∧
  (ccs_HalfedgeTwinID subd g depth).isSome = true ∧
  (ccs_HalfedgeVertexPoint subd g depth).isSome = true ∧
  (ccs_HalfedgeVertexPoint subd (ccs_HalfedgeNextID subd g depth) depth).isSome = true

instance (subd : cc_Subd) (depth : Nat) (g : Int) :
    Decidable (ccs_HalfedgeReadable subd depth g) := by
  unfold ccs_HalfedgeReadable
  infer_instance

/-- The halfedges of the edge `e` of level `depth` are `h = edgeToHalfedgeID e depth`
alone when `h` has no twin, and `h` and its twin `t` otherwise; then `t` has a
twin, and `t` runs from the end point of `h` to the start point of `h`. -/
def ccs_EdgeCarried (subd : cc_Subd) (edgeToHalfedgeID : Int → Nat → Int) (depth : Nat)
    (e : Nat) : Prop :=
  ∃ t ∈ ccs_HalfedgeTwinID subd (edgeToHalfedgeID e depth) depth,
    List.Perm (((List.range (ccm_HalfedgeCountAtDepth subd.cage depth)).filter
        (fun g : Nat => ccs_HalfedgeEdgeID subd g depth = some (e : Int))).map Int.ofNat)
      (if t < 0 then [edgeToHalfedgeID e depth] else [edgeToHalfedgeID e depth, t]) ∧
    (0 ≤ t →
      ((∃ t2 ∈ ccs_HalfedgeTwinID subd t depth, 0 ≤ t2) ∧
        ccs_HalfedgeVertexID subd t depth
          = ccs_HalfedgeVertexID subd
              (ccs_HalfedgeNextID subd (edgeToHalfedgeID e depth) depth) depth) ∧
      ccs_HalfedgeVertexID subd (ccs_HalfedgeNextID subd t depth) depth
        = ccs_HalfedgeVertexID subd (edgeToHalfedgeID e depth) depth)

instance (subd : cc_Subd) (edgeToHalfedgeID : Int → Nat → Int) (depth : Nat) (e : Nat) :
    Decidable (ccs_EdgeCarried subd edgeToHalfedgeID depth e) := by
  unfold ccs_EdgeCarried
  infer_instance

/-- Level `depth` is a halfedge mesh as far as the edge point kernels go. -/
def ccs_EdgesCarried (subd : cc_Subd) (edgeToHalfedgeID : Int → Nat → Int) (depth : Nat) :
    Prop :=
  (∀ g : Nat, g < ccm_HalfedgeCountAtDepth subd.cage depth →
    ccs_HalfedgeReadable subd depth g) ∧
  (∀ e : Nat, e < ccm_EdgeCountAtDepth_Fast subd.cage depth →
    ccs_EdgeCarried subd edgeToHalfedgeID depth e)

instance (subd : cc_Subd) (edgeToHalfedgeID : Int → Nat → Int) (depth : Nat) :
    Decidable (ccs_EdgesCarried subd edgeToHalfedgeID depth) := by
  unfold ccs_EdgesCarried
  infer_instance

/-- The contribution of a halfedge to its edge point: `F/4 + (A + B)/8` when it
has a twin, `(A + B)/2` when it has none. -/
theorem edge_scatter_rule (A B F : cc_VertexPoint) (t : Int) :
    cc__Lerp3f (cc__Mul3f F 0.5)
      (cc__Lerp3f (cc__Mul3f A (if t ≥ 0 then 0.5 else 1))
        (cc__Mul3f B (if t ≥ 0 then 0.5 else 1)) 0.5) (if t ≥ 0 then 0.5 else 1)
      = if 0 ≤ t then (1 / 4 : ℚ) • F + (1 / 8 : ℚ) • (A + B) else (1 / 2 : ℚ) • (A + B) := by
  simp only [cc__Lerp3f, cc__Mul3f, ge_iff_le]
  split_ifs
  · module
  · module

theorem cage_edge_scatter_body (cage : cc_Mesh) (V : Int) (pts : List cc_VertexPoint)
    (g e f t n : Int) (A B F : cc_VertexPoint)
    (he : ccm_HalfedgeEdgeID cage g = some e) (hf : ccm_HalfedgeFaceID cage g = some f)
    (ht : ccm_HalfedgeTwinID cage g = some t) (hn : ccm_HalfedgeNextID cage g = some n)
    (hF : readAt pts (V + f) = some F)
    (hA : ccm_HalfedgeVertexPoint cage g = some A)
    (hB : ccm_HalfedgeVertexPoint cage n = some B) :
    ccs__CageEdgePoints_Scatter_halfedge cage V pts g
      = some (e, if 0 ≤ t then (1 / 4 : ℚ) • F + (1 / 8 : ℚ) • (A + B)
          else (1 / 2 : ℚ) • (A + B)) := by
  unfold ccs__CageEdgePoints_Scatter_halfedge
  simp only [he, hf, ht, hn, hF, hA, hB, Option.bind_eq_bind, Option.some_bind]
  rw [edge_scatter_rule]

theorem level_edge_scatter_body (subd : cc_Subd) (depth : Nat) (V : Int)
    (pts : List cc_VertexPoint) (g e t : Int) (A B F : cc_VertexPoint)
    (he : ccs_HalfedgeEdgeID subd g depth = some e)
    (ht : ccs_HalfedgeTwinID subd g depth = some t)
    (hF : readAt pts (V + ccs_HalfedgeFaceID subd g depth) = some F)
    (hA : ccs_HalfedgeVertexPoint subd g depth = some A)
    (hB : ccs_HalfedgeVertexPoint subd (ccs_HalfedgeNextID subd g depth) depth = some B) :
    ccs__EdgePoints_Scatter_halfedge subd depth V pts g
      = some (e, if 0 ≤ t then (1 / 4 : ℚ) • F + (1 / 8 : ℚ) • (A + B)
          else (1 / 2 : ℚ) • (A + B)) := by
  unfold ccs__EdgePoints_Scatter_halfedge
  simp only [he, ht, hF, hA, hB, Option.bind_eq_bind, Option.some_bind]
  rw [edge_scatter_rule]

/-- The sum of the contributions of the halfedges of an edge is the edge point
of the gather kernels. -/
theorem edge_scatter_sum (c : Int → cc_VertexPoint) (l : List Int) (h t : Int)
    (A B F1 F2 : cc_VertexPoint)
    (hp : List.Perm l (if t < 0 then [h] else [h, t]))
    (hh : c h = if 0 ≤ t then (1 / 4 : ℚ) • F1 + (1 / 8 : ℚ) • (A + B)
      else (1 / 2 : ℚ) • (A + B))
    (ht : 0 ≤ t → c t = (1 / 4 : ℚ) • F2 + (1 / 8 : ℚ) • (B + A)) :
    (l.map c).sum = if t < 0 then (1 / 2 : ℚ) • (A + B)
      else (1 / 4 : ℚ) • (A + B + F1 + F2) := by
  rw [(hp.map c).sum_eq]
  by_cases h0 : t < 0
  · rw [if_pos h0, if_pos h0]
    rw [if_neg (by omega)] at hh
    simp [hh]
  · rw [if_neg h0, if_neg h0]
    rw [if_pos (by omega)] at hh
    simp only [List.map_cons, List.map_nil, List.sum_cons, List.sum_nil, hh, ht (by omega)]
    module

theorem cage_halfedge_reads (cage : cc_Mesh) (g : Int) (hv : ccm_HalfedgeReadable cage g)
    (o out : List cc_VertexPoint)
    (hlen : ccm_VertexCount cage + ccm_FaceCount cage ≤ out.length)
    (hag : ∀ j : Nat, j < ccm_VertexCount cage + ccm_FaceCount cage → o[j]? = out[j]?) :
    ∃ (e : Nat) (f t n : Int) (A B F : cc_VertexPoint), e < ccm_EdgeCount cage ∧
      ccm_HalfedgeEdgeID cage g = some (e : Int) ∧ ccm_HalfedgeFaceID cage g = some f ∧
      ccm_HalfedgeTwinID cage g = some t ∧ ccm_HalfedgeNextID cage g = some n ∧
      ccm_HalfedgeVertexPoint cage g = some A ∧ ccm_HalfedgeVertexPoint cage n = some B ∧
      readAt out ((ccm_VertexCount cage : Int) + f) = some F ∧
      readAt o ((ccm_VertexCount cage : Int) + f) = some F := by
  obtain ⟨⟨e, a1, a2, a3⟩, ⟨f, b1, b2, b3⟩, c, d, n, k1, k2⟩ := hv
  obtain ⟨t, ht⟩ := Option.isSome_iff_exists.mp c
  obtain ⟨A, hA⟩ := Option.isSome_iff_exists.mp d
  obtain ⟨B, hB⟩ := Option.isSome_iff_exists.mp k2
  obtain ⟨r1, r2⟩ := readAt_agree o out _ _ f b2 b3 hlen hag
  obtain ⟨F, hF⟩ := Option.isSome_iff_exists.mp r2
  rw [Option.mem_def] at a1 b1 k1
  obtain ⟨e', rfl⟩ : ∃ k : Nat, e = (k : Int) := ⟨e.toNat, by omega⟩
  exact ⟨e', f, t, n, A, B, F, by omega, a1, b1, ht, k1, hA, hB, hF, r1.trans hF⟩

theorem level_halfedge_reads (subd : cc_Subd) (depth : Nat) (g : Int)
    (hv : ccs_HalfedgeReadable subd depth g) (o out : List cc_VertexPoint)
    (hlen : ccm_VertexCountAtDepth_Fast subd.cage depth
      + ccm_FaceCountAtDepth_Fast subd.cage depth ≤ out.length)
    (hag : ∀ j : Nat, j < ccm_VertexCountAtDepth_Fast subd.cage depth
      + ccm_FaceCountAtDepth_Fast subd.cage depth → o[j]? = out[j]?) :
    ∃ (e : Nat) (t : Int) (A B F : cc_VertexPoint),
      e < ccm_EdgeCountAtDepth_Fast subd.cage depth ∧
      ccs_HalfedgeEdgeID subd g depth = some (e : Int) ∧
      ccs_HalfedgeTwinID subd g depth = some t ∧
      ccs_HalfedgeVertexPoint subd g depth = some A ∧
      ccs_HalfedgeVertexPoint subd (ccs_HalfedgeNextID subd g depth) depth = some B ∧
      readAt out ((ccm_VertexCountAtDepth_Fast subd.cage depth : Int)
        + ccs_HalfedgeFaceID subd g depth) = some F ∧
      readAt o ((ccm_VertexCountAtDepth_Fast subd.cage depth : Int)
        + ccs_HalfedgeFaceID subd g depth) = some F := by
  obtain ⟨⟨e, a1, a2, a3⟩, ⟨b2, b3⟩, c, d, k2⟩ := hv
  obtain ⟨t, ht⟩ := Option.isSome_iff_exists.mp c
  obtain ⟨A, hA⟩ := Option.isSome_iff_exists.mp d
  obtain ⟨B, hB⟩ := Option.isSome_iff_exists.mp k2
  obtain ⟨r1, r2⟩ := readAt_agree o out _ _ _ b2 b3 hlen hag
  obtain ⟨F, hF⟩ := Option.isSome_iff_exists.mp r2
  rw [Option.mem_def] at a1
  obtain ⟨e', rfl⟩ : ∃ k : Nat, e = (k : Int) := ⟨e.toNat, by omega⟩
  exact ⟨e', t, A, B, F, by omega, a1, ht, hA, hB, hF, r1.trans hF⟩

theorem mem_of_perm_carriers (H : Nat) (p : Nat → Prop) [DecidablePred p] (l : List Int) (x : Int)
    (hp : List.Perm (((List.range H).filter (fun g : Nat => p g)).map Int.ofNat) l)
    (hx : x ∈ l) : ∃ g : Nat, g < H ∧ x = (g : Int) ∧ p g := by
  have hm := (List.Perm.mem_iff hp).mpr hx
  simp only [List.mem_map, List.mem_filter, List.mem_range, decide_eq_true_eq] at hm
  obtain ⟨g, ⟨k1, k2⟩, rfl⟩ := hm
  exact ⟨g, k1, rfl, k2⟩

theorem ccm_EdgesCarried_reads (cage : cc_Mesh) (hv : ccm_EdgesCarried cage) :
    ccm_EdgeReadsInBounds cage := by
  intro e he
  obtain ⟨h, a, t, b, n, c, hp, hq⟩ := hv.2 e he
  obtain ⟨g, g1, g2, _⟩ := mem_of_perm_carriers _ _ _ h hp (by split_ifs <;> simp)
  subst g2
  obtain ⟨_, ⟨f, b1, b2, b3⟩, _, d, n', k1, k2⟩ := hv.1 g g1
  rw [Option.mem_def] at c k1
  rw [c] at k1
  cases k1
  refine ⟨_, a, t, b, n, c, ⟨d, k2⟩, ⟨f, b1, b2, b3⟩, ?_⟩
  by_cases h0 : t < 0
  · have hm : cc__Max 0 t = ((0 : Nat) : Int) := by
      simp only [cc__Max, Nat.cast_zero]
      exact max_eq_left (by omega)
    rw [hm]
    obtain ⟨_, hf, _⟩ := hv.1 0 (by omega)
    exact hf
  · have hm : cc__Max 0 t = t := max_eq_right (by omega)
    rw [hm]
    obtain ⟨g', g1', g2', _⟩ := mem_of_perm_carriers _ _ _ t hp (by rw [if_neg h0]; simp)
    subst g2'
    obtain ⟨_, hf, _⟩ := hv.1 g' g1'
    exact hf

theorem ccs_EdgesCarried_reads (subd : cc_Subd) (e2h : Int → Nat → Int) (depth : Nat)
    (hv : ccs_EdgesCarried subd e2h depth) : ccs_EdgeReadsInBounds subd e2h depth := by
  intro e he
  obtain ⟨t, b, hp, hq⟩ := hv.2 e he
  obtain ⟨g, g1, g2, _⟩ := mem_of_perm_carriers _ _ _ (e2h e depth) hp (by split_ifs <;> simp)
  obtain ⟨_, hf, _, d, k2⟩ := hv.1 g g1
  rw [← g2] at hf d k2
  refine ⟨t, b, d, k2, hf, ?_⟩
  by_cases h0 : t < 0
  · have hm : cc__Max 0 t = ((0 : Nat) : Int) := by
      simp only [cc__Max, Nat.cast_zero]
      exact max_eq_left (by omega)
    rw [hm]
    obtain ⟨_, hf, _⟩ := hv.1 0 (by omega)
    exact hf
  · have hm : cc__Max 0 t = t := max_eq_right (by omega)
    rw [hm]
    obtain ⟨g', g1', g2', _⟩ := mem_of_perm_carriers _ _ _ t hp (by rw [if_neg h0]; simp)
    subst g2'
    obtain ⟨_, hf, _⟩ := hv.1 g' g1'
    exact hf

theorem cage_edge_scatter_kernel (subd : cc_Subd) (out : List cc_VertexPoint)
    (hout : subd.vertexPoints[0]? = some out)
    (hlen : ccm_VertexCount subd.cage + ccm_FaceCount subd.cage + ccm_EdgeCount subd.cage
      ≤ out.length)
    (hzero : ∀ e : Nat, e < ccm_EdgeCount subd.cage →
      out[ccm_VertexCount subd.cage + ccm_FaceCount subd.cage + e]? = some (0, 0, 0))
    (hv : ccm_EdgesCarried subd.cage) :
    ∃ outS, ccs__CageEdgePoints_Scatter subd =
        some { subd with vertexPoints := subd.vertexPoints.set 0 outS } ∧
      ∀ e : Nat, e < ccm_EdgeCount subd.cage →
        ∀ (h t n : Int) (A B F1 F2 : cc_VertexPoint),
          ccm_EdgeToHalfedgeID subd.cage e = some h →
          ccm_HalfedgeTwinID subd.cage h = some t →
          ccm_HalfedgeNextID subd.cage h = some n →
          ccm_HalfedgeVertexPoint subd.cage h = some A →
          ccm_HalfedgeVertexPoint subd.cage n = some B →
          (ccm_HalfedgeFaceID subd.cage h).bind
            (fun f => readAt out ((ccm_VertexCount subd.cage : Int) + f)) = some F1 →
          (ccm_HalfedgeFaceID subd.cage (cc__Max 0 t)).bind
            (fun f => readAt out ((ccm_VertexCount subd.cage : Int) + f)) = some F2 →
          outS[ccm_VertexCount subd.cage + ccm_FaceCount subd.cage + e]?
            = some (if t < 0 then (1 / 2 : ℚ) • (A + B)
                else (1 / 4 : ℚ) • (A + B + F1 + F2)) := by
  have hbody : ∀ (o : List cc_VertexPoint) (g : Nat), g < ccm_HalfedgeCount subd.cage →
      (∀ j : Nat, j < ccm_VertexCount subd.cage + ccm_FaceCount subd.cage → o[j]? = out[j]?) →
      ∃ (e : Nat) (f t n : Int) (A B F : cc_VertexPoint), e < ccm_EdgeCount subd.cage ∧
        ccm_HalfedgeEdgeID subd.cage g = some (e : Int) ∧
        ccm_HalfedgeFaceID subd.cage g = some f ∧
        ccm_HalfedgeTwinID subd.cage g = some t ∧ ccm_HalfedgeNextID subd.cage g = some n ∧
        ccm_HalfedgeVertexPoint subd.cage g = some A ∧
        ccm_HalfedgeVertexPoint subd.cage n = some B ∧
        readAt out ((ccm_VertexCount subd.cage : Int) + f) = some F ∧
        ccs__CageEdgePoints_Scatter_halfedge subd.cage (ccm_VertexCount subd.cage) o g
          = some ((e : Int), if 0 ≤ t then (1 / 4 : ℚ) • F + (1 / 8 : ℚ) • (A + B)
              else (1 / 2 : ℚ) • (A + B)) ∧
        ccs__CageEdgePoints_Scatter_halfedge subd.cage (ccm_VertexCount subd.cage) out g
          = some ((e : Int), if 0 ≤ t then (1 / 4 : ℚ) • F + (1 / 8 : ℚ) • (A + B)
              else (1 / 2 : ℚ) • (A + B)) := by
    intro o g hg hag
    obtain ⟨e, f, t, n, A, B, F, a0, a1, a2, a3, a4, a5, a6, a7, a8⟩ :=
      cage_halfedge_reads subd.cage g (hv.1 g hg) o out (by omega) hag
    exact ⟨e, f, t, n, A, B, F, a0, a1, a2, a3, a4, a5, a6, a7,
      cage_edge_scatter_body subd.cage _ o g e f t n A B F a1 a2 a3 a4 a8 a5 a6,
      cage_edge_scatter_body subd.cage _ out g e f t n A B F a1 a2 a3 a4 a7 a5 a6⟩
  obtain ⟨oS, s1, s2, s3, s4⟩ := scatter_foldlM (ccm_HalfedgeCount subd.cage)
    (ccm_VertexCount subd.cage + ccm_FaceCount subd.cage) (ccm_EdgeCount subd.cage)
    ((ccm_VertexCount subd.cage : Int) + (ccm_FaceCount subd.cage : Int)) (by push_cast; rfl)
    (fun o (g : Nat) =>
      ccs__CageEdgePoints_Scatter_halfedge subd.cage (ccm_VertexCount subd.cage) o g)
    (fun g => ((ccm_HalfedgeEdgeID subd.cage g).getD 0).toNat)
    (fun g => ((ccs__CageEdgePoints_Scatter_halfedge subd.cage (ccm_VertexCount subd.cage)
      out (g : Nat)).getD default).2)
    out hlen
    (by
      intro g hg
      obtain ⟨e, f, t, n, A, B, F, a0, a1, _⟩ := hbody out g hg (fun _ _ => rfl)
      simp only [a1, Option.getD_some, Int.toNat_ofNat]
      exact a0)
    (by
      intro o g hg _ hag
      obtain ⟨e, f, t, n, A, B, F, a0, a1, a2, a3, a4, a5, a6, a7, a8, a9⟩ :=
        hbody o g hg (fun j hj => hag j (Or.inl hj))
      beta_reduce
      rw [a8, a9]
      simp only [a1, Option.getD_some, Int.toNat_ofNat])
  refine ⟨oS, ?_, ?_⟩
  · unfold ccs__CageEdgePoints_Scatter
    simp only [hout, Option.bind_eq_bind, Option.some_bind]
    rw [s1]
    rfl
  · intro e he h t n A B F1 F2 b1 b2 b3 b4 b5 b6 b7
    obtain ⟨h', a, t', b, n', c, hp, hq⟩ := hv.2 e he
    rw [Option.mem_def] at a b c
    rw [b1] at a; cases a
    rw [b2] at b; cases b
    rw [b3] at c; cases c
    have hfilter : (List.range (ccm_HalfedgeCount subd.cage)).filter
          (fun g : Nat => ((ccm_HalfedgeEdgeID subd.cage g).getD 0).toNat = e)
        = (List.range (ccm_HalfedgeCount subd.cage)).filter
          (fun g : Nat => ccm_HalfedgeEdgeID subd.cage g = some (e : Int)) := by
      apply List.filter_congr
      intro g hg
      obtain ⟨e2, f, t, n, A, B, F, a0, a1, _⟩ :=
        hbody out g (List.mem_range.mp hg) (fun _ _ => rfl)
      simp only [a1, Option.getD_some, Int.toNat_ofNat, Option.some.injEq, Nat.cast_inj]
    rw [s3 e he, hzero e he, hfilter]
    have hsum := edge_scatter_sum
      (fun g : Int => ((ccs__CageEdgePoints_Scatter_halfedge subd.cage
        (ccm_VertexCount subd.cage) out g).getD default).2)
      _ h t A B F1 F2 hp
      (by
        obtain ⟨g, g1, g2, _⟩ := mem_of_perm_carriers _ _ _ h hp (by split_ifs <;> simp)
        subst g2
        obtain ⟨e2, f, t2, n2, A2, B2, F, a0, a1, a2, a3, a4, a5, a6, a7, _, a9⟩ :=
          hbody out g g1 (fun _ _ => rfl)
        rw [b2] at a3; cases a3
        rw [b3] at a4; cases a4
        rw [b4] at a5; cases a5
        rw [b5] at a6; cases a6
        rw [a2, Option.some_bind, a7] at b6
        cases b6
        beta_reduce
        rw [a9]
        rfl)
      (by
        intro h0
        obtain ⟨⟨⟨t3, q1, q2⟩, q3⟩, q4⟩ := hq h0
        obtain ⟨g, g1, g2, _⟩ := mem_of_perm_carriers _ _ _ t hp
          (by rw [if_neg (by omega)]; simp)
        subst g2
        obtain ⟨e2, f, t2, n2, A2, B2, F, a0, a1, a2, a3, a4, a5, a6, a7, _, a9⟩ :=
          hbody out g g1 (fun _ _ => rfl)
        rw [Option.mem_def] at q1
        rw [q1] at a3; cases a3
        have hA2 : A2 = B := by
          have : ccm_HalfedgeVertexPoint subd.cage (g : Int)
              = ccm_HalfedgeVertexPoint subd.cage n := by
            unfold ccm_HalfedgeVertexPoint
            rw [q3]
          rw [a5, b5] at this
          exact Option.some.inj this
        have hB2 : B2 = A := by
          have : ccm_HalfedgeVertexPoint subd.cage n2
              = ccm_HalfedgeVertexPoint subd.cage h := by
            unfold ccm_HalfedgeVertexPoint
            rw [a4, Option.some_bind] at q4
            rw [q4]
          rw [a6, b4] at this
          exact Option.some.inj this
        have hm : cc__Max 0 (g : Int) = (g : Int) := max_eq_right h0
        rw [hm, a2, Option.some_bind, a7] at b7
        cases b7
        subst hA2 hB2
        beta_reduce
        rw [a9, if_pos q2]
        rfl)
    rw [List.map_map] at hsum
    have hsum2 : (((List.range (ccm_HalfedgeCount subd.cage)).filter
          (fun g : Nat => ccm_HalfedgeEdgeID subd.cage g = some (e : Int))).map
        (fun g : Nat => ((ccs__CageEdgePoints_Scatter_halfedge subd.cage
          (ccm_VertexCount subd.cage) out (g : Nat)).getD default).2)).sum
        = if t < 0 then (1 / 2 : ℚ) • (A + B) else (1 / 4 : ℚ) • (A + B + F1 + F2) := hsum
    rw [hsum2]
    simp only [Option.map_some', Option.some.injEq]
    rw [show ((0, 0, 0) : cc_VertexPoint) = 0 from rfl, zero_add]

theorem level_edge_scatter_kernel (subd : cc_Subd) (e2h : Int → Nat → Int) (depth : Nat)
    (out : List cc_VertexPoint)
    (hout : ccs__Level subd.vertexPoints (depth + 1) = some out)
    (hlen : ccm_VertexCountAtDepth_Fast subd.cage depth
      + ccm_FaceCountAtDepth_Fast subd.cage depth
      + ccm_EdgeCountAtDepth_Fast subd.cage depth ≤ out.length)
    (hzero : ∀ e : Nat, e < ccm_EdgeCountAtDepth_Fast subd.cage depth →
      out[ccm_VertexCountAtDepth_Fast subd.cage depth
        + ccm_FaceCountAtDepth_Fast subd.cage depth + e]? = some (0, 0, 0))
    (hv : ccs_EdgesCarried subd e2h depth) :
    ∃ outS, ccs__EdgePoints_Scatter subd depth =
        some { subd with vertexPoints := subd.vertexPoints.set depth outS } ∧
      ∀ e : Nat, e < ccm_EdgeCountAtDepth_Fast subd.cage depth →
        ∀ (t : Int) (A B F1 F2 : cc_VertexPoint),
          ccs_HalfedgeTwinID subd (e2h e depth) depth = some t →
          ccs_HalfedgeVertexPoint subd (e2h e depth) depth = some A →
          ccs_HalfedgeVertexPoint subd (ccs_HalfedgeNextID subd (e2h e depth) depth) depth
            = some B →
          readAt out ((ccm_VertexCountAtDepth_Fast subd.cage depth : Int)
            + ccs_HalfedgeFaceID subd (e2h e depth) depth) = some F1 →
          readAt out ((ccm_VertexCountAtDepth_Fast subd.cage depth : Int)
            + ccs_HalfedgeFaceID subd (cc__Max 0 t) depth) = some F2 →
          outS[ccm_VertexCountAtDepth_Fast subd.cage depth
              + ccm_FaceCountAtDepth_Fast subd.cage depth + e]?
            = some (if t < 0 then (1 / 2 : ℚ) • (A + B)
                else (1 / 4 : ℚ) • (A + B + F1 + F2)) := by
  have hbody : ∀ (o : List cc_VertexPoint) (g : Nat),
      g < ccm_HalfedgeCountAtDepth subd.cage depth →
      (∀ j : Nat, j < ccm_VertexCountAtDepth_Fast subd.cage depth
        + ccm_FaceCountAtDepth_Fast subd.cage depth → o[j]? = out[j]?) →
      ∃ (e : Nat) (t : Int) (A B F : cc_VertexPoint),
        e < ccm_EdgeCountAtDepth_Fast subd.cage depth ∧
        ccs_HalfedgeEdgeID subd g depth = some (e : Int) ∧
        ccs_HalfedgeTwinID subd g depth = some t ∧
        ccs_HalfedgeVertexPoint subd g depth = some A ∧
        ccs_HalfedgeVertexPoint subd (ccs_HalfedgeNextID subd g depth) depth = some B ∧
        readAt out ((ccm_VertexCountAtDepth_Fast subd.cage depth : Int)
          + ccs_HalfedgeFaceID subd g depth) = some F ∧
        ccs__EdgePoints_Scatter_halfedge subd depth
            (ccm_VertexCountAtDepth_Fast subd.cage depth) o g
          = some ((e : Int), if 0 ≤ t then (1 / 4 : ℚ) • F + (1 / 8 : ℚ) • (A + B)
              else (1 / 2 : ℚ) • (A + B)) ∧
        ccs__EdgePoints_Scatter_halfedge subd depth
            (ccm_VertexCountAtDepth_Fast subd.cage depth) out g
          = some ((e : Int), if 0 ≤ t then (1 / 4 : ℚ) • F + (1 / 8 : ℚ) • (A + B)
              else (1 / 2 : ℚ) • (A + B)) := by
    intro o g hg hag
    obtain ⟨e, t, A, B, F, a0, a1, a3, a5, a6, a7, a8⟩ :=
      level_halfedge_reads subd depth g (hv.1 g hg) o out (by omega) hag
    exact ⟨e, t, A, B, F, a0, a1, a3, a5, a6, a7,
      level_edge_scatter_body subd depth _ o g e t A B F a1 a3 a8 a5 a6,
      level_edge_scatter_body subd depth _ out g e t A B F a1 a3 a7 a5 a6⟩
  obtain ⟨oS, s1, s2, s3, s4⟩ := scatter_foldlM (ccm_HalfedgeCountAtDepth subd.cage depth)
    (ccm_VertexCountAtDepth_Fast subd.cage depth + ccm_FaceCountAtDepth_Fast subd.cage depth)
    (ccm_EdgeCountAtDepth_Fast subd.cage depth)
    ((ccm_VertexCountAtDepth_Fast subd.cage depth : Int)
      + (ccm_FaceCountAtDepth_Fast subd.cage depth : Int)) (by push_cast; rfl)
    (fun o (g : Nat) => ccs__EdgePoints_Scatter_halfedge subd depth
      (ccm_VertexCountAtDepth_Fast subd.cage depth) o g)
    (fun g => ((ccs_HalfedgeEdgeID subd g depth).getD 0).toNat)
    (fun g => ((ccs__EdgePoints_Scatter_halfedge subd depth
      (ccm_VertexCountAtDepth_Fast subd.cage depth) out (g : Nat)).getD default).2)
    out hlen
    (by
      intro g hg
      obtain ⟨e, t, A, B, F, a0, a1, _⟩ := hbody out g hg (fun _ _ => rfl)
      simp only [a1, Option.getD_some, Int.toNat_ofNat]
      exact a0)
    (by
      intro o g hg _ hag
      obtain ⟨e, t, A, B, F, a0, a1, a3, a5, a6, a7, a8, a9⟩ :=
        hbody o g hg (fun j hj => hag j (Or.inl hj))
      beta_reduce
      rw [a8, a9]
      simp only [a1, Option.getD_some, Int.toNat_ofNat])
  refine ⟨oS, ?_, ?_⟩
  · unfold ccs__EdgePoints_Scatter
    simp only [hout, Option.bind_eq_bind, Option.some_bind]
    rw [s1]
    rfl
  · intro e he t A B F1 F2 b2 b4 b5 b6 b7
    obtain ⟨t', b, hp, hq⟩ := hv.2 e he
    rw [Option.mem_def] at b
    rw [b2] at b; cases b
    have hfilter : (List.range (ccm_HalfedgeCountAtDepth subd.cage depth)).filter
          (fun g : Nat => ((ccs_HalfedgeEdgeID subd g depth).getD 0).toNat = e)
        = (List.range (ccm_HalfedgeCountAtDepth subd.cage depth)).filter
          (fun g : Nat => ccs_HalfedgeEdgeID subd g depth = some (e : Int)) := by
      apply List.filter_congr
      intro g hg
      obtain ⟨e2, t, A, B, F, a0, a1, _⟩ :=
        hbody out g (List.mem_range.mp hg) (fun _ _ => rfl)
      simp only [a1, Option.getD_some, Int.toNat_ofNat, Option.some.injEq, Nat.cast_inj]
    rw [s3 e he, hzero e he, hfilter]
    have hsum := edge_scatter_sum
      (fun g : Int => ((ccs__EdgePoints_Scatter_halfedge subd depth
        (ccm_VertexCountAtDepth_Fast subd.cage depth) out g).getD default).2)
      _ (e2h e depth) t A B F1 F2 hp
      (by
        obtain ⟨g, g1, g2, _⟩ := mem_of_perm_carriers _ _ _ (e2h e depth) hp
          (by split_ifs <;> simp)
        obtain ⟨e2, t2, A2, B2, F, a0, a1, a3, a5, a6, a7, _, a9⟩ :=
          hbody out g g1 (fun _ _ => rfl)
        rw [← g2] at a3 a5 a6 a7 a9
        rw [b2] at a3; cases a3
        rw [b4] at a5; cases a5
        rw [b5] at a6; cases a6
        rw [a7] at b6
        cases b6
        beta_reduce
        rw [a9]
        rfl)
      (by
        intro h0
        obtain ⟨⟨⟨t3, q1, q2⟩, q3⟩, q4⟩ := hq h0
        obtain ⟨g, g1, g2, _⟩ := mem_of_perm_carriers _ _ _ t hp
          (by rw [if_neg (by omega)]; simp)
        subst g2
        obtain ⟨e2, t2, A2, B2, F, a0, a1, a3, a5, a6, a7, _, a9⟩ :=
          hbody out g g1 (fun _ _ => rfl)
        rw [Option.mem_def] at q1
        rw [q1] at a3; cases a3
        have hA2 : A2 = B := by
          have : ccs_HalfedgeVertexPoint subd (g : Int) depth
              = ccs_HalfedgeVertexPoint subd
                  (ccs_HalfedgeNextID subd (e2h e depth) depth) depth := by
            unfold ccs_HalfedgeVertexPoint
            rw [q3]
          rw [a5, b5] at this
          exact Option.some.inj this
        have hB2 : B2 = A := by
          have : ccs_HalfedgeVertexPoint subd (ccs_HalfedgeNextID subd (g : Int) depth) depth
              = ccs_HalfedgeVertexPoint subd (e2h e depth) depth := by
            unfold ccs_HalfedgeVertexPoint
            rw [q4]
          rw [a6, b4] at this
          exact Option.some.inj this
        have hm : cc__Max 0 (g : Int) = (g : Int) := max_eq_right h0
        rw [hm, a7] at b7
        cases b7
        subst hA2 hB2
        beta_reduce
        rw [a9, if_pos q2]
        rfl)
    rw [List.map_map] at hsum
    have hsum2 : (((List.range (ccm_HalfedgeCountAtDepth subd.cage depth)).filter
          (fun g : Nat => ccs_HalfedgeEdgeID subd g depth = some (e : Int))).map
        (fun g : Nat => ((ccs__EdgePoints_Scatter_halfedge subd depth
          (ccm_VertexCountAtDepth_Fast subd.cage depth) out (g : Nat)).getD default).2)).sum
        = if t < 0 then (1 / 2 : ℚ) • (A + B) else (1 / 4 : ℚ) • (A + B + F1 + F2) := hsum
    rw [hsum2]
    simp only [Option.map_some', Option.some.injEq]
    rw [show ((0, 0, 0) : cc_VertexPoint) = 0 from rfl, zero_add]

/-- C20: on a cage that is a halfedge mesh (`ccm_EdgesCarried`: every edge is
carried by one halfedge, or by two twins of opposite directions),
`ccs__CageEdgePoints_Scatter` and `ccs__CageEdgePoints_Gather`, run on the same
level 1 region whose edge points are zero, both return, and they leave the same
value in the slot `V0 + F0 + e` of every edge `e`, on the boundary or not:
the sum of the contributions of the one or two halfedges of `e` is the value the
gather kernel writes (first part); likewise `ccs__EdgePoints_Scatter` and
`ccs__EdgePoints_Gather` at every depth (second part). -/
theorem C20_edge_gather_scatter :
    (∀ (subd : cc_Subd) (out : List cc_VertexPoint),
      subd.vertexPoints[0]? = some out →
      ccm_VertexCount subd.cage + ccm_FaceCount subd.cage + ccm_EdgeCount subd.cage
        ≤ out.length →
      (∀ e : Nat, e < ccm_EdgeCount subd.cage →
        out[ccm_VertexCount subd.cage + ccm_FaceCount subd.cage + e]? = some (0, 0, 0)) →
      ccm_EdgesCarried subd.cage →
      ∃ outS outG : List cc_VertexPoint,
        ccs__CageEdgePoints_Scatter subd =
          some { subd with vertexPoints := subd.vertexPoints.set 0 outS } ∧
        ccs__CageEdgePoints_Gather subd =
          some { subd with vertexPoints := subd.vertexPoints.set 0 outG } ∧
        ∀ e : Nat, e < ccm_EdgeCount subd.cage →
          ∃ p : cc_VertexPoint,
            outS[ccm_VertexCount subd.cage + ccm_FaceCount subd.cage + e]? = some p ∧
            outG[ccm_VertexCount subd.cage + ccm_FaceCount subd.cage + e]? = some p) ∧
    (∀ (subd : cc_Subd) (edgeToHalfedgeID : Int → Nat → Int) (depth : Nat)
      (out : List cc_VertexPoint),
      ccs__Level subd.vertexPoints (depth + 1) = some out →
      ccm_VertexCountAtDepth_Fast subd.cage depth + ccm_FaceCountAtDepth_Fast subd.cage depth
        + ccm_EdgeCountAtDepth_Fast subd.cage depth ≤ out.length →
      (∀ e : Nat, e < ccm_EdgeCountAtDepth_Fast subd.cage depth →
        out[ccm_VertexCountAtDepth_Fast subd.cage depth
          + ccm_FaceCountAtDepth_Fast subd.cage depth + e]? = some (0, 0, 0)) →
      ccs_EdgesCarried subd edgeToHalfedgeID depth →
      ∃ outS outG : List cc_VertexPoint,
        ccs__EdgePoints_Scatter subd depth =
          some { subd with vertexPoints := subd.vertexPoints.set depth outS } ∧
        ccs__EdgePoints_Gather subd edgeToHalfedgeID depth =
          some { subd with vertexPoints := subd.vertexPoints.set depth outG } ∧
        ∀ e : Nat, e < ccm_EdgeCountAtDepth_Fast subd.cage depth →
          ∃ p : cc_VertexPoint,
            outS[ccm_VertexCountAtDepth_Fast subd.cage depth
              + ccm_FaceCountAtDepth_Fast subd.cage depth + e]? = some p ∧
            outG[ccm_VertexCountAtDepth_Fast subd.cage depth
              + ccm_FaceCountAtDepth_Fast subd.cage depth + e]? = some p) := by
  constructor
  · intro subd out hout hlen hzero hv
    have hr := ccm_EdgesCarried_reads subd.cage hv
    obtain ⟨oS, s1, s2⟩ := cage_edge_scatter_kernel subd out hout hlen hzero hv
    obtain ⟨oG, g1, _, _, g4⟩ := cage_edge_kernel subd out hout hlen hr
    refine ⟨oS, oG, s1, g1, ?_⟩
    intro e he
    obtain ⟨h, t, n, A, B, F1, F2, b1, b2, b3, b4, b5, b6, b7, _, _⟩ :=
      cage_edge_reads subd.cage hr out out (by omega) (fun _ _ => rfl) e he
    refine ⟨_, s2 e he h t n A B F1 F2 b1 b2 b3 b4 b5 b6 b7, ?_⟩
    rw [(g4 e he).1, cage_edge_body subd.cage _ out e h t n A B F1 F2 b1 b2 b3 b4 b5 b6 b7]
  · intro subd e2h depth out hout hlen hzero hv
    have hr := ccs_EdgesCarried_reads subd e2h depth hv
    obtain ⟨oS, s1, s2⟩ := level_edge_scatter_kernel subd e2h depth out hout hlen hzero hv
    obtain ⟨oG, g1, _, _, g4⟩ := level_edge_kernel subd e2h depth out hout hlen hr
    refine ⟨oS, oG, s1, g1, ?_⟩
    intro e he
    obtain ⟨t, A, B, F1, F2, b2, b4, b5, b6, b7, _, _⟩ :=
      level_edge_reads subd e2h depth hr out out (by omega) (fun _ _ => rfl) e he
    refine ⟨_, s2 e he t A B F1 F2 b2 b4 b5 b6 b7, ?_⟩
    rw [(g4 e he).1, level_edge_body subd e2h depth _ out e t A B F1 F2 b2 b4 b5 b6 b7]

/-- C20, witness: the two glued triangles (cage kernels), with one interior edge
and four boundary edges, and level 1 of the open quad (level kernels), with
four interior edges and eight boundary edges. -/
theorem C20_edge_gather_scatter_witness :
    (ccm_EdgesCarried trianglesMesh ∧
      ∃ outS outG : List cc_VertexPoint,
        ccs__CageEdgePoints_Scatter
          { cage := trianglesMesh, maxDepth := 1, halfedges := [], creases := [],
            vertexPoints := [trianglesFacePoints] } =
          some { cage := trianglesMesh, maxDepth := 1, halfedges := [], creases := [],
                 vertexPoints := [outS] } ∧
        ccs__CageEdgePoints_Gather
          { cage := trianglesMesh, maxDepth := 1, halfedges := [], creases := [],
            vertexPoints := [trianglesFacePoints] } =
          some { cage := trianglesMesh, maxDepth := 1, halfedges := [], creases := [],
                 vertexPoints := [outG] } ∧
        ∀ e : Nat, e < 5 →
          ∃ p : cc_VertexPoint, outS[6 + e]? = some p ∧ outG[6 + e]? = some p) ∧
    (ccs_EdgesCarried quadFacesSubd quadEdgeToHalfedgeID 1 ∧
      ∃ outS outG : List cc_VertexPoint,
        ccs__EdgePoints_Scatter quadFacesSubd 1 =
          some { quadFacesSubd with vertexPoints := quadFacesSubd.vertexPoints.set 1 outS } ∧
        ccs__EdgePoints_Gather quadFacesSubd quadEdgeToHalfedgeID 1 =
          some { quadFacesSubd with vertexPoints := quadFacesSubd.vertexPoints.set 1 outG } ∧
        ∀ e : Nat, e < 12 →
          ∃ p : cc_VertexPoint, outS[13 + e]? = some p ∧ outG[13 + e]? = some p) :=
  ⟨⟨by decide, C20_edge_gather_scatter.1
      { cage := trianglesMesh, maxDepth := 1, halfedges := [], creases := [],
        vertexPoints := [trianglesFacePoints] }
      trianglesFacePoints rfl (by decide)
      (by intro e he; have he' : e < 5 := he; interval_cases e <;> rfl) (by decide)⟩,
   ⟨by decide, C20_edge_gather_scatter.2 quadFacesSubd quadEdgeToHalfedgeID 1
      quadFacePoints2 rfl (by decide)
      (by intro e he; have he' : e < 12 := he; interval_cases e <;> rfl) (by decide)⟩⟩

/-! ## Vertex points without creases: `ccs__CageVertexPoints_Gather` and
`ccs__VertexPoints_Gather` -/

/-- One iteration of the loop around the vertex of `ccs__CageVertexPoints_Gather`,
with its increment `iterator = ccm_PrevVertexHalfedgeID(cage, iterator)`; the
local variables are `smoothPoint` and `valence`. -/
def ccs__CageVertexPoints_Gather_ring (cage : cc_Mesh) (vertexCount faceCount : Int)
    (points : List cc_VertexPoint) (iterator : Int) (s : cc_VertexPoint × ℚ) :
    Option (Int × (cc_VertexPoint × ℚ)) := do
  let edgeID ← ccm_HalfedgeEdgeID cage iterator
  let faceID ← ccm_HalfedgeFaceID cage iterator
  let newEdgePoint ← readAt points (vertexCount + faceCount + edgeID)
  let newFacePoint ← readAt points (vertexCount + faceID)
  let tmp1 := cc__Mul3f newFacePoint (-1)
  let tmp2 := cc__Mul3f newEdgePoint 4
  let smoothPoint := cc__Add3f (cc__Add3f s.1 tmp1) tmp2
  let next ← ccm_PrevVertexHalfedgeID cage iterator
  some (next, (smoothPoint, s.2 + 1))

/-- The body of the loop over the vertices of `ccs__CageVertexPoints_Gather`: the
value that is stored in `newVertexPoints[vertexID]`. -/
def ccs__CageVertexPoints_Gather_vertex (cage : cc_Mesh) (vertexCount faceCount : Int)
    (points : List cc_VertexPoint) (fuel : Nat) (vertexID : Int) : Option cc_VertexPoint := do
  let halfedgeID ← ccm_VertexToHalfedgeID cage vertexID
  let edgeID ← ccm_HalfedgeEdgeID cage halfedgeID
  let faceID ← ccm_HalfedgeFaceID cage halfedgeID
  let newEdgePoint ← readAt points (vertexCount + faceCount + edgeID)
  let newFacePoint ← readAt points (vertexCount + faceID)
  let oldVertexPoint ← ccm_VertexPoint cage vertexID
  let valence : ℚ := 1
  let tmp1 := cc__Mul3f newFacePoint (-1)
  let tmp2 := cc__Mul3f newEdgePoint 4
  let smoothPoint := cc__Add3f tmp1 tmp2
  let start ← ccm_PrevVertexHalfedgeID cage halfedgeID
  let r ← forLoop (fun iterator => decide (iterator ≥ 0) && decide (iterator ≠ halfedgeID))
    (ccs__CageVertexPoints_Gather_ring cage vertexCount faceCount points)
    fuel start (smoothPoint, valence)
  let iterator := r.1
  let smoothPoint := r.2.1
  let valence := r.2.2
  let tmp1 := cc__Mul3f smoothPoint (1 / (valence * valence))
  let tmp2 := cc__Mul3f oldVertexPoint (1 - 3 / valence)
  let smoothPoint := cc__Add3f tmp1 tmp2
  some (cc__Lerp3f oldVertexPoint smoothPoint (if iterator ≠ halfedgeID then 0 else 1))

/-- The kernel `ccs__CageVertexPoints_Gather`: `newVertexPoints` is the region of
level 1 of the vertex point buffer. -/
def ccs__CageVertexPoints_Gather (subd : cc_Subd) (fuel : Nat) : Option cc_Subd := do
  let cage := subd.cage
  let vertexCount := ccm_VertexCount cage
  let faceCount := ccm_FaceCount cage
  let points ← subd.vertexPoints[0]?
  let out ← (List.range vertexCount).foldlM
    (fun out (vertexID : Nat) => do
      let newVertexPoint ←
        ccs__CageVertexPoints_Gather_vertex cage vertexCount faceCount out fuel vertexID
      writeAt out (vertexID : Int) (fun _ => newVertexPoint))
    points
  some { subd with vertexPoints := subd.vertexPoints.set 0 out }

/-- One iteration of the loop around the vertex of `ccs__VertexPoints_Gather`,
with its increment. -/
def ccs__VertexPoints_Gather_ring (subd : cc_Subd) (depth : Nat) (vertexCount faceCount : Int)
    (points : List cc_VertexPoint) (iterator : Int) (s : cc_VertexPoint × ℚ) :
    Option (Int × (cc_VertexPoint × ℚ)) := do
  let edgeID ← ccs_HalfedgeEdgeID subd iterator depth
  let faceID := ccs_HalfedgeFaceID subd iterator depth
  let newEdgePoint ← readAt points (vertexCount + faceCount + edgeID)
  let newFacePoint ← readAt points (vertexCount + faceID)
  let tmp1 := cc__Mul3f newFacePoint (-1)
  let tmp2 := cc__Mul3f newEdgePoint 4
  let smoothPoint := cc__Add3f (cc__Add3f s.1 tmp1) tmp2
  let next ← ccs_PrevVertexHalfedgeID subd iterator depth
  some (next, (smoothPoint, s.2 + 1))

/-- The body of the loop over the vertices of `ccs__VertexPoints_Gather`;
`points` is the region of level `depth + 1` of the vertex point buffer.  The
loop of `ccs_VertexPointToHalfedgeID` and the loop around the vertex are both
run for at most `fuel` iterations. -/
def ccs__VertexPoints_Gather_vertex (subd : cc_Subd) (edgeToHalfedgeID : Int → Nat → Int)
    (vertexToHalfedgeID_First : Int → Int) (depth : Nat) (vertexCount faceCount : Int)
    (points : List cc_VertexPoint) (fuel : Nat) (vertexID : Int) : Option cc_VertexPoint := do
  let halfedgeID ← ccs_VertexPointToHalfedgeID subd.cage edgeToHalfedgeID
    vertexToHalfedgeID_First vertexID depth fuel
  let edgeID ← ccs_HalfedgeEdgeID subd halfedgeID depth
  let faceID := ccs_HalfedgeFaceID subd halfedgeID depth
  let newEdgePoint ← readAt points (vertexCount + faceCount + edgeID)
  let newFacePoint ← readAt points (vertexCount + faceID)
  let oldVertexPoint ← ccs_VertexPoint subd vertexID depth
  let valence : ℚ := 1
  let tmp1 := cc__Mul3f newFacePoint (-1)
  let tmp2 := cc__Mul3f newEdgePoint 4
  let smoothPoint := cc__Add3f tmp1 tmp2
  let start ← ccs_PrevVertexHalfedgeID subd halfedgeID depth
  let r ← forLoop (fun iterator => decide (iterator ≥ 0) && decide (iterator ≠ halfedgeID))
    (ccs__VertexPoints_Gather_ring subd depth vertexCount faceCount points)
    fuel start (smoothPoint, valence)
  let iterator := r.1
  let smoothPoint := r.2.1
  let valence := r.2.2
  let tmp1 := cc__Mul3f smoothPoint (1 / (valence * valence))
  let tmp2 := cc__Mul3f oldVertexPoint (1 - 3 / valence)
  let smoothPoint := cc__Add3f tmp1 tmp2
  some (cc__Lerp3f oldVertexPoint smoothPoint (if iterator ≠ halfedgeID then 0 else 1))

/-- The kernel `ccs__VertexPoints_Gather`. -/
def ccs__VertexPoints_Gather (subd : cc_Subd) (edgeToHalfedgeID : Int → Nat → Int)
    (vertexToHalfedgeID_First : Int → Int) (depth : Nat) (fuel : Nat) : Option cc_Subd := do
  let cage := subd.cage
  let vertexCount := ccm_VertexCountAtDepth_Fast cage depth
  let faceCount := ccm_FaceCountAtDepth_Fast cage depth
  let points ← ccs__Level subd.vertexPoints (depth + 1)
  let out ← (List.range vertexCount).foldlM
    (fun out (vertexID : Nat) => do
      let newVertexPoint ← ccs__VertexPoints_Gather_vertex subd edgeToHalfedgeID
        vertexToHalfedgeID_First depth vertexCount faceCount out fuel vertexID
      writeAt out (vertexID : Int) (fun _ => newVertexPoint))
    points
  some { subd with vertexPoints := subd.vertexPoints.set depth out }

/-- The walk around the vertex of the cage halfedge `halfedgeID`: the halfedge,
then the halfedges `ccm_PrevVertexHalfedgeID` reaches from it as long as they
are not negative and not `halfedgeID`, and the value of the iterator at the
exit: `halfedgeID` when the ring is closed, a negative value when it is open;
`none` when `fuel` steps do not reach the exit. -/
def ccm_VertexRing (cage : cc_Mesh) (fuel : Nat) (halfedgeID : Int) :
    Option (List Int × Int) := do
  let start ← ccm_PrevVertexHalfedgeID cage halfedgeID
  let r ← ringWalk (ccm_PrevVertexHalfedgeID cage)
    (fun iterator => decide (iterator ≥ 0) && decide (iterator ≠ halfedgeID)) fuel start
  some (halfedgeID :: r.1, r.2)

/-- The walk around the vertex of the halfedge `halfedgeID` of level `depth`. -/
def ccs_VertexRing (subd : cc_Subd) (depth : Nat) (fuel : Nat) (halfedgeID : Int) :
    Option (List Int × Int) := do
  let start ← ccs_PrevVertexHalfedgeID subd halfedgeID depth
  let r ← ringWalk (fun iterator => ccs_PrevVertexHalfedgeID subd iterator depth)
    (fun iterator => decide (iterator ≥ 0) && decide (iterator ≠ halfedgeID)) fuel start
  some (halfedgeID :: r.1, r.2)

/-- The smooth vertex rule as the kernels compute it from the sum `S` of
`4E - F` around the vertex and the count `n`: `S/n^2 + (1 - 3/n) V` on a closed
ring, `V` on an open ring. -/
def vertexRule (V S : cc_VertexPoint) (n : ℚ) (closed : Bool) : cc_VertexPoint :=
  if closed then (1 / (n * n)) • S + (1 - 3 / n) • V else V

theorem vertex_rule (V S : cc_VertexPoint) (n : ℚ) (it h : Int) :
    cc__Lerp3f V (cc__Add3f (cc__Mul3f S (1 / (n * n))) (cc__Mul3f V (1 - 3 / n)))
      (if it ≠ h then 0 else 1) = vertexRule V S n (decide (it = h)) := by
  simp only [cc__Lerp3f, cc__Add3f, cc__Mul3f, vertexRule]
  by_cases c : it = h
  · simp only [c, ne_eq, not_true_eq_false, if_false, decide_True, if_true, one_smul]
    abel
  · simp [c]

theorem foldl_vertex_ring (E F : Int → cc_VertexPoint) (ring : List Int) :
    ∀ (p : cc_VertexPoint) (c : ℚ),
      ring.foldl (fun (s : cc_VertexPoint × ℚ) g =>
          (cc__Add3f (cc__Add3f s.1 (cc__Mul3f (F g) (-1))) (cc__Mul3f (E g) 4), s.2 + 1)) (p, c)
        = (p + (ring.map (fun g => (4 : ℚ) • E g - F g)).sum, c + (ring.length : ℚ)) := by
  induction ring with
  | nil => intro p c; simp
  | cons h t ih =>
    intro p c
    rw [List.foldl_cons, ih]
    simp only [List.map_cons, List.sum_cons, List.length_cons, Nat.cast_add, Nat.cast_one,
      cc__Add3f, cc__Mul3f, Prod.mk.injEq]
    constructor
    · module
    · ring

theorem readAt_agree_ge {α : Type} (o out : List α) (base : Nat) (i : Int)
    (h0 : (base : Int) ≤ i) (h1 : i < (out.length : Int))
    (h : ∀ j : Nat, base ≤ j → o[j]? = out[j]?) :
    readAt o i = readAt out i ∧ (readAt out i).isSome = true := by
  obtain ⟨k, rfl⟩ : ∃ k : Nat, i = (k : Int) := ⟨i.toNat, by omega⟩
  rw [readAt_natCast, readAt_natCast, h k (by omega)]
  refine ⟨rfl, ?_⟩
  have hlt : k < out.length := by omega
  simp [List.getElem?_eq_getElem hlt]

theorem cage_vertex_body (cage : cc_Mesh) (V F : Int) (pts : List cc_VertexPoint) (fuel : Nat)
    (v h : Int) (Vp : cc_VertexPoint) (ring : List Int) (last : Int)
    (Ep Fp : Int → cc_VertexPoint)
    (hh : ccm_VertexToHalfedgeID cage v = some h) (hV : ccm_VertexPoint cage v = some Vp)
    (hr : ccm_VertexRing cage fuel h = some (ring, last))
    (hreads : ∀ g ∈ ring,
      (ccm_HalfedgeEdgeID cage g).bind (fun e => readAt pts (V + F + e)) = some (Ep g) ∧
      (ccm_HalfedgeFaceID cage g).bind (fun f => readAt pts (V + f)) = some (Fp g)) :
    ccs__CageVertexPoints_Gather_vertex cage V F pts fuel v
      = some (vertexRule Vp ((ring.map (fun g => (4 : ℚ) • Ep g - Fp g)).sum)
          (ring.length : ℚ) (decide (last = h))) := by
  unfold ccm_VertexRing at hr
  cases hs : ccm_PrevVertexHalfedgeID cage h with
  | none => simp [hs] at hr
  | some start =>
    simp only [hs, Option.bind_eq_bind, Option.some_bind] at hr
    cases hw : ringWalk (ccm_PrevVertexHalfedgeID cage)
        (fun iterator => decide (iterator ≥ 0) && decide (iterator ≠ h)) fuel start with
    | none =>
      rw [hw] at hr
      exact absurd hr (by simp)
    | some r =>
      obtain ⟨rest, l⟩ := r
      rw [hw] at hr
      simp only [Option.some_bind, Option.some.injEq, Prod.mk.injEq] at hr
      obtain ⟨rfl, rfl⟩ := hr
      have hl := forLoop_of_ringWalk (ccm_PrevVertexHalfedgeID cage)
        (fun iterator => decide (iterator ≥ 0) && decide (iterator ≠ h))
        (ccs__CageVertexPoints_Gather_ring cage V F pts)
        (fun g (s : cc_VertexPoint × ℚ) =>
          (cc__Add3f (cc__Add3f s.1 (cc__Mul3f (Fp g) (-1))) (cc__Mul3f (Ep g) 4), s.2 + 1))
        fuel start rest l
        (cc__Add3f (cc__Mul3f (Fp h) (-1)) (cc__Mul3f (Ep h) 4), 1) hw
        (by
          intro g hg nxt s hst
          obtain ⟨a, b⟩ := hreads g (List.mem_cons_of_mem _ hg)
          obtain ⟨e, a1, a2⟩ := Option.bind_eq_some.mp a
          obtain ⟨f, b1, b2⟩ := Option.bind_eq_some.mp b
          unfold ccs__CageVertexPoints_Gather_ring
          simp only [a1, b1, a2, b2, hst, Option.bind_eq_bind, Option.some_bind])
      obtain ⟨a, b⟩ := hreads h (List.mem_cons_self _ _)
      obtain ⟨e, a1, a2⟩ := Option.bind_eq_some.mp a
      obtain ⟨f, b1, b2⟩ := Option.bind_eq_some.mp b
      unfold ccs__CageVertexPoints_Gather_vertex
      simp only [hh, hV, a1, b1, a2, b2, hs, hl, Option.bind_eq_bind, Option.some_bind]
      rw [foldl_vertex_ring, vertex_rule]
      simp only [Option.some.injEq, List.map_cons, List.sum_cons, List.length_cons,
        Nat.cast_add, Nat.cast_one, cc__Add3f, cc__Mul3f]
      congr 1
      · module
      · ring

theorem level_vertex_body (subd : cc_Subd) (e2h : Int → Nat → Int) (v2h : Int → Int)
    (depth : Nat) (V F : Int) (pts : List cc_VertexPoint) (fuel : Nat)
    (v h : Int) (Vp : cc_VertexPoint) (ring : List Int) (last : Int)
    (Ep Fp : Int → cc_VertexPoint)
    (hh : ccs_VertexPointToHalfedgeID subd.cage e2h v2h v depth fuel = some h)
    (hV : ccs_VertexPoint subd v depth = some Vp)
    (hr : ccs_VertexRing subd depth fuel h = some (ring, last))
    (hreads : ∀ g ∈ ring,
      (ccs_HalfedgeEdgeID subd g depth).bind (fun e => readAt pts (V + F + e)) = some (Ep g) ∧
      readAt pts (V + ccs_HalfedgeFaceID subd g depth) = some (Fp g)) :
    ccs__VertexPoints_Gather_vertex subd e2h v2h depth V F pts fuel v
      = some (vertexRule Vp ((ring.map (fun g => (4 : ℚ) • Ep g - Fp g)).sum)
          (ring.length : ℚ) (decide (last = h))) := by
  unfold ccs_VertexRing at hr
  cases hs : ccs_PrevVertexHalfedgeID subd h depth with
  | none => simp [hs] at hr
  | some start =>
    simp only [hs, Option.bind_eq_bind, Option.some_bind] at hr
    cases hw : ringWalk (fun iterator => ccs_PrevVertexHalfedgeID subd iterator depth)
        (fun iterator => decide (iterator ≥ 0) && decide (iterator ≠ h)) fuel start with
    | none =>
      rw [hw] at hr
      exact absurd hr (by simp)
    | some r =>
      obtain ⟨rest, l⟩ := r
      rw [hw] at hr
      simp only [Option.some_bind, Option.some.injEq, Prod.mk.injEq] at hr
      obtain ⟨rfl, rfl⟩ := hr
      have hl := forLoop_of_ringWalk (fun iterator => ccs_PrevVertexHalfedgeID subd iterator depth)
        (fun iterator => decide (iterator ≥ 0) && decide (iterator ≠ h))
        (ccs__VertexPoints_Gather_ring subd depth V F pts)
        (fun g (s : cc_VertexPoint × ℚ) =>
          (cc__Add3f (cc__Add3f s.1 (cc__Mul3f (Fp g) (-1))) (cc__Mul3f (Ep g) 4), s.2 + 1))
        fuel start rest l
        (cc__Add3f (cc__Mul3f (Fp h) (-1)) (cc__Mul3f (Ep h) 4), 1) hw
        (by
          intro g hg nxt s hst
          obtain ⟨a, b2⟩ := hreads g (List.mem_cons_of_mem _ hg)
          obtain ⟨e, a1, a2⟩ := Option.bind_eq_some.mp a
          have hst' : ccs_PrevVertexHalfedgeID subd g depth = some nxt := hst
          unfold ccs__VertexPoints_Gather_ring
          simp only [a1, a2, b2, hst', Option.bind_eq_bind, Option.some_bind])
      obtain ⟨a, b2⟩ := hreads h (List.mem_cons_self _ _)
      obtain ⟨e, a1, a2⟩ := Option.bind_eq_some.mp a
      unfold ccs__VertexPoints_Gather_vertex
      simp only [hh, hV, a1, a2, b2, hs, hl, Option.bind_eq_bind, Option.some_bind]
      rw [foldl_vertex_ring, vertex_rule]
      simp only [Option.some.injEq, List.map_cons, List.sum_cons, List.length_cons,
        Nat.cast_add, Nat.cast_one, cc__Add3f, cc__Mul3f]
      congr 1
      · module
      · ring

/-- The entry `newEdgePoints[ccm_HalfedgeEdgeID(cage, g)]` of the region `points`
of level 1 of the vertex point buffer. -/
def ccm_HalfedgeNewEdgePoint (cage : cc_Mesh) (points : List cc_VertexPoint) (g : Int) :
    Option cc_VertexPoint :=
  (ccm_HalfedgeEdgeID cage g).bind
    (fun e => readAt points ((ccm_VertexCount cage : Int) + (ccm_FaceCount cage : Int) + e))

/-- The entry `newFacePoints[ccm_HalfedgeFaceID(cage, g)]` of the region `points`
of level 1 of the vertex point buffer. -/
def ccm_HalfedgeNewFacePoint (cage : cc_Mesh) (points : List cc_VertexPoint) (g : Int) :
    Option cc_VertexPoint :=
  (ccm_HalfedgeFaceID cage g).bind (fun f => readAt points ((ccm_VertexCount cage : Int) + f))

/-- The entry `newEdgePoints[ccs_HalfedgeEdgeID(subd, g, depth)]` of the region
`points` of level `depth + 1` of the vertex point buffer. -/
def ccs_HalfedgeNewEdgePoint (subd : cc_Subd) (depth : Nat) (points : List cc_VertexPoint)
    (g : Int) : Option cc_VertexPoint :=
  (ccs_HalfedgeEdgeID subd g depth).bind
    (fun e => readAt points ((ccm_VertexCountAtDepth_Fast subd.cage depth : Int)
      + (ccm_FaceCountAtDepth_Fast subd.cage depth : Int) + e))

/-- The entry `newFacePoints[ccs_HalfedgeFaceID(subd, g, depth)]` of the region
`points` of level `depth + 1` of the vertex point buffer. -/
def ccs_HalfedgeNewFacePoint (subd : cc_Subd) (depth : Nat) (points : List cc_VertexPoint)
    (g : Int) : Option cc_VertexPoint :=
  readAt points ((ccm_VertexCountAtDepth_Fast subd.cage depth : Int)
    + ccs_HalfedgeFaceID subd g depth)

/-- The halfedge `g` of the cage has its edge in `[0, E0)` and its face in
`[0, F0)`: its new edge point and its new face point are in the buffer. -/
def ccm_HalfedgePointsInBounds (cage : cc_Mesh) (g : Int) : Prop :=
  (∃ e ∈ ccm_HalfedgeEdgeID cage g, 0 ≤ e ∧ e < (ccm_EdgeCount cage : Int)) ∧
  (∃ f ∈ ccm_HalfedgeFaceID cage g, 0 ≤ f ∧ f < (ccm_FaceCount cage : Int))

instance (cage : cc_Mesh) (g : Int) : Decidable (ccm_HalfedgePointsInBounds cage g) := by
  unfold ccm_HalfedgePointsInBounds
  infer_instance

/-- The vertex `v` of the cage has a position and a halfedge
`ccm_VertexToHalfedgeID(cage, v)` whose walk around the vertex exits within
`fuel` steps, and every halfedge of the walk has its edge in `[0, E0)` and its
face in `[0, F0)`. -/
def ccm_VertexRingReadable (cage : cc_Mesh) (fuel : Nat) (v : Int) : Prop :=
  (ccm_VertexPoint cage v).isSome = true ∧
  ∃ h ∈ ccm_VertexToHalfedgeID cage v, ∃ r ∈ ccm_VertexRing cage fuel h,
    ∀ g ∈ r.1, ccm_HalfedgePointsInBounds cage g

instance (cage : cc_Mesh) (fuel : Nat) (v : Int) :
    Decidable (ccm_VertexRingReadable cage fuel v) := by
  unfold ccm_VertexRingReadable
  infer_instance

/-- Every vertex of the cage is readable (`ccm_VertexRingReadable`). -/
def ccm_VertexRingsReadable (cage : cc_Mesh) (fuel : Nat) : Prop :=
  ∀ v : Nat, v < ccm_VertexCount cage → ccm_VertexRingReadable cage fuel v

instance (cage : cc_Mesh) (fuel : Nat) : Decidable (ccm_VertexRingsReadable cage fuel) := by
  unfold ccm_VertexRingsReadable
  infer_instance

/-- The halfedge `g` of level `depth` has its edge in `[0, E_depth)` and its
face in `[0, F_depth)`. -/
def ccs_HalfedgePointsInBounds (subd : cc_Subd) (depth : Nat) (g : Int) : Prop :=
  (∃ e ∈ ccs_HalfedgeEdgeID subd g depth,
    0 ≤ e ∧ e < (ccm_EdgeCountAtDepth_Fast subd.cage depth : Int)) ∧
  (0 ≤ ccs_HalfedgeFaceID subd g depth ∧
    ccs_HalfedgeFaceID subd g depth < (ccm_FaceCountAtDepth_Fast subd.cage depth : Int))

instance (subd : cc_Subd) (depth : Nat) (g : Int) :
    Decidable (ccs_HalfedgePointsInBounds subd depth g) := by
  unfold ccs_HalfedgePointsInBounds
  infer_instance

/-- The vertex `v` of level `depth` has a position and a halfedge
`ccs_VertexPointToHalfedgeID(subd, v, depth)` whose walk around the vertex exits
within `fuel` steps, and every halfedge of the walk has its edge in
`[0, E_depth)` and its face in `[0, F_depth)`. -/
def ccs_VertexRingReadable (subd : cc_Subd) (edgeToHalfedgeID : Int → Nat → Int)
    (vertexToHalfedgeID_First : Int → Int) (depth : Nat) (fuel : Nat) (v : Int) : Prop :=
  (ccs_VertexPoint subd v depth).isSome = true ∧
  ∃ h ∈ ccs_VertexPointToHalfedgeID subd.cage edgeToHalfedgeID vertexToHalfedgeID_First
      v depth fuel,
    ∃ r ∈ ccs_VertexRing subd depth fuel h,
      ∀ g ∈ r.1, ccs_HalfedgePointsInBounds subd depth g

instance (subd : cc_Subd) (edgeToHalfedgeID : Int → Nat → Int)
    (vertexToHalfedgeID_First : Int → Int) (depth : Nat) (fuel : Nat) (v : Int) :
    Decidable (ccs_VertexRingReadable subd edgeToHalfedgeID vertexToHalfedgeID_First
      depth fuel v) := by
  unfold ccs_VertexRingReadable
  infer_instance

/-- Every vertex of level `depth` is readable (`ccs_VertexRingReadable`). -/
def ccs_VertexRingsReadable (subd : cc_Subd) (edgeToHalfedgeID : Int → Nat → Int)
    (vertexToHalfedgeID_First : Int → Int) (depth : Nat) (fuel : Nat) : Prop :=
  ∀ v : Nat, v < ccm_VertexCountAtDepth_Fast subd.cage depth →
    ccs_VertexRingReadable subd edgeToHalfedgeID vertexToHalfedgeID_First depth fuel v

instance (subd : cc_Subd) (edgeToHalfedgeID : Int → Nat → Int)
    (vertexToHalfedgeID_First : Int → Int) (depth : Nat) (fuel : Nat) :
    Decidable (ccs_VertexRingsReadable subd edgeToHalfedgeID vertexToHalfedgeID_First
      depth fuel) := by
  unfold ccs_VertexRingsReadable
  infer_instance

theorem cage_vertex_reads (cage : cc_Mesh) (fuel : Nat) (hv : ccm_VertexRingsReadable cage fuel)
    (o out : List cc_VertexPoint)
    (hlen : ccm_VertexCount cage + ccm_FaceCount cage + ccm_EdgeCount cage ≤ out.length)
    (hag : ∀ j : Nat, ccm_VertexCount cage ≤ j → o[j]? = out[j]?)
    (v : Nat) (hlt : v < ccm_VertexCount cage) :
    ∃ (h : Int) (Vp : cc_VertexPoint) (ring : List Int) (last : Int),
      ccm_VertexToHalfedgeID cage v = some h ∧ ccm_VertexPoint cage v = some Vp ∧
      ccm_VertexRing cage fuel h = some (ring, last) ∧
      ∀ g ∈ ring,
        (ccm_HalfedgeNewEdgePoint cage out g
            = some ((ccm_HalfedgeNewEdgePoint cage out g).getD default) ∧
          ccm_HalfedgeNewFacePoint cage out g
            = some ((ccm_HalfedgeNewFacePoint cage out g).getD default)) ∧
        (ccm_HalfedgeNewEdgePoint cage o g
            = some ((ccm_HalfedgeNewEdgePoint cage out g).getD default) ∧
          ccm_HalfedgeNewFacePoint cage o g
            = some ((ccm_HalfedgeNewFacePoint cage out g).getD default)) := by
  obtain ⟨a, h, b, r, c, d⟩ := hv v hlt
  obtain ⟨Vp, hV⟩ := Option.isSome_iff_exists.mp a
  obtain ⟨ring, last⟩ := r
  refine ⟨h, Vp, ring, last, Option.mem_def.mp b, hV, Option.mem_def.mp c, ?_⟩
  intro g hg
  obtain ⟨⟨e, e1, e2, e3⟩, ⟨f, f1, f2, f3⟩⟩ := d g hg
  rw [Option.mem_def] at e1 f1
  obtain ⟨r1, r2⟩ := readAt_agree_ge o out (ccm_VertexCount cage)
    ((ccm_VertexCount cage : Int) + (ccm_FaceCount cage : Int) + e) (by omega) (by omega) hag
  obtain ⟨r3, r4⟩ := readAt_agree_ge o out (ccm_VertexCount cage)
    ((ccm_VertexCount cage : Int) + f) (by omega) (by omega) hag
  obtain ⟨x, hx⟩ := Option.isSome_iff_exists.mp r2
  obtain ⟨y, hy⟩ := Option.isSome_iff_exists.mp r4
  simp only [ccm_HalfedgeNewEdgePoint, ccm_HalfedgeNewFacePoint, e1, f1, Option.some_bind,
    r1, r3, hx, hy, Option.getD_some, and_self]

theorem level_vertex_reads (subd : cc_Subd) (e2h : Int → Nat → Int) (v2h : Int → Int)
    (depth fuel : Nat) (hv : ccs_VertexRingsReadable subd e2h v2h depth fuel)
    (o out : List cc_VertexPoint)
    (hlen : ccm_VertexCountAtDepth_Fast subd.cage depth
      + ccm_FaceCountAtDepth_Fast subd.cage depth
      + ccm_EdgeCountAtDepth_Fast subd.cage depth ≤ out.length)
    (hag : ∀ j : Nat, ccm_VertexCountAtDepth_Fast subd.cage depth ≤ j → o[j]? = out[j]?)
    (v : Nat) (hlt : v < ccm_VertexCountAtDepth_Fast subd.cage depth) :
    ∃ (h : Int) (Vp : cc_VertexPoint) (ring : List Int) (last : Int),
      ccs_VertexPointToHalfedgeID subd.cage e2h v2h v depth fuel = some h ∧
      ccs_VertexPoint subd v depth = some Vp ∧
      ccs_VertexRing subd depth fuel h = some (ring, last) ∧
      ∀ g ∈ ring,
        (ccs_HalfedgeNewEdgePoint subd depth out g
            = some ((ccs_HalfedgeNewEdgePoint subd depth out g).getD default) ∧
          ccs_HalfedgeNewFacePoint subd depth out g
            = some ((ccs_HalfedgeNewFacePoint subd depth out g).getD default)) ∧
        (ccs_HalfedgeNewEdgePoint subd depth o g
            = some ((ccs_HalfedgeNewEdgePoint subd depth out g).getD default) ∧
          ccs_HalfedgeNewFacePoint subd depth o g
            = some ((ccs_HalfedgeNewFacePoint subd depth out g).getD default)) := by
  obtain ⟨a, h, b, r, c, d⟩ := hv v hlt
  obtain ⟨Vp, hV⟩ := Option.isSome_iff_exists.mp a
  obtain ⟨ring, last⟩ := r
  refine ⟨h, Vp, ring, last, Option.mem_def.mp b, hV, Option.mem_def.mp c, ?_⟩
  intro g hg
  obtain ⟨⟨e, e1, e2, e3⟩, ⟨f2, f3⟩⟩ := d g hg
  rw [Option.mem_def] at e1
  obtain ⟨r1, r2⟩ := readAt_agree_ge o out (ccm_VertexCountAtDepth_Fast subd.cage depth)
    ((ccm_VertexCountAtDepth_Fast subd.cage depth : Int)
      + (ccm_FaceCountAtDepth_Fast subd.cage depth : Int) + e) (by omega) (by omega) hag
  obtain ⟨r3, r4⟩ := readAt_agree_ge o out (ccm_VertexCountAtDepth_Fast subd.cage depth)
    ((ccm_VertexCountAtDepth_Fast subd.cage depth : Int) + ccs_HalfedgeFaceID subd g depth)
    (by omega) (by omega) hag
  obtain ⟨x, hx⟩ := Option.isSome_iff_exists.mp r2
  obtain ⟨y, hy⟩ := Option.isSome_iff_exists.mp r4
  simp only [ccs_HalfedgeNewEdgePoint, ccs_HalfedgeNewFacePoint, e1, Option.some_bind,
    r1, r3, hx, hy, Option.getD_some, and_self]

/-- The kernel `ccs__CageVertexPoints_Gather` on a readable cage: it returns,
keeps the face points and the edge points, and writes for every vertex the
value of `vertexRule` on its walk. -/
theorem cage_vertex_kernel (subd : cc_Subd) (fuel : Nat) (out : List cc_VertexPoint)
    (hout : subd.vertexPoints[0]? = some out)
    (hlen : ccm_VertexCount subd.cage + ccm_FaceCount subd.cage + ccm_EdgeCount subd.cage
      ≤ out.length)
    (hv : ccm_VertexRingsReadable subd.cage fuel) :
    ∃ out', ccs__CageVertexPoints_Gather subd fuel =
        some { subd with vertexPoints := subd.vertexPoints.set 0 out' } ∧
      out'.length = out.length ∧
      (∀ j : Nat, ccm_VertexCount subd.cage ≤ j → out'[j]? = out[j]?) ∧
      ∀ v : Nat, v < ccm_VertexCount subd.cage →
        ∀ (h : Int) (Vp : cc_VertexPoint) (ring : List Int) (last : Int),
          ccm_VertexToHalfedgeID subd.cage v = some h →
          ccm_VertexPoint subd.cage v = some Vp →
          ccm_VertexRing subd.cage fuel h = some (ring, last) →
          (∀ g ∈ ring,
            ccm_HalfedgeNewEdgePoint subd.cage out g
              = some ((ccm_HalfedgeNewEdgePoint subd.cage out g).getD default) ∧
            ccm_HalfedgeNewFacePoint subd.cage out g
              = some ((ccm_HalfedgeNewFacePoint subd.cage out g).getD default)) ∧
          out'[v]? = some (vertexRule Vp
            ((ring.map (fun g => (4 : ℚ) • (ccm_HalfedgeNewEdgePoint subd.cage out g).getD default
              - (ccm_HalfedgeNewFacePoint subd.cage out g).getD default)).sum)
            (ring.length : ℚ) (decide (last = h))) := by
  have hbody : ∀ (o : List cc_VertexPoint) (v : Nat), v < ccm_VertexCount subd.cage →
      (∀ j : Nat, ccm_VertexCount subd.cage ≤ j → o[j]? = out[j]?) →
      ∃ (h : Int) (Vp : cc_VertexPoint) (ring : List Int) (last : Int),
        ccm_VertexToHalfedgeID subd.cage v = some h ∧ ccm_VertexPoint subd.cage v = some Vp ∧
        ccm_VertexRing subd.cage fuel h = some (ring, last) ∧
        (∀ g ∈ ring,
          ccm_HalfedgeNewEdgePoint subd.cage out g
            = some ((ccm_HalfedgeNewEdgePoint subd.cage out g).getD default) ∧
          ccm_HalfedgeNewFacePoint subd.cage out g
            = some ((ccm_HalfedgeNewFacePoint subd.cage out g).getD default)) ∧
        ccs__CageVertexPoints_Gather_vertex subd.cage (ccm_VertexCount subd.cage)
            (ccm_FaceCount subd.cage) o fuel v
          = some (vertexRule Vp
            ((ring.map (fun g => (4 : ℚ) • (ccm_HalfedgeNewEdgePoint subd.cage out g).getD default
              - (ccm_HalfedgeNewFacePoint subd.cage out g).getD default)).sum)
            (ring.length : ℚ) (decide (last = h))) := by
    intro o v hlt hag
    obtain ⟨h, Vp, ring, last, a1, a2, a3, a4⟩ :=
      cage_vertex_reads subd.cage fuel hv o out hlen hag v hlt
    exact ⟨h, Vp, ring, last, a1, a2, a3, fun g hg => (a4 g hg).1,
      cage_vertex_body subd.cage _ _ o fuel v h Vp ring last _ _ a1 a2 a3
        (fun g hg => (a4 g hg).2)⟩
  obtain ⟨o, e1, e2, e3, e4⟩ := gather_foldlM (ccm_VertexCount subd.cage) 0 0 rfl
    (fun o (v : Nat) => ccs__CageVertexPoints_Gather_vertex subd.cage
      (ccm_VertexCount subd.cage) (ccm_FaceCount subd.cage) o fuel v)
    (fun v => (ccs__CageVertexPoints_Gather_vertex subd.cage
      (ccm_VertexCount subd.cage) (ccm_FaceCount subd.cage) out fuel v).getD default)
    out (by omega)
    (by
      intro o v hlt _ hag
      obtain ⟨h, Vp, ring, last, _, _, _, _, b1⟩ :=
        hbody o v hlt (fun j hj => hag j (Or.inr (by omega)))
      obtain ⟨h', Vp', ring', last', _, _, _, _, b2⟩ := hbody out v hlt (fun _ _ => rfl)
      have hb : ccs__CageVertexPoints_Gather_vertex subd.cage (ccm_VertexCount subd.cage)
            (ccm_FaceCount subd.cage) o fuel v
          = ccs__CageVertexPoints_Gather_vertex subd.cage (ccm_VertexCount subd.cage)
            (ccm_FaceCount subd.cage) out fuel v := by
        obtain ⟨h, Vp, ring, last, a1, a2, a3, a4⟩ :=
          cage_vertex_reads subd.cage fuel hv o out hlen
            (fun j hj => hag j (Or.inr (by omega))) v hlt
        rw [cage_vertex_body subd.cage _ _ o fuel v h Vp ring last _ _ a1 a2 a3
            (fun g hg => (a4 g hg).2),
          cage_vertex_body subd.cage _ _ out fuel v h Vp ring last _ _ a1 a2 a3
            (fun g hg => (a4 g hg).1)]
      beta_reduce
      rw [hb, b2]
      rfl)
  simp only [zero_add] at e1 e3 e4
  refine ⟨o, ?_, e2, fun j hj => e4 j (Or.inr hj), ?_⟩
  · unfold ccs__CageVertexPoints_Gather
    simp only [hout, Option.bind_eq_bind, Option.some_bind]
    rw [show (List.range (ccm_VertexCount subd.cage)).foldlM
        (fun out (vertexID : Nat) =>
          (ccs__CageVertexPoints_Gather_vertex subd.cage (ccm_VertexCount subd.cage)
            (ccm_FaceCount subd.cage) out fuel vertexID).bind
            (fun newVertexPoint => writeAt out (vertexID : Int) (fun _ => newVertexPoint)))
        out = some o from e1]
    rfl
  · intro v hlt h Vp ring last a1 a2 a3
    obtain ⟨h', Vp', ring', last', b1, b2, b3, b4, b5⟩ := hbody out v hlt (fun _ _ => rfl)
    rw [a1] at b1; cases b1
    rw [a2] at b2; cases b2
    rw [a3] at b3; cases b3
    refine ⟨b4, ?_⟩
    rw [e3 v hlt, b5]
    rfl

/-- The kernel `ccs__VertexPoints_Gather` on a readable level: it returns, keeps
the face points and the edge points, and writes for every vertex the value of
`vertexRule` on its walk. -/
theorem level_vertex_kernel (subd : cc_Subd) (e2h : Int → Nat → Int) (v2h : Int → Int)
    (depth fuel : Nat) (out : List cc_VertexPoint)
    (hout : ccs__Level subd.vertexPoints (depth + 1) = some out)
    (hlen : ccm_VertexCountAtDepth_Fast subd.cage depth
      + ccm_FaceCountAtDepth_Fast subd.cage depth
      + ccm_EdgeCountAtDepth_Fast subd.cage depth ≤ out.length)
    (hv : ccs_VertexRingsReadable subd e2h v2h depth fuel) :
    ∃ out', ccs__VertexPoints_Gather subd e2h v2h depth fuel =
        some { subd with vertexPoints := subd.vertexPoints.set depth out' } ∧
      out'.length = out.length ∧
      (∀ j : Nat, ccm_VertexCountAtDepth_Fast subd.cage depth ≤ j → out'[j]? = out[j]?) ∧
      ∀ v : Nat, v < ccm_VertexCountAtDepth_Fast subd.cage depth →
        ∀ (h : Int) (Vp : cc_VertexPoint) (ring : List Int) (last : Int),
          ccs_VertexPointToHalfedgeID subd.cage e2h v2h v depth fuel = some h →
          ccs_VertexPoint subd v depth = some Vp →
          ccs_VertexRing subd depth fuel h = some (ring, last) →
          (∀ g ∈ ring,
            ccs_HalfedgeNewEdgePoint subd depth out g
              = some ((ccs_HalfedgeNewEdgePoint subd depth out g).getD default) ∧
            ccs_HalfedgeNewFacePoint subd depth out g
              = some ((ccs_HalfedgeNewFacePoint subd depth out g).getD default)) ∧
          out'[v]? = some (vertexRule Vp
            ((ring.map (fun g =>
              (4 : ℚ) • (ccs_HalfedgeNewEdgePoint subd depth out g).getD default
              - (ccs_HalfedgeNewFacePoint subd depth out g).getD default)).sum)
            (ring.length : ℚ) (decide (last = h))) := by
  have hbody : ∀ (o : List cc_VertexPoint) (v : Nat),
      v < ccm_VertexCountAtDepth_Fast subd.cage depth →
      (∀ j : Nat, ccm_VertexCountAtDepth_Fast subd.cage depth ≤ j → o[j]? = out[j]?) →
      ∃ (h : Int) (Vp : cc_VertexPoint) (ring : List Int) (last : Int),
        ccs_VertexPointToHalfedgeID subd.cage e2h v2h v depth fuel = some h ∧
        ccs_VertexPoint subd v depth = some Vp ∧
        ccs_VertexRing subd depth fuel h = some (ring, last) ∧
        (∀ g ∈ ring,
          ccs_HalfedgeNewEdgePoint subd depth out g
            = some ((ccs_HalfedgeNewEdgePoint subd depth out g).getD default) ∧
          ccs_HalfedgeNewFacePoint subd depth out g
            = some ((ccs_HalfedgeNewFacePoint subd depth out g).getD default)) ∧
        ccs__VertexPoints_Gather_vertex subd e2h v2h depth
            (ccm_VertexCountAtDepth_Fast subd.cage depth)
            (ccm_FaceCountAtDepth_Fast subd.cage depth) o fuel v
          = some (vertexRule Vp
            ((ring.map (fun g =>
              (4 : ℚ) • (ccs_HalfedgeNewEdgePoint subd depth out g).getD default
              - (ccs_HalfedgeNewFacePoint subd depth out g).getD default)).sum)
            (ring.length : ℚ) (decide (last = h))) := by
    intro o v hlt hag
    obtain ⟨h, Vp, ring, last, a1, a2, a3, a4⟩ :=
      level_vertex_reads subd e2h v2h depth fuel hv o out hlen hag v hlt
    exact ⟨h, Vp, ring, last, a1, a2, a3, fun g hg => (a4 g hg).1,
      level_vertex_body subd e2h v2h depth _ _ o fuel v h Vp ring last _ _ a1 a2 a3
        (fun g hg => (a4 g hg).2)⟩
  obtain ⟨o, e1, e2, e3, e4⟩ := gather_foldlM (ccm_VertexCountAtDepth_Fast subd.cage depth)
    0 0 rfl
    (fun o (v : Nat) => ccs__VertexPoints_Gather_vertex subd e2h v2h depth
      (ccm_VertexCountAtDepth_Fast subd.cage depth)
      (ccm_FaceCountAtDepth_Fast subd.cage depth) o fuel v)
    (fun v => (ccs__VertexPoints_Gather_vertex subd e2h v2h depth
      (ccm_VertexCountAtDepth_Fast subd.cage depth)
      (ccm_FaceCountAtDepth_Fast subd.cage depth) out fuel v).getD default)
    out (by omega)
    (by
      intro o v hlt _ hag
      obtain ⟨h, Vp, ring, last, a1, a2, a3, a4⟩ :=
        level_vertex_reads subd e2h v2h depth fuel hv o out hlen
          (fun j hj => hag j (Or.inr (by omega))) v hlt
      beta_reduce
      rw [level_vertex_body subd e2h v2h depth _ _ o fuel v h Vp ring last _ _ a1 a2 a3
          (fun g hg => (a4 g hg).2),
        level_vertex_body subd e2h v2h depth _ _ out fuel v h Vp ring last _ _ a1 a2 a3
          (fun g hg => (a4 g hg).1)]
      rfl)
  simp only [zero_add] at e1 e3 e4
  refine ⟨o, ?_, e2, fun j hj => e4 j (Or.inr hj), ?_⟩
  · unfold ccs__VertexPoints_Gather
    simp only [hout, Option.bind_eq_bind, Option.some_bind]
    rw [show (List.range (ccm_VertexCountAtDepth_Fast subd.cage depth)).foldlM
        (fun out (vertexID : Nat) =>
          (ccs__VertexPoints_Gather_vertex subd e2h v2h depth
            (ccm_VertexCountAtDepth_Fast subd.cage depth)
            (ccm_FaceCountAtDepth_Fast subd.cage depth) out fuel vertexID).bind
            (fun newVertexPoint => writeAt out (vertexID : Int) (fun _ => newVertexPoint)))
        out = some o from e1]
    rfl
  · intro v hlt h Vp ring last a1 a2 a3
    obtain ⟨h', Vp', ring', last', b1, b2, b3, b4, b5⟩ := hbody out v hlt (fun _ _ => rfl)
    rw [a1] at b1; cases b1
    rw [a2] at b2; cases b2
    rw [a3] at b3; cases b3
    refine ⟨b4, ?_⟩
    rw [e3 v hlt, b5]
    rfl

theorem ccm_VertexRing_nonneg (cage : cc_Mesh) (fuel : Nat) (h : Int) (r : List Int × Int)
    (hr : ccm_VertexRing cage fuel h = some r) : 0 ≤ h := by
  unfold ccm_VertexRing at hr
  cases hs : ccm_PrevVertexHalfedgeID cage h with
  | none => simp [hs] at hr
  | some start =>
    unfold ccm_PrevVertexHalfedgeID ccm_HalfedgePrevID at hs
    cases hx : readAt cage.halfedges h with
    | none => simp [hx] at hs
    | some x => exact ((readAt_eq_some_iff _ _ _).mp hx).1

theorem ccs_VertexRing_nonneg (subd : cc_Subd) (depth fuel : Nat) (h : Int)
    (r : List Int × Int) (hr : ccs_VertexRing subd depth fuel h = some r) : 0 ≤ h := by
  unfold ccs_VertexRing at hr
  cases hs : ccs_PrevVertexHalfedgeID subd h depth with
  | none => simp [hs] at hr
  | some start =>
    unfold ccs_PrevVertexHalfedgeID ccs_HalfedgeTwinID at hs
    cases hl : ccs__Level subd.halfedges depth with
    | none => simp [hl] at hs
    | some level =>
      simp only [hl, Option.bind_eq_bind, Option.some_bind] at hs
      cases hx : readAt level (ccs_HalfedgePrevID subd h depth) with
      | none => simp [hx] at hs
      | some x =>
        have h0 := ((readAt_eq_some_iff _ _ _).mp hx).1
        simp only [ccs_HalfedgePrevID, ccm_HalfedgePrevID_Quad] at h0
        omega

/-- In exact arithmetic: on a readable cage (`ccm_VertexRingsReadable`),
`ccs__CageVertexPoints_Gather` returns, and every vertex `v` whose walk by
`ccm_PrevVertexHalfedgeID` from its halfedge exits at a negative iterator (an
open ring: the walk reaches a negative halfedge before it is back at its start)
gets `Lerp(V, smooth, 0)`, which is the old position over the rationals (first
part).  `ccs__VertexPoints_Gather` does the same at every depth (second
part). -/
theorem open_ring_fixed_exact :
    (∀ (subd : cc_Subd) (fuel : Nat) (out : List cc_VertexPoint),
      subd.vertexPoints[0]? = some out →
      ccm_VertexCount subd.cage + ccm_FaceCount subd.cage + ccm_EdgeCount subd.cage
        ≤ out.length →
      ccm_VertexRingsReadable subd.cage fuel →
      ∃ out', ccs__CageVertexPoints_Gather subd fuel =
          some { subd with vertexPoints := subd.vertexPoints.set 0 out' } ∧
        ∀ v : Nat, v < ccm_VertexCount subd.cage →
          ∀ (h : Int) (Vp : cc_VertexPoint) (ring : List Int) (last : Int),
            ccm_VertexToHalfedgeID subd.cage v = some h →
            ccm_VertexPoint subd.cage v = some Vp →
            ccm_VertexRing subd.cage fuel h = some (ring, last) →
            last < 0 → out'[v]? = some Vp) ∧
    (∀ (subd : cc_Subd) (edgeToHalfedgeID : Int → Nat → Int)
      (vertexToHalfedgeID_First : Int → Int) (depth fuel : Nat) (out : List cc_VertexPoint),
      ccs__Level subd.vertexPoints (depth + 1) = some out →
      ccm_VertexCountAtDepth_Fast subd.cage depth + ccm_FaceCountAtDepth_Fast subd.cage depth
        + ccm_EdgeCountAtDepth_Fast subd.cage depth ≤ out.length →
      ccs_VertexRingsReadable subd edgeToHalfedgeID vertexToHalfedgeID_First depth fuel →
      ∃ out', ccs__VertexPoints_Gather subd edgeToHalfedgeID vertexToHalfedgeID_First
            depth fuel =
          some { subd with vertexPoints := subd.vertexPoints.set depth out' } ∧
        ∀ v : Nat, v < ccm_VertexCountAtDepth_Fast subd.cage depth →
          ∀ (h : Int) (Vp : cc_VertexPoint) (ring : List Int) (last : Int),
            ccs_VertexPointToHalfedgeID subd.cage edgeToHalfedgeID vertexToHalfedgeID_First
              v depth fuel = some h →
            ccs_VertexPoint subd v depth = some Vp →
            ccs_VertexRing subd depth fuel h = some (ring, last) →
            last < 0 → out'[v]? = some Vp) := by
  constructor
  · intro subd fuel out hout hlen hv
    obtain ⟨o, e1, _, _, e4⟩ := cage_vertex_kernel subd fuel out hout hlen hv
    refine ⟨o, e1, ?_⟩
    intro v hlt h Vp ring last a1 a2 a3 hneg
    have h0 := ccm_VertexRing_nonneg subd.cage fuel h _ a3
    rw [(e4 v hlt h Vp ring last a1 a2 a3).2]
    have hne : ¬ (last = h) := by omega
    simp [vertexRule, hne]
  · intro subd e2h v2h depth fuel out hout hlen hv
    obtain ⟨o, e1, _, _, e4⟩ := level_vertex_kernel subd e2h v2h depth fuel out hout hlen hv
    refine ⟨o, e1, ?_⟩
    intro v hlt h Vp ring last a1 a2 a3 hneg
    have h0 := ccs_VertexRing_nonneg subd depth fuel h _ a3
    rw [(e4 v hlt h Vp ring last a1 a2 a3).2]
    have hne : ¬ (last = h) := by omega
    simp [vertexRule, hne]

/-! ## C15: the smooth vertex rule on a closed ring -/

theorem ringWalk_chain (step : Int → Option Int) (cont : Int → Bool) (R : Int → Int → Prop) :
    ∀ (fuel : Nat) (it : Int) (ring : List Int) (last : Int),
      ringWalk step cont fuel it = some (ring, last) →
      (∀ a ∈ ring, ∀ b, step a = some b → R a b) →
      List.Chain' R (ring ++ [last]) ∧ (ring ++ [last]).head? = some it := by
  intro fuel
  induction fuel with
  | zero =>
    intro it ring last hw _
    unfold ringWalk at hw
    by_cases c : cont it = true
    · simp [c] at hw
    · simp only [c, if_false, Option.some.injEq, Prod.mk.injEq] at hw
      obtain ⟨rfl, rfl⟩ := hw
      simp
  | succ n ih =>
    intro it ring last hw hR
    unfold ringWalk at hw
    by_cases c : cont it = true
    · simp only [c, if_true] at hw
      cases hs : step it with
      | none => simp [hs] at hw
      | some nxt =>
        simp only [hs, Option.some_bind] at hw
        cases hr : ringWalk step cont n nxt with
        | none => simp [hr] at hw
        | some r =>
          obtain ⟨rest, l⟩ := r
          simp only [hr, Option.map_some', Option.some.injEq, Prod.mk.injEq] at hw
          obtain ⟨rfl, rfl⟩ := hw
          obtain ⟨a, b⟩ := ih nxt rest l hr
            (fun x hx y hy => hR x (List.mem_cons_of_mem _ hx) y hy)
          refine ⟨?_, by simp⟩
          rw [List.cons_append]
          apply List.Chain'.cons' a
          intro y hy
          rw [b, Option.mem_def, Option.some.injEq] at hy
          subst hy
          exact hR it (List.mem_cons_self _ _) _ hs
    · simp only [c, if_false, Option.some.injEq, Prod.mk.injEq] at hw
      obtain ⟨rfl, rfl⟩ := hw
      simp

theorem chain_shift {β : Type} (R : Int → Int → Prop) (φ ψ : Int → β)
    (hR : ∀ a b, R a b → φ b = ψ a) :
    ∀ (l : List Int) (a : Int), List.Chain R a l → l.map φ = ((a :: l).dropLast).map ψ := by
  intro l
  induction l with
  | nil => intro a _; rfl
  | cons b l ih =>
    intro a hc
    rw [List.chain_cons] at hc
    rw [List.dropLast_cons₂, List.map_cons, List.map_cons, ih b hc.2, hR a b hc.1]

theorem list_sum_map_sub_const (l : List Int) (f : Int → cc_VertexPoint) (c : cc_VertexPoint) :
    (l.map (fun g => f g - c)).sum = (l.map f).sum - (l.length : ℚ) • c := by
  induction l with
  | nil => simp
  | cons a l ih =>
    simp only [List.map_cons, List.sum_cons, ih, List.length_cons, Nat.cast_add, Nat.cast_one]
    module

theorem list_sum_map_add (l : List Int) (f k : Int → cc_VertexPoint) :
    (l.map (fun g => f g + k g)).sum = (l.map f).sum + (l.map k).sum := by
  induction l with
  | nil => simp
  | cons a l ih =>
    simp only [List.map_cons, List.sum_cons, ih]
    abel

/-- The kernel `ccs__CageFacePoints_Gather` on a cage whose face rings are
readable: it returns, and writes for every face the value of its body. -/
theorem cage_face_kernel (subd : cc_Subd) (fuel : Nat) (out : List cc_VertexPoint)
    (hout : subd.vertexPoints[0]? = some out)
    (hlen : ccm_VertexCount subd.cage + ccm_FaceCount subd.cage ≤ out.length)
    (hr : ccm_FaceRingsReadable subd.cage fuel) :
    ∃ out', ccs__CageFacePoints_Gather subd fuel =
        some { subd with vertexPoints := subd.vertexPoints.set 0 out' } ∧
      out'.length = out.length ∧
      ∀ f : Nat, f < ccm_FaceCount subd.cage →
        out'[ccm_VertexCount subd.cage + f]? = ccs__CageFacePoints_Gather_face subd.cage fuel f ∧
        (ccs__CageFacePoints_Gather_face subd.cage fuel f).isSome = true := by
  have hb : ∀ f : Nat, f < ccm_FaceCount subd.cage →
      (ccs__CageFacePoints_Gather_face subd.cage fuel f).isSome = true := by
    intro f hf
    obtain ⟨ring, h1, h2⟩ := hr f hf
    rw [cage_face_body subd.cage fuel f ring _ (Option.mem_def.mp h1)
      (map_some_of_isSome _ _ h2)]
    rfl
  obtain ⟨o, e1, e2, e3, e4⟩ := gather_foldlM (ccm_FaceCount subd.cage)
    (ccm_VertexCount subd.cage) (ccm_VertexCount subd.cage : Int) rfl
    (fun _ (f : Nat) => ccs__CageFacePoints_Gather_face subd.cage fuel f)
    (fun f => (ccs__CageFacePoints_Gather_face subd.cage fuel f).getD default) out hlen
    (by
      intro o f hf _ _
      obtain ⟨x, hx⟩ := Option.isSome_iff_exists.mp (hb f hf)
      beta_reduce
      rw [hx]
      rfl)
  refine ⟨o, ?_, e2, ?_⟩
  · unfold ccs__CageFacePoints_Gather
    simp only [hout, Option.bind_eq_bind, Option.some_bind]
    rw [e1]
    rfl
  · intro f hf
    obtain ⟨x, hx⟩ := Option.isSome_iff_exists.mp (hb f hf)
    refine ⟨?_, hb f hf⟩
    rw [e3 f hf, hx]
    rfl

/-- The halfedge `g` leaves the vertex `v` along an interior edge of a halfedge
mesh: its vertex is `v`; it has a twin `t`, whose twin is `g`, which starts at
the end point of `g` and ends at `v`; the halfedge of its edge is `g` or `t`;
and its predecessor is a halfedge of the same face that is the twin of its
twin. -/
def ccm_RingHalfedgeInterior (cage : cc_Mesh) (v : Int) (g : Int) : Prop :=
  (ccm_HalfedgeVertexID cage g = some v ∧
    ∃ t ∈ ccm_HalfedgeTwinID cage g, (0 ≤ t ∧ ccm_HalfedgeTwinID cage t = some g) ∧
      ((ccm_HalfedgeNextID cage g).bind (ccm_HalfedgeVertexID cage)
          = ccm_HalfedgeVertexID cage t ∧
        (ccm_HalfedgeNextID cage t).bind (ccm_HalfedgeVertexID cage) = some v) ∧
      ∃ e ∈ ccm_HalfedgeEdgeID cage g, ∃ k ∈ ccm_EdgeToHalfedgeID cage e, k = g ∨ k = t) ∧
  ∃ p ∈ ccm_HalfedgePrevID cage g,
    ccm_HalfedgeFaceID cage p = ccm_HalfedgeFaceID cage g ∧
    ∃ b ∈ ccm_HalfedgeTwinID cage p, ccm_HalfedgeTwinID cage b = some p

instance (cage : cc_Mesh) (v : Int) (g : Int) :
    Decidable (ccm_RingHalfedgeInterior cage v g) := by
  unfold ccm_RingHalfedgeInterior
  infer_instance

theorem halfedge_nonneg_of_edge (cage : cc_Mesh) (g e : Int)
    (he : ccm_HalfedgeEdgeID cage g = some e) : 0 ≤ g := by
  unfold ccm_HalfedgeEdgeID at he
  cases hx : readAt cage.halfedges g with
  | none => simp [hx] at he
  | some x => exact ((readAt_eq_some_iff _ _ _).mp hx).1

/-- The edge point the gather kernel computes for the edge of a halfedge `g`
that leaves `v` along an interior edge: `(V + P + F1 + F2)/4` with `P` the end
point of `g` and `F1`, `F2` the face points of the faces of `g` and of its
twin. -/
theorem cage_ring_edge_point (cage : cc_Mesh) (B : List cc_VertexPoint) (v : Int)
    (Vp : cc_VertexPoint) (g : Int)
    (hVp : ccm_VertexPoint cage v = some Vp)
    (hg : ccm_RingHalfedgeInterior cage v g)
    (hb : ccm_HalfedgePointsInBounds cage g)
    (hr : ccm_EdgeReadsInBounds cage)
    (hlen : ccm_VertexCount cage + ccm_FaceCount cage ≤ B.length) :
    ∃ (e : Nat) (t : Int) (P F1 F2 : cc_VertexPoint), e < ccm_EdgeCount cage ∧
      ccm_HalfedgeEdgeID cage g = some (e : Int) ∧
      ccm_HalfedgeTwinID cage g = some t ∧
      (ccm_HalfedgeNextID cage g).bind (ccm_HalfedgeVertexPoint cage) = some P ∧
      ccm_HalfedgeNewFacePoint cage B g = some F1 ∧
      ccm_HalfedgeNewFacePoint cage B t = some F2 ∧
      ccs__CageEdgePoints_Gather_edge cage (ccm_VertexCount cage) B e
        = some ((1 / 4 : ℚ) • (Vp + P + F1 + F2)) := by
  obtain ⟨⟨hvid, t, ht, ⟨t0, htt⟩, ⟨hn1, hn2⟩, e, he, k, hk, hkk⟩, _⟩ := hg
  obtain ⟨⟨e', he', e0, e1⟩, _⟩ := hb
  rw [Option.mem_def] at ht he he' hk
  rw [he] at he'
  cases he'
  obtain ⟨en, rfl⟩ : ∃ n : Nat, e = (n : Int) := ⟨e.toNat, by omega⟩
  have hlt : en < ccm_EdgeCount cage := by omega
  have g0 := halfedge_nonneg_of_edge cage g _ he
  obtain ⟨h, t', n, A, Bp, F1, F2, b1, b2, b3, b4, b5, b6, b7, _, _⟩ :=
    cage_edge_reads cage hr B B hlen (fun _ _ => rfl) en hlt
  have hbody := cage_edge_body cage _ B en h t' n A Bp F1 F2 b1 b2 b3 b4 b5 b6 b7
  rw [hk] at b1
  cases b1
  rcases hkk with rfl | rfl
  · -- the halfedge of the edge is `g`
    rw [ht] at b2
    cases b2
    have hA : A = Vp := by
      unfold ccm_HalfedgeVertexPoint at b4
      rw [hvid, Option.some_bind, hVp] at b4
      exact (Option.some.inj b4).symm
    subst hA
    have hm : cc__Max 0 t = t := max_eq_right t0
    rw [hm] at b7
    refine ⟨en, t, Bp, F1, F2, hlt, he, ht, ?_, b6, b7, ?_⟩
    · rw [b3, Option.some_bind, b5]
    · rw [hbody, if_neg (by omega)]
  · -- the halfedge of the edge is the twin of `g`
    rw [htt] at b2
    cases b2
    have hB : Bp = Vp := by
      unfold ccm_HalfedgeVertexPoint at b5
      rw [b3, Option.some_bind] at hn2
      rw [hn2, Option.some_bind, hVp] at b5
      exact (Option.some.inj b5).symm
    subst hB
    have hP : (ccm_HalfedgeNextID cage g).bind (ccm_HalfedgeVertexPoint cage) = some A := by
      rw [← b4]
      unfold ccm_HalfedgeVertexPoint
      rw [← hn1]
      cases ccm_HalfedgeNextID cage g <;> rfl
    have hm : cc__Max 0 g = g := max_eq_right g0
    rw [hm] at b7
    refine ⟨en, _, A, F2, F1, hlt, he, ht, hP, b7, b6, ?_⟩
    rw [hbody, if_neg (by omega)]
    congr 1
    module

theorem set_zero_getElem {α : Type} (l : List α) (a b : α) (h : l[0]? = some a) :
    (l.set 0 b)[0]? = some b := by
  cases l with
  | nil => simp at h
  | cons x xs => simp

theorem set_zero_set_zero {α : Type} (l : List α) (a b : α) :
    (l.set 0 a).set 0 b = l.set 0 b := by
  cases l with
  | nil => simp
  | cons x xs => simp

/-- The two forms of the smooth vertex rule: from the sum `S` of `4E - F` around
the vertex, `S/n^2 + (1 - 3/n) V = V + (S - 3nV)/n^2`. -/
theorem vertex_rule_rearranged (V S : cc_VertexPoint) (n : ℚ) (hn : n ≠ 0) :
    (1 / (n * n)) • S + (1 - 3 / n) • V = V + (1 / (n * n)) • (S - n • ((3 : ℚ) • V)) := by
  match_scalars <;> (field_simp; try ring)

/-- The smooth vertex rule is the rule of Catmull and Clark: with `SP` the sum of
the end points of the edges and `SF` the sum of the face points,
`V + (SP + SF - 2nV)/n^2 = (SF/n + 2 (nV + SP)/(2n) + (n - 3) V)/n`. -/
theorem vertex_rule_classic (V SP SF : cc_VertexPoint) (n : ℚ) (hn : n ≠ 0) :
    V + (1 / (n * n)) • (SP + SF - n • ((2 : ℚ) • V))
      = (1 / n) • ((1 / n) • SF + (2 : ℚ) • ((1 / n) • ((1 / 2 : ℚ) • (n • V + SP)))
          + (n - 3) • V) := by
  match_scalars <;> (field_simp; try ring)

theorem list_sum_map_mid (l : List Int) (f : Int → cc_VertexPoint) (V : cc_VertexPoint) :
    (l.map (fun g => (1 / 2 : ℚ) • (V + f g))).sum
      = (1 / 2 : ℚ) • ((l.length : ℚ) • V + (l.map f).sum) := by
  induction l with
  | nil => simp
  | cons a l ih =>
    simp only [List.map_cons, List.sum_cons, ih, List.length_cons, Nat.cast_add, Nat.cast_one]
    module

/-- C15: on a cage whose face rings, edges and vertex rings are readable, the
kernels `ccs__CageFacePoints_Gather`, `ccs__CageEdgePoints_Gather` and
`ccs__CageVertexPoints_Gather` return when they are run one after the other,
and for every vertex `v` with a closed ring of `n` halfedges `g` that leave `v`
along interior edges (`ccm_RingHalfedgeInterior`), with `E g` the new edge point
of the edge of `g`, `F g` the new face point of the face of `g`, `P g` the
position of the end point of `g` and `V` the position of `v`, the slot `v` of
the new vertex points holds `V + (1/n^2) * sum over the ring of (4 E - F - 3 V)`,
and this is the rule of Catmull and Clark `(Fbar + 2 Ebar_mid + (n - 3) V)/n`
with `Fbar = (1/n) * sum of F` and `Ebar_mid = (1/n) * sum of (V + P)/2`. -/
theorem C15_closed_ring_vertex_point (subd : cc_Subd) (fuel : Nat) (out : List cc_VertexPoint)
    (hout : subd.vertexPoints[0]? = some out)
    (hlen : ccm_VertexCount subd.cage + ccm_FaceCount subd.cage + ccm_EdgeCount subd.cage
      ≤ out.length)
    (hfaces : ccm_FaceRingsReadable subd.cage fuel)
    (hedges : ccm_EdgeReadsInBounds subd.cage)
    (hvertices : ccm_VertexRingsReadable subd.cage fuel) :
    ∃ (s1 s2 s3 : cc_Subd) (outE outV : List cc_VertexPoint),
      ccs__CageFacePoints_Gather subd fuel = some s1 ∧
      ccs__CageEdgePoints_Gather s1 = some s2 ∧
      ccs__CageVertexPoints_Gather s2 fuel = some s3 ∧
      s2.vertexPoints[0]? = some outE ∧ s3.vertexPoints[0]? = some outV ∧
      ∀ v : Nat, v < ccm_VertexCount subd.cage →
        ∀ (h : Int) (Vp : cc_VertexPoint) (ring : List Int),
          ccm_VertexToHalfedgeID subd.cage v = some h →
          ccm_VertexPoint subd.cage v = some Vp →
          ccm_VertexRing subd.cage fuel h = some (ring, h) →
          (∀ g ∈ ring, ccm_RingHalfedgeInterior subd.cage v g) →
          ∃ E F P : Int → cc_VertexPoint,
            (∀ g ∈ ring,
              ccm_HalfedgeNewEdgePoint subd.cage outE g = some (E g) ∧
              ccm_HalfedgeNewFacePoint subd.cage outE g = some (F g) ∧
              (ccm_HalfedgeFaceID subd.cage g).bind
                (fun f => ccs__CageFacePoints_Gather_face subd.cage fuel f) = some (F g) ∧
              (ccm_HalfedgeNextID subd.cage g).bind (ccm_HalfedgeVertexPoint subd.cage)
                = some (P g)) ∧
            outV[v]? = some (Vp + (1 / ((ring.length : ℚ) * (ring.length : ℚ))) •
              (ring.map (fun g => (4 : ℚ) • E g - F g - (3 : ℚ) • Vp)).sum) ∧
            Vp + (1 / ((ring.length : ℚ) * (ring.length : ℚ))) •
                (ring.map (fun g => (4 : ℚ) • E g - F g - (3 : ℚ) • Vp)).sum
              = (1 / (ring.length : ℚ)) •
                ((1 / (ring.length : ℚ)) • (ring.map F).sum
                  + (2 : ℚ) • ((1 / (ring.length : ℚ)) •
                      (ring.map (fun g => (1 / 2 : ℚ) • (Vp + P g))).sum)
                  + ((ring.length : ℚ) - 3) • Vp) := by
  obtain ⟨oF, f1, f2, f3⟩ := cage_face_kernel subd fuel out hout (by omega) hfaces
  have hs1 : ({ subd with vertexPoints := subd.vertexPoints.set 0 oF } : cc_Subd).vertexPoints[0]?
      = some oF := set_zero_getElem _ _ _ hout
  obtain ⟨oE, g1, g2, g3, g4⟩ := cage_edge_kernel
    { subd with vertexPoints := subd.vertexPoints.set 0 oF } oF hs1 (by rw [f2]; exact hlen)
    hedges
  have hs2 : ({ subd with vertexPoints := (subd.vertexPoints.set 0 oF).set 0 oE } :
      cc_Subd).vertexPoints[0]? = some oE := set_zero_getElem _ _ _ hs1
  obtain ⟨oV, k1, k2, k3, k4⟩ := cage_vertex_kernel
    { subd with vertexPoints := (subd.vertexPoints.set 0 oF).set 0 oE } fuel oE hs2
    (by rw [g2, f2]; exact hlen) hvertices
  have g3' : ∀ j : Nat, (j < ccm_VertexCount subd.cage + ccm_FaceCount subd.cage ∨
      ccm_VertexCount subd.cage + ccm_FaceCount subd.cage + ccm_EdgeCount subd.cage ≤ j) →
      oE[j]? = oF[j]? := g3
  have g4' : ∀ e : Nat, e < ccm_EdgeCount subd.cage →
      oE[ccm_VertexCount subd.cage + ccm_FaceCount subd.cage + e]? =
        ccs__CageEdgePoints_Gather_edge subd.cage (ccm_VertexCount subd.cage) oF e :=
    fun e he => (g4 e he).1
  refine ⟨_, _, _, oE, oV, f1, g1, k1, hs2, set_zero_getElem _ _ _ hs2, ?_⟩
  intro v hlt h Vp ring a1 a2 a3 hint
  obtain ⟨hreads, hval⟩ := k4 v hlt h Vp ring h a1 a2 a3
  have hpb : ∀ g ∈ ring, ccm_HalfedgePointsInBounds subd.cage g := by
    obtain ⟨_, h', b, r, c, d⟩ := hvertices v hlt
    rw [Option.mem_def] at b c
    rw [a1] at b
    cases b
    rw [a3] at c
    cases c
    exact d
  have hlenF : ccm_VertexCount subd.cage + ccm_FaceCount subd.cage ≤ oF.length := by
    rw [f2]; omega
  -- the face points are the same before and after the edge kernel
  have hface : ∀ g : Int, ccm_HalfedgePointsInBounds subd.cage g →
      ccm_HalfedgeNewFacePoint subd.cage oE g = ccm_HalfedgeNewFacePoint subd.cage oF g ∧
      ccm_HalfedgeNewFacePoint subd.cage oF g
        = (ccm_HalfedgeFaceID subd.cage g).bind
            (fun f => ccs__CageFacePoints_Gather_face subd.cage fuel f) := by
    intro g hg
    obtain ⟨_, f, hf, f0, f1'⟩ := hg
    rw [Option.mem_def] at hf
    obtain ⟨fn, rfl⟩ : ∃ n : Nat, f = (n : Int) := ⟨f.toNat, by omega⟩
    have hc : ((ccm_VertexCount subd.cage : Int) + (fn : Int))
        = ((ccm_VertexCount subd.cage + fn : Nat) : Int) := by push_cast; rfl
    simp only [ccm_HalfedgeNewFacePoint, hf, Option.some_bind, hc, readAt_natCast]
    exact ⟨g3' _ (Or.inl (by omega)), (f3 fn (by omega)).1⟩
  -- the three functions of the statement
  have hdata : ∀ g ∈ ring, ∃ (e : Nat) (t : Int) (P F1 F2 : cc_VertexPoint),
      e < ccm_EdgeCount subd.cage ∧
      ccm_HalfedgeEdgeID subd.cage g = some (e : Int) ∧
      ccm_HalfedgeTwinID subd.cage g = some t ∧
      (ccm_HalfedgeNextID subd.cage g).bind (ccm_HalfedgeVertexPoint subd.cage) = some P ∧
      ccm_HalfedgeNewFacePoint subd.cage oF g = some F1 ∧
      ccm_HalfedgeNewFacePoint subd.cage oF t = some F2 ∧
      ccm_HalfedgeNewEdgePoint subd.cage oE g = some ((1 / 4 : ℚ) • (Vp + P + F1 + F2)) := by
    intro g hg
    obtain ⟨e, t, P, F1, F2, c0, c1, c2, c3, c4, c5, c6⟩ :=
      cage_ring_edge_point subd.cage oF v Vp g a2 (hint g hg) (hpb g hg) hedges hlenF
    refine ⟨e, t, P, F1, F2, c0, c1, c2, c3, c4, c5, ?_⟩
    have hc : ((ccm_VertexCount subd.cage : Int) + (ccm_FaceCount subd.cage : Int) + (e : Int))
        = ((ccm_VertexCount subd.cage + ccm_FaceCount subd.cage + e : Nat) : Int) := by
      push_cast; rfl
    simp only [ccm_HalfedgeNewEdgePoint, c1, Option.some_bind, hc, readAt_natCast]
    rw [← c6]
    exact g4' e c0
  let Pf : Int → cc_VertexPoint := fun g =>
    ((ccm_HalfedgeNextID subd.cage g).bind (ccm_HalfedgeVertexPoint subd.cage)).getD default
  let Ff : Int → cc_VertexPoint := fun g => (ccm_HalfedgeNewFacePoint subd.cage oF g).getD default
  let Gf : Int → cc_VertexPoint := fun g =>
    ((ccm_HalfedgeTwinID subd.cage g).bind (ccm_HalfedgeNewFacePoint subd.cage oF)).getD default
  let Ef : Int → cc_VertexPoint := fun g => (1 / 4 : ℚ) • (Vp + Pf g + Ff g + Gf g)
  have hE : ∀ g ∈ ring, ccm_HalfedgeNewEdgePoint subd.cage oE g = some (Ef g) ∧
      ccm_HalfedgeNewFacePoint subd.cage oE g = some (Ff g) ∧
      (ccm_HalfedgeFaceID subd.cage g).bind
        (fun f => ccs__CageFacePoints_Gather_face subd.cage fuel f) = some (Ff g) ∧
      (ccm_HalfedgeNextID subd.cage g).bind (ccm_HalfedgeVertexPoint subd.cage)
        = some (Pf g) := by
    intro g hg
    obtain ⟨e, t, P, F1, F2, c0, c1, c2, c3, c4, c5, c6⟩ := hdata g hg
    obtain ⟨d1, d2⟩ := hface g (hpb g hg)
    have e1 : Pf g = P := by simp only [Pf, c3, Option.getD_some]
    have e2 : Ff g = F1 := by simp only [Ff, c4, Option.getD_some]
    have e3 : Gf g = F2 := by simp only [Gf, c2, Option.some_bind, c5, Option.getD_some]
    refine ⟨?_, ?_, ?_, ?_⟩
    · rw [c6]; simp only [Ef, e1, e2, e3]
    · rw [d1, c4, e2]
    · rw [← d2, c4, e2]
    · rw [c3, e1]
  -- the faces of the twins are the faces of the ring, shifted by one
  have hshift : (ring.map Gf).sum = (ring.map Ff).sum := by
    have hr := a3
    unfold ccm_VertexRing at hr
    cases hs : ccm_PrevVertexHalfedgeID subd.cage h with
    | none => simp [hs] at hr
    | some start =>
      simp only [hs, Option.bind_eq_bind, Option.some_bind] at hr
      cases hw : ringWalk (ccm_PrevVertexHalfedgeID subd.cage)
          (fun iterator => decide (iterator ≥ 0) && decide (iterator ≠ h)) fuel start with
      | none =>
        rw [hw] at hr
        exact absurd hr (by simp)
      | some r =>
        obtain ⟨rest, l⟩ := r
        rw [hw] at hr
        simp only [Option.some_bind, Option.some.injEq, Prod.mk.injEq] at hr
        obtain ⟨hring, hl⟩ := hr
        subst hl
        have hR : ∀ a ∈ ring, ∀ b, ccm_PrevVertexHalfedgeID subd.cage a = some b →
            Gf b = Ff a := by
          intro a ha b hab
          obtain ⟨_, p, hp, hfp, b', hb', hbp⟩ := hint a ha
          rw [Option.mem_def] at hp hb'
          unfold ccm_PrevVertexHalfedgeID at hab
          rw [hp, Option.some_bind, hb'] at hab
          cases hab
          simp only [Gf, Ff, hbp, Option.some_bind, ccm_HalfedgeNewFacePoint, hfp]
        obtain ⟨c1, c2⟩ := ringWalk_chain _ _ (fun a b => Gf b = Ff a) fuel start rest l hw
          (fun a ha b hab => hR a (by rw [← hring]; exact List.mem_cons_of_mem _ ha) b hab)
        have c3 : List.Chain (fun a b => Gf b = Ff a) l (rest ++ [l]) := by
          apply List.Chain'.cons' c1
          intro y hy
          rw [c2, Option.mem_def, Option.some.injEq] at hy
          subst hy
          exact hR l (by rw [← hring]; exact List.mem_cons_self _ _) _ hs
        have c4 := chain_shift (fun a b => Gf b = Ff a) Gf Ff (fun _ _ hh => hh) _ _ c3
        rw [← List.cons_append, List.dropLast_concat] at c4
        rw [← hring, ← c4]
        simp only [List.map_cons, List.sum_cons, List.map_append, List.map_nil,
          List.sum_append, List.sum_nil, add_zero]
        exact add_comm _ _
  have hn : (ring.length : ℚ) ≠ 0 := by
    have : ring ≠ [] := by
      intro hnil
      unfold ccm_VertexRing at a3
      rw [hnil] at a3
      cases hs : ccm_PrevVertexHalfedgeID subd.cage h with
      | none => simp [hs] at a3
      | some start =>
        simp only [hs, Option.bind_eq_bind, Option.some_bind] at a3
        cases hw : ringWalk (ccm_PrevVertexHalfedgeID subd.cage)
            (fun iterator => decide (iterator ≥ 0) && decide (iterator ≠ h)) fuel start with
        | none => rw [hw] at a3; exact absurd a3 (by simp)
        | some r => rw [hw] at a3; simp at a3
    have : 0 < ring.length := List.length_pos.mpr this
    exact_mod_cast this.ne'
  have hterm : (fun g => (4 : ℚ) • Ef g - Ff g - (3 : ℚ) • Vp)
      = (fun g => (Pf g + Gf g) - (2 : ℚ) • Vp) := by
    funext g
    simp only [Ef]
    module
  have hsum : (ring.map (fun g => (4 : ℚ) • Ef g - Ff g - (3 : ℚ) • Vp)).sum
      = (ring.map Pf).sum + (ring.map Ff).sum - (ring.length : ℚ) • ((2 : ℚ) • Vp) := by
    rw [hterm, list_sum_map_sub_const ring (fun g => Pf g + Gf g), list_sum_map_add, hshift]
  refine ⟨Ef, Ff, Pf, hE, ?_, ?_⟩
  · rw [hval]
    have hmap : (ring.map (fun g =>
          (4 : ℚ) • (ccm_HalfedgeNewEdgePoint subd.cage oE g).getD default
          - (ccm_HalfedgeNewFacePoint subd.cage oE g).getD default))
        = ring.map (fun g => (4 : ℚ) • Ef g - Ff g) := by
      apply List.map_congr_left
      intro g hg
      obtain ⟨d1, d2, _, _⟩ := hE g hg
      rw [d1, d2]
      rfl
    rw [hmap, list_sum_map_sub_const ring (fun g => (4 : ℚ) • Ef g - Ff g)]
    simp only [vertexRule, decide_True, if_true]
    rw [vertex_rule_rearranged _ _ _ hn]
  · rw [hsum, list_sum_map_mid, vertex_rule_classic _ _ _ _ hn]

/-- The unit cube with its geometry: the vertex `v` is the corner whose
coordinates are the three binary digits of `v`. -/
def cubeMesh : cc_Mesh :=
  { cubeCage with
    vertexToHalfedgeIDs := [0, 3, 1, 2, 4, 5, 7, 6],
    edgeToHalfedgeIDs := [0, 1, 2, 3, 4, 5, 6, 7, 9, 11, 12, 14],
    faceToHalfedgeIDs := [0, 4, 8, 12, 16, 20],
    vertexPoints := [(0, 0, 0), (1, 0, 0), (0, 1, 0), (1, 1, 0),
      (0, 0, 1), (1, 0, 1), (0, 1, 1), (1, 1, 1)] }

/-- A subdivision of depth 1 of the cube whose vertex point buffer is zeroed. -/
def cubePointsSubd : cc_Subd :=
  { cage := cubeMesh, maxDepth := 1, halfedges := [], creases := [],
    vertexPoints := [List.replicate 26 (0, 0, 0)] }

/-- C15, witness: on the unit cube the three kernels move the corner `(0, 0, 0)`,
of valence 3, to `(2/9, 2/9, 2/9)`. -/
theorem C15_closed_ring_vertex_point_witness :
    ∃ (s1 s2 s3 : cc_Subd) (outV : List cc_VertexPoint),
      ccs__CageFacePoints_Gather cubePointsSubd 4 = some s1 ∧
      ccs__CageEdgePoints_Gather s1 = some s2 ∧
      ccs__CageVertexPoints_Gather s2 4 = some s3 ∧
      s3.vertexPoints[0]? = some outV ∧
      outV[0]? = some ((2 / 9, 2 / 9, 2 / 9) : cc_VertexPoint) := by
  obtain ⟨s1, s2, s3, outE, outV, h1, h2, h3, _, h5, h6⟩ :=
    C15_closed_ring_vertex_point cubePointsSubd 4 (List.replicate 26 (0, 0, 0)) rfl
      (by decide) (by decide) (by decide) (by decide)
  refine ⟨s1, s2, s3, outV, h1, h2, h3, h5, ?_⟩
  obtain ⟨E, F, P, hreads, hval, hclassic⟩ :=
    h6 0 (by decide) 0 (0, 0, 0) [0, 8, 16] rfl rfl rfl (by decide)
  have hF0 : ccs__CageFacePoints_Gather_face cubeMesh 4 0 = some (F 0) :=
    (hreads 0 (by simp)).2.2.1
  have hF8 : ccs__CageFacePoints_Gather_face cubeMesh 4 2 = some (F 8) :=
    (hreads 8 (by simp)).2.2.1
  have hF16 : ccs__CageFacePoints_Gather_face cubeMesh 4 4 = some (F 16) :=
    (hreads 16 (by simp)).2.2.1
  have hP0 : some ((0, 1, 0) : cc_VertexPoint) = some (P 0) := (hreads 0 (by simp)).2.2.2
  have hP8 : some ((1, 0, 0) : cc_VertexPoint) = some (P 8) := (hreads 8 (by simp)).2.2.2
  have hP16 : some ((0, 0, 1) : cc_VertexPoint) = some (P 16) := (hreads 16 (by simp)).2.2.2
  rw [cage_face_body cubeMesh 4 0 [0, 1, 2, 3] [(0, 0, 0), (0, 1, 0), (1, 1, 0), (1, 0, 0)]
    rfl rfl] at hF0
  rw [cage_face_body cubeMesh 4 2 [8, 9, 10, 11] [(0, 0, 0), (1, 0, 0), (1, 0, 1), (0, 0, 1)]
    rfl rfl] at hF8
  rw [cage_face_body cubeMesh 4 4 [16, 17, 18, 19] [(0, 0, 0), (0, 0, 1), (0, 1, 1), (0, 1, 0)]
    rfl rfl] at hF16
  have hval' : outV[0]? = _ := hval
  rw [hval', hclassic]
  simp only [List.map_cons, List.map_nil, List.sum_cons, List.sum_nil, List.length_cons,
    List.length_nil, ← Option.some.inj hF0, ← Option.some.inj hF8, ← Option.some.inj hF16,
    ← Option.some.inj hP0, ← Option.some.inj hP8, ← Option.some.inj hP16]
  refine congrArg some (Prod.ext ?_ (Prod.ext ?_ ?_)) <;> norm_num

/-! ## Vertex points with creases: `ccs__CreasedCageVertexPoints_Gather` and
`ccs__CreasedVertexPoints_Gather` -/

/-- The local variables `smoothPoint`, `creasePoint`, `avgS`, `creaseCount` and
`valence` of an iteration over the vertices of the creased vertex point
kernels. -/
@[ext]
structure cc_VertexLocals where
  smoothPoint : cc_VertexPoint
  creasePoint : cc_VertexPoint
  avgS : ℚ
  creaseCount : ℚ
  valence : ℚ

/-- The statements "smooth contrib", `++valence`, "crease contrib",
`avgS += prevS` and `creaseCount += prevCreaseWeight` of an iteration around the
vertex; the four loops of the two kernels have the same text there. -/
def cc_VertexLocals.accumulate (s : cc_VertexLocals) (newPrevEdgePoint newPrevFacePoint :
    cc_VertexPoint) (prevS : ℚ) : cc_VertexLocals :=
  let prevCreaseWeight := cc__Signf prevS
  let tmp1 := cc__Mul3f newPrevFacePoint (-1)
  let tmp2 := cc__Mul3f newPrevEdgePoint 4
  let smoothPoint := cc__Add3f (cc__Add3f s.smoothPoint tmp1) tmp2
  let valence := s.valence + 1
  let tmp1 := cc__Mul3f newPrevEdgePoint prevCreaseWeight
  let creasePoint := cc__Add3f s.creasePoint tmp1
  { smoothPoint := smoothPoint, creasePoint := creasePoint, avgS := s.avgS + prevS,
    creaseCount := s.creaseCount + prevCreaseWeight, valence := valence }

/-- The local variables before the first loop around the vertex: the
contribution of the predecessor of the halfedge of the vertex. -/
def cc_VertexLocals.first (newPrevEdgePoint newPrevFacePoint : cc_VertexPoint) (prevS : ℚ) :
    cc_VertexLocals :=
  let prevCreaseWeight := cc__Signf prevS
  let creasePoint : cc_VertexPoint := (0, 0, 0)
  let tmp1 := cc__Mul3f newPrevFacePoint (-1)
  let tmp2 := cc__Mul3f newPrevEdgePoint 4
  let smoothPoint := cc__Add3f tmp1 tmp2
  let tmp1 := cc__Mul3f newPrevEdgePoint prevCreaseWeight
  let creasePoint := cc__Add3f creasePoint tmp1
  { smoothPoint := smoothPoint, creasePoint := creasePoint, avgS := prevS,
    creaseCount := prevCreaseWeight, valence := 1 }

/-- The statements "boundary corrections" of the two kernels. -/
def cc_VertexLocals.boundaryCorrections (s : cc_VertexLocals) (forwardIterator : Int)
    (newEdgePoint : cc_VertexPoint) (creaseWeight : ℚ) : cc_VertexLocals :=
  if forwardIterator < 0 then
    let tmp1 := cc__Mul3f newEdgePoint creaseWeight
    { s with creasePoint := cc__Add3f s.creasePoint tmp1,
             creaseCount := s.creaseCount + creaseWeight,
             valence := s.valence + 1 }
  else s

/-- The reads of the halfedge `halfedgeID` of the cage in an iteration around a
vertex: its new edge point, its new face point and its sharpness. -/
def ccm_HalfedgeNewPoints (cage : cc_Mesh) (vertexCount faceCount : Int)
    (points : List cc_VertexPoint) (halfedgeID : Int) :
    Option (cc_VertexPoint × cc_VertexPoint × ℚ) := do
  let edgeID ← ccm_HalfedgeEdgeID cage halfedgeID
  let faceID ← ccm_HalfedgeFaceID cage halfedgeID
  let newEdgePoint ← readAt points (vertexCount + faceCount + edgeID)
  let newFacePoint ← readAt points (vertexCount + faceID)
  let sharpness ← ccm_HalfedgeSharpness cage halfedgeID
  some (newEdgePoint, newFacePoint, sharpness)

/-- One iteration of the loop around the vertex of
`ccs__CreasedCageVertexPoints_Gather`, with its last statement
`forwardIterator = prevID` and its increment
`forwardIterator = ccm_HalfedgeTwinID(cage, forwardIterator)`. -/
def ccs__CreasedCageVertexPoints_Gather_forward (cage : cc_Mesh) (vertexCount faceCount : Int)
    (points : List cc_VertexPoint) (forwardIterator : Int) (s : cc_VertexLocals) :
    Option (Int × cc_VertexLocals) := do
  let prevID ← ccm_HalfedgePrevID cage forwardIterator
  let r ← ccm_HalfedgeNewPoints cage vertexCount faceCount points prevID
  let forwardIterator := prevID
  let next ← ccm_HalfedgeTwinID cage forwardIterator
  some (next, s.accumulate r.1 r.2.1 r.2.2)

/-- The end of an iteration over the vertices of
`ccs__CreasedCageVertexPoints_Gather`, from "boundary corrections" on: the value
that is stored in `newVertexPoints[vertexID]`. -/
def ccs__CreasedCageVertexPoints_Gather_rule (oldPoint newEdgePoint : cc_VertexPoint)
    (creaseWeight : ℚ) (forwardIterator : Int) (s : cc_VertexLocals) : cc_VertexPoint :=
  let s := s.boundaryCorrections forwardIterator newEdgePoint creaseWeight
  let tmp1 := cc__Mul3f s.smoothPoint (1 / (s.valence * s.valence))
  let tmp2 := cc__Mul3f oldPoint (1 - 3 / s.valence)
  let smoothPoint := cc__Add3f tmp1 tmp2
  let tmp1 := cc__Mul3f s.creasePoint 0.25
  let tmp2 := cc__Mul3f oldPoint 0.5
  let creasePoint := cc__Add3f tmp1 tmp2
  if s.creaseCount ≤ 1 then smoothPoint
  else if s.creaseCount ≥ 3 ∨ s.valence = 2 then oldPoint
  else cc__Lerp3f oldPoint creasePoint (cc__Satf (s.avgS * 0.5))

/-- The body of the loop over the vertices of
`ccs__CreasedCageVertexPoints_Gather`. -/
def ccs__CreasedCageVertexPoints_Gather_vertex (cage : cc_Mesh) (vertexCount faceCount : Int)
    (points : List cc_VertexPoint) (fuel : Nat) (vertexID : Int) : Option cc_VertexPoint := do
  let halfedgeID ← ccm_VertexToHalfedgeID cage vertexID
  let edgeID ← ccm_HalfedgeEdgeID cage halfedgeID
  let prevID ← ccm_HalfedgePrevID cage halfedgeID
  let thisS ← ccm_HalfedgeSharpness cage halfedgeID
  let creaseWeight := cc__Signf thisS
  let newEdgePoint ← readAt points (vertexCount + faceCount + edgeID)
  let prev ← ccm_HalfedgeNewPoints cage vertexCount faceCount points prevID
  let oldPoint ← ccm_VertexPoint cage vertexID
  let start ← ccm_HalfedgeTwinID cage prevID
  let r ← forLoop
    (fun forwardIterator => decide (forwardIterator ≥ 0) && decide (forwardIterator ≠ halfedgeID))
    (ccs__CreasedCageVertexPoints_Gather_forward cage vertexCount faceCount points)
    fuel start (cc_VertexLocals.first prev.1 prev.2.1 prev.2.2)
  some (ccs__CreasedCageVertexPoints_Gather_rule oldPoint newEdgePoint creaseWeight r.1 r.2)

/-- The kernel `ccs__CreasedCageVertexPoints_Gather`. -/
def ccs__CreasedCageVertexPoints_Gather (subd : cc_Subd) (fuel : Nat) : Option cc_Subd := do
  let cage := subd.cage
  let vertexCount := ccm_VertexCount cage
  let faceCount := ccm_FaceCount cage
  let points ← subd.vertexPoints[0]?
  let out ← (List.range vertexCount).foldlM
    (fun out (vertexID : Nat) => do
      let newVertexPoint ←
        ccs__CreasedCageVertexPoints_Gather_vertex cage vertexCount faceCount out fuel vertexID
      writeAt out (vertexID : Int) (fun _ => newVertexPoint))
    points
  some { subd with vertexPoints := subd.vertexPoints.set 0 out }

/-- The reads of the halfedge `halfedgeID` of level `depth` in an iteration
around a vertex: its new edge point, its new face point and its sharpness. -/
def ccs_HalfedgeNewPoints (subd : cc_Subd) (depth : Nat) (vertexCount faceCount : Int)
    (points : List cc_VertexPoint) (halfedgeID : Int) :
    Option (cc_VertexPoint × cc_VertexPoint × ℚ) := do
  let edgeID ← ccs_HalfedgeEdgeID subd halfedgeID depth
  let faceID := ccs_HalfedgeFaceID subd halfedgeID depth
  let newEdgePoint ← readAt points (vertexCount + faceCount + edgeID)
  let newFacePoint ← readAt points (vertexCount + faceID)
  let sharpness ← ccs_HalfedgeSharpness subd halfedgeID depth
  some (newEdgePoint, newFacePoint, sharpness)

/-- One iteration of the first loop around the vertex of
`ccs__CreasedVertexPoints_Gather`, with its increment. -/
def ccs__CreasedVertexPoints_Gather_forward (subd : cc_Subd) (depth : Nat)
    (vertexCount faceCount : Int) (points : List cc_VertexPoint) (forwardIterator : Int)
    (s : cc_VertexLocals) : Option (Int × cc_VertexLocals) := do
  let prevID := ccs_HalfedgePrevID subd forwardIterator depth
  let r ← ccs_HalfedgeNewPoints subd depth vertexCount faceCount points prevID
  let forwardIterator := prevID
  let next ← ccs_HalfedgeTwinID subd forwardIterator depth
  some (next, s.accumulate r.1 r.2.1 r.2.2)

/-- One iteration of the second loop around the vertex of
`ccs__CreasedVertexPoints_Gather`, with its last statement
`backwardIterator = nextID` and its increment. -/
def ccs__CreasedVertexPoints_Gather_backward (subd : cc_Subd) (depth : Nat)
    (vertexCount faceCount : Int) (points : List cc_VertexPoint) (backwardIterator : Int)
    (s : cc_VertexLocals) : Option (Int × cc_VertexLocals) := do
  let nextID := ccs_HalfedgeNextID subd backwardIterator depth
  let r ← ccs_HalfedgeNewPoints subd depth vertexCount faceCount points nextID
  let backwardIterator := nextID
  let next ← ccs_HalfedgeTwinID subd backwardIterator depth
  some (next, s.accumulate r.1 r.2.1 r.2.2)

/-- The end of an iteration over the vertices of `ccs__CreasedVertexPoints_Gather`,
from "boundary corrections" on. -/
def ccs__CreasedVertexPoints_Gather_rule (oldPoint newEdgePoint : cc_VertexPoint)
    (creaseWeight : ℚ) (forwardIterator : Int) (s : cc_VertexLocals) : cc_VertexPoint :=
  let s := s.boundaryCorrections forwardIterator newEdgePoint creaseWeight
  let tmp1 := cc__Mul3f s.smoothPoint (1 / (s.valence * s.valence))
  let tmp2 := cc__Mul3f oldPoint (1 - 3 / s.valence)
  let smoothPoint := cc__Add3f tmp1 tmp2
  let tmp1 := cc__Mul3f s.creasePoint (0.5 / s.creaseCount)
  let tmp2 := cc__Mul3f oldPoint 0.5
  let creasePoint := cc__Add3f tmp1 tmp2
  if s.creaseCount ≤ 1 then smoothPoint
  else if s.creaseCount ≥ 3 ∨ s.valence = 2 then oldPoint
  else cc__Lerp3f oldPoint creasePoint (cc__Satf (s.avgS * 0.5))

/-- The body of the loop over the vertices of `ccs__CreasedVertexPoints_Gather`;
the loop of `ccs_VertexPointToHalfedgeID` and the two loops around the vertex
are run for at most `fuel` iterations each. -/
def ccs__CreasedVertexPoints_Gather_vertex (subd : cc_Subd)
    (edgeToHalfedgeID : Int → Nat → Int) (vertexToHalfedgeID_First : Int → Int) (depth : Nat)
    (vertexCount faceCount : Int) (points : List cc_VertexPoint) (fuel : Nat)
    (vertexID : Int) : Option cc_VertexPoint := do
  let halfedgeID ← ccs_VertexPointToHalfedgeID subd.cage edgeToHalfedgeID
    vertexToHalfedgeID_First vertexID depth fuel
  let edgeID ← ccs_HalfedgeEdgeID subd halfedgeID depth
  let prevID := ccs_HalfedgePrevID subd halfedgeID depth
  let thisS ← ccs_HalfedgeSharpness subd halfedgeID depth
  let creaseWeight := cc__Signf thisS
  let newEdgePoint ← readAt points (vertexCount + faceCount + edgeID)
  let prev ← ccs_HalfedgeNewPoints subd depth vertexCount faceCount points prevID
  let oldPoint ← ccs_VertexPoint subd vertexID depth
  let start ← ccs_HalfedgeTwinID subd prevID depth
  let r ← forLoop
    (fun forwardIterator => decide (forwardIterator ≥ 0) && decide (forwardIterator ≠ halfedgeID))
    (ccs__CreasedVertexPoints_Gather_forward subd depth vertexCount faceCount points)
    fuel start (cc_VertexLocals.first prev.1 prev.2.1 prev.2.2)
  let forwardIterator := r.1
  let back ← ccs_HalfedgeTwinID subd halfedgeID depth
  let b ← forLoop
    (fun backwardIterator => decide (forwardIterator < 0) && decide (backwardIterator ≥ 0)
      && decide (backwardIterator ≠ halfedgeID))
    (ccs__CreasedVertexPoints_Gather_backward subd depth vertexCount faceCount points)
    fuel back r.2
  some (ccs__CreasedVertexPoints_Gather_rule oldPoint newEdgePoint creaseWeight
    forwardIterator b.2)

/-- The kernel `ccs__CreasedVertexPoints_Gather`. -/
def ccs__CreasedVertexPoints_Gather (subd : cc_Subd) (edgeToHalfedgeID : Int → Nat → Int)
    (vertexToHalfedgeID_First : Int → Int) (depth : Nat) (fuel : Nat) : Option cc_Subd := do
  let cage := subd.cage
  let vertexCount := ccm_VertexCountAtDepth_Fast cage depth
  let faceCount := ccm_FaceCountAtDepth_Fast cage depth
  let points ← ccs__Level subd.vertexPoints (depth + 1)
  let out ← (List.range vertexCount).foldlM
    (fun out (vertexID : Nat) => do
      let newVertexPoint ← ccs__CreasedVertexPoints_Gather_vertex subd edgeToHalfedgeID
        vertexToHalfedgeID_First depth vertexCount faceCount out fuel vertexID
      writeAt out (vertexID : Int) (fun _ => newVertexPoint))
    points
  some { subd with vertexPoints := subd.vertexPoints.set depth out }

/-- The local variables after the loops around a vertex, from the list of the
reads `(newEdgePoint, newFacePoint, sharpness)` of the halfedges the loops have
visited: `smoothPoint` is the sum of `4E - F`, `creasePoint` the sum of
`sign(S) * E`, `avgS` the sum of `S`, `creaseCount` the sum of `sign(S)` and
`valence` the number of reads. -/
def cc_VertexLocals.sum (items : List (cc_VertexPoint × cc_VertexPoint × ℚ)) :
    cc_VertexLocals :=
  { smoothPoint := (items.map (fun r => (4 : ℚ) • r.1 - r.2.1)).sum,
    creasePoint := (items.map (fun r => cc__Signf r.2.2 • r.1)).sum,
    avgS := (items.map (fun r => r.2.2)).sum,
    creaseCount := (items.map (fun r => cc__Signf r.2.2)).sum,
    valence := (items.length : ℚ) }

/-- The reads of the predecessor of the cage halfedge `g`: the contribution of
the iteration of the loop around the vertex whose iterator is `g`. -/
def ccm_PrevNewPoints (cage : cc_Mesh) (points : List cc_VertexPoint) (g : Int) :
    Option (cc_VertexPoint × cc_VertexPoint × ℚ) :=
  (ccm_HalfedgePrevID cage g).bind
    (ccm_HalfedgeNewPoints cage (ccm_VertexCount cage) (ccm_FaceCount cage) points)

/-- The reads of the predecessor of the halfedge `g` of level `depth`. -/
def ccs_PrevNewPoints (subd : cc_Subd) (depth : Nat) (points : List cc_VertexPoint) (g : Int) :
    Option (cc_VertexPoint × cc_VertexPoint × ℚ) :=
  ccs_HalfedgeNewPoints subd depth (ccm_VertexCountAtDepth_Fast subd.cage depth)
    (ccm_FaceCountAtDepth_Fast subd.cage depth) points (ccs_HalfedgePrevID subd g depth)

/-- The reads of the successor of the halfedge `g` of level `depth`: the
contribution of the iteration of the second loop whose iterator is `g`. -/
def ccs_NextNewPoints (subd : cc_Subd) (depth : Nat) (points : List cc_VertexPoint) (g : Int) :
    Option (cc_VertexPoint × cc_VertexPoint × ℚ) :=
  ccs_HalfedgeNewPoints subd depth (ccm_VertexCountAtDepth_Fast subd.cage depth)
    (ccm_FaceCountAtDepth_Fast subd.cage depth) points (ccs_HalfedgeNextID subd g depth)

/-- The second walk around the vertex of the halfedge `halfedgeID` of level
`depth`, which is taken when the first walk has left the mesh
(`forwardIterator < 0`): the halfedges `twin(next(.))` reaches from
`twin(halfedgeID)` as long as they are not negative and not `halfedgeID`. -/
def ccs_VertexRingBackward (subd : cc_Subd) (depth : Nat) (fuel : Nat) (halfedgeID : Int)
    (forwardIterator : Int) : Option (List Int) := do
  let back ← ccs_HalfedgeTwinID subd halfedgeID depth
  let r ← ringWalk
    (fun backwardIterator =>
      ccs_HalfedgeTwinID subd (ccs_HalfedgeNextID subd backwardIterator depth) depth)
    (fun backwardIterator => decide (forwardIterator < 0) && decide (backwardIterator ≥ 0)
      && decide (backwardIterator ≠ halfedgeID)) fuel back
  some r.1

theorem foldl_accumulate (items : List (cc_VertexPoint × cc_VertexPoint × ℚ)) :
    ∀ s : cc_VertexLocals,
      items.foldl (fun s r => s.accumulate r.1 r.2.1 r.2.2) s =
        { smoothPoint := s.smoothPoint + (cc_VertexLocals.sum items).smoothPoint,
          creasePoint := s.creasePoint + (cc_VertexLocals.sum items).creasePoint,
          avgS := s.avgS + (cc_VertexLocals.sum items).avgS,
          creaseCount := s.creaseCount + (cc_VertexLocals.sum items).creaseCount,
          valence := s.valence + (cc_VertexLocals.sum items).valence } := by
  induction items with
  | nil =>
    intro s
    simp [cc_VertexLocals.sum]
  | cons r t ih =>
    intro s
    rw [List.foldl_cons, ih]
    refine cc_VertexLocals.ext ?_ ?_ ?_ ?_ ?_
    · simp only [cc_VertexLocals.accumulate, cc_VertexLocals.sum, List.map_cons, List.sum_cons,
        cc__Add3f, cc__Mul3f]
      module
    · simp only [cc_VertexLocals.accumulate, cc_VertexLocals.sum, List.map_cons, List.sum_cons,
        cc__Add3f, cc__Mul3f]
      module
    · simp only [cc_VertexLocals.accumulate, cc_VertexLocals.sum, List.map_cons, List.sum_cons]
      ring
    · simp only [cc_VertexLocals.accumulate, cc_VertexLocals.sum, List.map_cons, List.sum_cons]
      ring
    · simp only [cc_VertexLocals.accumulate, cc_VertexLocals.sum, List.length_cons,
        Nat.cast_add, Nat.cast_one]
      ring

theorem first_eq_sum (r : cc_VertexPoint × cc_VertexPoint × ℚ) :
    cc_VertexLocals.first r.1 r.2.1 r.2.2 = cc_VertexLocals.sum [r] := by
  refine cc_VertexLocals.ext ?_ ?_ ?_ ?_ ?_
  · simp only [cc_VertexLocals.first, cc_VertexLocals.sum, List.map_cons, List.map_nil,
      List.sum_cons, List.sum_nil, cc__Add3f, cc__Mul3f]
    module
  · simp only [cc_VertexLocals.first, cc_VertexLocals.sum, List.map_cons, List.map_nil,
      List.sum_cons, List.sum_nil, cc__Add3f, cc__Mul3f]
    rw [show ((0, 0, 0) : cc_VertexPoint) = 0 from rfl]
    module
  · simp [cc_VertexLocals.first, cc_VertexLocals.sum]
  · simp [cc_VertexLocals.first, cc_VertexLocals.sum]
  · simp [cc_VertexLocals.first, cc_VertexLocals.sum]

theorem sum_append_eq (a b : List (cc_VertexPoint × cc_VertexPoint × ℚ)) :
    b.foldl (fun s r => s.accumulate r.1 r.2.1 r.2.2) (cc_VertexLocals.sum a)
      = cc_VertexLocals.sum (a ++ b) := by
  rw [foldl_accumulate]
  refine cc_VertexLocals.ext ?_ ?_ ?_ ?_ ?_ <;> simp [cc_VertexLocals.sum]

theorem creased_cage_vertex_body (cage : cc_Mesh) (pts : List cc_VertexPoint) (fuel : Nat)
    (v h : Int) (Vp Eh : cc_VertexPoint) (thisS : ℚ) (ring : List Int) (last : Int)
    (items : List (cc_VertexPoint × cc_VertexPoint × ℚ))
    (hh : ccm_VertexToHalfedgeID cage v = some h) (hV : ccm_VertexPoint cage v = some Vp)
    (hS : ccm_HalfedgeSharpness cage h = some thisS)
    (hE : ccm_HalfedgeNewEdgePoint cage pts h = some Eh)
    (hr : ccm_VertexRing cage fuel h = some (ring, last))
    (hitems : ring.map (ccm_PrevNewPoints cage pts) = items.map some) :
    ccs__CreasedCageVertexPoints_Gather_vertex cage (ccm_VertexCount cage) (ccm_FaceCount cage)
        pts fuel v
      = some (ccs__CreasedCageVertexPoints_Gather_rule Vp Eh (cc__Signf thisS) last
          (cc_VertexLocals.sum items)) := by
  obtain ⟨hi1, hi2⟩ := map_eq_map_some _ _ _ hitems
  unfold ccm_VertexRing at hr
  cases hs : ccm_PrevVertexHalfedgeID cage h with
  | none => simp [hs] at hr
  | some start =>
    simp only [hs, Option.bind_eq_bind, Option.some_bind] at hr
    cases hw : ringWalk (ccm_PrevVertexHalfedgeID cage)
        (fun iterator => decide (iterator ≥ 0) && decide (iterator ≠ h)) fuel start with
    | none =>
      rw [hw] at hr
      exact absurd hr (by simp)
    | some r =>
      obtain ⟨rest, l⟩ := r
      rw [hw] at hr
      simp only [Option.some_bind, Option.some.injEq, Prod.mk.injEq] at hr
      obtain ⟨rfl, rfl⟩ := hr
      have hl := forLoop_of_ringWalk (ccm_PrevVertexHalfedgeID cage)
        (fun iterator => decide (iterator ≥ 0) && decide (iterator ≠ h))
        (ccs__CreasedCageVertexPoints_Gather_forward cage (ccm_VertexCount cage)
          (ccm_FaceCount cage) pts)
        (fun g (s : cc_VertexLocals) =>
          s.accumulate ((ccm_PrevNewPoints cage pts g).getD default).1
            ((ccm_PrevNewPoints cage pts g).getD default).2.1
            ((ccm_PrevNewPoints cage pts g).getD default).2.2)
        fuel start rest l
        (cc_VertexLocals.first ((ccm_PrevNewPoints cage pts h).getD default).1
          ((ccm_PrevNewPoints cage pts h).getD default).2.1
          ((ccm_PrevNewPoints cage pts h).getD default).2.2) hw
        (by
          intro g hg nxt s hst
          have hread := hi2 g (List.mem_cons_of_mem _ hg)
          unfold ccm_PrevVertexHalfedgeID at hst
          obtain ⟨p, hp, htw⟩ := Option.bind_eq_some.mp hst
          have hx : ∃ x, ccm_HalfedgeNewPoints cage (ccm_VertexCount cage) (ccm_FaceCount cage)
              pts p = some x := by
            unfold ccm_PrevNewPoints at hread
            rw [hp, Option.some_bind] at hread
            exact ⟨_, hread⟩
          obtain ⟨x, hx⟩ := hx
          unfold ccm_PrevNewPoints ccs__CreasedCageVertexPoints_Gather_forward
          simp only [hp, hx, htw, Option.bind_eq_bind, Option.some_bind, Option.getD_some])
      have hread := hi2 h (List.mem_cons_self _ _)
      unfold ccm_PrevVertexHalfedgeID at hs
      obtain ⟨p, hp, htw⟩ := Option.bind_eq_some.mp hs
      unfold ccm_HalfedgeNewEdgePoint at hE
      obtain ⟨e, he1, he2⟩ := Option.bind_eq_some.mp hE
      have hx : ∃ x, ccm_HalfedgeNewPoints cage (ccm_VertexCount cage) (ccm_FaceCount cage)
          pts p = some x := by
        unfold ccm_PrevNewPoints at hread
        rw [hp, Option.some_bind] at hread
        exact ⟨_, hread⟩
      obtain ⟨x, hx⟩ := hx
      have hx' : (ccm_PrevNewPoints cage pts h).getD default = x := by
        unfold ccm_PrevNewPoints
        rw [hp, Option.some_bind, hx, Option.getD_some]
      rw [hx'] at hl
      unfold ccs__CreasedCageVertexPoints_Gather_vertex
      simp only [hh, hV, hS, he1, he2, hp, hx, htw, hl, Option.bind_eq_bind,
        Option.some_bind]
      rw [← hx']
      rw [first_eq_sum, ← List.foldl_map
        (fun g => (ccm_PrevNewPoints cage pts g).getD default)
        (fun (s : cc_VertexLocals) r => s.accumulate r.1 r.2.1 r.2.2), sum_append_eq, hi1]
      rfl

theorem creased_level_vertex_body (subd : cc_Subd) (e2h : Int → Nat → Int) (v2h : Int → Int)
    (depth : Nat) (pts : List cc_VertexPoint) (fuel : Nat)
    (v h : Int) (Vp Eh : cc_VertexPoint) (thisS : ℚ) (ring back : List Int) (last : Int)
    (itemsF itemsB : List (cc_VertexPoint × cc_VertexPoint × ℚ))
    (hh : ccs_VertexPointToHalfedgeID subd.cage e2h v2h v depth fuel = some h)
    (hV : ccs_VertexPoint subd v depth = some Vp)
    (hS : ccs_HalfedgeSharpness subd h depth = some thisS)
    (hE : ccs_HalfedgeNewEdgePoint subd depth pts h = some Eh)
    (hr : ccs_VertexRing subd depth fuel h = some (ring, last))
    (hb : ccs_VertexRingBackward subd depth fuel h last = some back)
    (hitemsF : ring.map (ccs_PrevNewPoints subd depth pts) = itemsF.map some)
    (hitemsB : back.map (ccs_NextNewPoints subd depth pts) = itemsB.map some) :
    ccs__CreasedVertexPoints_Gather_vertex subd e2h v2h depth
        (ccm_VertexCountAtDepth_Fast subd.cage depth) (ccm_FaceCountAtDepth_Fast subd.cage depth)
        pts fuel v
      = some (ccs__CreasedVertexPoints_Gather_rule Vp Eh (cc__Signf thisS) last
          (cc_VertexLocals.sum (itemsF ++ itemsB))) := by
  obtain ⟨hi1, hi2⟩ := map_eq_map_some _ _ _ hitemsF
  obtain ⟨hj1, hj2⟩ := map_eq_map_some _ _ _ hitemsB
  unfold ccs_VertexRing at hr
  unfold ccs_VertexRingBackward at hb
  cases hs : ccs_PrevVertexHalfedgeID subd h depth with
  | none => simp [hs] at hr
  | some start =>
    simp only [hs, Option.bind_eq_bind, Option.some_bind] at hr
    cases hw : ringWalk (fun iterator => ccs_PrevVertexHalfedgeID subd iterator depth)
        (fun iterator => decide (iterator ≥ 0) && decide (iterator ≠ h)) fuel start with
    | none =>
      rw [hw] at hr
      exact absurd hr (by simp)
    | some r =>
      obtain ⟨rest, l⟩ := r
      rw [hw] at hr
      simp only [Option.some_bind, Option.some.injEq, Prod.mk.injEq] at hr
      obtain ⟨rfl, rfl⟩ := hr
      cases hbs : ccs_HalfedgeTwinID subd h depth with
      | none => simp [hbs] at hb
      | some bstart =>
        simp only [hbs, Option.bind_eq_bind, Option.some_bind] at hb
        cases hbw : ringWalk
            (fun backwardIterator =>
              ccs_HalfedgeTwinID subd (ccs_HalfedgeNextID subd backwardIterator depth) depth)
            (fun backwardIterator => decide (l < 0) && decide (backwardIterator ≥ 0)
              && decide (backwardIterator ≠ h)) fuel bstart with
        | none =>
          rw [hbw] at hb
          exact absurd hb (by simp)
        | some rb =>
          obtain ⟨brest, bl⟩ := rb
          rw [hbw] at hb
          simp only [Option.some_bind, Option.some.injEq] at hb
          subst hb
          have hl := forLoop_of_ringWalk
            (fun iterator => ccs_PrevVertexHalfedgeID subd iterator depth)
            (fun iterator => decide (iterator ≥ 0) && decide (iterator ≠ h))
            (ccs__CreasedVertexPoints_Gather_forward subd depth
              (ccm_VertexCountAtDepth_Fast subd.cage depth)
              (ccm_FaceCountAtDepth_Fast subd.cage depth) pts)
            (fun g (s : cc_VertexLocals) =>
              s.accumulate ((ccs_PrevNewPoints subd depth pts g).getD default).1
                ((ccs_PrevNewPoints subd depth pts g).getD default).2.1
                ((ccs_PrevNewPoints subd depth pts g).getD default).2.2)
            fuel start rest l
            (cc_VertexLocals.first ((ccs_PrevNewPoints subd depth pts h).getD default).1
              ((ccs_PrevNewPoints subd depth pts h).getD default).2.1
              ((ccs_PrevNewPoints subd depth pts h).getD default).2.2) hw
            (by
              intro g hg nxt s hst
              obtain ⟨x, hx⟩ : ∃ x, ccs_PrevNewPoints subd depth pts g = some x :=
                ⟨_, hi2 g (List.mem_cons_of_mem _ hg)⟩
              have hst' : ccs_HalfedgeTwinID subd (ccs_HalfedgePrevID subd g depth) depth
                  = some nxt := hst
              have hx' : ccs_HalfedgeNewPoints subd depth
                  (ccm_VertexCountAtDepth_Fast subd.cage depth)
                  (ccm_FaceCountAtDepth_Fast subd.cage depth) pts
                  (ccs_HalfedgePrevID subd g depth) = some x := hx
              unfold ccs__CreasedVertexPoints_Gather_forward
              simp only [hx, hx', hst', Option.bind_eq_bind, Option.some_bind,
                Option.getD_some])
          obtain ⟨x, hx⟩ : ∃ x, ccs_PrevNewPoints subd depth pts h = some x :=
            ⟨_, hi2 h (List.mem_cons_self _ _)⟩
          have hx' : ccs_HalfedgeNewPoints subd depth
              (ccm_VertexCountAtDepth_Fast subd.cage depth)
              (ccm_FaceCountAtDepth_Fast subd.cage depth) pts
              (ccs_HalfedgePrevID subd h depth) = some x := hx
          have hs' : ccs_HalfedgeTwinID subd (ccs_HalfedgePrevID subd h depth) depth
              = some start := hs
          rw [hx, Option.getD_some, first_eq_sum, ← List.foldl_map
            (fun g => (ccs_PrevNewPoints subd depth pts g).getD default)
            (fun (s : cc_VertexLocals) r => s.accumulate r.1 r.2.1 r.2.2), sum_append_eq] at hl
          have hF : [x] ++ rest.map (fun g => (ccs_PrevNewPoints subd depth pts g).getD default)
              = itemsF := by
            rw [hi1]
            simp only [List.map_cons, hx, Option.getD_some, List.singleton_append]
          rw [hF] at hl
          have hl2 := forLoop_of_ringWalk
            (fun backwardIterator =>
              ccs_HalfedgeTwinID subd (ccs_HalfedgeNextID subd backwardIterator depth) depth)
            (fun backwardIterator => decide (l < 0) && decide (backwardIterator ≥ 0)
              && decide (backwardIterator ≠ h))
            (ccs__CreasedVertexPoints_Gather_backward subd depth
              (ccm_VertexCountAtDepth_Fast subd.cage depth)
              (ccm_FaceCountAtDepth_Fast subd.cage depth) pts)
            (fun g (s : cc_VertexLocals) =>
              s.accumulate ((ccs_NextNewPoints subd depth pts g).getD default).1
                ((ccs_NextNewPoints subd depth pts g).getD default).2.1
                ((ccs_NextNewPoints subd depth pts g).getD default).2.2)
            fuel bstart brest bl (cc_VertexLocals.sum itemsF) hbw
            (by
              intro g hg nxt s hst
              obtain ⟨y, hy⟩ : ∃ y, ccs_NextNewPoints subd depth pts g = some y :=
                ⟨_, hj2 g hg⟩
              have hy' : ccs_HalfedgeNewPoints subd depth
                  (ccm_VertexCountAtDepth_Fast subd.cage depth)
                  (ccm_FaceCountAtDepth_Fast subd.cage depth) pts
                  (ccs_HalfedgeNextID subd g depth) = some y := hy
              have hst' : ccs_HalfedgeTwinID subd (ccs_HalfedgeNextID subd g depth) depth
                  = some nxt := hst
              unfold ccs__CreasedVertexPoints_Gather_backward
              simp only [hy, hy', hst', Option.bind_eq_bind, Option.some_bind,
                Option.getD_some])
          rw [← List.foldl_map
            (fun g => (ccs_NextNewPoints subd depth pts g).getD default)
            (fun (s : cc_VertexLocals) r => s.accumulate r.1 r.2.1 r.2.2), sum_append_eq,
            ← hj1] at hl2
          unfold ccs_HalfedgeNewEdgePoint at hE
          obtain ⟨e, he1, he2⟩ := Option.bind_eq_some.mp hE
          unfold ccs__CreasedVertexPoints_Gather_vertex
          simp only [hh, hV, hS, he1, he2, hx', hs', hbs, Option.bind_eq_bind,
            Option.some_bind]
          rw [first_eq_sum, hl]
          simp only [Option.some_bind]
          rw [hl2]
          rfl

/-- The halfedge `p` of the cage can be read in a walk around a vertex: its edge
is in `[0, E0)`, its face in `[0, F0)`, and its edge has a crease record. -/
def ccm_HalfedgeCreaseReadable (cage : cc_Mesh) (p : Int) : Prop :=
  ccm_HalfedgePointsInBounds cage p ∧ (ccm_HalfedgeSharpness cage p).isSome = true

instance (cage : cc_Mesh) (p : Int) : Decidable (ccm_HalfedgeCreaseReadable cage p) := by
  unfold ccm_HalfedgeCreaseReadable
  infer_instance

/-- The vertex `v` of the cage has a position and a readable halfedge
`ccm_VertexToHalfedgeID(cage, v)` whose walk around the vertex exits within
`fuel` steps, and the predecessor of every halfedge of the walk is readable. -/
def ccm_CreasedVertexRingReadable (cage : cc_Mesh) (fuel : Nat) (v : Int) : Prop :=
  (ccm_VertexPoint cage v).isSome = true ∧
  ∃ h ∈ ccm_VertexToHalfedgeID cage v, ccm_HalfedgeCreaseReadable cage h ∧
    ∃ r ∈ ccm_VertexRing cage fuel h,
      ∀ g ∈ r.1, ∃ p ∈ ccm_HalfedgePrevID cage g, ccm_HalfedgeCreaseReadable cage p

instance (cage : cc_Mesh) (fuel : Nat) (v : Int) :
    Decidable (ccm_CreasedVertexRingReadable cage fuel v) := by
  unfold ccm_CreasedVertexRingReadable
  infer_instance

/-- Every vertex of the cage is readable (`ccm_CreasedVertexRingReadable`). -/
def ccm_CreasedVertexRingsReadable (cage : cc_Mesh) (fuel : Nat) : Prop :=
  ∀ v : Nat, v < ccm_VertexCount cage → ccm_CreasedVertexRingReadable cage fuel v

instance (cage : cc_Mesh) (fuel : Nat) :
    Decidable (ccm_CreasedVertexRingsReadable cage fuel) := by
  unfold ccm_CreasedVertexRingsReadable
  infer_instance

/-- The halfedge `p` of level `depth` can be read in a walk around a vertex. -/
def ccs_HalfedgeCreaseReadable (subd : cc_Subd) (depth : Nat) (p : Int) : Prop :=
  ccs_HalfedgePointsInBounds subd depth p ∧ (ccs_HalfedgeSharpness subd p depth).isSome = true

instance (subd : cc_Subd) (depth : Nat) (p : Int) :
    Decidable (ccs_HalfedgeCreaseReadable subd depth p) := by
  unfold ccs_HalfedgeCreaseReadable
  infer_instance

/-- The vertex `v` of level `depth` has a position and a readable halfedge
`ccs_VertexPointToHalfedgeID(subd, v, depth)` whose two walks around the vertex
exit within `fuel` steps, and the predecessors of the halfedges of the first
walk and the successors of the halfedges of the second walk are readable. -/
def ccs_CreasedVertexRingReadable (subd : cc_Subd) (edgeToHalfedgeID : Int → Nat → Int)
    (vertexToHalfedgeID_First : Int → Int) (depth : Nat) (fuel : Nat) (v : Int) : Prop :=
  (ccs_VertexPoint subd v depth).isSome = true ∧
  ∃ h ∈ ccs_VertexPointToHalfedgeID subd.cage edgeToHalfedgeID vertexToHalfedgeID_First
      v depth fuel,
    ccs_HalfedgeCreaseReadable subd depth h ∧
    ∃ r ∈ ccs_VertexRing subd depth fuel h,
      (∀ g ∈ r.1, ccs_HalfedgeCreaseReadable subd depth (ccs_HalfedgePrevID subd g depth)) ∧
      ∃ back ∈ ccs_VertexRingBackward subd depth fuel h r.2,
        ∀ g ∈ back, ccs_HalfedgeCreaseReadable subd depth (ccs_HalfedgeNextID subd g depth)

instance (subd : cc_Subd) (edgeToHalfedgeID : Int → Nat → Int)
    (vertexToHalfedgeID_First : Int → Int) (depth : Nat) (fuel : Nat) (v : Int) :
    Decidable (ccs_CreasedVertexRingReadable subd edgeToHalfedgeID vertexToHalfedgeID_First
      depth fuel v) := by
  unfold ccs_CreasedVertexRingReadable
  infer_instance

/-- Every vertex of level `depth` is readable (`ccs_CreasedVertexRingReadable`). -/
def ccs_CreasedVertexRingsReadable (subd : cc_Subd) (edgeToHalfedgeID : Int → Nat → Int)
    (vertexToHalfedgeID_First : Int → Int) (depth : Nat) (fuel : Nat) : Prop :=
  ∀ v : Nat, v < ccm_VertexCountAtDepth_Fast subd.cage depth →
    ccs_CreasedVertexRingReadable subd edgeToHalfedgeID vertexToHalfedgeID_First depth fuel v

instance (subd : cc_Subd) (edgeToHalfedgeID : Int → Nat → Int)
    (vertexToHalfedgeID_First : Int → Int) (depth : Nat) (fuel : Nat) :
    Decidable (ccs_CreasedVertexRingsReadable subd edgeToHalfedgeID vertexToHalfedgeID_First
      depth fuel) := by
  unfold ccs_CreasedVertexRingsReadable
  infer_instance

theorem cage_newpoints_agree (cage : cc_Mesh) (p : Int) (hp : ccm_HalfedgeCreaseReadable cage p)
    (o out : List cc_VertexPoint)
    (hlen : ccm_VertexCount cage + ccm_FaceCount cage + ccm_EdgeCount cage ≤ out.length)
    (hag : ∀ j : Nat, ccm_VertexCount cage ≤ j → o[j]? = out[j]?) :
    ∃ (x : cc_VertexPoint × cc_VertexPoint × ℚ),
      ccm_HalfedgeNewPoints cage (ccm_VertexCount cage) (ccm_FaceCount cage) out p = some x ∧
      ccm_HalfedgeNewPoints cage (ccm_VertexCount cage) (ccm_FaceCount cage) o p = some x ∧
      ccm_HalfedgeNewEdgePoint cage out p = some x.1 ∧
      ccm_HalfedgeNewEdgePoint cage o p = some x.1 := by
  obtain ⟨⟨⟨e, e1, e2, e3⟩, ⟨f, f1, f2, f3⟩⟩, hs⟩ := hp
  rw [Option.mem_def] at e1 f1
  obtain ⟨S, hS⟩ := Option.isSome_iff_exists.mp hs
  obtain ⟨r1, r2⟩ := readAt_agree_ge o out (ccm_VertexCount cage)
    ((ccm_VertexCount cage : Int) + (ccm_FaceCount cage : Int) + e) (by omega) (by omega) hag
  obtain ⟨r3, r4⟩ := readAt_agree_ge o out (ccm_VertexCount cage)
    ((ccm_VertexCount cage : Int) + f) (by omega) (by omega) hag
  obtain ⟨x, hx⟩ := Option.isSome_iff_exists.mp r2
  obtain ⟨y, hy⟩ := Option.isSome_iff_exists.mp r4
  refine ⟨(x, y, S), ?_, ?_, ?_, ?_⟩
  · simp only [ccm_HalfedgeNewPoints, e1, f1, hx, hy, hS, Option.bind_eq_bind,
      Option.some_bind]
  · simp only [ccm_HalfedgeNewPoints, e1, f1, r1, r3, hx, hy, hS, Option.bind_eq_bind,
      Option.some_bind]
  · simp only [ccm_HalfedgeNewEdgePoint, e1, hx, Option.some_bind]
  · simp only [ccm_HalfedgeNewEdgePoint, e1, r1, hx, Option.some_bind]

theorem level_newpoints_agree (subd : cc_Subd) (depth : Nat) (p : Int)
    (hp : ccs_HalfedgeCreaseReadable subd depth p) (o out : List cc_VertexPoint)
    (hlen : ccm_VertexCountAtDepth_Fast subd.cage depth
      + ccm_FaceCountAtDepth_Fast subd.cage depth
      + ccm_EdgeCountAtDepth_Fast subd.cage depth ≤ out.length)
    (hag : ∀ j : Nat, ccm_VertexCountAtDepth_Fast subd.cage depth ≤ j → o[j]? = out[j]?) :
    ∃ (x : cc_VertexPoint × cc_VertexPoint × ℚ),
      ccs_HalfedgeNewPoints subd depth (ccm_VertexCountAtDepth_Fast subd.cage depth)
        (ccm_FaceCountAtDepth_Fast subd.cage depth) out p = some x ∧
      ccs_HalfedgeNewPoints subd depth (ccm_VertexCountAtDepth_Fast subd.cage depth)
        (ccm_FaceCountAtDepth_Fast subd.cage depth) o p = some x ∧
      ccs_HalfedgeNewEdgePoint subd depth out p = some x.1 ∧
      ccs_HalfedgeNewEdgePoint subd depth o p = some x.1 := by
  obtain ⟨⟨⟨e, e1, e2, e3⟩, ⟨f2, f3⟩⟩, hs⟩ := hp
  rw [Option.mem_def] at e1
  obtain ⟨S, hS⟩ := Option.isSome_iff_exists.mp hs
  obtain ⟨r1, r2⟩ := readAt_agree_ge o out (ccm_VertexCountAtDepth_Fast subd.cage depth)
    ((ccm_VertexCountAtDepth_Fast subd.cage depth : Int)
      + (ccm_FaceCountAtDepth_Fast subd.cage depth : Int) + e) (by omega) (by omega) hag
  obtain ⟨r3, r4⟩ := readAt_agree_ge o out (ccm_VertexCountAtDepth_Fast subd.cage depth)
    ((ccm_VertexCountAtDepth_Fast subd.cage depth : Int) + ccs_HalfedgeFaceID subd p depth)
    (by omega) (by omega) hag
  obtain ⟨x, hx⟩ := Option.isSome_iff_exists.mp r2
  obtain ⟨y, hy⟩ := Option.isSome_iff_exists.mp r4
  refine ⟨(x, y, S), ?_, ?_, ?_, ?_⟩
  · simp only [ccs_HalfedgeNewPoints, e1, hx, hy, hS, Option.bind_eq_bind, Option.some_bind]
  · simp only [ccs_HalfedgeNewPoints, e1, r1, r3, hx, hy, hS, Option.bind_eq_bind,
      Option.some_bind]
  · simp only [ccs_HalfedgeNewEdgePoint, e1, hx, Option.some_bind]
  · simp only [ccs_HalfedgeNewEdgePoint, e1, r1, hx, Option.some_bind]

theorem map_agree_some {β : Type} [Inhabited β] (f k : Int → Option β) (l : List Int)
    (h : ∀ g ∈ l, ∃ x, k g = some x ∧ f g = some x) :
    l.map k = (l.map (fun g => (k g).getD default)).map some ∧
    l.map f = (l.map (fun g => (k g).getD default)).map some := by
  rw [List.map_map]
  constructor
  · apply List.map_congr_left
    intro g hg
    obtain ⟨x, h1, _⟩ := h g hg
    simp [h1]
  · apply List.map_congr_left
    intro g hg
    obtain ⟨x, h1, h2⟩ := h g hg
    simp [h1, h2]

theorem cage_creased_vertex_reads (cage : cc_Mesh) (fuel : Nat)
    (hv : ccm_CreasedVertexRingsReadable cage fuel) (o out : List cc_VertexPoint)
    (hlen : ccm_VertexCount cage + ccm_FaceCount cage + ccm_EdgeCount cage ≤ out.length)
    (hag : ∀ j : Nat, ccm_VertexCount cage ≤ j → o[j]? = out[j]?)
    (v : Nat) (hlt : v < ccm_VertexCount cage) :
    ∃ (h : Int) (Vp Eh : cc_VertexPoint) (thisS : ℚ) (ring : List Int) (last : Int)
      (items : List (cc_VertexPoint × cc_VertexPoint × ℚ)),
      ccm_VertexToHalfedgeID cage v = some h ∧ ccm_VertexPoint cage v = some Vp ∧
      ccm_HalfedgeSharpness cage h = some thisS ∧
      ccm_HalfedgeNewEdgePoint cage out h = some Eh ∧
      ccm_HalfedgeNewEdgePoint cage o h = some Eh ∧
      ccm_VertexRing cage fuel h = some (ring, last) ∧
      ring.map (ccm_PrevNewPoints cage out) = items.map some ∧
      ring.map (ccm_PrevNewPoints cage o) = items.map some := by
  obtain ⟨a, h, b, c, r, d, e⟩ := hv v hlt
  obtain ⟨Vp, hV⟩ := Option.isSome_iff_exists.mp a
  obtain ⟨S, hS⟩ := Option.isSome_iff_exists.mp c.2
  obtain ⟨x, _, _, x3, x4⟩ := cage_newpoints_agree cage h c o out hlen hag
  obtain ⟨ring, last⟩ := r
  obtain ⟨m1, m2⟩ := map_agree_some (ccm_PrevNewPoints cage o) (ccm_PrevNewPoints cage out) ring
    (by
      intro g hg
      obtain ⟨p, hp, hpr⟩ := e g hg
      rw [Option.mem_def] at hp
      obtain ⟨y, y1, y2, _, _⟩ := cage_newpoints_agree cage p hpr o out hlen hag
      refine ⟨y, ?_, ?_⟩
      · unfold ccm_PrevNewPoints
        rw [hp, Option.some_bind, y1]
      · unfold ccm_PrevNewPoints
        rw [hp, Option.some_bind, y2])
  exact ⟨h, Vp, x.1, S, ring, last, _, Option.mem_def.mp b, hV, hS, x3, x4,
    Option.mem_def.mp d, m1, m2⟩

theorem level_creased_vertex_reads (subd : cc_Subd) (e2h : Int → Nat → Int) (v2h : Int → Int)
    (depth fuel : Nat) (hv : ccs_CreasedVertexRingsReadable subd e2h v2h depth fuel)
    (o out : List cc_VertexPoint)
    (hlen : ccm_VertexCountAtDepth_Fast subd.cage depth
      + ccm_FaceCountAtDepth_Fast subd.cage depth
      + ccm_EdgeCountAtDepth_Fast subd.cage depth ≤ out.length)
    (hag : ∀ j : Nat, ccm_VertexCountAtDepth_Fast subd.cage depth ≤ j → o[j]? = out[j]?)
    (v : Nat) (hlt : v < ccm_VertexCountAtDepth_Fast subd.cage depth) :
    ∃ (h : Int) (Vp Eh : cc_VertexPoint) (thisS : ℚ) (ring back : List Int) (last : Int)
      (itemsF itemsB : List (cc_VertexPoint × cc_VertexPoint × ℚ)),
      ccs_VertexPointToHalfedgeID subd.cage e2h v2h v depth fuel = some h ∧
      ccs_VertexPoint subd v depth = some Vp ∧
      ccs_HalfedgeSharpness subd h depth = some thisS ∧
      ccs_HalfedgeNewEdgePoint subd depth out h = some Eh ∧
      ccs_HalfedgeNewEdgePoint subd depth o h = some Eh ∧
      ccs_VertexRing subd depth fuel h = some (ring, last) ∧
      ccs_VertexRingBackward subd depth fuel h last = some back ∧
      ring.map (ccs_PrevNewPoints subd depth out) = itemsF.map some ∧
      ring.map (ccs_PrevNewPoints subd depth o) = itemsF.map some ∧
      back.map (ccs_NextNewPoints subd depth out) = itemsB.map some ∧
      back.map (ccs_NextNewPoints subd depth o) = itemsB.map some := by
  obtain ⟨a, h, b, c, r, d, e, back, hb, e2⟩ := hv v hlt
  obtain ⟨Vp, hV⟩ := Option.isSome_iff_exists.mp a
  obtain ⟨S, hS⟩ := Option.isSome_iff_exists.mp c.2
  obtain ⟨x, _, _, x3, x4⟩ := level_newpoints_agree subd depth h c o out hlen hag
  obtain ⟨ring, last⟩ := r
  obtain ⟨m1, m2⟩ := map_agree_some (ccs_PrevNewPoints subd depth o)
    (ccs_PrevNewPoints subd depth out) ring
    (by
      intro g hg
      obtain ⟨y, y1, y2, _, _⟩ := level_newpoints_agree subd depth _ (e g hg) o out hlen hag
      exact ⟨y, y1, y2⟩)
  obtain ⟨n1, n2⟩ := map_agree_some (ccs_NextNewPoints subd depth o)
    (ccs_NextNewPoints subd depth out) back
    (by
      intro g hg
      obtain ⟨y, y1, y2, _, _⟩ := level_newpoints_agree subd depth _ (e2 g hg) o out hlen hag
      exact ⟨y, y1, y2⟩)
  exact ⟨h, Vp, x.1, S, ring, back, last, _, _, Option.mem_def.mp b, hV, hS, x3, x4,
    Option.mem_def.mp d, Option.mem_def.mp hb, m1, m2, n1, n2⟩

/-- The kernel `ccs__CreasedCageVertexPoints_Gather` on a readable cage: it
returns, keeps the face points and the edge points, and writes for every vertex
the value of its rule on the reads of its walk. -/
theorem cage_creased_vertex_kernel (subd : cc_Subd) (fuel : Nat) (out : List cc_VertexPoint)
    (hout : subd.vertexPoints[0]? = some out)
    (hlen : ccm_VertexCount subd.cage + ccm_FaceCount subd.cage + ccm_EdgeCount subd.cage
      ≤ out.length)
    (hv : ccm_CreasedVertexRingsReadable subd.cage fuel) :
    ∃ out', ccs__CreasedCageVertexPoints_Gather subd fuel =
        some { subd with vertexPoints := subd.vertexPoints.set 0 out' } ∧
      out'.length = out.length ∧
      (∀ j : Nat, ccm_VertexCount subd.cage ≤ j → out'[j]? = out[j]?) ∧
      ∀ v : Nat, v < ccm_VertexCount subd.cage →
        ∀ (h : Int) (Vp Eh : cc_VertexPoint) (thisS : ℚ) (ring : List Int) (last : Int)
          (items : List (cc_VertexPoint × cc_VertexPoint × ℚ)),
          ccm_VertexToHalfedgeID subd.cage v = some h →
          ccm_VertexPoint subd.cage v = some Vp →
          ccm_HalfedgeSharpness subd.cage h = some thisS →
          ccm_HalfedgeNewEdgePoint subd.cage out h = some Eh →
          ccm_VertexRing subd.cage fuel h = some (ring, last) →
          ring.map (ccm_PrevNewPoints subd.cage out) = items.map some →
          out'[v]? = some (ccs__CreasedCageVertexPoints_Gather_rule Vp Eh (cc__Signf thisS) last
            (cc_VertexLocals.sum items)) := by
  obtain ⟨o, e1, e2, e3, e4⟩ := gather_foldlM (ccm_VertexCount subd.cage) 0 0 rfl
    (fun o (v : Nat) => ccs__CreasedCageVertexPoints_Gather_vertex subd.cage
      (ccm_VertexCount subd.cage) (ccm_FaceCount subd.cage) o fuel v)
    (fun v => (ccs__CreasedCageVertexPoints_Gather_vertex subd.cage
      (ccm_VertexCount subd.cage) (ccm_FaceCount subd.cage) out fuel v).getD default)
    out (by omega)
    (by
      intro o v hlt _ hag
      obtain ⟨h, Vp, Eh, thisS, ring, last, items, a1, a2, a3, a4, a5, a6, a7, a8⟩ :=
        cage_creased_vertex_reads subd.cage fuel hv o out hlen
          (fun j hj => hag j (Or.inr (by omega))) v hlt
      beta_reduce
      rw [creased_cage_vertex_body subd.cage o fuel v h Vp Eh thisS ring last items
          a1 a2 a3 a5 a6 a8,
        creased_cage_vertex_body subd.cage out fuel v h Vp Eh thisS ring last items
          a1 a2 a3 a4 a6 a7]
      rfl)
  simp only [zero_add] at e1 e3 e4
  refine ⟨o, ?_, e2, fun j hj => e4 j (Or.inr hj), ?_⟩
  · unfold ccs__CreasedCageVertexPoints_Gather
    simp only [hout, Option.bind_eq_bind, Option.some_bind]
    rw [show (List.range (ccm_VertexCount subd.cage)).foldlM
        (fun out (vertexID : Nat) =>
          (ccs__CreasedCageVertexPoints_Gather_vertex subd.cage (ccm_VertexCount subd.cage)
            (ccm_FaceCount subd.cage) out fuel vertexID).bind
            (fun newVertexPoint => writeAt out (vertexID : Int) (fun _ => newVertexPoint)))
        out = some o from e1]
    rfl
  · intro v hlt h Vp Eh thisS ring last items a1 a2 a3 a4 a6 a7
    rw [e3 v hlt, creased_cage_vertex_body subd.cage out fuel v h Vp Eh thisS ring last items
      a1 a2 a3 a4 a6 a7]
    rfl

/-- The kernel `ccs__CreasedVertexPoints_Gather` on a readable level. -/
theorem level_creased_vertex_kernel (subd : cc_Subd) (e2h : Int → Nat → Int)
    (v2h : Int → Int) (depth fuel : Nat) (out : List cc_VertexPoint)
    (hout : ccs__Level subd.vertexPoints (depth + 1) = some out)
    (hlen : ccm_VertexCountAtDepth_Fast subd.cage depth
      + ccm_FaceCountAtDepth_Fast subd.cage depth
      + ccm_EdgeCountAtDepth_Fast subd.cage depth ≤ out.length)
    (hv : ccs_CreasedVertexRingsReadable subd e2h v2h depth fuel) :
    ∃ out', ccs__CreasedVertexPoints_Gather subd e2h v2h depth fuel =
        some { subd with vertexPoints := subd.vertexPoints.set depth out' } ∧
      out'.length = out.length ∧
      (∀ j : Nat, ccm_VertexCountAtDepth_Fast subd.cage depth ≤ j → out'[j]? = out[j]?) ∧
      ∀ v : Nat, v < ccm_VertexCountAtDepth_Fast subd.cage depth →
        ∀ (h : Int) (Vp Eh : cc_VertexPoint) (thisS : ℚ) (ring back : List Int) (last : Int)
          (itemsF itemsB : List (cc_VertexPoint × cc_VertexPoint × ℚ)),
          ccs_VertexPointToHalfedgeID subd.cage e2h v2h v depth fuel = some h →
          ccs_VertexPoint subd v depth = some Vp →
          ccs_HalfedgeSharpness subd h depth = some thisS →
          ccs_HalfedgeNewEdgePoint subd depth out h = some Eh →
          ccs_VertexRing subd depth fuel h = some (ring, last) →
          ccs_VertexRingBackward subd depth fuel h last = some back →
          ring.map (ccs_PrevNewPoints subd depth out) = itemsF.map some →
          back.map (ccs_NextNewPoints subd depth out) = itemsB.map some →
          out'[v]? = some (ccs__CreasedVertexPoints_Gather_rule Vp Eh (cc__Signf thisS) last
            (cc_VertexLocals.sum (itemsF ++ itemsB))) := by
  obtain ⟨o, e1, e2, e3, e4⟩ := gather_foldlM (ccm_VertexCountAtDepth_Fast subd.cage depth)
    0 0 rfl
    (fun o (v : Nat) => ccs__CreasedVertexPoints_Gather_vertex subd e2h v2h depth
      (ccm_VertexCountAtDepth_Fast subd.cage depth)
      (ccm_FaceCountAtDepth_Fast subd.cage depth) o fuel v)
    (fun v => (ccs__CreasedVertexPoints_Gather_vertex subd e2h v2h depth
      (ccm_VertexCountAtDepth_Fast subd.cage depth)
      (ccm_FaceCountAtDepth_Fast subd.cage depth) out fuel v).getD default)
    out (by omega)
    (by
      intro o v hlt _ hag
      obtain ⟨h, Vp, Eh, thisS, ring, back, last, itemsF, itemsB, a1, a2, a3, a4, a5, a6, a7,
          a8, a9, a10, a11⟩ :=
        level_creased_vertex_reads subd e2h v2h depth fuel hv o out hlen
          (fun j hj => hag j (Or.inr (by omega))) v hlt
      beta_reduce
      rw [creased_level_vertex_body subd e2h v2h depth o fuel v h Vp Eh thisS ring back last
          itemsF itemsB a1 a2 a3 a5 a6 a7 a9 a11,
        creased_level_vertex_body subd e2h v2h depth out fuel v h Vp Eh thisS ring back last
          itemsF itemsB a1 a2 a3 a4 a6 a7 a8 a10]
      rfl)
  simp only [zero_add] at e1 e3 e4
  refine ⟨o, ?_, e2, fun j hj => e4 j (Or.inr hj), ?_⟩
  · unfold ccs__CreasedVertexPoints_Gather
    simp only [hout, Option.bind_eq_bind, Option.some_bind]
    rw [show (List.range (ccm_VertexCountAtDepth_Fast subd.cage depth)).foldlM
        (fun out (vertexID : Nat) =>
          (ccs__CreasedVertexPoints_Gather_vertex subd e2h v2h depth
            (ccm_VertexCountAtDepth_Fast subd.cage depth)
            (ccm_FaceCountAtDepth_Fast subd.cage depth) out fuel vertexID).bind
            (fun newVertexPoint => writeAt out (vertexID : Int) (fun _ => newVertexPoint)))
        out = some o from e1]
    rfl
  · intro v hlt h Vp Eh thisS ring back last itemsF itemsB a1 a2 a3 a4 a6 a7 a8 a10
    rw [e3 v hlt, creased_level_vertex_body subd e2h v2h depth out fuel v h Vp Eh thisS ring
      back last itemsF itemsB a1 a2 a3 a4 a6 a7 a8 a10]
    rfl

/-- The three branches of the rule selection of `ccs__CreasedCageVertexPoints_Gather`,
from the local variables `s` after the loop: the counts after "boundary
corrections" are `creaseCount = s.creaseCount + (open ? creaseWeight : 0)` and
`valence = s.valence + (open ? 1 : 0)`, and `avgS` is not corrected. -/
theorem cage_rule_branches (V Eh : cc_VertexPoint) (w : ℚ) (last : Int) (s : cc_VertexLocals)
    (creaseCount valence : ℚ) (creaseSum : cc_VertexPoint)
    (hc : creaseCount = s.creaseCount + (if last < 0 then w else 0))
    (hval : valence = s.valence + (if last < 0 then 1 else 0))
    (hsum : creaseSum = s.creasePoint + (if last < 0 then w • Eh else 0)) :
    (creaseCount ≤ 1 → ccs__CreasedCageVertexPoints_Gather_rule V Eh w last s
      = (1 / (valence * valence)) • s.smoothPoint + (1 - 3 / valence) • V) ∧
    (1 < creaseCount → (3 ≤ creaseCount ∨ valence = 2) →
      ccs__CreasedCageVertexPoints_Gather_rule V Eh w last s = V) ∧
    (1 < creaseCount → creaseCount < 3 → valence ≠ 2 →
      ccs__CreasedCageVertexPoints_Gather_rule V Eh w last s
        = V + cc__Satf (s.avgS / 2) • (((1 / 4 : ℚ) • creaseSum + (1 / 2 : ℚ) • V) - V)) := by
  have hcc : (s.boundaryCorrections last Eh w).creaseCount = creaseCount := by
    rw [hc]; unfold cc_VertexLocals.boundaryCorrections; split_ifs <;> simp
  have hvv : (s.boundaryCorrections last Eh w).valence = valence := by
    rw [hval]; unfold cc_VertexLocals.boundaryCorrections; split_ifs <;> simp
  have hcp : (s.boundaryCorrections last Eh w).creasePoint = creaseSum := by
    rw [hsum]; unfold cc_VertexLocals.boundaryCorrections; split_ifs <;> simp [cc__Add3f, cc__Mul3f]
  have hsp : (s.boundaryCorrections last Eh w).smoothPoint = s.smoothPoint := by
    unfold cc_VertexLocals.boundaryCorrections; split_ifs <;> simp
  have hav : (s.boundaryCorrections last Eh w).avgS = s.avgS := by
    unfold cc_VertexLocals.boundaryCorrections; split_ifs <;> simp
  unfold ccs__CreasedCageVertexPoints_Gather_rule
  simp only [hcc, hvv, hcp, hsp, hav]
  refine ⟨?_, ?_, ?_⟩
  · intro h1
    rw [if_pos h1]
    simp only [cc__Add3f, cc__Mul3f]
  · intro h1 h2
    rw [if_neg (by linarith), if_pos (by simpa using h2)]
  · intro h1 h2 h3
    rw [if_neg (by linarith), if_neg (by
      intro hh
      rcases hh with hh | hh
      · linarith
      · exact h3 hh)]
    simp only [cc__Lerp3f, cc__Add3f, cc__Mul3f]
    have e1 : s.avgS * 0.5 = s.avgS / 2 := by norm_num; ring
    have e2 : (0.25 : ℚ) = 1 / 4 := by norm_num
    have e3 : (0.5 : ℚ) = 1 / 2 := by norm_num
    rw [e1, e2, e3]

/-- The three branches of the rule selection of `ccs__CreasedVertexPoints_Gather`;
the crease point has the factor `0.5 / creaseCount`. -/
theorem level_rule_branches (V Eh : cc_VertexPoint) (w : ℚ) (last : Int) (s : cc_VertexLocals)
    (creaseCount valence : ℚ) (creaseSum : cc_VertexPoint)
    (hc : creaseCount = s.creaseCount + (if last < 0 then w else 0))
    (hval : valence = s.valence + (if last < 0 then 1 else 0))
    (hsum : creaseSum = s.creasePoint + (if last < 0 then w • Eh else 0)) :
    (creaseCount ≤ 1 → ccs__CreasedVertexPoints_Gather_rule V Eh w last s
      = (1 / (valence * valence)) • s.smoothPoint + (1 - 3 / valence) • V) ∧
    (1 < creaseCount → (3 ≤ creaseCount ∨ valence = 2) →
      ccs__CreasedVertexPoints_Gather_rule V Eh w last s = V) ∧
    (1 < creaseCount → creaseCount < 3 → valence ≠ 2 →
      ccs__CreasedVertexPoints_Gather_rule V Eh w last s
        = V + cc__Satf (s.avgS / 2) •
            ((((1 / 2 : ℚ) / creaseCount) • creaseSum + (1 / 2 : ℚ) • V) - V)) := by
  have hcc : (s.boundaryCorrections last Eh w).creaseCount = creaseCount := by
    rw [hc]; unfold cc_VertexLocals.boundaryCorrections; split_ifs <;> simp
  have hvv : (s.boundaryCorrections last Eh w).valence = valence := by
    rw [hval]; unfold cc_VertexLocals.boundaryCorrections; split_ifs <;> simp
  have hcp : (s.boundaryCorrections last Eh w).creasePoint = creaseSum := by
    rw [hsum]; unfold cc_VertexLocals.boundaryCorrections; split_ifs <;> simp [cc__Add3f, cc__Mul3f]
  have hsp : (s.boundaryCorrections last Eh w).smoothPoint = s.smoothPoint := by
    unfold cc_VertexLocals.boundaryCorrections; split_ifs <;> simp
  have hav : (s.boundaryCorrections last Eh w).avgS = s.avgS := by
    unfold cc_VertexLocals.boundaryCorrections; split_ifs <;> simp
  unfold ccs__CreasedVertexPoints_Gather_rule
  simp only [hcc, hvv, hcp, hsp, hav]
  refine ⟨?_, ?_, ?_⟩
  · intro h1
    rw [if_pos h1]
    simp only [cc__Add3f, cc__Mul3f]
  · intro h1 h2
    rw [if_neg (by linarith), if_pos (by simpa using h2)]
  · intro h1 h2 h3
    rw [if_neg (by linarith), if_neg (by
      intro hh
      rcases hh with hh | hh
      · linarith
      · exact h3 hh)]
    simp only [cc__Lerp3f, cc__Add3f, cc__Mul3f]
    have e1 : s.avgS * 0.5 = s.avgS / 2 := by norm_num; ring
    have e3 : (0.5 : ℚ) = 1 / 2 := by norm_num
    rw [e1, e3]

/-- C17 (as amended): on a readable cage `ccs__CreasedCageVertexPoints_Gather`
returns, and for every vertex, with `items` the reads
`(newEdgePoint, newFacePoint, sharpness)` of the predecessors of the halfedges
of its walk, `thisS` the sharpness and `Eh` the new edge point of its halfedge,
and, the walk being open when its exit value `last` is negative,
`creaseCount = sum of sign(S) + (open ? sign(thisS) : 0)`,
`valence = number of reads + (open ? 1 : 0)` and
`creaseSum = sum of sign(S) * E + (open ? sign(thisS) * Eh : 0)`,
the value written is selected in this order: the smooth rule
`(sum of (4E - F))/valence^2 + (1 - 3/valence) V` when `creaseCount ≤ 1`;
otherwise the old position `V` when `creaseCount ≥ 3` or `valence = 2`;
otherwise `V + saturate(avgS/2) * (creasePoint - V)` with
`creasePoint = creaseSum/4 + V/2` and `avgS` the sum of the sharpnesses of the
reads only: on an open ring the sharpness `thisS` of the halfedge of the vertex
counts in `creaseCount` and not in `avgS` (first part).
`ccs__CreasedVertexPoints_Gather` does the same at every depth, with the reads
of its two walks and `creasePoint = (0.5/creaseCount) * creaseSum + V/2` (second
part). -/
theorem C17_creased_vertex_rule :
    (∀ (subd : cc_Subd) (fuel : Nat) (out : List cc_VertexPoint),
      subd.vertexPoints[0]? = some out →
      ccm_VertexCount subd.cage + ccm_FaceCount subd.cage + ccm_EdgeCount subd.cage
        ≤ out.length →
      ccm_CreasedVertexRingsReadable subd.cage fuel →
      ∃ out', ccs__CreasedCageVertexPoints_Gather subd fuel =
          some { subd with vertexPoints := subd.vertexPoints.set 0 out' } ∧
        ∀ v : Nat, v < ccm_VertexCount subd.cage →
          ∀ (h : Int) (Vp Eh : cc_VertexPoint) (thisS : ℚ) (ring : List Int) (last : Int)
            (items : List (cc_VertexPoint × cc_VertexPoint × ℚ))
            (creaseCount valence : ℚ) (creaseSum : cc_VertexPoint),
            ccm_VertexToHalfedgeID subd.cage v = some h →
            ccm_VertexPoint subd.cage v = some Vp →
            ccm_HalfedgeSharpness subd.cage h = some thisS →
            ccm_HalfedgeNewEdgePoint subd.cage out h = some Eh →
            ccm_VertexRing subd.cage fuel h = some (ring, last) →
            ring.map (ccm_PrevNewPoints subd.cage out) = items.map some →
            creaseCount = (cc_VertexLocals.sum items).creaseCount
              + (if last < 0 then cc__Signf thisS else 0) →
            valence = (cc_VertexLocals.sum items).valence + (if last < 0 then 1 else 0) →
            creaseSum = (cc_VertexLocals.sum items).creasePoint
              + (if last < 0 then cc__Signf thisS • Eh else 0) →
            (creaseCount ≤ 1 → out'[v]? = some
              ((1 / (valence * valence)) • (cc_VertexLocals.sum items).smoothPoint
                + (1 - 3 / valence) • Vp)) ∧
            (1 < creaseCount → (3 ≤ creaseCount ∨ valence = 2) → out'[v]? = some Vp) ∧
            (1 < creaseCount → creaseCount < 3 → valence ≠ 2 → out'[v]? = some
              (Vp + cc__Satf ((cc_VertexLocals.sum items).avgS / 2) •
                (((1 / 4 : ℚ) • creaseSum + (1 / 2 : ℚ) • Vp) - Vp)))) ∧
    (∀ (subd : cc_Subd) (edgeToHalfedgeID : Int → Nat → Int)
      (vertexToHalfedgeID_First : Int → Int) (depth fuel : Nat) (out : List cc_VertexPoint),
      ccs__Level subd.vertexPoints (depth + 1) = some out →
      ccm_VertexCountAtDepth_Fast subd.cage depth + ccm_FaceCountAtDepth_Fast subd.cage depth
        + ccm_EdgeCountAtDepth_Fast subd.cage depth ≤ out.length →
      ccs_CreasedVertexRingsReadable subd edgeToHalfedgeID vertexToHalfedgeID_First
        depth fuel →
      ∃ out', ccs__CreasedVertexPoints_Gather subd edgeToHalfedgeID vertexToHalfedgeID_First
            depth fuel =
          some { subd with vertexPoints := subd.vertexPoints.set depth out' } ∧
        ∀ v : Nat, v < ccm_VertexCountAtDepth_Fast subd.cage depth →
          ∀ (h : Int) (Vp Eh : cc_VertexPoint) (thisS : ℚ) (ring back : List Int)
            (last : Int) (itemsF itemsB : List (cc_VertexPoint × cc_VertexPoint × ℚ))
            (creaseCount valence : ℚ) (creaseSum : cc_VertexPoint),
            ccs_VertexPointToHalfedgeID subd.cage edgeToHalfedgeID vertexToHalfedgeID_First
              v depth fuel = some h →
            ccs_VertexPoint subd v depth = some Vp →
            ccs_HalfedgeSharpness subd h depth = some thisS →
            ccs_HalfedgeNewEdgePoint subd depth out h = some Eh →
            ccs_VertexRing subd depth fuel h = some (ring, last) →
            ccs_VertexRingBackward subd depth fuel h last = some back →
            ring.map (ccs_PrevNewPoints subd depth out) = itemsF.map some →
            back.map (ccs_NextNewPoints subd depth out) = itemsB.map some →
            creaseCount = (cc_VertexLocals.sum (itemsF ++ itemsB)).creaseCount
              + (if last < 0 then cc__Signf thisS else 0) →
            valence = (cc_VertexLocals.sum (itemsF ++ itemsB)).valence
              + (if last < 0 then 1 else 0) →
            creaseSum = (cc_VertexLocals.sum (itemsF ++ itemsB)).creasePoint
              + (if last < 0 then cc__Signf thisS • Eh else 0) →
            (creaseCount ≤ 1 → out'[v]? = some
              ((1 / (valence * valence)) • (cc_VertexLocals.sum (itemsF ++ itemsB)).smoothPoint
                + (1 - 3 / valence) • Vp)) ∧
            (1 < creaseCount → (3 ≤ creaseCount ∨ valence = 2) → out'[v]? = some Vp) ∧
            (1 < creaseCount → creaseCount < 3 → valence ≠ 2 → out'[v]? = some
              (Vp + cc__Satf ((cc_VertexLocals.sum (itemsF ++ itemsB)).avgS / 2) •
                ((((1 / 2 : ℚ) / creaseCount) • creaseSum + (1 / 2 : ℚ) • Vp) - Vp)))) := by
  constructor
  · intro subd fuel out hout hlen hv
    obtain ⟨o, e1, _, _, e4⟩ := cage_creased_vertex_kernel subd fuel out hout hlen hv
    refine ⟨o, e1, ?_⟩
    intro v hlt h Vp Eh thisS ring last items creaseCount valence creaseSum
      a1 a2 a3 a4 a5 a6 hc hval hsum
    obtain ⟨b1, b2, b3⟩ := cage_rule_branches Vp Eh (cc__Signf thisS) last
      (cc_VertexLocals.sum items) creaseCount valence creaseSum hc hval hsum
    have hval := e4 v hlt h Vp Eh thisS ring last items a1 a2 a3 a4 a5 a6
    refine ⟨fun c => ?_, fun c d => ?_, fun c d e => ?_⟩
    · rw [hval, b1 c]
    · rw [hval, b2 c d]
    · rw [hval, b3 c d e]
  · intro subd e2h v2h depth fuel out hout hlen hv
    obtain ⟨o, e1, _, _, e4⟩ := level_creased_vertex_kernel subd e2h v2h depth fuel out hout
      hlen hv
    refine ⟨o, e1, ?_⟩
    intro v hlt h Vp Eh thisS ring back last itemsF itemsB creaseCount valence creaseSum
      a1 a2 a3 a4 a5 a6 a7 a8 hc hval hsum
    obtain ⟨b1, b2, b3⟩ := level_rule_branches Vp Eh (cc__Signf thisS) last
      (cc_VertexLocals.sum (itemsF ++ itemsB)) creaseCount valence creaseSum hc hval hsum
    have hval := e4 v hlt h Vp Eh thisS ring back last itemsF itemsB a1 a2 a3 a4 a5 a6 a7 a8
    refine ⟨fun c => ?_, fun c d => ?_, fun c d e => ?_⟩
    · rw [hval, b1 c]
    · rw [hval, b2 c d]
    · rw [hval, b3 c d e]

/-- The two glued triangles with the sharpness 1 on the boundary edges 2 and 3,
which meet at the vertex 0, and 0 on the other edges. -/
def sharpTriangles : cc_Mesh :=
  { trianglesMesh with
    creases := [⟨0, 0, 0⟩, ⟨1, 1, 0⟩, ⟨2, 2, 1⟩, ⟨3, 3, 1⟩, ⟨4, 4, 0⟩] }

/-- The region of level 1 of the vertex point buffer of `sharpTriangles` after
the face point and the edge point kernels. -/
def sharpTrianglesPoints : List cc_VertexPoint :=
  [(0, 0, 0), (0, 0, 0), (0, 0, 0), (0, 0, 0), (1 / 3, 1 / 3, 0), (2 / 3, -1 / 3, 0),
   (1 / 2, 0, 0), (1 / 2, 1 / 2, 0), (0, 1 / 2, 0), (1 / 2, -1 / 2, 0), (1, -1 / 2, 0)]

/-- The open quad refined once, with the sharpness 1 on the edges 0 and 1 of
level 1 (the two halves of the edge 0 of the quad) and 0 on the other edges;
the region of level 2 of its vertex point buffer holds the face points and the
edge points of level 1. -/
def quadSharpSubd : cc_Subd :=
  { quadSubd with
    creases := [[⟨0, 0, 1⟩, ⟨1, 1, 1⟩, ⟨2, 2, 0⟩, ⟨3, 3, 0⟩, ⟨4, 4, 0⟩, ⟨5, 5, 0⟩,
      ⟨6, 6, 0⟩, ⟨7, 7, 0⟩, ⟨8, 8, 0⟩, ⟨9, 9, 0⟩, ⟨10, 10, 0⟩, ⟨11, 11, 0⟩]],
    vertexPoints := [quadPoints1,
      [(0, 0, 0), (0, 0, 0), (0, 0, 0), (0, 0, 0), (0, 0, 0), (0, 0, 0), (0, 0, 0), (0, 0, 0),
       (0, 0, 0), (1 / 4, 1 / 4, 0), (3 / 4, 1 / 4, 0), (3 / 4, 3 / 4, 0), (1 / 4, 3 / 4, 0),
       (1 / 4, 0, 0), (3 / 4, 0, 0), (1, 1 / 4, 0), (1, 3 / 4, 0), (3 / 4, 1, 0),
       (1 / 4, 1, 0), (0, 3 / 4, 0), (0, 1 / 4, 0), (1 / 2, 1 / 4, 0), (3 / 4, 1 / 2, 0),
       (1 / 2, 3 / 4, 0), (1 / 4, 1 / 2, 0)]] }

/-- C17, witness: the vertex 0 of `sharpTriangles` (cage kernel, open ring, two
sharp edges out of three: the crease rule with the weight `saturate(1/2)`), and
the vertex 5 of level 1 of `quadSharpSubd` (level kernel, two sharp edges out
of three: the crease rule with the weight `saturate(2/2)`). -/
theorem C17_creased_vertex_rule_witness :
    (∃ out' : List cc_VertexPoint, ccs__CreasedCageVertexPoints_Gather
        { cage := sharpTriangles, maxDepth := 1, halfedges := [], creases := [],
          vertexPoints := [sharpTrianglesPoints] } 2 =
          some { cage := sharpTriangles, maxDepth := 1, halfedges := [], creases := [],
                 vertexPoints := [out'] } ∧
        out'[0]? = some ((1 / 16, 0, 0) : cc_VertexPoint)) ∧
    (∃ out' : List cc_VertexPoint,
        ccs__CreasedVertexPoints_Gather quadSharpSubd quadEdgeToHalfedgeID
            quadVertexToHalfedgeID_First 1 4 =
          some { quadSharpSubd with vertexPoints := quadSharpSubd.vertexPoints.set 1 out' } ∧
        out'[5]? = some ((1 / 2, 0, 0) : cc_VertexPoint)) := by
  constructor
  · obtain ⟨out', h1, h4⟩ := C17_creased_vertex_rule.1
      { cage := sharpTriangles, maxDepth := 1, halfedges := [], creases := [],
        vertexPoints := [sharpTrianglesPoints] } 2
      sharpTrianglesPoints rfl (by decide) (by decide)
    refine ⟨out', h1, ?_⟩
    have h5 := (h4 0 (by decide) 4 (0, 0, 0) (1 / 2, -1 / 2, 0) 1 [4, 0] (-1)
      [((1 / 2, 0, 0), (2 / 3, -1 / 3, 0), 0), ((0, 1 / 2, 0), (1 / 3, 1 / 3, 0), 1)]
      2 3 (1 / 2, 0, 0) rfl rfl rfl rfl rfl rfl
      (by simp [cc_VertexLocals.sum, cc__Signf]; norm_num)
      (by simp [cc_VertexLocals.sum]; norm_num)
      (by simp [cc_VertexLocals.sum, cc__Signf]; norm_num)).2.2
      (by norm_num) (by norm_num) (by norm_num)
    have h6 : out'[0]? = _ := h5
    rw [h6]
    simp [cc_VertexLocals.sum, cc__Satf]
    norm_num
  · obtain ⟨out', h1, h4⟩ := C17_creased_vertex_rule.2 quadSharpSubd quadEdgeToHalfedgeID
      quadVertexToHalfedgeID_First 1 4 _ rfl (by decide) (by decide)
    refine ⟨out', h1, ?_⟩
    have h5 := (h4 5 (by decide) 1 (1 / 2, 0, 0) (1 / 2, 1 / 4, 0) 0 [1] [6] (-1)
      [((1 / 4, 0, 0), (1 / 4, 1 / 4, 0), 1)] [((3 / 4, 0, 0), (3 / 4, 1 / 4, 0), 1)]
      2 3 (1, 0, 0) rfl rfl rfl rfl rfl rfl rfl rfl
      (by simp [cc_VertexLocals.sum, cc__Signf]; norm_num)
      (by simp [cc_VertexLocals.sum]; norm_num)
      (by simp [cc_VertexLocals.sum, cc__Signf]; norm_num)).2.2
      (by norm_num) (by norm_num) (by norm_num)
    have h6 : out'[5]? = _ := h5
    rw [h6]
    simp [cc_VertexLocals.sum, cc__Satf]
    norm_num

/-- C17, counterexample: the vertex 0 of `sharpTriangles` has the three incident
edges 0, 2 and 3, of sharpness 0, 1 and 1: two sharp edges, valence 3.  With
`avgS` the sum 2 of the incident sharpnesses the crease rule would give the
crease point `(1/8, 0, 0)` itself; `ccs__CreasedCageVertexPoints_Gather` writes
`(1/16, 0, 0)`: its `avgS` is 1, the sharpness of the edge 3 of the halfedge of
the vertex is not added. -/
theorem C17_counterexample :
    ccm_CreaseSharpness sharpTriangles 0 = some 0 ∧
    ccm_CreaseSharpness sharpTriangles 2 = some 1 ∧
    ccm_CreaseSharpness sharpTriangles 3 = some 1 ∧
    (∀ g : Nat, g < ccm_HalfedgeCount sharpTriangles →
      (ccm_HalfedgeVertexID sharpTriangles g = some 0 ∨
        (ccm_HalfedgeNextID sharpTriangles g).bind (ccm_HalfedgeVertexID sharpTriangles)
          = some 0) →
      ccm_HalfedgeEdgeID sharpTriangles g = some 0 ∨
      ccm_HalfedgeEdgeID sharpTriangles g = some 2 ∨
      ccm_HalfedgeEdgeID sharpTriangles g = some 3) ∧
    ((0, 0, 0) : cc_VertexPoint) + cc__Satf (((0 : ℚ) + 1 + 1) / 2) •
        (((1 / 4 : ℚ) • ((0 : ℚ) • ((1 / 2, 0, 0) : cc_VertexPoint)
            + (1 : ℚ) • ((0, 1 / 2, 0) : cc_VertexPoint)
            + (1 : ℚ) • ((1 / 2, -1 / 2, 0) : cc_VertexPoint))
          + (1 / 2 : ℚ) • ((0, 0, 0) : cc_VertexPoint)) - (0, 0, 0))
      = (1 / 8, 0, 0) ∧
    ∃ out' : List cc_VertexPoint, ccs__CreasedCageVertexPoints_Gather
        { cage := sharpTriangles, maxDepth := 1, halfedges := [], creases := [],
          vertexPoints := [sharpTrianglesPoints] } 2 =
          some { cage := sharpTriangles, maxDepth := 1, halfedges := [], creases := [],
                 vertexPoints := [out'] } ∧
        out'[0]? = some ((1 / 16, 0, 0) : cc_VertexPoint) := by
  refine ⟨rfl, rfl, rfl, by decide, ?_, ?_⟩
  · simp [cc__Satf]
    norm_num
  · obtain ⟨out', h1, _, _, h4⟩ := cage_creased_vertex_kernel
      { cage := sharpTriangles, maxDepth := 1, halfedges := [], creases := [],
        vertexPoints := [sharpTrianglesPoints] } 2
      sharpTrianglesPoints rfl (by decide) (by decide)
    refine ⟨out', h1, ?_⟩
    have h5 := h4 0 (by decide) 4 (0, 0, 0) (1 / 2, -1 / 2, 0) 1 [4, 0] (-1)
      [((1 / 2, 0, 0), (2 / 3, -1 / 3, 0), 0), ((0, 1 / 2, 0), (1 / 3, 1 / 3, 0), 1)]
      rfl rfl rfl rfl rfl rfl
    have h6 : out'[0]? = _ := h5
    rw [h6, (cage_rule_branches _ _ _ _ _ 2 3 (1 / 2, 0, 0)
      (by simp [cc_VertexLocals.sum, cc__Signf]; norm_num)
      (by simp [cc_VertexLocals.sum]; norm_num)
      (by simp [cc_VertexLocals.sum, cc__Signf]; norm_num)).2.2
      (by norm_num) (by norm_num) (by norm_num)]
    simp [cc_VertexLocals.sum, cc__Satf]
    norm_num

/-! ## C18: the crease point -/

/-- The incident edges the creased vertex point kernels count: the pairs
`(sharpness, newEdgePoint)` of the reads of the walks, and, on an open ring
(`last < 0`), the pair of the halfedge of the vertex, which "boundary
corrections" adds. -/
def incidentCreases (items : List (cc_VertexPoint × cc_VertexPoint × ℚ)) (last : Int)
    (thisS : ℚ) (Eh : cc_VertexPoint) : List (ℚ × cc_VertexPoint) :=
  items.map (fun r => (r.2.2, r.1)) ++ (if last < 0 then [(thisS, Eh)] else [])

/-- The new edge points of the incident sharp edges, in the order of the walk. -/
def sharpEdgePoints (items : List (cc_VertexPoint × cc_VertexPoint × ℚ)) (last : Int)
    (thisS : ℚ) (Eh : cc_VertexPoint) : List cc_VertexPoint :=
  ((incidentCreases items last thisS Eh).filter (fun r => 0 < r.1)).map (fun r => r.2)

theorem signf_of_nonneg (S : ℚ) (h : 0 ≤ S) : cc__Signf S = if 0 < S then 1 else 0 := by
  unfold cc__Signf
  rw [if_neg (by linarith)]

theorem sum_sign_eq_count (L : List (ℚ × cc_VertexPoint)) (h : ∀ r ∈ L, 0 ≤ r.1) :
    (L.map (fun r => cc__Signf r.1)).sum = ((L.filter (fun r => 0 < r.1)).length : ℚ) ∧
    (L.map (fun r => cc__Signf r.1 • r.2)).sum
      = ((L.filter (fun r => 0 < r.1)).map (fun r => r.2)).sum := by
  induction L with
  | nil => simp
  | cons a t ih =>
    obtain ⟨i1, i2⟩ := ih (fun r hr => h r (List.mem_cons_of_mem _ hr))
    have ha := signf_of_nonneg a.1 (h a (List.mem_cons_self _ _))
    by_cases c : 0 < a.1
    · rw [if_pos c] at ha
      simp only [List.map_cons, List.sum_cons, i1, i2, ha, List.filter_cons, c, decide_True,
        if_true, List.length_cons, Nat.cast_add, Nat.cast_one, one_smul]
      exact ⟨by ring, trivial⟩
    · rw [if_neg c] at ha
      simp only [List.map_cons, List.sum_cons, i1, i2, ha, List.filter_cons, c, decide_False,
        zero_add, zero_smul]
      simp

/-- In the branch of the regular crease, with sharpnesses that are not negative,
`creaseCount` is 2, there are two incident sharp edges, and the sum
`creasePoint` of the kernels is the sum of their two new edge points. -/
theorem regular_crease (items : List (cc_VertexPoint × cc_VertexPoint × ℚ)) (last : Int)
    (thisS : ℚ) (Eh : cc_VertexPoint) (creaseCount : ℚ)
    (hS : ∀ r ∈ items, 0 ≤ r.2.2) (hT : 0 ≤ thisS)
    (hc : creaseCount = (cc_VertexLocals.sum items).creaseCount
      + (if last < 0 then cc__Signf thisS else 0))
    (h1 : 1 < creaseCount) (h2 : creaseCount < 3) :
    creaseCount = 2 ∧ ∃ Ea Eb : cc_VertexPoint,
      sharpEdgePoints items last thisS Eh = [Ea, Eb] ∧
      (cc_VertexLocals.sum items).creasePoint + (if last < 0 then cc__Signf thisS • Eh else 0)
        = Ea + Eb := by
  have hall : ∀ r ∈ incidentCreases items last thisS Eh, 0 ≤ r.1 := by
    intro r hr
    unfold incidentCreases at hr
    rcases List.mem_append.mp hr with hr | hr
    · obtain ⟨x, hx, rfl⟩ := List.mem_map.mp hr
      exact hS x hx
    · split_ifs at hr
      · rw [List.mem_singleton] at hr
        rw [hr]
        exact hT
      · simp at hr
  obtain ⟨k1, k2⟩ := sum_sign_eq_count _ hall
  have e1 : ((incidentCreases items last thisS Eh).map (fun r => cc__Signf r.1)).sum
      = creaseCount := by
    rw [hc]
    unfold incidentCreases
    split_ifs <;> simp [cc_VertexLocals.sum, Function.comp_def]
  have e2 : ((incidentCreases items last thisS Eh).map (fun r => cc__Signf r.1 • r.2)).sum
      = (cc_VertexLocals.sum items).creasePoint
        + (if last < 0 then cc__Signf thisS • Eh else 0) := by
    unfold incidentCreases
    split_ifs <;> simp [cc_VertexLocals.sum, Function.comp_def]
  rw [e1] at k1
  rw [e2] at k2
  have hlen : ((incidentCreases items last thisS Eh).filter (fun r => 0 < r.1)).length = 2 := by
    rw [k1] at h1 h2
    have a1 : 1 < ((incidentCreases items last thisS Eh).filter (fun r => 0 < r.1)).length := by
      exact_mod_cast h1
    have a2 : ((incidentCreases items last thisS Eh).filter (fun r => 0 < r.1)).length < 3 := by
      exact_mod_cast h2
    omega
  obtain ⟨a, b, hab⟩ := List.length_eq_two.mp hlen
  refine ⟨by rw [k1, hlen]; norm_num, a.2, b.2, ?_, ?_⟩
  · unfold sharpEdgePoints
    rw [hab]
    rfl
  · rw [k2, hab]
    simp

/-- C18: in the branch of the regular crease (`1 < creaseCount < 3` and
`valence ≠ 2`) and with sharpnesses that are not negative, there are exactly two
incident sharp edges, of new edge points `Ea` and `Eb`, and
`ccs__CreasedCageVertexPoints_Gather`, whose crease point has the factor `0.25`
(first part), and `ccs__CreasedVertexPoints_Gather`, whose crease point has the
factor `0.5 / creaseCount` (second part), both write
`V + saturate(avgS/2) * (creasePoint - V)` with
`creasePoint = V/2 + (Ea + Eb)/4`; on the same local variables the ends of the
two kernels return the same point (third part). -/
theorem C18_crease_point :
    (∀ (subd : cc_Subd) (fuel : Nat) (out : List cc_VertexPoint),
      subd.vertexPoints[0]? = some out →
      ccm_VertexCount subd.cage + ccm_FaceCount subd.cage + ccm_EdgeCount subd.cage
        ≤ out.length →
      ccm_CreasedVertexRingsReadable subd.cage fuel →
      ∃ out', ccs__CreasedCageVertexPoints_Gather subd fuel =
          some { subd with vertexPoints := subd.vertexPoints.set 0 out' } ∧
        ∀ v : Nat, v < ccm_VertexCount subd.cage →
          ∀ (h : Int) (Vp Eh : cc_VertexPoint) (thisS : ℚ) (ring : List Int) (last : Int)
            (items : List (cc_VertexPoint × cc_VertexPoint × ℚ)) (creaseCount valence : ℚ),
            ccm_VertexToHalfedgeID subd.cage v = some h →
            ccm_VertexPoint subd.cage v = some Vp →
            ccm_HalfedgeSharpness subd.cage h = some thisS →
            ccm_HalfedgeNewEdgePoint subd.cage out h = some Eh →
            ccm_VertexRing subd.cage fuel h = some (ring, last) →
            ring.map (ccm_PrevNewPoints subd.cage out) = items.map some →
            (∀ r ∈ items, 0 ≤ r.2.2) → 0 ≤ thisS →
            creaseCount = (cc_VertexLocals.sum items).creaseCount
              + (if last < 0 then cc__Signf thisS else 0) →
            valence = (cc_VertexLocals.sum items).valence + (if last < 0 then 1 else 0) →
            1 < creaseCount → creaseCount < 3 → valence ≠ 2 →
            ∃ Ea Eb : cc_VertexPoint, sharpEdgePoints items last thisS Eh = [Ea, Eb] ∧
              out'[v]? = some (Vp + cc__Satf ((cc_VertexLocals.sum items).avgS / 2) •
                (((1 / 2 : ℚ) • Vp + (1 / 4 : ℚ) • (Ea + Eb)) - Vp))) ∧
    (∀ (subd : cc_Subd) (edgeToHalfedgeID : Int → Nat → Int)
      (vertexToHalfedgeID_First : Int → Int) (depth fuel : Nat) (out : List cc_VertexPoint),
      ccs__Level subd.vertexPoints (depth + 1) = some out →
      ccm_VertexCountAtDepth_Fast subd.cage depth + ccm_FaceCountAtDepth_Fast subd.cage depth
        + ccm_EdgeCountAtDepth_Fast subd.cage depth ≤ out.length →
      ccs_CreasedVertexRingsReadable subd edgeToHalfedgeID vertexToHalfedgeID_First
        depth fuel →
      ∃ out', ccs__CreasedVertexPoints_Gather subd edgeToHalfedgeID vertexToHalfedgeID_First
            depth fuel =
          some { subd with vertexPoints := subd.vertexPoints.set depth out' } ∧
        ∀ v : Nat, v < ccm_VertexCountAtDepth_Fast subd.cage depth →
          ∀ (h : Int) (Vp Eh : cc_VertexPoint) (thisS : ℚ) (ring back : List Int)
            (last : Int) (itemsF itemsB : List (cc_VertexPoint × cc_VertexPoint × ℚ))
            (creaseCount valence : ℚ),
            ccs_VertexPointToHalfedgeID subd.cage edgeToHalfedgeID vertexToHalfedgeID_First
              v depth fuel = some h →
            ccs_VertexPoint subd v depth = some Vp →
            ccs_HalfedgeSharpness subd h depth = some thisS →
            ccs_HalfedgeNewEdgePoint subd depth out h = some Eh →
            ccs_VertexRing subd depth fuel h = some (ring, last) →
            ccs_VertexRingBackward subd depth fuel h last = some back →
            ring.map (ccs_PrevNewPoints subd depth out) = itemsF.map some →
            back.map (ccs_NextNewPoints subd depth out) = itemsB.map some →
            (∀ r ∈ itemsF ++ itemsB, 0 ≤ r.2.2) → 0 ≤ thisS →
            creaseCount = (cc_VertexLocals.sum (itemsF ++ itemsB)).creaseCount
              + (if last < 0 then cc__Signf thisS else 0) →
            valence = (cc_VertexLocals.sum (itemsF ++ itemsB)).valence
              + (if last < 0 then 1 else 0) →
            1 < creaseCount → creaseCount < 3 → valence ≠ 2 →
            ∃ Ea Eb : cc_VertexPoint,
              sharpEdgePoints (itemsF ++ itemsB) last thisS Eh = [Ea, Eb] ∧
              out'[v]? = some (Vp
                + cc__Satf ((cc_VertexLocals.sum (itemsF ++ itemsB)).avgS / 2) •
                  (((1 / 2 : ℚ) • Vp + (1 / 4 : ℚ) • (Ea + Eb)) - Vp))) ∧
    (∀ (Vp Eh : cc_VertexPoint) (thisS : ℚ) (last : Int)
      (items : List (cc_VertexPoint × cc_VertexPoint × ℚ)) (creaseCount valence : ℚ),
      (∀ r ∈ items, 0 ≤ r.2.2) → 0 ≤ thisS →
      creaseCount = (cc_VertexLocals.sum items).creaseCount
        + (if last < 0 then cc__Signf thisS else 0) →
      valence = (cc_VertexLocals.sum items).valence + (if last < 0 then 1 else 0) →
      1 < creaseCount → creaseCount < 3 → valence ≠ 2 →
      ccs__CreasedCageVertexPoints_Gather_rule Vp Eh (cc__Signf thisS) last
          (cc_VertexLocals.sum items)
        = ccs__CreasedVertexPoints_Gather_rule Vp Eh (cc__Signf thisS) last
          (cc_VertexLocals.sum items)) := by
  refine ⟨?_, ?_, ?_⟩
  · intro subd fuel out hout hlen hv
    obtain ⟨o, e1, _, _, e4⟩ := cage_creased_vertex_kernel subd fuel out hout hlen hv
    refine ⟨o, e1, ?_⟩
    intro v hlt h Vp Eh thisS ring last items creaseCount valence
      a1 a2 a3 a4 a5 a6 hS hT hc hval c1 c2 c3
    obtain ⟨_, Ea, Eb, k1, k2⟩ := regular_crease items last thisS Eh creaseCount hS hT hc c1 c2
    refine ⟨Ea, Eb, k1, ?_⟩
    rw [e4 v hlt h Vp Eh thisS ring last items a1 a2 a3 a4 a5 a6,
      (cage_rule_branches Vp Eh (cc__Signf thisS) last (cc_VertexLocals.sum items)
        creaseCount valence _ hc hval rfl).2.2 c1 c2 c3, k2]
    congr 2
    module
  · intro subd e2h v2h depth fuel out hout hlen hv
    obtain ⟨o, e1, _, _, e4⟩ := level_creased_vertex_kernel subd e2h v2h depth fuel out hout
      hlen hv
    refine ⟨o, e1, ?_⟩
    intro v hlt h Vp Eh thisS ring back last itemsF itemsB creaseCount valence
      a1 a2 a3 a4 a5 a6 a7 a8 hS hT hc hval c1 c2 c3
    obtain ⟨k0, Ea, Eb, k1, k2⟩ := regular_crease (itemsF ++ itemsB) last thisS Eh creaseCount
      hS hT hc c1 c2
    refine ⟨Ea, Eb, k1, ?_⟩
    rw [e4 v hlt h Vp Eh thisS ring back last itemsF itemsB a1 a2 a3 a4 a5 a6 a7 a8,
      (level_rule_branches Vp Eh (cc__Signf thisS) last (cc_VertexLocals.sum (itemsF ++ itemsB))
        creaseCount valence _ hc hval rfl).2.2 c1 c2 c3, k2, k0]
    congr 2
    match_scalars <;> norm_num
  · intro Vp Eh thisS last items creaseCount valence hS hT hc hval c1 c2 c3
    obtain ⟨k0, Ea, Eb, k1, k2⟩ := regular_crease items last thisS Eh creaseCount hS hT hc c1 c2
    rw [(cage_rule_branches Vp Eh (cc__Signf thisS) last (cc_VertexLocals.sum items)
        creaseCount valence _ hc hval rfl).2.2 c1 c2 c3,
      (level_rule_branches Vp Eh (cc__Signf thisS) last (cc_VertexLocals.sum items)
        creaseCount valence _ hc hval rfl).2.2 c1 c2 c3, k0]
    congr 2
    match_scalars <;> norm_num

/-- C18, witness: the vertex 0 of `sharpTriangles` (cage kernel), whose sharp
edges have the new edge points `(0, 1/2, 0)` and `(1/2, -1/2, 0)`, the vertex 5
of level 1 of `quadSharpSubd` (level kernel), whose sharp edges have the new
edge points `(1/4, 0, 0)` and `(3/4, 0, 0)`, and the ends of the two kernels on
the local variables of the former. -/
theorem C18_crease_point_witness :
    (∃ out' : List cc_VertexPoint, ccs__CreasedCageVertexPoints_Gather
        { cage := sharpTriangles, maxDepth := 1, halfedges := [], creases := [],
          vertexPoints := [sharpTrianglesPoints] } 2 =
          some { cage := sharpTriangles, maxDepth := 1, halfedges := [], creases := [],
                 vertexPoints := [out'] } ∧
        out'[0]? = some (((0, 0, 0) : cc_VertexPoint) + cc__Satf (1 / 2) •
          (((1 / 2 : ℚ) • ((0, 0, 0) : cc_VertexPoint)
            + (1 / 4 : ℚ) • (((0, 1 / 2, 0) : cc_VertexPoint) + (1 / 2, -1 / 2, 0)))
            - (0, 0, 0)))) ∧
    (∃ out' : List cc_VertexPoint,
        ccs__CreasedVertexPoints_Gather quadSharpSubd quadEdgeToHalfedgeID
            quadVertexToHalfedgeID_First 1 4 =
          some { quadSharpSubd with vertexPoints := quadSharpSubd.vertexPoints.set 1 out' } ∧
        out'[5]? = some (((1 / 2, 0, 0) : cc_VertexPoint) + cc__Satf (2 / 2) •
          (((1 / 2 : ℚ) • ((1 / 2, 0, 0) : cc_VertexPoint)
            + (1 / 4 : ℚ) • (((1 / 4, 0, 0) : cc_VertexPoint) + (3 / 4, 0, 0)))
            - (1 / 2, 0, 0)))) ∧
    ccs__CreasedCageVertexPoints_Gather_rule (0, 0, 0) (1 / 2, -1 / 2, 0) (cc__Signf 1) (-1)
        (cc_VertexLocals.sum
          [((1 / 2, 0, 0), (2 / 3, -1 / 3, 0), 0), ((0, 1 / 2, 0), (1 / 3, 1 / 3, 0), 1)])
      = ccs__CreasedVertexPoints_Gather_rule (0, 0, 0) (1 / 2, -1 / 2, 0) (cc__Signf 1) (-1)
        (cc_VertexLocals.sum
          [((1 / 2, 0, 0), (2 / 3, -1 / 3, 0), 0), ((0, 1 / 2, 0), (1 / 3, 1 / 3, 0), 1)]) := by
  refine ⟨?_, ?_, ?_⟩
  · obtain ⟨out', h1, h4⟩ := C18_crease_point.1
      { cage := sharpTriangles, maxDepth := 1, halfedges := [], creases := [],
        vertexPoints := [sharpTrianglesPoints] } 2
      sharpTrianglesPoints rfl (by decide) (by decide)
    refine ⟨out', h1, ?_⟩
    obtain ⟨Ea, Eb, k1, k2⟩ := h4 0 (by decide) 4 (0, 0, 0) (1 / 2, -1 / 2, 0) 1 [4, 0] (-1)
      [((1 / 2, 0, 0), (2 / 3, -1 / 3, 0), 0), ((0, 1 / 2, 0), (1 / 3, 1 / 3, 0), 1)]
      2 3 rfl rfl rfl rfl rfl rfl
      (by simp) (by norm_num)
      (by simp [cc_VertexLocals.sum, cc__Signf]; norm_num)
      (by simp [cc_VertexLocals.sum]; norm_num)
      (by norm_num) (by norm_num) (by norm_num)
    have k3 : sharpEdgePoints
        [((1 / 2, 0, 0), (2 / 3, -1 / 3, 0), 0), ((0, 1 / 2, 0), (1 / 3, 1 / 3, 0), 1)]
        (-1) 1 (1 / 2, -1 / 2, 0) = [(0, 1 / 2, 0), (1 / 2, -1 / 2, 0)] := by
      simp [sharpEdgePoints, incidentCreases]
    rw [k3] at k1
    simp only [List.cons.injEq, and_true] at k1
    obtain ⟨rfl, rfl⟩ := k1
    have k4 : out'[0]? = _ := k2
    rw [k4]
    simp [cc_VertexLocals.sum]
  · obtain ⟨out', h1, h4⟩ := C18_crease_point.2.1 quadSharpSubd quadEdgeToHalfedgeID
      quadVertexToHalfedgeID_First 1 4 _ rfl (by decide) (by decide)
    refine ⟨out', h1, ?_⟩
    obtain ⟨Ea, Eb, k1, k2⟩ := h4 5 (by decide) 1 (1 / 2, 0, 0) (1 / 2, 1 / 4, 0) 0 [1] [6]
      (-1) [((1 / 4, 0, 0), (1 / 4, 1 / 4, 0), 1)] [((3 / 4, 0, 0), (3 / 4, 1 / 4, 0), 1)]
      2 3 rfl rfl rfl rfl rfl rfl rfl rfl
      (by simp) (by norm_num)
      (by simp [cc_VertexLocals.sum, cc__Signf]; norm_num)
      (by simp [cc_VertexLocals.sum]; norm_num)
      (by norm_num) (by norm_num) (by norm_num)
    have k3 : sharpEdgePoints
        ([((1 / 4, 0, 0), (1 / 4, 1 / 4, 0), 1)] ++ [((3 / 4, 0, 0), (3 / 4, 1 / 4, 0), 1)])
        (-1) 0 (1 / 2, 1 / 4, 0) = [(1 / 4, 0, 0), (3 / 4, 0, 0)] := by
      simp [sharpEdgePoints, incidentCreases]
    rw [k3] at k1
    simp only [List.cons.injEq, and_true] at k1
    obtain ⟨rfl, rfl⟩ := k1
    have k4 : out'[5]? = _ := k2
    rw [k4]
    simp [cc_VertexLocals.sum]
  · exact C18_crease_point.2.2 (0, 0, 0) (1 / 2, -1 / 2, 0) 1 (-1)
      [((1 / 2, 0, 0), (2 / 3, -1 / 3, 0), 0), ((0, 1 / 2, 0), (1 / 3, 1 / 3, 0), 1)]
      2 3 (by simp) (by norm_num)
      (by simp [cc_VertexLocals.sum, cc__Signf]; norm_num)
      (by simp [cc_VertexLocals.sum]; norm_num)
      (by norm_num) (by norm_num) (by norm_num)

/-! ## The scatter kernels of the creased edge points -/

/-- The body of the loop over the halfedges of
`ccs__CreasedCageEdgePoints_Scatter`: the edge of the halfedge and the
contribution `atomicWeight` that is added to its edge point. -/
def ccs__CreasedCageEdgePoints_Scatter_halfedge (cage : cc_Mesh) (vertexCount : Int)
    (points : List cc_VertexPoint) (halfedgeID : Int) : Option (Int × cc_VertexPoint) := do
  let faceID ← ccm_HalfedgeFaceID cage halfedgeID
  let edgeID ← ccm_HalfedgeEdgeID cage halfedgeID
  let twinID ← ccm_HalfedgeTwinID cage halfedgeID
  let nextID ← ccm_HalfedgeNextID cage halfedgeID
  let sharp ← ccm_CreaseSharpness cage edgeID
  let edgeWeight := cc__Satf sharp
  let newFacePoint ← readAt points (vertexCount + faceID)
  let oldEdgePoints0 ← ccm_HalfedgeVertexPoint cage halfedgeID
  let oldEdgePoints1 ← ccm_HalfedgeVertexPoint cage nextID
  let tmp := cc__Lerp3f oldEdgePoints0 oldEdgePoints1 0.5
  let sharpPoint := cc__Mul3f tmp (if twinID < 0 then 1 else 0.5)
  let tmp := cc__Lerp3f oldEdgePoints0 newFacePoint 0.5
  let smoothPoint := cc__Mul3f tmp 0.5
  let atomicWeight := cc__Lerp3f smoothPoint sharpPoint edgeWeight
  some (edgeID, atomicWeight)

/-- The kernel `ccs__CreasedCageEdgePoints_Scatter`; the atomic additions are run
in the order of the halfedges. -/
def ccs__CreasedCageEdgePoints_Scatter (subd : cc_Subd) : Option cc_Subd := do
  let cage := subd.cage
  let faceCount := ccm_FaceCount cage
  let vertexCount := ccm_VertexCount cage
  let halfedgeCount := ccm_HalfedgeCount cage
  let points ← subd.vertexPoints[0]?
  let out ← (List.range halfedgeCount).foldlM
    (fun out (halfedgeID : Nat) => do
      let r ← ccs__CreasedCageEdgePoints_Scatter_halfedge cage vertexCount out halfedgeID
      writeAt out ((vertexCount : Int) + (faceCount : Int) + r.1) (fun p => cc__Add3f p r.2))
    points
  some { subd with vertexPoints := subd.vertexPoints.set 0 out }

/-- The body of the loop over the halfedges of `ccs__CreasedEdgePoints_Scatter`. -/
def ccs__CreasedEdgePoints_Scatter_halfedge (subd : cc_Subd) (depth : Nat) (vertexCount : Int)
    (points : List cc_VertexPoint) (halfedgeID : Int) : Option (Int × cc_VertexPoint) := do
  let twinID ← ccs_HalfedgeTwinID subd halfedgeID depth
  let edgeID ← ccs_HalfedgeEdgeID subd halfedgeID depth
  let faceID := ccs_HalfedgeFaceID subd halfedgeID depth
  let nextID := ccs_HalfedgeNextID subd halfedgeID depth
  let sharp ← ccs_CreaseSharpness subd edgeID depth
  let edgeWeight := cc__Satf sharp
  let newFacePoint ← readAt points (vertexCount + faceID)
  let oldEdgePoints0 ← ccs_HalfedgeVertexPoint subd halfedgeID depth
  let oldEdgePoints1 ← ccs_HalfedgeVertexPoint subd nextID depth
  let tmp := cc__Lerp3f oldEdgePoints0 oldEdgePoints1 0.5
  let sharpPoint := cc__Mul3f tmp (if twinID < 0 then 1 else 0.5)
  let tmp := cc__Lerp3f oldEdgePoints0 newFacePoint 0.5
  let smoothPoint := cc__Mul3f tmp 0.5
  let atomicWeight := cc__Lerp3f smoothPoint sharpPoint edgeWeight
  some (edgeID, atomicWeight)

/-- The kernel `ccs__CreasedEdgePoints_Scatter`; the atomic additions are run in
the order of the halfedges. -/
def ccs__CreasedEdgePoints_Scatter (subd : cc_Subd) (depth : Nat) : Option cc_Subd := do
  let cage := subd.cage
  let vertexCount := ccm_VertexCountAtDepth_Fast cage depth
  let faceCount := ccm_FaceCountAtDepth_Fast cage depth
  let halfedgeCount := ccm_HalfedgeCountAtDepth cage depth
  let points ← ccs__Level subd.vertexPoints (depth + 1)
  let out ← (List.range halfedgeCount).foldlM
    (fun out (halfedgeID : Nat) => do
      let r ← ccs__CreasedEdgePoints_Scatter_halfedge subd depth vertexCount out halfedgeID
      writeAt out ((vertexCount : Int) + (faceCount : Int) + r.1) (fun p => cc__Add3f p r.2))
    points
  some { subd with vertexPoints := subd.vertexPoints.set depth out }

/-! ## The scatter kernels of the vertex points without creases -/

/-- Modelled from the spec: `ccm_NextVertexHalfedgeID` of the header, the
rotation around the vertex of a halfedge opposite to `ccm_PrevVertexHalfedgeID`
(section 4.5: "walking both prev- and next-rotations from the halfedge"): the
successor of the twin, the step the second loops of the creased kernels of the
source take in their own text; a halfedge without a twin has none (`-1`). -/
def ccm_NextVertexHalfedgeID (cage : cc_Mesh) (halfedgeID : Int) : Option Int := do
  let twinID ← ccm_HalfedgeTwinID cage halfedgeID
  if twinID ≥ 0 then ccm_HalfedgeNextID cage twinID else some (-1)

/-- Modelled from the spec: `ccs_NextVertexHalfedgeID` of the header, the
rotation opposite to `ccs_PrevVertexHalfedgeID` at level `depth`. -/
def ccs_NextVertexHalfedgeID (subd : cc_Subd) (halfedgeID : Int) (depth : Nat) : Option Int := do
  let twinID ← ccs_HalfedgeTwinID subd halfedgeID depth
  if twinID ≥ 0 then some (ccs_HalfedgeNextID subd twinID depth) else some (-1)

/-- The two loops of `ccs__CageVertexPoints_Scatter` that count the valence: the
value of `forwardIterator` at the exit of the first loop, and `valence` after
the second loop. -/
def ccs__CageVertexPoints_Scatter_valence (cage : cc_Mesh) (fuel : Nat) (halfedgeID : Int) :
    Option (Int × Int) := do
  let valence : Int := 1
  let start ← ccm_PrevVertexHalfedgeID cage halfedgeID
  let f ← forLoop
    (fun forwardIterator => decide (forwardIterator ≥ 0) && decide (forwardIterator ≠ halfedgeID))
    (fun forwardIterator valence =>
      (ccm_PrevVertexHalfedgeID cage forwardIterator).map (fun next => (next, valence + 1)))
    fuel start valence
  let forwardIterator := f.1
  let back ← ccm_NextVertexHalfedgeID cage halfedgeID
  let b ← forLoop
    (fun backwardIterator => decide (forwardIterator < 0) && decide (backwardIterator ≥ 0)
      && decide (backwardIterator ≠ halfedgeID))
    (fun backwardIterator valence =>
      (ccm_NextVertexHalfedgeID cage backwardIterator).map (fun next => (next, valence + 1)))
    fuel back f.2
  some (forwardIterator, b.2)

/-- The value `w * (v + w * s * (4 * e - f - 3 * v))` that the last loop of the
vertex point scatter kernels adds to the three components of the vertex point. -/
def ccs__VertexPoints_Scatter_weight (valence forwardIterator : Int)
    (v f e : cc_VertexPoint) : cc_VertexPoint :=
  let w : ℚ := 1 / (valence : ℚ)
  let s : ℚ := if forwardIterator < 0 then 0 else 1
  w • (v + (w * s) • ((4 : ℚ) • e - f - (3 : ℚ) • v))

/-- The body of the loop over the halfedges of `ccs__CageVertexPoints_Scatter`:
the vertex of the halfedge and the contribution that is added to its vertex
point. -/
def ccs__CageVertexPoints_Scatter_halfedge (cage : cc_Mesh) (vertexCount faceCount : Int)
    (points : List cc_VertexPoint) (fuel : Nat) (halfedgeID : Int) :
    Option (Int × cc_VertexPoint) := do
  let vertexID ← ccm_HalfedgeVertexID cage halfedgeID
  let edgeID ← ccm_HalfedgeEdgeID cage halfedgeID
  let faceID ← ccm_HalfedgeFaceID cage halfedgeID
  let oldVertexPoint ← ccm_VertexPoint cage vertexID
  let r ← ccs__CageVertexPoints_Scatter_valence cage fuel halfedgeID
  let f ← readAt points (vertexCount + faceID)
  let e ← readAt points (vertexCount + faceCount + edgeID)
  some (vertexID, ccs__VertexPoints_Scatter_weight r.2 r.1 oldVertexPoint f e)

/-- The kernel `ccs__CageVertexPoints_Scatter`; the atomic additions are run in
the order of the halfedges. -/
def ccs__CageVertexPoints_Scatter (subd : cc_Subd) (fuel : Nat) : Option cc_Subd := do
  let cage := subd.cage
  let faceCount := ccm_FaceCount cage
  let vertexCount := ccm_VertexCount cage
  let halfedgeCount := ccm_HalfedgeCount cage
  let points ← subd.vertexPoints[0]?
  let out ← (List.range halfedgeCount).foldlM
    (fun out (halfedgeID : Nat) => do
      let r ← ccs__CageVertexPoints_Scatter_halfedge cage vertexCount faceCount out fuel
        halfedgeID
      writeAt out r.1 (fun p => cc__Add3f p r.2))
    points
  some { subd with vertexPoints := subd.vertexPoints.set 0 out }

/-- The two loops of `ccs__VertexPoints_Scatter` that count the valence. -/
def ccs__VertexPoints_Scatter_valence (subd : cc_Subd) (depth : Nat) (fuel : Nat)
    (halfedgeID : Int) : Option (Int × Int) := do
  let valence : Int := 1
  let start ← ccs_PrevVertexHalfedgeID subd halfedgeID depth
  let f ← forLoop
    (fun forwardIterator => decide (forwardIterator ≥ 0) && decide (forwardIterator ≠ halfedgeID))
    (fun forwardIterator valence =>
      (ccs_PrevVertexHalfedgeID subd forwardIterator depth).map (fun next => (next, valence + 1)))
    fuel start valence
  let forwardIterator := f.1
  let back ← ccs_NextVertexHalfedgeID subd halfedgeID depth
  let b ← forLoop
    (fun backwardIterator => decide (forwardIterator < 0) && decide (backwardIterator ≥ 0)
      && decide (backwardIterator ≠ halfedgeID))
    (fun backwardIterator valence =>
      (ccs_NextVertexHalfedgeID subd backwardIterator depth).map
        (fun next => (next, valence + 1)))
    fuel back f.2
  some (forwardIterator, b.2)

/-- The body of the loop over the halfedges of `ccs__VertexPoints_Scatter`;
`points` is the region of level `depth + 1` of the vertex point buffer. -/
def ccs__VertexPoints_Scatter_halfedge (subd : cc_Subd) (depth : Nat)
    (vertexCount faceCount : Int) (points : List cc_VertexPoint) (fuel : Nat)
    (halfedgeID : Int) : Option (Int × cc_VertexPoint) := do
  let vertexID ← ccs_HalfedgeVertexID subd halfedgeID depth
  let edgeID ← ccs_HalfedgeEdgeID subd halfedgeID depth
  let faceID := ccs_HalfedgeFaceID subd halfedgeID depth
  let oldVertexPoint ← ccs_VertexPoint subd vertexID depth
  let r ← ccs__VertexPoints_Scatter_valence subd depth fuel halfedgeID
  let f ← readAt points (vertexCount + faceID)
  let e ← readAt points (vertexCount + faceCount + edgeID)
  some (vertexID, ccs__VertexPoints_Scatter_weight r.2 r.1 oldVertexPoint f e)

/-- The kernel `ccs__VertexPoints_Scatter`; the atomic additions are run in the
order of the halfedges. -/
def ccs__VertexPoints_Scatter (subd : cc_Subd) (depth : Nat) (fuel : Nat) : Option cc_Subd := do
  let cage := subd.cage
  let vertexCount := ccm_VertexCountAtDepth_Fast cage depth
  let faceCount := ccm_FaceCountAtDepth_Fast cage depth
  let halfedgeCount := ccm_HalfedgeCountAtDepth cage depth
  let points ← ccs__Level subd.vertexPoints (depth + 1)
  let out ← (List.range halfedgeCount).foldlM
    (fun out (halfedgeID : Nat) => do
      let r ← ccs__VertexPoints_Scatter_halfedge subd depth vertexCount faceCount out fuel
        halfedgeID
      writeAt out r.1 (fun p => cc__Add3f p r.2))
    points
  some { subd with vertexPoints := subd.vertexPoints.set depth out }

/-! ## The scatter kernels of the creased vertex points -/

/-- The local variables `avgS`, `creaseCount` and `valence` of an iteration over
the halfedges of the creased vertex point scatter kernels. -/
@[ext]
structure cc_VertexCounts where
  avgS : ℚ
  creaseCount : ℚ
  valence : ℚ

/-- The statements "valence computation" and "crease computation" of an
iteration around the vertex; the four loops of the two scatter kernels have the
same text there. -/
def cc_VertexCounts.accumulate (s : cc_VertexCounts) (prevS : ℚ) : cc_VertexCounts :=
  let prevCreaseWeight := cc__Signf prevS
  { avgS := s.avgS + prevS, creaseCount := s.creaseCount + prevCreaseWeight,
    valence := s.valence + 1 }

/-- The local variables before the first loop around the vertex. -/
def cc_VertexCounts.first (prevS : ℚ) : cc_VertexCounts :=
  { avgS := prevS, creaseCount := cc__Signf prevS, valence := 1 }

/-- One iteration of the first loop around the vertex of
`ccs__CreasedCageVertexPoints_Scatter`, with its last statement
`forwardIterator = prevID` and its increment. -/
def ccs__CreasedCageVertexPoints_Scatter_forward (cage : cc_Mesh) (forwardIterator : Int)
    (s : cc_VertexCounts) : Option (Int × cc_VertexCounts) := do
  let prevID ← ccm_HalfedgePrevID cage forwardIterator
  let prevS ← ccm_HalfedgeSharpness cage prevID
  let forwardIterator := prevID
  let next ← ccm_HalfedgeTwinID cage forwardIterator
  some (next, s.accumulate prevS)

/-- One iteration of the second loop around the vertex of
`ccs__CreasedCageVertexPoints_Scatter`, with its last statement
`backwardIterator = nextID` and its increment. -/
def ccs__CreasedCageVertexPoints_Scatter_backward (cage : cc_Mesh) (backwardIterator : Int)
    (s : cc_VertexCounts) : Option (Int × cc_VertexCounts) := do
  let nextID ← ccm_HalfedgeNextID cage backwardIterator
  let nextS ← ccm_HalfedgeSharpness cage nextID
  let backwardIterator := nextID
  let next ← ccm_HalfedgeTwinID cage backwardIterator
  some (next, s.accumulate nextS)

/-- The two loops around the vertex of `ccs__CreasedCageVertexPoints_Scatter`:
the value of `forwardIterator` at the exit of the first loop, and the local
variables after the second loop. -/
def ccs__CreasedCageVertexPoints_Scatter_walks (cage : cc_Mesh) (fuel : Nat)
    (halfedgeID prevID : Int) (prevS : ℚ) : Option (Int × cc_VertexCounts) := do
  let start ← ccm_HalfedgeTwinID cage prevID
  let f ← forLoop
    (fun forwardIterator => decide (forwardIterator ≥ 0) && decide (forwardIterator ≠ halfedgeID))
    (ccs__CreasedCageVertexPoints_Scatter_forward cage) fuel start (cc_VertexCounts.first prevS)
  let forwardIterator := f.1
  let back ← ccm_HalfedgeTwinID cage halfedgeID
  let b ← forLoop
    (fun backwardIterator => decide (forwardIterator < 0) && decide (backwardIterator ≥ 0)
      && decide (backwardIterator ≠ halfedgeID))
    (ccs__CreasedCageVertexPoints_Scatter_backward cage) fuel back f.2
  some (forwardIterator, b.2)

/-- The statements "corner point", "crease computation", "smooth computation"
and "boundary corrections" of the two creased vertex point scatter kernels,
which have the same text there: the points `cornerPoint`, `smoothPoint` and
`creasePoint`, and the local variables after the corrections. -/
def cc_VertexCounts.points (s : cc_VertexCounts) (oldPoint newEdgePoint newPrevEdgePoint
    newFacePoint : cc_VertexPoint) (creaseWeight prevCreaseWeight : ℚ) (forwardIterator : Int) :
    cc_VertexPoint × cc_VertexPoint × cc_VertexPoint × cc_VertexCounts :=
  let cornerPoint := cc__Mul3f oldPoint (1 / s.valence)
  let tmp1 := cc__Mul3f oldPoint (0.25 * creaseWeight)
  let tmp2 := cc__Mul3f newEdgePoint (0.25 * creaseWeight)
  let creasePoint := cc__Add3f tmp1 tmp2
  let tmp1 := cc__Mul3f newFacePoint (-1)
  let tmp2 := cc__Mul3f newEdgePoint 4
  let smoothPoint := cc__Add3f tmp1 tmp2
  let tmp1 := cc__Mul3f oldPoint (s.valence - 3)
  let smoothPoint := cc__Add3f smoothPoint tmp1
  let smoothPoint := cc__Mul3f smoothPoint (1 / (s.valence * s.valence))
  if forwardIterator < 0 then
    let tmp1 := cc__Mul3f oldPoint (0.25 * prevCreaseWeight)
    let tmp2 := cc__Mul3f newPrevEdgePoint (0.25 * prevCreaseWeight)
    let tmp1 := cc__Add3f tmp1 tmp2
    (cornerPoint, smoothPoint, cc__Add3f creasePoint tmp1,
      { s with creaseCount := s.creaseCount + creaseWeight, valence := s.valence + 1 })
  else (cornerPoint, smoothPoint, creasePoint, s)

/-- The end of an iteration over the halfedges of
`ccs__CreasedCageVertexPoints_Scatter`, from "corner point" on: the value
`atomicWeight` that is added to the vertex point. -/
def ccs__CreasedCageVertexPoints_Scatter_rule (oldPoint newEdgePoint newPrevEdgePoint
    newFacePoint : cc_VertexPoint) (creaseWeight prevCreaseWeight : ℚ) (forwardIterator : Int)
    (s : cc_VertexCounts) : cc_VertexPoint :=
  let r := s.points oldPoint newEdgePoint newPrevEdgePoint newFacePoint creaseWeight
    prevCreaseWeight forwardIterator
  let cornerPoint := r.1
  let smoothPoint := r.2.1
  let creasePoint := r.2.2.1
  let s := r.2.2.2
  if s.creaseCount ≤ 1 then smoothPoint
  else if s.creaseCount ≥ 3 ∨ s.valence = 2 then cornerPoint
  else cc__Lerp3f cornerPoint creasePoint (cc__Satf (s.avgS * 0.5))

/-- The reads of the new points of an iteration over the halfedges of
`ccs__CreasedCageVertexPoints_Scatter`: `newPrevEdgePoint`, `newEdgePoint` and
`newFacePoint`. -/
def ccs__CreasedCageVertexPoints_Scatter_reads (cage : cc_Mesh) (vertexCount faceCount : Int)
    (points : List cc_VertexPoint) (halfedgeID prevID : Int) :
    Option (cc_VertexPoint × cc_VertexPoint × cc_VertexPoint) := do
  let edgeID ← ccm_HalfedgeEdgeID cage halfedgeID
  let faceID ← ccm_HalfedgeFaceID cage halfedgeID
  let prevEdgeID ← ccm_HalfedgeEdgeID cage prevID
  let newPrevEdgePoint ← readAt points (vertexCount + faceCount + prevEdgeID)
  let newEdgePoint ← readAt points (vertexCount + faceCount + edgeID)
  let newFacePoint ← readAt points (vertexCount + faceID)
  some (newPrevEdgePoint, newEdgePoint, newFacePoint)

/-- The body of the loop over the halfedges of
`ccs__CreasedCageVertexPoints_Scatter`: the vertex of the halfedge and the
contribution `atomicWeight` that is added to its vertex point. -/
def ccs__CreasedCageVertexPoints_Scatter_halfedge (cage : cc_Mesh)
    (vertexCount faceCount : Int) (points : List cc_VertexPoint) (fuel : Nat)
    (halfedgeID : Int) : Option (Int × cc_VertexPoint) := do
  let oldVertexPoints := cage.vertexPoints
  let vertexID ← ccm_HalfedgeVertexID cage halfedgeID
  let prevID ← ccm_HalfedgePrevID cage halfedgeID
  let thisS ← ccm_HalfedgeSharpness cage halfedgeID
  let prevS ← ccm_HalfedgeSharpness cage prevID
  let creaseWeight := cc__Signf thisS
  let prevCreaseWeight := cc__Signf prevS
  let p ← ccs__CreasedCageVertexPoints_Scatter_reads cage vertexCount faceCount points
    halfedgeID prevID
  let oldPoint ← readAt oldVertexPoints vertexID
  let r ← ccs__CreasedCageVertexPoints_Scatter_walks cage fuel halfedgeID prevID prevS
  some (vertexID, ccs__CreasedCageVertexPoints_Scatter_rule oldPoint p.2.1 p.1 p.2.2
    creaseWeight prevCreaseWeight r.1 r.2)

/-- The kernel `ccs__CreasedCageVertexPoints_Scatter`; the atomic additions are
run in the order of the halfedges. -/
def ccs__CreasedCageVertexPoints_Scatter (subd : cc_Subd) (fuel : Nat) : Option cc_Subd := do
  let cage := subd.cage
  let faceCount := ccm_FaceCount cage
  let vertexCount := ccm_VertexCount cage
  let halfedgeCount := ccm_HalfedgeCount cage
  let points ← subd.vertexPoints[0]?
  let out ← (List.range halfedgeCount).foldlM
    (fun out (halfedgeID : Nat) => do
      let r ← ccs__CreasedCageVertexPoints_Scatter_halfedge cage vertexCount faceCount out
        fuel halfedgeID
      writeAt out r.1 (fun p => cc__Add3f p r.2))
    points
  some { subd with vertexPoints := subd.vertexPoints.set 0 out }

/-- One iteration of the first loop around the vertex of
`ccs__CreasedVertexPoints_Scatter`, with its increment. -/
def ccs__CreasedVertexPoints_Scatter_forward (subd : cc_Subd) (depth : Nat)
    (forwardIterator : Int) (s : cc_VertexCounts) : Option (Int × cc_VertexCounts) := do
  let prevID := ccs_HalfedgePrevID subd forwardIterator depth
  let prevS ← ccs_HalfedgeSharpness subd prevID depth
  let forwardIterator := prevID
  let next ← ccs_HalfedgeTwinID subd forwardIterator depth
  some (next, s.accumulate prevS)

/-- One iteration of the second loop around the vertex of
`ccs__CreasedVertexPoints_Scatter`, with its increment. -/
def ccs__CreasedVertexPoints_Scatter_backward (subd : cc_Subd) (depth : Nat)
    (backwardIterator : Int) (s : cc_VertexCounts) : Option (Int × cc_VertexCounts) := do
  let nextID := ccs_HalfedgeNextID subd backwardIterator depth
  let nextS ← ccs_HalfedgeSharpness subd nextID depth
  let backwardIterator := nextID
  let next ← ccs_HalfedgeTwinID subd backwardIterator depth
  some (next, s.accumulate nextS)

/-- The two loops around the vertex of `ccs__CreasedVertexPoints_Scatter`. -/
def ccs__CreasedVertexPoints_Scatter_walks (subd : cc_Subd) (depth : Nat) (fuel : Nat)
    (halfedgeID prevID : Int) (prevS : ℚ) : Option (Int × cc_VertexCounts) := do
  let start ← ccs_HalfedgeTwinID subd prevID depth
  let f ← forLoop
    (fun forwardIterator => decide (forwardIterator ≥ 0) && decide (forwardIterator ≠ halfedgeID))
    (ccs__CreasedVertexPoints_Scatter_forward subd depth) fuel start
    (cc_VertexCounts.first prevS)
  let forwardIterator := f.1
  let back ← ccs_HalfedgeTwinID subd halfedgeID depth
  let b ← forLoop
    (fun backwardIterator => decide (forwardIterator < 0) && decide (backwardIterator ≥ 0)
      && decide (backwardIterator ≠ halfedgeID))
    (ccs__CreasedVertexPoints_Scatter_backward subd depth) fuel back f.2
  some (forwardIterator, b.2)

/-- The end of an iteration over the halfedges of
`ccs__CreasedVertexPoints_Scatter`, from "corner point" on; the test of the
corner rule comes first here. -/
def ccs__CreasedVertexPoints_Scatter_rule (oldPoint newEdgePoint newPrevEdgePoint
    newFacePoint : cc_VertexPoint) (creaseWeight prevCreaseWeight : ℚ) (forwardIterator : Int)
    (s : cc_VertexCounts) : cc_VertexPoint :=
  let r := s.points oldPoint newEdgePoint newPrevEdgePoint newFacePoint creaseWeight
    prevCreaseWeight forwardIterator
  let cornerPoint := r.1
  let smoothPoint := r.2.1
  let creasePoint := r.2.2.1
  let s := r.2.2.2
  if s.creaseCount ≥ 3 ∨ s.valence = 2 then cornerPoint
  else if s.creaseCount ≤ 1 then smoothPoint
  else cc__Lerp3f cornerPoint creasePoint (cc__Satf (s.avgS * 0.5))

/-- The reads of the new points of an iteration over the halfedges of
`ccs__CreasedVertexPoints_Scatter`: `newPrevEdgePoint`, `newEdgePoint` and
`newFacePoint`. -/
def ccs__CreasedVertexPoints_Scatter_reads (subd : cc_Subd) (depth : Nat)
    (vertexCount faceCount : Int) (points : List cc_VertexPoint) (halfedgeID prevID : Int) :
    Option (cc_VertexPoint × cc_VertexPoint × cc_VertexPoint) := do
  let edgeID ← ccs_HalfedgeEdgeID subd halfedgeID depth
  let faceID := ccs_HalfedgeFaceID subd halfedgeID depth
  let prevEdgeID ← ccs_HalfedgeEdgeID subd prevID depth
  let newPrevEdgePoint ← readAt points (vertexCount + faceCount + prevEdgeID)
  let newEdgePoint ← readAt points (vertexCount + faceCount + edgeID)
  let newFacePoint ← readAt points (vertexCount + faceID)
  some (newPrevEdgePoint, newEdgePoint, newFacePoint)

/-- The body of the loop over the halfedges of
`ccs__CreasedVertexPoints_Scatter`. -/
def ccs__CreasedVertexPoints_Scatter_halfedge (subd : cc_Subd) (depth : Nat)
    (vertexCount faceCount : Int) (points : List cc_VertexPoint) (fuel : Nat)
    (halfedgeID : Int) : Option (Int × cc_VertexPoint) := do
  let vertexID ← ccs_HalfedgeVertexID subd halfedgeID depth
  let prevID := ccs_HalfedgePrevID subd halfedgeID depth
  let thisS ← ccs_HalfedgeSharpness subd halfedgeID depth
  let prevS ← ccs_HalfedgeSharpness subd prevID depth
  let creaseWeight := cc__Signf thisS
  let prevCreaseWeight := cc__Signf prevS
  let p ← ccs__CreasedVertexPoints_Scatter_reads subd depth vertexCount faceCount points
    halfedgeID prevID
  let oldPoint ← ccs_VertexPoint subd vertexID depth
  let r ← ccs__CreasedVertexPoints_Scatter_walks subd depth fuel halfedgeID prevID prevS
  some (vertexID, ccs__CreasedVertexPoints_Scatter_rule oldPoint p.2.1 p.1 p.2.2
    creaseWeight prevCreaseWeight r.1 r.2)

/-- The kernel `ccs__CreasedVertexPoints_Scatter`; the atomic additions are run
in the order of the halfedges. -/
def ccs__CreasedVertexPoints_Scatter (subd : cc_Subd) (depth : Nat) (fuel : Nat) :
    Option cc_Subd := do
  let cage := subd.cage
  let halfedgeCount := ccm_HalfedgeCountAtDepth cage depth
  let vertexCount := ccm_VertexCountAtDepth_Fast cage depth
  let faceCount := ccm_FaceCountAtDepth_Fast cage depth
  let points ← ccs__Level subd.vertexPoints (depth + 1)
  let out ← (List.range halfedgeCount).foldlM
    (fun out (halfedgeID : Nat) => do
      let r ← ccs__CreasedVertexPoints_Scatter_halfedge subd depth vertexCount faceCount out
        fuel halfedgeID
      writeAt out r.1 (fun p => cc__Add3f p r.2))
    points
  some { subd with vertexPoints := subd.vertexPoints.set depth out }

/-! ## The entry points of the refinement of the vertex points -/

/-- The function `ccs__ClearVertexPoints`: the vertex point buffer of the
subdivision is filled with zeros. -/
def ccs__ClearVertexPoints (subd : cc_Subd) : cc_Subd :=
  { subd with
    vertexPoints := subd.vertexPoints.map (fun level => level.map (fun _ => (0, 0, 0))) }

/-- The entry point `ccs_RefineVertexPoints_Scatter`: the buffer is cleared, then
the three creased scatter kernels of the cage and of every depth
`1 ≤ depth < maxDepth` are run. -/
def ccs_RefineVertexPoints_Scatter (subd : cc_Subd) (fuel : Nat) : Option cc_Subd := do
  let subd := ccs__ClearVertexPoints subd
  let subd ← ccs__CageFacePoints_Scatter subd fuel
  let subd ← ccs__CreasedCageEdgePoints_Scatter subd
  let subd ← ccs__CreasedCageVertexPoints_Scatter subd fuel
  (List.range' 1 (ccs_MaxDepth subd - 1)).foldlM
    (fun s depth => do
      let s ← ccs__FacePoints_Scatter s depth
      let s ← ccs__CreasedEdgePoints_Scatter s depth
      ccs__CreasedVertexPoints_Scatter s depth fuel)
    subd

/-- The entry point `ccs_RefineVertexPoints_NoCreases_Scatter`. -/
def ccs_RefineVertexPoints_NoCreases_Scatter (subd : cc_Subd) (fuel : Nat) : Option cc_Subd := do
  let subd := ccs__ClearVertexPoints subd
  let subd ← ccs__CageFacePoints_Scatter subd fuel
  let subd ← ccs__CageEdgePoints_Scatter subd
  let subd ← ccs__CageVertexPoints_Scatter subd fuel
  (List.range' 1 (ccs_MaxDepth subd - 1)).foldlM
    (fun s depth => do
      let s ← ccs__FacePoints_Scatter s depth
      let s ← ccs__EdgePoints_Scatter s depth
      ccs__VertexPoints_Scatter s depth fuel)
    subd

/-- The entry point `ccs_RefineVertexPoints_Gather`: the three creased gather
kernels of the cage and of every depth `1 ≤ depth < maxDepth`.  The functions
`ccs_EdgeToHalfedgeID` and `ccs__VertexToHalfedgeID_First` of the header are the
parameters `edgeToHalfedgeID` and `vertexToHalfedgeID_First`. -/
def ccs_RefineVertexPoints_Gather (subd : cc_Subd) (edgeToHalfedgeID : Int → Nat → Int)
    (vertexToHalfedgeID_First : Int → Int) (fuel : Nat) : Option cc_Subd := do
  let subd ← ccs__CageFacePoints_Gather subd fuel
  let subd ← ccs__CreasedCageEdgePoints_Gather subd
  let subd ← ccs__CreasedCageVertexPoints_Gather subd fuel
  (List.range' 1 (ccs_MaxDepth subd - 1)).foldlM
    (fun s depth => do
      let s ← ccs__FacePoints_Gather s depth fuel
      let s ← ccs__CreasedEdgePoints_Gather s edgeToHalfedgeID depth
      ccs__CreasedVertexPoints_Gather s edgeToHalfedgeID vertexToHalfedgeID_First depth fuel)
    subd

/-- The entry point `ccs_RefineVertexPoints_NoCreases_Gather`. -/
def ccs_RefineVertexPoints_NoCreases_Gather (subd : cc_Subd)
    (edgeToHalfedgeID : Int → Nat → Int) (vertexToHalfedgeID_First : Int → Int) (fuel : Nat) :
    Option cc_Subd := do
  let subd ← ccs__CageFacePoints_Gather subd fuel
  let subd ← ccs__CageEdgePoints_Gather subd
  let subd ← ccs__CageVertexPoints_Gather subd fuel
  (List.range' 1 (ccs_MaxDepth subd - 1)).foldlM
    (fun s depth => do
      let s ← ccs__FacePoints_Gather s depth fuel
      let s ← ccs__EdgePoints_Gather s edgeToHalfedgeID depth
      ccs__VertexPoints_Gather s edgeToHalfedgeID vertexToHalfedgeID_First depth fuel)
    subd

/-! ## UV refinement: `ccs__RefineCageVertexUvs`, `ccs__RefineVertexUvs` and
`ccs_RefineVertexUvs`

The packing of a texture coordinate into the `uvID` of a halfedge record of a
level, `cc__EncodeUv`, and its inverse `cc__DecodeUv` are functions of the
header `CatmullClark.h`; the kernels take them as the parameters `cc__EncodeUv`
and `cc__DecodeUv`. -/

/-- Modelled from the spec: `ccm_UvCount` of the header, the number of records
of the array `uvs` of the cage (section 6). -/
def ccm_UvCount (cage : cc_Mesh) : Nat := cage.uvs.length

/-- Modelled from the spec: `ccm_HalfedgeVertexUvID` of the header reads the
field `uvID` of a halfedge record of the cage (section 3). -/
def ccm_HalfedgeVertexUvID (cage : cc_Mesh) (halfedgeID : Int) : Option Int :=
  (readAt cage.halfedges halfedgeID).map (fun r => r.uvID)

/-- Modelled from the spec: `ccm_HalfedgeVertexUv` of the header, the texture
coordinate of a halfedge of the cage: the record of the array `uvs` at the
`uvID` of the halfedge (section 3, section 6). -/
def ccm_HalfedgeVertexUv (cage : cc_Mesh) (halfedgeID : Int) : Option cc_VertexUv :=
  (ccm_HalfedgeVertexUvID cage halfedgeID).bind (readAt cage.uvs)

/-- Modelled from the spec: `ccs__HalfedgeVertexUvID` of the header reads the
field `uvID` of the halfedge record of the level (section 4.4: "stored per
halfedge as a packed pair"). -/
def ccs__HalfedgeVertexUvID (subd : cc_Subd) (halfedgeID : Int) (depth : Nat) : Option Int := do
  let level ← ccs__Level subd.halfedges depth
  (readAt level halfedgeID).map (fun r => r.uvID)

/-- Modelled from the spec: `ccs_HalfedgeVertexUv` of the header, the texture
coordinate of a halfedge of a level: the packed pair of its `uvID`, unpacked
(section 4.4). -/
def ccs_HalfedgeVertexUv (cc__DecodeUv : Int → cc_VertexUv) (subd : cc_Subd)
    (halfedgeID : Int) (depth : Nat) : Option cc_VertexUv :=
  (ccs__HalfedgeVertexUvID subd halfedgeID depth).map cc__DecodeUv

/-- Modelled from the spec: `cc__Lerp2f` of the header, the linear interpolation
`x + u (y - x)` of two texture coordinates (section 4.4: "midpoints of adjacent
corners"). -/
def cc__Lerp2f (x y : cc_VertexUv) (u : ℚ) : cc_VertexUv := x + u • (y - x)

/-- The assignment `halfedges[i].uvID = v`. -/
def setUvID (xs : List cc_Halfedge_SemiRegular) (i v : Int) :
    Option (List cc_Halfedge_SemiRegular) :=
  writeAt xs i (fun r => { r with uvID := v })

/-- The four assignments `newHalfedges[i]->uvID = ...` that end an iteration of
`ccs__RefineCageVertexUvs` and of `ccs__RefineVertexUvs`: `newHalfedges[i]` is
the slot `4 * halfedgeID + i` of `halfedgesOut`. -/
def writeNewUvs (halfedgesOut : List cc_Halfedge_SemiRegular)
    (halfedgeID : Int) (uvIDs : Int × Int × Int × Int) :
    Option (List cc_Halfedge_SemiRegular) := do
  let out ← setUvID halfedgesOut (4 * halfedgeID + 0) uvIDs.1
  let out ← setUvID out (4 * halfedgeID + 1) uvIDs.2.1
  let out ← setUvID out (4 * halfedgeID + 2) uvIDs.2.2.1
  setUvID out (4 * halfedgeID + 3) uvIDs.2.2.2

/-- The reads and the arithmetic of an iteration of `ccs__RefineCageVertexUvs`:
the four values that are assigned to `newHalfedges[0..3]->uvID`.  The inner loop
follows `next` from the halfedge until it is back, for at most `fuel`
iterations; its local variables are `faceUv` and `m`. -/
def ccs__RefineCageVertexUvs_reads (cc__EncodeUv : cc_VertexUv → Int) (cage : cc_Mesh)
    (fuel : Nat) (halfedgeID : Int) : Option (Int × Int × Int × Int) := do
  let prevID ← ccm_HalfedgePrevID cage halfedgeID
  let nextID ← ccm_HalfedgeNextID cage halfedgeID
  let uv ← ccm_HalfedgeVertexUv cage halfedgeID
  let nextUv ← ccm_HalfedgeVertexUv cage nextID
  let prevUv ← ccm_HalfedgeVertexUv cage prevID
  let faceUv := uv
  let m : Nat := 1
  let edgeUv := cc__Lerp2f uv nextUv (1 / 2)
  let prevEdgeUv := cc__Lerp2f uv prevUv (1 / 2)
  let start ← ccm_HalfedgeNextID cage halfedgeID
  let r ← forLoop (fun halfedgeIt => decide (halfedgeIt ≠ halfedgeID))
    (fun halfedgeIt (acc : cc_VertexUv × Nat) => do
      let uv ← ccm_HalfedgeVertexUv cage halfedgeIt
      let next ← ccm_HalfedgeNextID cage halfedgeIt
      some (next, ((acc.1.1 + uv.1, acc.1.2 + uv.2), acc.2 + 1)))
    fuel start (faceUv, m)
  let faceUv := r.2.1
  let m := r.2.2
  let faceUv : cc_VertexUv := (faceUv.1 / (m : ℚ), faceUv.2 / (m : ℚ))
  some (cc__EncodeUv uv, cc__EncodeUv edgeUv, cc__EncodeUv faceUv, cc__EncodeUv prevEdgeUv)

/-- One iteration of the loop of `ccs__RefineCageVertexUvs`. -/
def ccs__RefineCageVertexUvs_iteration (cc__EncodeUv : cc_VertexUv → Int) (cage : cc_Mesh)
    (fuel : Nat) (halfedgesOut : List cc_Halfedge_SemiRegular) (halfedgeID : Int) :
    Option (List cc_Halfedge_SemiRegular) := do
  let uvIDs ← ccs__RefineCageVertexUvs_reads cc__EncodeUv cage fuel halfedgeID
  writeNewUvs halfedgesOut halfedgeID uvIDs

/-- The kernel `ccs__RefineCageVertexUvs`: `halfedgesOut = subd->halfedges` is
the region of level 1. -/
def ccs__RefineCageVertexUvs (cc__EncodeUv : cc_VertexUv → Int) (subd : cc_Subd) (fuel : Nat) :
    Option cc_Subd := do
  let cage := subd.cage
  let halfedgeCount := ccm_HalfedgeCount cage
  let halfedgesOut ← subd.halfedges[0]?
  let out ← (List.range halfedgeCount).foldlM
    (fun out (halfedgeID : Nat) =>
      ccs__RefineCageVertexUvs_iteration cc__EncodeUv cage fuel out halfedgeID)
    halfedgesOut
  some { subd with halfedges := subd.halfedges.set 0 out }

/-- The reads and the arithmetic of an iteration of `ccs__RefineVertexUvs`: the
four values that are assigned to `newHalfedges[0..3]->uvID`; the first one is
the `uvID` of the parent halfedge, as it is. -/
def ccs__RefineVertexUvs_reads (cc__EncodeUv : cc_VertexUv → Int)
    (cc__DecodeUv : Int → cc_VertexUv) (subd : cc_Subd) (depth : Nat) (fuel : Nat)
    (halfedgeID : Int) : Option (Int × Int × Int × Int) := do
  let prevID := ccm_HalfedgePrevID_Quad halfedgeID
  let nextID := ccm_HalfedgeNextID_Quad halfedgeID
  let uv ← ccs_HalfedgeVertexUv cc__DecodeUv subd halfedgeID depth
  let nextUv ← ccs_HalfedgeVertexUv cc__DecodeUv subd nextID depth
  let prevUv ← ccs_HalfedgeVertexUv cc__DecodeUv subd prevID depth
  let faceUv := uv
  let edgeUv := cc__Lerp2f uv nextUv (1 / 2)
  let prevEdgeUv := cc__Lerp2f uv prevUv (1 / 2)
  let r ← forLoop (fun halfedgeIt => decide (halfedgeIt ≠ halfedgeID))
    (fun halfedgeIt (faceUv : cc_VertexUv) => do
      let uv ← ccs_HalfedgeVertexUv cc__DecodeUv subd halfedgeIt depth
      some (ccs_HalfedgeNextID subd halfedgeIt depth, (faceUv.1 + uv.1, faceUv.2 + uv.2)))
    fuel (ccs_HalfedgeNextID subd halfedgeID depth) faceUv
  let faceUv := r.2
  let faceUv : cc_VertexUv := (faceUv.1 / 4, faceUv.2 / 4)
  let uvID ← ccs__HalfedgeVertexUvID subd halfedgeID depth
  some (uvID, cc__EncodeUv edgeUv, cc__EncodeUv faceUv, cc__EncodeUv prevEdgeUv)

/-- One iteration of the loop of `ccs__RefineVertexUvs`. -/
def ccs__RefineVertexUvs_iteration (cc__EncodeUv : cc_VertexUv → Int)
    (cc__DecodeUv : Int → cc_VertexUv) (subd : cc_Subd) (depth : Nat) (fuel : Nat)
    (halfedgesOut : List cc_Halfedge_SemiRegular) (halfedgeID : Int) :
    Option (List cc_Halfedge_SemiRegular) := do
  let uvIDs ← ccs__RefineVertexUvs_reads cc__EncodeUv cc__DecodeUv subd depth fuel halfedgeID
  writeNewUvs halfedgesOut halfedgeID uvIDs

/-- The kernel `ccs__RefineVertexUvs`: `halfedgesOut = &subd->halfedges[stride]`
is the region of level `depth + 1`. -/
def ccs__RefineVertexUvs (cc__EncodeUv : cc_VertexUv → Int) (cc__DecodeUv : Int → cc_VertexUv)
    (subd : cc_Subd) (depth : Nat) (fuel : Nat) : Option cc_Subd := do
  let cage := subd.cage
  let halfedgeCount := ccm_HalfedgeCountAtDepth cage depth
  let halfedgesOut ← ccs__Level subd.halfedges (depth + 1)
  let out ← (List.range halfedgeCount).foldlM
    (fun out (halfedgeID : Nat) =>
      ccs__RefineVertexUvs_iteration cc__EncodeUv cc__DecodeUv subd depth fuel out halfedgeID)
    halfedgesOut
  some { subd with halfedges := subd.halfedges.set depth out }

/-- The entry point `ccs_RefineVertexUvs`: when the cage has texture
coordinates, the cage kernel, then the kernel of every depth
`1 ≤ depth < maxDepth`; nothing otherwise. -/
def ccs_RefineVertexUvs (cc__EncodeUv : cc_VertexUv → Int) (cc__DecodeUv : Int → cc_VertexUv)
    (subd : cc_Subd) (fuel : Nat) : Option cc_Subd :=
  if ccm_UvCount subd.cage > 0 then do
    let maxDepth := ccs_MaxDepth subd
    let subd ← ccs__RefineCageVertexUvs cc__EncodeUv subd fuel
    (List.range' 1 (maxDepth - 1)).foldlM
      (fun s depth => ccs__RefineVertexUvs cc__EncodeUv cc__DecodeUv s depth fuel) subd
  else some subd

/-! ## The entry points of the refinement -/

/-- The function `ccs__RefineTopology`: the halfedges, then the creases, then
(the source is compiled without `CC_DISABLE_UV`) the texture coordinates. -/
def ccs__RefineTopology (cc__EncodeUv : cc_VertexUv → Int) (cc__DecodeUv : Int → cc_VertexUv)
    (subd : cc_Subd) (fuel : Nat) : Option cc_Subd := do
  let subd ← ccs_RefineHalfedges subd
  let subd ← ccs_RefineCreases subd
  ccs_RefineVertexUvs cc__EncodeUv cc__DecodeUv subd fuel

/-- The entry point `ccs_Refine_Scatter`. -/
def ccs_Refine_Scatter (cc__EncodeUv : cc_VertexUv → Int) (cc__DecodeUv : Int → cc_VertexUv)
    (subd : cc_Subd) (fuel : Nat) : Option cc_Subd := do
  let subd ← ccs__RefineTopology cc__EncodeUv cc__DecodeUv subd fuel
  ccs_RefineVertexPoints_Scatter subd fuel

/-- The entry point `ccs_Refine_Gather`. -/
def ccs_Refine_Gather (cc__EncodeUv : cc_VertexUv → Int) (cc__DecodeUv : Int → cc_VertexUv)
    (subd : cc_Subd) (edgeToHalfedgeID : Int → Nat → Int)
    (vertexToHalfedgeID_First : Int → Int) (fuel : Nat) : Option cc_Subd := do
  let subd ← ccs__RefineTopology cc__EncodeUv cc__DecodeUv subd fuel
  ccs_RefineVertexPoints_Gather subd edgeToHalfedgeID vertexToHalfedgeID_First fuel

/-- The entry point `ccs_Refine_NoCreases_Scatter`. -/
def ccs_Refine_NoCreases_Scatter (cc__EncodeUv : cc_VertexUv → Int)
    (cc__DecodeUv : Int → cc_VertexUv) (subd : cc_Subd) (fuel : Nat) : Option cc_Subd := do
  let subd ← ccs__RefineTopology cc__EncodeUv cc__DecodeUv subd fuel
  ccs_RefineVertexPoints_NoCreases_Scatter subd fuel

/-- The entry point `ccs_Refine_NoCreases_Gather`. -/
def ccs_Refine_NoCreases_Gather (cc__EncodeUv : cc_VertexUv → Int)
    (cc__DecodeUv : Int → cc_VertexUv) (subd : cc_Subd) (edgeToHalfedgeID : Int → Nat → Int)
    (vertexToHalfedgeID_First : Int → Int) (fuel : Nat) : Option cc_Subd := do
  let subd ← ccs__RefineTopology cc__EncodeUv cc__DecodeUv subd fuel
  ccs_RefineVertexPoints_NoCreases_Gather subd edgeToHalfedgeID vertexToHalfedgeID_First fuel

/-! ## C21, C23, C24: the creased scatter kernels against the gather kernels -/

/-- A subdivision of depth 1 of the two glued triangles, all of sharpness 0,
after the face point kernel: the edge slots and the vertex slots are zero. -/
def trianglesFacesSubd : cc_Subd :=
  { cage := trianglesMesh, maxDepth := 1, halfedges := [], creases := [],
    vertexPoints := [trianglesFacePoints] }

/-- C21, at a failing input: the boundary edge 1 of the two glued triangles has
the sharpness 0, the halfedge 1 from `(1, 0, 0)` to `(0, 1, 0)` and the face
point `(1/3, 1/3, 0)`.  From the same face points `ccs__CreasedCageEdgePoints_Gather`
writes `(5/12, 5/12, 0)` for it and the one contribution of
`ccs__CreasedCageEdgePoints_Scatter` is `(1/3, 1/12, 0)`; the interior edge 0
gets `(1/2, 0, 0)` from both.  At depth 1 of the open quad, the boundary edge 0
of sharpness `1/2` gets `(1/4, 1/16, 0)` from `ccs__CreasedEdgePoints_Gather` and
`(5/32, 1/32, 0)` from `ccs__CreasedEdgePoints_Scatter`. -/
theorem C21_creased_edge_scatter_boundary :
    ccm_HalfedgeTwinID trianglesMesh 1 = some (-1) ∧
    ccm_CreaseSharpness trianglesMesh 1 = some 0 ∧
    (ccs__CreasedCageEdgePoints_Gather trianglesFacesSubd).bind
        (fun s => s.vertexPoints[0]?.bind (fun l => l[7]?))
      = some ((5 / 12, 5 / 12, 0) : cc_VertexPoint) ∧
    (ccs__CreasedCageEdgePoints_Scatter trianglesFacesSubd).bind
        (fun s => s.vertexPoints[0]?.bind (fun l => l[7]?))
      = some ((1 / 3, 1 / 12, 0) : cc_VertexPoint) ∧
    (ccs__CreasedCageEdgePoints_Gather trianglesFacesSubd).bind
        (fun s => s.vertexPoints[0]?.bind (fun l => l[6]?))
      = some ((1 / 2, 0, 0) : cc_VertexPoint) ∧
    (ccs__CreasedCageEdgePoints_Scatter trianglesFacesSubd).bind
        (fun s => s.vertexPoints[0]?.bind (fun l => l[6]?))
      = some ((1 / 2, 0, 0) : cc_VertexPoint) ∧
    (ccs__CreasedEdgePoints_Gather quadCreasedSubd quadEdgeToHalfedgeID 1).bind
        (fun s => s.vertexPoints[1]?.bind (fun l => l[13]?))
      = some ((1 / 4, 1 / 16, 0) : cc_VertexPoint) ∧
    (ccs__CreasedEdgePoints_Scatter quadCreasedSubd 1).bind
        (fun s => s.vertexPoints[1]?.bind (fun l => l[13]?))
      = some ((5 / 32, 1 / 32, 0) : cc_VertexPoint) := by
  decide!

/-- A subdivision of depth 1 of `sharpTriangles` after the face point and the
edge point kernels: the vertex slots are zero. -/
def sharpTrianglesSubd : cc_Subd :=
  { cage := sharpTriangles, maxDepth := 1, halfedges := [], creases := [],
    vertexPoints := [sharpTrianglesPoints] }

/-- C23, at a failing input: the vertex 0 of `sharpTriangles`, at the origin, has
an open ring of two halfedges (4 and 0) and three edges, the two boundary edges
of sharpness 1 and the interior edge of sharpness 0.  From the same face and
edge points `ccs__CreasedCageVertexPoints_Gather` writes `(1/16, 0, 0)` for it,
and the contributions of `ccs__CreasedCageVertexPoints_Scatter` sum to
`(1/16, 1/16, 0)`. -/
theorem C23_creased_cage_vertex_scatter_open_ring :
    ((List.range (ccm_HalfedgeCount sharpTriangles)).filter
      (fun g : Nat => ccm_HalfedgeVertexID sharpTriangles g = some 0)) = [0, 4] ∧
    ccm_HalfedgeTwinID sharpTriangles 4 = some (-1) ∧
    (ccs__CreasedCageVertexPoints_Gather sharpTrianglesSubd 2).bind
        (fun s => s.vertexPoints[0]?.bind (fun l => l[0]?))
      = some ((1 / 16, 0, 0) : cc_VertexPoint) ∧
    (ccs__CreasedCageVertexPoints_Scatter sharpTrianglesSubd 2).bind
        (fun s => s.vertexPoints[0]?.bind (fun l => l[0]?))
      = some ((1 / 16, 1 / 16, 0) : cc_VertexPoint) := by
  decide!

/-- C24, at a failing input: the corner 2 of level 1 of the open quad, at
`(1, 1, 0)`, has one halfedge (8) and two edges, both of sharpness 0 in
`quadSharpSubd`: its valence is 2 and its crease count 0.  There
`ccs__CreasedVertexPoints_Gather`, which tests `creaseCount <= 1` first, takes
the smooth rule and writes `(5/16, 1/16, 0)`, and
`ccs__CreasedVertexPoints_Scatter`, which tests `valence == 2` first, takes the
corner rule: its one contribution is the old position `(1, 1, 0)`. -/
theorem C24_creased_vertex_scatter_rule_order :
    ((List.range (ccm_HalfedgeCountAtDepth quadSharpSubd.cage 1)).filter
      (fun g : Nat => ccs_HalfedgeVertexID quadSharpSubd g 1 = some 2)) = [8] ∧
    ccs_HalfedgeSharpness quadSharpSubd 8 1 = some 0 ∧
    ccs_HalfedgeSharpness quadSharpSubd (ccs_HalfedgePrevID quadSharpSubd 8 1) 1 = some 0 ∧
    ccs_VertexPoint quadSharpSubd 2 1 = some ((1, 1, 0) : cc_VertexPoint) ∧
    (ccs__CreasedVertexPoints_Gather quadSharpSubd quadEdgeToHalfedgeID
        quadVertexToHalfedgeID_First 1 4).bind
        (fun s => s.vertexPoints[1]?.bind (fun l => l[2]?))
      = some ((5 / 16, 1 / 16, 0) : cc_VertexPoint) ∧
    (ccs__CreasedVertexPoints_Scatter quadSharpSubd 1 4).bind
        (fun s => s.vertexPoints[1]?.bind (fun l => l[2]?))
      = some ((1, 1, 0) : cc_VertexPoint) ∧
    ccs__CreasedVertexPoints_Gather_rule (1, 1, 0) (3 / 4, 1, 0) 0 (-1)
        (cc_VertexLocals.first (1, 3 / 4, 0) (3 / 4, 3 / 4, 0) 0)
      = ((5 / 16, 1 / 16, 0) : cc_VertexPoint) ∧
    ccs__CreasedVertexPoints_Scatter_rule (1, 1, 0) (3 / 4, 1, 0) (1, 3 / 4, 0)
        (3 / 4, 3 / 4, 0) 0 0 (-1) (cc_VertexCounts.first 0)
      = ((1, 1, 0) : cc_VertexPoint) := by
  decide!

/-! ## C22: the vertex points without creases, gather against scatter -/

/-- The second walk around the vertex of the cage halfedge `halfedgeID`, which
the scatter kernel takes when the first walk has left the mesh
(`forwardIterator < 0`): the halfedges `ccm_NextVertexHalfedgeID` reaches from
`halfedgeID` as long as they are not negative and not `halfedgeID`. -/
def ccm_VertexRingNext (cage : cc_Mesh) (fuel : Nat) (halfedgeID forwardIterator : Int) :
    Option (List Int) := do
  let back ← ccm_NextVertexHalfedgeID cage halfedgeID
  let r ← ringWalk (ccm_NextVertexHalfedgeID cage)
    (fun backwardIterator => decide (forwardIterator < 0) && decide (backwardIterator ≥ 0)
      && decide (backwardIterator ≠ halfedgeID)) fuel back
  some r.1

/-- The second walk around the vertex of the halfedge `halfedgeID` of level
`depth`. -/
def ccs_VertexRingNext (subd : cc_Subd) (depth : Nat) (fuel : Nat)
    (halfedgeID forwardIterator : Int) : Option (List Int) := do
  let back ← ccs_NextVertexHalfedgeID subd halfedgeID depth
  let r ← ringWalk (fun backwardIterator => ccs_NextVertexHalfedgeID subd backwardIterator depth)
    (fun backwardIterator => decide (forwardIterator < 0) && decide (backwardIterator ≥ 0)
      && decide (backwardIterator ≠ halfedgeID)) fuel back
  some r.1

/-- The halfedges of the cage whose vertex is `v`, in increasing order. -/
def ccm_VertexHalfedges (cage : cc_Mesh) (v : Int) : List Int :=
  ((List.range (ccm_HalfedgeCount cage)).filter
    (fun g : Nat => ccm_HalfedgeVertexID cage g = some v)).map Int.ofNat

/-- The halfedges of level `depth` whose vertex is `v`, in increasing order. -/
def ccs_VertexHalfedges (subd : cc_Subd) (depth : Nat) (v : Int) : List Int :=
  ((List.range (ccm_HalfedgeCountAtDepth subd.cage depth)).filter
    (fun g : Nat => ccs_HalfedgeVertexID subd g depth = some v)).map Int.ofNat

/-- A loop that only counts its iterations. -/
theorem foldl_count_int (ring : List Int) :
    ∀ n : Int, ring.foldl (fun (s : Int) (_ : Int) => s + 1) n = n + (ring.length : Int) := by
  induction ring with
  | nil => intro n; simp
  | cons a t ih =>
    intro n
    rw [List.foldl_cons, ih, List.length_cons]
    push_cast
    ring

/-- The two loops of `ccs__CageVertexPoints_Scatter` count the halfedges of the
two walks around the vertex. -/
theorem cage_scatter_valence (cage : cc_Mesh) (fuel : Nat) (g : Int) (ring back : List Int)
    (last : Int) (hr : ccm_VertexRing cage fuel g = some (ring, last))
    (hb : ccm_VertexRingNext cage fuel g last = some back) :
    ccs__CageVertexPoints_Scatter_valence cage fuel g
      = some (last, ((ring ++ back).length : Int)) := by
  unfold ccm_VertexRing at hr
  unfold ccm_VertexRingNext at hb
  cases hs : ccm_PrevVertexHalfedgeID cage g with
  | none => simp [hs] at hr
  | some start =>
    simp only [hs, Option.bind_eq_bind, Option.some_bind] at hr
    cases hw : ringWalk (ccm_PrevVertexHalfedgeID cage)
        (fun iterator => decide (iterator ≥ 0) && decide (iterator ≠ g)) fuel start with
    | none =>
      rw [hw] at hr
      exact absurd hr (by simp)
    | some r =>
      obtain ⟨rest, l⟩ := r
      rw [hw] at hr
      simp only [Option.some_bind, Option.some.injEq, Prod.mk.injEq] at hr
      obtain ⟨rfl, rfl⟩ := hr
      cases hn : ccm_NextVertexHalfedgeID cage g with
      | none => simp [hn] at hb
      | some bstart =>
        simp only [hn, Option.bind_eq_bind, Option.some_bind] at hb
        cases hw2 : ringWalk (ccm_NextVertexHalfedgeID cage)
            (fun backwardIterator => decide (l < 0) && decide (backwardIterator ≥ 0)
              && decide (backwardIterator ≠ g)) fuel bstart with
        | none =>
          rw [hw2] at hb
          exact absurd hb (by simp)
        | some r2 =>
          obtain ⟨brest, bl⟩ := r2
          rw [hw2] at hb
          simp only [Option.some_bind, Option.some.injEq] at hb
          subst hb
          have h1 := forLoop_of_ringWalk (ccm_PrevVertexHalfedgeID cage)
            (fun iterator => decide (iterator ≥ 0) && decide (iterator ≠ g))
            (fun forwardIterator (valence : Int) =>
              (ccm_PrevVertexHalfedgeID cage forwardIterator).map
                (fun next => (next, valence + 1)))
            (fun _ (valence : Int) => valence + 1) fuel start rest l 1 hw
            (by intro h _ nxt s hst; simp [hst])
          beta_reduce at h1
          rw [foldl_count_int] at h1
          have h2 := forLoop_of_ringWalk (ccm_NextVertexHalfedgeID cage)
            (fun backwardIterator => decide (l < 0) && decide (backwardIterator ≥ 0)
              && decide (backwardIterator ≠ g))
            (fun backwardIterator (valence : Int) =>
              (ccm_NextVertexHalfedgeID cage backwardIterator).map
                (fun next => (next, valence + 1)))
            (fun _ (valence : Int) => valence + 1) fuel bstart brest bl
            (1 + (rest.length : Int)) hw2
            (by intro h _ nxt s hst; simp [hst])
          beta_reduce at h2
          rw [foldl_count_int] at h2
          unfold ccs__CageVertexPoints_Scatter_valence
          simp only [hs, hn, Option.bind_eq_bind, Option.some_bind]
          rw [h1]
          simp only [Option.some_bind]
          rw [h2]
          simp only [Option.some_bind, Option.some.injEq, Prod.mk.injEq, true_and,
            List.length_append, List.length_cons]
          push_cast
          ring

/-- The contribution of a halfedge to its vertex point, from its reads. -/
theorem cage_vertex_scatter_body (cage : cc_Mesh) (V F : Int) (pts : List cc_VertexPoint)
    (fuel : Nat) (g v : Int) (Vp Eg Fg : cc_VertexPoint) (ring back : List Int) (last : Int)
    (hv : ccm_HalfedgeVertexID cage g = some v) (hV : ccm_VertexPoint cage v = some Vp)
    (hE : (ccm_HalfedgeEdgeID cage g).bind (fun e => readAt pts (V + F + e)) = some Eg)
    (hF : (ccm_HalfedgeFaceID cage g).bind (fun f => readAt pts (V + f)) = some Fg)
    (hr : ccm_VertexRing cage fuel g = some (ring, last))
    (hb : ccm_VertexRingNext cage fuel g last = some back) :
    ccs__CageVertexPoints_Scatter_halfedge cage V F pts fuel g
      = some (v, ccs__VertexPoints_Scatter_weight ((ring ++ back).length : Int) last Vp Fg Eg) := by
  obtain ⟨e, a1, a2⟩ := Option.bind_eq_some.mp hE
  obtain ⟨f, b1, b2⟩ := Option.bind_eq_some.mp hF
  unfold ccs__CageVertexPoints_Scatter_halfedge
  simp only [hv, hV, a1, a2, b1, b2, cage_scatter_valence cage fuel g ring back last hr hb,
    Option.bind_eq_bind, Option.some_bind]

/-- The halfedge `g` of the cage can be scattered to its vertex: the vertex is in
`[0, V0)` and has a position, the edge is in `[0, E0)` and the face in
`[0, F0)`. -/
def ccm_HalfedgeVertexReadable (cage : cc_Mesh) (g : Int) : Prop :=
  (∃ v ∈ ccm_HalfedgeVertexID cage g,
    (0 ≤ v ∧ v < (ccm_VertexCount cage : Int)) ∧ (ccm_VertexPoint cage v).isSome = true) ∧
  ccm_HalfedgePointsInBounds cage g

instance (cage : cc_Mesh) (g : Int) : Decidable (ccm_HalfedgeVertexReadable cage g) := by
  unfold ccm_HalfedgeVertexReadable
  infer_instance

/-- The two walks around the vertex `v` from its halfedge `g` (the walk by
`ccm_PrevVertexHalfedgeID` and, when it leaves the mesh, the walk by
`ccm_NextVertexHalfedgeID`) exit within `fuel` steps and visit the halfedges of
`v`, each once; the first walk leaves the mesh if and only if the walk of the
gather kernel, whose exit value is `last0`, does. -/
def ccm_HalfedgeFan (cage : cc_Mesh) (fuel : Nat) (v last0 g : Int) : Prop :=
  ∃ fw ∈ ccm_VertexRing cage fuel g, ∃ bw ∈ ccm_VertexRingNext cage fuel g fw.2,
    List.Perm (fw.1 ++ bw) (ccm_VertexHalfedges cage v) ∧ (fw.2 < 0 ↔ last0 < 0)

instance (cage : cc_Mesh) (fuel : Nat) (v last0 g : Int) :
    Decidable (ccm_HalfedgeFan cage fuel v last0 g) := by
  unfold ccm_HalfedgeFan
  infer_instance

/-- The vertex `v` of the cage is carried by its halfedges: the halfedge
`ccm_VertexToHalfedgeID(cage, v)` has the vertex `v`, and the walks from every
halfedge of `v` visit the halfedges of `v` (`ccm_HalfedgeFan`). -/
def ccm_VertexCarried (cage : cc_Mesh) (fuel : Nat) (v : Nat) : Prop :=
  ∃ h0 ∈ ccm_VertexToHalfedgeID cage v, ccm_HalfedgeVertexID cage h0 = some (v : Int) ∧
    ∃ r0 ∈ ccm_VertexRing cage fuel h0,
      ∀ g ∈ ccm_VertexHalfedges cage v, ccm_HalfedgeFan cage fuel v r0.2 g

instance (cage : cc_Mesh) (fuel : Nat) (v : Nat) :
    Decidable (ccm_VertexCarried cage fuel v) := by
  unfold ccm_VertexCarried
  infer_instance

/-- The cage is a halfedge mesh as far as the vertex point kernels go: every
halfedge can be scattered (`ccm_HalfedgeVertexReadable`) and every vertex is
carried by its halfedges (`ccm_VertexCarried`). -/
def ccm_VerticesCarried (cage : cc_Mesh) (fuel : Nat) : Prop :=
  (∀ g : Nat, g < ccm_HalfedgeCount cage → ccm_HalfedgeVertexReadable cage g) ∧
  (∀ v : Nat, v < ccm_VertexCount cage → ccm_VertexCarried cage fuel v)

instance (cage : cc_Mesh) (fuel : Nat) : Decidable (ccm_VerticesCarried cage fuel) := by
  unfold ccm_VerticesCarried
  infer_instance

theorem mem_ccm_VertexHalfedges (cage : cc_Mesh) (v g : Int) :
    g ∈ ccm_VertexHalfedges cage v ↔
      ∃ i : Nat, i < ccm_HalfedgeCount cage ∧ ccm_HalfedgeVertexID cage i = some v ∧
        g = (i : Int) := by
  unfold ccm_VertexHalfedges
  simp only [List.mem_map, List.mem_filter, List.mem_range, decide_eq_true_eq]
  constructor
  · rintro ⟨i, ⟨a, b⟩, rfl⟩
    exact ⟨i, a, b, rfl⟩
  · rintro ⟨i, a, b, rfl⟩
    exact ⟨i, ⟨a, b⟩, rfl⟩

/-- The second walk is empty when the first one has come back to its start. -/
theorem ccm_VertexRingNext_closed (cage : cc_Mesh) (fuel : Nat) (g last : Int) (bw : List Int)
    (hl : ¬ last < 0) (hb : ccm_VertexRingNext cage fuel g last = some bw) : bw = [] := by
  unfold ccm_VertexRingNext at hb
  cases hn : ccm_NextVertexHalfedgeID cage g with
  | none => simp [hn] at hb
  | some bstart =>
    simp only [hn, Option.bind_eq_bind, Option.some_bind] at hb
    unfold ringWalk at hb
    simp only [hl, decide_False, Bool.false_and, Bool.false_eq_true, if_false,
      Option.some_bind, Option.some.injEq] at hb
    exact hb.symm

theorem list_sum_map_smul (l : List Int) (a : ℚ) (f : Int → cc_VertexPoint) :
    (l.map (fun g => a • f g)).sum = a • (l.map f).sum := by
  induction l with
  | nil => simp
  | cons b l ih => simp only [List.map_cons, List.sum_cons, ih, smul_add]

/-- The sum of the contributions of the halfedges of a vertex: the smooth rule on
a closed ring, the old position on an open ring. -/
theorem vertex_scatter_sum (hs ring : List Int) (Vp : cc_VertexPoint)
    (E F : Int → cc_VertexPoint) (closed : Bool) (last : Int → Int)
    (hne : hs ≠ [])
    (hp : closed = true → List.Perm ring hs)
    (hl : ∀ g ∈ hs, (last g < 0 ↔ closed = false)) :
    (hs.map (fun g => ccs__VertexPoints_Scatter_weight (hs.length : Int) (last g) Vp
        (F g) (E g))).sum
      = vertexRule Vp ((ring.map (fun g => (4 : ℚ) • E g - F g)).sum) (ring.length : ℚ)
          closed := by
  have hn : (hs.length : ℚ) ≠ 0 := by
    have : hs.length ≠ 0 := fun h => hne (List.length_eq_zero.mp h)
    exact_mod_cast this
  cases closed with
  | false =>
    have e : hs.map (fun g => ccs__VertexPoints_Scatter_weight (hs.length : Int) (last g) Vp
        (F g) (E g)) = hs.map (fun _ => (1 / (hs.length : ℚ)) • Vp) := by
      apply List.map_congr_left
      intro g hg
      have := (hl g hg).mpr rfl
      unfold ccs__VertexPoints_Scatter_weight
      simp only [if_pos this, mul_zero, zero_smul, add_zero, Int.cast_natCast]
    rw [e, List.map_const', List.sum_replicate]
    unfold vertexRule
    simp only [Bool.false_eq_true, if_false, ← Nat.cast_smul_eq_nsmul ℚ, smul_smul]
    rw [mul_one_div_cancel hn, one_smul]
  | true =>
    have hper := hp rfl
    have e : hs.map (fun g => ccs__VertexPoints_Scatter_weight (hs.length : Int) (last g) Vp
        (F g) (E g)) = hs.map (fun g => (1 / ((hs.length : ℚ) * (hs.length : ℚ))) •
          ((4 : ℚ) • E g - F g)
          + ((1 / (hs.length : ℚ)) - 3 / ((hs.length : ℚ) * (hs.length : ℚ))) • Vp) := by
      apply List.map_congr_left
      intro g hg
      have : ¬ last g < 0 := fun h => by
        have := (hl g hg).mp h
        exact absurd this (by simp)
      unfold ccs__VertexPoints_Scatter_weight
      simp only [if_neg this, mul_one, Int.cast_natCast]
      match_scalars <;> (field_simp; try ring)
    rw [e, list_sum_map_add, List.map_const', List.sum_replicate, list_sum_map_smul,
      ← (hper.map _).sum_eq, hper.length_eq]
    unfold vertexRule
    simp only [if_true, ← Nat.cast_smul_eq_nsmul ℚ, smul_smul]
    congr 2
    field_simp
    ring

/-- The exit of the walk around a vertex: the iterator is negative or back at the
start. -/
theorem ccm_VertexRing_exit (cage : cc_Mesh) (fuel : Nat) (h : Int) (ring : List Int)
    (last : Int) (hr : ccm_VertexRing cage fuel h = some (ring, last)) :
    (last < 0 ↔ decide (last = h) = false) := by
  have h0 := ccm_VertexRing_nonneg cage fuel h _ hr
  unfold ccm_VertexRing at hr
  cases hs : ccm_PrevVertexHalfedgeID cage h with
  | none => simp [hs] at hr
  | some start =>
    simp only [hs, Option.bind_eq_bind, Option.some_bind] at hr
    obtain ⟨r, hw, hq⟩ := Option.bind_eq_some.mp hr
    obtain ⟨r1, r2⟩ := r
    simp only [Option.some.injEq, Prod.mk.injEq] at hq
    obtain ⟨_, rfl⟩ := hq
    have hc := (ringWalk_mem _ _ fuel start r1 r2 hw).2
    simp only [Bool.and_eq_false_imp, decide_eq_true_eq, decide_eq_false_iff_not, ge_iff_le,
      ne_eq, not_not] at hc
    simp only [decide_eq_false_iff_not]
    constructor
    · intro a b
      omega
    · intro a
      by_contra b
      exact a (hc (by omega))

theorem ccm_HalfedgeVertexID_lt (cage : cc_Mesh) (h v : Int)
    (hv : ccm_HalfedgeVertexID cage h = some v) :
    ∃ i : Nat, i < ccm_HalfedgeCount cage ∧ h = (i : Int) := by
  unfold ccm_HalfedgeVertexID at hv
  cases hx : readAt cage.halfedges h with
  | none => simp [hx] at hv
  | some x =>
    obtain ⟨a, b⟩ := (readAt_eq_some_iff _ _ _).mp hx
    have hlt : h.toNat < cage.halfedges.length := by
      by_contra c
      rw [List.getElem?_eq_none (by omega)] at b
      cases b
    exact ⟨h.toNat, hlt, by omega⟩

/-- What the body of `ccs__CageVertexPoints_Scatter` reads for a halfedge of a
cage whose vertices are carried. -/
theorem cage_vertex_scatter_reads (cage : cc_Mesh) (fuel : Nat)
    (hv : ccm_VerticesCarried cage fuel) (o out : List cc_VertexPoint)
    (hlen : ccm_VertexCount cage + ccm_FaceCount cage + ccm_EdgeCount cage ≤ out.length)
    (hag : ∀ j : Nat, ccm_VertexCount cage ≤ j → o[j]? = out[j]?)
    (g : Nat) (hg : g < ccm_HalfedgeCount cage) :
    ∃ (v : Nat) (Vp : cc_VertexPoint) (fw bw : List Int) (last : Int),
      v < ccm_VertexCount cage ∧ ccm_HalfedgeVertexID cage g = some (v : Int) ∧
      ccm_VertexPoint cage v = some Vp ∧
      ccm_VertexRing cage fuel g = some (fw, last) ∧
      ccm_VertexRingNext cage fuel g last = some bw ∧
      ccs__CageVertexPoints_Scatter_halfedge cage (ccm_VertexCount cage) (ccm_FaceCount cage)
          o fuel g
        = some ((v : Int), ccs__VertexPoints_Scatter_weight ((fw ++ bw).length : Int) last Vp
            ((ccm_HalfedgeNewFacePoint cage out g).getD default)
            ((ccm_HalfedgeNewEdgePoint cage out g).getD default)) := by
  obtain ⟨⟨v, a1, ⟨a2, a3⟩, a4⟩, ⟨e, e1, e2, e3⟩, ⟨f, f1, f2, f3⟩⟩ := hv.1 g hg
  rw [Option.mem_def] at a1 e1 f1
  obtain ⟨k, rfl⟩ : ∃ k : Nat, v = (k : Int) := ⟨v.toNat, by omega⟩
  have hk : k < ccm_VertexCount cage := by omega
  obtain ⟨Vp, hV⟩ := Option.isSome_iff_exists.mp a4
  obtain ⟨h0, _, _, r0, _, c3⟩ := hv.2 k hk
  obtain ⟨fw, d1, bw, d2, _, _⟩ := c3 g
    ((mem_ccm_VertexHalfedges cage k g).mpr ⟨g, hg, a1, rfl⟩)
  obtain ⟨fw, last⟩ := fw
  rw [Option.mem_def] at d1 d2
  obtain ⟨r1, r2⟩ := readAt_agree_ge o out (ccm_VertexCount cage)
    ((ccm_VertexCount cage : Int) + (ccm_FaceCount cage : Int) + e) (by omega) (by omega) hag
  obtain ⟨r3, r4⟩ := readAt_agree_ge o out (ccm_VertexCount cage)
    ((ccm_VertexCount cage : Int) + f) (by omega) (by omega) hag
  obtain ⟨x, hx⟩ := Option.isSome_iff_exists.mp r2
  obtain ⟨y, hy⟩ := Option.isSome_iff_exists.mp r4
  refine ⟨k, Vp, fw, bw, last, hk, a1, hV, d1, d2, ?_⟩
  rw [cage_vertex_scatter_body cage _ _ o fuel g k Vp x y fw bw last a1 hV
    (by rw [e1, Option.some_bind, r1, hx]) (by rw [f1, Option.some_bind, r3, hy]) d1 d2]
  simp only [ccm_HalfedgeNewEdgePoint, ccm_HalfedgeNewFacePoint, e1, f1, Option.some_bind,
    hx, hy, Option.getD_some]

/-- The kernel `ccs__CageVertexPoints_Scatter` on a cage whose vertices are
carried by their halfedges: it returns, keeps the face points and the edge
points, and adds to the slot of every vertex the value of `vertexRule` on the
walk of the gather kernel. -/
theorem cage_vertex_scatter_kernel (subd : cc_Subd) (fuel : Nat) (out : List cc_VertexPoint)
    (hout : subd.vertexPoints[0]? = some out)
    (hlen : ccm_VertexCount subd.cage + ccm_FaceCount subd.cage + ccm_EdgeCount subd.cage
      ≤ out.length)
    (hv : ccm_VerticesCarried subd.cage fuel) :
    ∃ outS, ccs__CageVertexPoints_Scatter subd fuel =
        some { subd with vertexPoints := subd.vertexPoints.set 0 outS } ∧
      outS.length = out.length ∧
      (∀ j : Nat, ccm_VertexCount subd.cage ≤ j → outS[j]? = out[j]?) ∧
      ∀ v : Nat, v < ccm_VertexCount subd.cage →
        ∀ (h : Int) (Vp : cc_VertexPoint) (ring : List Int) (last : Int),
          ccm_VertexToHalfedgeID subd.cage v = some h →
          ccm_VertexPoint subd.cage v = some Vp →
          ccm_VertexRing subd.cage fuel h = some (ring, last) →
          outS[v]? = (out[v]?).map (fun p => p + vertexRule Vp
            ((ring.map (fun g => (4 : ℚ) • (ccm_HalfedgeNewEdgePoint subd.cage out g).getD default
              - (ccm_HalfedgeNewFacePoint subd.cage out g).getD default)).sum)
            (ring.length : ℚ) (decide (last = h))) := by
  obtain ⟨oS, s1, s2, s3, s4⟩ := scatter_foldlM (ccm_HalfedgeCount subd.cage)
    0 (ccm_VertexCount subd.cage) 0 rfl
    (fun o (g : Nat) => ccs__CageVertexPoints_Scatter_halfedge subd.cage
      (ccm_VertexCount subd.cage) (ccm_FaceCount subd.cage) o fuel g)
    (fun g => ((ccm_HalfedgeVertexID subd.cage g).getD 0).toNat)
    (fun g => ((ccs__CageVertexPoints_Scatter_halfedge subd.cage (ccm_VertexCount subd.cage)
      (ccm_FaceCount subd.cage) out fuel (g : Nat)).getD default).2)
    out (by omega)
    (by
      intro g hg
      obtain ⟨v, Vp, fw, bw, last, a0, a1, _⟩ :=
        cage_vertex_scatter_reads subd.cage fuel hv out out hlen (fun _ _ => rfl) g hg
      simp only [a1, Option.getD_some, Int.toNat_ofNat]
      exact a0)
    (by
      intro o g hg _ hag
      obtain ⟨v, Vp, fw, bw, last, a0, a1, a2, a3, a4, a5⟩ :=
        cage_vertex_scatter_reads subd.cage fuel hv o out hlen
          (fun j hj => hag j (Or.inr (by omega))) g hg
      obtain ⟨v', Vp', fw', bw', last', _, b1, b2, b3, b4, b5⟩ :=
        cage_vertex_scatter_reads subd.cage fuel hv out out hlen (fun _ _ => rfl) g hg
      rw [a1] at b1
      have hvv : v' = v := by
        have := Option.some.inj b1
        omega
      subst hvv
      rw [a2] at b2; cases b2
      rw [a3] at b3; cases b3
      rw [a4] at b4; cases b4
      beta_reduce
      rw [a5, b5]
      simp only [a1, Option.getD_some, Int.toNat_ofNat])
  simp only [zero_add] at s1 s3 s4
  refine ⟨oS, ?_, s2, fun j hj => s4 j (Or.inr hj), ?_⟩
  · unfold ccs__CageVertexPoints_Scatter
    simp only [hout, Option.bind_eq_bind, Option.some_bind]
    rw [s1]
    rfl
  · intro v hlt h Vp ring last b1 b2 b3
    obtain ⟨h', c1, c2, r0, c3, c4⟩ := hv.2 v hlt
    rw [Option.mem_def] at c1 c3
    rw [b1] at c1; cases c1
    rw [b3] at c3; cases c3
    have hfilter : (List.range (ccm_HalfedgeCount subd.cage)).filter
          (fun g : Nat => ((ccm_HalfedgeVertexID subd.cage g).getD 0).toNat = v)
        = (List.range (ccm_HalfedgeCount subd.cage)).filter
          (fun g : Nat => ccm_HalfedgeVertexID subd.cage g = some (v : Int)) := by
      apply List.filter_congr
      intro g hg
      obtain ⟨v2, Vp2, fw, bw, last2, a0, a1, _⟩ :=
        cage_vertex_scatter_reads subd.cage fuel hv out out hlen (fun _ _ => rfl) g
          (List.mem_range.mp hg)
      simp only [a1, Option.getD_some, Int.toNat_ofNat, Option.some.injEq, Nat.cast_inj]
    obtain ⟨i, hi, rfl⟩ := ccm_HalfedgeVertexID_lt subd.cage h v c2
    have hmem : ((i : Nat) : Int) ∈ ccm_VertexHalfedges subd.cage v :=
      (mem_ccm_VertexHalfedges subd.cage v i).mpr ⟨i, hi, c2, rfl⟩
    have hexit := ccm_VertexRing_exit subd.cage fuel i ring last b3
    have hsum := vertex_scatter_sum (ccm_VertexHalfedges subd.cage v) ring Vp
      (fun g => (ccm_HalfedgeNewEdgePoint subd.cage out g).getD default)
      (fun g => (ccm_HalfedgeNewFacePoint subd.cage out g).getD default)
      (decide (last = (i : Int)))
      (fun g => ((ccm_VertexRing subd.cage fuel g).getD ([], 0)).2)
      (List.ne_nil_of_mem hmem)
      (by
        intro hcl
        obtain ⟨fw, d1, bw, d2, d3, _⟩ := c4 _ hmem
        rw [Option.mem_def] at d1 d2
        rw [b3] at d1; cases d1
        have hnl : ¬ last < 0 := fun a => by
          have := hexit.mp a
          rw [hcl] at this
          cases this
        have := ccm_VertexRingNext_closed subd.cage fuel i last bw hnl d2
        subst this
        simpa using d3)
      (by
        intro g hg
        obtain ⟨fw, d1, bw, d2, d3, d4⟩ := c4 g hg
        rw [Option.mem_def] at d1
        beta_reduce
        rw [d1, Option.getD_some, d4]
        exact hexit)
    have hterm : (ccm_VertexHalfedges subd.cage v).map
          (fun g => ccs__VertexPoints_Scatter_weight
            ((ccm_VertexHalfedges subd.cage v).length : Int)
            (((ccm_VertexRing subd.cage fuel g).getD ([], 0)).2) Vp
            ((ccm_HalfedgeNewFacePoint subd.cage out g).getD default)
            ((ccm_HalfedgeNewEdgePoint subd.cage out g).getD default))
        = ((List.range (ccm_HalfedgeCount subd.cage)).filter
            (fun g : Nat => ccm_HalfedgeVertexID subd.cage g = some (v : Int))).map
          (fun g : Nat => ((ccs__CageVertexPoints_Scatter_halfedge subd.cage
            (ccm_VertexCount subd.cage) (ccm_FaceCount subd.cage) out fuel
            (g : Nat)).getD default).2) := by
      unfold ccm_VertexHalfedges
      rw [List.map_map]
      apply List.map_congr_left
      intro g hg
      have hg2 := List.mem_filter.mp hg
      have hgl := List.mem_range.mp hg2.1
      have hgv : ccm_HalfedgeVertexID subd.cage g = some (v : Int) := by simpa using hg2.2
      obtain ⟨v2, Vp2, fw, bw, last2, a0, a1, a2, a3, a4, a5⟩ :=
        cage_vertex_scatter_reads subd.cage fuel hv out out hlen (fun _ _ => rfl) g hgl
      rw [hgv] at a1
      have hvv : v2 = v := by
        have := Option.some.inj a1
        omega
      subst hvv
      rw [b2] at a2; cases a2
      obtain ⟨fw', d1, bw', d2, d3, _⟩ := c4 g
        ((mem_ccm_VertexHalfedges subd.cage v2 g).mpr ⟨g, hgl, hgv, rfl⟩)
      rw [Option.mem_def] at d1 d2
      rw [a3] at d1; cases d1
      rw [a4] at d2; cases d2
      simp only [Function.comp_apply, Int.ofNat_eq_coe]
      rw [a5, a3]
      simp only [Option.getD_some]
      have hl := d3.length_eq
      unfold ccm_VertexHalfedges at hl
      rw [← hl]
    rw [s3 v hlt, hfilter, ← hterm, hsum]

/-- The two loops of `ccs__VertexPoints_Scatter` count the halfedges of the
two walks around the vertex. -/
theorem level_scatter_valence (subd : cc_Subd) (depth fuel : Nat) (g : Int) (ring back : List Int)
    (last : Int) (hr : ccs_VertexRing subd depth fuel g = some (ring, last))
    (hb : ccs_VertexRingNext subd depth fuel g last = some back) :
    ccs__VertexPoints_Scatter_valence subd depth fuel g
      = some (last, ((ring ++ back).length : Int)) := by
  unfold ccs_VertexRing at hr
  unfold ccs_VertexRingNext at hb
  cases hs : ccs_PrevVertexHalfedgeID subd g depth with
  | none => simp [hs] at hr
  | some start =>
    simp only [hs, Option.bind_eq_bind, Option.some_bind] at hr
    cases hw : ringWalk (fun iterator => ccs_PrevVertexHalfedgeID subd iterator depth)
        (fun iterator => decide (iterator ≥ 0) && decide (iterator ≠ g)) fuel start with
    | none =>
      rw [hw] at hr
      exact absurd hr (by simp)
    | some r =>
      obtain ⟨rest, l⟩ := r
      rw [hw] at hr
      simp only [Option.some_bind, Option.some.injEq, Prod.mk.injEq] at hr
      obtain ⟨rfl, rfl⟩ := hr
      cases hn : ccs_NextVertexHalfedgeID subd g depth with
      | none => simp [hn] at hb
      | some bstart =>
        simp only [hn, Option.bind_eq_bind, Option.some_bind] at hb
        cases hw2 : ringWalk (fun backwardIterator => ccs_NextVertexHalfedgeID subd backwardIterator depth)
            (fun backwardIterator => decide (l < 0) && decide (backwardIterator ≥ 0)
              && decide (backwardIterator ≠ g)) fuel bstart with
        | none =>
          rw [hw2] at hb
          exact absurd hb (by simp)
        | some r2 =>
          obtain ⟨brest, bl⟩ := r2
          rw [hw2] at hb
          simp only [Option.some_bind, Option.some.injEq] at hb
          subst hb
          have h1 := forLoop_of_ringWalk (fun iterator => ccs_PrevVertexHalfedgeID subd iterator depth)
            (fun iterator => decide (iterator ≥ 0) && decide (iterator ≠ g))
            (fun forwardIterator (valence : Int) =>
              (ccs_PrevVertexHalfedgeID subd forwardIterator depth).map
                (fun next => (next, valence + 1)))
            (fun _ (valence : Int) => valence + 1) fuel start rest l 1 hw
            (by intro h _ nxt s hst; simp [hst])
          beta_reduce at h1
          rw [foldl_count_int] at h1
          have h2 := forLoop_of_ringWalk (fun backwardIterator => ccs_NextVertexHalfedgeID subd backwardIterator depth)
            (fun backwardIterator => decide (l < 0) && decide (backwardIterator ≥ 0)
              && decide (backwardIterator ≠ g))
            (fun backwardIterator (valence : Int) =>
              (ccs_NextVertexHalfedgeID subd backwardIterator depth).map
                (fun next => (next, valence + 1)))
            (fun _ (valence : Int) => valence + 1) fuel bstart brest bl
            (1 + (rest.length : Int)) hw2
            (by intro h _ nxt s hst; simp [hst])
          beta_reduce at h2
          rw [foldl_count_int] at h2
          unfold ccs__VertexPoints_Scatter_valence
          simp only [hs, hn, Option.bind_eq_bind, Option.some_bind]
          rw [h1]
          simp only [Option.some_bind]
          rw [h2]
          simp only [Option.some_bind, Option.some.injEq, Prod.mk.injEq, true_and,
            List.length_append, List.length_cons]
          push_cast
          ring

/-- The body of `ccs__VertexPoints_Scatter` on a halfedge whose reads succeed. -/
theorem level_vertex_scatter_body (subd : cc_Subd) (depth : Nat) (V F : Int)
    (pts : List cc_VertexPoint)
    (fuel : Nat) (g v : Int) (Vp Eg Fg : cc_VertexPoint) (ring back : List Int) (last : Int)
    (hv : ccs_HalfedgeVertexID subd g depth = some v)
    (hV : ccs_VertexPoint subd v depth = some Vp)
    (hE : (ccs_HalfedgeEdgeID subd g depth).bind (fun e => readAt pts (V + F + e)) = some Eg)
    (hF : readAt pts (V + ccs_HalfedgeFaceID subd g depth) = some Fg)
    (hr : ccs_VertexRing subd depth fuel g = some (ring, last))
    (hb : ccs_VertexRingNext subd depth fuel g last = some back) :
    ccs__VertexPoints_Scatter_halfedge subd depth V F pts fuel g
      = some (v, ccs__VertexPoints_Scatter_weight ((ring ++ back).length : Int) last Vp Fg Eg) := by
  obtain ⟨e, a1, a2⟩ := Option.bind_eq_some.mp hE
  unfold ccs__VertexPoints_Scatter_halfedge
  simp only [hv, hV, a1, a2, hF, level_scatter_valence subd depth fuel g ring back last hr hb,
    Option.bind_eq_bind, Option.some_bind]

/-- The halfedge `g` of level `depth` can be scattered to its vertex: the vertex
is in `[0, V_depth)` and has a position, the edge is in `[0, E_depth)` and the
face in `[0, F_depth)`. -/
def ccs_HalfedgeVertexReadable (subd : cc_Subd) (depth : Nat) (g : Int) : Prop :=
  (∃ v ∈ ccs_HalfedgeVertexID subd g depth,
    (0 ≤ v ∧ v < (ccm_VertexCountAtDepth_Fast subd.cage depth : Int)) ∧
      (ccs_VertexPoint subd v depth).isSome = true) ∧
  ccs_HalfedgePointsInBounds subd depth g

instance (subd : cc_Subd) (depth : Nat) (g : Int) :
    Decidable (ccs_HalfedgeVertexReadable subd depth g) := by
  unfold ccs_HalfedgeVertexReadable
  infer_instance

/-- The two walks around the vertex `v` of level `depth` from its halfedge `g`
exit within `fuel` steps and visit the halfedges of `v`, each once; the first
walk leaves the mesh if and only if the walk of the gather kernel, whose exit
value is `last0`, does. -/
def ccs_HalfedgeFan (subd : cc_Subd) (depth fuel : Nat) (v last0 g : Int) : Prop :=
  ∃ fw ∈ ccs_VertexRing subd depth fuel g, ∃ bw ∈ ccs_VertexRingNext subd depth fuel g fw.2,
    List.Perm (fw.1 ++ bw) (ccs_VertexHalfedges subd depth v) ∧ (fw.2 < 0 ↔ last0 < 0)

instance (subd : cc_Subd) (depth fuel : Nat) (v last0 g : Int) :
    Decidable (ccs_HalfedgeFan subd depth fuel v last0 g) := by
  unfold ccs_HalfedgeFan
  infer_instance

/-- The vertex `v` of level `depth` is carried by its halfedges: the halfedge
`ccs_VertexPointToHalfedgeID(subd, v, depth)` is a halfedge of `v`, and the walks
from every halfedge of `v` visit the halfedges of `v` (`ccs_HalfedgeFan`). -/
def ccs_VertexCarried (subd : cc_Subd) (edgeToHalfedgeID : Int → Nat → Int)
    (vertexToHalfedgeID_First : Int → Int) (depth fuel : Nat) (v : Nat) : Prop :=
  ∃ h0 ∈ ccs_VertexPointToHalfedgeID subd.cage edgeToHalfedgeID vertexToHalfedgeID_First
      v depth fuel,
    h0 ∈ ccs_VertexHalfedges subd depth v ∧
    ∃ r0 ∈ ccs_VertexRing subd depth fuel h0,
      ∀ g ∈ ccs_VertexHalfedges subd depth v, ccs_HalfedgeFan subd depth fuel v r0.2 g

instance (subd : cc_Subd) (edgeToHalfedgeID : Int → Nat → Int)
    (vertexToHalfedgeID_First : Int → Int) (depth fuel : Nat) (v : Nat) :
    Decidable (ccs_VertexCarried subd edgeToHalfedgeID vertexToHalfedgeID_First depth fuel
      v) := by
  unfold ccs_VertexCarried
  infer_instance

/-- Level `depth` is a halfedge mesh as far as the vertex point kernels go: every
halfedge can be scattered (`ccs_HalfedgeVertexReadable`) and every vertex is
carried by its halfedges (`ccs_VertexCarried`). -/
def ccs_VerticesCarried (subd : cc_Subd) (edgeToHalfedgeID : Int → Nat → Int)
    (vertexToHalfedgeID_First : Int → Int) (depth fuel : Nat) : Prop :=
  (∀ g : Nat, g < ccm_HalfedgeCountAtDepth subd.cage depth →
    ccs_HalfedgeVertexReadable subd depth g) ∧
  (∀ v : Nat, v < ccm_VertexCountAtDepth_Fast subd.cage depth →
    ccs_VertexCarried subd edgeToHalfedgeID vertexToHalfedgeID_First depth fuel v)

instance (subd : cc_Subd) (edgeToHalfedgeID : Int → Nat → Int)
    (vertexToHalfedgeID_First : Int → Int) (depth fuel : Nat) :
    Decidable (ccs_VerticesCarried subd edgeToHalfedgeID vertexToHalfedgeID_First depth
      fuel) := by
  unfold ccs_VerticesCarried
  infer_instance

theorem mem_ccs_VertexHalfedges (subd : cc_Subd) (depth : Nat) (v g : Int) :
    g ∈ ccs_VertexHalfedges subd depth v ↔
      ∃ i : Nat, i < ccm_HalfedgeCountAtDepth subd.cage depth ∧
        ccs_HalfedgeVertexID subd i depth = some v ∧ g = (i : Int) := by
  unfold ccs_VertexHalfedges
  simp only [List.mem_map, List.mem_filter, List.mem_range, decide_eq_true_eq]
  constructor
  · rintro ⟨i, ⟨a, b⟩, rfl⟩
    exact ⟨i, a, b, rfl⟩
  · rintro ⟨i, a, b, rfl⟩
    exact ⟨i, ⟨a, b⟩, rfl⟩

/-- The second walk is empty when the first one has come back to its start. -/
theorem ccs_VertexRingNext_closed (subd : cc_Subd) (depth fuel : Nat) (g last : Int)
    (bw : List Int) (hl : ¬ last < 0)
    (hb : ccs_VertexRingNext subd depth fuel g last = some bw) : bw = [] := by
  unfold ccs_VertexRingNext at hb
  cases hn : ccs_NextVertexHalfedgeID subd g depth with
  | none => simp [hn] at hb
  | some bstart =>
    simp only [hn, Option.bind_eq_bind, Option.some_bind] at hb
    unfold ringWalk at hb
    simp only [hl, decide_False, Bool.false_and, Bool.false_eq_true, if_false,
      Option.some_bind, Option.some.injEq] at hb
    exact hb.symm

/-- The exit of the walk around a vertex of level `depth`: the iterator is
negative or back at the start. -/
theorem ccs_VertexRing_exit (subd : cc_Subd) (depth fuel : Nat) (h : Int) (ring : List Int)
    (last : Int) (hr : ccs_VertexRing subd depth fuel h = some (ring, last)) :
    (last < 0 ↔ decide (last = h) = false) := by
  have h0 := ccs_VertexRing_nonneg subd depth fuel h _ hr
  unfold ccs_VertexRing at hr
  cases hs : ccs_PrevVertexHalfedgeID subd h depth with
  | none => simp [hs] at hr
  | some start =>
    simp only [hs, Option.bind_eq_bind, Option.some_bind] at hr
    obtain ⟨r, hw, hq⟩ := Option.bind_eq_some.mp hr
    obtain ⟨r1, r2⟩ := r
    simp only [Option.some.injEq, Prod.mk.injEq] at hq
    obtain ⟨_, rfl⟩ := hq
    have hc := (ringWalk_mem _ _ fuel start r1 r2 hw).2
    simp only [Bool.and_eq_false_imp, decide_eq_true_eq, decide_eq_false_iff_not, ge_iff_le,
      ne_eq, not_not] at hc
    simp only [decide_eq_false_iff_not]
    constructor
    · intro a b
      omega
    · intro a
      by_contra b
      exact a (hc (by omega))

/-- What the body of `ccs__VertexPoints_Scatter` reads for a halfedge of a level
whose vertices are carried. -/
theorem level_vertex_scatter_reads (subd : cc_Subd) (e2h : Int → Nat → Int) (v2h : Int → Int)
    (depth fuel : Nat)
    (hv : ccs_VerticesCarried subd e2h v2h depth fuel) (o out : List cc_VertexPoint)
    (hlen : ccm_VertexCountAtDepth_Fast subd.cage depth
      + ccm_FaceCountAtDepth_Fast subd.cage depth
      + ccm_EdgeCountAtDepth_Fast subd.cage depth ≤ out.length)
    (hag : ∀ j : Nat, ccm_VertexCountAtDepth_Fast subd.cage depth ≤ j → o[j]? = out[j]?)
    (g : Nat) (hg : g < ccm_HalfedgeCountAtDepth subd.cage depth) :
    ∃ (v : Nat) (Vp : cc_VertexPoint) (fw bw : List Int) (last : Int),
      v < ccm_VertexCountAtDepth_Fast subd.cage depth ∧
      ccs_HalfedgeVertexID subd g depth = some (v : Int) ∧
      ccs_VertexPoint subd v depth = some Vp ∧
      ccs_VertexRing subd depth fuel g = some (fw, last) ∧
      ccs_VertexRingNext subd depth fuel g last = some bw ∧
      ccs__VertexPoints_Scatter_halfedge subd depth (ccm_VertexCountAtDepth_Fast subd.cage depth)
          (ccm_FaceCountAtDepth_Fast subd.cage depth) o fuel g
        = some ((v : Int), ccs__VertexPoints_Scatter_weight ((fw ++ bw).length : Int) last Vp
            ((ccs_HalfedgeNewFacePoint subd depth out g).getD default)
            ((ccs_HalfedgeNewEdgePoint subd depth out g).getD default)) := by
  obtain ⟨⟨v, a1, ⟨a2, a3⟩, a4⟩, ⟨e, e1, e2, e3⟩, ⟨f2, f3⟩⟩ := hv.1 g hg
  rw [Option.mem_def] at a1 e1
  obtain ⟨k, rfl⟩ : ∃ k : Nat, v = (k : Int) := ⟨v.toNat, by omega⟩
  have hk : k < ccm_VertexCountAtDepth_Fast subd.cage depth := by omega
  obtain ⟨Vp, hV⟩ := Option.isSome_iff_exists.mp a4
  obtain ⟨h0, _, _, r0, _, c3⟩ := hv.2 k hk
  obtain ⟨fw, d1, bw, d2, _, _⟩ := c3 g
    ((mem_ccs_VertexHalfedges subd depth k g).mpr ⟨g, hg, a1, rfl⟩)
  obtain ⟨fw, last⟩ := fw
  rw [Option.mem_def] at d1 d2
  obtain ⟨r1, r2⟩ := readAt_agree_ge o out (ccm_VertexCountAtDepth_Fast subd.cage depth)
    ((ccm_VertexCountAtDepth_Fast subd.cage depth : Int)
      + (ccm_FaceCountAtDepth_Fast subd.cage depth : Int) + e) (by omega) (by omega) hag
  obtain ⟨r3, r4⟩ := readAt_agree_ge o out (ccm_VertexCountAtDepth_Fast subd.cage depth)
    ((ccm_VertexCountAtDepth_Fast subd.cage depth : Int) + ccs_HalfedgeFaceID subd g depth)
    (by omega) (by omega) hag
  obtain ⟨x, hx⟩ := Option.isSome_iff_exists.mp r2
  obtain ⟨y, hy⟩ := Option.isSome_iff_exists.mp r4
  refine ⟨k, Vp, fw, bw, last, hk, a1, hV, d1, d2, ?_⟩
  rw [level_vertex_scatter_body subd depth _ _ o fuel g k Vp x y fw bw last a1 hV
    (by rw [e1, Option.some_bind, r1, hx]) (by rw [r3, hy]) d1 d2]
  simp only [ccs_HalfedgeNewEdgePoint, ccs_HalfedgeNewFacePoint, e1, Option.some_bind,
    hx, hy, Option.getD_some]

/-- The kernel `ccs__VertexPoints_Scatter` on a level whose vertices are carried
by their halfedges: it returns, keeps the face points and the edge points, and
adds to the slot of every vertex the value of `vertexRule` on the walk of the
gather kernel. -/
theorem level_vertex_scatter_kernel (subd : cc_Subd) (e2h : Int → Nat → Int)
    (v2h : Int → Int) (depth fuel : Nat) (out : List cc_VertexPoint)
    (hout : ccs__Level subd.vertexPoints (depth + 1) = some out)
    (hlen : ccm_VertexCountAtDepth_Fast subd.cage depth
      + ccm_FaceCountAtDepth_Fast subd.cage depth
      + ccm_EdgeCountAtDepth_Fast subd.cage depth ≤ out.length)
    (hv : ccs_VerticesCarried subd e2h v2h depth fuel) :
    ∃ outS, ccs__VertexPoints_Scatter subd depth fuel =
        some { subd with vertexPoints := subd.vertexPoints.set depth outS } ∧
      outS.length = out.length ∧
      (∀ j : Nat, ccm_VertexCountAtDepth_Fast subd.cage depth ≤ j → outS[j]? = out[j]?) ∧
      ∀ v : Nat, v < ccm_VertexCountAtDepth_Fast subd.cage depth →
        ∀ (h : Int) (Vp : cc_VertexPoint) (ring : List Int) (last : Int),
          ccs_VertexPointToHalfedgeID subd.cage e2h v2h v depth fuel = some h →
          ccs_VertexPoint subd v depth = some Vp →
          ccs_VertexRing subd depth fuel h = some (ring, last) →
          outS[v]? = (out[v]?).map (fun p => p + vertexRule Vp
            ((ring.map (fun g =>
              (4 : ℚ) • (ccs_HalfedgeNewEdgePoint subd depth out g).getD default
              - (ccs_HalfedgeNewFacePoint subd depth out g).getD default)).sum)
            (ring.length : ℚ) (decide (last = h))) := by
  obtain ⟨oS, s1, s2, s3, s4⟩ := scatter_foldlM (ccm_HalfedgeCountAtDepth subd.cage depth)
    0 (ccm_VertexCountAtDepth_Fast subd.cage depth) 0 rfl
    (fun o (g : Nat) => ccs__VertexPoints_Scatter_halfedge subd depth
      (ccm_VertexCountAtDepth_Fast subd.cage depth) (ccm_FaceCountAtDepth_Fast subd.cage depth)
      o fuel g)
    (fun g => ((ccs_HalfedgeVertexID subd g depth).getD 0).toNat)
    (fun g => ((ccs__VertexPoints_Scatter_halfedge subd depth
      (ccm_VertexCountAtDepth_Fast subd.cage depth)
      (ccm_FaceCountAtDepth_Fast subd.cage depth) out fuel (g : Nat)).getD default).2)
    out (by omega)
    (by
      intro g hg
      obtain ⟨v, Vp, fw, bw, last, a0, a1, _⟩ :=
        level_vertex_scatter_reads subd e2h v2h depth fuel hv out out hlen (fun _ _ => rfl) g hg
      simp only [a1, Option.getD_some, Int.toNat_ofNat]
      exact a0)
    (by
      intro o g hg _ hag
      obtain ⟨v, Vp, fw, bw, last, a0, a1, a2, a3, a4, a5⟩ :=
        level_vertex_scatter_reads subd e2h v2h depth fuel hv o out hlen
          (fun j hj => hag j (Or.inr (by omega))) g hg
      obtain ⟨v', Vp', fw', bw', last', _, b1, b2, b3, b4, b5⟩ :=
        level_vertex_scatter_reads subd e2h v2h depth fuel hv out out hlen (fun _ _ => rfl) g hg
      rw [a1] at b1
      have hvv : v' = v := by
        have := Option.some.inj b1
        omega
      subst hvv
      rw [a2] at b2; cases b2
      rw [a3] at b3; cases b3
      rw [a4] at b4; cases b4
      beta_reduce
      rw [a5, b5]
      simp only [a1, Option.getD_some, Int.toNat_ofNat])
  simp only [zero_add] at s1 s3 s4
  refine ⟨oS, ?_, s2, fun j hj => s4 j (Or.inr hj), ?_⟩
  · unfold ccs__VertexPoints_Scatter
    simp only [hout, Option.bind_eq_bind, Option.some_bind]
    rw [s1]
    rfl
  · intro v hlt h Vp ring last b1 b2 b3
    obtain ⟨h', c1, hmem, r0, c3, c4⟩ := hv.2 v hlt
    rw [Option.mem_def] at c1 c3
    rw [b1] at c1; cases c1
    rw [b3] at c3; cases c3
    have hfilter : (List.range (ccm_HalfedgeCountAtDepth subd.cage depth)).filter
          (fun g : Nat => ((ccs_HalfedgeVertexID subd g depth).getD 0).toNat = v)
        = (List.range (ccm_HalfedgeCountAtDepth subd.cage depth)).filter
          (fun g : Nat => ccs_HalfedgeVertexID subd g depth = some (v : Int)) := by
      apply List.filter_congr
      intro g hg
      obtain ⟨v2, Vp2, fw, bw, last2, a0, a1, _⟩ :=
        level_vertex_scatter_reads subd e2h v2h depth fuel hv out out hlen (fun _ _ => rfl) g
          (List.mem_range.mp hg)
      simp only [a1, Option.getD_some, Int.toNat_ofNat, Option.some.injEq, Nat.cast_inj]
    have hexit := ccs_VertexRing_exit subd depth fuel h ring last b3
    have hsum := vertex_scatter_sum (ccs_VertexHalfedges subd depth v) ring Vp
      (fun g => (ccs_HalfedgeNewEdgePoint subd depth out g).getD default)
      (fun g => (ccs_HalfedgeNewFacePoint subd depth out g).getD default)
      (decide (last = h))
      (fun g => ((ccs_VertexRing subd depth fuel g).getD ([], 0)).2)
      (List.ne_nil_of_mem hmem)
      (by
        intro hcl
        obtain ⟨fw, d1, bw, d2, d3, _⟩ := c4 _ hmem
        rw [Option.mem_def] at d1 d2
        rw [b3] at d1; cases d1
        have hnl : ¬ last < 0 := fun a => by
          have := hexit.mp a
          rw [hcl] at this
          cases this
        have := ccs_VertexRingNext_closed subd depth fuel h last bw hnl d2
        subst this
        simpa using d3)
      (by
        intro g hg
        obtain ⟨fw, d1, bw, d2, d3, d4⟩ := c4 g hg
        rw [Option.mem_def] at d1
        beta_reduce
        rw [d1, Option.getD_some, d4]
        exact hexit)
    have hterm : (ccs_VertexHalfedges subd depth v).map
          (fun g => ccs__VertexPoints_Scatter_weight
            ((ccs_VertexHalfedges subd depth v).length : Int)
            (((ccs_VertexRing subd depth fuel g).getD ([], 0)).2) Vp
            ((ccs_HalfedgeNewFacePoint subd depth out g).getD default)
            ((ccs_HalfedgeNewEdgePoint subd depth out g).getD default))
        = ((List.range (ccm_HalfedgeCountAtDepth subd.cage depth)).filter
            (fun g : Nat => ccs_HalfedgeVertexID subd g depth = some (v : Int))).map
          (fun g : Nat => ((ccs__VertexPoints_Scatter_halfedge subd depth
            (ccm_VertexCountAtDepth_Fast subd.cage depth)
            (ccm_FaceCountAtDepth_Fast subd.cage depth) out fuel
            (g : Nat)).getD default).2) := by
      unfold ccs_VertexHalfedges
      rw [List.map_map]
      apply List.map_congr_left
      intro g hg
      have hg2 := List.mem_filter.mp hg
      have hgl := List.mem_range.mp hg2.1
      have hgv : ccs_HalfedgeVertexID subd g depth = some (v : Int) := by simpa using hg2.2
      obtain ⟨v2, Vp2, fw, bw, last2, a0, a1, a2, a3, a4, a5⟩ :=
        level_vertex_scatter_reads subd e2h v2h depth fuel hv out out hlen (fun _ _ => rfl) g hgl
      rw [hgv] at a1
      have hvv : v2 = v := by
        have := Option.some.inj a1
        omega
      subst hvv
      rw [b2] at a2; cases a2
      obtain ⟨fw', d1, bw', d2, d3, _⟩ := c4 g
        ((mem_ccs_VertexHalfedges subd depth v2 g).mpr ⟨g, hgl, hgv, rfl⟩)
      rw [Option.mem_def] at d1 d2
      rw [a3] at d1; cases d1
      rw [a4] at d2; cases d2
      simp only [Function.comp_apply, Int.ofNat_eq_coe]
      rw [a5, a3]
      simp only [Option.getD_some]
      have hl := d3.length_eq
      unfold ccs_VertexHalfedges at hl
      rw [← hl]
    rw [s3 v hlt, hfilter, ← hterm, hsum]

/-- A cage whose vertices are carried by their halfedges is readable by the
gather kernel. -/
theorem ccm_VerticesCarried_readable (cage : cc_Mesh) (fuel : Nat)
    (hv : ccm_VerticesCarried cage fuel) : ccm_VertexRingsReadable cage fuel := by
  intro v hlt
  obtain ⟨h0, c1, c2, r0, c3, c4⟩ := hv.2 v hlt
  obtain ⟨i, hi, rfl⟩ := ccm_HalfedgeVertexID_lt cage h0 v c2
  have hmem : ((i : Nat) : Int) ∈ ccm_VertexHalfedges cage v :=
    (mem_ccm_VertexHalfedges cage v i).mpr ⟨i, hi, c2, rfl⟩
  obtain ⟨⟨w, a1, _, a4⟩, _⟩ := hv.1 i hi
  rw [Option.mem_def, c2] at a1
  cases a1
  refine ⟨a4, (i : Int), c1, r0, c3, ?_⟩
  intro g hg
  obtain ⟨fw, d1, bw, d2, d3, _⟩ := c4 _ hmem
  rw [Option.mem_def] at c3 d1
  rw [c3] at d1
  cases d1
  have hg2 : g ∈ ccm_VertexHalfedges cage v :=
    d3.subset (List.mem_append_left _ hg)
  obtain ⟨j, hj, _, rfl⟩ := (mem_ccm_VertexHalfedges cage v g).mp hg2
  exact (hv.1 j hj).2

/-- A level whose vertices are carried by their halfedges is readable by the
gather kernel. -/
theorem ccs_VerticesCarried_readable (subd : cc_Subd) (e2h : Int → Nat → Int)
    (v2h : Int → Int) (depth fuel : Nat)
    (hv : ccs_VerticesCarried subd e2h v2h depth fuel) :
    ccs_VertexRingsReadable subd e2h v2h depth fuel := by
  intro v hlt
  obtain ⟨h0, c1, hmem, r0, c3, c4⟩ := hv.2 v hlt
  obtain ⟨i, hi, c2, rfl⟩ := (mem_ccs_VertexHalfedges subd depth v h0).mp hmem
  obtain ⟨⟨w, a1, _, a4⟩, _⟩ := hv.1 i hi
  rw [Option.mem_def, c2] at a1
  cases a1
  refine ⟨a4, (i : Int), c1, r0, c3, ?_⟩
  intro g hg
  obtain ⟨fw, d1, bw, d2, d3, _⟩ := c4 _ hmem
  rw [Option.mem_def] at c3 d1
  rw [c3] at d1
  cases d1
  have hg2 : g ∈ ccs_VertexHalfedges subd depth v :=
    d3.subset (List.mem_append_left _ hg)
  obtain ⟨j, hj, _, rfl⟩ := (mem_ccs_VertexHalfedges subd depth v g).mp hg2
  exact (hv.1 j hj).2

/-- C22: on a cage that is a halfedge mesh around its vertices
(`ccm_VerticesCarried`: the two walks of the scatter kernel from every halfedge
of a vertex visit the halfedges of that vertex, and leave the mesh exactly when
the walk of the gather kernel does), `ccs__CageVertexPoints_Scatter` and
`ccs__CageVertexPoints_Gather`, run on the same level 1 region whose vertex
slots are zero, both return, and they leave the same value in the slot of every
vertex, with a closed ring or an open one: the contributions of the halfedges
of a vertex sum to the value the gather kernel writes (first part); likewise
`ccs__VertexPoints_Scatter` and `ccs__VertexPoints_Gather` at every depth
(second part). -/
theorem C22_vertex_gather_scatter :
    (∀ (subd : cc_Subd) (fuel : Nat) (out : List cc_VertexPoint),
      subd.vertexPoints[0]? = some out →
      ccm_VertexCount subd.cage + ccm_FaceCount subd.cage + ccm_EdgeCount subd.cage
        ≤ out.length →
      (∀ v : Nat, v < ccm_VertexCount subd.cage → out[v]? = some (0, 0, 0)) →
      ccm_VerticesCarried subd.cage fuel →
      ∃ outS outG : List cc_VertexPoint,
        ccs__CageVertexPoints_Scatter subd fuel =
          some { subd with vertexPoints := subd.vertexPoints.set 0 outS } ∧
        ccs__CageVertexPoints_Gather subd fuel =
          some { subd with vertexPoints := subd.vertexPoints.set 0 outG } ∧
        ∀ v : Nat, v < ccm_VertexCount subd.cage →
          ∃ p : cc_VertexPoint, outS[v]? = some p ∧ outG[v]? = some p) ∧
    (∀ (subd : cc_Subd) (edgeToHalfedgeID : Int → Nat → Int)
      (vertexToHalfedgeID_First : Int → Int) (depth fuel : Nat) (out : List cc_VertexPoint),
      ccs__Level subd.vertexPoints (depth + 1) = some out →
      ccm_VertexCountAtDepth_Fast subd.cage depth + ccm_FaceCountAtDepth_Fast subd.cage depth
        + ccm_EdgeCountAtDepth_Fast subd.cage depth ≤ out.length →
      (∀ v : Nat, v < ccm_VertexCountAtDepth_Fast subd.cage depth →
        out[v]? = some (0, 0, 0)) →
      ccs_VerticesCarried subd edgeToHalfedgeID vertexToHalfedgeID_First depth fuel →
      ∃ outS outG : List cc_VertexPoint,
        ccs__VertexPoints_Scatter subd depth fuel =
          some { subd with vertexPoints := subd.vertexPoints.set depth outS } ∧
        ccs__VertexPoints_Gather subd edgeToHalfedgeID vertexToHalfedgeID_First depth fuel =
          some { subd with vertexPoints := subd.vertexPoints.set depth outG } ∧
        ∀ v : Nat, v < ccm_VertexCountAtDepth_Fast subd.cage depth →
          ∃ p : cc_VertexPoint, outS[v]? = some p ∧ outG[v]? = some p) := by
  constructor
  · intro subd fuel out hout hlen hzero hv
    have hr := ccm_VerticesCarried_readable subd.cage fuel hv
    obtain ⟨oS, s1, _, _, s4⟩ := cage_vertex_scatter_kernel subd fuel out hout hlen hv
    obtain ⟨oG, g1, _, _, g4⟩ := cage_vertex_kernel subd fuel out hout hlen hr
    refine ⟨oS, oG, s1, g1, ?_⟩
    intro v hlt
    obtain ⟨h, Vp, ring, last, b1, b2, b3, _⟩ :=
      cage_vertex_reads subd.cage fuel hr out out hlen (fun _ _ => rfl) v hlt
    refine ⟨_, ?_, (g4 v hlt h Vp ring last b1 b2 b3).2⟩
    rw [s4 v hlt h Vp ring last b1 b2 b3, hzero v hlt]
    simp only [Option.map_some', Option.some.injEq]
    rw [show ((0, 0, 0) : cc_VertexPoint) = 0 from rfl, zero_add]
  · intro subd e2h v2h depth fuel out hout hlen hzero hv
    have hr := ccs_VerticesCarried_readable subd e2h v2h depth fuel hv
    obtain ⟨oS, s1, _, _, s4⟩ :=
      level_vertex_scatter_kernel subd e2h v2h depth fuel out hout hlen hv
    obtain ⟨oG, g1, _, _, g4⟩ := level_vertex_kernel subd e2h v2h depth fuel out hout hlen hr
    refine ⟨oS, oG, s1, g1, ?_⟩
    intro v hlt
    obtain ⟨h, Vp, ring, last, b1, b2, b3, _⟩ :=
      level_vertex_reads subd e2h v2h depth fuel hr out out hlen (fun _ _ => rfl) v hlt
    refine ⟨_, ?_, (g4 v hlt h Vp ring last b1 b2 b3).2⟩
    rw [s4 v hlt h Vp ring last b1 b2 b3, hzero v hlt]
    simp only [Option.map_some', Option.some.injEq]
    rw [show ((0, 0, 0) : cc_VertexPoint) = 0 from rfl, zero_add]

/-- C22, witness: the two glued triangles (cage kernels), whose four vertices
are on the boundary, and level 1 of the open quad (level kernels), whose vertex
4 has a closed ring of four halfedges and whose other vertices are on the
boundary. -/
theorem C22_vertex_gather_scatter_witness :
    (ccm_VerticesCarried trianglesMesh 4 ∧
      ∃ outS outG : List cc_VertexPoint,
        ccs__CageVertexPoints_Scatter
          { cage := trianglesMesh, maxDepth := 1, halfedges := [], creases := [],
            vertexPoints := [trianglesFacePoints] } 4 =
          some { cage := trianglesMesh, maxDepth := 1, halfedges := [], creases := [],
                 vertexPoints := [outS] } ∧
        ccs__CageVertexPoints_Gather
          { cage := trianglesMesh, maxDepth := 1, halfedges := [], creases := [],
            vertexPoints := [trianglesFacePoints] } 4 =
          some { cage := trianglesMesh, maxDepth := 1, halfedges := [], creases := [],
                 vertexPoints := [outG] } ∧
        ∀ v : Nat, v < 4 →
          ∃ p : cc_VertexPoint, outS[v]? = some p ∧ outG[v]? = some p) ∧
    (ccs_VerticesCarried quadFacesSubd quadEdgeToHalfedgeID quadVertexToHalfedgeID_First 1 4 ∧
      ∃ outS outG : List cc_VertexPoint,
        ccs__VertexPoints_Scatter quadFacesSubd 1 4 =
          some { quadFacesSubd with vertexPoints := quadFacesSubd.vertexPoints.set 1 outS } ∧
        ccs__VertexPoints_Gather quadFacesSubd quadEdgeToHalfedgeID
            quadVertexToHalfedgeID_First 1 4 =
          some { quadFacesSubd with vertexPoints := quadFacesSubd.vertexPoints.set 1 outG } ∧
        ∀ v : Nat, v < 9 →
          ∃ p : cc_VertexPoint, outS[v]? = some p ∧ outG[v]? = some p) :=
  ⟨⟨by decide!, C22_vertex_gather_scatter.1
      { cage := trianglesMesh, maxDepth := 1, halfedges := [], creases := [],
        vertexPoints := [trianglesFacePoints] }
      4 trianglesFacePoints rfl (by decide)
      (by intro v hv; have hv' : v < 4 := hv; interval_cases v <;> rfl) (by decide!)⟩,
   ⟨by decide!, C22_vertex_gather_scatter.2 quadFacesSubd quadEdgeToHalfedgeID
      quadVertexToHalfedgeID_First 1 4
      quadFacePoints2 rfl (by decide)
      (by intro v hv; have hv' : v < 9 := hv; interval_cases v <;> rfl) (by decide!)⟩⟩

/-! ## C26: a cage whose edges are all sharp -/

/-- A single triangle whose three edges, all on the boundary, have the
sharpness 3. -/
def sharpTriangle : cc_Mesh :=
  { vertexCount := 3, edgeCount := 3, faceCount := 1,
    creases := [⟨0, 0, 3⟩, ⟨1, 1, 3⟩, ⟨2, 2, 3⟩],
    halfedges := [⟨-1, 1, 2, 0, 0, 0, 0⟩, ⟨-1, 2, 0, 0, 1, 1, 0⟩, ⟨-1, 0, 1, 0, 2, 2, 0⟩],
    vertexToHalfedgeIDs := [0, 1, 2], edgeToHalfedgeIDs := [0, 1, 2],
    faceToHalfedgeIDs := [0],
    vertexPoints := [(0, 0, 0), (1, 0, 0), (0, 1, 0)] }

/-- A blank subdivision of `sharpTriangle` with the regions of the halfedges and
of the creases of the levels 1 and 2 (12 and 48 halfedges, 9 and 30 creases)
and the regions of the vertex points of the levels 1, 2 and 3 (7, 19 and 61
points), all zero. -/
def sharpTriangleBlank : cc_Subd :=
  { cage := sharpTriangle, maxDepth := 2,
    halfedges := [List.replicate 12 ⟨0, 0, 0, 0⟩, List.replicate 48 ⟨0, 0, 0, 0⟩],
    creases := [List.replicate 9 ⟨0, 0, 0⟩, List.replicate 30 ⟨0, 0, 0⟩],
    vertexPoints := [List.replicate 7 (0, 0, 0), List.replicate 19 (0, 0, 0),
      List.replicate 61 (0, 0, 0)] }

/-- A halfedge on each of the 9 edges of level 1 and on each of the 30 edges of
level 2 of `sharpTriangle`. -/
def sharpTriangleEdgeToHalfedgeID (e : Int) (depth : Nat) : Int :=
  if depth = 1 then ([0, 7, 4, 11, 8, 3, 1, 5, 2] : List Int).getD e.toNat 0
  else ([0, 7, 28, 19, 16, 23, 44, 35, 32, 39, 12, 3, 11, 4, 27, 20, 15, 8, 1, 5, 9, 2, 17,
    21, 25, 18, 33, 37, 41, 34] : List Int).getD e.toNat 0

/-- A halfedge of level 1 of `sharpTriangle` at each of its 7 vertices. -/
def sharpTriangleVertexToHalfedgeID_First (v : Int) : Int :=
  ([0, 4, 8, 2, 1, 5, 3] : List Int).getD v.toNat 0

/-- The subdivision `sharpTriangleBlank` after `ccs__RefineTopology` (the cage
has no texture coordinates, and the pass `ccs_RefineVertexUvs` changes nothing),
and then, with the depth 3, after `ccs_RefineVertexPoints_Gather`. -/
def sharpTriangleRefined : Option cc_Subd :=
  (ccs__RefineTopology (fun _ => 0) (fun _ => (0, 0)) sharpTriangleBlank 4).bind (fun t =>
    ccs_RefineVertexPoints_Gather { t with maxDepth := 3 } sharpTriangleEdgeToHalfedgeID
      sharpTriangleVertexToHalfedgeID_First 4)

/-- C26, counterexample: on the triangle whose three edges have the sharpness 3,
the halfedges and the creases of the levels 1 and 2 are refined
(`ccs__RefineTopology`) and the vertex points are refined to the depth 3
(`ccs_RefineVertexPoints_Gather`; the halfedges and the creases of level 3,
which no vertex point kernel reads, are left out).  The vertex 7 of level 2
(the face point of the quad 0 of level 1) is at `(5/24, 5/24, 0)`, and
`ccs__CreasedVertexPoints_Gather` at depth 2 writes `(643/3072, 643/3072, 0)` for
it; the vertex 16 (an edge point of level 1) moves as well.  The edges around
these vertices are interior to the triangle and have the sharpness 0. -/
theorem C26_counterexample :
    (∀ e : Nat, e < ccm_EdgeCount sharpTriangle →
      ∃ S ∈ ccm_CreaseSharpness sharpTriangle e, (3 : ℚ) ≤ S) ∧
    (∃ t ∈ ccs__RefineTopology (fun _ => 0) (fun _ => (0, 0)) sharpTriangleBlank 4,
      (∀ e : Nat, e < 9 →
        ccs_HalfedgeEdgeID t (sharpTriangleEdgeToHalfedgeID e 1) 1 = some (e : Int)) ∧
      (∀ e : Nat, e < 30 →
        ccs_HalfedgeEdgeID t (sharpTriangleEdgeToHalfedgeID e 2) 2 = some (e : Int)) ∧
      (∀ v : Nat, v < 7 →
        ccs_HalfedgeVertexID t (sharpTriangleVertexToHalfedgeID_First v) 1
          = some (v : Int))) ∧
    sharpTriangleRefined.bind (fun s => ccs_VertexPoint s 7 2)
      = some ((5 / 24, 5 / 24, 0) : cc_VertexPoint) ∧
    sharpTriangleRefined.bind (fun s => ccs_VertexPoint s 7 3)
      = some ((643 / 3072, 643 / 3072, 0) : cc_VertexPoint) ∧
    sharpTriangleRefined.bind (fun s => ccs_VertexPoint s 16 2)
      = some ((13 / 32, 3 / 16, 0) : cc_VertexPoint) ∧
    sharpTriangleRefined.bind (fun s => ccs_VertexPoint s 16 3)
      = some ((831 / 2048, 193 / 1024, 0) : cc_VertexPoint) := by
  decide!

/-- The crease count of reads that are all sharp is the number of the reads. -/
theorem creaseCount_of_sharp (items : List (cc_VertexPoint × cc_VertexPoint × ℚ))
    (h : ∀ r ∈ items, 0 < r.2.2) :
    (cc_VertexLocals.sum items).creaseCount = (items.length : ℚ) := by
  unfold cc_VertexLocals.sum
  simp only
  induction items with
  | nil => simp
  | cons a t ih =>
    have ha : cc__Signf a.2.2 = 1 := by
      unfold cc__Signf
      have := h a (List.mem_cons_self _ _)
      rw [if_neg (by linarith), if_pos this]
    rw [List.map_cons, List.sum_cons, ih (fun r hr => h r (List.mem_cons_of_mem _ hr)), ha,
      List.length_cons]
    push_cast
    ring

/-- The counts of a vertex whose incident edges are all sharp: the crease count
is the valence, and with a valence of at least 2 the rule selection keeps the
old position. -/
theorem sharp_counts (items : List (cc_VertexPoint × cc_VertexPoint × ℚ)) (last : Int)
    (thisS : ℚ) (hS : ∀ r ∈ items, 0 < r.2.2) (hT : last < 0 → 0 < thisS)
    (hn : 2 ≤ items.length + (if last < 0 then 1 else 0)) :
    ∃ n : ℚ, n = (cc_VertexLocals.sum items).creaseCount
        + (if last < 0 then cc__Signf thisS else 0) ∧
      n = (cc_VertexLocals.sum items).valence + (if last < 0 then 1 else 0) ∧
      1 < n ∧ (3 ≤ n ∨ n = 2) := by
  have hv : (cc_VertexLocals.sum items).valence = (items.length : ℚ) := rfl
  rw [creaseCount_of_sharp items hS, hv]
  by_cases c : last < 0
  · have hs : cc__Signf thisS = 1 := by
      unfold cc__Signf
      have := hT c
      rw [if_neg (by linarith), if_pos this]
    rw [if_pos c] at hn
    simp only [if_pos c, hs]
    refine ⟨_, rfl, rfl, ?_, ?_⟩
    · have : (2 : ℚ) ≤ ((items.length + 1 : Nat) : ℚ) := by exact_mod_cast hn
      push_cast at this
      linarith
    · by_cases d : items.length + 1 = 2
      · right
        have : ((items.length + 1 : Nat) : ℚ) = 2 := by exact_mod_cast d
        push_cast at this
        exact this
      · left
        have h3 : 3 ≤ items.length + 1 := by omega
        have : (3 : ℚ) ≤ ((items.length + 1 : Nat) : ℚ) := by exact_mod_cast h3
        push_cast at this
        exact this
  · rw [if_neg c] at hn
    simp only [if_neg c, add_zero]
    refine ⟨_, rfl, rfl, ?_, ?_⟩
    · have : (2 : ℚ) ≤ ((items.length : Nat) : ℚ) := by exact_mod_cast hn
      linarith
    · by_cases d : items.length = 2
      · right
        exact_mod_cast d
      · left
        have h3 : 3 ≤ items.length := by omega
        exact_mod_cast h3

/-- In both creased vertex point gather kernels, a vertex whose incident edges
are all sharp (every sharpness read in the walks around it is positive, and on
an open ring the sharpness of its own halfedge as well) and whose valence is at
least 2 keeps its old position: with `n` edges the crease count is `n`, so
either `n = 2` or `creaseCount ≥ 3`, and the corner rule is taken.  This holds
for `ccs__CreasedCageVertexPoints_Gather` on a readable cage (first part) and
for `ccs__CreasedVertexPoints_Gather` at every depth (second part). -/
theorem creased_vertex_kernels_pin :
    (∀ (subd : cc_Subd) (fuel : Nat) (out : List cc_VertexPoint),
      subd.vertexPoints[0]? = some out →
      ccm_VertexCount subd.cage + ccm_FaceCount subd.cage + ccm_EdgeCount subd.cage
        ≤ out.length →
      ccm_CreasedVertexRingsReadable subd.cage fuel →
      ∃ out', ccs__CreasedCageVertexPoints_Gather subd fuel =
          some { subd with vertexPoints := subd.vertexPoints.set 0 out' } ∧
        ∀ v : Nat, v < ccm_VertexCount subd.cage →
          ∀ (h : Int) (Vp Eh : cc_VertexPoint) (thisS : ℚ) (ring : List Int) (last : Int)
            (items : List (cc_VertexPoint × cc_VertexPoint × ℚ)),
            ccm_VertexToHalfedgeID subd.cage v = some h →
            ccm_VertexPoint subd.cage v = some Vp →
            ccm_HalfedgeSharpness subd.cage h = some thisS →
            ccm_HalfedgeNewEdgePoint subd.cage out h = some Eh →
            ccm_VertexRing subd.cage fuel h = some (ring, last) →
            ring.map (ccm_PrevNewPoints subd.cage out) = items.map some →
            (∀ r ∈ items, 0 < r.2.2) → (last < 0 → 0 < thisS) →
            2 ≤ items.length + (if last < 0 then 1 else 0) →
            out'[v]? = some Vp) ∧
    (∀ (subd : cc_Subd) (edgeToHalfedgeID : Int → Nat → Int)
      (vertexToHalfedgeID_First : Int → Int) (depth fuel : Nat) (out : List cc_VertexPoint),
      ccs__Level subd.vertexPoints (depth + 1) = some out →
      ccm_VertexCountAtDepth_Fast subd.cage depth + ccm_FaceCountAtDepth_Fast subd.cage depth
        + ccm_EdgeCountAtDepth_Fast subd.cage depth ≤ out.length →
      ccs_CreasedVertexRingsReadable subd edgeToHalfedgeID vertexToHalfedgeID_First
        depth fuel →
      ∃ out', ccs__CreasedVertexPoints_Gather subd edgeToHalfedgeID vertexToHalfedgeID_First
            depth fuel =
          some { subd with vertexPoints := subd.vertexPoints.set depth out' } ∧
        ∀ v : Nat, v < ccm_VertexCountAtDepth_Fast subd.cage depth →
          ∀ (h : Int) (Vp Eh : cc_VertexPoint) (thisS : ℚ) (ring back : List Int)
            (last : Int) (itemsF itemsB : List (cc_VertexPoint × cc_VertexPoint × ℚ)),
            ccs_VertexPointToHalfedgeID subd.cage edgeToHalfedgeID vertexToHalfedgeID_First
              v depth fuel = some h →
            ccs_VertexPoint subd v depth = some Vp →
            ccs_HalfedgeSharpness subd h depth = some thisS →
            ccs_HalfedgeNewEdgePoint subd depth out h = some Eh →
            ccs_VertexRing subd depth fuel h = some (ring, last) →
            ccs_VertexRingBackward subd depth fuel h last = some back →
            ring.map (ccs_PrevNewPoints subd depth out) = itemsF.map some →
            back.map (ccs_NextNewPoints subd depth out) = itemsB.map some →
            (∀ r ∈ itemsF ++ itemsB, 0 < r.2.2) → (last < 0 → 0 < thisS) →
            2 ≤ (itemsF ++ itemsB).length + (if last < 0 then 1 else 0) →
            out'[v]? = some Vp) := by
  constructor
  · intro subd fuel out hout hlen hv
    obtain ⟨o, e1, _, _, e4⟩ := cage_creased_vertex_kernel subd fuel out hout hlen hv
    refine ⟨o, e1, ?_⟩
    intro v hlt h Vp Eh thisS ring last items a1 a2 a3 a4 a5 a6 hS hT hn
    obtain ⟨n, c1, c2, c3, c4⟩ := sharp_counts items last thisS hS hT hn
    rw [e4 v hlt h Vp Eh thisS ring last items a1 a2 a3 a4 a5 a6,
      (cage_rule_branches Vp Eh (cc__Signf thisS) last (cc_VertexLocals.sum items) n n _
        c1 c2 rfl).2.1 c3 c4]
  · intro subd e2h v2h depth fuel out hout hlen hv
    obtain ⟨o, e1, _, _, e4⟩ := level_creased_vertex_kernel subd e2h v2h depth fuel out hout
      hlen hv
    refine ⟨o, e1, ?_⟩
    intro v hlt h Vp Eh thisS ring back last itemsF itemsB a1 a2 a3 a4 a5 a6 a7 a8 hS hT hn
    obtain ⟨n, c1, c2, c3, c4⟩ := sharp_counts (itemsF ++ itemsB) last thisS hS hT hn
    rw [e4 v hlt h Vp Eh thisS ring back last itemsF itemsB a1 a2 a3 a4 a5 a6 a7 a8,
      (level_rule_branches Vp Eh (cc__Signf thisS) last (cc_VertexLocals.sum (itemsF ++ itemsB))
        n n _ c1 c2 rfl).2.1 c3 c4]

/-- A subdivision of depth 1 of `sharpTriangle` after the face point and the
edge point kernels: the face point is the centroid and the edge points, of
sharp edges, are the midpoints. -/
def sharpTriangleSubd : cc_Subd :=
  { cage := sharpTriangle, maxDepth := 1, halfedges := [], creases := [],
    vertexPoints := [[(0, 0, 0), (0, 0, 0), (0, 0, 0), (1 / 3, 1 / 3, 0), (1 / 2, 0, 0),
      (1 / 2, 1 / 2, 0), (0, 1 / 2, 0)]] }

/-- The subdivision `quadSharpSubd` of the open quad with the sharpness 1 on the
8 boundary edges of level 1 and 0 on the 4 interior edges. -/
def quadBoundarySubd : cc_Subd :=
  { quadSharpSubd with
    creases := [[⟨0, 0, 1⟩, ⟨1, 1, 1⟩, ⟨2, 2, 1⟩, ⟨3, 3, 1⟩, ⟨4, 4, 1⟩, ⟨5, 5, 1⟩,
      ⟨6, 6, 1⟩, ⟨7, 7, 1⟩, ⟨8, 8, 0⟩, ⟨9, 9, 0⟩, ⟨10, 10, 0⟩, ⟨11, 11, 0⟩]] }

/-! ## C27: the vertices of valence 2 between two sharp edges -/

/-- The halfedge `g` of the cage can be scattered by the creased kernel: its
vertex is in `[0, V0)` and has a position, its edge and the edge of its
predecessor are in `[0, E0)` and have a sharpness, its face is in `[0, F0)`, and
the two loops around its vertex exit within `fuel` steps. -/
def ccm_CreasedHalfedgeReadable (cage : cc_Mesh) (fuel : Nat) (g : Int) : Prop :=
  (∃ v ∈ ccm_HalfedgeVertexID cage g,
    (0 ≤ v ∧ v < (ccm_VertexCount cage : Int)) ∧ (ccm_VertexPoint cage v).isSome = true) ∧
  ccm_HalfedgePointsInBounds cage g ∧
  (ccm_HalfedgeSharpness cage g).isSome = true ∧
  ∃ p ∈ ccm_HalfedgePrevID cage g,
    (∃ e ∈ ccm_HalfedgeEdgeID cage p, 0 ≤ e ∧ e < (ccm_EdgeCount cage : Int)) ∧
    ∃ prevS ∈ ccm_HalfedgeSharpness cage p,
      (ccs__CreasedCageVertexPoints_Scatter_walks cage fuel g p prevS).isSome = true

instance (cage : cc_Mesh) (fuel : Nat) (g : Int) :
    Decidable (ccm_CreasedHalfedgeReadable cage fuel g) := by
  unfold ccm_CreasedHalfedgeReadable
  infer_instance

/-- Every halfedge of the cage can be scattered by the creased kernel. -/
def ccm_CreasedHalfedgesReadable (cage : cc_Mesh) (fuel : Nat) : Prop :=
  ∀ g : Nat, g < ccm_HalfedgeCount cage → ccm_CreasedHalfedgeReadable cage fuel g

instance (cage : cc_Mesh) (fuel : Nat) : Decidable (ccm_CreasedHalfedgesReadable cage fuel) := by
  unfold ccm_CreasedHalfedgesReadable
  infer_instance

/-- The contribution of the halfedge `g` of the cage in
`ccs__CreasedCageVertexPoints_Scatter`, read from the region `points`. -/
def ccm_CreasedScatterWeight (cage : cc_Mesh) (points : List cc_VertexPoint) (fuel : Nat)
    (g : Int) : cc_VertexPoint :=
  ((ccs__CreasedCageVertexPoints_Scatter_halfedge cage (ccm_VertexCount cage)
    (ccm_FaceCount cage) points fuel g).getD default).2

/-- What the body of `ccs__CreasedCageVertexPoints_Scatter` reads for a readable
halfedge, and its value. -/
theorem cage_creased_scatter_body (cage : cc_Mesh) (fuel : Nat) (g : Int)
    (hr : ccm_CreasedHalfedgeReadable cage fuel g) (o out : List cc_VertexPoint)
    (hlen : ccm_VertexCount cage + ccm_FaceCount cage + ccm_EdgeCount cage ≤ out.length)
    (hag : ∀ j : Nat, ccm_VertexCount cage ≤ j → o[j]? = out[j]?) :
    ∃ (v : Nat) (Vp : cc_VertexPoint) (p : Int) (thisS prevS : ℚ) (r : Int × cc_VertexCounts)
      (Ep Eg Fg : cc_VertexPoint),
      v < ccm_VertexCount cage ∧ ccm_HalfedgeVertexID cage g = some (v : Int) ∧
      ccm_VertexPoint cage v = some Vp ∧ ccm_HalfedgePrevID cage g = some p ∧
      ccm_HalfedgeSharpness cage g = some thisS ∧ ccm_HalfedgeSharpness cage p = some prevS ∧
      ccs__CreasedCageVertexPoints_Scatter_walks cage fuel g p prevS = some r ∧
      ccs__CreasedCageVertexPoints_Scatter_halfedge cage (ccm_VertexCount cage)
          (ccm_FaceCount cage) out fuel g
        = some ((v : Int), ccs__CreasedCageVertexPoints_Scatter_rule Vp Eg Ep Fg
            (cc__Signf thisS) (cc__Signf prevS) r.1 r.2) ∧
      ccs__CreasedCageVertexPoints_Scatter_halfedge cage (ccm_VertexCount cage)
          (ccm_FaceCount cage) o fuel g
        = ccs__CreasedCageVertexPoints_Scatter_halfedge cage (ccm_VertexCount cage)
          (ccm_FaceCount cage) out fuel g := by
  obtain ⟨⟨v, a1, ⟨a2, a3⟩, a4⟩, ⟨⟨e, e1, e2, e3⟩, ⟨f, f1, f2, f3⟩⟩, hs, p, p1,
    ⟨pe, q1, q2, q3⟩, prevS, p2, hw⟩ := hr
  rw [Option.mem_def] at a1 e1 f1 p1 q1 p2
  obtain ⟨k, rfl⟩ : ∃ k : Nat, v = (k : Int) := ⟨v.toNat, by omega⟩
  have hk : k < ccm_VertexCount cage := by omega
  obtain ⟨Vp, hV⟩ := Option.isSome_iff_exists.mp a4
  obtain ⟨thisS, hS⟩ := Option.isSome_iff_exists.mp hs
  obtain ⟨r, hr⟩ := Option.isSome_iff_exists.mp hw
  obtain ⟨r1, r2⟩ := readAt_agree_ge o out (ccm_VertexCount cage)
    ((ccm_VertexCount cage : Int) + (ccm_FaceCount cage : Int) + e) (by omega) (by omega) hag
  obtain ⟨r3, r4⟩ := readAt_agree_ge o out (ccm_VertexCount cage)
    ((ccm_VertexCount cage : Int) + f) (by omega) (by omega) hag
  obtain ⟨r5, r6⟩ := readAt_agree_ge o out (ccm_VertexCount cage)
    ((ccm_VertexCount cage : Int) + (ccm_FaceCount cage : Int) + pe) (by omega) (by omega) hag
  obtain ⟨x, hx⟩ := Option.isSome_iff_exists.mp r2
  obtain ⟨y, hy⟩ := Option.isSome_iff_exists.mp r4
  obtain ⟨z, hz⟩ := Option.isSome_iff_exists.mp r6
  have hV' : readAt cage.vertexPoints (k : Int) = some Vp := hV
  refine ⟨k, Vp, p, thisS, prevS, r, z, x, y, hk, a1, hV, p1, hS, p2, hr, ?_, ?_⟩
  · unfold ccs__CreasedCageVertexPoints_Scatter_halfedge
      ccs__CreasedCageVertexPoints_Scatter_reads
    simp only [a1, p1, hS, p2, e1, f1, q1, hx, hy, hz, hV', hr, Option.bind_eq_bind,
      Option.some_bind]
  · unfold ccs__CreasedCageVertexPoints_Scatter_halfedge
      ccs__CreasedCageVertexPoints_Scatter_reads
    simp only [a1, p1, hS, p2, e1, f1, q1, r1, r3, r5, Option.bind_eq_bind, Option.some_bind]

/-- The kernel `ccs__CreasedCageVertexPoints_Scatter` on a cage whose halfedges
are readable: it returns, keeps the face points and the edge points, and adds
to the slot of every vertex the contributions of the halfedges of the
vertex. -/
theorem cage_creased_vertex_scatter_kernel (subd : cc_Subd) (fuel : Nat)
    (out : List cc_VertexPoint)
    (hout : subd.vertexPoints[0]? = some out)
    (hlen : ccm_VertexCount subd.cage + ccm_FaceCount subd.cage + ccm_EdgeCount subd.cage
      ≤ out.length)
    (hv : ccm_CreasedHalfedgesReadable subd.cage fuel) :
    ∃ outS, ccs__CreasedCageVertexPoints_Scatter subd fuel =
        some { subd with vertexPoints := subd.vertexPoints.set 0 outS } ∧
      outS.length = out.length ∧
      (∀ j : Nat, ccm_VertexCount subd.cage ≤ j → outS[j]? = out[j]?) ∧
      ∀ v : Nat, v < ccm_VertexCount subd.cage →
        outS[v]? = (out[v]?).map (fun p => p +
          ((ccm_VertexHalfedges subd.cage v).map
            (ccm_CreasedScatterWeight subd.cage out fuel)).sum) := by
  obtain ⟨oS, s1, s2, s3, s4⟩ := scatter_foldlM (ccm_HalfedgeCount subd.cage)
    0 (ccm_VertexCount subd.cage) 0 rfl
    (fun o (g : Nat) => ccs__CreasedCageVertexPoints_Scatter_halfedge subd.cage
      (ccm_VertexCount subd.cage) (ccm_FaceCount subd.cage) o fuel g)
    (fun g => ((ccm_HalfedgeVertexID subd.cage g).getD 0).toNat)
    (fun g => ccm_CreasedScatterWeight subd.cage out fuel (g : Nat))
    out (by omega)
    (by
      intro g hg
      obtain ⟨v, Vp, p, thisS, prevS, r, Ep, Eg, Fg, a0, a1, _⟩ :=
        cage_creased_scatter_body subd.cage fuel g (hv g hg) out out hlen (fun _ _ => rfl)
      simp only [a1, Option.getD_some, Int.toNat_ofNat]
      exact a0)
    (by
      intro o g hg _ hag
      obtain ⟨v, Vp, p, thisS, prevS, r, Ep, Eg, Fg, a0, a1, a2, a3, a4, a5, a6, a7, a8⟩ :=
        cage_creased_scatter_body subd.cage fuel g (hv g hg) o out hlen
          (fun j hj => hag j (Or.inr (by omega)))
      beta_reduce
      unfold ccm_CreasedScatterWeight
      rw [a8, a7]
      simp only [a1, Option.getD_some, Int.toNat_ofNat])
  simp only [zero_add] at s1 s3 s4
  refine ⟨oS, ?_, s2, fun j hj => s4 j (Or.inr hj), ?_⟩
  · unfold ccs__CreasedCageVertexPoints_Scatter
    simp only [hout, Option.bind_eq_bind, Option.some_bind]
    rw [s1]
    rfl
  · intro v hlt
    have hfilter : (List.range (ccm_HalfedgeCount subd.cage)).filter
          (fun g : Nat => ((ccm_HalfedgeVertexID subd.cage g).getD 0).toNat = v)
        = (List.range (ccm_HalfedgeCount subd.cage)).filter
          (fun g : Nat => ccm_HalfedgeVertexID subd.cage g = some (v : Int)) := by
      apply List.filter_congr
      intro g hg
      obtain ⟨v2, Vp, p, thisS, prevS, r, Ep, Eg, Fg, a0, a1, _⟩ :=
        cage_creased_scatter_body subd.cage fuel g (hv g (List.mem_range.mp hg)) out out hlen
          (fun _ _ => rfl)
      simp only [a1, Option.getD_some, Int.toNat_ofNat, Option.some.injEq, Nat.cast_inj]
    rw [s3 v hlt, hfilter]
    unfold ccm_VertexHalfedges
    rw [List.map_map]
    rfl

/-- The corner rule of the creased scatter kernels: with a valence of 2 and a
crease count of at least 2 after the boundary corrections, the contribution is
the old position divided by the number of iterations the halfedge has counted;
the two kernels test the rules in different orders and agree here. -/
theorem scatter_rule_corner (V Eg Ep Fg : cc_VertexPoint) (cw pcw : ℚ) (last : Int)
    (s : cc_VertexCounts)
    (hval : s.valence + (if last < 0 then 1 else 0) = 2)
    (hcc : 2 ≤ s.creaseCount + (if last < 0 then cw else 0)) :
    ccs__CreasedCageVertexPoints_Scatter_rule V Eg Ep Fg cw pcw last s
        = (1 / s.valence) • V ∧
    ccs__CreasedVertexPoints_Scatter_rule V Eg Ep Fg cw pcw last s = (1 / s.valence) • V := by
  unfold ccs__CreasedCageVertexPoints_Scatter_rule ccs__CreasedVertexPoints_Scatter_rule
    cc_VertexCounts.points
  by_cases c : last < 0
  · simp only [if_pos c] at hval hcc ⊢
    rw [if_neg (by linarith), if_pos (Or.inr hval), if_pos (Or.inr hval)]
    simp only [cc__Mul3f, and_self]
  · simp only [if_neg c, add_zero] at hval hcc ⊢
    rw [if_neg (by linarith), if_pos (Or.inr hval), if_pos (Or.inr hval)]
    simp only [cc__Mul3f, and_self]

/-- The halfedge `g` of level `depth` can be scattered by the creased kernel:
its vertex is in `[0, V_depth)` and has a position, its edge and the edge of its
predecessor are in `[0, E_depth)` and have a sharpness, its face is in
`[0, F_depth)`, and the two loops around its vertex exit within `fuel` steps. -/
def ccs_CreasedHalfedgeReadable (subd : cc_Subd) (depth fuel : Nat) (g : Int) : Prop :=
  (∃ v ∈ ccs_HalfedgeVertexID subd g depth,
    (0 ≤ v ∧ v < (ccm_VertexCountAtDepth_Fast subd.cage depth : Int)) ∧
      (ccs_VertexPoint subd v depth).isSome = true) ∧
  ccs_HalfedgePointsInBounds subd depth g ∧
  (ccs_HalfedgeSharpness subd g depth).isSome = true ∧
  (∃ e ∈ ccs_HalfedgeEdgeID subd (ccs_HalfedgePrevID subd g depth) depth,
    0 ≤ e ∧ e < (ccm_EdgeCountAtDepth_Fast subd.cage depth : Int)) ∧
  ∃ prevS ∈ ccs_HalfedgeSharpness subd (ccs_HalfedgePrevID subd g depth) depth,
    (ccs__CreasedVertexPoints_Scatter_walks subd depth fuel g
      (ccs_HalfedgePrevID subd g depth) prevS).isSome = true

instance (subd : cc_Subd) (depth fuel : Nat) (g : Int) :
    Decidable (ccs_CreasedHalfedgeReadable subd depth fuel g) := by
  unfold ccs_CreasedHalfedgeReadable
  infer_instance

/-- Every halfedge of level `depth` can be scattered by the creased kernel. -/
def ccs_CreasedHalfedgesReadable (subd : cc_Subd) (depth fuel : Nat) : Prop :=
  ∀ g : Nat, g < ccm_HalfedgeCountAtDepth subd.cage depth →
    ccs_CreasedHalfedgeReadable subd depth fuel g

instance (subd : cc_Subd) (depth fuel : Nat) :
    Decidable (ccs_CreasedHalfedgesReadable subd depth fuel) := by
  unfold ccs_CreasedHalfedgesReadable
  infer_instance

/-- The contribution of the halfedge `g` of level `depth` in
`ccs__CreasedVertexPoints_Scatter`, read from the region `points`. -/
def ccs_CreasedScatterWeight (subd : cc_Subd) (depth : Nat) (points : List cc_VertexPoint)
    (fuel : Nat) (g : Int) : cc_VertexPoint :=
  ((ccs__CreasedVertexPoints_Scatter_halfedge subd depth
    (ccm_VertexCountAtDepth_Fast subd.cage depth) (ccm_FaceCountAtDepth_Fast subd.cage depth)
    points fuel g).getD default).2

/-- What the body of `ccs__CreasedVertexPoints_Scatter` reads for a readable
halfedge, and its value. -/
theorem level_creased_scatter_body (subd : cc_Subd) (depth fuel : Nat) (g : Int)
    (hr : ccs_CreasedHalfedgeReadable subd depth fuel g) (o out : List cc_VertexPoint)
    (hlen : ccm_VertexCountAtDepth_Fast subd.cage depth
      + ccm_FaceCountAtDepth_Fast subd.cage depth
      + ccm_EdgeCountAtDepth_Fast subd.cage depth ≤ out.length)
    (hag : ∀ j : Nat, ccm_VertexCountAtDepth_Fast subd.cage depth ≤ j → o[j]? = out[j]?) :
    ∃ (v : Nat) (Vp : cc_VertexPoint) (thisS prevS : ℚ) (r : Int × cc_VertexCounts)
      (Ep Eg Fg : cc_VertexPoint),
      v < ccm_VertexCountAtDepth_Fast subd.cage depth ∧
      ccs_HalfedgeVertexID subd g depth = some (v : Int) ∧
      ccs_VertexPoint subd v depth = some Vp ∧
      ccs_HalfedgeSharpness subd g depth = some thisS ∧
      ccs_HalfedgeSharpness subd (ccs_HalfedgePrevID subd g depth) depth = some prevS ∧
      ccs__CreasedVertexPoints_Scatter_walks subd depth fuel g
        (ccs_HalfedgePrevID subd g depth) prevS = some r ∧
      ccs__CreasedVertexPoints_Scatter_halfedge subd depth
          (ccm_VertexCountAtDepth_Fast subd.cage depth)
          (ccm_FaceCountAtDepth_Fast subd.cage depth) out fuel g
        = some ((v : Int), ccs__CreasedVertexPoints_Scatter_rule Vp Eg Ep Fg
            (cc__Signf thisS) (cc__Signf prevS) r.1 r.2) ∧
      ccs__CreasedVertexPoints_Scatter_halfedge subd depth
          (ccm_VertexCountAtDepth_Fast subd.cage depth)
          (ccm_FaceCountAtDepth_Fast subd.cage depth) o fuel g
        = ccs__CreasedVertexPoints_Scatter_halfedge subd depth
          (ccm_VertexCountAtDepth_Fast subd.cage depth)
          (ccm_FaceCountAtDepth_Fast subd.cage depth) out fuel g := by
  obtain ⟨⟨v, a1, ⟨a2, a3⟩, a4⟩, ⟨⟨e, e1, e2, e3⟩, ⟨f2, f3⟩⟩, hs,
    ⟨pe, q1, q2, q3⟩, prevS, p2, hw⟩ := hr
  rw [Option.mem_def] at a1 e1 q1 p2
  obtain ⟨k, rfl⟩ : ∃ k : Nat, v = (k : Int) := ⟨v.toNat, by omega⟩
  have hk : k < ccm_VertexCountAtDepth_Fast subd.cage depth := by omega
  obtain ⟨Vp, hV⟩ := Option.isSome_iff_exists.mp a4
  obtain ⟨thisS, hS⟩ := Option.isSome_iff_exists.mp hs
  obtain ⟨r, hr⟩ := Option.isSome_iff_exists.mp hw
  obtain ⟨r1, r2⟩ := readAt_agree_ge o out (ccm_VertexCountAtDepth_Fast subd.cage depth)
    ((ccm_VertexCountAtDepth_Fast subd.cage depth : Int)
      + (ccm_FaceCountAtDepth_Fast subd.cage depth : Int) + e) (by omega) (by omega) hag
  obtain ⟨r3, r4⟩ := readAt_agree_ge o out (ccm_VertexCountAtDepth_Fast subd.cage depth)
    ((ccm_VertexCountAtDepth_Fast subd.cage depth : Int) + ccs_HalfedgeFaceID subd g depth)
    (by omega) (by omega) hag
  obtain ⟨r5, r6⟩ := readAt_agree_ge o out (ccm_VertexCountAtDepth_Fast subd.cage depth)
    ((ccm_VertexCountAtDepth_Fast subd.cage depth : Int)
      + (ccm_FaceCountAtDepth_Fast subd.cage depth : Int) + pe) (by omega) (by omega) hag
  obtain ⟨x, hx⟩ := Option.isSome_iff_exists.mp r2
  obtain ⟨y, hy⟩ := Option.isSome_iff_exists.mp r4
  obtain ⟨z, hz⟩ := Option.isSome_iff_exists.mp r6
  refine ⟨k, Vp, thisS, prevS, r, z, x, y, hk, a1, hV, hS, p2, hr, ?_, ?_⟩
  · unfold ccs__CreasedVertexPoints_Scatter_halfedge ccs__CreasedVertexPoints_Scatter_reads
    simp only [a1, hS, p2, e1, q1, hx, hy, hz, hV, hr, Option.bind_eq_bind,
      Option.some_bind]
  · unfold ccs__CreasedVertexPoints_Scatter_halfedge ccs__CreasedVertexPoints_Scatter_reads
    simp only [a1, hS, p2, e1, q1, r1, r3, r5, Option.bind_eq_bind, Option.some_bind]

/-- The kernel `ccs__CreasedVertexPoints_Scatter` on a level whose halfedges are
readable: it returns, keeps the face points and the edge points, and adds to the
slot of every vertex the contributions of the halfedges of the vertex. -/
theorem level_creased_vertex_scatter_kernel (subd : cc_Subd) (depth fuel : Nat)
    (out : List cc_VertexPoint)
    (hout : ccs__Level subd.vertexPoints (depth + 1) = some out)
    (hlen : ccm_VertexCountAtDepth_Fast subd.cage depth
      + ccm_FaceCountAtDepth_Fast subd.cage depth
      + ccm_EdgeCountAtDepth_Fast subd.cage depth ≤ out.length)
    (hv : ccs_CreasedHalfedgesReadable subd depth fuel) :
    ∃ outS, ccs__CreasedVertexPoints_Scatter subd depth fuel =
        some { subd with vertexPoints := subd.vertexPoints.set depth outS } ∧
      outS.length = out.length ∧
      (∀ j : Nat, ccm_VertexCountAtDepth_Fast subd.cage depth ≤ j → outS[j]? = out[j]?) ∧
      ∀ v : Nat, v < ccm_VertexCountAtDepth_Fast subd.cage depth →
        outS[v]? = (out[v]?).map (fun p => p +
          ((ccs_VertexHalfedges subd depth v).map
            (ccs_CreasedScatterWeight subd depth out fuel)).sum) := by
  obtain ⟨oS, s1, s2, s3, s4⟩ := scatter_foldlM (ccm_HalfedgeCountAtDepth subd.cage depth)
    0 (ccm_VertexCountAtDepth_Fast subd.cage depth) 0 rfl
    (fun o (g : Nat) => ccs__CreasedVertexPoints_Scatter_halfedge subd depth
      (ccm_VertexCountAtDepth_Fast subd.cage depth) (ccm_FaceCountAtDepth_Fast subd.cage depth)
      o fuel g)
    (fun g => ((ccs_HalfedgeVertexID subd g depth).getD 0).toNat)
    (fun g => ccs_CreasedScatterWeight subd depth out fuel (g : Nat))
    out (by omega)
    (by
      intro g hg
      obtain ⟨v, Vp, thisS, prevS, r, Ep, Eg, Fg, a0, a1, _⟩ :=
        level_creased_scatter_body subd depth fuel g (hv g hg) out out hlen (fun _ _ => rfl)
      simp only [a1, Option.getD_some, Int.toNat_ofNat]
      exact a0)
    (by
      intro o g hg _ hag
      obtain ⟨v, Vp, thisS, prevS, r, Ep, Eg, Fg, a0, a1, a2, a4, a5, a6, a7, a8⟩ :=
        level_creased_scatter_body subd depth fuel g (hv g hg) o out hlen
          (fun j hj => hag j (Or.inr (by omega)))
      beta_reduce
      unfold ccs_CreasedScatterWeight
      rw [a8, a7]
      simp only [a1, Option.getD_some, Int.toNat_ofNat])
  simp only [zero_add] at s1 s3 s4
  refine ⟨oS, ?_, s2, fun j hj => s4 j (Or.inr hj), ?_⟩
  · unfold ccs__CreasedVertexPoints_Scatter
    simp only [hout, Option.bind_eq_bind, Option.some_bind]
    rw [s1]
    rfl
  · intro v hlt
    have hfilter : (List.range (ccm_HalfedgeCountAtDepth subd.cage depth)).filter
          (fun g : Nat => ((ccs_HalfedgeVertexID subd g depth).getD 0).toNat = v)
        = (List.range (ccm_HalfedgeCountAtDepth subd.cage depth)).filter
          (fun g : Nat => ccs_HalfedgeVertexID subd g depth = some (v : Int)) := by
      apply List.filter_congr
      intro g hg
      obtain ⟨v2, Vp, thisS, prevS, r, Ep, Eg, Fg, a0, a1, _⟩ :=
        level_creased_scatter_body subd depth fuel g (hv g (List.mem_range.mp hg)) out out hlen
          (fun _ _ => rfl)
      simp only [a1, Option.getD_some, Int.toNat_ofNat, Option.some.injEq, Nat.cast_inj]
    rw [s3 v hlt, hfilter]
    unfold ccs_VertexHalfedges
    rw [List.map_map]
    rfl

/-- The creased scatter kernel of the cage sees, from the halfedge `g`, a corner
of valence 2: its two loops count `n` iterations, and after the boundary
corrections the valence is 2 and the crease count is at least 2. -/
def ccm_CornerHalfedge (cage : cc_Mesh) (fuel : Nat) (n : Nat) (g : Int) : Prop :=
  ∃ p ∈ ccm_HalfedgePrevID cage g, ∃ thisS ∈ ccm_HalfedgeSharpness cage g,
    ∃ prevS ∈ ccm_HalfedgeSharpness cage p,
      ∃ r ∈ ccs__CreasedCageVertexPoints_Scatter_walks cage fuel g p prevS,
        r.2.valence = (n : ℚ) ∧ r.2.valence + (if r.1 < 0 then 1 else 0) = 2 ∧
        2 ≤ r.2.creaseCount + (if r.1 < 0 then cc__Signf thisS else 0)

instance (cage : cc_Mesh) (fuel : Nat) (n : Nat) (g : Int) :
    Decidable (ccm_CornerHalfedge cage fuel n g) := by
  unfold ccm_CornerHalfedge
  infer_instance

/-- The creased scatter kernel of level `depth` sees, from the halfedge `g`, a
corner of valence 2. -/
def ccs_CornerHalfedge (subd : cc_Subd) (depth fuel : Nat) (n : Nat) (g : Int) : Prop :=
  ∃ thisS ∈ ccs_HalfedgeSharpness subd g depth,
    ∃ prevS ∈ ccs_HalfedgeSharpness subd (ccs_HalfedgePrevID subd g depth) depth,
      ∃ r ∈ ccs__CreasedVertexPoints_Scatter_walks subd depth fuel g
          (ccs_HalfedgePrevID subd g depth) prevS,
        r.2.valence = (n : ℚ) ∧ r.2.valence + (if r.1 < 0 then 1 else 0) = 2 ∧
        2 ≤ r.2.creaseCount + (if r.1 < 0 then cc__Signf thisS else 0)

instance (subd : cc_Subd) (depth fuel : Nat) (n : Nat) (g : Int) :
    Decidable (ccs_CornerHalfedge subd depth fuel n g) := by
  unfold ccs_CornerHalfedge
  infer_instance

/-- The contributions of `n` halfedges that each give the `n`-th part of the old
position sum to the old position. -/
theorem corner_sum (hs : List Int) (w : Int → cc_VertexPoint) (Vp : cc_VertexPoint)
    (hne : hs ≠ []) (hw : ∀ g ∈ hs, w g = (1 / (hs.length : ℚ)) • Vp) :
    (hs.map w).sum = Vp := by
  have hn : (hs.length : ℚ) ≠ 0 := by
    have : hs.length ≠ 0 := fun h => hne (List.length_eq_zero.mp h)
    exact_mod_cast this
  rw [List.map_congr_left hw, List.map_const', List.sum_replicate,
    ← Nat.cast_smul_eq_nsmul ℚ, smul_smul, mul_one_div_cancel hn, one_smul]

/-- C27: a vertex of valence 2 with a crease count of at least 2 is held fixed
by the four creased vertex point kernels.  Gather, cage (first part) and every
depth (second part): on a readable cage or level the kernel returns, and a
vertex whose walk gives, after the boundary corrections, the valence 2 and a
crease count of at least 2 gets its old position.  Scatter, cage (third part)
and every depth (fourth part): on a cage or level whose halfedges are readable
the kernel returns, and for a vertex that has halfedges, each of which counts
as many iterations as the vertex has halfedges and sees the valence 2 and a
crease count of at least 2 (`ccm_CornerHalfedge`, `ccs_CornerHalfedge`), the
contributions of its halfedges sum to its old position: the slot of the vertex
is increased by the old position. -/
theorem C27_valence_two_corner_fixed :
    (∀ (subd : cc_Subd) (fuel : Nat) (out : List cc_VertexPoint),
      subd.vertexPoints[0]? = some out →
      ccm_VertexCount subd.cage + ccm_FaceCount subd.cage + ccm_EdgeCount subd.cage
        ≤ out.length →
      ccm_CreasedVertexRingsReadable subd.cage fuel →
      ∃ out', ccs__CreasedCageVertexPoints_Gather subd fuel =
          some { subd with vertexPoints := subd.vertexPoints.set 0 out' } ∧
        ∀ v : Nat, v < ccm_VertexCount subd.cage →
          ∀ (h : Int) (Vp Eh : cc_VertexPoint) (thisS : ℚ) (ring : List Int) (last : Int)
            (items : List (cc_VertexPoint × cc_VertexPoint × ℚ)),
            ccm_VertexToHalfedgeID subd.cage v = some h →
            ccm_VertexPoint subd.cage v = some Vp →
            ccm_HalfedgeSharpness subd.cage h = some thisS →
            ccm_HalfedgeNewEdgePoint subd.cage out h = some Eh →
            ccm_VertexRing subd.cage fuel h = some (ring, last) →
            ring.map (ccm_PrevNewPoints subd.cage out) = items.map some →
            (cc_VertexLocals.sum items).valence + (if last < 0 then 1 else 0) = 2 →
            2 ≤ (cc_VertexLocals.sum items).creaseCount
              + (if last < 0 then cc__Signf thisS else 0) →
            out'[v]? = some Vp) ∧
    (∀ (subd : cc_Subd) (edgeToHalfedgeID : Int → Nat → Int)
      (vertexToHalfedgeID_First : Int → Int) (depth fuel : Nat) (out : List cc_VertexPoint),
      ccs__Level subd.vertexPoints (depth + 1) = some out →
      ccm_VertexCountAtDepth_Fast subd.cage depth + ccm_FaceCountAtDepth_Fast subd.cage depth
        + ccm_EdgeCountAtDepth_Fast subd.cage depth ≤ out.length →
      ccs_CreasedVertexRingsReadable subd edgeToHalfedgeID vertexToHalfedgeID_First
        depth fuel →
      ∃ out', ccs__CreasedVertexPoints_Gather subd edgeToHalfedgeID vertexToHalfedgeID_First
            depth fuel =
          some { subd with vertexPoints := subd.vertexPoints.set depth out' } ∧
        ∀ v : Nat, v < ccm_VertexCountAtDepth_Fast subd.cage depth →
          ∀ (h : Int) (Vp Eh : cc_VertexPoint) (thisS : ℚ) (ring back : List Int)
            (last : Int) (itemsF itemsB : List (cc_VertexPoint × cc_VertexPoint × ℚ)),
            ccs_VertexPointToHalfedgeID subd.cage edgeToHalfedgeID vertexToHalfedgeID_First
              v depth fuel = some h →
            ccs_VertexPoint subd v depth = some Vp →
            ccs_HalfedgeSharpness subd h depth = some thisS →
            ccs_HalfedgeNewEdgePoint subd depth out h = some Eh →
            ccs_VertexRing subd depth fuel h = some (ring, last) →
            ccs_VertexRingBackward subd depth fuel h last = some back →
            ring.map (ccs_PrevNewPoints subd depth out) = itemsF.map some →
            back.map (ccs_NextNewPoints subd depth out) = itemsB.map some →
            (cc_VertexLocals.sum (itemsF ++ itemsB)).valence
              + (if last < 0 then 1 else 0) = 2 →
            2 ≤ (cc_VertexLocals.sum (itemsF ++ itemsB)).creaseCount
              + (if last < 0 then cc__Signf thisS else 0) →
            out'[v]? = some Vp) ∧
    (∀ (subd : cc_Subd) (fuel : Nat) (out : List cc_VertexPoint),
      subd.vertexPoints[0]? = some out →
      ccm_VertexCount subd.cage + ccm_FaceCount subd.cage + ccm_EdgeCount subd.cage
        ≤ out.length →
      ccm_CreasedHalfedgesReadable subd.cage fuel →
      ∃ outS, ccs__CreasedCageVertexPoints_Scatter subd fuel =
          some { subd with vertexPoints := subd.vertexPoints.set 0 outS } ∧
        ∀ v : Nat, v < ccm_VertexCount subd.cage →
          ∀ Vp : cc_VertexPoint, ccm_VertexPoint subd.cage v = some Vp →
            ccm_VertexHalfedges subd.cage v ≠ [] →
            (∀ g ∈ ccm_VertexHalfedges subd.cage v,
              ccm_CornerHalfedge subd.cage fuel (ccm_VertexHalfedges subd.cage v).length g) →
            ((ccm_VertexHalfedges subd.cage v).map
              (ccm_CreasedScatterWeight subd.cage out fuel)).sum = Vp ∧
            outS[v]? = (out[v]?).map (fun p => p + Vp)) ∧
    (∀ (subd : cc_Subd) (depth fuel : Nat) (out : List cc_VertexPoint),
      ccs__Level subd.vertexPoints (depth + 1) = some out →
      ccm_VertexCountAtDepth_Fast subd.cage depth + ccm_FaceCountAtDepth_Fast subd.cage depth
        + ccm_EdgeCountAtDepth_Fast subd.cage depth ≤ out.length →
      ccs_CreasedHalfedgesReadable subd depth fuel →
      ∃ outS, ccs__CreasedVertexPoints_Scatter subd depth fuel =
          some { subd with vertexPoints := subd.vertexPoints.set depth outS } ∧
        ∀ v : Nat, v < ccm_VertexCountAtDepth_Fast subd.cage depth →
          ∀ Vp : cc_VertexPoint, ccs_VertexPoint subd v depth = some Vp →
            ccs_VertexHalfedges subd depth v ≠ [] →
            (∀ g ∈ ccs_VertexHalfedges subd depth v,
              ccs_CornerHalfedge subd depth fuel (ccs_VertexHalfedges subd depth v).length g) →
            ((ccs_VertexHalfedges subd depth v).map
              (ccs_CreasedScatterWeight subd depth out fuel)).sum = Vp ∧
            outS[v]? = (out[v]?).map (fun p => p + Vp)) := by
  refine ⟨?_, ?_, ?_, ?_⟩
  · intro subd fuel out hout hlen hv
    obtain ⟨o, e1, _, _, e4⟩ := cage_creased_vertex_kernel subd fuel out hout hlen hv
    refine ⟨o, e1, ?_⟩
    intro v hlt h Vp Eh thisS ring last items a1 a2 a3 a4 a5 a6 hval hcc
    rw [e4 v hlt h Vp Eh thisS ring last items a1 a2 a3 a4 a5 a6,
      (cage_rule_branches Vp Eh (cc__Signf thisS) last (cc_VertexLocals.sum items) _ _ _
        rfl rfl rfl).2.1 (by linarith) (Or.inr hval)]
  · intro subd e2h v2h depth fuel out hout hlen hv
    obtain ⟨o, e1, _, _, e4⟩ := level_creased_vertex_kernel subd e2h v2h depth fuel out hout
      hlen hv
    refine ⟨o, e1, ?_⟩
    intro v hlt h Vp Eh thisS ring back last itemsF itemsB a1 a2 a3 a4 a5 a6 a7 a8 hval hcc
    rw [e4 v hlt h Vp Eh thisS ring back last itemsF itemsB a1 a2 a3 a4 a5 a6 a7 a8,
      (level_rule_branches Vp Eh (cc__Signf thisS) last (cc_VertexLocals.sum (itemsF ++ itemsB))
        _ _ _ rfl rfl rfl).2.1 (by linarith) (Or.inr hval)]
  · intro subd fuel out hout hlen hv
    obtain ⟨oS, s1, _, _, s4⟩ := cage_creased_vertex_scatter_kernel subd fuel out hout hlen hv
    refine ⟨oS, s1, ?_⟩
    intro v hlt Vp hV hne hc
    have hsum : ((ccm_VertexHalfedges subd.cage v).map
        (ccm_CreasedScatterWeight subd.cage out fuel)).sum = Vp := by
      apply corner_sum _ _ _ hne
      intro g hg
      obtain ⟨i, hi, hgv, rfl⟩ := (mem_ccm_VertexHalfedges subd.cage v g).mp hg
      obtain ⟨p, c1, thisS, c2, prevS, c3, r, c4, c5, c6, c7⟩ := hc _ hg
      rw [Option.mem_def] at c1 c2 c3 c4
      obtain ⟨v2, Vp2, p2, thisS2, prevS2, r2, Ep, Eg, Fg, a0, a1, a2, a3, a4, a5, a6, a7, _⟩ :=
        cage_creased_scatter_body subd.cage fuel i (hv i hi) out out hlen (fun _ _ => rfl)
      rw [hgv] at a1
      have hvv : v2 = v := by
        have := Option.some.inj a1
        omega
      subst hvv
      rw [hV] at a2; cases a2
      rw [c1] at a3; cases a3
      rw [c2] at a4; cases a4
      rw [c3] at a5; cases a5
      rw [c4] at a6; cases a6
      unfold ccm_CreasedScatterWeight
      rw [a7, Option.getD_some,
        (scatter_rule_corner Vp Eg Ep Fg (cc__Signf thisS) (cc__Signf prevS) r.1 r.2 c6 c7).1, c5]
    exact ⟨hsum, by rw [s4 v hlt, hsum]⟩
  · intro subd depth fuel out hout hlen hv
    obtain ⟨oS, s1, _, _, s4⟩ :=
      level_creased_vertex_scatter_kernel subd depth fuel out hout hlen hv
    refine ⟨oS, s1, ?_⟩
    intro v hlt Vp hV hne hc
    have hsum : ((ccs_VertexHalfedges subd depth v).map
        (ccs_CreasedScatterWeight subd depth out fuel)).sum = Vp := by
      apply corner_sum _ _ _ hne
      intro g hg
      obtain ⟨i, hi, hgv, rfl⟩ := (mem_ccs_VertexHalfedges subd depth v g).mp hg
      obtain ⟨thisS, c2, prevS, c3, r, c4, c5, c6, c7⟩ := hc _ hg
      rw [Option.mem_def] at c2 c3 c4
      obtain ⟨v2, Vp2, thisS2, prevS2, r2, Ep, Eg, Fg, a0, a1, a2, a4, a5, a6, a7, _⟩ :=
        level_creased_scatter_body subd depth fuel i (hv i hi) out out hlen (fun _ _ => rfl)
      rw [hgv] at a1
      have hvv : v2 = v := by
        have := Option.some.inj a1
        omega
      subst hvv
      rw [hV] at a2; cases a2
      rw [c2] at a4; cases a4
      rw [c3] at a5; cases a5
      rw [c4] at a6; cases a6
      unfold ccs_CreasedScatterWeight
      rw [a7, Option.getD_some,
        (scatter_rule_corner Vp Eg Ep Fg (cc__Signf thisS) (cc__Signf prevS) r.1 r.2 c6 c7).2, c5]
    exact ⟨hsum, by rw [s4 v hlt, hsum]⟩

/-- C27, witness: the vertex 1 of `sharpTriangle` (cage kernels) and the corner 1
of level 1 of `quadBoundarySubd` (level kernels): one halfedge between two
sharp boundary edges, old position `(1, 0, 0)`. -/
theorem C27_valence_two_corner_fixed_witness :
    (∃ out' : List cc_VertexPoint,
        ccs__CreasedCageVertexPoints_Gather sharpTriangleSubd 2 =
          some { sharpTriangleSubd with
            vertexPoints := sharpTriangleSubd.vertexPoints.set 0 out' } ∧
        out'[1]? = some ((1, 0, 0) : cc_VertexPoint)) ∧
    (∃ out' : List cc_VertexPoint,
        ccs__CreasedVertexPoints_Gather quadBoundarySubd quadEdgeToHalfedgeID
            quadVertexToHalfedgeID_First 1 4 =
          some { quadBoundarySubd with
            vertexPoints := quadBoundarySubd.vertexPoints.set 1 out' } ∧
        out'[1]? = some ((1, 0, 0) : cc_VertexPoint)) ∧
    (∃ outS : List cc_VertexPoint,
        ccs__CreasedCageVertexPoints_Scatter sharpTriangleSubd 2 =
          some { sharpTriangleSubd with
            vertexPoints := sharpTriangleSubd.vertexPoints.set 0 outS } ∧
        outS[1]? = some ((1, 0, 0) : cc_VertexPoint)) ∧
    (∃ outS : List cc_VertexPoint,
        ccs__CreasedVertexPoints_Scatter quadBoundarySubd 1 4 =
          some { quadBoundarySubd with
            vertexPoints := quadBoundarySubd.vertexPoints.set 1 outS } ∧
        outS[1]? = some ((1, 0, 0) : cc_VertexPoint)) := by
  refine ⟨?_, ?_, ?_, ?_⟩
  · obtain ⟨out', h1, h4⟩ := C27_valence_two_corner_fixed.1 sharpTriangleSubd 2 _ rfl
      (by decide) (by decide!)
    exact ⟨out', h1, h4 1 (by decide) 1 (1, 0, 0) (1 / 2, 1 / 2, 0) 3 [1] (-1)
      [((1 / 2, 0, 0), (1 / 3, 1 / 3, 0), 3)] (by decide!) (by decide!) (by decide!)
      (by decide!) (by decide!) (by decide!) (by decide!) (by decide!)⟩
  · obtain ⟨out', h1, h4⟩ := C27_valence_two_corner_fixed.2.1 quadBoundarySubd
      quadEdgeToHalfedgeID quadVertexToHalfedgeID_First 1 4 _ rfl (by decide) (by decide!)
    exact ⟨out', h1, h4 1 (by decide) 4 (1, 0, 0) (1, 1 / 4, 0) 1 [4] [] (-4)
      [((3 / 4, 0, 0), (3 / 4, 1 / 4, 0), 1)] [] (by decide!) (by decide!) (by decide!)
      (by decide!) (by decide!) (by decide!) (by decide!) (by decide!) (by decide!)
      (by decide!)⟩
  · obtain ⟨outS, h1, h4⟩ := C27_valence_two_corner_fixed.2.2.1 sharpTriangleSubd 2 _ rfl
      (by decide) (by decide!)
    obtain ⟨_, h5⟩ := h4 1 (by decide) (1, 0, 0) (by decide!) (by decide!) (by decide!)
    exact ⟨outS, h1, by rw [h5]; decide!⟩
  · obtain ⟨outS, h1, h4⟩ := C27_valence_two_corner_fixed.2.2.2 quadBoundarySubd 1 4 _ rfl
      (by decide) (by decide!)
    obtain ⟨_, h5⟩ := h4 1 (by decide) (1, 0, 0) (by decide!) (by decide!) (by decide!)
    exact ⟨outS, h1, by rw [h5]; decide!⟩

/-! ## C28: the levels do not depend on the depth of the subdivision -/

/-- The subdivision of depth `n` on the cage of `subd` whose buffers are the
regions of the levels `1` to `n` of the buffers of `subd`: what `subd` is when
it is created with `maxDepth = n` and the same initial contents. -/
def ccs_Truncate (n : Nat) (subd : cc_Subd) : cc_Subd :=
  { cage := subd.cage, maxDepth := n, halfedges := subd.halfedges.take n,
    creases := subd.creases.take n, vertexPoints := subd.vertexPoints.take n }

theorem ccs__Level_take {α : Type} (buf : List (List α)) (n k : Nat) (h : k ≤ n) :
    ccs__Level (buf.take n) k = ccs__Level buf k := by
  unfold ccs__Level
  split
  · rw [List.getElem?_take_of_lt (by omega)]
  · rfl

theorem take_set_comm {α : Type} (l : List α) (n d : Nat) (x : α) :
    (l.set d x).take n = (l.take n).set d x := by
  apply List.ext_getElem?
  intro i
  simp only [List.getElem?_take, List.getElem?_set, List.length_take]
  by_cases h1 : i < n <;> by_cases h2 : d = i <;> by_cases h3 : i < l.length <;>
    simp [h1, h2, h3]

theorem take_set_of_le {α : Type} (l : List α) (n d : Nat) (x : α) (h : n ≤ d) :
    (l.set d x).take n = l.take n := by
  rw [take_set_comm, List.set_eq_of_length_le]
  rw [List.length_take]
  omega

theorem getElem?_zero_take {α : Type} (l : List α) (n : Nat) (h : 1 ≤ n) :
    (l.take n)[0]? = l[0]? := by
  rw [List.getElem?_take_of_lt (by omega)]

theorem trunc_HalfedgeTwinID (S : cc_Subd) (n d : Nat) (hd : d ≤ n) (h : Int) :
    ccs_HalfedgeTwinID (ccs_Truncate n S) h d = ccs_HalfedgeTwinID S h d := by
  unfold ccs_HalfedgeTwinID ccs_Truncate
  simp only [ccs__Level_take _ _ _ hd]

theorem trunc_HalfedgeEdgeID (S : cc_Subd) (n d : Nat) (hd : d ≤ n) (h : Int) :
    ccs_HalfedgeEdgeID (ccs_Truncate n S) h d = ccs_HalfedgeEdgeID S h d := by
  unfold ccs_HalfedgeEdgeID ccs_Truncate
  simp only [ccs__Level_take _ _ _ hd]

theorem trunc_HalfedgeVertexID (S : cc_Subd) (n d : Nat) (hd : d ≤ n) (h : Int) :
    ccs_HalfedgeVertexID (ccs_Truncate n S) h d = ccs_HalfedgeVertexID S h d := by
  unfold ccs_HalfedgeVertexID ccs_Truncate
  simp only [ccs__Level_take _ _ _ hd]

theorem trunc_CreaseNextID_Fast (S : cc_Subd) (n d : Nat) (hd : d ≤ n) (e : Int) :
    ccs_CreaseNextID_Fast (ccs_Truncate n S) e d = ccs_CreaseNextID_Fast S e d := by
  unfold ccs_CreaseNextID_Fast ccs_Truncate
  simp only [ccs__Level_take _ _ _ hd]

theorem trunc_CreasePrevID_Fast (S : cc_Subd) (n d : Nat) (hd : d ≤ n) (e : Int) :
    ccs_CreasePrevID_Fast (ccs_Truncate n S) e d = ccs_CreasePrevID_Fast S e d := by
  unfold ccs_CreasePrevID_Fast ccs_Truncate
  simp only [ccs__Level_take _ _ _ hd]

theorem trunc_CreaseSharpness_Fast (S : cc_Subd) (n d : Nat) (hd : d ≤ n) (e : Int) :
    ccs_CreaseSharpness_Fast (ccs_Truncate n S) e d = ccs_CreaseSharpness_Fast S e d := by
  unfold ccs_CreaseSharpness_Fast ccs_Truncate
  simp only [ccs__Level_take _ _ _ hd]

theorem trunc_CreaseSharpness (S : cc_Subd) (n d : Nat) (hd : d ≤ n) (e : Int) :
    ccs_CreaseSharpness (ccs_Truncate n S) e d = ccs_CreaseSharpness S e d := by
  unfold ccs_CreaseSharpness ccs_Truncate
  simp only [ccs__Level_take _ _ _ hd]

theorem trunc_VertexPoint (S : cc_Subd) (n d : Nat) (hd : d ≤ n) (v : Int) :
    ccs_VertexPoint (ccs_Truncate n S) v d = ccs_VertexPoint S v d := by
  unfold ccs_VertexPoint ccs_Truncate
  simp only [ccs__Level_take _ _ _ hd]

theorem trunc_HalfedgeVertexPoint (S : cc_Subd) (n d : Nat) (hd : d ≤ n) (h : Int) :
    ccs_HalfedgeVertexPoint (ccs_Truncate n S) h d = ccs_HalfedgeVertexPoint S h d := by
  unfold ccs_HalfedgeVertexPoint
  simp only [trunc_HalfedgeVertexID S n d hd, trunc_VertexPoint S n d hd]

theorem trunc_HalfedgeSharpness (S : cc_Subd) (n d : Nat) (hd : d ≤ n) (h : Int) :
    ccs_HalfedgeSharpness (ccs_Truncate n S) h d = ccs_HalfedgeSharpness S h d := by
  unfold ccs_HalfedgeSharpness
  simp only [trunc_HalfedgeEdgeID S n d hd, trunc_CreaseSharpness S n d hd]

theorem trunc_HalfedgeNewPoints (S : cc_Subd) (n d : Nat) (hd : d ≤ n) (V F : Int)
    (pts : List cc_VertexPoint) (h : Int) :
    ccs_HalfedgeNewPoints (ccs_Truncate n S) d V F pts h = ccs_HalfedgeNewPoints S d V F pts h := by
  unfold ccs_HalfedgeNewPoints
  simp only [trunc_HalfedgeEdgeID S n d hd, trunc_HalfedgeSharpness S n d hd,
    ccs_HalfedgeFaceID]

theorem option_bind_map_comm {α β γ : Type} (x : Option α) (f : α → β) (g : β → γ) :
    (x.bind (fun a => some (f a))).map g = x.bind (fun a => some (g (f a))) := by
  cases x <;> rfl

theorem trunc_RefineHalfedges_iteration (S : cc_Subd) (n d : Nat) (hd : d ≤ n) (V E F : Int)
    (out : List cc_Halfedge_SemiRegular) (h : Int) :
    ccs__RefineHalfedges_iteration (ccs_Truncate n S) d V E F out h
      = ccs__RefineHalfedges_iteration S d V E F out h := by
  unfold ccs__RefineHalfedges_iteration
  simp only [trunc_HalfedgeTwinID S n d hd, trunc_HalfedgeEdgeID S n d hd,
    trunc_HalfedgeVertexID S n d hd]

/-- The kernel `ccs__RefineHalfedges` at a depth `d < n` commutes with the
truncation to `n` levels. -/
theorem trunc_RefineHalfedges (S : cc_Subd) (n d : Nat) (hd : d + 1 ≤ n) :
    ccs__RefineHalfedges (ccs_Truncate n S) d
      = (ccs__RefineHalfedges S d).map (ccs_Truncate n) := by
  have hd0 : d ≤ n := by omega
  unfold ccs__RefineHalfedges ccs__RefineHalfedges_loop
  simp only [trunc_RefineHalfedges_iteration S n d hd0]
  show (ccs__Level (S.halfedges.take n) (d + 1)).bind _ = _
  rw [ccs__Level_take _ _ _ hd]
  cases ccs__Level S.halfedges (d + 1) with
  | none => rfl
  | some p =>
    simp only [Option.bind_eq_bind, Option.some_bind]
    rw [option_bind_map_comm]
    unfold ccs_Truncate
    simp only [take_set_comm]

theorem trunc_RefineCageHalfedges (S : cc_Subd) (n : Nat) (hn : 1 ≤ n) :
    ccs__RefineCageHalfedges (ccs_Truncate n S)
      = (ccs__RefineCageHalfedges S).map (ccs_Truncate n) := by
  unfold ccs__RefineCageHalfedges
  show ((S.halfedges.take n)[0]?).bind _ = _
  rw [getElem?_zero_take _ _ hn]
  cases S.halfedges[0]? with
  | none => rfl
  | some p =>
    simp only [Option.bind_eq_bind, Option.some_bind]
    rw [option_bind_map_comm]
    unfold ccs_Truncate
    simp only [take_set_comm]

theorem trunc_RefineCreases_iteration (S : cc_Subd) (n d : Nat) (hd : d ≤ n)
    (out : List cc_Crease) (e : Int) :
    ccs__RefineCreases_iteration (ccs_Truncate n S) d out e
      = ccs__RefineCreases_iteration S d out e := by
  unfold ccs__RefineCreases_iteration
  simp only [trunc_CreaseNextID_Fast S n d hd, trunc_CreasePrevID_Fast S n d hd,
    trunc_CreaseSharpness_Fast S n d hd]

theorem trunc_RefineCreases (S : cc_Subd) (n d : Nat) (hd : d + 1 ≤ n) :
    ccs__RefineCreases (ccs_Truncate n S) d
      = (ccs__RefineCreases S d).map (ccs_Truncate n) := by
  have hd0 : d ≤ n := by omega
  unfold ccs__RefineCreases
  simp only [trunc_RefineCreases_iteration S n d hd0]
  show (ccs__Level (S.creases.take n) (d + 1)).bind _ = _
  rw [ccs__Level_take _ _ _ hd]
  cases ccs__Level S.creases (d + 1) with
  | none => rfl
  | some p =>
    simp only [Option.bind_eq_bind, Option.some_bind]
    rw [option_bind_map_comm]
    unfold ccs_Truncate
    simp only [take_set_comm]

theorem trunc_RefineCageCreases (S : cc_Subd) (n : Nat) (hn : 1 ≤ n) :
    ccs__RefineCageCreases (ccs_Truncate n S)
      = (ccs__RefineCageCreases S).map (ccs_Truncate n) := by
  unfold ccs__RefineCageCreases
  show ((S.creases.take n)[0]?).bind _ = _
  rw [getElem?_zero_take _ _ hn]
  cases S.creases[0]? with
  | none => rfl
  | some p =>
    simp only [Option.bind_eq_bind, Option.some_bind]
    rw [option_bind_map_comm]
    unfold ccs_Truncate
    simp only [take_set_comm]

theorem trunc_CageFacePoints_Gather (S : cc_Subd) (n : Nat) (hn : 1 ≤ n) (fuel : Nat) :
    ccs__CageFacePoints_Gather (ccs_Truncate n S) fuel
      = (ccs__CageFacePoints_Gather S fuel).map (ccs_Truncate n) := by
  unfold ccs__CageFacePoints_Gather
  show ((S.vertexPoints.take n)[0]?).bind _ = _
  rw [getElem?_zero_take _ _ hn]
  cases S.vertexPoints[0]? with
  | none => rfl
  | some p =>
    simp only [Option.bind_eq_bind, Option.some_bind]
    rw [option_bind_map_comm]
    unfold ccs_Truncate
    simp only [take_set_comm]

theorem trunc_CreasedCageEdgePoints_Gather (S : cc_Subd) (n : Nat) (hn : 1 ≤ n) :
    ccs__CreasedCageEdgePoints_Gather (ccs_Truncate n S)
      = (ccs__CreasedCageEdgePoints_Gather S).map (ccs_Truncate n) := by
  unfold ccs__CreasedCageEdgePoints_Gather
  show ((S.vertexPoints.take n)[0]?).bind _ = _
  rw [getElem?_zero_take _ _ hn]
  cases S.vertexPoints[0]? with
  | none => rfl
  | some p =>
    simp only [Option.bind_eq_bind, Option.some_bind]
    rw [option_bind_map_comm]
    unfold ccs_Truncate
    simp only [take_set_comm]

theorem trunc_CreasedCageVertexPoints_Gather (S : cc_Subd) (n : Nat) (hn : 1 ≤ n)
    (fuel : Nat) :
    ccs__CreasedCageVertexPoints_Gather (ccs_Truncate n S) fuel
      = (ccs__CreasedCageVertexPoints_Gather S fuel).map (ccs_Truncate n) := by
  unfold ccs__CreasedCageVertexPoints_Gather
  show ((S.vertexPoints.take n)[0]?).bind _ = _
  rw [getElem?_zero_take _ _ hn]
  cases S.vertexPoints[0]? with
  | none => rfl
  | some p =>
    simp only [Option.bind_eq_bind, Option.some_bind]
    rw [option_bind_map_comm]
    unfold ccs_Truncate
    simp only [take_set_comm]

theorem trunc_FacePoints_Gather_face (S : cc_Subd) (n d : Nat) (hd : d ≤ n) (fuel : Nat)
    (f : Int) :
    ccs__FacePoints_Gather_face (ccs_Truncate n S) d fuel f
      = ccs__FacePoints_Gather_face S d fuel f := by
  unfold ccs__FacePoints_Gather_face
  simp only [trunc_HalfedgeVertexPoint S n d hd, ccs_FaceToHalfedgeID, ccs_HalfedgeNextID]

theorem trunc_FacePoints_Gather (S : cc_Subd) (n d : Nat) (hd : d + 1 ≤ n) (fuel : Nat) :
    ccs__FacePoints_Gather (ccs_Truncate n S) d fuel
      = (ccs__FacePoints_Gather S d fuel).map (ccs_Truncate n) := by
  have hd0 : d ≤ n := by omega
  unfold ccs__FacePoints_Gather
  simp only [trunc_FacePoints_Gather_face S n d hd0]
  show (ccs__Level (S.vertexPoints.take n) (d + 1)).bind _ = _
  rw [ccs__Level_take _ _ _ hd]
  cases ccs__Level S.vertexPoints (d + 1) with
  | none => rfl
  | some p =>
    simp only [Option.bind_eq_bind, Option.some_bind]
    rw [option_bind_map_comm]
    unfold ccs_Truncate
    simp only [take_set_comm]

theorem trunc_CreasedEdgePoints_Gather_edge (S : cc_Subd) (n d : Nat) (hd : d ≤ n)
    (e2h : Int → Nat → Int) (V : Int) (pts : List cc_VertexPoint) (e : Int) :
    ccs__CreasedEdgePoints_Gather_edge (ccs_Truncate n S) e2h d V pts e
      = ccs__CreasedEdgePoints_Gather_edge S e2h d V pts e := by
  unfold ccs__CreasedEdgePoints_Gather_edge
  simp only [trunc_HalfedgeVertexPoint S n d hd, trunc_HalfedgeTwinID S n d hd,
    trunc_CreaseSharpness S n d hd, ccs_HalfedgeFaceID, ccs_HalfedgeNextID]

theorem trunc_CreasedEdgePoints_Gather (S : cc_Subd) (n d : Nat) (hd : d + 1 ≤ n)
    (e2h : Int → Nat → Int) :
    ccs__CreasedEdgePoints_Gather (ccs_Truncate n S) e2h d
      = (ccs__CreasedEdgePoints_Gather S e2h d).map (ccs_Truncate n) := by
  have hd0 : d ≤ n := by omega
  unfold ccs__CreasedEdgePoints_Gather
  simp only [trunc_CreasedEdgePoints_Gather_edge S n d hd0]
  show (ccs__Level (S.vertexPoints.take n) (d + 1)).bind _ = _
  rw [ccs__Level_take _ _ _ hd]
  cases ccs__Level S.vertexPoints (d + 1) with
  | none => rfl
  | some p =>
    simp only [Option.bind_eq_bind, Option.some_bind]
    rw [option_bind_map_comm]
    unfold ccs_Truncate
    simp only [take_set_comm]

theorem trunc_CreasedVertexPoints_Gather_forward (S : cc_Subd) (n d : Nat) (hd : d ≤ n)
    (V F : Int) (pts : List cc_VertexPoint) :
    ccs__CreasedVertexPoints_Gather_forward (ccs_Truncate n S) d V F pts
      = ccs__CreasedVertexPoints_Gather_forward S d V F pts := by
  funext it s
  unfold ccs__CreasedVertexPoints_Gather_forward
  simp only [trunc_HalfedgeNewPoints S n d hd, trunc_HalfedgeTwinID S n d hd,
    ccs_HalfedgePrevID]

theorem trunc_CreasedVertexPoints_Gather_backward (S : cc_Subd) (n d : Nat) (hd : d ≤ n)
    (V F : Int) (pts : List cc_VertexPoint) :
    ccs__CreasedVertexPoints_Gather_backward (ccs_Truncate n S) d V F pts
      = ccs__CreasedVertexPoints_Gather_backward S d V F pts := by
  funext it s
  unfold ccs__CreasedVertexPoints_Gather_backward
  simp only [trunc_HalfedgeNewPoints S n d hd, trunc_HalfedgeTwinID S n d hd,
    ccs_HalfedgeNextID]

theorem trunc_CreasedVertexPoints_Gather_vertex (S : cc_Subd) (n d : Nat) (hd : d ≤ n)
    (e2h : Int → Nat → Int) (v2h : Int → Int) (V F : Int) (pts : List cc_VertexPoint)
    (fuel : Nat) (v : Int) :
    ccs__CreasedVertexPoints_Gather_vertex (ccs_Truncate n S) e2h v2h d V F pts fuel v
      = ccs__CreasedVertexPoints_Gather_vertex S e2h v2h d V F pts fuel v := by
  unfold ccs__CreasedVertexPoints_Gather_vertex
  simp only [trunc_HalfedgeNewPoints S n d hd, trunc_HalfedgeTwinID S n d hd,
    trunc_HalfedgeEdgeID S n d hd, trunc_HalfedgeSharpness S n d hd,
    trunc_VertexPoint S n d hd, trunc_CreasedVertexPoints_Gather_forward S n d hd,
    trunc_CreasedVertexPoints_Gather_backward S n d hd, ccs_HalfedgePrevID]
  rfl

theorem trunc_CreasedVertexPoints_Gather (S : cc_Subd) (n d : Nat) (hd : d + 1 ≤ n)
    (e2h : Int → Nat → Int) (v2h : Int → Int) (fuel : Nat) :
    ccs__CreasedVertexPoints_Gather (ccs_Truncate n S) e2h v2h d fuel
      = (ccs__CreasedVertexPoints_Gather S e2h v2h d fuel).map (ccs_Truncate n) := by
  have hd0 : d ≤ n := by omega
  unfold ccs__CreasedVertexPoints_Gather
  simp only [trunc_CreasedVertexPoints_Gather_vertex S n d hd0]
  show (ccs__Level (S.vertexPoints.take n) (d + 1)).bind _ = _
  rw [ccs__Level_take _ _ _ hd]
  cases ccs__Level S.vertexPoints (d + 1) with
  | none => rfl
  | some p =>
    simp only [Option.bind_eq_bind, Option.some_bind]
    rw [option_bind_map_comm]
    unfold ccs_Truncate
    simp only [take_set_comm]

/-- What a kernel that rewrites one region of the halfedge buffer keeps. -/
theorem keep_of_set_halfedges (S S' : cc_Subd) (d : Nat)
    (h : ∃ out, S' = { S with halfedges := S.halfedges.set d out }) :
    S'.maxDepth = S.maxDepth ∧ ∀ n, n ≤ d → ccs_Truncate n S' = ccs_Truncate n S := by
  obtain ⟨out, rfl⟩ := h
  refine ⟨rfl, fun n hn => ?_⟩
  unfold ccs_Truncate
  simp only [take_set_of_le _ _ _ _ hn]

theorem keep_of_set_creases (S S' : cc_Subd) (d : Nat)
    (h : ∃ out, S' = { S with creases := S.creases.set d out }) :
    S'.maxDepth = S.maxDepth ∧ ∀ n, n ≤ d → ccs_Truncate n S' = ccs_Truncate n S := by
  obtain ⟨out, rfl⟩ := h
  refine ⟨rfl, fun n hn => ?_⟩
  unfold ccs_Truncate
  simp only [take_set_of_le _ _ _ _ hn]

theorem keep_of_set_vertexPoints (S S' : cc_Subd) (d : Nat)
    (h : ∃ out, S' = { S with vertexPoints := S.vertexPoints.set d out }) :
    S'.maxDepth = S.maxDepth ∧ ∀ n, n ≤ d → ccs_Truncate n S' = ccs_Truncate n S := by
  obtain ⟨out, rfl⟩ := h
  refine ⟨rfl, fun n hn => ?_⟩
  unfold ccs_Truncate
  simp only [take_set_of_le _ _ _ _ hn]

theorem keep_RefineCageHalfedges (S S' : cc_Subd) (h : ccs__RefineCageHalfedges S = some S') :
    S'.maxDepth = S.maxDepth ∧ ∀ n, n ≤ 0 → ccs_Truncate n S' = ccs_Truncate n S := by
  apply keep_of_set_halfedges
  unfold ccs__RefineCageHalfedges at h
  simp only [Option.bind_eq_bind, Option.bind_eq_some, Option.some.injEq] at h
  obtain ⟨p, _, out, _, rfl⟩ := h
  exact ⟨out, rfl⟩

theorem keep_RefineHalfedges (S S' : cc_Subd) (d : Nat)
    (h : ccs__RefineHalfedges S d = some S') :
    S'.maxDepth = S.maxDepth ∧ ∀ n, n ≤ d → ccs_Truncate n S' = ccs_Truncate n S := by
  apply keep_of_set_halfedges
  unfold ccs__RefineHalfedges at h
  simp only [Option.bind_eq_bind, Option.bind_eq_some, Option.some.injEq] at h
  obtain ⟨p, _, out, _, rfl⟩ := h
  exact ⟨out, rfl⟩

theorem keep_RefineCageCreases (S S' : cc_Subd) (h : ccs__RefineCageCreases S = some S') :
    S'.maxDepth = S.maxDepth ∧ ∀ n, n ≤ 0 → ccs_Truncate n S' = ccs_Truncate n S := by
  apply keep_of_set_creases
  unfold ccs__RefineCageCreases at h
  simp only [Option.bind_eq_bind, Option.bind_eq_some, Option.some.injEq] at h
  obtain ⟨p, _, out, _, rfl⟩ := h
  exact ⟨out, rfl⟩

theorem keep_RefineCreases (S S' : cc_Subd) (d : Nat)
    (h : ccs__RefineCreases S d = some S') :
    S'.maxDepth = S.maxDepth ∧ ∀ n, n ≤ d → ccs_Truncate n S' = ccs_Truncate n S := by
  apply keep_of_set_creases
  unfold ccs__RefineCreases at h
  simp only [Option.bind_eq_bind, Option.bind_eq_some, Option.some.injEq] at h
  obtain ⟨p, _, out, _, rfl⟩ := h
  exact ⟨out, rfl⟩

theorem keep_CageFacePoints_Gather (S S' : cc_Subd) (fuel : Nat)
    (h : ccs__CageFacePoints_Gather S fuel = some S') :
    S'.maxDepth = S.maxDepth ∧ ∀ n, n ≤ 0 → ccs_Truncate n S' = ccs_Truncate n S := by
  apply keep_of_set_vertexPoints
  unfold ccs__CageFacePoints_Gather at h
  simp only [Option.bind_eq_bind, Option.bind_eq_some, Option.some.injEq] at h
  obtain ⟨p, _, out, _, rfl⟩ := h
  exact ⟨out, rfl⟩

theorem keep_CreasedCageEdgePoints_Gather (S S' : cc_Subd)
    (h : ccs__CreasedCageEdgePoints_Gather S = some S') :
    S'.maxDepth = S.maxDepth ∧ ∀ n, n ≤ 0 → ccs_Truncate n S' = ccs_Truncate n S := by
  apply keep_of_set_vertexPoints
  unfold ccs__CreasedCageEdgePoints_Gather at h
  simp only [Option.bind_eq_bind, Option.bind_eq_some, Option.some.injEq] at h
  obtain ⟨p, _, out, _, rfl⟩ := h
  exact ⟨out, rfl⟩

theorem keep_CreasedCageVertexPoints_Gather (S S' : cc_Subd) (fuel : Nat)
    (h : ccs__CreasedCageVertexPoints_Gather S fuel = some S') :
    S'.maxDepth = S.maxDepth ∧ ∀ n, n ≤ 0 → ccs_Truncate n S' = ccs_Truncate n S := by
  apply keep_of_set_vertexPoints
  unfold ccs__CreasedCageVertexPoints_Gather at h
  simp only [Option.bind_eq_bind, Option.bind_eq_some, Option.some.injEq] at h
  obtain ⟨p, _, out, _, rfl⟩ := h
  exact ⟨out, rfl⟩

theorem keep_FacePoints_Gather (S S' : cc_Subd) (d fuel : Nat)
    (h : ccs__FacePoints_Gather S d fuel = some S') :
    S'.maxDepth = S.maxDepth ∧ ∀ n, n ≤ d → ccs_Truncate n S' = ccs_Truncate n S := by
  apply keep_of_set_vertexPoints
  unfold ccs__FacePoints_Gather at h
  simp only [Option.bind_eq_bind, Option.bind_eq_some, Option.some.injEq] at h
  obtain ⟨p, _, out, _, rfl⟩ := h
  exact ⟨out, rfl⟩

theorem keep_CreasedEdgePoints_Gather (S S' : cc_Subd) (e2h : Int → Nat → Int) (d : Nat)
    (h : ccs__CreasedEdgePoints_Gather S e2h d = some S') :
    S'.maxDepth = S.maxDepth ∧ ∀ n, n ≤ d → ccs_Truncate n S' = ccs_Truncate n S := by
  apply keep_of_set_vertexPoints
  unfold ccs__CreasedEdgePoints_Gather at h
  simp only [Option.bind_eq_bind, Option.bind_eq_some, Option.some.injEq] at h
  obtain ⟨p, _, out, _, rfl⟩ := h
  exact ⟨out, rfl⟩

theorem keep_CreasedVertexPoints_Gather (S S' : cc_Subd) (e2h : Int → Nat → Int)
    (v2h : Int → Int) (d fuel : Nat)
    (h : ccs__CreasedVertexPoints_Gather S e2h v2h d fuel = some S') :
    S'.maxDepth = S.maxDepth ∧ ∀ n, n ≤ d → ccs_Truncate n S' = ccs_Truncate n S := by
  apply keep_of_set_vertexPoints
  unfold ccs__CreasedVertexPoints_Gather at h
  simp only [Option.bind_eq_bind, Option.bind_eq_some, Option.some.injEq] at h
  obtain ⟨p, _, out, _, rfl⟩ := h
  exact ⟨out, rfl⟩

/-- A loop over the depths `1 ≤ depth < D` whose kernels commute with the
truncation below `n` and keep the levels `1` to `n` from `n` on: its run to the
depth `n ≤ D` on the truncated subdivision is the truncation of its run. -/
theorem foldlM_truncate (step : cc_Subd → Nat → Option cc_Subd) (n : Nat)
    (hlow : ∀ S d, d + 1 ≤ n → step (ccs_Truncate n S) d = (step S d).map (ccs_Truncate n))
    (hhigh : ∀ S S' d, n ≤ d → step S d = some S' → ccs_Truncate n S' = ccs_Truncate n S)
    (D : Nat) (hD : n ≤ D) (h1 : 1 ≤ n) (S S' : cc_Subd)
    (h : (List.range' 1 (D - 1)).foldlM step S = some S') :
    (List.range' 1 (n - 1)).foldlM step (ccs_Truncate n S) = some (ccs_Truncate n S') := by
  have hsplit : List.range' 1 (D - 1) = List.range' 1 (n - 1) ++ List.range' n (D - n) := by
    have e := List.range'_append_1 1 (n - 1) (D - n)
    rw [show 1 + (n - 1) = n by omega] at e
    rw [e]
    congr 1
    omega
  rw [hsplit, List.foldlM_append] at h
  obtain ⟨Sm, hm, hr⟩ := Option.bind_eq_some.mp h
  have low : ∀ (l : List Nat), (∀ d ∈ l, d + 1 ≤ n) → ∀ A B : cc_Subd,
      l.foldlM step A = some B →
      l.foldlM step (ccs_Truncate n A) = some (ccs_Truncate n B) := by
    intro l
    induction l with
    | nil =>
      intro _ A B hAB
      simp only [List.foldlM_nil, Option.pure_def, Option.some.injEq] at hAB ⊢
      rw [hAB]
    | cons d t ih =>
      intro hl A B hAB
      rw [List.foldlM_cons] at hAB ⊢
      obtain ⟨A1, ha, hb⟩ := Option.bind_eq_some.mp hAB
      rw [hlow A d (hl d (List.mem_cons_self _ _)), ha]
      exact ih (fun x hx => hl x (List.mem_cons_of_mem _ hx)) A1 B hb
  have high : ∀ (l : List Nat), (∀ d ∈ l, n ≤ d) → ∀ A B : cc_Subd,
      l.foldlM step A = some B → ccs_Truncate n B = ccs_Truncate n A := by
    intro l
    induction l with
    | nil =>
      intro _ A B hAB
      simp only [List.foldlM_nil, Option.pure_def, Option.some.injEq] at hAB
      rw [hAB]
    | cons d t ih =>
      intro hl A B hAB
      rw [List.foldlM_cons] at hAB
      obtain ⟨A1, ha, hb⟩ := Option.bind_eq_some.mp hAB
      rw [ih (fun x hx => hl x (List.mem_cons_of_mem _ hx)) A1 B hb,
        hhigh A A1 d (hl d (List.mem_cons_self _ _)) ha]
  rw [low _ (by
    intro d hd
    have := List.mem_range'_1.mp hd
    omega) S Sm hm,
    high _ (by
      intro d hd
      have := List.mem_range'_1.mp hd
      omega) Sm S' hr]

/-- A loop whose kernels keep `maxDepth` keeps it. -/
theorem foldlM_maxDepth (step : cc_Subd → Nat → Option cc_Subd)
    (hk : ∀ S S' d, step S d = some S' → S'.maxDepth = S.maxDepth) :
    ∀ (l : List Nat) (A B : cc_Subd), l.foldlM step A = some B → B.maxDepth = A.maxDepth := by
  intro l
  induction l with
  | nil =>
    intro A B hAB
    simp only [List.foldlM_nil, Option.pure_def, Option.some.injEq] at hAB
    rw [hAB]
  | cons d t ih =>
    intro A B hAB
    rw [List.foldlM_cons] at hAB
    obtain ⟨A1, ha, hb⟩ := Option.bind_eq_some.mp hAB
    rw [ih A1 B hb, hk A A1 d ha]

/-- The entry point `ccs_RefineHalfedges` on the truncation. -/
theorem trunc_RefineHalfedges_all (S S' : cc_Subd) (n : Nat) (h1 : 1 ≤ n)
    (hn : n ≤ ccs_MaxDepth S) (h : ccs_RefineHalfedges S = some S') :
    ccs_RefineHalfedges (ccs_Truncate n S) = some (ccs_Truncate n S') ∧
      ccs_MaxDepth S' = ccs_MaxDepth S := by
  unfold ccs_RefineHalfedges at h ⊢
  obtain ⟨S1, hc, hf⟩ := Option.bind_eq_some.mp h
  constructor
  · rw [trunc_RefineCageHalfedges S n h1, hc]
    exact foldlM_truncate (fun s depth => ccs__RefineHalfedges s depth) n
      (fun A d hd => trunc_RefineHalfedges A n d hd)
      (fun A B d hd hAB => (keep_RefineHalfedges A B d hAB).2 n hd)
      (ccs_MaxDepth S) hn h1 S1 S' hf
  · unfold ccs_MaxDepth
    rw [foldlM_maxDepth (fun s depth => ccs__RefineHalfedges s depth)
      (fun A B d hAB => (keep_RefineHalfedges A B d hAB).1) _ S1 S' hf,
      (keep_RefineCageHalfedges S S1 hc).1]

/-- The entry point `ccs_RefineCreases` on the truncation. -/
theorem trunc_RefineCreases_all (S S' : cc_Subd) (n : Nat) (h1 : 1 ≤ n)
    (hn : n ≤ ccs_MaxDepth S) (h : ccs_RefineCreases S = some S') :
    ccs_RefineCreases (ccs_Truncate n S) = some (ccs_Truncate n S') ∧
      ccs_MaxDepth S' = ccs_MaxDepth S := by
  unfold ccs_RefineCreases at h ⊢
  obtain ⟨S1, hc, hf⟩ := Option.bind_eq_some.mp h
  constructor
  · rw [trunc_RefineCageCreases S n h1, hc]
    exact foldlM_truncate (fun s depth => ccs__RefineCreases s depth) n
      (fun A d hd => trunc_RefineCreases A n d hd)
      (fun A B d hd hAB => (keep_RefineCreases A B d hAB).2 n hd)
      (ccs_MaxDepth S) hn h1 S1 S' hf
  · unfold ccs_MaxDepth
    rw [foldlM_maxDepth (fun s depth => ccs__RefineCreases s depth)
      (fun A B d hAB => (keep_RefineCreases A B d hAB).1) _ S1 S' hf,
      (keep_RefineCageCreases S S1 hc).1]

/-- The kernels of one depth of `ccs_RefineVertexPoints_Gather`. -/
def ccs_RefineVertexPoints_Gather_depth (edgeToHalfedgeID : Int → Nat → Int)
    (vertexToHalfedgeID_First : Int → Int) (fuel : Nat) (s : cc_Subd) (depth : Nat) :
    Option cc_Subd :=
  (ccs__FacePoints_Gather s depth fuel).bind (fun s =>
    (ccs__CreasedEdgePoints_Gather s edgeToHalfedgeID depth).bind (fun s =>
      ccs__CreasedVertexPoints_Gather s edgeToHalfedgeID vertexToHalfedgeID_First depth fuel))

theorem trunc_RefineVertexPoints_Gather_depth (e2h : Int → Nat → Int) (v2h : Int → Int)
    (fuel : Nat) (S : cc_Subd) (n d : Nat) (hd : d + 1 ≤ n) :
    ccs_RefineVertexPoints_Gather_depth e2h v2h fuel (ccs_Truncate n S) d
      = (ccs_RefineVertexPoints_Gather_depth e2h v2h fuel S d).map (ccs_Truncate n) := by
  unfold ccs_RefineVertexPoints_Gather_depth
  rw [trunc_FacePoints_Gather S n d hd]
  cases ccs__FacePoints_Gather S d fuel with
  | none => rfl
  | some S1 =>
    simp only [Option.map_some', Option.some_bind]
    rw [trunc_CreasedEdgePoints_Gather S1 n d hd]
    cases ccs__CreasedEdgePoints_Gather S1 e2h d with
    | none => rfl
    | some S2 =>
      simp only [Option.map_some', Option.some_bind]
      rw [trunc_CreasedVertexPoints_Gather S2 n d hd]

theorem keep_RefineVertexPoints_Gather_depth (e2h : Int → Nat → Int) (v2h : Int → Int)
    (fuel : Nat) (S S' : cc_Subd) (d : Nat)
    (h : ccs_RefineVertexPoints_Gather_depth e2h v2h fuel S d = some S') :
    S'.maxDepth = S.maxDepth ∧ ∀ n, n ≤ d → ccs_Truncate n S' = ccs_Truncate n S := by
  unfold ccs_RefineVertexPoints_Gather_depth at h
  obtain ⟨S1, a1, h⟩ := Option.bind_eq_some.mp h
  obtain ⟨S2, a2, a3⟩ := Option.bind_eq_some.mp h
  have k1 := keep_FacePoints_Gather S S1 d fuel a1
  have k2 := keep_CreasedEdgePoints_Gather S1 S2 e2h d a2
  have k3 := keep_CreasedVertexPoints_Gather S2 S' e2h v2h d fuel a3
  refine ⟨by rw [k3.1, k2.1, k1.1], fun n hn => ?_⟩
  rw [k3.2 n hn, k2.2 n hn, k1.2 n hn]

/-- The entry point `ccs_RefineVertexPoints_Gather` on the truncation. -/
theorem trunc_RefineVertexPoints_Gather_all (S S' : cc_Subd) (e2h : Int → Nat → Int)
    (v2h : Int → Int) (fuel : Nat) (n : Nat) (h1 : 1 ≤ n)
    (hn : n ≤ ccs_MaxDepth S) (h : ccs_RefineVertexPoints_Gather S e2h v2h fuel = some S') :
    ccs_RefineVertexPoints_Gather (ccs_Truncate n S) e2h v2h fuel
      = some (ccs_Truncate n S') := by
  unfold ccs_RefineVertexPoints_Gather at h ⊢
  obtain ⟨S1, a1, h⟩ := Option.bind_eq_some.mp h
  obtain ⟨S2, a2, h⟩ := Option.bind_eq_some.mp h
  obtain ⟨S3, a3, hf⟩ := Option.bind_eq_some.mp h
  have hm : ccs_MaxDepth S3 = ccs_MaxDepth S := by
    unfold ccs_MaxDepth
    rw [(keep_CreasedCageVertexPoints_Gather S2 S3 fuel a3).1,
      (keep_CreasedCageEdgePoints_Gather S1 S2 a2).1,
      (keep_CageFacePoints_Gather S S1 fuel a1).1]
  rw [trunc_CageFacePoints_Gather S n h1, a1]
  simp only [Option.map_some', Option.bind_eq_bind, Option.some_bind]
  rw [trunc_CreasedCageEdgePoints_Gather S1 n h1, a2]
  simp only [Option.map_some', Option.bind_eq_bind, Option.some_bind]
  rw [trunc_CreasedCageVertexPoints_Gather S2 n h1, a3]
  simp only [Option.map_some', Option.bind_eq_bind, Option.some_bind]
  exact foldlM_truncate (ccs_RefineVertexPoints_Gather_depth e2h v2h fuel) n
    (fun A d hd => trunc_RefineVertexPoints_Gather_depth e2h v2h fuel A n d hd)
    (fun A B d hd hAB => (keep_RefineVertexPoints_Gather_depth e2h v2h fuel A B d hAB).2 n hd)
    (ccs_MaxDepth S3) (by rw [hm]; exact hn) h1 S3 S' hf

/-! ## C25: the creased kernels on a cage without sharpness -/

/-- A blank subdivision of depth 1 of the two glued triangles, whose five edges
have the sharpness 0 and four of them are on the boundary. -/
def trianglesBlank : cc_Subd :=
  { cage := trianglesMesh, maxDepth := 1, halfedges := [List.replicate 24 ⟨0, 0, 0, 0⟩],
    creases := [List.replicate 10 ⟨0, 0, 0⟩], vertexPoints := [List.replicate 11 (0, 0, 0)] }

/-- Two subdivisions with the same cage, depth, halfedges and creases, and with
vertex point regions of the same lengths. -/
def ccs_SameShape (s t : cc_Subd) : Prop :=
  s.cage = t.cage ∧ s.maxDepth = t.maxDepth ∧ s.halfedges = t.halfedges ∧
  s.creases = t.creases ∧ s.vertexPoints.map List.length = t.vertexPoints.map List.length

theorem ccs_SameShape.refl (s : cc_Subd) : ccs_SameShape s s :=
  ⟨rfl, rfl, rfl, rfl, rfl⟩

theorem ccs_SameShape.trans {s t u : cc_Subd} (h1 : ccs_SameShape s t)
    (h2 : ccs_SameShape t u) : ccs_SameShape s u :=
  ⟨h1.1.trans h2.1, h1.2.1.trans h2.2.1, h1.2.2.1.trans h2.2.2.1,
    h1.2.2.2.1.trans h2.2.2.2.1, h1.2.2.2.2.trans h2.2.2.2.2⟩

theorem ccs_SameShape.symm {s t : cc_Subd} (h : ccs_SameShape s t) : ccs_SameShape t s :=
  ⟨h.1.symm, h.2.1.symm, h.2.2.1.symm, h.2.2.2.1.symm, h.2.2.2.2.symm⟩

theorem writeAt_length {α : Type} (xs ys : List α) (i : Int) (f : α → α)
    (h : writeAt xs i f = some ys) : ys.length = xs.length := by
  unfold writeAt at h
  cases hr : readAt xs i with
  | none => simp [hr] at h
  | some x =>
    simp only [hr, Option.some.injEq] at h
    rw [← h, List.length_set]

/-- A loop that writes one slot in each iteration keeps the length of the
region. -/
theorem foldlM_writeAt_length {α β : Type} (body : List α → Nat → Option β)
    (idx : β → Nat → Int) (f : β → α → α) :
    ∀ (l : List Nat) (out out' : List α),
      l.foldlM (fun o (i : Nat) => (body o i).bind (fun v => writeAt o (idx v i) (f v))) out
        = some out' → out'.length = out.length := by
  intro l
  induction l with
  | nil =>
    intro out out' h
    simp only [List.foldlM_nil, Option.pure_def, Option.some.injEq] at h
    rw [h]
  | cons a t ih =>
    intro out out' h
    rw [List.foldlM_cons] at h
    obtain ⟨o1, h1, h2⟩ := Option.bind_eq_some.mp h
    obtain ⟨v, _, hw⟩ := Option.bind_eq_some.mp h1
    rw [ih o1 out' h2, writeAt_length _ _ _ _ hw]

theorem map_length_set (vp : List (List cc_VertexPoint)) (d : Nat)
    (p out : List cc_VertexPoint) (hp : vp[d]? = some p) (hl : out.length = p.length) :
    (vp.set d out).map List.length = vp.map List.length := by
  apply List.ext_getElem?
  intro i
  simp only [List.getElem?_map, List.getElem?_set, List.length_map]
  by_cases c : d = i
  · subst c
    have hlt : d < vp.length := by
      by_contra hc
      rw [List.getElem?_eq_none (by omega)] at hp
      cases hp
    simp [hlt, hp, hl]
  · simp [c]

theorem ccs__Level_succ {α : Type} (buf : List (List α)) (d : Nat) :
    ccs__Level buf (d + 1) = buf[d]? := by
  unfold ccs__Level
  simp

/-- A loop over a range whose bodies agree on the range. -/
theorem foldlM_range_congr {α : Type} (n : Nat) (f g : α → Nat → Option α)
    (h : ∀ a i, i < n → f a i = g a i) (a : α) :
    (List.range n).foldlM f a = (List.range n).foldlM g a := by
  have key : ∀ (l : List Nat), (∀ i ∈ l, i < n) → ∀ a, l.foldlM f a = l.foldlM g a := by
    intro l
    induction l with
    | nil => intro _ a; rfl
    | cons i t ih =>
      intro hl a
      rw [List.foldlM_cons, List.foldlM_cons, h a i (hl i (List.mem_cons_self _ _))]
      congr 1
      funext b
      exact ih (fun x hx => hl x (List.mem_cons_of_mem _ hx)) b
  exact key _ (fun i hi => List.mem_range.mp hi) a

theorem lerp_smooth (sharp smooth : cc_VertexPoint) :
    cc__Lerp3f smooth sharp (cc__Satf 0) = cc__Lerp3f sharp smooth 1 := by
  unfold cc__Lerp3f cc__Satf
  simp

/-- On an edge of sharpness 0 whose halfedge has a twin, the body of
`ccs__CreasedCageEdgePoints_Gather` is the body of `ccs__CageEdgePoints_Gather`. -/
theorem cage_edge_body_smooth (cage : cc_Mesh) (V : Int) (pts : List cc_VertexPoint) (e : Int)
    (hs : ccm_CreaseSharpness cage e = some 0)
    (ht : ∀ h t, ccm_EdgeToHalfedgeID cage e = some h → ccm_HalfedgeTwinID cage h = some t →
      0 ≤ t) :
    ccs__CreasedCageEdgePoints_Gather_edge cage V pts e
      = ccs__CageEdgePoints_Gather_edge cage V pts e := by
  unfold ccs__CreasedCageEdgePoints_Gather_edge ccs__CageEdgePoints_Gather_edge
  cases h1 : ccm_EdgeToHalfedgeID cage e with
  | none => rfl
  | some h =>
    cases h2 : ccm_HalfedgeTwinID cage h with
    | none => simp [h2]
    | some t =>
      have h0 : ¬ t < 0 := by
        have := ht h t h1 h2
        omega
      simp only [hs, h2, Option.bind_eq_bind, Option.some_bind, if_neg h0, lerp_smooth]

/-- On an edge of sharpness 0 whose halfedge has a twin, the body of
`ccs__CreasedEdgePoints_Gather` is the body of `ccs__EdgePoints_Gather`. -/
theorem level_edge_body_smooth (subd : cc_Subd) (e2h : Int → Nat → Int) (depth : Nat)
    (V : Int) (pts : List cc_VertexPoint) (e : Int)
    (hs : ccs_CreaseSharpness subd e depth = some 0)
    (ht : ∀ t, ccs_HalfedgeTwinID subd (e2h e depth) depth = some t → 0 ≤ t) :
    ccs__CreasedEdgePoints_Gather_edge subd e2h depth V pts e
      = ccs__EdgePoints_Gather_edge subd e2h depth V pts e := by
  unfold ccs__CreasedEdgePoints_Gather_edge ccs__EdgePoints_Gather_edge
  cases h2 : ccs_HalfedgeTwinID subd (e2h e depth) depth with
  | none => simp [h2]
  | some t =>
    have h0 : ¬ t < 0 := by
      have := ht t h2
      omega
    simp only [hs, h2, Option.bind_eq_bind, Option.some_bind, if_neg h0, lerp_smooth]

/-- The edge `e` of the cage has the sharpness 0 and its halfedge has a twin. -/
def ccm_EdgeSmoothClosed (cage : cc_Mesh) (e : Int) : Prop :=
  ccm_CreaseSharpness cage e = some 0 ∧
  ∃ h ∈ ccm_EdgeToHalfedgeID cage e, ∃ t ∈ ccm_HalfedgeTwinID cage h, 0 ≤ t

instance (cage : cc_Mesh) (e : Int) : Decidable (ccm_EdgeSmoothClosed cage e) := by
  unfold ccm_EdgeSmoothClosed
  infer_instance

/-- The edge `e` of level `depth` has the sharpness 0 and its halfedge has a
twin. -/
def ccs_EdgeSmoothClosed (subd : cc_Subd) (edgeToHalfedgeID : Int → Nat → Int) (depth : Nat)
    (e : Int) : Prop :=
  ccs_CreaseSharpness subd e depth = some 0 ∧
  ∃ t ∈ ccs_HalfedgeTwinID subd (edgeToHalfedgeID e depth) depth, 0 ≤ t

instance (subd : cc_Subd) (edgeToHalfedgeID : Int → Nat → Int) (depth : Nat) (e : Int) :
    Decidable (ccs_EdgeSmoothClosed subd edgeToHalfedgeID depth e) := by
  unfold ccs_EdgeSmoothClosed
  infer_instance

/-- On a cage whose edges have the sharpness 0 and twins, the kernel
`ccs__CreasedCageEdgePoints_Gather` is the kernel `ccs__CageEdgePoints_Gather`. -/
theorem cage_edge_kernel_smooth (s : cc_Subd)
    (h : ∀ e : Nat, e < ccm_EdgeCount s.cage → ccm_EdgeSmoothClosed s.cage e) :
    ccs__CreasedCageEdgePoints_Gather s = ccs__CageEdgePoints_Gather s := by
  unfold ccs__CreasedCageEdgePoints_Gather ccs__CageEdgePoints_Gather
  cases s.vertexPoints[0]? with
  | none => rfl
  | some p =>
    simp only [Option.bind_eq_bind, Option.some_bind]
    rw [foldlM_range_congr (ccm_EdgeCount s.cage) _
      (fun out (edgeID : Nat) =>
        (ccs__CageEdgePoints_Gather_edge s.cage (ccm_VertexCount s.cage) out edgeID).bind
          (fun newEdgePoint => writeAt out ((ccm_VertexCount s.cage : Int)
            + (ccm_FaceCount s.cage : Int) + (edgeID : Int)) (fun _ => newEdgePoint)))
      (by
        intro o e he
        obtain ⟨a, h1, b1, t, b2, b3⟩ := h e he
        rw [Option.mem_def] at b1 b2
        rw [cage_edge_body_smooth s.cage _ o e a (by
          intro h' t' c1 c2
          rw [b1] at c1; cases c1
          rw [b2] at c2; cases c2
          exact b3)])]

/-- On a level whose edges have the sharpness 0 and twins, the kernel
`ccs__CreasedEdgePoints_Gather` is the kernel `ccs__EdgePoints_Gather`. -/
theorem level_edge_kernel_smooth (s : cc_Subd) (e2h : Int → Nat → Int) (depth : Nat)
    (h : ∀ e : Nat, e < ccm_EdgeCountAtDepth_Fast s.cage depth →
      ccs_EdgeSmoothClosed s e2h depth e) :
    ccs__CreasedEdgePoints_Gather s e2h depth = ccs__EdgePoints_Gather s e2h depth := by
  unfold ccs__CreasedEdgePoints_Gather ccs__EdgePoints_Gather
  cases ccs__Level s.vertexPoints (depth + 1) with
  | none => rfl
  | some p =>
    simp only [Option.bind_eq_bind, Option.some_bind]
    rw [foldlM_range_congr (ccm_EdgeCountAtDepth_Fast s.cage depth) _
      (fun out (edgeID : Nat) =>
        (ccs__EdgePoints_Gather_edge s e2h depth (ccm_VertexCountAtDepth_Fast s.cage depth)
          out edgeID).bind
          (fun newEdgePoint => writeAt out ((ccm_VertexCountAtDepth_Fast s.cage depth : Int)
            + (ccm_FaceCountAtDepth_Fast s.cage depth : Int) + (edgeID : Int))
            (fun _ => newEdgePoint)))
      (by
        intro o e he
        obtain ⟨a, t, b2, b3⟩ := h e he
        rw [Option.mem_def] at b2
        rw [level_edge_body_smooth s e2h depth _ o e a (by
          intro t' c2
          rw [b2] at c2; cases c2
          exact b3)])]

theorem list_sum_map_four_sub (l : List Int) (f k : Int → cc_VertexPoint) :
    (l.map (fun g => (4 : ℚ) • f g - k g)).sum = (4 : ℚ) • (l.map f).sum - (l.map k).sum := by
  induction l with
  | nil => simp
  | cons a l ih =>
    simp only [List.map_cons, List.sum_cons, ih]
    module

/-- The values a walk reaches are the values its steps announce: when `φ` of
every successor is `ψ` of its predecessor, the list of `φ` over the walk without
its start, with its exit, is the list of `ψ` over the walk. -/
theorem ringWalk_shift {β : Type} (step : Int → Option Int) (cont : Int → Bool) (fuel : Nat)
    (h start : Int) (r1 : List Int) (last : Int)
    (hs : step h = some start) (hw : ringWalk step cont fuel start = some (r1, last))
    (φ ψ : Int → β)
    (hstep : ∀ a ∈ h :: r1, ∀ b, step a = some b → φ b = ψ a) :
    (r1 ++ [last]).map φ = (h :: r1).map ψ := by
  obtain ⟨hc, hh⟩ := ringWalk_chain step cont (fun a b => φ b = ψ a) fuel start r1 last hw
    (fun a ha b hb => hstep a (List.mem_cons_of_mem _ ha) b hb)
  have hchain : List.Chain (fun a b => φ b = ψ a) h (r1 ++ [last]) := by
    cases hl : r1 ++ [last] with
    | nil => simp at hl
    | cons x l =>
      rw [hl] at hc hh
      simp only [List.head?_cons, Option.some.injEq] at hh
      subst hh
      exact List.Chain.cons (hstep h (List.mem_cons_self _ _) x hs) hc
  have := chain_shift (fun a b => φ b = ψ a) φ ψ (fun _ _ hab => hab) (r1 ++ [last]) h hchain
  rw [this, ← List.cons_append, List.dropLast_concat]

/-- The exit of a walk all of whose steps reach halfedges that are not
negative is not negative. -/
theorem ringWalk_last_nonneg (step : Int → Option Int) (cont : Int → Bool) (fuel : Nat)
    (h start : Int) (r1 : List Int) (last : Int)
    (hs : step h = some start) (hw : ringWalk step cont fuel start = some (r1, last))
    (hstep : ∀ a ∈ h :: r1, ∀ b, step a = some b → 0 ≤ b) : 0 ≤ last := by
  have e := ringWalk_shift step cont fuel h start r1 last hs hw
    (fun b => decide (0 ≤ b)) (fun _ => true)
    (fun a ha b hb => by simpa using hstep a ha b hb)
  have hm : decide (0 ≤ last) ∈ (r1 ++ [last]).map (fun b => decide (0 ≤ b)) :=
    List.mem_map.mpr ⟨last, by simp, rfl⟩
  rw [e] at hm
  obtain ⟨_, _, hx⟩ := List.mem_map.mp hm
  exact of_decide_eq_true hx.symm

/-- The local variables of the creased kernels after a closed walk without
sharpness, from the reads `P g` of the iterations: the sum of `4E - F` is the
sum over the halfedges of the walk, since the edge point an iteration reads is
the edge point of the next halfedge of the walk, and the crease count is 0. -/
theorem smooth_sum_rotate (ring r1 : List Int) (h : Int) (hring : ring = h :: r1)
    (E F : Int → cc_VertexPoint) (P : Int → cc_VertexPoint × cc_VertexPoint × ℚ)
    (hE : (r1 ++ [h]).map E = ring.map (fun g => (P g).1))
    (hF : ∀ g ∈ ring, (P g).2.1 = F g)
    (hS : ∀ g ∈ ring, (P g).2.2 = 0) :
    (cc_VertexLocals.sum (ring.map P)).smoothPoint
        = (ring.map (fun g => (4 : ℚ) • E g - F g)).sum ∧
      (cc_VertexLocals.sum (ring.map P)).creaseCount = 0 ∧
      (cc_VertexLocals.sum (ring.map P)).valence = (ring.length : ℚ) := by
  unfold cc_VertexLocals.sum
  simp only [List.map_map, List.length_map]
  refine ⟨?_, ?_, trivial⟩
  · have e1 : (ring.map ((fun r : cc_VertexPoint × cc_VertexPoint × ℚ =>
          (4 : ℚ) • r.1 - r.2.1) ∘ P))
        = ring.map (fun g => (4 : ℚ) • (P g).1 - F g) := by
      apply List.map_congr_left
      intro g hg
      simp only [Function.comp_apply, hF g hg]
    rw [e1, list_sum_map_four_sub, list_sum_map_four_sub, ← hE]
    congr 2
    rw [hring]
    simp only [List.map_append, List.map_cons, List.map_nil, List.sum_append, List.sum_cons,
      List.sum_nil, add_zero]
    abel
  · have e2 : (ring.map ((fun r : cc_VertexPoint × cc_VertexPoint × ℚ =>
          cc__Signf r.2.2) ∘ P)) = ring.map (fun _ => (0 : ℚ)) := by
      apply List.map_congr_left
      intro g hg
      simp only [Function.comp_apply, hS g hg]
      unfold cc__Signf
      simp
    rw [e2]
    simp

/-- The predecessor `p` of the cage halfedge `g` has a twin `t`, on the same
edge, and is in the face of `g`, and its edge has the sharpness 0: the step of
the walk around the vertex of `g` stays in the mesh, on an edge that is not
sharp. -/
def ccm_SmoothFan (cage : cc_Mesh) (g : Int) : Prop :=
  ∃ p ∈ ccm_HalfedgePrevID cage g, ∃ t ∈ ccm_HalfedgeTwinID cage p,
    0 ≤ t ∧ ccm_HalfedgeEdgeID cage t = ccm_HalfedgeEdgeID cage p ∧
    ccm_HalfedgeFaceID cage p = ccm_HalfedgeFaceID cage g ∧
    ccm_HalfedgeSharpness cage p = some 0

instance (cage : cc_Mesh) (g : Int) : Decidable (ccm_SmoothFan cage g) := by
  unfold ccm_SmoothFan
  infer_instance

/-- The walk around the vertex `v` of the cage stays in the mesh, on edges that
are not sharp (`ccm_SmoothFan`). -/
def ccm_VertexSmoothClosed (cage : cc_Mesh) (fuel : Nat) (v : Int) : Prop :=
  ∃ h ∈ ccm_VertexToHalfedgeID cage v, ∃ r ∈ ccm_VertexRing cage fuel h,
    ∀ g ∈ r.1, ccm_SmoothFan cage g

instance (cage : cc_Mesh) (fuel : Nat) (v : Int) :
    Decidable (ccm_VertexSmoothClosed cage fuel v) := by
  unfold ccm_VertexSmoothClosed
  infer_instance

theorem cage_smooth_reads (cage : cc_Mesh) (out : List cc_VertexPoint) (g : Int)
    (r : cc_VertexPoint × cc_VertexPoint × ℚ) (hf : ccm_SmoothFan cage g)
    (hr : ccm_PrevNewPoints cage out g = some r) :
    r.2.2 = 0 ∧ ccm_HalfedgeNewFacePoint cage out g = some r.2.1 ∧
      ∀ b, ccm_PrevVertexHalfedgeID cage g = some b →
        0 ≤ b ∧ ccm_HalfedgeNewEdgePoint cage out b = some r.1 := by
  obtain ⟨p, hp, t, ht, t0, he, hfa, hs⟩ := hf
  rw [Option.mem_def] at hp ht
  unfold ccm_PrevNewPoints at hr
  rw [hp, Option.some_bind] at hr
  unfold ccm_HalfedgeNewPoints at hr
  simp only [Option.bind_eq_bind, Option.bind_eq_some, Option.some.injEq] at hr
  obtain ⟨e, he1, f, hf1, Ep, hE, Fp, hF, S, hS, rfl⟩ := hr
  rw [hs] at hS
  refine ⟨(Option.some.inj hS).symm, ?_, ?_⟩
  · unfold ccm_HalfedgeNewFacePoint
    rw [← hfa, hf1, Option.some_bind, hF]
  · intro b hb
    unfold ccm_PrevVertexHalfedgeID at hb
    rw [hp, Option.some_bind, ht] at hb
    cases hb
    refine ⟨t0, ?_⟩
    unfold ccm_HalfedgeNewEdgePoint
    rw [he, he1, Option.some_bind, hE]

/-- On a readable cage whose walks around the vertices stay in the mesh, on
edges that are not sharp, the kernel `ccs__CreasedCageVertexPoints_Gather` is
the kernel `ccs__CageVertexPoints_Gather`. -/
theorem cage_vertex_kernel_smooth (s : cc_Subd) (fuel : Nat) (out : List cc_VertexPoint)
    (hout : s.vertexPoints[0]? = some out)
    (hlen : ccm_VertexCount s.cage + ccm_FaceCount s.cage + ccm_EdgeCount s.cage
      ≤ out.length)
    (hr : ccm_VertexRingsReadable s.cage fuel)
    (hc : ccm_CreasedVertexRingsReadable s.cage fuel)
    (hsm : ∀ v : Nat, v < ccm_VertexCount s.cage → ccm_VertexSmoothClosed s.cage fuel v) :
    ccs__CreasedCageVertexPoints_Gather s fuel = ccs__CageVertexPoints_Gather s fuel := by
  obtain ⟨oU, u1, u2, u3, u4⟩ := cage_vertex_kernel s fuel out hout hlen hr
  obtain ⟨oC, c1, c2, c3, c4⟩ := cage_creased_vertex_kernel s fuel out hout hlen hc
  rw [u1, c1]
  have heq : oC = oU := by
    apply List.ext_getElem?
    intro j
    by_cases hj : j < ccm_VertexCount s.cage
    · obtain ⟨h, Vp, Eh, thisS, ring, last, items, a1, a2, a3, a4, _, a5, a6, _⟩ :=
        cage_creased_vertex_reads s.cage fuel hc out out hlen (fun _ _ => rfl) j hj
      obtain ⟨_, hval⟩ := u4 j hj h Vp ring last a1 a2 a5
      rw [c4 j hj h Vp Eh thisS ring last items a1 a2 a3 a4 a5 a6, hval]
      obtain ⟨h', b1, r', b2, hfan⟩ := hsm j hj
      rw [Option.mem_def] at b1 b2
      rw [a1] at b1; cases b1
      rw [a5] at b2; cases b2
      obtain ⟨hitems, hsome⟩ := map_eq_map_some (ccm_PrevNewPoints s.cage out) ring items a6
      -- the walk
      have hr0 := a5
      unfold ccm_VertexRing at hr0
      cases hs : ccm_PrevVertexHalfedgeID s.cage h with
      | none => simp [hs] at hr0
      | some start =>
        simp only [hs, Option.bind_eq_bind, Option.some_bind] at hr0
        obtain ⟨w, hw, hq⟩ := Option.bind_eq_some.mp hr0
        obtain ⟨r1, l⟩ := w
        simp only [Option.some.injEq, Prod.mk.injEq] at hq
        obtain ⟨hring, rfl⟩ := hq
        have hfan' : ∀ g ∈ h :: r1, ccm_SmoothFan s.cage g := by
          rw [hring]; exact hfan
        have hsome' : ∀ g ∈ h :: r1, ccm_PrevNewPoints s.cage out g
            = some ((ccm_PrevNewPoints s.cage out g).getD default) := by
          rw [hring]; exact hsome
        have hl0 : 0 ≤ l := ringWalk_last_nonneg _ _ fuel h start r1 l hs hw
          (fun a ha b hb =>
            ((cage_smooth_reads s.cage out a _ (hfan' a ha) (hsome' a ha)).2.2 b hb).1)
        have hlast : l = h := by
          have hx := ccm_VertexRing_exit s.cage fuel h ring l a5
          by_contra hne
          have : l < 0 := hx.mpr (by simpa using hne)
          omega
        subst hlast
        have hshift := ringWalk_shift _ _ fuel l start r1 l hs hw
          (fun b => (ccm_HalfedgeNewEdgePoint s.cage out b).getD default)
          (fun a => ((ccm_PrevNewPoints s.cage out a).getD default).1)
          (fun a ha b hb => by
            beta_reduce
            rw [((cage_smooth_reads s.cage out a _ (hfan' a ha) (hsome' a ha)).2.2 b hb).2]
            rfl)
        obtain ⟨k1, k2, k3⟩ := smooth_sum_rotate ring r1 l hring.symm
          (fun b => (ccm_HalfedgeNewEdgePoint s.cage out b).getD default)
          (fun b => (ccm_HalfedgeNewFacePoint s.cage out b).getD default)
          (fun a => (ccm_PrevNewPoints s.cage out a).getD default)
          (by rw [hshift, hring])
          (fun g hg => by
            beta_reduce
            rw [(cage_smooth_reads s.cage out g _ (hfan g hg) (hsome g hg)).2.1]
            rfl)
          (fun g hg => (cage_smooth_reads s.cage out g _ (hfan g hg) (hsome g hg)).1)
        rw [← hitems] at k1 k2 k3
        rw [(cage_rule_branches Vp Eh (cc__Signf thisS) l (cc_VertexLocals.sum items)
          _ _ _ rfl rfl rfl).1 (by rw [k2, if_neg (by omega)]; norm_num)]
        rw [k1, k3, if_neg (by omega), add_zero]
        unfold vertexRule
        simp
    · rw [c3 j (by omega), u3 j (by omega)]
  rw [heq]

/-- The predecessor of the halfedge `g` of level `depth` has a twin `t`, on the
same edge, and its edge has the sharpness 0. -/
def ccs_SmoothFan (subd : cc_Subd) (depth : Nat) (g : Int) : Prop :=
  ∃ t ∈ ccs_HalfedgeTwinID subd (ccs_HalfedgePrevID subd g depth) depth,
    0 ≤ t ∧
    ccs_HalfedgeEdgeID subd t depth
      = ccs_HalfedgeEdgeID subd (ccs_HalfedgePrevID subd g depth) depth ∧
    ccs_HalfedgeSharpness subd (ccs_HalfedgePrevID subd g depth) depth = some 0

instance (subd : cc_Subd) (depth : Nat) (g : Int) : Decidable (ccs_SmoothFan subd depth g) := by
  unfold ccs_SmoothFan
  infer_instance

/-- The walk around the vertex `v` of level `depth` stays in the mesh, on edges
that are not sharp (`ccs_SmoothFan`). -/
def ccs_VertexSmoothClosed (subd : cc_Subd) (edgeToHalfedgeID : Int → Nat → Int)
    (vertexToHalfedgeID_First : Int → Int) (depth fuel : Nat) (v : Int) : Prop :=
  ∃ h ∈ ccs_VertexPointToHalfedgeID subd.cage edgeToHalfedgeID vertexToHalfedgeID_First
      v depth fuel,
    ∃ r ∈ ccs_VertexRing subd depth fuel h, ∀ g ∈ r.1, ccs_SmoothFan subd depth g

instance (subd : cc_Subd) (edgeToHalfedgeID : Int → Nat → Int)
    (vertexToHalfedgeID_First : Int → Int) (depth fuel : Nat) (v : Int) :
    Decidable (ccs_VertexSmoothClosed subd edgeToHalfedgeID vertexToHalfedgeID_First depth
      fuel v) := by
  unfold ccs_VertexSmoothClosed
  infer_instance

theorem quad_prev_face (g : Int) :
    ccm_HalfedgeFaceID_Quad (ccm_HalfedgePrevID_Quad g) = ccm_HalfedgeFaceID_Quad g := by
  unfold ccm_HalfedgeFaceID_Quad ccm_HalfedgePrevID_Quad
  omega

theorem level_smooth_reads (subd : cc_Subd) (depth : Nat) (out : List cc_VertexPoint) (g : Int)
    (r : cc_VertexPoint × cc_VertexPoint × ℚ) (hf : ccs_SmoothFan subd depth g)
    (hr : ccs_PrevNewPoints subd depth out g = some r) :
    r.2.2 = 0 ∧ ccs_HalfedgeNewFacePoint subd depth out g = some r.2.1 ∧
      ∀ b, ccs_PrevVertexHalfedgeID subd g depth = some b →
        0 ≤ b ∧ ccs_HalfedgeNewEdgePoint subd depth out b = some r.1 := by
  obtain ⟨t, ht, t0, he, hs⟩ := hf
  rw [Option.mem_def] at ht
  unfold ccs_PrevNewPoints ccs_HalfedgeNewPoints at hr
  simp only [Option.bind_eq_bind, Option.bind_eq_some, Option.some.injEq] at hr
  obtain ⟨e, he1, Ep, hE, Fp, hF, S, hS, rfl⟩ := hr
  rw [hs] at hS
  refine ⟨(Option.some.inj hS).symm, ?_, ?_⟩
  · unfold ccs_HalfedgeNewFacePoint
    have : ccs_HalfedgeFaceID subd (ccs_HalfedgePrevID subd g depth) depth
        = ccs_HalfedgeFaceID subd g depth := quad_prev_face g
    rw [← this, hF]
  · intro b hb
    unfold ccs_PrevVertexHalfedgeID at hb
    rw [ht] at hb
    cases hb
    refine ⟨t0, ?_⟩
    unfold ccs_HalfedgeNewEdgePoint
    rw [he, he1, Option.some_bind, hE]

/-- The second walk of the creased kernel is empty when the first one has come
back to its start. -/
theorem ccs_VertexRingBackward_closed (subd : cc_Subd) (depth fuel : Nat) (g last : Int)
    (bw : List Int) (hl : ¬ last < 0)
    (hb : ccs_VertexRingBackward subd depth fuel g last = some bw) : bw = [] := by
  unfold ccs_VertexRingBackward at hb
  cases hn : ccs_HalfedgeTwinID subd g depth with
  | none => simp [hn] at hb
  | some bstart =>
    simp only [hn, Option.bind_eq_bind, Option.some_bind] at hb
    unfold ringWalk at hb
    simp only [hl, decide_False, Bool.false_and, Bool.false_eq_true, if_false,
      Option.some_bind, Option.some.injEq] at hb
    exact hb.symm

/-- On a readable level whose walks around the vertices stay in the mesh, on
edges that are not sharp, the kernel `ccs__CreasedVertexPoints_Gather` is the
kernel `ccs__VertexPoints_Gather`. -/
theorem level_vertex_kernel_smooth (s : cc_Subd) (e2h : Int → Nat → Int) (v2h : Int → Int)
    (depth fuel : Nat) (out : List cc_VertexPoint)
    (hout : ccs__Level s.vertexPoints (depth + 1) = some out)
    (hlen : ccm_VertexCountAtDepth_Fast s.cage depth + ccm_FaceCountAtDepth_Fast s.cage depth
      + ccm_EdgeCountAtDepth_Fast s.cage depth ≤ out.length)
    (hr : ccs_VertexRingsReadable s e2h v2h depth fuel)
    (hc : ccs_CreasedVertexRingsReadable s e2h v2h depth fuel)
    (hsm : ∀ v : Nat, v < ccm_VertexCountAtDepth_Fast s.cage depth →
      ccs_VertexSmoothClosed s e2h v2h depth fuel v) :
    ccs__CreasedVertexPoints_Gather s e2h v2h depth fuel
      = ccs__VertexPoints_Gather s e2h v2h depth fuel := by
  obtain ⟨oU, u1, u2, u3, u4⟩ := level_vertex_kernel s e2h v2h depth fuel out hout hlen hr
  obtain ⟨oC, c1, c2, c3, c4⟩ := level_creased_vertex_kernel s e2h v2h depth fuel out hout
    hlen hc
  rw [u1, c1]
  have heq : oC = oU := by
    apply List.ext_getElem?
    intro j
    by_cases hj : j < ccm_VertexCountAtDepth_Fast s.cage depth
    · obtain ⟨h, Vp, Eh, thisS, ring, back, last, itemsF, itemsB, a1, a2, a3, a4, _, a5, a5b,
        a6, _, a7, _⟩ :=
        level_creased_vertex_reads s e2h v2h depth fuel hc out out hlen (fun _ _ => rfl) j hj
      obtain ⟨_, hval⟩ := u4 j hj h Vp ring last a1 a2 a5
      rw [c4 j hj h Vp Eh thisS ring back last itemsF itemsB a1 a2 a3 a4 a5 a5b a6 a7, hval]
      obtain ⟨h', b1, r', b2, hfan⟩ := hsm j hj
      rw [Option.mem_def] at b1 b2
      rw [a1] at b1; cases b1
      rw [a5] at b2; cases b2
      obtain ⟨hitems, hsome⟩ := map_eq_map_some (ccs_PrevNewPoints s depth out) ring itemsF a6
      have hr0 := a5
      unfold ccs_VertexRing at hr0
      cases hs : ccs_PrevVertexHalfedgeID s h depth with
      | none => simp [hs] at hr0
      | some start =>
        simp only [hs, Option.bind_eq_bind, Option.some_bind] at hr0
        obtain ⟨w, hw, hq⟩ := Option.bind_eq_some.mp hr0
        obtain ⟨r1, l⟩ := w
        simp only [Option.some.injEq, Prod.mk.injEq] at hq
        obtain ⟨hring, rfl⟩ := hq
        have hfan' : ∀ g ∈ h :: r1, ccs_SmoothFan s depth g := by
          rw [hring]; exact hfan
        have hsome' : ∀ g ∈ h :: r1, ccs_PrevNewPoints s depth out g
            = some ((ccs_PrevNewPoints s depth out g).getD default) := by
          rw [hring]; exact hsome
        have hl0 : 0 ≤ l := ringWalk_last_nonneg _ _ fuel h start r1 l hs hw
          (fun a ha b hb =>
            ((level_smooth_reads s depth out a _ (hfan' a ha) (hsome' a ha)).2.2 b hb).1)
        have hlast : l = h := by
          have hx := ccs_VertexRing_exit s depth fuel h ring l a5
          by_contra hne
          have : l < 0 := hx.mpr (by simpa using hne)
          omega
        subst hlast
        have hback : back = [] :=
          ccs_VertexRingBackward_closed s depth fuel l l back (by omega) a5b
        subst hback
        have hB : itemsB = [] := by
          have := congrArg List.length a7
          simpa using this.symm
        subst hB
        have hshift := ringWalk_shift _ _ fuel l start r1 l hs hw
          (fun b => (ccs_HalfedgeNewEdgePoint s depth out b).getD default)
          (fun a => ((ccs_PrevNewPoints s depth out a).getD default).1)
          (fun a ha b hb => by
            beta_reduce
            rw [((level_smooth_reads s depth out a _ (hfan' a ha) (hsome' a ha)).2.2 b hb).2]
            rfl)
        obtain ⟨k1, k2, k3⟩ := smooth_sum_rotate ring r1 l hring.symm
          (fun b => (ccs_HalfedgeNewEdgePoint s depth out b).getD default)
          (fun b => (ccs_HalfedgeNewFacePoint s depth out b).getD default)
          (fun a => (ccs_PrevNewPoints s depth out a).getD default)
          (by rw [hshift, hring])
          (fun g hg => by
            beta_reduce
            rw [(level_smooth_reads s depth out g _ (hfan g hg) (hsome g hg)).2.1]
            rfl)
          (fun g hg => (level_smooth_reads s depth out g _ (hfan g hg) (hsome g hg)).1)
        rw [← hitems] at k1 k2 k3
        rw [List.append_nil,
          (level_rule_branches Vp Eh (cc__Signf thisS) l (cc_VertexLocals.sum itemsF)
            _ _ _ rfl rfl rfl).1 (by rw [k2, if_neg (by omega)]; norm_num)]
        rw [k1, k3, if_neg (by omega), add_zero]
        unfold vertexRule
        simp
    · rw [c3 j (by omega), u3 j (by omega)]
  rw [heq]

/-- A kernel that rewrites the region `d` of the vertex point buffer by a region
of the same length gives a subdivision of the same shape. -/
theorem sameShape_of_set (s : cc_Subd) (d : Nat) (p out : List cc_VertexPoint)
    (hp : s.vertexPoints[d]? = some p) (hl : out.length = p.length) :
    ccs_SameShape { s with vertexPoints := s.vertexPoints.set d out } s :=
  ⟨rfl, rfl, rfl, rfl, map_length_set _ _ _ _ hp hl⟩

theorem shape_CageFacePoints_Gather (s s' : cc_Subd) (fuel : Nat)
    (h : ccs__CageFacePoints_Gather s fuel = some s') : ccs_SameShape s' s := by
  unfold ccs__CageFacePoints_Gather at h
  simp only [Option.bind_eq_bind, Option.bind_eq_some, Option.some.injEq] at h
  obtain ⟨p, hp, out, hf, rfl⟩ := h
  exact sameShape_of_set s 0 p out hp
    (foldlM_writeAt_length (fun _ (i : Nat) => ccs__CageFacePoints_Gather_face s.cage fuel i)
      (fun _ i => (ccm_VertexCount s.cage : Int) + (i : Int)) (fun v _ => v) _ p out hf)

theorem shape_CageEdgePoints_Gather (s s' : cc_Subd)
    (h : ccs__CageEdgePoints_Gather s = some s') : ccs_SameShape s' s := by
  unfold ccs__CageEdgePoints_Gather at h
  simp only [Option.bind_eq_bind, Option.bind_eq_some, Option.some.injEq] at h
  obtain ⟨p, hp, out, hf, rfl⟩ := h
  exact sameShape_of_set s 0 p out hp
    (foldlM_writeAt_length
      (fun o (i : Nat) => ccs__CageEdgePoints_Gather_edge s.cage (ccm_VertexCount s.cage) o i)
      (fun _ i => (ccm_VertexCount s.cage : Int) + (ccm_FaceCount s.cage : Int) + (i : Int))
      (fun v _ => v) _ p out hf)

theorem shape_CageVertexPoints_Gather (s s' : cc_Subd) (fuel : Nat)
    (h : ccs__CageVertexPoints_Gather s fuel = some s') : ccs_SameShape s' s := by
  unfold ccs__CageVertexPoints_Gather at h
  simp only [Option.bind_eq_bind, Option.bind_eq_some, Option.some.injEq] at h
  obtain ⟨p, hp, out, hf, rfl⟩ := h
  exact sameShape_of_set s 0 p out hp
    (foldlM_writeAt_length
      (fun o (i : Nat) => ccs__CageVertexPoints_Gather_vertex s.cage (ccm_VertexCount s.cage)
        (ccm_FaceCount s.cage) o fuel i)
      (fun _ i => (i : Int)) (fun v _ => v) _ p out hf)

theorem shape_FacePoints_Gather (s s' : cc_Subd) (d fuel : Nat)
    (h : ccs__FacePoints_Gather s d fuel = some s') : ccs_SameShape s' s := by
  unfold ccs__FacePoints_Gather at h
  simp only [Option.bind_eq_bind, Option.bind_eq_some, Option.some.injEq] at h
  obtain ⟨p, hp, out, hf, rfl⟩ := h
  rw [ccs__Level_succ] at hp
  exact sameShape_of_set s d p out hp
    (foldlM_writeAt_length (fun _ (i : Nat) => ccs__FacePoints_Gather_face s d fuel i)
      (fun _ i => (ccm_VertexCountAtDepth_Fast s.cage d : Int) + (i : Int)) (fun v _ => v)
      _ p out hf)

theorem shape_EdgePoints_Gather (s s' : cc_Subd) (e2h : Int → Nat → Int) (d : Nat)
    (h : ccs__EdgePoints_Gather s e2h d = some s') : ccs_SameShape s' s := by
  unfold ccs__EdgePoints_Gather at h
  simp only [Option.bind_eq_bind, Option.bind_eq_some, Option.some.injEq] at h
  obtain ⟨p, hp, out, hf, rfl⟩ := h
  rw [ccs__Level_succ] at hp
  exact sameShape_of_set s d p out hp
    (foldlM_writeAt_length
      (fun o (i : Nat) => ccs__EdgePoints_Gather_edge s e2h d
        (ccm_VertexCountAtDepth_Fast s.cage d) o i)
      (fun _ i => (ccm_VertexCountAtDepth_Fast s.cage d : Int)
        + (ccm_FaceCountAtDepth_Fast s.cage d : Int) + (i : Int))
      (fun v _ => v) _ p out hf)

theorem shape_VertexPoints_Gather (s s' : cc_Subd) (e2h : Int → Nat → Int) (v2h : Int → Int)
    (d fuel : Nat)
    (h : ccs__VertexPoints_Gather s e2h v2h d fuel = some s') : ccs_SameShape s' s := by
  unfold ccs__VertexPoints_Gather at h
  simp only [Option.bind_eq_bind, Option.bind_eq_some, Option.some.injEq] at h
  obtain ⟨p, hp, out, hf, rfl⟩ := h
  rw [ccs__Level_succ] at hp
  exact sameShape_of_set s d p out hp
    (foldlM_writeAt_length
      (fun o (i : Nat) => ccs__VertexPoints_Gather_vertex s e2h v2h d
        (ccm_VertexCountAtDepth_Fast s.cage d) (ccm_FaceCountAtDepth_Fast s.cage d) o fuel i)
      (fun _ i => (i : Int)) (fun v _ => v) _ p out hf)

/-- A region of the vertex point buffer in two subdivisions of the same shape. -/
theorem level_of_sameShape (s t : cc_Subd) (hs : ccs_SameShape s t) (k : Nat)
    (lt : List cc_VertexPoint) (h : ccs__Level t.vertexPoints k = some lt) :
    ∃ ls, ccs__Level s.vertexPoints k = some ls ∧ ls.length = lt.length := by
  unfold ccs__Level at h ⊢
  by_cases c : 1 ≤ k
  · simp only [c, if_true] at h ⊢
    have e := congrArg (fun l => l[k - 1]?) hs.2.2.2.2
    simp only [List.getElem?_map, h, Option.map_some'] at e
    cases hx : s.vertexPoints[k - 1]? with
    | none => simp [hx] at e
    | some ls =>
      simp only [hx, Option.map_some', Option.some.injEq] at e
      exact ⟨ls, rfl, e⟩
  · simp [c] at h

theorem vertexPoint_of_sameShape (s t : cc_Subd) (hs : ccs_SameShape s t) (v : Int) (d : Nat)
    (h : (ccs_VertexPoint t v d).isSome = true) : (ccs_VertexPoint s v d).isSome = true := by
  unfold ccs_VertexPoint at h ⊢
  cases hl : ccs__Level t.vertexPoints d with
  | none => simp [hl] at h
  | some lt =>
    obtain ⟨ls, h1, h2⟩ := level_of_sameShape s t hs d lt hl
    simp only [hl, h1, Option.bind_eq_bind, Option.some_bind] at h ⊢
    obtain ⟨x, hx⟩ := Option.isSome_iff_exists.mp h
    obtain ⟨x0, x1⟩ := (readAt_eq_some_iff _ _ _).mp hx
    have hlt : v.toNat < lt.length := by
      by_contra c
      rw [List.getElem?_eq_none (by omega)] at x1
      cases x1
    unfold readAt
    rw [if_pos x0, List.getElem?_eq_getElem (by omega)]
    rfl

/-- Level `depth` is readable by the vertex point kernels, its edges and the
walks around its vertices are closed and not sharp, and the region of level
`depth + 1` of the vertex point buffer holds `V + F + E` points. -/
def ccs_SmoothClosed (subd : cc_Subd) (edgeToHalfedgeID : Int → Nat → Int)
    (vertexToHalfedgeID_First : Int → Int) (depth fuel : Nat) : Prop :=
  (∀ e : Nat, e < ccm_EdgeCountAtDepth_Fast subd.cage depth →
    ccs_EdgeSmoothClosed subd edgeToHalfedgeID depth e) ∧
  ccs_VertexRingsReadable subd edgeToHalfedgeID vertexToHalfedgeID_First depth fuel ∧
  ccs_CreasedVertexRingsReadable subd edgeToHalfedgeID vertexToHalfedgeID_First depth fuel ∧
  (∀ v : Nat, v < ccm_VertexCountAtDepth_Fast subd.cage depth →
    ccs_VertexSmoothClosed subd edgeToHalfedgeID vertexToHalfedgeID_First depth fuel v) ∧
  ∃ out ∈ ccs__Level subd.vertexPoints (depth + 1),
    ccm_VertexCountAtDepth_Fast subd.cage depth + ccm_FaceCountAtDepth_Fast subd.cage depth
      + ccm_EdgeCountAtDepth_Fast subd.cage depth ≤ out.length

instance (subd : cc_Subd) (edgeToHalfedgeID : Int → Nat → Int)
    (vertexToHalfedgeID_First : Int → Int) (depth fuel : Nat) :
    Decidable (ccs_SmoothClosed subd edgeToHalfedgeID vertexToHalfedgeID_First depth
      fuel) := by
  unfold ccs_SmoothClosed
  infer_instance

/-- The cage is readable by the vertex point kernels, its edges and the walks
around its vertices are closed and not sharp. -/
def ccm_SmoothClosed (cage : cc_Mesh) (fuel : Nat) : Prop :=
  (∀ e : Nat, e < ccm_EdgeCount cage → ccm_EdgeSmoothClosed cage e) ∧
  ccm_VertexRingsReadable cage fuel ∧ ccm_CreasedVertexRingsReadable cage fuel ∧
  (∀ v : Nat, v < ccm_VertexCount cage → ccm_VertexSmoothClosed cage fuel v)

instance (cage : cc_Mesh) (fuel : Nat) : Decidable (ccm_SmoothClosed cage fuel) := by
  unfold ccm_SmoothClosed
  infer_instance

/-- The predicate `ccs_SmoothClosed` does not depend on the contents of the
vertex point buffer. -/
theorem ccs_SmoothClosed_of_sameShape (s t : cc_Subd) (hs : ccs_SameShape s t)
    (e2h : Int → Nat → Int) (v2h : Int → Int) (depth fuel : Nat)
    (h : ccs_SmoothClosed t e2h v2h depth fuel) : ccs_SmoothClosed s e2h v2h depth fuel := by
  have hvp : ∀ v : Int, (ccs_VertexPoint t v depth).isSome = true →
      (ccs_VertexPoint s v depth).isSome = true :=
    fun v => vertexPoint_of_sameShape s t hs v depth
  have hlev : ∀ lt, ccs__Level t.vertexPoints (depth + 1) = some lt →
      ∃ ls, ccs__Level s.vertexPoints (depth + 1) = some ls ∧ ls.length = lt.length :=
    fun lt => level_of_sameShape s t hs (depth + 1) lt
  obtain ⟨c, D, he, cr, vp⟩ := s
  obtain ⟨c', D', he', cr', vp'⟩ := t
  obtain ⟨h1, h2, h3, h4, _⟩ := hs
  simp only at h1 h2 h3 h4
  subst h1 h2 h3 h4
  obtain ⟨k1, k2, k3, k4, out, k5, k6⟩ := h
  refine ⟨k1, ?_, ?_, k4, ?_⟩
  · intro v hv
    obtain ⟨a, b⟩ := k2 v hv
    exact ⟨hvp v a, b⟩
  · intro v hv
    obtain ⟨a, b⟩ := k3 v hv
    exact ⟨hvp v a, b⟩
  · obtain ⟨ls, l1, l2⟩ := hlev out k5
    exact ⟨ls, l1, by rw [l2]; exact k6⟩

/-- The kernels of one depth of `ccs_RefineVertexPoints_NoCreases_Gather`. -/
def ccs_RefineVertexPoints_NoCreases_Gather_depth (edgeToHalfedgeID : Int → Nat → Int)
    (vertexToHalfedgeID_First : Int → Int) (fuel : Nat) (s : cc_Subd) (depth : Nat) :
    Option cc_Subd :=
  (ccs__FacePoints_Gather s depth fuel).bind (fun s =>
    (ccs__EdgePoints_Gather s edgeToHalfedgeID depth).bind (fun s =>
      ccs__VertexPoints_Gather s edgeToHalfedgeID vertexToHalfedgeID_First depth fuel))

/-- The kernels of one depth on a level that is closed and not sharp: the
creased kernels do what the kernels without creases do, and the shape is
kept. -/
theorem gather_depth_smooth (T s : cc_Subd) (e2h : Int → Nat → Int) (v2h : Int → Int)
    (depth fuel : Nat) (hs : ccs_SameShape s T)
    (hT : ccs_SmoothClosed T e2h v2h depth fuel) :
    ccs_RefineVertexPoints_Gather_depth e2h v2h fuel s depth
        = ccs_RefineVertexPoints_NoCreases_Gather_depth e2h v2h fuel s depth ∧
      ∀ s', ccs_RefineVertexPoints_NoCreases_Gather_depth e2h v2h fuel s depth = some s' →
        ccs_SameShape s' T := by
  unfold ccs_RefineVertexPoints_Gather_depth ccs_RefineVertexPoints_NoCreases_Gather_depth
  cases h1 : ccs__FacePoints_Gather s depth fuel with
  | none => exact ⟨rfl, fun s' h => by simp at h⟩
  | some s1 =>
    have sh1 : ccs_SameShape s1 T := (shape_FacePoints_Gather s s1 depth fuel h1).trans hs
    obtain ⟨k1, _⟩ := ccs_SmoothClosed_of_sameShape s1 T sh1 e2h v2h depth fuel hT
    simp only [Option.some_bind]
    rw [level_edge_kernel_smooth s1 e2h depth k1]
    cases h2 : ccs__EdgePoints_Gather s1 e2h depth with
    | none => exact ⟨rfl, fun s' h => by simp at h⟩
    | some s2 =>
      have sh2 : ccs_SameShape s2 T := (shape_EdgePoints_Gather s1 s2 e2h depth h2).trans sh1
      obtain ⟨_, q2, q3, q4, out, o1, o2⟩ :=
        ccs_SmoothClosed_of_sameShape s2 T sh2 e2h v2h depth fuel hT
      simp only [Option.some_bind]
      rw [level_vertex_kernel_smooth s2 e2h v2h depth fuel out (Option.mem_def.mp o1) o2
        q2 q3 q4]
      exact ⟨rfl, fun s' h =>
        (shape_VertexPoints_Gather s2 s' e2h v2h depth fuel h).trans sh2⟩

/-- The loop over the depths of the two entry points on levels that are closed
and not sharp. -/
theorem gather_loop_smooth (T : cc_Subd) (e2h : Int → Nat → Int) (v2h : Int → Int)
    (fuel : Nat) :
    ∀ (l : List Nat), (∀ d ∈ l, ccs_SmoothClosed T e2h v2h d fuel) →
      ∀ s : cc_Subd, ccs_SameShape s T →
        l.foldlM (ccs_RefineVertexPoints_Gather_depth e2h v2h fuel) s
          = l.foldlM (ccs_RefineVertexPoints_NoCreases_Gather_depth e2h v2h fuel) s := by
  intro l
  induction l with
  | nil => intro _ s _; rfl
  | cons d t ih =>
    intro hl s hs
    obtain ⟨e1, e2⟩ := gather_depth_smooth T s e2h v2h d fuel hs (hl d (List.mem_cons_self _ _))
    rw [List.foldlM_cons, List.foldlM_cons, e1]
    cases hx : ccs_RefineVertexPoints_NoCreases_Gather_depth e2h v2h fuel s d with
    | none => rfl
    | some s' =>
      simp only [Option.bind_eq_bind, Option.some_bind]
      exact ih (fun x hx' => hl x (List.mem_cons_of_mem _ hx')) s' (e2 s' hx)

/-- The subdivision `T`, after the refinement of its topology, is closed and
not sharp at every depth below `maxDepth`: the cage (`ccm_SmoothClosed`) and the
levels `1 ≤ depth < maxDepth` (`ccs_SmoothClosed`), and the region of level 1 of
the vertex point buffer holds `V0 + F0 + E0` points. -/
def ccs_SmoothLevels (T : cc_Subd) (edgeToHalfedgeID : Int → Nat → Int)
    (vertexToHalfedgeID_First : Int → Int) (fuel : Nat) : Prop :=
  ccm_SmoothClosed T.cage fuel ∧
  (∃ out ∈ T.vertexPoints[0]?,
    ccm_VertexCount T.cage + ccm_FaceCount T.cage + ccm_EdgeCount T.cage ≤ out.length) ∧
  ∀ d ∈ List.range' 1 (ccs_MaxDepth T - 1),
    ccs_SmoothClosed T edgeToHalfedgeID vertexToHalfedgeID_First d fuel

instance (T : cc_Subd) (edgeToHalfedgeID : Int → Nat → Int)
    (vertexToHalfedgeID_First : Int → Int) (fuel : Nat) :
    Decidable (ccs_SmoothLevels T edgeToHalfedgeID vertexToHalfedgeID_First fuel) := by
  unfold ccs_SmoothLevels
  infer_instance

/-- The entry points `ccs_RefineVertexPoints_Gather` and
`ccs_RefineVertexPoints_NoCreases_Gather` on a subdivision that is closed and
not sharp at every depth. -/
theorem refineVertexPoints_gather_smooth (T : cc_Subd) (e2h : Int → Nat → Int)
    (v2h : Int → Int) (fuel : Nat) (hT : ccs_SmoothLevels T e2h v2h fuel) :
    ccs_RefineVertexPoints_Gather T e2h v2h fuel
      = ccs_RefineVertexPoints_NoCreases_Gather T e2h v2h fuel := by
  obtain ⟨⟨c1, c2, c3, c4⟩, ⟨out, o1, o2⟩, hlev⟩ := hT
  unfold ccs_RefineVertexPoints_Gather ccs_RefineVertexPoints_NoCreases_Gather
  cases h1 : ccs__CageFacePoints_Gather T fuel with
  | none => rfl
  | some s1 =>
    have sh1 := shape_CageFacePoints_Gather T s1 fuel h1
    simp only [Option.bind_eq_bind, Option.some_bind]
    rw [cage_edge_kernel_smooth s1 (by rw [sh1.1]; exact c1)]
    cases h2 : ccs__CageEdgePoints_Gather s1 with
    | none => rfl
    | some s2 =>
      have sh2 := (shape_CageEdgePoints_Gather s1 s2 h2).trans sh1
      obtain ⟨ls, l1, l2⟩ := level_of_sameShape s2 T sh2 1 out
        (by rw [ccs__Level_succ]; exact Option.mem_def.mp o1)
      rw [ccs__Level_succ] at l1
      simp only [Option.some_bind]
      rw [cage_vertex_kernel_smooth s2 fuel ls l1 (by rw [sh2.1, l2]; exact o2)
        (by rw [sh2.1]; exact c2) (by rw [sh2.1]; exact c3) (by rw [sh2.1]; exact c4)]
      cases h3 : ccs__CageVertexPoints_Gather s2 fuel with
      | none => rfl
      | some s3 =>
        have sh3 := (shape_CageVertexPoints_Gather s2 s3 fuel h3).trans sh2
        simp only [Option.some_bind]
        have hm : ccs_MaxDepth s3 = ccs_MaxDepth T := sh3.2.1
        rw [hm]
        exact gather_loop_smooth T e2h v2h fuel _ hlev s3 sh3

/-- A closed cage: two triangles glued along their three edges, of sharpness 0;
every halfedge has a twin. -/
def pillow : cc_Mesh :=
  { vertexCount := 3, edgeCount := 3, faceCount := 2,
    creases := [⟨0, 0, 0⟩, ⟨1, 1, 0⟩, ⟨2, 2, 0⟩],
    halfedges := [⟨3, 1, 2, 0, 0, 0, 0⟩, ⟨5, 2, 0, 0, 1, 1, 0⟩, ⟨4, 0, 1, 0, 2, 2, 0⟩,
      ⟨0, 4, 5, 1, 0, 1, 0⟩, ⟨2, 5, 3, 1, 2, 0, 0⟩, ⟨1, 3, 4, 1, 1, 2, 0⟩],
    vertexToHalfedgeIDs := [0, 1, 2], edgeToHalfedgeIDs := [0, 1, 2],
    faceToHalfedgeIDs := [0, 3],
    vertexPoints := [(0, 0, 0), (1, 0, 0), (0, 1, 0)] }

/-- A blank subdivision of depth 2 of `pillow`: 24 and 96 halfedges, 12 and 48
creases, 8 and 26 vertex points, all zero. -/
def pillowBlank : cc_Subd :=
  { cage := pillow, maxDepth := 2,
    halfedges := [List.replicate 24 ⟨0, 0, 0, 0⟩, List.replicate 96 ⟨0, 0, 0, 0⟩],
    creases := [List.replicate 12 ⟨0, 0, 0⟩, List.replicate 48 ⟨0, 0, 0⟩],
    vertexPoints := [List.replicate 8 (0, 0, 0), List.replicate 26 (0, 0, 0)] }

/-- A halfedge on each of the 12 edges of level 1 of `pillow`. -/
def pillowEdgeToHalfedgeID (e : Int) (_depth : Nat) : Int :=
  ([7, 0, 11, 4, 3, 8, 1, 5, 2, 13, 17, 14] : List Int).getD e.toNat 0

/-- A halfedge of level 1 of `pillow` at each of its 8 vertices. -/
def pillowVertexToHalfedgeID_First (v : Int) : Int :=
  ([0, 4, 8, 2, 14, 1, 5, 3] : List Int).getD v.toNat 0

/-! ## C29: the blocks of the vertex point buffer -/

/-- Modelled from the spec: `ccs_CumulativeVertexCountAtDepth` of the header,
"`CumulativeVertexCount(D) = Σ_{ℓ=0..D} V_ℓ`" (section 3). -/
def ccs_CumulativeVertexCountAtDepth (cage : cc_Mesh) (depth : Nat) : Nat :=
  ((List.range (depth + 1)).map (ccm_VertexCountAtDepth_Fast cage)).sum

/-- The three pointers into `subd->vertexPoints` a vertex point kernel starts
with, as offsets: `newVertexPoints`, `newFacePoints` and `newEdgePoints`. -/
structure cc_VertexPointBlocks where
  newVertexPoints : Nat
  newFacePoints : Nat
  newEdgePoints : Nat
deriving DecidableEq, Repr

/-- The pointers of `ccs__CageVertexPoints_Gather`:
`newFacePoints = &subd->vertexPoints[vertexCount]`,
`newEdgePoints = &subd->vertexPoints[vertexCount + faceCount]` and
`newVertexPoints = subd->vertexPoints`. -/
def ccs__CageVertexPoints_Gather_blocks (cage : cc_Mesh) : cc_VertexPointBlocks :=
  let vertexCount := ccm_VertexCount cage
  let faceCount := ccm_FaceCount cage
  { newFacePoints := vertexCount, newEdgePoints := vertexCount + faceCount,
    newVertexPoints := 0 }

/-- The pointers of `ccs__VertexPoints_Gather` at `depth`, with
`stride = ccs_CumulativeVertexCountAtDepth(cage, depth)`:
`newFacePoints = &subd->vertexPoints[stride + vertexCount]`,
`newEdgePoints = &subd->vertexPoints[stride + vertexCount + faceCount]` and
`newVertexPoints = &subd->vertexPoints[stride]`. -/
def ccs__VertexPoints_Gather_blocks (cage : cc_Mesh) (stride : Nat) (depth : Nat) :
    cc_VertexPointBlocks :=
  let vertexCount := ccm_VertexCountAtDepth_Fast cage depth
  let faceCount := ccm_FaceCountAtDepth_Fast cage depth
  { newFacePoints := stride + vertexCount, newEdgePoints := stride + vertexCount + faceCount,
    newVertexPoints := stride }

/-- The slots `[start, end)` of `subd->vertexPoints` that hold the vertex points
of level `l ≥ 1`: the slots the kernels of the depth `l - 1` write, from
`newVertexPoints` to the end of the `E_(l-1)` edge points; the kernels of the
depth 0 are the cage kernels. -/
def ccs_VertexPointSlots (cage : cc_Mesh) (stride : Nat → Nat) (l : Nat) : Nat × Nat :=
  if l ≤ 1 then
    ((ccs__CageVertexPoints_Gather_blocks cage).newVertexPoints,
      (ccs__CageVertexPoints_Gather_blocks cage).newEdgePoints + ccm_EdgeCount cage)
  else
    ((ccs__VertexPoints_Gather_blocks cage (stride (l - 1)) (l - 1)).newVertexPoints,
      (ccs__VertexPoints_Gather_blocks cage (stride (l - 1)) (l - 1)).newEdgePoints
        + ccm_EdgeCountAtDepth_Fast cage (l - 1))

/-- C29, counterexample: the vertex points of level 1 of the open quad start at
the offset 0 of `subd->vertexPoints` (`newVertexPoints = subd->vertexPoints` in
the cage kernels), and the sum of `V_l` for `l = 0..0` is `V_0 = 4`. -/
theorem C29_counterexample :
    (ccs_VertexPointSlots quadMesh (ccs_CumulativeVertexCountAtDepth quadMesh) 1).1 = 0 ∧
    (ccs__CageVertexPoints_Gather_blocks quadMesh).newVertexPoints = 0 ∧
    ccs_CumulativeVertexCountAtDepth quadMesh (1 - 1) = 4 := by
  decide

theorem ccs_CumulativeVertexCountAtDepth_succ (cage : cc_Mesh) (d : Nat) :
    ccs_CumulativeVertexCountAtDepth cage (d + 1)
      = ccs_CumulativeVertexCountAtDepth cage d + ccm_VertexCountAtDepth_Fast cage (d + 1) := by
  unfold ccs_CumulativeVertexCountAtDepth
  rw [List.range_succ, List.map_append, List.sum_append]
  simp

theorem ccs_VertexPointSlots_le (cage : cc_Mesh) (stride : Nat → Nat) (l : Nat) :
    (ccs_VertexPointSlots cage stride l).1 ≤ (ccs_VertexPointSlots cage stride l).2 := by
  unfold ccs_VertexPointSlots ccs__CageVertexPoints_Gather_blocks
    ccs__VertexPoints_Gather_blocks
  split <;> simp only <;> omega

theorem ccs_VertexPointSlots_succ (cage : cc_Mesh) (stride : Nat → Nat)
    (h1 : ccm_VertexCountAtDepth_Fast cage 1 ≤ stride 1)
    (hrec : ∀ d : Nat, 1 ≤ d → stride (d + 1) = stride d + ccm_VertexCountAtDepth_Fast cage (d + 1))
    (l : Nat) (hl : 1 ≤ l) :
    (ccs_VertexPointSlots cage stride l).2 ≤ (ccs_VertexPointSlots cage stride (l + 1)).1 := by
  unfold ccs_VertexPointSlots ccs__CageVertexPoints_Gather_blocks
    ccs__VertexPoints_Gather_blocks
  by_cases c : l ≤ 1
  · have e : l = 1 := by omega
    subst e
    simp only [le_refl, if_true, show ¬ (1 + 1 ≤ 1) by omega, if_false, Nat.add_sub_cancel]
    have : ccm_VertexCountAtDepth_Fast cage 1
        = ccm_VertexCount cage + ccm_FaceCount cage + ccm_EdgeCount cage := rfl
    omega
  · obtain ⟨d, rfl⟩ : ∃ d, l = d + 1 := ⟨l - 1, by omega⟩
    simp only [c, if_false, show ¬ (d + 1 + 1 ≤ 1) by omega, Nat.add_sub_cancel]
    have e := hrec d (by omega)
    have : ccm_VertexCountAtDepth_Fast cage (d + 1)
        = ccm_VertexCountAtDepth_Fast cage d + ccm_FaceCountAtDepth_Fast cage d
          + ccm_EdgeCountAtDepth_Fast cage d := rfl
    omega

/-- C29 (as amended): the vertex points of level 1 are stored from the offset 0
of `subd->vertexPoints`, as the three consecutive blocks of `V_0` vertex points,
`F_0` face points and `E_0` edge points (first part); the vertex points of a
level `l = depth + 1 ≥ 2` are stored from the offset
`stride = ccs_CumulativeVertexCountAtDepth(cage, depth)`, as the three consecutive
blocks of `V_depth`, `F_depth` and `E_depth` points (second part); and when the
cumulative count is at least `V_1` at the depth 1 and grows by `V_(d+1)` from the
depth `d ≥ 1` to the depth `d + 1`, as the sum of `V_l` for `l = 0..D` does, the
slots of two different levels `1 ≤ l < m` are disjoint: the slots of `l` end
before the slots of `m` start (third part). -/
theorem C29_vertex_point_blocks (cage : cc_Mesh) (stride : Nat → Nat)
    (h1 : ccm_VertexCountAtDepth_Fast cage 1 ≤ stride 1)
    (hrec : ∀ d : Nat, 1 ≤ d →
      stride (d + 1) = stride d + ccm_VertexCountAtDepth_Fast cage (d + 1)) :
    ((ccs__CageVertexPoints_Gather_blocks cage).newVertexPoints = 0 ∧
      (ccs__CageVertexPoints_Gather_blocks cage).newFacePoints
        = (ccs__CageVertexPoints_Gather_blocks cage).newVertexPoints + ccm_VertexCount cage ∧
      (ccs__CageVertexPoints_Gather_blocks cage).newEdgePoints
        = (ccs__CageVertexPoints_Gather_blocks cage).newFacePoints + ccm_FaceCount cage) ∧
    (∀ depth : Nat, 1 ≤ depth →
      (ccs__VertexPoints_Gather_blocks cage (stride depth) depth).newVertexPoints
        = stride depth ∧
      (ccs__VertexPoints_Gather_blocks cage (stride depth) depth).newFacePoints
        = (ccs__VertexPoints_Gather_blocks cage (stride depth) depth).newVertexPoints
          + ccm_VertexCountAtDepth_Fast cage depth ∧
      (ccs__VertexPoints_Gather_blocks cage (stride depth) depth).newEdgePoints
        = (ccs__VertexPoints_Gather_blocks cage (stride depth) depth).newFacePoints
          + ccm_FaceCountAtDepth_Fast cage depth) ∧
    (∀ l m : Nat, 1 ≤ l → l < m →
      (ccs_VertexPointSlots cage stride l).2 ≤ (ccs_VertexPointSlots cage stride m).1) := by
  refine ⟨⟨rfl, by simp [ccs__CageVertexPoints_Gather_blocks], rfl⟩, ?_, ?_⟩
  · intro depth _
    exact ⟨rfl, rfl, rfl⟩
  · intro l m hl hlm
    obtain ⟨k, rfl⟩ : ∃ k, m = l + 1 + k := ⟨m - l - 1, by omega⟩
    induction k with
    | zero => exact ccs_VertexPointSlots_succ cage stride h1 hrec l hl
    | succ k ih =>
      have a := ih (by omega)
      have b := ccs_VertexPointSlots_le cage stride (l + 1 + k)
      have c := ccs_VertexPointSlots_succ cage stride h1 hrec (l + 1 + k) (by omega)
      exact le_trans a (le_trans b c)

/-- C29 (as amended), witness: the open quad, with the sum of `V_l` for
`l = 0..D` as cumulative count: level 1 is `[0, 9)` and level 2 is `[13, 38)`. -/
theorem C29_vertex_point_blocks_witness :
    ccs_VertexPointSlots quadMesh (ccs_CumulativeVertexCountAtDepth quadMesh) 1 = (0, 9) ∧
    ccs_VertexPointSlots quadMesh (ccs_CumulativeVertexCountAtDepth quadMesh) 2 = (13, 38) ∧
    (ccs_VertexPointSlots quadMesh (ccs_CumulativeVertexCountAtDepth quadMesh) 1).2
      ≤ (ccs_VertexPointSlots quadMesh (ccs_CumulativeVertexCountAtDepth quadMesh) 2).1 :=
  ⟨by decide, by decide,
    (C29_vertex_point_blocks quadMesh (ccs_CumulativeVertexCountAtDepth quadMesh) (by decide)
      (fun d _ => ccs_CumulativeVertexCountAtDepth_succ quadMesh d)).2.2 1 2 (by decide)
      (by decide)⟩

/-! ## C30: the refinement is total on a valid cage

### Walks that end -/

/-- A list of distinct integers of `[0, H)` has at most `H` entries. -/
theorem nodup_range_length (l : List Int) (H : Nat) (hn : l.Nodup)
    (hr : ∀ x ∈ l, 0 ≤ x ∧ x < (H : Int)) : l.length ≤ H := by
  have hm : (l.map Int.toNat).Nodup := by
    apply List.Nodup.map_on _ hn
    intro x hx y hy hxy
    have := (hr x hx).1
    have := (hr y hy).1
    omega
  have hs : (l.map Int.toNat).toFinset ⊆ Finset.range H := by
    intro n hn'
    rw [List.mem_toFinset, List.mem_map] at hn'
    obtain ⟨x, hx, rfl⟩ := hn'
    rw [Finset.mem_range]
    have := hr x hx
    omega
  have hc := Finset.card_le_card hs
  rw [List.toFinset_card_of_nodup hm, List.length_map, Finset.card_range] at hc
  exact hc

/-- A property of the start of a walk that every step of the walk keeps holds
for every iterator of the walk and for its value at the exit. -/
theorem ringWalk_forall (step : Int → Option Int) (cont : Int → Bool) (Q : Int → Prop)
    (hQ : ∀ a b : Int, Q a → cont a = true → step a = some b → Q b) :
    ∀ (fuel : Nat) (it : Int) (ring : List Int) (last : Int),
      ringWalk step cont fuel it = some (ring, last) → Q it →
      (∀ g ∈ ring, Q g) ∧ Q last := by
  intro fuel
  induction fuel with
  | zero =>
    intro it ring last hw hq
    unfold ringWalk at hw
    by_cases c : cont it = true
    · simp [c] at hw
    · simp only [c, if_false, Option.some.injEq, Prod.mk.injEq] at hw
      obtain ⟨rfl, rfl⟩ := hw
      exact ⟨fun g hg => by simp at hg, hq⟩
  | succ n ih =>
    intro it ring last hw hq
    unfold ringWalk at hw
    by_cases c : cont it = true
    · simp only [c, if_true] at hw
      obtain ⟨nxt, hs, hm⟩ := Option.bind_eq_some.mp hw
      obtain ⟨r, hr, hq2⟩ := Option.map_eq_some'.mp hm
      obtain ⟨r1, r2⟩ := r
      simp only [Prod.mk.injEq] at hq2
      obtain ⟨rfl, rfl⟩ := hq2
      obtain ⟨a1, a2⟩ := ih nxt r1 r2 hr (hQ it nxt hq c hs)
      refine ⟨?_, a2⟩
      intro g hg
      rcases List.mem_cons.mp hg with rfl | hg
      · exact hq
      · exact a1 g hg
    · simp only [c, if_false, Option.some.injEq, Prod.mk.injEq] at hw
      obtain ⟨rfl, rfl⟩ := hw
      exact ⟨fun g hg => by simp at hg, hq⟩

/-- A walk in `[0, H)` whose step is injective ends within `H` steps.  The
halfedges `vis` are the ones the walk has visited, `a` is the last of them and
`it` the iterator; every visited halfedge but `root`, the first, was reached
from a visited halfedge.  The walk cannot come back to `root` (`hroot`). -/
theorem ringWalk_total_aux (step : Int → Option Int) (cont : Int → Bool) (H : Nat)
    (root : Int)
    (hS1 : ∀ x : Int, 0 ≤ x → x < (H : Int) →
      ∃ y, step x = some y ∧ (cont y = true → 0 ≤ y ∧ y < (H : Int)))
    (hS2 : ∀ x x' y : Int, 0 ≤ x → x < (H : Int) → 0 ≤ x' → x' < (H : Int) →
      cont y = true → step x = some y → step x' = some y → x = x')
    (hroot : ∀ (vis : List Int) (a : Int), (∀ x ∈ vis, 0 ≤ x ∧ x < (H : Int)) → a ∈ vis →
      (∀ x ∈ vis, x ≠ root → ∃ p ∈ vis, step p = some x) → step a = some root →
      cont root = true → False) :
    ∀ (fuel : Nat) (vis : List Int) (a it : Int),
      vis.Nodup → (∀ x ∈ vis, 0 ≤ x ∧ x < (H : Int)) → a ∈ vis →
      (∀ x ∈ vis, x ≠ root → ∃ p ∈ vis, p ≠ a ∧ step p = some x) →
      step a = some it → H ≤ vis.length + fuel →
      ∃ r, ringWalk step cont fuel it = some r ∧ ∀ g ∈ r.1, 0 ≤ g ∧ g < (H : Int) := by
  intro fuel
  induction fuel with
  | zero =>
    intro vis a it hn hr ha hp hs hf
    unfold ringWalk
    by_cases c : cont it = true
    · exfalso
      obtain ⟨y, hy, hyr⟩ := hS1 a (hr a ha).1 (hr a ha).2
      rw [hs] at hy
      have := Option.some.inj hy
      subst this
      have hnin : it ∉ vis := by
        intro hin
        by_cases e : it = root
        · subst e
          exact hroot vis a hr ha
            (fun x hx hxr => by
              obtain ⟨p, p1, _, p3⟩ := hp x hx hxr
              exact ⟨p, p1, p3⟩) hs c
        · obtain ⟨p, p1, p2, p3⟩ := hp it hin e
          exact p2 (hS2 p a it (hr p p1).1 (hr p p1).2 (hr a ha).1 (hr a ha).2 c p3 hs)
      have hl := nodup_range_length (it :: vis) H (List.nodup_cons.mpr ⟨hnin, hn⟩)
        (by
          intro x hx
          rcases List.mem_cons.mp hx with rfl | hx
          · exact hyr c
          · exact hr x hx)
      rw [List.length_cons] at hl
      omega
    · simp only [c, if_false]
      exact ⟨_, rfl, fun g hg => by simp at hg⟩
  | succ n ih =>
    intro vis a it hn hr ha hp hs hf
    unfold ringWalk
    by_cases c : cont it = true
    · obtain ⟨y, hy, hyr⟩ := hS1 a (hr a ha).1 (hr a ha).2
      rw [hs] at hy
      have := Option.some.inj hy
      subst this
      have hit := hyr c
      have hnin : it ∉ vis := by
        intro hin
        by_cases e : it = root
        · subst e
          exact hroot vis a hr ha
            (fun x hx hxr => by
              obtain ⟨p, p1, _, p3⟩ := hp x hx hxr
              exact ⟨p, p1, p3⟩) hs c
        · obtain ⟨p, p1, p2, p3⟩ := hp it hin e
          exact p2 (hS2 p a it (hr p p1).1 (hr p p1).2 (hr a ha).1 (hr a ha).2 c p3 hs)
      obtain ⟨nxt, hnx, _⟩ := hS1 it hit.1 hit.2
      obtain ⟨r, hr1, hr2⟩ := ih (it :: vis) it nxt (List.nodup_cons.mpr ⟨hnin, hn⟩)
        (by
          intro x hx
          rcases List.mem_cons.mp hx with rfl | hx
          · exact hit
          · exact hr x hx)
        (List.mem_cons_self _ _)
        (by
          intro x hx hxr
          rcases List.mem_cons.mp hx with rfl | hx
          · refine ⟨a, List.mem_cons_of_mem _ ha, ?_, hs⟩
            intro e
            exact hnin (e ▸ ha)
          · obtain ⟨p, p1, _, p3⟩ := hp x hx hxr
            refine ⟨p, List.mem_cons_of_mem _ p1, ?_, p3⟩
            intro e
            exact hnin (e ▸ p1))
        hnx (by rw [List.length_cons]; omega)
      simp only [c, if_true, hnx, Option.some_bind, hr1, Option.map_some']
      refine ⟨_, rfl, ?_⟩
      intro g hg
      rcases List.mem_cons.mp hg with rfl | hg
      · exact hit
      · exact hr2 g hg
    · simp only [c, if_false]
      exact ⟨_, rfl, fun g hg => by simp at hg⟩

/-- A walk from the successor of `h` that stops at `h`, in `[0, H)`, with an
injective step, ends within `H` steps. -/
theorem ringWalk_total (step : Int → Option Int) (cont : Int → Bool) (H : Nat) (h : Int)
    (h0 : 0 ≤ h) (h1 : h < (H : Int)) (hc : cont h = false)
    (hS1 : ∀ x : Int, 0 ≤ x → x < (H : Int) →
      ∃ y, step x = some y ∧ (cont y = true → 0 ≤ y ∧ y < (H : Int)))
    (hS2 : ∀ x x' y : Int, 0 ≤ x → x < (H : Int) → 0 ≤ x' → x' < (H : Int) →
      cont y = true → step x = some y → step x' = some y → x = x')
    (fuel : Nat) (hf : H ≤ fuel + 1) (start : Int) (hs : step h = some start) :
    ∃ r, ringWalk step cont fuel start = some r ∧ ∀ g ∈ r.1, 0 ≤ g ∧ g < (H : Int) := by
  apply ringWalk_total_aux step cont H h hS1 hS2
    (fun _ _ _ _ _ _ hch => by rw [hc] at hch; exact Bool.false_ne_true hch) fuel [h] h start
    (List.nodup_singleton h)
  · intro x hx
    rw [List.mem_singleton] at hx
    subst hx
    exact ⟨h0, h1⟩
  · exact List.mem_singleton_self h
  · intro x hx hxr
    rw [List.mem_singleton] at hx
    exact absurd hx hxr
  · exact hs
  · rw [List.length_singleton]
    omega

/-! ### The rotations around a vertex are injective -/

theorem Parent.Valid.forward_inj {P : Parent} (hv : P.Valid) (x x' y : Int)
    (x0 : 0 ≤ x) (x1 : x < P.H) (y0 : 0 ≤ x') (y1 : x' < P.H) (hy : 0 ≤ y)
    (e1 : P.twin (P.prev x) = y) (e2 : P.twin (P.prev x') = y) : x = x' := by
  obtain ⟨a0, a1⟩ := hv.prev_range x x0 x1
  obtain ⟨b0, b1⟩ := hv.prev_range x' y0 y1
  have t1 := hv.twin_twin (P.prev x) a0 a1 (by rw [e1]; exact hy)
  have t2 := hv.twin_twin (P.prev x') b0 b1 (by rw [e2]; exact hy)
  rw [e1] at t1
  rw [e2] at t2
  have hp : P.prev x = P.prev x' := t1.symm.trans t2
  have n1 := hv.next_prev x x0 x1
  have n2 := hv.next_prev x' y0 y1
  rw [hp] at n1
  exact n1.symm.trans n2

theorem Parent.Valid.backward_inj {P : Parent} (hv : P.Valid) (x x' y : Int)
    (x0 : 0 ≤ x) (x1 : x < P.H) (y0 : 0 ≤ x') (y1 : x' < P.H) (hy : 0 ≤ y)
    (e1 : P.twin (P.next x) = y) (e2 : P.twin (P.next x') = y) : x = x' := by
  obtain ⟨a0, a1⟩ := hv.next_range x x0 x1
  obtain ⟨b0, b1⟩ := hv.next_range x' y0 y1
  have t1 := hv.twin_twin (P.next x) a0 a1 (by rw [e1]; exact hy)
  have t2 := hv.twin_twin (P.next x') b0 b1 (by rw [e2]; exact hy)
  rw [e1] at t1
  rw [e2] at t2
  have hp : P.next x = P.next x' := t1.symm.trans t2
  have n1 := hv.prev_next x x0 x1
  have n2 := hv.prev_next x' y0 y1
  rw [hp] at n1
  exact n1.symm.trans n2

theorem Parent.Valid.next_inj {P : Parent} (hv : P.Valid) (x x' : Int)
    (x0 : 0 ≤ x) (x1 : x < P.H) (y0 : 0 ≤ x') (y1 : x' < P.H)
    (e : P.next x = P.next x') : x = x' := by
  have n1 := hv.prev_next x x0 x1
  have n2 := hv.prev_next x' y0 y1
  rw [e] at n1
  exact n1.symm.trans n2

theorem readAt_isSome {α : Type} (xs : List α) (i : Int) (h0 : 0 ≤ i)
    (h1 : i < (xs.length : Int)) : (readAt xs i).isSome = true := by
  have h2 : i.toNat < xs.length := by omega
  simp [readAt, h0, List.getElem?_eq_getElem h2]

/-! ### The invariants of the cage -/

/-- The tables of the cage give a halfedge of the cage for every vertex, every
edge and every face. -/
def ccm_TablesInBounds (cage : cc_Mesh) : Prop :=
  (∀ v : Nat, v < ccm_VertexCount cage → ∃ h ∈ ccm_VertexToHalfedgeID cage v,
    0 ≤ h ∧ h < (ccm_HalfedgeCount cage : Int)) ∧
  (∀ e : Nat, e < ccm_EdgeCount cage → ∃ h ∈ ccm_EdgeToHalfedgeID cage e,
    0 ≤ h ∧ h < (ccm_HalfedgeCount cage : Int)) ∧
  (∀ f : Nat, f < ccm_FaceCount cage → ∃ h ∈ ccm_FaceToHalfedgeID cage f,
    0 ≤ h ∧ h < (ccm_HalfedgeCount cage : Int))

instance (cage : cc_Mesh) : Decidable (ccm_TablesInBounds cage) := by
  unfold ccm_TablesInBounds
  infer_instance

/-- The invariants of the data model on the cage: `next` and `prev` are inverse
of each other, the twin of a halfedge that has one is another halfedge, on the
same edge, whose twin is the halfedge; every halfedge has its vertex, its face
and its edge in range, and every vertex, face and edge has a halfedge; every
edge has a crease record, whose links are edges; every vertex has a position;
the tables of the cage give halfedges of the cage. -/
def ccm_Valid (cage : cc_Mesh) : Prop :=
  ccm_NextPrevInvariant cage ∧ ccm_TwinInvariant cage ∧ ccm_TwinIrreflexive cage ∧
  ccm_Covered cage ∧ ccs_CreaseLinksInBounds cage.creases (ccm_EdgeCount cage) ∧
  ccm_VertexCount cage ≤ cage.vertexPoints.length ∧ ccm_TablesInBounds cage

instance (cage : cc_Mesh) : Decidable (ccm_Valid cage) := by
  unfold ccm_Valid
  infer_instance

/-- The identifiers a halfedge of a covered cage carries are in range. -/
theorem cage_ids_range (cage : cc_Mesh) (hc : ccm_Covered cage) (h : Int) (h0 : 0 ≤ h)
    (h1 : h < (ccm_HalfedgeCount cage : Int)) :
    (0 ≤ (cageParent cage).vertex h ∧ (cageParent cage).vertex h < (ccm_VertexCount cage : Int)) ∧
    (0 ≤ (cageParent cage).face h ∧ (cageParent cage).face h < (ccm_FaceCount cage : Int)) ∧
    (0 ≤ (cageParent cage).edge h ∧ (cageParent cage).edge h < (ccm_EdgeCount cage : Int)) := by
  have hh : h.toNat < cage.halfedges.length := by
    unfold ccm_HalfedgeCount at h1
    omega
  have hmem : cage.halfedges.getD h.toNat default ∈ cage.halfedges := by
    rw [List.getD_eq_getElem?_getD, List.getElem?_eq_getElem hh]
    exact List.getElem_mem _
  obtain ⟨a, b, c, d, e, f⟩ := hc.1 _ hmem
  exact ⟨⟨a, b⟩, ⟨c, d⟩, ⟨e, f⟩⟩

theorem cage_forward_eq (cage : cc_Mesh) (hv : (cageParent cage).Valid) (x : Int)
    (x0 : 0 ≤ x) (x1 : x < (ccm_HalfedgeCount cage : Int)) :
    ccm_PrevVertexHalfedgeID cage x
      = some ((cageParent cage).twin ((cageParent cage).prev x)) := by
  obtain ⟨a, b⟩ := hv.prev_range x x0 x1
  unfold ccm_PrevVertexHalfedgeID
  rw [cage_prev_eq cage x x0 x1, Option.some_bind, cage_twin_eq cage _ a b]

/-- The position of the vertex of a halfedge of a valid cage can be read. -/
theorem cage_vertexPoint_isSome (cage : cc_Mesh) (hc : ccm_Covered cage)
    (hp : ccm_VertexCount cage ≤ cage.vertexPoints.length) (h : Int) (h0 : 0 ≤ h)
    (h1 : h < (ccm_HalfedgeCount cage : Int)) :
    (ccm_HalfedgeVertexPoint cage h).isSome = true := by
  obtain ⟨⟨a, b⟩, _, _⟩ := cage_ids_range cage hc h h0 h1
  unfold ccm_HalfedgeVertexPoint ccm_VertexPoint
  rw [cage_vertex_eq cage h h0 h1, Option.some_bind]
  exact readAt_isSome _ _ a (by omega)

/-- A halfedge of a valid cage can be read in a walk around a vertex. -/
theorem cage_halfedge_creaseReadable (cage : cc_Mesh) (hc : ccm_Covered cage)
    (hw : ccs_CreaseLinksInBounds cage.creases (ccm_EdgeCount cage)) (h : Int) (h0 : 0 ≤ h)
    (h1 : h < (ccm_HalfedgeCount cage : Int)) : ccm_HalfedgeCreaseReadable cage h := by
  obtain ⟨_, ⟨c, d⟩, ⟨e, f⟩⟩ := cage_ids_range cage hc h h0 h1
  refine ⟨⟨⟨_, Option.mem_def.mpr (cage_edge_eq cage h h0 h1), e, f⟩,
    ⟨_, Option.mem_def.mpr (cage_face_eq cage h h0 h1), c, d⟩⟩, ?_⟩
  unfold ccm_HalfedgeSharpness ccm_CreaseSharpness
  rw [cage_edge_eq cage h h0 h1, Option.some_bind, Option.isSome_map']
  exact readAt_isSome _ _ e (by have := hw.1; omega)

/-- On a valid cage the walk around the vertex of a halfedge exits within `H0`
steps, and its halfedges are halfedges of the cage. -/
theorem ccm_VertexRing_total (cage : cc_Mesh) (hv : (cageParent cage).Valid) (fuel : Nat)
    (hf : ccm_HalfedgeCount cage ≤ fuel + 1) (h : Int) (h0 : 0 ≤ h)
    (h1 : h < (ccm_HalfedgeCount cage : Int)) :
    ∃ r, ccm_VertexRing cage fuel h = some r ∧
      ∀ g ∈ r.1, 0 ≤ g ∧ g < (ccm_HalfedgeCount cage : Int) := by
  obtain ⟨r, hr1, hr2⟩ := ringWalk_total (ccm_PrevVertexHalfedgeID cage)
    (fun iterator => decide (iterator ≥ 0) && decide (iterator ≠ h)) (ccm_HalfedgeCount cage)
    h h0 h1 (by simp)
    (fun x x0 x1 => ⟨_, cage_forward_eq cage hv x x0 x1, fun c => by
      simp only [Bool.and_eq_true, decide_eq_true_eq] at c
      exact ⟨c.1, hv.twin_lt _ (hv.prev_range x x0 x1).1 (hv.prev_range x x0 x1).2⟩⟩)
    (fun x x' y x0 x1 y0 y1 c e1 e2 => by
      simp only [Bool.and_eq_true, decide_eq_true_eq] at c
      rw [cage_forward_eq cage hv x x0 x1] at e1
      rw [cage_forward_eq cage hv x' y0 y1] at e2
      exact hv.forward_inj x x' y x0 x1 y0 y1 c.1 (Option.some.inj e1) (Option.some.inj e2))
    fuel hf _ (cage_forward_eq cage hv h h0 h1)
  refine ⟨(h :: r.1, r.2), ?_, ?_⟩
  · unfold ccm_VertexRing
    rw [cage_forward_eq cage hv h h0 h1]
    simp only [Option.bind_eq_bind, Option.some_bind, hr1]
  · intro g hg
    rcases List.mem_cons.mp hg with rfl | hg
    · exact ⟨h0, h1⟩
    · exact hr2 g hg

/-- On a valid cage the next-ring of a halfedge closes within `H0` steps, and
its halfedges are halfedges of the cage. -/
theorem ccm_HalfedgeRing_total (cage : cc_Mesh) (hv : (cageParent cage).Valid) (fuel : Nat)
    (hf : ccm_HalfedgeCount cage ≤ fuel + 1) (h : Int) (h0 : 0 ≤ h)
    (h1 : h < (ccm_HalfedgeCount cage : Int)) :
    ∃ r, ccm_HalfedgeRing cage fuel h = some r ∧
      ∀ g ∈ r, 0 ≤ g ∧ g < (ccm_HalfedgeCount cage : Int) := by
  obtain ⟨r, hr1, hr2⟩ := ringWalk_total (ccm_HalfedgeNextID cage)
    (fun halfedgeIt => decide (halfedgeIt ≠ h)) (ccm_HalfedgeCount cage)
    h h0 h1 (by simp)
    (fun x x0 x1 => ⟨_, cage_next_eq cage x x0 x1, fun _ => hv.next_range x x0 x1⟩)
    (fun x x' y x0 x1 y0 y1 _ e1 e2 => by
      rw [cage_next_eq cage x x0 x1] at e1
      rw [cage_next_eq cage x' y0 y1] at e2
      exact hv.next_inj x x' x0 x1 y0 y1
        ((Option.some.inj e1).trans (Option.some.inj e2).symm))
    fuel hf _ (cage_next_eq cage h h0 h1)
  refine ⟨h :: r.1, ?_, ?_⟩
  · unfold ccm_HalfedgeRing
    rw [cage_next_eq cage h h0 h1]
    simp only [Option.bind_eq_bind, Option.some_bind, hr1]
  · intro g hg
    rcases List.mem_cons.mp hg with rfl | hg
    · exact ⟨h0, h1⟩
    · exact hr2 g hg

/-- The reads of `ccs__CageFacePoints_Gather` on a valid cage are in bounds. -/
theorem ccm_Valid.faceRingsReadable {cage : cc_Mesh} (hv : ccm_Valid cage) (fuel : Nat)
    (hf : ccm_HalfedgeCount cage ≤ fuel + 1) : ccm_FaceRingsReadable cage fuel := by
  obtain ⟨hnp, htw, _, hc, _, hp, _, _, ht⟩ := hv
  have hP := cageParent_valid cage hnp htw
  intro f hf'
  obtain ⟨h, hh, h0, h1⟩ := ht f hf'
  obtain ⟨r, hr1, hr2⟩ := ccm_HalfedgeRing_total cage hP fuel hf h h0 h1
  refine ⟨r, ?_, fun g hg => cage_vertexPoint_isSome cage hc hp g (hr2 g hg).1 (hr2 g hg).2⟩
  unfold ccm_FaceRing
  rw [Option.mem_def.mp hh, Option.some_bind]
  exact Option.mem_def.mpr hr1

/-- The reads of `ccs__CreasedCageEdgePoints_Gather` on a valid cage are in
bounds. -/
theorem ccm_Valid.creasedEdgeReadsInBounds {cage : cc_Mesh} (hv : ccm_Valid cage) :
    ccm_CreasedEdgeReadsInBounds cage := by
  obtain ⟨hnp, htw, _, hc, hw, hp, _, ht, _⟩ := hv
  have hP := cageParent_valid cage hnp htw
  intro e he
  obtain ⟨h, hh, h0, h1⟩ := ht e he
  have hn := hP.next_range h h0 h1
  have ht1 := hP.twin_lt h h0 h1
  have hm0 : 0 ≤ cc__Max 0 ((cageParent cage).twin h) := by unfold cc__Max; exact le_max_left _ _
  have hm1 : cc__Max 0 ((cageParent cage).twin h) < (ccm_HalfedgeCount cage : Int) := by
    unfold cc__Max
    have : (0 : Int) < (ccm_HalfedgeCount cage : Int) := by omega
    exact max_lt this ht1
  refine ⟨⟨h, hh, _, Option.mem_def.mpr (cage_twin_eq cage h h0 h1), _,
    Option.mem_def.mpr (cage_next_eq cage h h0 h1),
    ⟨cage_vertexPoint_isSome cage hc hp h h0 h1,
      cage_vertexPoint_isSome cage hc hp _ hn.1 hn.2⟩,
    ⟨_, Option.mem_def.mpr (cage_face_eq cage h h0 h1), (cage_ids_range cage hc h h0 h1).2.1⟩,
    ⟨_, Option.mem_def.mpr (cage_face_eq cage _ hm0 hm1),
      (cage_ids_range cage hc _ hm0 hm1).2.1⟩⟩, ?_⟩
  unfold ccm_CreaseSharpness
  rw [Option.isSome_map']
  exact readAt_isSome _ _ (by omega) (by have := hw.1; omega)

/-- The reads of `ccs__CreasedCageVertexPoints_Gather` on a valid cage are in
bounds, and its walks around the vertices exit. -/
theorem ccm_Valid.creasedVertexRingsReadable {cage : cc_Mesh} (hv : ccm_Valid cage)
    (fuel : Nat) (hf : ccm_HalfedgeCount cage ≤ fuel + 1) :
    ccm_CreasedVertexRingsReadable cage fuel := by
  obtain ⟨hnp, htw, _, hc, hw, hp, ht, _, _⟩ := hv
  have hP := cageParent_valid cage hnp htw
  intro v hv'
  obtain ⟨h, hh, h0, h1⟩ := ht v hv'
  obtain ⟨r, hr1, hr2⟩ := ccm_VertexRing_total cage hP fuel hf h h0 h1
  refine ⟨?_, h, hh, cage_halfedge_creaseReadable cage hc hw h h0 h1, r,
    Option.mem_def.mpr hr1, ?_⟩
  · unfold ccm_VertexPoint
    exact readAt_isSome _ _ (by omega) (by omega)
  · intro g hg
    obtain ⟨g0, g1⟩ := hr2 g hg
    obtain ⟨p0, p1⟩ := hP.prev_range g g0 g1
    exact ⟨_, Option.mem_def.mpr (cage_prev_eq cage g g0 g1),
      cage_halfedge_creaseReadable cage hc hw _ p0 p1⟩

/-! ### The levels of a refined subdivision -/

/-- The level `depth` of the subdivision can be read by the kernels: its
halfedges are a valid level, every edge has a crease record and every vertex a
position. -/
structure ccs_LevelSound (u : cc_Subd) (depth : Nat) : Prop where
  halfedges : ∃ l, ccs__Level u.halfedges depth = some l ∧ ccs_ValidLevel u.cage depth l
  creases : ∃ l, ccs__Level u.creases depth = some l ∧
    ccm_EdgeCountAtDepth_Fast u.cage depth ≤ l.length
  points : ∃ l, ccs__Level u.vertexPoints depth = some l ∧
    ccm_VertexCountAtDepth_Fast u.cage depth ≤ l.length

theorem ringWalk_stop (step : Int → Option Int) (cont : Int → Bool) (fuel : Nat) (it : Int)
    (hc : cont it = false) : ringWalk step cont fuel it = some ([], it) := by
  unfold ringWalk
  simp [hc]

theorem ringWalk_step (step : Int → Option Int) (cont : Int → Bool) (fuel : Nat) (it : Int)
    (hc : cont it = true) :
    ringWalk step cont (fuel + 1) it =
      (step it).bind (fun nxt => (ringWalk step cont fuel nxt).map (fun r => (it :: r.1, r.2))) := by
  rw [ringWalk]
  simp [hc]

/-- The reads of a halfedge of a sound level. -/
theorem ccs_LevelSound.reads {u : cc_Subd} {depth : Nat} (hs : ccs_LevelSound u depth) :
    1 ≤ depth ∧ ∃ l, ccs__Level u.halfedges depth = some l ∧
      l.length = ccm_HalfedgeCountAtDepth u.cage depth ∧
      (levelParent u.cage depth l).Valid ∧
      ∀ h : Int, 0 ≤ h → h < (ccm_HalfedgeCountAtDepth u.cage depth : Int) →
        ccs_HalfedgeCreaseReadable u depth h ∧
        (ccs_HalfedgeVertexPoint u h depth).isSome = true := by
  obtain ⟨l, hl, hlen, htw, _, hvx, hex⟩ := hs.halfedges
  obtain ⟨cr, hcr, hcl⟩ := hs.creases
  obtain ⟨pts, hpts, hpl⟩ := hs.points
  have hd := ccs__Level_depth_pos _ _ _ hl
  refine ⟨hd, l, hl, hlen, levelParent_valid u.cage depth hd l hlen htw, ?_⟩
  intro h h0 h1
  have h1' : h < (l.length : Int) := by rw [hlen]; exact h1
  have hlt : h.toNat < l.length := by omega
  have hr : l[h.toNat]? = some (l.getD h.toNat default) := by
    simp [List.getD_eq_getElem?_getD, List.getElem?_eq_getElem hlt]
  obtain ⟨e0, e1⟩ := hex.1 h.toNat (by omega) _ hr
  obtain ⟨v0, v1⟩ := hvx.1 h.toNat (by omega) _ hr
  have hF := ccm_HalfedgeCountAtDepth_eq_faces u.cage depth hd
  refine ⟨⟨⟨⟨_, Option.mem_def.mpr (level_edge_eq u depth l hl h h0 h1'), e0, e1⟩, ?_⟩, ?_⟩, ?_⟩
  · unfold ccs_HalfedgeFaceID ccm_HalfedgeFaceID_Quad
    omega
  · unfold ccs_HalfedgeSharpness ccs_CreaseSharpness
    rw [level_edge_eq u depth l hl h h0 h1', Option.some_bind, hcr]
    simp only [Option.bind_eq_bind, Option.some_bind, Option.isSome_map']
    exact readAt_isSome _ _ e0 (by
      show (l.getD h.toNat default).edgeID < (cr.length : Int)
      omega)
  · unfold ccs_HalfedgeVertexPoint ccs_VertexPoint
    rw [level_vertex_eq u depth l hl h h0 h1', Option.some_bind, hpts]
    simp only [Option.bind_eq_bind, Option.some_bind]
    exact readAt_isSome _ _ v0 (by
      show (l.getD h.toNat default).vertexID < (pts.length : Int)
      omega)

theorem level_forward_eq (u : cc_Subd) (depth : Nat) (l : List cc_Halfedge_SemiRegular)
    (hl : ccs__Level u.halfedges depth = some l)
    (hlen : l.length = ccm_HalfedgeCountAtDepth u.cage depth)
    (hv : (levelParent u.cage depth l).Valid) (x : Int) (x0 : 0 ≤ x)
    (x1 : x < (ccm_HalfedgeCountAtDepth u.cage depth : Int)) :
    ccs_PrevVertexHalfedgeID u x depth
      = some ((levelParent u.cage depth l).twin ((levelParent u.cage depth l).prev x)) := by
  obtain ⟨a, b⟩ := hv.prev_range x x0 x1
  unfold ccs_PrevVertexHalfedgeID ccs_HalfedgePrevID
  exact level_twin_eq u depth l hl _ a (by rw [hlen]; exact b)

theorem level_backward_eq (u : cc_Subd) (depth : Nat) (l : List cc_Halfedge_SemiRegular)
    (hl : ccs__Level u.halfedges depth = some l)
    (hlen : l.length = ccm_HalfedgeCountAtDepth u.cage depth)
    (hv : (levelParent u.cage depth l).Valid) (x : Int) (x0 : 0 ≤ x)
    (x1 : x < (ccm_HalfedgeCountAtDepth u.cage depth : Int)) :
    ccs_HalfedgeTwinID u (ccs_HalfedgeNextID u x depth) depth
      = some ((levelParent u.cage depth l).twin ((levelParent u.cage depth l).next x)) := by
  obtain ⟨a, b⟩ := hv.next_range x x0 x1
  unfold ccs_HalfedgeNextID
  exact level_twin_eq u depth l hl _ a (by rw [hlen]; exact b)

/-- On a sound level the first walk around the vertex of a halfedge exits within
`H_depth` steps, and its halfedges are halfedges of the level. -/
theorem ccs_VertexRing_total (u : cc_Subd) (depth : Nat) (l : List cc_Halfedge_SemiRegular)
    (hl : ccs__Level u.halfedges depth = some l)
    (hlen : l.length = ccm_HalfedgeCountAtDepth u.cage depth)
    (hv : (levelParent u.cage depth l).Valid) (fuel : Nat)
    (hf : ccm_HalfedgeCountAtDepth u.cage depth ≤ fuel + 1) (h : Int) (h0 : 0 ≤ h)
    (h1 : h < (ccm_HalfedgeCountAtDepth u.cage depth : Int)) :
    ∃ r, ccs_VertexRing u depth fuel h = some r ∧
      ∀ g ∈ r.1, 0 ≤ g ∧ g < (ccm_HalfedgeCountAtDepth u.cage depth : Int) := by
  obtain ⟨r, hr1, hr2⟩ := ringWalk_total (fun iterator => ccs_PrevVertexHalfedgeID u iterator depth)
    (fun iterator => decide (iterator ≥ 0) && decide (iterator ≠ h))
    (ccm_HalfedgeCountAtDepth u.cage depth) h h0 h1 (by simp)
    (fun x x0 x1 => ⟨_, level_forward_eq u depth l hl hlen hv x x0 x1, fun c => by
      simp only [Bool.and_eq_true, decide_eq_true_eq] at c
      exact ⟨c.1, hv.twin_lt _ (hv.prev_range x x0 x1).1 (hv.prev_range x x0 x1).2⟩⟩)
    (fun x x' y x0 x1 y0 y1 c e1 e2 => by
      simp only [Bool.and_eq_true, decide_eq_true_eq] at c
      beta_reduce at e1 e2
      rw [level_forward_eq u depth l hl hlen hv x x0 x1] at e1
      rw [level_forward_eq u depth l hl hlen hv x' y0 y1] at e2
      exact hv.forward_inj x x' y x0 x1 y0 y1 c.1 (Option.some.inj e1) (Option.some.inj e2))
    fuel hf _ (level_forward_eq u depth l hl hlen hv h h0 h1)
  refine ⟨(h :: r.1, r.2), ?_, ?_⟩
  · unfold ccs_VertexRing
    rw [level_forward_eq u depth l hl hlen hv h h0 h1]
    simp only [Option.bind_eq_bind, Option.some_bind, hr1]
  · intro g hg
    rcases List.mem_cons.mp hg with rfl | hg
    · exact ⟨h0, h1⟩
    · exact hr2 g hg

/-- On a sound level the second walk around the vertex of a halfedge, taken when
the first walk has left the mesh, exits within `H_depth` steps: it cannot come
back to its start, since the first walk would then have come back to the
halfedge. -/
theorem ccs_VertexRingBackward_total (u : cc_Subd) (depth : Nat)
    (l : List cc_Halfedge_SemiRegular) (hl : ccs__Level u.halfedges depth = some l)
    (hlen : l.length = ccm_HalfedgeCountAtDepth u.cage depth)
    (hv : (levelParent u.cage depth l).Valid) (fuel : Nat)
    (hf : ccm_HalfedgeCountAtDepth u.cage depth ≤ fuel) (h : Int) (h0 : 0 ≤ h)
    (h1 : h < (ccm_HalfedgeCountAtDepth u.cage depth : Int)) (ring : List Int) (last : Int)
    (hfw : ccs_VertexRing u depth fuel h = some (ring, last)) :
    ∃ back, ccs_VertexRingBackward u depth fuel h last = some back ∧
      ∀ g ∈ back, 0 ≤ g ∧ g < (ccm_HalfedgeCountAtDepth u.cage depth : Int) := by
  have hPH : ((levelParent u.cage depth l).H : Int)
      = (ccm_HalfedgeCountAtDepth u.cage depth : Int) := rfl
  have ht := level_twin_eq u depth l hl h h0 (by rw [hlen]; exact h1)
  unfold ccs_VertexRingBackward
  rw [ht]
  simp only [Option.bind_eq_bind, Option.some_bind]
  generalize hcont : (fun backwardIterator : Int => decide (last < 0)
    && decide (backwardIterator ≥ 0) && decide (backwardIterator ≠ h)) = cont
  generalize hstep : (fun backwardIterator : Int =>
    ccs_HalfedgeTwinID u (ccs_HalfedgeNextID u backwardIterator depth) depth) = step
  have hstepeq : ∀ x : Int, 0 ≤ x → x < (ccm_HalfedgeCountAtDepth u.cage depth : Int) →
      step x = some ((levelParent u.cage depth l).twin ((levelParent u.cage depth l).next x)) := by
    intro x x0 x1
    rw [← hstep]
    exact level_backward_eq u depth l hl hlen hv x x0 x1
  have hcontE : ∀ b : Int, cont b = true → last < 0 ∧ 0 ≤ b ∧ b ≠ h := by
    intro b hb
    rw [← hcont] at hb
    simp only [Bool.and_eq_true, decide_eq_true_eq] at hb
    exact ⟨hb.1.1, hb.1.2, hb.2⟩
  suffices hw : ∃ r, ringWalk step cont fuel ((levelParent u.cage depth l).twin h) = some r ∧
      ∀ g ∈ r.1, 0 ≤ g ∧ g < (ccm_HalfedgeCountAtDepth u.cage depth : Int) by
    obtain ⟨r, hr1, hr2⟩ := hw
    rw [hr1]
    exact ⟨r.1, rfl, hr2⟩
  by_cases c : cont ((levelParent u.cage depth l).twin h) = true
  · obtain ⟨hl0, t0, tne⟩ := hcontE _ c
    have t1 := hv.twin_lt h h0 h1
    have htt := hv.twin_twin h h0 h1 t0
    cases fuel with
    | zero => omega
    | succ n =>
      obtain ⟨r, hr1, hr2⟩ := ringWalk_total_aux step cont (ccm_HalfedgeCountAtDepth u.cage depth)
        ((levelParent u.cage depth l).twin h)
        (fun x x0 x1 => ⟨_, hstepeq x x0 x1, fun cy =>
          ⟨(hcontE _ cy).2.1, hv.twin_lt _ (hv.next_range x x0 x1).1 (hv.next_range x x0 x1).2⟩⟩)
        (fun x x' y x0 x1 y0 y1 cy e1 e2 => by
          rw [hstepeq x x0 x1] at e1
          rw [hstepeq x' y0 y1] at e2
          exact hv.backward_inj x x' y x0 x1 y0 y1 (hcontE _ cy).2.1 (Option.some.inj e1)
            (Option.some.inj e2))
        (by
          intro vis a hvis ha hpred hsa _
          obtain ⟨a0, a1⟩ := hvis a ha
          rw [hstepeq a a0 a1] at hsa
          have hsa := Option.some.inj hsa
          obtain ⟨n0, n1⟩ := hv.next_range a a0 a1
          have hna := hv.twin_twin _ n0 n1 (by rw [hsa]; exact t0)
          rw [hsa, htt] at hna
          have hpa : (levelParent u.cage depth l).prev h = a := by
            rw [hna]
            exact hv.prev_next a a0 a1
          have key : ∀ x : Int,
              (0 ≤ x ∧ x < (ccm_HalfedgeCountAtDepth u.cage depth : Int) ∧
                (levelParent u.cage depth l).prev x ∈ vis) →
              (0 ≤ (levelParent u.cage depth l).twin ((levelParent u.cage depth l).prev x) ∧
                (levelParent u.cage depth l).twin ((levelParent u.cage depth l).prev x)
                  < (ccm_HalfedgeCountAtDepth u.cage depth : Int) ∧
                (levelParent u.cage depth l).prev
                  ((levelParent u.cage depth l).twin ((levelParent u.cage depth l).prev x))
                  ∈ vis) := by
            intro x hx
            obtain ⟨x0, x1, xm⟩ := hx
            by_cases e : (levelParent u.cage depth l).prev x = (levelParent u.cage depth l).twin h
            · rw [e, htt]
              refine ⟨h0, h1, ?_⟩
              rw [hpa]
              exact ha
            · obtain ⟨p, p1, p2⟩ := hpred _ xm e
              obtain ⟨q0, q1⟩ := hvis p p1
              rw [hstepeq p q0 q1] at p2
              have p2 := Option.some.inj p2
              obtain ⟨m0, m1⟩ := hv.next_range p q0 q1
              have hb0 := (hvis _ xm).1
              have hnp := hv.twin_twin _ m0 m1 (by rw [p2]; exact hb0)
              rw [p2] at hnp
              rw [hnp]
              refine ⟨m0, m1, ?_⟩
              rw [hv.prev_next p q0 q1]
              exact p1
          have hstart := level_forward_eq u depth l hl hlen hv h h0 h1
          unfold ccs_VertexRing at hfw
          rw [hstart] at hfw
          simp only [Option.bind_eq_bind, Option.some_bind] at hfw
          obtain ⟨r, hw, hq⟩ := Option.bind_eq_some.mp hfw
          obtain ⟨r1, r2⟩ := r
          simp only [Option.some.injEq, Prod.mk.injEq] at hq
          obtain ⟨_, rfl⟩ := hq
          have hall := ringWalk_forall (fun iterator => ccs_PrevVertexHalfedgeID u iterator depth)
            (fun iterator => decide (iterator ≥ 0) && decide (iterator ≠ h))
            (fun x => 0 ≤ x ∧ x < (ccm_HalfedgeCountAtDepth u.cage depth : Int) ∧
              (levelParent u.cage depth l).prev x ∈ vis)
            (by
              intro x b hx _ hsb
              beta_reduce at hsb
              rw [level_forward_eq u depth l hl hlen hv x hx.1 hx.2.1] at hsb
              have := Option.some.inj hsb
              subst this
              exact key x hx)
            _ _ r1 r2 hw (key h ⟨h0, h1, by rw [hpa]; exact ha⟩)
          have := hall.2.1
          omega)
        n [(levelParent u.cage depth l).twin h] ((levelParent u.cage depth l).twin h)
        ((levelParent u.cage depth l).twin ((levelParent u.cage depth l).next
          ((levelParent u.cage depth l).twin h)))
        (List.nodup_singleton _)
        (by
          intro x hx
          rw [List.mem_singleton] at hx
          subst hx
          exact ⟨t0, t1⟩)
        (List.mem_singleton_self _)
        (by
          intro x hx hxr
          rw [List.mem_singleton] at hx
          exact absurd hx hxr)
        (hstepeq _ t0 t1)
        (by rw [List.length_singleton]; omega)
      rw [ringWalk_step step cont n _ c, hstepeq _ t0 t1, Option.some_bind, hr1, Option.map_some']
      refine ⟨_, rfl, ?_⟩
      intro g hg
      rcases List.mem_cons.mp hg with rfl | hg
      · exact ⟨t0, t1⟩
      · exact hr2 g hg
  · have c' : cont ((levelParent u.cage depth l).twin h) = false := by
      simpa using c
    rw [ringWalk_stop step cont fuel _ c']
    exact ⟨_, rfl, fun g hg => by simp at hg⟩

/-! ### The reads of the level kernels -/

/-- The halfedges that `edgeToHalfedgeID` (the function
`ccs_EdgeToHalfedgeID(subd, ., .)` of the header) and `vertexToHalfedgeID_First`
return are halfedges of their level: `edgeToHalfedgeID e d` is in `[0, H_d)` for
every edge `e` of a level `1 ≤ d < maxDepth`, and `vertexToHalfedgeID_First v` is
in `[0, H_1)` for every vertex `v` of level 1. -/
def ccs_HelpersInBounds (cage : cc_Mesh) (maxDepth : Nat) (edgeToHalfedgeID : Int → Nat → Int)
    (vertexToHalfedgeID_First : Int → Int) : Prop :=
  (∀ d : Nat, d < maxDepth → 1 ≤ d → ∀ e : Nat, e < ccm_EdgeCountAtDepth_Fast cage d →
    0 ≤ edgeToHalfedgeID e d ∧ edgeToHalfedgeID e d < (ccm_HalfedgeCountAtDepth cage d : Int)) ∧
  (∀ v : Nat, v < ccm_VertexCountAtDepth_Fast cage 1 →
    0 ≤ vertexToHalfedgeID_First v ∧
    vertexToHalfedgeID_First v < (ccm_HalfedgeCountAtDepth cage 1 : Int))

instance (cage : cc_Mesh) (maxDepth : Nat) (edgeToHalfedgeID : Int → Nat → Int)
    (vertexToHalfedgeID_First : Int → Int) :
    Decidable (ccs_HelpersInBounds cage maxDepth edgeToHalfedgeID vertexToHalfedgeID_First) := by
  unfold ccs_HelpersInBounds
  infer_instance

/-- The halfedge of a vertex of level `l` is a halfedge of level `l`. -/
theorem vertexPoint_recursive_range (cage : cc_Mesh) (D : Nat) (e2h : Int → Nat → Int)
    (v2h : Int → Int) (hh : ccs_HelpersInBounds cage D e2h v2h) :
    ∀ l : Nat, 1 ≤ l → l ≤ D → ∀ v : Int, 0 ≤ v →
      v < (ccm_VertexCountAtDepth_Fast cage l : Int) →
      0 ≤ ccs_VertexPointToHalfedgeID_recursive cage e2h v2h v l ∧
      ccs_VertexPointToHalfedgeID_recursive cage e2h v2h v l
        < (ccm_HalfedgeCountAtDepth cage l : Int) := by
  intro l
  induction l with
  | zero => intro h; omega
  | succ m ih =>
    intro _ hD v v0 v1
    cases m with
    | zero =>
      unfold ccs_VertexPointToHalfedgeID_recursive
      have v1' : v < (ccm_VertexCountAtDepth_Fast cage 1 : Int) := v1
      have := hh.2 v.toNat (by omega)
      have hc : ((v.toNat : Nat) : Int) = v := by omega
      rw [hc] at this
      exact this
    | succ k =>
      have hH : ccm_HalfedgeCountAtDepth cage (k + 1 + 1)
          = 4 * ccm_HalfedgeCountAtDepth cage (k + 1) := ccm_HalfedgeCountAtDepth_succ cage (k + 1)
      have hF := ccm_HalfedgeCountAtDepth_eq_faces cage (k + 1) (by omega)
      have hV : ccm_VertexCountAtDepth_Fast cage (k + 1 + 1)
          = ccm_VertexCountAtDepth_Fast cage (k + 1) + ccm_FaceCountAtDepth_Fast cage (k + 1)
            + ccm_EdgeCountAtDepth_Fast cage (k + 1) := rfl
      unfold ccs_VertexPointToHalfedgeID_recursive
      simp only []
      split_ifs with c1 c2
      · have := hh.1 (k + 1) (by omega) (by omega)
          (v - (ccm_VertexCountAtDepth_Fast cage (k + 1) : Int)
            - (ccm_FaceCountAtDepth_Fast cage (k + 1) : Int)).toNat (by omega)
        have hc : (((v - (ccm_VertexCountAtDepth_Fast cage (k + 1) : Int)
            - (ccm_FaceCountAtDepth_Fast cage (k + 1) : Int)).toNat : Nat) : Int)
            = v - (ccm_VertexCountAtDepth_Fast cage (k + 1) : Int)
              - (ccm_FaceCountAtDepth_Fast cage (k + 1) : Int) := by omega
        rw [hc] at this
        omega
      · unfold ccm_FaceToHalfedgeID_Quad
        omega
      · have := ih (by omega) (by omega) v v0 (by omega)
        omega

/-- The loop version of `ccs_VertexPointToHalfedgeID` returns a halfedge of the
level when its loop may run for `depth - 1` iterations. -/
theorem vertexPoint_loop_range (cage : cc_Mesh) (D : Nat) (e2h : Int → Nat → Int)
    (v2h : Int → Int) (hh : ccs_HelpersInBounds cage D e2h v2h) (l fuel : Nat) (h1 : 1 ≤ l)
    (hD : l ≤ D) (hf : l ≤ fuel + 1) (v : Int) (v0 : 0 ≤ v)
    (v1 : v < (ccm_VertexCountAtDepth_Fast cage l : Int)) :
    ∃ h, ccs_VertexPointToHalfedgeID cage e2h v2h v l fuel = some h ∧ 0 ≤ h ∧
      h < (ccm_HalfedgeCountAtDepth cage l : Int) := by
  obtain ⟨a, b⟩ := vertexPoint_recursive_range cage D e2h v2h hh l h1 hD v v0 v1
  refine ⟨_, ?_, a, b⟩
  obtain ⟨d, rfl⟩ : ∃ d, l = d + 1 := ⟨l - 1, by omega⟩
  rw [ccs_VertexPointToHalfedgeID_eq,
    loop_eq_recursive cage e2h v2h v d fuel 0 none (by omega)]
  simp

/-- The reads of `ccs__FacePoints_Gather` on a sound level are in bounds. -/
theorem ccs_LevelSound.facePoints {u : cc_Subd} {depth : Nat} (hs : ccs_LevelSound u depth) :
    ∀ h : Nat, h < 4 * ccm_FaceCountAtDepth_Fast u.cage depth →
      (ccs_HalfedgeVertexPoint u h depth).isSome = true := by
  obtain ⟨hd, l, hl, hlen, hv, hr⟩ := hs.reads
  intro h hh
  have hF := ccm_HalfedgeCountAtDepth_eq_faces u.cage depth hd
  exact (hr h (by omega) (by omega)).2

/-- The reads of `ccs__CreasedEdgePoints_Gather` on a sound level are in bounds. -/
theorem ccs_LevelSound.edgeReadsInBounds {u : cc_Subd} {depth : Nat}
    (hs : ccs_LevelSound u depth) (e2h : Int → Nat → Int)
    (hE : ∀ e : Nat, e < ccm_EdgeCountAtDepth_Fast u.cage depth →
      0 ≤ e2h e depth ∧ e2h e depth < (ccm_HalfedgeCountAtDepth u.cage depth : Int)) :
    ccs_CreasedEdgeReadsInBounds u e2h depth := by
  obtain ⟨hd, l, hl, hlen, hv, hr⟩ := hs.reads
  obtain ⟨cr, hcr, hcl⟩ := hs.creases
  have hF := ccm_HalfedgeCountAtDepth_eq_faces u.cage depth hd
  constructor
  · intro e he
    obtain ⟨h0, h1⟩ := hE e he
    obtain ⟨n0, n1⟩ := hv.next_range _ h0 h1
    have t1 := hv.twin_lt _ h0 h1
    refine ⟨_, Option.mem_def.mpr (level_twin_eq u depth l hl _ h0 (by rw [hlen]; exact h1)),
      (hr _ h0 h1).2, (hr _ n0 n1).2, ?_, ?_⟩
    · unfold ccs_HalfedgeFaceID ccm_HalfedgeFaceID_Quad
      omega
    · have t1' : (levelParent u.cage depth l).twin (e2h e depth)
          < (ccm_HalfedgeCountAtDepth u.cage depth : Int) := t1
      unfold ccs_HalfedgeFaceID ccm_HalfedgeFaceID_Quad cc__Max
      rcases le_total 0 ((levelParent u.cage depth l).twin (e2h e depth)) with c | c
      · rw [max_eq_right c]
        omega
      · rw [max_eq_left c]
        omega
  · intro e he
    unfold ccs_CreaseSharpness
    rw [hcr]
    simp only [Option.bind_eq_bind, Option.some_bind, Option.isSome_map']
    exact readAt_isSome _ _ (by omega) (by omega)

/-- The reads of `ccs__CreasedVertexPoints_Gather` on a sound level are in
bounds, and its walks around the vertices exit. -/
theorem ccs_LevelSound.vertexRingsReadable {u : cc_Subd} {depth : Nat}
    (hs : ccs_LevelSound u depth) (e2h : Int → Nat → Int) (v2h : Int → Int) (fuel : Nat)
    (hf : ccm_HalfedgeCountAtDepth u.cage depth ≤ fuel)
    (hvp : ∀ v : Nat, v < ccm_VertexCountAtDepth_Fast u.cage depth →
      ∃ h, ccs_VertexPointToHalfedgeID u.cage e2h v2h v depth fuel = some h ∧ 0 ≤ h ∧
        h < (ccm_HalfedgeCountAtDepth u.cage depth : Int)) :
    ccs_CreasedVertexRingsReadable u e2h v2h depth fuel := by
  obtain ⟨hd, l, hl, hlen, hv, hr⟩ := hs.reads
  obtain ⟨pts, hpts, hpl⟩ := hs.points
  intro v hv'
  obtain ⟨h, hh, h0, h1⟩ := hvp v hv'
  obtain ⟨r, hr1, hr2⟩ := ccs_VertexRing_total u depth l hl hlen hv fuel (by omega) h h0 h1
  obtain ⟨back, hb1, hb2⟩ := ccs_VertexRingBackward_total u depth l hl hlen hv fuel hf h h0 h1
    r.1 r.2 hr1
  refine ⟨?_, h, Option.mem_def.mpr hh, (hr h h0 h1).1, r, Option.mem_def.mpr hr1, ?_, back,
    Option.mem_def.mpr hb1, ?_⟩
  · unfold ccs_VertexPoint
    rw [hpts]
    simp only [Option.bind_eq_bind, Option.some_bind]
    exact readAt_isSome _ _ (by omega) (by omega)
  · intro g hg
    obtain ⟨g0, g1⟩ := hr2 g hg
    obtain ⟨p0, p1⟩ := hv.prev_range g g0 g1
    exact (hr _ p0 p1).1
  · intro g hg
    obtain ⟨g0, g1⟩ := hb2 g hg
    obtain ⟨p0, p1⟩ := hv.next_range g g0 g1
    exact (hr _ p0 p1).1

/-! ### The vertex point kernels return -/

/-- The kernel `ccs__FacePoints_Gather` returns when the four halfedges of every
quad have a vertex with a position. -/
theorem level_face_total (subd : cc_Subd) (depth fuel : Nat) (out : List cc_VertexPoint)
    (hout : ccs__Level subd.vertexPoints (depth + 1) = some out)
    (hfuel : 0 < ccm_FaceCountAtDepth_Fast subd.cage depth → 3 ≤ fuel)
    (hlen : ccm_VertexCountAtDepth_Fast subd.cage depth + ccm_FaceCountAtDepth_Fast subd.cage depth
      ≤ out.length)
    (hr : ∀ h : Nat, h < 4 * ccm_FaceCountAtDepth_Fast subd.cage depth →
      (ccs_HalfedgeVertexPoint subd h depth).isSome = true) :
    ∃ out', ccs__FacePoints_Gather subd depth fuel =
        some { subd with vertexPoints := subd.vertexPoints.set depth out' } ∧
      out'.length = out.length := by
  obtain ⟨o, e1, e2, _, _⟩ := gather_foldlM (ccm_FaceCountAtDepth_Fast subd.cage depth)
    (ccm_VertexCountAtDepth_Fast subd.cage depth)
    (ccm_VertexCountAtDepth_Fast subd.cage depth : Int) rfl
    (fun _ (f : Nat) => ccs__FacePoints_Gather_face subd depth fuel f)
    (fun f => (ccs__FacePoints_Gather_face subd depth fuel f).getD default) out hlen
    (by
      intro o f hf _ _
      have a0 := hr (4 * f) (by omega)
      have a1 := hr (4 * f + 1) (by omega)
      have a2 := hr (4 * f + 2) (by omega)
      have a3 := hr (4 * f + 3) (by omega)
      simp only [Nat.cast_add, Nat.cast_mul, Nat.cast_ofNat, Nat.cast_one] at a0 a1 a2 a3
      beta_reduce
      rw [level_face_body subd depth fuel (hfuel (by omega)) f _ _ _ _
        (Option.eq_some_of_isSome a0) (Option.eq_some_of_isSome a1)
        (Option.eq_some_of_isSome a2) (Option.eq_some_of_isSome a3)]
      rfl)
  refine ⟨o, ?_, e2⟩
  unfold ccs__FacePoints_Gather
  simp only [hout, Option.bind_eq_bind, Option.some_bind]
  rw [e1]
  rfl

/-- The subdivision is ready for the vertex point kernels: its cage is valid,
its levels `1 ≤ d < maxDepth` can be read, the vertex points of every level
`1 .. maxDepth` have their region, the helpers return halfedges of their level,
and the loops may run for `H_maxDepth` iterations. -/
structure ccs_Ready (u : cc_Subd) (e2h : Int → Nat → Int) (v2h : Int → Int) (fuel : Nat) :
    Prop where
  cage : ccm_Valid u.cage
  points0 : ∃ out, ccs__Level u.vertexPoints 1 = some out ∧
    ccm_VertexCountAtDepth_Fast u.cage 1 ≤ out.length
  levels : ∀ d : Nat, 1 ≤ d → d < ccs_MaxDepth u → ccs_LevelSound u d ∧
    ∃ out, ccs__Level u.vertexPoints (d + 1) = some out ∧
      ccm_VertexCountAtDepth_Fast u.cage (d + 1) ≤ out.length
  helpers : ccs_HelpersInBounds u.cage (ccs_MaxDepth u) e2h v2h
  fuel_le : ccm_HalfedgeCountAtDepth u.cage (ccs_MaxDepth u) ≤ fuel

theorem ccs_LevelSound.sameShape_sound {u t : cc_Subd} (h : ccs_SameShape u t) {d : Nat}
    (ht : ccs_LevelSound t d) : ccs_LevelSound u d := by
  obtain ⟨l, hl, hlv⟩ := ht.halfedges
  obtain ⟨cr, hcr, hcl⟩ := ht.creases
  obtain ⟨pts, hpts, hpl⟩ := ht.points
  obtain ⟨ls, l1, l2⟩ := level_of_sameShape u t h d pts hpts
  refine ⟨⟨l, ?_, ?_⟩, ⟨cr, ?_, ?_⟩, ⟨ls, l1, ?_⟩⟩
  · rw [h.2.2.1]; exact hl
  · rw [h.1]; exact hlv
  · rw [h.2.2.2.1]; exact hcr
  · rw [h.1]; exact hcl
  · rw [h.1, l2]; exact hpl

theorem ccs_Ready.of_sameShape {u t : cc_Subd} (h : ccs_SameShape u t)
    {e2h : Int → Nat → Int} {v2h : Int → Int} {fuel : Nat} (ht : ccs_Ready t e2h v2h fuel) :
    ccs_Ready u e2h v2h fuel := by
  have hD : ccs_MaxDepth u = ccs_MaxDepth t := h.2.1
  refine ⟨?_, ?_, ?_, ?_, ?_⟩
  · rw [h.1]; exact ht.cage
  · obtain ⟨out, ho, hl⟩ := ht.points0
    obtain ⟨ls, l1, l2⟩ := level_of_sameShape u t h 1 out ho
    exact ⟨ls, l1, by rw [h.1, l2]; exact hl⟩
  · intro d d1 d2
    obtain ⟨a, out, ho, hl⟩ := ht.levels d d1 (by rw [← hD]; exact d2)
    obtain ⟨ls, l1, l2⟩ := level_of_sameShape u t h (d + 1) out ho
    exact ⟨a.sameShape_sound h, ls, l1, by rw [h.1, l2]; exact hl⟩
  · rw [h.1, hD]; exact ht.helpers
  · rw [h.1, hD]; exact ht.fuel_le

theorem ccm_HalfedgeCountAtDepth_mono (cage : cc_Mesh) (d D : Nat) (h : d ≤ D) :
    ccm_HalfedgeCountAtDepth cage d ≤ ccm_HalfedgeCountAtDepth cage D := by
  unfold ccm_HalfedgeCountAtDepth
  exact Nat.mul_le_mul_left _ (Nat.pow_le_pow_right (by norm_num) h)

/-- The three cage kernels return on a ready subdivision. -/
theorem ccs_Ready.cage_kernels {u : cc_Subd} {e2h : Int → Nat → Int} {v2h : Int → Int}
    {fuel : Nat} (hr : ccs_Ready u e2h v2h fuel) :
    ∃ u1 u2 u3, ccs__CageFacePoints_Gather u fuel = some u1 ∧
      ccs__CreasedCageEdgePoints_Gather u1 = some u2 ∧
      ccs__CreasedCageVertexPoints_Gather u2 fuel = some u3 ∧ ccs_SameShape u3 u := by
  have hH0 : ccm_HalfedgeCount u.cage ≤ fuel + 1 := by
    have := ccm_HalfedgeCountAtDepth_mono u.cage 0 (ccs_MaxDepth u) (Nat.zero_le _)
    have h2 := hr.fuel_le
    rw [ccm_HalfedgeCountAtDepth_zero] at this
    omega
  obtain ⟨out, ho, hlen⟩ := hr.points0
  rw [ccs__Level_succ] at ho
  have hlen' : ccm_VertexCount u.cage + ccm_FaceCount u.cage + ccm_EdgeCount u.cage
      ≤ out.length := hlen
  obtain ⟨o1, e1, l1, _⟩ := cage_face_kernel u fuel out ho (by omega)
    (hr.cage.faceRingsReadable fuel hH0)
  have sh1 := sameShape_of_set u 0 out o1 ho l1
  have hr1 := hr.of_sameShape sh1
  obtain ⟨out1, ho1, hlen1⟩ := hr1.points0
  rw [ccs__Level_succ] at ho1
  obtain ⟨o2, e2, l2, _⟩ := cage_creased_edge_kernel _ out1 ho1 hlen1
    hr1.cage.creasedEdgeReadsInBounds
  have sh2 := sameShape_of_set _ 0 out1 o2 ho1 l2
  have hr2 := hr1.of_sameShape sh2
  obtain ⟨out2, ho2, hlen2⟩ := hr2.points0
  rw [ccs__Level_succ] at ho2
  obtain ⟨o3, e3, l3, _⟩ := cage_creased_vertex_kernel _ fuel out2 ho2 hlen2
    (hr2.cage.creasedVertexRingsReadable fuel hH0)
  have sh3 := sameShape_of_set _ 0 out2 o3 ho2 l3
  exact ⟨_, _, _, e1, e2, e3, (sh3.trans sh2).trans sh1⟩

/-- The three kernels of a depth `1 ≤ depth < maxDepth` return on a ready
subdivision. -/
theorem ccs_Ready.level_kernels {u : cc_Subd} {e2h : Int → Nat → Int} {v2h : Int → Int}
    {fuel : Nat} (hr : ccs_Ready u e2h v2h fuel) (d : Nat) (d1 : 1 ≤ d)
    (d2 : d < ccs_MaxDepth u) :
    ∃ u1 u2 u3, ccs__FacePoints_Gather u d fuel = some u1 ∧
      ccs__CreasedEdgePoints_Gather u1 e2h d = some u2 ∧
      ccs__CreasedVertexPoints_Gather u2 e2h v2h d fuel = some u3 ∧ ccs_SameShape u3 u := by
  have hHd : ccm_HalfedgeCountAtDepth u.cage d ≤ fuel :=
    le_trans (ccm_HalfedgeCountAtDepth_mono u.cage d (ccs_MaxDepth u) (by omega)) hr.fuel_le
  have hF := ccm_HalfedgeCountAtDepth_eq_faces u.cage d d1
  have hV : ccm_VertexCountAtDepth_Fast u.cage (d + 1)
      = ccm_VertexCountAtDepth_Fast u.cage d + ccm_FaceCountAtDepth_Fast u.cage d
        + ccm_EdgeCountAtDepth_Fast u.cage d := rfl
  obtain ⟨hs, out, ho, hlen⟩ := hr.levels d d1 d2
  obtain ⟨o1, e1, l1⟩ := level_face_total u d fuel out ho (by omega) (by omega) hs.facePoints
  rw [ccs__Level_succ] at ho
  have sh1 := sameShape_of_set u d out o1 ho l1
  have hr1 := hr.of_sameShape sh1
  have c1 : ({ u with vertexPoints := u.vertexPoints.set d o1 } : cc_Subd).cage = u.cage := rfl
  have m1 : ccs_MaxDepth ({ u with vertexPoints := u.vertexPoints.set d o1 } : cc_Subd)
      = ccs_MaxDepth u := rfl
  obtain ⟨hs1, out1, ho1, hlen1⟩ := hr1.levels d d1 d2
  obtain ⟨o2, e2, l2, _⟩ := level_creased_edge_kernel _ e2h d out1 ho1 hlen1
    (hs1.edgeReadsInBounds e2h (hr1.helpers.1 d d2 d1))
  rw [ccs__Level_succ] at ho1
  have sh2 := sameShape_of_set _ d out1 o2 ho1 l2
  have hr2 := hr1.of_sameShape sh2
  obtain ⟨hs2, out2, ho2, hlen2⟩ := hr2.levels d d1 d2
  obtain ⟨o3, e3, l3, _⟩ := level_creased_vertex_kernel _ e2h v2h d fuel out2 ho2 hlen2
    (hs2.vertexRingsReadable e2h v2h fuel hHd (by
      intro v hv
      obtain ⟨l, _, hvl⟩ := hs2.halfedges
      obtain ⟨c, hc, _⟩ := hvl.2.2.2.1.2 v hv
      have hpos : 0 < ccm_HalfedgeCount u.cage := by
        by_contra hz
        have hz' : ccm_HalfedgeCount u.cage = 0 := by omega
        have : ccm_HalfedgeCountAtDepth u.cage d = 0 := by
          unfold ccm_HalfedgeCountAtDepth
          rw [hz', Nat.zero_mul]
        have hc' : c < ccm_HalfedgeCountAtDepth u.cage d := hc
        omega
      have hfl := hr.fuel_le
      have hpow : ccs_MaxDepth u < 4 ^ ccs_MaxDepth u := Nat.lt_pow_self (by norm_num) _
      have hge : 4 ^ ccs_MaxDepth u ≤ ccm_HalfedgeCountAtDepth u.cage (ccs_MaxDepth u) := by
        unfold ccm_HalfedgeCountAtDepth
        exact Nat.le_mul_of_pos_left _ hpos
      exact vertexPoint_loop_range _ _ e2h v2h hr2.helpers d fuel d1 (le_of_lt d2)
        (by omega) v (by omega) (by exact_mod_cast hv)))
  rw [ccs__Level_succ] at ho2
  have sh3 := sameShape_of_set _ d out2 o3 ho2 l3
  exact ⟨_, _, _, e1, e2, e3, (sh3.trans sh2).trans sh1⟩

/-- The entry point `ccs_RefineVertexPoints_Gather` returns on a ready
subdivision. -/
theorem ccs_Ready.gather_total {u : cc_Subd} {e2h : Int → Nat → Int} {v2h : Int → Int}
    {fuel : Nat} (hr : ccs_Ready u e2h v2h fuel) :
    ∃ r, ccs_RefineVertexPoints_Gather u e2h v2h fuel = some r := by
  obtain ⟨u1, u2, u3, e1, e2, e3, sh⟩ := hr.cage_kernels
  unfold ccs_RefineVertexPoints_Gather
  simp only [e1, e2, e3, Option.bind_eq_bind, Option.some_bind]
  have key : ∀ (l : List Nat) (A : cc_Subd), (∀ d ∈ l, 1 ≤ d ∧ d < ccs_MaxDepth u) →
      ccs_SameShape A u →
      ∃ B, l.foldlM (fun s depth =>
        (ccs__FacePoints_Gather s depth fuel).bind (fun s =>
          (ccs__CreasedEdgePoints_Gather s e2h depth).bind (fun s =>
            ccs__CreasedVertexPoints_Gather s e2h v2h depth fuel))) A = some B := by
    intro l
    induction l with
    | nil => intro A _ _; exact ⟨A, rfl⟩
    | cons d t ih =>
      intro A hl hA
      have hrA := hr.of_sameShape hA
      obtain ⟨d1, d2⟩ := hl d (List.mem_cons_self _ _)
      have hm : ccs_MaxDepth A = ccs_MaxDepth u := hA.2.1
      obtain ⟨a1, a2, a3, f1, f2, f3, shA⟩ := hrA.level_kernels d d1 (by rw [hm]; exact d2)
      obtain ⟨B, hB⟩ := ih a3 (fun x hx => hl x (List.mem_cons_of_mem _ hx)) (shA.trans hA)
      refine ⟨B, ?_⟩
      rw [List.foldlM_cons]
      simp only [f1, f2, f3, Option.bind_eq_bind, Option.some_bind]
      exact hB
  have hm : ccs_MaxDepth u3 = ccs_MaxDepth u := sh.2.1
  rw [hm]
  exact key _ u3 (by
    intro d hd
    rw [List.mem_range'_1] at hd
    omega) sh

/-! ### The topology kernels return -/

/-- The array has `E` crease records, and those from the record `first` on hold
links in `[0, E)`. -/
def ccs_CreaseLinksFrom (creases : List cc_Crease) (first E : Nat) : Prop :=
  E ≤ creases.length ∧
  ∀ j : Nat, j < E → first ≤ j → ∀ c ∈ creases[j]?,
    0 ≤ c.nextID ∧ c.nextID < (E : Int) ∧ 0 ≤ c.prevID ∧ c.prevID < (E : Int)

instance (creases : List cc_Crease) (first E : Nat) :
    Decidable (ccs_CreaseLinksFrom creases first E) := by
  unfold ccs_CreaseLinksFrom
  infer_instance

/-- The crease buffer of the subdivision has a region for every level
`1 .. maxDepth`; the region of level `d + 1` has `E_(d+1)` records, and those of
them that no kernel writes (the records from `2 * E_d` on) hold links that are
edges of the level. -/
def ccs_CreasesAllocated (cage : cc_Mesh) (maxDepth : Nat) (creases : List (List cc_Crease)) :
    Prop :=
  maxDepth ≤ creases.length ∧
  ∀ d : Nat, d < maxDepth → ∀ l ∈ creases[d]?,
    ccs_CreaseLinksFrom l (2 * ccm_EdgeCountAtDepth_Fast cage d)
      (ccm_EdgeCountAtDepth_Fast cage (d + 1))

instance (cage : cc_Mesh) (maxDepth : Nat) (creases : List (List cc_Crease)) :
    Decidable (ccs_CreasesAllocated cage maxDepth creases) := by
  unfold ccs_CreasesAllocated
  infer_instance

/-- The vertex point buffer of the subdivision has a region for every level
`1 .. maxDepth`, and the region of level `d + 1` has at least `V_(d+1)` slots. -/
def ccs_PointsAllocated (cage : cc_Mesh) (maxDepth : Nat)
    (vertexPoints : List (List cc_VertexPoint)) : Prop :=
  maxDepth ≤ vertexPoints.length ∧
  ∀ d : Nat, d < maxDepth → ∀ l ∈ vertexPoints[d]?,
    ccm_VertexCountAtDepth_Fast cage (d + 1) ≤ l.length

instance (cage : cc_Mesh) (maxDepth : Nat) (vertexPoints : List (List cc_VertexPoint)) :
    Decidable (ccs_PointsAllocated cage maxDepth vertexPoints) := by
  unfold ccs_PointsAllocated
  infer_instance

/-- The subdivision is constructed: the three buffers of the levels
`1 .. maxDepth` are allocated. -/
def ccs_Constructed (subd : cc_Subd) : Prop :=
  ccs_Allocated subd ∧ ccs_CreasesAllocated subd.cage (ccs_MaxDepth subd) subd.creases ∧
  ccs_PointsAllocated subd.cage (ccs_MaxDepth subd) subd.vertexPoints

instance (subd : cc_Subd) : Decidable (ccs_Constructed subd) := by
  unfold ccs_Constructed
  infer_instance

/-- The subdivision `S` is the subdivision `S0` after the crease kernels of the
depths below `k`: only the creases have changed, the buffer is still allocated,
and the links of the levels `1 .. k` are edges of their level. -/
def ccs_CreaseStage (S0 S : cc_Subd) (k : Nat) : Prop :=
  (∃ cr, S = { S0 with creases := cr }) ∧
  ccs_CreasesAllocated S0.cage (ccs_MaxDepth S0) S.creases ∧
  ∀ d : Nat, d < k → ∀ l ∈ S.creases[d]?,
    ccs_CreaseLinksInBounds l (ccm_EdgeCountAtDepth_Fast S0.cage (d + 1))

/-- The crease buffer after a kernel has written the region of level `k + 1`. -/
theorem crease_written_stage (cage : cc_Mesh) (D : Nat) (cr : List (List cc_Crease)) (k : Nat)
    (out out' : List cc_Crease) (hk : k < D) (ha : ccs_CreasesAllocated cage D cr)
    (hout : cr[k]? = some out)
    (hw : ccs_CreasesWritten (ccm_EdgeCountAtDepth_Fast cage k) out out')
    (hprev : ∀ d : Nat, d < k → ∀ l ∈ cr[d]?,
      ccs_CreaseLinksInBounds l (ccm_EdgeCountAtDepth_Fast cage (d + 1))) :
    ccs_CreasesAllocated cage D (cr.set k out') ∧
    ∀ d : Nat, d < k + 1 → ∀ l ∈ (cr.set k out')[d]?,
      ccs_CreaseLinksInBounds l (ccm_EdgeCountAtDepth_Fast cage (d + 1)) := by
  obtain ⟨hlen, hall⟩ := ha
  obtain ⟨w1, w2, w3⟩ := hw
  obtain ⟨b1, b2⟩ := hall k hk out (Option.mem_def.mpr hout)
  have hklt : k < cr.length := by omega
  have hE : ccm_EdgeCountAtDepth_Fast cage (k + 1)
      = 2 * ccm_EdgeCountAtDepth_Fast cage k + ccm_HalfedgeCountAtDepth cage k := rfl
  have hnew : ccs_CreaseLinksInBounds out' (ccm_EdgeCountAtDepth_Fast cage (k + 1)) := by
    refine ⟨by omega, ?_⟩
    intro e he c hc
    by_cases c2 : e < 2 * ccm_EdgeCountAtDepth_Fast cage k
    · obtain ⟨c', hc', _, n0, n1, p0, p1⟩ := w2 e c2
      rw [Option.mem_def, hc'] at hc
      have := Option.some.inj hc
      subst this
      refine ⟨n0, ?_, p0, ?_⟩ <;> omega
    · rw [Option.mem_def, w3 e (by omega)] at hc
      exact b2 e he (by omega) c (Option.mem_def.mpr hc)
  constructor
  · refine ⟨by rw [List.length_set]; exact hlen, ?_⟩
    intro d hd l hl
    by_cases e : d = k
    · subst e
      rw [Option.mem_def, List.getElem?_set_self hklt] at hl
      have := Option.some.inj hl
      subst this
      refine ⟨by omega, ?_⟩
      intro j hj1 hj2 c hc
      exact hnew.2 j hj1 c hc
    · rw [Option.mem_def, List.getElem?_set_ne (fun x => e x.symm)] at hl
      exact hall d hd l (Option.mem_def.mpr hl)
  · intro d hd l hl
    by_cases e : d = k
    · subst e
      rw [Option.mem_def, List.getElem?_set_self hklt] at hl
      have := Option.some.inj hl
      subst this
      exact hnew
    · rw [Option.mem_def, List.getElem?_set_ne (fun x => e x.symm)] at hl
      exact hprev d (by omega) l (Option.mem_def.mpr hl)

/-- The kernel `ccs__RefineCageCreases` returns on an allocated buffer when the
links of the cage creases are edges of the cage. -/
theorem refineCageCreases_stage (S0 : cc_Subd) (hD : 1 ≤ ccs_MaxDepth S0)
    (ha : ccs_CreasesAllocated S0.cage (ccs_MaxDepth S0) S0.creases)
    (hw : ccs_CreaseLinksInBounds S0.cage.creases (ccm_EdgeCount S0.cage)) :
    ∃ S, ccs__RefineCageCreases S0 = some S ∧ ccs_CreaseStage S0 S 1 := by
  have hlt : 0 < S0.creases.length := by have := ha.1; omega
  have hout : S0.creases[0]? = some S0.creases[0] := List.getElem?_eq_getElem hlt
  obtain ⟨b1, _⟩ := ha.2 0 hD _ (Option.mem_def.mpr hout)
  have hE : ccm_EdgeCountAtDepth_Fast S0.cage (0 + 1)
      = 2 * ccm_EdgeCount S0.cage + ccm_HalfedgeCountAtDepth S0.cage 0 := rfl
  obtain ⟨o, e1, e2⟩ := cage_crease_kernel_spec S0 _ hout hw (by omega)
  have hwr := creaseRefined_written _ _ hw _ _ e2
  obtain ⟨c1, c2⟩ := crease_written_stage S0.cage (ccs_MaxDepth S0) S0.creases 0 _ o hD ha hout
    hwr (fun d hd => absurd hd (Nat.not_lt_zero d))
  exact ⟨_, e1, ⟨_, rfl⟩, c1, c2⟩

/-- The kernel `ccs__RefineCreases` returns at a depth whose creases have links
that are edges of the level. -/
theorem refineCreases_stage (S0 S : cc_Subd) (k : Nat) (hs : ccs_CreaseStage S0 S k)
    (h1 : 1 ≤ k) (h2 : k < ccs_MaxDepth S0) :
    ∃ S', ccs__RefineCreases S k = some S' ∧ ccs_CreaseStage S0 S' (k + 1) := by
  obtain ⟨⟨cr, rfl⟩, ha, hprev⟩ := hs
  have ha' : ccs_CreasesAllocated S0.cage (ccs_MaxDepth S0) cr := ha
  have hprev' : ∀ d : Nat, d < k → ∀ l ∈ cr[d]?,
      ccs_CreaseLinksInBounds l (ccm_EdgeCountAtDepth_Fast S0.cage (d + 1)) := hprev
  have hlt : k < cr.length := by have := ha'.1; omega
  have hlt1 : k - 1 < cr.length := by omega
  have hout : cr[k]? = some cr[k] := List.getElem?_eq_getElem hlt
  have hin : cr[k - 1]? = some cr[k - 1] := List.getElem?_eq_getElem hlt1
  obtain ⟨b1, _⟩ := ha'.2 k h2 _ (Option.mem_def.mpr hout)
  have hlinks := hprev' (k - 1) (by omega) _ (Option.mem_def.mpr hin)
  have hk : k - 1 + 1 = k := by omega
  rw [hk] at hlinks
  have hE : ccm_EdgeCountAtDepth_Fast S0.cage (k + 1)
      = 2 * ccm_EdgeCountAtDepth_Fast S0.cage k + ccm_HalfedgeCountAtDepth S0.cage k := rfl
  obtain ⟨o, e1, e2⟩ := level_crease_kernel_spec { S0 with creases := cr } k cr[k - 1] cr[k]
    (by unfold ccs__Level; rw [if_pos h1]; exact hin)
    (by rw [ccs__Level_succ]; exact hout)
    hlinks
    (by
      show 2 * ccm_EdgeCountAtDepth_Fast S0.cage k ≤ cr[k].length
      omega)
  have hwr := creaseRefined_written _ _ hlinks _ _ e2
  obtain ⟨c1, c2⟩ := crease_written_stage S0.cage (ccs_MaxDepth S0) cr k _ o h2 ha' hout
    hwr hprev'
  exact ⟨_, e1, ⟨_, rfl⟩, c1, c2⟩

theorem refineCreases_fold (S0 S1 : cc_Subd) (hs : ccs_CreaseStage S0 S1 1) :
    ∀ n : Nat, n + 1 ≤ ccs_MaxDepth S0 →
      ∃ S, (List.range' 1 n).foldlM (fun s depth => ccs__RefineCreases s depth) S1 = some S ∧
        ccs_CreaseStage S0 S (n + 1) := by
  intro n
  induction n with
  | zero =>
    intro _
    exact ⟨S1, rfl, hs⟩
  | succ n ih =>
    intro hn
    obtain ⟨S, e1, e2⟩ := ih (by omega)
    obtain ⟨S', f1, f2⟩ := refineCreases_stage S0 S (n + 1) e2 (by omega) (by omega)
    refine ⟨S', ?_, f2⟩
    rw [List.range'_concat, List.foldlM_append, e1]
    simp only [Option.bind_eq_bind, Option.some_bind, one_mul, List.foldlM_cons,
      List.foldlM_nil]
    have : 1 + n = n + 1 := by omega
    rw [this, f1]
    rfl

/-- The entry point `ccs_RefineCreases` returns on an allocated crease buffer of
a cage whose crease links are edges: only the creases change, and the links of
every level are edges of the level. -/
theorem refineCreases_total (S0 : cc_Subd) (hD : 1 ≤ ccs_MaxDepth S0)
    (ha : ccs_CreasesAllocated S0.cage (ccs_MaxDepth S0) S0.creases)
    (hw : ccs_CreaseLinksInBounds S0.cage.creases (ccm_EdgeCount S0.cage)) :
    ∃ S, ccs_RefineCreases S0 = some S ∧ ccs_CreaseStage S0 S (ccs_MaxDepth S0) := by
  obtain ⟨S1, e1, e2⟩ := refineCageCreases_stage S0 hD ha hw
  obtain ⟨S, f1, f2⟩ := refineCreases_fold S0 S1 e2 (ccs_MaxDepth S0 - 1) (by omega)
  refine ⟨S, ?_, ?_⟩
  · unfold ccs_RefineCreases
    simp only [e1, Option.bind_eq_bind, Option.some_bind]
    exact f1
  · have : ccs_MaxDepth S0 - 1 + 1 = ccs_MaxDepth S0 := by omega
    rw [this] at f2
    exact f2

/-- A loop of kernels keeps what every kernel keeps. -/
theorem foldlM_keeps {β : Type} (f : cc_Subd → β) (step : cc_Subd → Nat → Option cc_Subd)
    (hk : ∀ S S' d, step S d = some S' → f S' = f S) :
    ∀ (l : List Nat) (A B : cc_Subd), l.foldlM step A = some B → f B = f A := by
  intro l
  induction l with
  | nil =>
    intro A B hAB
    simp only [List.foldlM_nil, Option.pure_def, Option.some.injEq] at hAB
    rw [hAB]
  | cons d t ih =>
    intro A B hAB
    rw [List.foldlM_cons] at hAB
    obtain ⟨A1, ha, hb⟩ := Option.bind_eq_some.mp hAB
    rw [ih A1 B hb, hk A A1 d ha]

/-- The entry point `ccs_RefineHalfedges` changes the halfedges only. -/
theorem ccs_RefineHalfedges_keeps (S T : cc_Subd) (h : ccs_RefineHalfedges S = some T) :
    T.creases = S.creases ∧ T.vertexPoints = S.vertexPoints := by
  unfold ccs_RefineHalfedges at h
  obtain ⟨S1, h1, h2⟩ := Option.bind_eq_some.mp h
  have k1 : S1.creases = S.creases ∧ S1.vertexPoints = S.vertexPoints := by
    unfold ccs__RefineCageHalfedges at h1
    simp only [Option.bind_eq_bind, Option.bind_eq_some, Option.some.injEq] at h1
    obtain ⟨p, _, out, _, rfl⟩ := h1
    exact ⟨rfl, rfl⟩
  have k2 := foldlM_keeps (fun S => (S.creases, S.vertexPoints))
    (fun s depth => ccs__RefineHalfedges s depth)
    (by
      intro A B d hAB
      unfold ccs__RefineHalfedges at hAB
      simp only [Option.bind_eq_bind, Option.bind_eq_some, Option.some.injEq] at hAB
      obtain ⟨p, _, out, _, rfl⟩ := hAB
      rfl) _ S1 T h2
  simp only [Prod.mk.injEq] at k2
  exact ⟨k2.1.trans k1.1, k2.2.trans k1.2⟩

/-! ### The whole refinement returns -/

/-- On a constructed subdivision of depth at least 1 of a valid cage, the two
topology passes return, and the subdivision is then ready for the vertex point
kernels. -/
theorem refineTopology_ready (s : cc_Subd) (e2h : Int → Nat → Int) (v2h : Int → Int)
    (fuel : Nat) (hD : 1 ≤ ccs_MaxDepth s) (hcage : ccm_Valid s.cage)
    (hc : ccs_Constructed s) (hh : ccs_HelpersInBounds s.cage (ccs_MaxDepth s) e2h v2h)
    (hf : ccm_HalfedgeCountAtDepth s.cage (ccs_MaxDepth s) ≤ fuel) :
    ∃ T1 T, ccs_RefineHalfedges s = some T1 ∧ ccs_RefineCreases T1 = some T ∧
      ccs_Ready T e2h v2h fuel := by
  obtain ⟨hnp, htw, hne, hcov, hw, hp, ht⟩ := hcage
  obtain ⟨ha, hca, hpa⟩ := hc
  obtain ⟨T1, a1, a2⟩ := refine_all_levels s ha hD (cage_linksInBounds s.cage hnp htw)
  obtain ⟨k1, k2⟩ := ccs_RefineHalfedges_keeps s T1 a1
  have hval := a2.valid ha hnp htw hne hcov
  have hce := a2.cage_eq
  have hme := a2.maxDepth_eq
  obtain ⟨c1, m1, h1, cr1, vp1⟩ := T1
  simp only at k1 k2 hce hme
  subst k1 k2 hce hme
  obtain ⟨T, b1, ⟨cr, rfl⟩, hca2, hlinks⟩ := refineCreases_total
    ({ cage := s.cage, maxDepth := s.maxDepth, halfedges := h1, creases := s.creases,
       vertexPoints := s.vertexPoints } : cc_Subd) hD hca hw
  refine ⟨_, _, a1, b1, ⟨⟨hnp, htw, hne, hcov, hw, hp, ht⟩, ?_, ?_, hh, hf⟩⟩
  · have hlt : 0 < s.vertexPoints.length := by have := hpa.1; omega
    have hx : s.vertexPoints[0]? = some s.vertexPoints[0] := List.getElem?_eq_getElem hlt
    refine ⟨_, ?_, hpa.2 0 hD _ (Option.mem_def.mpr hx)⟩
    rw [ccs__Level_succ]
    exact hx
  · intro d d1 d2
    have d2' : d < ccs_MaxDepth s := d2
    obtain ⟨e, rfl⟩ : ∃ e, d = e + 1 := ⟨d - 1, by omega⟩
    have hcl : ccs_MaxDepth s ≤ cr.length := hca2.1
    have hlt1 : e < cr.length := by omega
    have hc1 : cr[e]? = some cr[e] := List.getElem?_eq_getElem hlt1
    have hlt2 : e < s.vertexPoints.length := by have := hpa.1; omega
    have hv1 : s.vertexPoints[e]? = some s.vertexPoints[e] := List.getElem?_eq_getElem hlt2
    have hlt3 : e + 1 < s.vertexPoints.length := by have := hpa.1; omega
    have hv2 : s.vertexPoints[e + 1]? = some s.vertexPoints[e + 1] :=
      List.getElem?_eq_getElem hlt3
    refine ⟨⟨hval (e + 1) d1 (by omega) (by omega), ⟨cr[e], ?_, ?_⟩,
      ⟨s.vertexPoints[e], ?_, ?_⟩⟩, s.vertexPoints[e + 1], ?_, ?_⟩
    · rw [ccs__Level_succ]
      exact hc1
    · exact (hlinks e (by show e < ccs_MaxDepth s; omega) _ (Option.mem_def.mpr hc1)).1
    · rw [ccs__Level_succ]
      exact hv1
    · exact hpa.2 e (by omega) _ (Option.mem_def.mpr hv1)
    · rw [ccs__Level_succ]
      exact hv2
    · exact hpa.2 (e + 1) d2' _ (Option.mem_def.mpr hv2)

/-! ## C37: crease refinement keeps the chains -/

/-- The links of the child creases in terms of the links of the parent creases:
`next`, `prev` read the `E` parent creases and `next'`, `prev'` the child
creases.  For every parent edge `e < E` with `n = next e` and `p = prev e`:
a reciprocal link `prev n = e`, `n ≠ e` gives `next' (2e+1) = 2n` and
`prev' (2n) = 2e+1`; the two children of `e` are linked; a self-link is
inherited; and the links of the two children are in `[0, 2E)`. -/
def ccs_CreaseChainsKept (E : Nat) (next prev next' prev' : Int → Option Int) : Prop :=
  ∀ e : Int, 0 ≤ e → e < (E : Int) → ∃ n p : Int, next e = some n ∧ prev e = some p ∧
    (prev n = some e → n ≠ e →
      next' (2 * e + 1) = some (2 * n) ∧ prev' (2 * n) = some (2 * e + 1)) ∧
    next' (2 * e) = some (2 * e + 1) ∧ prev' (2 * e + 1) = some (2 * e) ∧
    (n = e → next' (2 * e + 1) = some (2 * e + 1)) ∧
    (p = e → prev' (2 * e) = some (2 * e)) ∧
    (∀ c : Int, c = 2 * e ∨ c = 2 * e + 1 → ∃ a b : Int, next' c = some a ∧ prev' c = some b ∧
      0 ≤ a ∧ a < 2 * (E : Int) ∧ 0 ≤ b ∧ b < 2 * (E : Int))

theorem creaseRefined_chains (creases : List cc_Crease) (E : Nat)
    (hw : ccs_CreaseLinksInBounds creases E) (out out' : List cc_Crease)
    (hr : CreaseRefined (creaseParent creases E) out out') :
    ccs_CreaseChainsKept E (fun e => (readAt creases e).map (fun c => c.nextID))
      (fun e => (readAt creases e).map (fun c => c.prevID))
      (fun e => (readAt out' e).map (fun c => c.nextID))
      (fun e => (readAt out' e).map (fun c => c.prevID)) := by
  intro ei e0 e1
  obtain ⟨e, rfl⟩ : ∃ e : Nat, ei = (e : Int) := ⟨ei.toNat, by omega⟩
  have he : e < E := by omega
  beta_reduce
  obtain ⟨re, rn, rp⟩ := creaseParent_reads creases E hw e he
  obtain ⟨n0, n1, p0, p1⟩ := creaseParent_range creases E hw e (by omega) (by omega)
  obtain ⟨s0, s1⟩ := hr.slots e he
  have hE : (creaseParent creases E).E = E := rfl
  have c0 : readAt out' (2 * (e : Int)) = out'[2 * e]? := by
    rw [← readAt_natCast]
    norm_num
  have c1 : readAt out' (2 * (e : Int) + 1) = out'[2 * e + 1]? := by
    rw [← readAt_natCast]
    norm_num
  refine ⟨(creaseParent creases E).next e, (creaseParent creases E).prev e, ?_, ?_, ?_, ?_, ?_,
    ?_, ?_, ?_⟩
  · simp only [re, Option.map_some']
    simp [creaseParent]
  · simp only [re, Option.map_some']
    simp [creaseParent]
  · intro h1 h2
    simp only [rn, Option.map_some', Option.some.injEq] at h1
    have h1' : (creaseParent creases E).prev ((creaseParent creases E).next e) = (e : Int) := h1
    obtain ⟨m, hm⟩ : ∃ m : Nat, (creaseParent creases E).next e = (m : Int) :=
      ⟨((creaseParent creases E).next e).toNat, by omega⟩
    have hmE : m < E := by omega
    obtain ⟨t0, _⟩ := hr.slots m hmE
    have cm : readAt out' (2 * (creaseParent creases E).next e) = out'[2 * m]? := by
      rw [hm, ← readAt_natCast]
      norm_num
    rw [c1, s1, cm, t0]
    simp only [Option.map_some', creaseChild0, creaseChild1, Option.some.injEq]
    rw [← hm, h1']
    have hne : (e : Int) ≠ (creaseParent creases E).next e := fun h => h2 h.symm
    simp [h1', h2, hne]
  · rw [c0, s0]
    rfl
  · rw [c1, s1]
    rfl
  · intro h
    rw [c1, s1]
    simp only [Option.map_some', creaseChild1, Option.some.injEq]
    have : ¬ ((creaseParent creases E).prev ((creaseParent creases E).next e) = (e : Int) ∧
        (creaseParent creases E).next e ≠ (e : Int)) := fun hh => hh.2 h
    rw [if_neg this, h]
  · intro h
    rw [c0, s0]
    simp only [Option.map_some', creaseChild0, Option.some.injEq]
    have : ¬ ((creaseParent creases E).next ((creaseParent creases E).prev e) = (e : Int) ∧
        (creaseParent creases E).prev e ≠ (e : Int)) := fun hh => hh.2 h
    rw [if_neg this, h]
    omega
  · intro c hc
    rcases hc with rfl | rfl
    · rw [c0, s0]
      refine ⟨_, _, rfl, rfl, ?_, ?_, ?_, ?_⟩ <;> simp only [creaseChild0] <;>
        first | (split_ifs <;> omega) | omega
    · rw [c1, s1]
      refine ⟨_, _, rfl, rfl, ?_, ?_, ?_, ?_⟩ <;> simp only [creaseChild1] <;>
        first | (split_ifs <;> omega) | omega

/-- C37: crease refinement preserves reciprocal chain links and chain ends.  On
parent creases whose links are in `[0, E)`, `ccs__RefineCageCreases` (first
part, the parent is the cage and `E = E0`) and `ccs__RefineCreases` (second
part, the parent is the level `depth` and `E` its crease count) return a
subdivision `T` in which, for every parent edge `e < E` with
`n = creaseNext(e)` and `p = creasePrev(e)` (the predicate
`ccs_CreaseChainsKept`): when `creasePrev(n) = e` and `n ≠ e`, the children
satisfy `creaseNext(2e+1) = 2n` and `creasePrev(2n) = 2e+1`; the two children
are linked, `creaseNext(2e) = 2e+1` and `creasePrev(2e+1) = 2e`; a self-link is
inherited, `n = e` gives `creaseNext(2e+1) = 2e+1` and `p = e` gives
`creasePrev(2e) = 2e`; and the links of the children are in `[0, 2E)`. -/
theorem C37_crease_chains_kept :
    (∀ (subd : cc_Subd) (out : List cc_Crease),
      subd.creases[0]? = some out →
      2 * ccm_EdgeCount subd.cage ≤ out.length →
      ccs_CreaseLinksInBounds subd.cage.creases (ccm_EdgeCount subd.cage) →
      ∃ T, ccs__RefineCageCreases subd = some T ∧
        ccs_CreaseChainsKept (ccm_EdgeCount subd.cage)
          (ccm_CreaseNextID subd.cage) (ccm_CreasePrevID subd.cage)
          (fun c => ccs_CreaseNextID_Fast T c 1) (fun c => ccs_CreasePrevID_Fast T c 1)) ∧
    (∀ (subd : cc_Subd) (depth : Nat) (creasesIn out : List cc_Crease),
      ccs__Level subd.creases depth = some creasesIn →
      ccs__Level subd.creases (depth + 1) = some out →
      2 * ccm_CreaseCountAtDepth subd.cage depth ≤ out.length →
      ccs_CreaseLinksInBounds creasesIn (ccm_CreaseCountAtDepth subd.cage depth) →
      ∃ T, ccs__RefineCreases subd depth = some T ∧
        ccs_CreaseChainsKept (ccm_CreaseCountAtDepth subd.cage depth)
          (fun e => ccs_CreaseNextID_Fast subd e depth)
          (fun e => ccs_CreasePrevID_Fast subd e depth)
          (fun c => ccs_CreaseNextID_Fast T c (depth + 1))
          (fun c => ccs_CreasePrevID_Fast T c (depth + 1))) := by
  constructor
  · intro subd out hout hlen hw
    obtain ⟨o, e1, e2⟩ := cage_crease_kernel_spec subd out hout hw hlen
    refine ⟨_, e1, ?_⟩
    have hlt : 0 < subd.creases.length := by
      rcases Nat.lt_or_ge 0 subd.creases.length with h | h
      · exact h
      · rw [List.getElem?_eq_none h] at hout
        cases hout
    have hl : ccs__Level (subd.creases.set 0 o) 1 = some o := by
      rw [ccs__Level_succ, List.getElem?_set_self hlt]
    have := creaseRefined_chains _ _ hw out o e2
    unfold ccs_CreaseNextID_Fast ccs_CreasePrevID_Fast
    simp only [hl, Option.bind_eq_bind, Option.some_bind]
    exact this
  · intro subd depth creasesIn out hin hout hlen hw
    obtain ⟨o, e1, e2⟩ := level_crease_kernel_spec subd depth creasesIn out hin hout hw hlen
    refine ⟨_, e1, ?_⟩
    have hlt : depth < subd.creases.length := by
      rw [ccs__Level_succ] at hout
      rcases Nat.lt_or_ge depth subd.creases.length with h | h
      · exact h
      · rw [List.getElem?_eq_none h] at hout
        cases hout
    have hl : ccs__Level (subd.creases.set depth o) (depth + 1) = some o := by
      rw [ccs__Level_succ, List.getElem?_set_self hlt]
    have := creaseRefined_chains _ _ hw out o e2
    unfold ccs_CreaseNextID_Fast ccs_CreasePrevID_Fast
    simp only [hl, hin, Option.bind_eq_bind, Option.some_bind]
    exact this

/-- C37, witness: the two creases of `creaseCage`, which form a cycle (cage
kernel), and the four creases of level 1 of `creaseSubd` (level kernel); their
links are in bounds and both kernels return a subdivision that keeps the
chains. -/
theorem C37_crease_chains_kept_witness :
    (ccs_CreaseLinksInBounds creaseCage.creases (ccm_EdgeCount creaseCage) ∧
      ∃ T, ccs__RefineCageCreases
          { cage := creaseCage, maxDepth := 1, halfedges := [],
            creases := [List.replicate 4 ⟨0, 0, 0⟩] } = some T ∧
        ccs_CreaseChainsKept (ccm_EdgeCount creaseCage)
          (ccm_CreaseNextID creaseCage) (ccm_CreasePrevID creaseCage)
          (fun c => ccs_CreaseNextID_Fast T c 1) (fun c => ccs_CreasePrevID_Fast T c 1)) ∧
    (ccs_CreaseLinksInBounds [⟨1, 3, 5 / 4⟩, ⟨2, 0, 5 / 4⟩, ⟨3, 1, 7 / 4⟩, ⟨0, 2, 7 / 4⟩]
        (ccm_CreaseCountAtDepth creaseSubd.cage 1) ∧
      ∃ T, ccs__RefineCreases creaseSubd 1 = some T ∧
        ccs_CreaseChainsKept (ccm_CreaseCountAtDepth creaseSubd.cage 1)
          (fun e => ccs_CreaseNextID_Fast creaseSubd e 1)
          (fun e => ccs_CreasePrevID_Fast creaseSubd e 1)
          (fun c => ccs_CreaseNextID_Fast T c 2) (fun c => ccs_CreasePrevID_Fast T c 2)) :=
  ⟨⟨by decide, C37_crease_chains_kept.1
      { cage := creaseCage, maxDepth := 1, halfedges := [],
        creases := [List.replicate 4 ⟨0, 0, 0⟩] }
      (List.replicate 4 ⟨0, 0, 0⟩) rfl (by decide) (by decide)⟩,
    ⟨by decide, C37_crease_chains_kept.2 creaseSubd 1
      [⟨1, 3, 5 / 4⟩, ⟨2, 0, 5 / 4⟩, ⟨3, 1, 7 / 4⟩, ⟨0, 2, 7 / 4⟩] (List.replicate 8 ⟨0, 0, 0⟩)
      rfl rfl (by decide) (by decide)⟩⟩

/-! ## C38: halfedge refinement keeps the orientation -/

/-- The parent level is consistently oriented: `next` stays in the face ring of
the halfedge, and the twin of a halfedge starts where the halfedge ends,
`vertex(twin(h)) = vertex(next(h))`. -/
structure Parent.Oriented (P : Parent) : Prop where
  face_next : ∀ h : Int, 0 ≤ h → h < P.H → P.face (P.next h) = P.face h
  vertex_twin : ∀ h : Int, 0 ≤ h → h < P.H → 0 ≤ P.twin h →
    P.vertex (P.twin h) = P.vertex (P.next h)

/-- The twin of a child that has one is a child whose vertex is the vertex of
the quad successor of the child. -/
theorem Parent.child_oriented (P : Parent) (hv : P.Valid) (ho : P.Oriented)
    (h : Int) (h0 : 0 ≤ h) (hH : h < P.H) (i : Nat) (hi : i < 4) (ht : 0 ≤ P.cTwin h i) :
    ∃ (h2 : Int) (i2 : Nat), 0 ≤ h2 ∧ h2 < P.H ∧ i2 < 4 ∧ P.cTwin h i = 4 * h2 + i2 ∧
      P.cVertex h2 i2 = P.cVertex h ((i + 1) % 4) := by
  have h4 : i = 0 ∨ i = 1 ∨ i = 2 ∨ i = 3 := by omega
  obtain ⟨hn0, hn1⟩ := hv.next_range h h0 hH
  obtain ⟨hp0, hp1⟩ := hv.prev_range h h0 hH
  rcases h4 with rfl | rfl | rfl | rfl
  · -- c0: the twin is c3 of next (twin h), on the edge point of the edge of h
    simp only [Parent.cTwin] at ht
    have htw : 0 ≤ P.twin h := by
      by_contra hc
      have := hv.twinNext_neg h h0 hH (by omega)
      omega
    have htl := hv.twin_lt h h0 hH
    have e1 := hv.twinNext_pos h h0 hH htw
    obtain ⟨a0, a1⟩ := hv.next_range (P.twin h) htw htl
    have e2 := hv.prev_next (P.twin h) htw htl
    have e4 := hv.twin_edge h h0 hH htw
    refine ⟨P.next (P.twin h), 3, a0, a1, by omega, ?_, ?_⟩
    · simp only [Parent.cTwin, e1]; push_cast; ring
    · simp only [Parent.cVertex, e2, e4]
  · -- c1: the twin is c2 of next h, on the face point of the face of h
    refine ⟨P.next h, 2, hn0, hn1, by omega, ?_, ?_⟩
    · simp only [Parent.cTwin]; push_cast; ring
    · simp only [Parent.cVertex, ho.face_next h h0 hH]
  · -- c2: the twin is c1 of prev h, on the edge point of the edge of prev h
    refine ⟨P.prev h, 1, hp0, hp1, by omega, ?_, ?_⟩
    · simp only [Parent.cTwin]; push_cast; ring
    · simp only [Parent.cVertex]
  · -- c3: the twin is c0 of twin (prev h), on the vertex of h
    simp only [Parent.cTwin] at ht
    have htw : 0 ≤ P.twin (P.prev h) := by omega
    have htl := hv.twin_lt (P.prev h) hp0 hp1
    have e3 := hv.next_prev h h0 hH
    have e5 := ho.vertex_twin (P.prev h) hp0 hp1 htw
    refine ⟨P.twin (P.prev h), 0, htw, htl, by omega, ?_, ?_⟩
    · simp only [Parent.cTwin]; push_cast; ring
    · simp only [Parent.cVertex, e5, e3]

/-- On the cage, `next(h)` is a halfedge of the face of `h`: the next/prev
invariant of the data model holds within each face ring. -/
def ccm_NextKeepsFace (cage : cc_Mesh) : Prop :=
  ∀ h : Nat, h < ccm_HalfedgeCount cage →
    (ccm_HalfedgeNextID cage h).bind (ccm_HalfedgeFaceID cage) = ccm_HalfedgeFaceID cage h

/-- On the cage, `vertex(twin(h)) = vertex(next(h))` for every halfedge `h`
whose twin is not negative. -/
def ccm_Oriented (cage : cc_Mesh) : Prop :=
  ∀ h : Nat, h < ccm_HalfedgeCount cage → ∀ t ∈ ccm_HalfedgeTwinID cage h, 0 ≤ t →
    ccm_HalfedgeVertexID cage t = (ccm_HalfedgeNextID cage h).bind (ccm_HalfedgeVertexID cage)

/-- On the first `n` halfedges of a level, `vertex(twin(c)) = vertex(next(c))`
for every halfedge `c` whose twin is not negative, `next(c)` the quad successor
of `c` in its block `4h..4h+3`; the two records are read in the array. -/
def ccs_Oriented (halfedges : List cc_Halfedge_SemiRegular) (n : Nat) : Prop :=
  ∀ c : Nat, c < n → ∀ r ∈ halfedges[c]?, 0 ≤ r.twinID →
    ∃ rt ∈ readAt halfedges r.twinID, ∃ rn ∈ readAt halfedges (ccm_HalfedgeNextID_Quad c),
      rt.vertexID = rn.vertexID

instance (cage : cc_Mesh) : Decidable (ccm_NextKeepsFace cage) := by
  unfold ccm_NextKeepsFace
  infer_instance

instance (cage : cc_Mesh) : Decidable (ccm_Oriented cage) := by
  unfold ccm_Oriented
  infer_instance

instance (halfedges : List cc_Halfedge_SemiRegular) (n : Nat) :
    Decidable (ccs_Oriented halfedges n) := by
  unfold ccs_Oriented
  infer_instance

theorem cageParent_oriented (cage : cc_Mesh) (hnp : ccm_NextPrevInvariant cage)
    (htw : ccm_TwinInvariant cage) (hf : ccm_NextKeepsFace cage) (ho : ccm_Oriented cage) :
    (cageParent cage).Oriented := by
  have hv := cageParent_valid cage hnp htw
  constructor
  · intro h h0 h1
    have h1' : h < (ccm_HalfedgeCount cage : Int) := h1
    have hc : ((h.toNat : Nat) : Int) = h := by omega
    have := hf h.toNat (by omega)
    obtain ⟨n0, n1⟩ := hv.next_range h h0 h1
    rw [hc, cage_next_eq cage h h0 h1', Option.some_bind, cage_face_eq cage _ n0 n1,
      cage_face_eq cage h h0 h1'] at this
    exact Option.some.inj this
  · intro h h0 h1 ht
    have h1' : h < (ccm_HalfedgeCount cage : Int) := h1
    have hc : ((h.toNat : Nat) : Int) = h := by omega
    have := ho h.toNat (by omega) ((cageParent cage).twin h)
      (by rw [hc, cage_twin_eq cage h h0 h1']; exact rfl) ht
    obtain ⟨n0, n1⟩ := hv.next_range h h0 h1
    have t1 := hv.twin_lt h h0 h1
    rw [hc, cage_next_eq cage h h0 h1', Option.some_bind, cage_vertex_eq cage _ n0 n1,
      cage_vertex_eq cage _ ht t1] at this
    exact Option.some.inj this

theorem levelParent_oriented (cage : cc_Mesh) (depth : Nat) (hd : 1 ≤ depth)
    (halfedgesIn : List cc_Halfedge_SemiRegular)
    (hH : halfedgesIn.length = ccm_HalfedgeCountAtDepth cage depth)
    (ho : ccs_Oriented halfedgesIn (ccm_HalfedgeCountAtDepth cage depth)) :
    (levelParent cage depth halfedgesIn).Oriented := by
  obtain ⟨k, hk⟩ := ccm_HalfedgeCountAtDepth_dvd cage depth hd
  have hPH : (levelParent cage depth halfedgesIn).H = ccm_HalfedgeCountAtDepth cage depth := rfl
  constructor
  · intro h h0 h1
    show ccm_HalfedgeFaceID_Quad (ccm_HalfedgeNextID_Quad h) = ccm_HalfedgeFaceID_Quad h
    unfold ccm_HalfedgeFaceID_Quad ccm_HalfedgeNextID_Quad
    omega
  · intro h h0 h1 ht
    rw [hPH] at h1
    have hc : ((h.toNat : Nat) : Int) = h := by omega
    have hlt : h.toNat < halfedgesIn.length := by omega
    have hr : halfedgesIn[h.toNat]? = some (halfedgesIn.getD h.toNat default) := by
      simp [List.getD_eq_getElem?_getD, List.getElem?_eq_getElem hlt]
    have ht' : 0 ≤ (halfedgesIn.getD h.toNat default).twinID := ht
    obtain ⟨rt, hrt, rn, hrn, e⟩ := ho h.toNat (by omega) _ hr ht'
    have hrt2 : readAt halfedgesIn (halfedgesIn.getD h.toNat default).twinID = some rt := hrt
    have hrn2 : readAt halfedgesIn (ccm_HalfedgeNextID_Quad h) = some rn := by
      rw [← hc]
      exact hrn
    obtain ⟨t0, t1⟩ := readAt_map_some_range halfedgesIn id _ rt (by rw [hrt2]; rfl)
    obtain ⟨n0, n1⟩ := readAt_map_some_range halfedgesIn id _ rn (by rw [hrn2]; rfl)
    rw [readAt_getD _ _ t0 t1] at hrt2
    rw [readAt_getD _ _ n0 n1] at hrn2
    show (halfedgesIn.getD (halfedgesIn.getD h.toNat default).twinID.toNat default).vertexID
      = (halfedgesIn.getD (ccm_HalfedgeNextID_Quad h).toNat default).vertexID
    rw [Option.some.inj hrt2, Option.some.inj hrn2]
    exact e

theorem Refined.oriented {P : Parent} {out out' : List cc_Halfedge_SemiRegular}
    (hr : Refined P out out') (hv : P.Valid) (ho : P.Oriented) :
    ccs_Oriented out' (4 * P.H) := by
  intro c hc r hrc ht
  obtain ⟨old, _, hoc⟩ := hr.slot (c / 4) (c % 4) (by omega) (Nat.mod_lt _ (by decide))
  have hcc : 4 * (c / 4) + c % 4 = c := Nat.div_add_mod c 4
  rw [hcc] at hoc
  have hrc2 : out'[c]? = some r := hrc
  rw [hoc] at hrc2
  have hr_eq := Option.some.inj hrc2
  subst hr_eq
  simp only [newHalfedge] at ht ⊢
  obtain ⟨h2, i2, a0, a1, a2, a3, a4⟩ :=
    P.child_oriented hv ho (c / 4 : Nat) (by omega) (by push_cast; omega) (c % 4)
      (Nat.mod_lt _ (by decide)) ht
  obtain ⟨old2, _, ho2⟩ := hr.slot h2.toNat i2 (by omega) a2
  have hcast : ((h2.toNat : Nat) : Int) = h2 := by omega
  rw [hcast] at ho2
  obtain ⟨old3, _, ho3⟩ := hr.slot (c / 4) ((c % 4 + 1) % 4) (by omega)
    (Nat.mod_lt _ (by decide))
  refine ⟨newHalfedge (P.cTwin h2 i2) (P.cEdge h2 i2) (P.cVertex h2 i2) old2, ?_,
    newHalfedge (P.cTwin (c / 4 : Nat) ((c % 4 + 1) % 4)) (P.cEdge (c / 4 : Nat) ((c % 4 + 1) % 4))
      (P.cVertex (c / 4 : Nat) ((c % 4 + 1) % 4)) old3, ?_, ?_⟩
  · show readAt out' _ = some _
    rw [a3]
    have : (4 * h2 + (i2 : Int)) = ((4 * h2.toNat + i2 : Nat) : Int) := by push_cast; omega
    rw [this, readAt_natCast, ho2]
  · show readAt out' _ = some _
    have : ccm_HalfedgeNextID_Quad (c : Int) = ((4 * (c / 4) + (c % 4 + 1) % 4 : Nat) : Int) := by
      unfold ccm_HalfedgeNextID_Quad
      push_cast
      omega
    rw [this, readAt_natCast, ho3]
  · simp only [newHalfedge]
    exact a4

/-- C38: halfedge refinement preserves orientation consistency.  Cage kernel:
if the cage satisfies the next/prev invariant within each face ring
(`next(prev(h)) = prev(next(h)) = h`, and `next(h)` is a halfedge of the face of
`h`), the twin invariant, and `vertex(twin(h)) = vertex(next(h))` for every
halfedge `h` with `twin(h) ≥ 0`, then `ccs__RefineCageHalfedges` returns, and
every child `c` in `[0, 4H)` with `twin(c) ≥ 0` satisfies
`vertex(twin(c)) = vertex(next(c))`, where `next(c)` is the quad successor of
`c` inside its block `4h..4h+3`.  Level kernel: the same for
`ccs__RefineHalfedges` on a level `depth ≥ 1` of `H = H0 * 4^depth` halfedges,
where `next` and `prev` are the quad forms. -/
theorem C38_orientation_preserved :
    (∀ (subd : cc_Subd) (out : List cc_Halfedge_SemiRegular),
      subd.halfedges[0]? = some out →
      4 * ccm_HalfedgeCount subd.cage ≤ out.length →
      ccm_NextPrevInvariant subd.cage →
      ccm_NextKeepsFace subd.cage →
      ccm_TwinInvariant subd.cage →
      ccm_Oriented subd.cage →
      ∃ out', ccs__RefineCageHalfedges subd =
          some { subd with halfedges := subd.halfedges.set 0 out' } ∧
        ccs_Oriented out' (4 * ccm_HalfedgeCount subd.cage)) ∧
    (∀ (subd : cc_Subd) (depth : Nat) (halfedgesIn out : List cc_Halfedge_SemiRegular),
      ccs__Level subd.halfedges depth = some halfedgesIn →
      halfedgesIn.length = ccm_HalfedgeCountAtDepth subd.cage depth →
      ccs__Level subd.halfedges (depth + 1) = some out →
      4 * ccm_HalfedgeCountAtDepth subd.cage depth ≤ out.length →
      ccs_TwinInvariant halfedgesIn (ccm_HalfedgeCountAtDepth subd.cage depth) →
      ccs_Oriented halfedgesIn (ccm_HalfedgeCountAtDepth subd.cage depth) →
      ∃ out', ccs__RefineHalfedges subd depth =
          some { subd with halfedges := subd.halfedges.set depth out' } ∧
        ccs_Oriented out' (4 * ccm_HalfedgeCountAtDepth subd.cage depth)) := by
  constructor
  · intro subd out hout hlen hnp hf htw ho
    obtain ⟨o, e1, e2⟩ := cage_kernel_refined subd out hout
      (cage_linksInBounds subd.cage hnp htw) hlen
    exact ⟨o, e1, e2.oriented (cageParent_valid subd.cage hnp htw)
      (cageParent_oriented subd.cage hnp htw hf ho)⟩
  · intro subd depth halfedgesIn out hin hH hout hlen htw ho
    obtain ⟨o, e1, e2⟩ := level_kernel_refined subd depth halfedgesIn out hin hH hout hlen
    exact ⟨o, e1, e2.oriented
      (levelParent_valid subd.cage depth (ccs__Level_depth_pos _ _ _ hin) halfedgesIn hH htw)
      (levelParent_oriented subd.cage depth (ccs__Level_depth_pos _ _ _ hin) halfedgesIn hH ho)⟩

/-- The level 1 of the two glued triangles, as `ccs__RefineCageHalfedges` writes
it. -/
def twoTrianglesLevel1 : List cc_Halfedge_SemiRegular :=
  (ccs__RefineCageHalfedges
    { cage := twoTriangles, maxDepth := 2, creases := [],
      halfedges := [List.replicate 24 ⟨0, 0, 0, 0⟩, List.replicate 96 ⟨0, 0, 0, 0⟩] }).elim []
    (fun s => s.halfedges.getD 0 [])

/-- A subdivision of depth 2 of the two glued triangles whose level 1 is refined
and whose level 2 is still blank. -/
def twoTrianglesSubd : cc_Subd :=
  { cage := twoTriangles, maxDepth := 2, creases := [],
    halfedges := [twoTrianglesLevel1, List.replicate 96 ⟨0, 0, 0, 0⟩] }

/-- C38, witness: the two glued triangles (cage kernel), whose halfedges 0 and 3
are twins, and their level 1 (level kernel), which has 16 halfedges with a
twin. -/
theorem C38_orientation_preserved_witness :
    (ccm_HalfedgeTwinID twoTriangles 0 = some 3 ∧
      ∃ out', ccs__RefineCageHalfedges
        { cage := twoTriangles, maxDepth := 1, creases := [],
          halfedges := [List.replicate 24 ⟨0, 0, 0, 0⟩] } =
          some { cage := twoTriangles, maxDepth := 1, creases := [], halfedges := [out'] } ∧
        ccs_Oriented out' 24) ∧
    (∃ out', ccs__RefineHalfedges twoTrianglesSubd 1 =
          some { twoTrianglesSubd with halfedges := twoTrianglesSubd.halfedges.set 1 out' } ∧
        ccs_Oriented out' 96) :=
  ⟨⟨by decide, C38_orientation_preserved.1
      { cage := twoTriangles, maxDepth := 1, creases := [],
        halfedges := [List.replicate 24 ⟨0, 0, 0, 0⟩] }
      (List.replicate 24 ⟨0, 0, 0, 0⟩) rfl (by decide) (by decide) (by decide) (by decide)
      (by decide)⟩,
    C38_orientation_preserved.2 twoTrianglesSubd 1 twoTrianglesLevel1
      (List.replicate 96 ⟨0, 0, 0, 0⟩) rfl (by decide) rfl (by decide) (by decide) (by decide)⟩

/-! ## C36: the ring walks of the cage kernels -/

/-- The halfedge `k` steps after `h`; `none` when a step reads outside of the
array. -/
def stepIterate (step : Int → Option Int) : Nat → Int → Option Int
  | 0, h => some h
  | k + 1, h => (step h).bind (stepIterate step k)

/-- Every iterator of a walk has its successor among the later iterators of the
walk and its exit value, and every one of these but the first is the successor
of an iterator of the walk. -/
theorem ringWalk_links (step : Int → Option Int) (cont : Int → Bool) :
    ∀ (fuel : Nat) (it : Int) (ring : List Int) (last : Int),
      ringWalk step cont fuel it = some (ring, last) →
      (∀ g ∈ ring, ∃ b ∈ ring ++ [last], step g = some b) ∧
      (∀ b ∈ ring ++ [last], b = it ∨ ∃ g ∈ ring, step g = some b) ∧
      it ∈ ring ++ [last] := by
  intro fuel
  induction fuel with
  | zero =>
    intro it ring last hw
    unfold ringWalk at hw
    by_cases c : cont it = true
    · simp [c] at hw
    · simp only [c, if_false, Option.some.injEq, Prod.mk.injEq] at hw
      obtain ⟨rfl, rfl⟩ := hw
      simp
  | succ n ih =>
    intro it ring last hw
    unfold ringWalk at hw
    by_cases c : cont it = true
    · simp only [c, if_true] at hw
      obtain ⟨nxt, hs, hm⟩ := Option.bind_eq_some.mp hw
      obtain ⟨r, hr, hq2⟩ := Option.map_eq_some'.mp hm
      obtain ⟨r1, r2⟩ := r
      simp only [Prod.mk.injEq] at hq2
      obtain ⟨rfl, rfl⟩ := hq2
      obtain ⟨a1, a2, a3⟩ := ih nxt r1 r2 hr
      refine ⟨?_, ?_, by simp⟩
      · intro g hg
        rcases List.mem_cons.mp hg with rfl | hg
        · exact ⟨nxt, by rw [List.cons_append]; exact List.mem_cons_of_mem _ a3, hs⟩
        · obtain ⟨b, hb, e⟩ := a1 g hg
          exact ⟨b, by rw [List.cons_append]; exact List.mem_cons_of_mem _ hb, e⟩
      · intro b hb
        rw [List.cons_append] at hb
        rcases List.mem_cons.mp hb with rfl | hb
        · exact Or.inl rfl
        · right
          rcases a2 b hb with rfl | ⟨g, hg, e⟩
          · exact ⟨it, List.mem_cons_self _ _, hs⟩
          · exact ⟨g, List.mem_cons_of_mem _ hg, e⟩
    · simp only [c, if_false, Option.some.injEq, Prod.mk.injEq] at hw
      obtain ⟨rfl, rfl⟩ := hw
      simp

/-- A walk whose step is injective visits no halfedge twice, and none of the
halfedges `vis` it has visited before: `a` is the last of them and `it` the
iterator; every visited halfedge but `root`, the first, was reached from a
visited halfedge, and the loop exits at `root`. -/
theorem ringWalk_nodup_aux (step : Int → Option Int) (cont : Int → Bool) (root : Int)
    (hroot : cont root = false)
    (hS2 : ∀ x x' y : Int, cont y = true → step x = some y → step x' = some y → x = x') :
    ∀ (fuel : Nat) (vis : List Int) (a it : Int) (ring : List Int) (last : Int),
      a ∈ vis → (∀ x ∈ vis, x ≠ root → ∃ p ∈ vis, p ≠ a ∧ step p = some x) →
      step a = some it → ringWalk step cont fuel it = some (ring, last) →
      ring.Nodup ∧ ∀ g ∈ ring, g ∉ vis := by
  intro fuel
  induction fuel with
  | zero =>
    intro vis a it ring last _ _ _ hw
    unfold ringWalk at hw
    by_cases c : cont it = true
    · simp [c] at hw
    · simp only [c, if_false, Option.some.injEq, Prod.mk.injEq] at hw
      obtain ⟨rfl, rfl⟩ := hw
      simp
  | succ n ih =>
    intro vis a it ring last ha hp hs hw
    unfold ringWalk at hw
    by_cases c : cont it = true
    · simp only [c, if_true] at hw
      obtain ⟨nxt, hnx, hm⟩ := Option.bind_eq_some.mp hw
      obtain ⟨r, hr, hq2⟩ := Option.map_eq_some'.mp hm
      obtain ⟨r1, r2⟩ := r
      simp only [Prod.mk.injEq] at hq2
      obtain ⟨rfl, rfl⟩ := hq2
      have hnin : it ∉ vis := by
        intro hin
        by_cases e : it = root
        · rw [e, hroot] at c
          exact Bool.false_ne_true c
        · obtain ⟨p, _, p2, p3⟩ := hp it hin e
          exact p2 (hS2 p a it c p3 hs)
      obtain ⟨b1, b2⟩ := ih (it :: vis) it nxt r1 r2 (List.mem_cons_self _ _)
        (by
          intro x hx hxr
          rcases List.mem_cons.mp hx with rfl | hx
          · refine ⟨a, List.mem_cons_of_mem _ ha, ?_, hs⟩
            intro e
            exact hnin (e ▸ ha)
          · obtain ⟨p, p1, _, p3⟩ := hp x hx hxr
            refine ⟨p, List.mem_cons_of_mem _ p1, ?_, p3⟩
            intro e
            exact hnin (e ▸ p1))
        hnx hr
      refine ⟨List.nodup_cons.mpr ⟨fun h => b2 it h (List.mem_cons_self _ _), b1⟩, ?_⟩
      intro g hg
      rcases List.mem_cons.mp hg with rfl | hg
      · exact hnin
      · exact fun h => b2 g hg (List.mem_cons_of_mem _ h)
    · simp only [c, if_false, Option.some.injEq, Prod.mk.injEq] at hw
      obtain ⟨rfl, rfl⟩ := hw
      simp

/-- A walk from the successor of `h` that stops at `h`, with an injective step,
visits no halfedge twice. -/
theorem ringWalk_nodup (step : Int → Option Int) (cont : Int → Bool) (h : Int)
    (hc : cont h = false)
    (hS2 : ∀ x x' y : Int, cont y = true → step x = some y → step x' = some y → x = x')
    (fuel : Nat) (start : Int) (hs : step h = some start) (ring : List Int) (last : Int)
    (hw : ringWalk step cont fuel start = some (ring, last)) : (h :: ring).Nodup := by
  obtain ⟨a, b⟩ := ringWalk_nodup_aux step cont h hc hS2 fuel [h] h start ring last
    (List.mem_singleton_self h)
    (by
      intro x hx hxr
      rw [List.mem_singleton] at hx
      exact absurd hx hxr)
    hs hw
  exact List.nodup_cons.mpr ⟨fun hm => b h hm (List.mem_singleton_self h), a⟩

/-- The halfedges of a walk that comes back to its start are closed under the
step. -/
theorem ringWalk_closed (step : Int → Option Int) (cont : Int → Bool) (fuel : Nat) (h start : Int)
    (hs : step h = some start) (ring : List Int)
    (hw : ringWalk step cont fuel start = some (ring, h)) :
    (∀ g ∈ h :: ring, ∃ b ∈ h :: ring, step g = some b) ∧
    (∀ b ∈ h :: ring, ∃ g ∈ h :: ring, step g = some b) := by
  obtain ⟨a1, a2, a3⟩ := ringWalk_links step cont fuel start ring h hw
  have hsub : ∀ x, x ∈ ring ++ [h] → x ∈ h :: ring := by
    intro x hx
    rcases List.mem_append.mp hx with hx | hx
    · exact List.mem_cons_of_mem _ hx
    · rw [List.mem_singleton] at hx
      rw [hx]
      exact List.mem_cons_self _ _
  have hsup : ∀ x, x ∈ h :: ring → x ∈ ring ++ [h] := by
    intro x hx
    rcases List.mem_cons.mp hx with rfl | hx
    · simp
    · exact List.mem_append_left _ hx
  constructor
  · intro g hg
    rcases List.mem_cons.mp hg with rfl | hg
    · exact ⟨start, hsub _ a3, hs⟩
    · obtain ⟨b, hb, e⟩ := a1 g hg
      exact ⟨b, hsub _ hb, e⟩
  · intro b hb
    rcases a2 b (hsup b hb) with rfl | ⟨g, hg, e⟩
    · exact ⟨h, List.mem_cons_self _ _, hs⟩
    · exact ⟨g, List.mem_cons_of_mem _ hg, e⟩

/-- The halfedges the step reaches from a halfedge of a set that is closed under
the step are in the set. -/
theorem stepIterate_mem (step : Int → Option Int) (S : List Int)
    (hS : ∀ g ∈ S, ∃ b ∈ S, step g = some b) :
    ∀ (k : Nat) (x y : Int), x ∈ S → stepIterate step k x = some y → y ∈ S := by
  intro k
  induction k with
  | zero =>
    intro x y hx e
    simp only [stepIterate, Option.some.injEq] at e
    exact e ▸ hx
  | succ n ih =>
    intro x y hx e
    obtain ⟨b, hb, hs⟩ := hS x hx
    simp only [stepIterate, hs, Option.some_bind] at e
    exact ih b y hb e

/-- The halfedges from which the step reaches a halfedge of a set whose
halfedges are all reached from the set are in the set, when the step is
injective. -/
theorem stepIterate_mem_back (step : Int → Option Int) (S : List Int)
    (hS : ∀ b ∈ S, ∃ g ∈ S, step g = some b)
    (hinj : ∀ x x' y : Int, y ∈ S → step x = some y → step x' = some y → x = x') :
    ∀ (k : Nat) (x y : Int), y ∈ S → stepIterate step k x = some y → x ∈ S := by
  intro k
  induction k with
  | zero =>
    intro x y hy e
    simp only [stepIterate, Option.some.injEq] at e
    exact e ▸ hy
  | succ n ih =>
    intro x y hy e
    simp only [stepIterate] at e
    obtain ⟨x', hs, e'⟩ := Option.bind_eq_some.mp e
    have hx' := ih x' y hy e'
    obtain ⟨g, hg, hgs⟩ := hS x' hx'
    rw [hinj x g x' hx' hs hgs]
    exact hg

/-- The halfedges of the cage whose face is `f`, in increasing order. -/
def ccm_FaceHalfedges (cage : cc_Mesh) (f : Int) : List Int :=
  ((List.range (ccm_HalfedgeCount cage)).filter
    (fun g : Nat => ccm_HalfedgeFaceID cage g = some f)).map Int.ofNat

/-- The faces and the vertices of the cage are those of a manifold mesh: `next`
stays in the face of the halfedge and the twin of a halfedge starts where the
halfedge ends; the halfedge of a face in the table `faceToHalfedgeIDs` is a
halfedge of the face, and the halfedge of a vertex in the table
`vertexToHalfedgeIDs` is a halfedge of the vertex; the halfedges of a face are
one ring (`next` leads from each of them to every other one), and the halfedges
of a vertex are one fan (of two of them, the rotation `ccm_PrevVertexHalfedgeID`
leads from one to the other). -/
def ccm_Manifold (cage : cc_Mesh) : Prop :=
  ccm_NextKeepsFace cage ∧ ccm_Oriented cage ∧
  (∀ f : Nat, f < ccm_FaceCount cage →
    ∃ h ∈ ccm_FaceToHalfedgeID cage f, ccm_HalfedgeFaceID cage h = some (f : Int)) ∧
  (∀ v : Nat, v < ccm_VertexCount cage →
    ∃ h ∈ ccm_VertexToHalfedgeID cage v, ccm_HalfedgeVertexID cage h = some (v : Int)) ∧
  (∀ h : Nat, h < ccm_HalfedgeCount cage → ∀ g : Nat, g < ccm_HalfedgeCount cage →
    ccm_HalfedgeFaceID cage h = ccm_HalfedgeFaceID cage g →
    ∃ k : Nat, k < ccm_HalfedgeCount cage ∧
      stepIterate (ccm_HalfedgeNextID cage) k h = some (g : Int)) ∧
  (∀ h : Nat, h < ccm_HalfedgeCount cage → ∀ g : Nat, g < ccm_HalfedgeCount cage →
    ccm_HalfedgeVertexID cage h = ccm_HalfedgeVertexID cage g →
    ∃ k : Nat, k < ccm_HalfedgeCount cage ∧
      (stepIterate (ccm_PrevVertexHalfedgeID cage) k h = some (g : Int) ∨
        stepIterate (ccm_PrevVertexHalfedgeID cage) k g = some (h : Int)))

instance (cage : cc_Mesh) : Decidable (ccm_Manifold cage) := by
  unfold ccm_Manifold
  infer_instance

/-- The inner loop of `ccs__CageFacePoints_Gather` for the halfedge `halfedgeID`
of a face: the value of the iterator `halfedgeIt` at the exit of the loop, and
the local variables `newFacePoint` (the sum of the positions) and
`faceVertexCount`. -/
def ccs__CageFacePoints_Gather_walk (cage : cc_Mesh) (fuel : Nat) (halfedgeID : Int) :
    Option (Int × cc_VertexPoint × ℚ) := do
  let newFacePoint ← ccm_HalfedgeVertexPoint cage halfedgeID
  let faceVertexCount : ℚ := 1
  let start ← ccm_HalfedgeNextID cage halfedgeID
  forLoop (fun halfedgeIt => decide (halfedgeIt ≠ halfedgeID))
    (fun halfedgeIt (acc : cc_VertexPoint × ℚ) => do
      let vertexPoint ← ccm_HalfedgeVertexPoint cage halfedgeIt
      let next ← ccm_HalfedgeNextID cage halfedgeIt
      some (next, cc__Add3f acc.1 vertexPoint, acc.2 + 1))
    fuel start (newFacePoint, faceVertexCount)

/-- The loop of `ccs__CageFacePoints_Gather_walk` is the inner loop of the body
of `ccs__CageFacePoints_Gather`. -/
theorem ccs__CageFacePoints_Gather_face_eq (cage : cc_Mesh) (fuel : Nat) (faceID : Int) :
    ccs__CageFacePoints_Gather_face cage fuel faceID =
      (ccm_FaceToHalfedgeID cage faceID).bind (fun halfedgeID =>
        (ccs__CageFacePoints_Gather_walk cage fuel halfedgeID).map
          (fun r => cc__Mul3f r.2.1 (1 / r.2.2))) := by
  unfold ccs__CageFacePoints_Gather_face ccs__CageFacePoints_Gather_walk
  cases ccm_FaceToHalfedgeID cage faceID with
  | none => rfl
  | some h =>
    simp only [Option.bind_eq_bind, Option.some_bind]
    cases ccm_HalfedgeVertexPoint cage h with
    | none => rfl
    | some p =>
      simp only [Option.some_bind]
      cases ccm_HalfedgeNextID cage h with
      | none => rfl
      | some s =>
        simp only [Option.some_bind]
        cases forLoop (fun halfedgeIt => decide (halfedgeIt ≠ h))
          (fun halfedgeIt (acc : cc_VertexPoint × ℚ) =>
            (ccm_HalfedgeVertexPoint cage halfedgeIt).bind (fun vertexPoint =>
              (ccm_HalfedgeNextID cage halfedgeIt).bind (fun next =>
                some (next, cc__Add3f acc.1 vertexPoint, acc.2 + 1)))) fuel s (p, 1) with
        | none => rfl
        | some r => rfl

/-- The loop around the vertex of `ccs__CageVertexPoints_Gather` for the
halfedge `halfedgeID` of a vertex: the value of `iterator` at the exit of the
loop, and the local variables `smoothPoint` and `valence`. -/
def ccs__CageVertexPoints_Gather_walk (cage : cc_Mesh) (vertexCount faceCount : Int)
    (points : List cc_VertexPoint) (fuel : Nat) (halfedgeID : Int) :
    Option (Int × cc_VertexPoint × ℚ) := do
  let edgeID ← ccm_HalfedgeEdgeID cage halfedgeID
  let faceID ← ccm_HalfedgeFaceID cage halfedgeID
  let newEdgePoint ← readAt points (vertexCount + faceCount + edgeID)
  let newFacePoint ← readAt points (vertexCount + faceID)
  let valence : ℚ := 1
  let tmp1 := cc__Mul3f newFacePoint (-1)
  let tmp2 := cc__Mul3f newEdgePoint 4
  let smoothPoint := cc__Add3f tmp1 tmp2
  let start ← ccm_PrevVertexHalfedgeID cage halfedgeID
  forLoop (fun iterator => decide (iterator ≥ 0) && decide (iterator ≠ halfedgeID))
    (ccs__CageVertexPoints_Gather_ring cage vertexCount faceCount points)
    fuel start (smoothPoint, valence)

theorem mem_ccm_FaceHalfedges (cage : cc_Mesh) (f g : Int) :
    g ∈ ccm_FaceHalfedges cage f ↔
      0 ≤ g ∧ g < (ccm_HalfedgeCount cage : Int) ∧ ccm_HalfedgeFaceID cage g = some f := by
  unfold ccm_FaceHalfedges
  simp only [List.mem_map, List.mem_filter, List.mem_range, decide_eq_true_eq]
  constructor
  · rintro ⟨i, ⟨hi, hf⟩, rfl⟩
    exact ⟨by simp, by simpa using hi, hf⟩
  · rintro ⟨g0, g1, hf⟩
    refine ⟨g.toNat, ⟨by omega, ?_⟩, by simp [g0]⟩
    have : ((g.toNat : Nat) : Int) = g := by omega
    rw [this]
    exact hf

theorem ccm_FaceHalfedges_nodup (cage : cc_Mesh) (f : Int) : (ccm_FaceHalfedges cage f).Nodup := by
  unfold ccm_FaceHalfedges
  apply List.Nodup.map
  · intro a b h
    exact Int.ofNat.inj h
  · exact List.Nodup.filter _ (List.nodup_range _)

theorem mem_ccm_VertexHalfedges_iff (cage : cc_Mesh) (v g : Int) :
    g ∈ ccm_VertexHalfedges cage v ↔
      0 ≤ g ∧ g < (ccm_HalfedgeCount cage : Int) ∧ ccm_HalfedgeVertexID cage g = some v := by
  unfold ccm_VertexHalfedges
  simp only [List.mem_map, List.mem_filter, List.mem_range, decide_eq_true_eq]
  constructor
  · rintro ⟨i, ⟨hi, hf⟩, rfl⟩
    exact ⟨by simp, by simpa using hi, hf⟩
  · rintro ⟨g0, g1, hf⟩
    refine ⟨g.toNat, ⟨by omega, ?_⟩, by simp [g0]⟩
    have : ((g.toNat : Nat) : Int) = g := by omega
    rw [this]
    exact hf

theorem ccm_VertexHalfedges_nodup (cage : cc_Mesh) (v : Int) :
    (ccm_VertexHalfedges cage v).Nodup := by
  unfold ccm_VertexHalfedges
  apply List.Nodup.map
  · intro a b h
    exact Int.ofNat.inj h
  · exact List.Nodup.filter _ (List.nodup_range _)

/-- Two lists without repetition that have the same entries have the same
length. -/
theorem length_eq_of_nodup_of_mem_iff (l1 l2 : List Int) (h1 : l1.Nodup) (h2 : l2.Nodup)
    (h : ∀ g, g ∈ l1 ↔ g ∈ l2) : l1.length = l2.length :=
  ((List.perm_ext_iff_of_nodup h1 h2).mpr h).length_eq

/-- A halfedge of the cage that `ccm_HalfedgeNextID` reads is a halfedge of the
cage. -/
theorem cage_next_range_of_some (cage : cc_Mesh) (x y : Int)
    (h : ccm_HalfedgeNextID cage x = some y) : 0 ≤ x ∧ x < (ccm_HalfedgeCount cage : Int) :=
  readAt_map_some_range _ _ _ _ h

/-- A halfedge of the cage from which `ccm_PrevVertexHalfedgeID` rotates is a
halfedge of the cage. -/
theorem cage_forward_range_of_some (cage : cc_Mesh) (x y : Int)
    (h : ccm_PrevVertexHalfedgeID cage x = some y) :
    0 ≤ x ∧ x < (ccm_HalfedgeCount cage : Int) := by
  unfold ccm_PrevVertexHalfedgeID at h
  obtain ⟨p, hp, _⟩ := Option.bind_eq_some.mp h
  exact readAt_map_some_range _ _ _ _ hp

/-- On a valid manifold cage, the inner loop of `ccs__CageFacePoints_Gather`
from the halfedge `h0` of the face `f` comes back to `h0` within `H0` steps
after it has visited every halfedge of the face once. -/
theorem cage_face_walk (cage : cc_Mesh) (fuel : Nat) (hv : ccm_Valid cage)
    (hm : ccm_Manifold cage) (hf : ccm_HalfedgeCount cage ≤ fuel + 1) (f : Nat) (h0 : Int)
    (r0 : 0 ≤ h0) (r1 : h0 < (ccm_HalfedgeCount cage : Int))
    (hface : ccm_HalfedgeFaceID cage h0 = some (f : Int)) :
    ∃ (ring : List Int) (sum : cc_VertexPoint),
      ccm_HalfedgeRing cage fuel h0 = some ring ∧ ring.Nodup ∧
      (∀ g : Int, g ∈ ring ↔ g ∈ ccm_FaceHalfedges cage f) ∧
      ccs__CageFacePoints_Gather_walk cage fuel h0
        = some (h0, sum, ((ccm_FaceHalfedges cage f).length : ℚ)) := by
  obtain ⟨hnp, htw, _, hcov, _, hp, _⟩ := hv
  obtain ⟨hkf, _, _, _, hconn, _⟩ := hm
  have hP := cageParent_valid cage hnp htw
  obtain ⟨r, hr1, hr2⟩ := ccm_HalfedgeRing_total cage hP fuel hf h0 r0 r1
  have hstart := cage_next_eq cage h0 r0 r1
  have hring := hr1
  unfold ccm_HalfedgeRing at hr1
  rw [hstart] at hr1
  simp only [Option.bind_eq_bind, Option.some_bind] at hr1
  obtain ⟨w, hw, hwr⟩ := Option.bind_eq_some.mp hr1
  obtain ⟨ring1, last⟩ := w
  simp only [Option.some.injEq] at hwr
  subst hwr
  have hlast : last = h0 := by
    have := (ringWalk_mem _ _ fuel _ ring1 last hw).2
    simpa using this
  subst hlast
  have hinj : ∀ x x' y : Int, ccm_HalfedgeNextID cage x = some y →
      ccm_HalfedgeNextID cage x' = some y → x = x' := by
    intro x x' y e1 e2
    obtain ⟨a0, a1⟩ := cage_next_range_of_some cage x y e1
    obtain ⟨b0, b1⟩ := cage_next_range_of_some cage x' y e2
    rw [cage_next_eq cage x a0 a1] at e1
    rw [cage_next_eq cage x' b0 b1] at e2
    exact hP.next_inj x x' a0 a1 b0 b1 ((Option.some.inj e1).trans (Option.some.inj e2).symm)
  have hnd : (last :: ring1).Nodup :=
    ringWalk_nodup (ccm_HalfedgeNextID cage) (fun halfedgeIt => decide (halfedgeIt ≠ last)) last
      (by simp) (fun x x' y _ e1 e2 => hinj x x' y e1 e2) fuel _ hstart ring1 last hw
  obtain ⟨hcl, _⟩ := ringWalk_closed (ccm_HalfedgeNextID cage) _ fuel last _ hstart ring1 hw
  have hmem : ∀ g : Int, g ∈ last :: ring1 ↔ g ∈ ccm_FaceHalfedges cage f := by
    intro g
    rw [mem_ccm_FaceHalfedges]
    constructor
    · intro hg
      obtain ⟨g0, g1⟩ := hr2 g hg
      refine ⟨g0, g1, ?_⟩
      have hq := ringWalk_forall (ccm_HalfedgeNextID cage)
        (fun halfedgeIt => decide (halfedgeIt ≠ last))
        (fun x => ccm_HalfedgeFaceID cage x = some (f : Int))
        (by
          intro a b qa _ hs
          obtain ⟨a0, a1⟩ := cage_next_range_of_some cage a b hs
          have hc : ((a.toNat : Nat) : Int) = a := by omega
          have := hkf a.toNat (by omega)
          rw [hc, hs, Option.some_bind, qa] at this
          exact this)
        fuel _ ring1 last hw
        (by
          have hc : ((last.toNat : Nat) : Int) = last := by omega
          have := hkf last.toNat (by omega)
          rw [hc, hstart, Option.some_bind, hface] at this
          exact this)
      rcases List.mem_cons.mp hg with rfl | hg
      · exact hface
      · exact hq.1 g hg
    · rintro ⟨g0, g1, hg⟩
      have hc0 : ((last.toNat : Nat) : Int) = last := by omega
      have hcg : ((g.toNat : Nat) : Int) = g := by omega
      obtain ⟨k, _, hk⟩ := hconn last.toNat (by omega) g.toNat (by omega)
        (by rw [hc0, hcg, hface, hg])
      rw [hc0, hcg] at hk
      exact stepIterate_mem (ccm_HalfedgeNextID cage) (last :: ring1) hcl k last g
        (List.mem_cons_self _ _) hk
  have hlen := length_eq_of_nodup_of_mem_iff _ _ hnd (ccm_FaceHalfedges_nodup cage f) hmem
  have hpt : ∀ g ∈ last :: ring1, ccm_HalfedgeVertexPoint cage g
      = some ((ccm_HalfedgeVertexPoint cage g).getD default) := by
    intro g hg
    obtain ⟨g0, g1⟩ := hr2 g hg
    have := cage_vertexPoint_isSome cage hcov hp g g0 g1
    cases hx : ccm_HalfedgeVertexPoint cage g with
    | none => simp [hx] at this
    | some x => simp
  have hl := forLoop_of_ringWalk (ccm_HalfedgeNextID cage)
    (fun halfedgeIt => decide (halfedgeIt ≠ last))
    (fun halfedgeIt (acc : cc_VertexPoint × ℚ) =>
      (ccm_HalfedgeVertexPoint cage halfedgeIt).bind (fun vertexPoint =>
        (ccm_HalfedgeNextID cage halfedgeIt).bind (fun next =>
          some (next, cc__Add3f acc.1 vertexPoint, acc.2 + 1))))
    (fun h (s : cc_VertexPoint × ℚ) =>
      (cc__Add3f s.1 ((ccm_HalfedgeVertexPoint cage h).getD default), s.2 + 1))
    fuel _ ring1 last
    ((ccm_HalfedgeVertexPoint cage last).getD default, 1) hw
    (by
      intro h hh nxt s' hst
      beta_reduce
      rw [hpt h (List.mem_cons_of_mem _ hh), hst]
      simp)
  refine ⟨last :: ring1, (ccm_HalfedgeVertexPoint cage last).getD default
    + (ring1.map (fun h => (ccm_HalfedgeVertexPoint cage h).getD default)).sum,
    hring, hnd, hmem, ?_⟩
  unfold ccs__CageFacePoints_Gather_walk
  rw [hpt last (List.mem_cons_self _ _), hstart]
  simp only [Option.bind_eq_bind, Option.some_bind]
  rw [hl, foldl_sum_count, ← hlen]
  simp only [List.length_cons, Nat.cast_add, Nat.cast_one, Option.some.injEq, Prod.mk.injEq,
    true_and]
  exact ⟨rfl, by ring⟩

/-- On a valid manifold cage, the loop around the vertex of
`ccs__CageVertexPoints_Gather` from a halfedge `h0` of the vertex `v` exits
within `H0` steps without visiting a halfedge twice, either back at `h0`, after
it has visited every halfedge of the vertex once, or at a negative value. -/
theorem cage_vertex_walk (cage : cc_Mesh) (fuel : Nat) (hv : ccm_Valid cage)
    (hm : ccm_Manifold cage) (hf : ccm_HalfedgeCount cage ≤ fuel + 1)
    (points : List cc_VertexPoint)
    (hpl : ccm_VertexCount cage + ccm_FaceCount cage + ccm_EdgeCount cage ≤ points.length)
    (v : Nat) (h0 : Int) (r0 : 0 ≤ h0) (r1 : h0 < (ccm_HalfedgeCount cage : Int))
    (hvert : ccm_HalfedgeVertexID cage h0 = some (v : Int)) :
    ∃ (ring : List Int) (last : Int) (smoothPoint : cc_VertexPoint),
      ccm_VertexRing cage fuel h0 = some (ring, last) ∧ ring.Nodup ∧
      ccs__CageVertexPoints_Gather_walk cage (ccm_VertexCount cage) (ccm_FaceCount cage) points
        fuel h0 = some (last, smoothPoint, (ring.length : ℚ)) ∧
      ((last = h0 ∧ (∀ g : Int, g ∈ ring ↔ g ∈ ccm_VertexHalfedges cage v) ∧
          ring.length = (ccm_VertexHalfedges cage v).length) ∨ last < 0) := by
  obtain ⟨hnp, htw, _, hcov, _, _, _⟩ := hv
  obtain ⟨hkf, hor, _, _, _, hconn⟩ := hm
  have hP := cageParent_valid cage hnp htw
  have hO := cageParent_oriented cage hnp htw hkf hor
  obtain ⟨r, hr1, hr2⟩ := ccm_VertexRing_total cage hP fuel hf h0 r0 r1
  have hstart := cage_forward_eq cage hP h0 r0 r1
  have hring := hr1
  unfold ccm_VertexRing at hr1
  rw [hstart] at hr1
  simp only [Option.bind_eq_bind, Option.some_bind] at hr1
  obtain ⟨w, hw, hwr⟩ := Option.bind_eq_some.mp hr1
  obtain ⟨ring1, last⟩ := w
  simp only [Option.some.injEq] at hwr
  subst hwr
  simp only at hr2 hring
  have hexit : last < 0 ∨ last = h0 := by
    have := (ringWalk_mem _ _ fuel _ ring1 last hw).2
    simp only [Bool.and_eq_false_imp, decide_eq_true_eq, decide_eq_false_iff_not,
      ne_eq, not_not] at this
    by_cases c : 0 ≤ last
    · exact Or.inr (this c)
    · exact Or.inl (by omega)
  have hinj : ∀ x x' y : Int, 0 ≤ y → ccm_PrevVertexHalfedgeID cage x = some y →
      ccm_PrevVertexHalfedgeID cage x' = some y → x = x' := by
    intro x x' y hy e1 e2
    obtain ⟨a0, a1⟩ := cage_forward_range_of_some cage x y e1
    obtain ⟨b0, b1⟩ := cage_forward_range_of_some cage x' y e2
    rw [cage_forward_eq cage hP x a0 a1] at e1
    rw [cage_forward_eq cage hP x' b0 b1] at e2
    exact hP.forward_inj x x' y a0 a1 b0 b1 hy (Option.some.inj e1) (Option.some.inj e2)
  have hnd : (h0 :: ring1).Nodup :=
    ringWalk_nodup (ccm_PrevVertexHalfedgeID cage)
      (fun iterator => decide (iterator ≥ 0) && decide (iterator ≠ h0)) h0 (by simp)
      (fun x x' y c e1 e2 => by
        simp only [Bool.and_eq_true, decide_eq_true_eq] at c
        exact hinj x x' y c.1 e1 e2)
      fuel _ hstart ring1 last hw
  -- the reads of the loop
  have hreads : ∀ g : Int, 0 ≤ g → g < (ccm_HalfedgeCount cage : Int) →
      ccm_HalfedgeNewEdgePoint cage points g
        = some ((ccm_HalfedgeNewEdgePoint cage points g).getD default) ∧
      ccm_HalfedgeNewFacePoint cage points g
        = some ((ccm_HalfedgeNewFacePoint cage points g).getD default) := by
    intro g g0 g1
    obtain ⟨_, ⟨c, d⟩, ⟨e, f⟩⟩ := cage_ids_range cage hcov g g0 g1
    have i1 := readAt_isSome points
      ((ccm_VertexCount cage : Int) + (ccm_FaceCount cage : Int) + (cageParent cage).edge g)
      (by omega) (by omega)
    have i2 := readAt_isSome points ((ccm_VertexCount cage : Int) + (cageParent cage).face g)
      (by omega) (by omega)
    obtain ⟨Ep, hE⟩ := Option.isSome_iff_exists.mp i1
    obtain ⟨Fp, hF⟩ := Option.isSome_iff_exists.mp i2
    unfold ccm_HalfedgeNewEdgePoint ccm_HalfedgeNewFacePoint
    rw [cage_edge_eq cage g g0 g1, cage_face_eq cage g g0 g1]
    simp only [Option.some_bind, hE, hF, Option.getD_some, and_self]
  have hbody : ∀ g : Int, 0 ≤ g → g < (ccm_HalfedgeCount cage : Int) →
      ∀ (nxt : Int) (s : cc_VertexPoint × ℚ),
        ccm_PrevVertexHalfedgeID cage g = some nxt →
        ccs__CageVertexPoints_Gather_ring cage (ccm_VertexCount cage) (ccm_FaceCount cage)
          points g s = some (nxt, (cc__Add3f (cc__Add3f s.1
              (cc__Mul3f ((ccm_HalfedgeNewFacePoint cage points g).getD default) (-1)))
            (cc__Mul3f ((ccm_HalfedgeNewEdgePoint cage points g).getD default) 4), s.2 + 1)) := by
    intro g g0 g1 nxt s hst
    obtain ⟨a, b⟩ := hreads g g0 g1
    generalize (ccm_HalfedgeNewEdgePoint cage points g).getD default = Ep at a ⊢
    generalize (ccm_HalfedgeNewFacePoint cage points g).getD default = Fp at b ⊢
    unfold ccm_HalfedgeNewEdgePoint at a
    unfold ccm_HalfedgeNewFacePoint at b
    obtain ⟨e, a1, a2⟩ := Option.bind_eq_some.mp a
    obtain ⟨f, b1, b2⟩ := Option.bind_eq_some.mp b
    unfold ccs__CageVertexPoints_Gather_ring
    simp only [a1, b1, a2, b2, hst, Option.bind_eq_bind, Option.some_bind]
  have hl := forLoop_of_ringWalk (ccm_PrevVertexHalfedgeID cage)
    (fun iterator => decide (iterator ≥ 0) && decide (iterator ≠ h0))
    (ccs__CageVertexPoints_Gather_ring cage (ccm_VertexCount cage) (ccm_FaceCount cage) points)
    (fun g (s : cc_VertexPoint × ℚ) =>
      (cc__Add3f (cc__Add3f s.1
          (cc__Mul3f ((ccm_HalfedgeNewFacePoint cage points g).getD default) (-1)))
        (cc__Mul3f ((ccm_HalfedgeNewEdgePoint cage points g).getD default) 4), s.2 + 1))
    fuel _ ring1 last
    (cc__Add3f (cc__Mul3f ((ccm_HalfedgeNewFacePoint cage points h0).getD default) (-1))
      (cc__Mul3f ((ccm_HalfedgeNewEdgePoint cage points h0).getD default) 4), 1) hw
    (by
      intro g hg nxt s hst
      obtain ⟨g0, g1⟩ := hr2 g (List.mem_cons_of_mem _ hg)
      exact hbody g g0 g1 nxt s hst)
  rw [foldl_vertex_ring (fun g => (ccm_HalfedgeNewEdgePoint cage points g).getD default)
    (fun g => (ccm_HalfedgeNewFacePoint cage points g).getD default)] at hl
  have hwalk : ccs__CageVertexPoints_Gather_walk cage (ccm_VertexCount cage)
      (ccm_FaceCount cage) points fuel h0
      = some (last, cc__Add3f
          (cc__Mul3f ((ccm_HalfedgeNewFacePoint cage points h0).getD default) (-1))
          (cc__Mul3f ((ccm_HalfedgeNewEdgePoint cage points h0).getD default) 4)
        + (ring1.map (fun g => (4 : ℚ) • (ccm_HalfedgeNewEdgePoint cage points g).getD default
            - (ccm_HalfedgeNewFacePoint cage points g).getD default)).sum,
        (((h0 :: ring1).length : Nat) : ℚ)) := by
    obtain ⟨a, b⟩ := hreads h0 r0 r1
    generalize (ccm_HalfedgeNewEdgePoint cage points h0).getD default = Ep at a hl ⊢
    generalize (ccm_HalfedgeNewFacePoint cage points h0).getD default = Fp at b hl ⊢
    unfold ccm_HalfedgeNewEdgePoint at a
    unfold ccm_HalfedgeNewFacePoint at b
    obtain ⟨e, a1, a2⟩ := Option.bind_eq_some.mp a
    obtain ⟨f, b1, b2⟩ := Option.bind_eq_some.mp b
    unfold ccs__CageVertexPoints_Gather_walk
    simp only [a1, b1, a2, b2, hstart, Option.bind_eq_bind, Option.some_bind]
    rw [hl]
    simp only [List.length_cons, Nat.cast_add, Nat.cast_one, Option.some.injEq, Prod.mk.injEq,
      true_and]
    ring
  refine ⟨h0 :: ring1, last, _, hring, hnd, hwalk, ?_⟩
  rcases hexit with hneg | hback
  · exact Or.inr hneg
  · left
    subst hback
    obtain ⟨hcl, hcl2⟩ := ringWalk_closed (ccm_PrevVertexHalfedgeID cage) _ fuel last _ hstart
      ring1 hw
    have hkeep : ∀ a b : Int, 0 ≤ a → ccm_HalfedgeVertexID cage a = some (v : Int) →
        ccm_PrevVertexHalfedgeID cage a = some b → 0 ≤ b →
        ccm_HalfedgeVertexID cage b = some (v : Int) := by
      intro a b a0 qa hs hb
      obtain ⟨_, a1⟩ := cage_forward_range_of_some cage a b hs
      rw [cage_forward_eq cage hP a a0 a1] at hs
      have hb' := Option.some.inj hs
      obtain ⟨p0, p1⟩ := hP.prev_range a a0 a1
      have ht : 0 ≤ (cageParent cage).twin ((cageParent cage).prev a) := by rw [hb']; exact hb
      have e := hO.vertex_twin _ p0 p1 ht
      rw [hP.next_prev a a0 a1, hb'] at e
      have b1 : b < (ccm_HalfedgeCount cage : Int) := by
        have := hP.twin_lt _ p0 p1
        rw [hb'] at this
        exact this
      rw [cage_vertex_eq cage b hb b1, e]
      rw [cage_vertex_eq cage a a0 a1] at qa
      exact qa
    have hmem : ∀ g : Int, g ∈ last :: ring1 ↔ g ∈ ccm_VertexHalfedges cage v := by
      intro g
      rw [mem_ccm_VertexHalfedges_iff]
      constructor
      · intro hg
        obtain ⟨g0, g1⟩ := hr2 g hg
        refine ⟨g0, g1, ?_⟩
        have hq := ringWalk_forall (ccm_PrevVertexHalfedgeID cage)
          (fun iterator => decide (iterator ≥ 0) && decide (iterator ≠ last))
          (fun x => 0 ≤ x → ccm_HalfedgeVertexID cage x = some (v : Int))
          (by
            intro a b qa c hs hb
            simp only [Bool.and_eq_true, decide_eq_true_eq] at c
            exact hkeep a b c.1 (qa c.1) hs hb)
          fuel _ ring1 last hw
          (fun hb => hkeep last _ r0 hvert hstart hb)
        rcases List.mem_cons.mp hg with rfl | hg'
        · exact hvert
        · exact hq.1 g hg' g0
      · rintro ⟨g0, g1, hg⟩
        have hc0 : ((last.toNat : Nat) : Int) = last := by omega
        have hcg : ((g.toNat : Nat) : Int) = g := by omega
        obtain ⟨k, _, hk⟩ := hconn last.toNat (by omega) g.toNat (by omega)
          (by rw [hc0, hcg, hvert, hg])
        rw [hc0, hcg] at hk
        rcases hk with hk | hk
        · exact stepIterate_mem (ccm_PrevVertexHalfedgeID cage) (last :: ring1) hcl k last g
            (List.mem_cons_self _ _) hk
        · exact stepIterate_mem_back (ccm_PrevVertexHalfedgeID cage) (last :: ring1) hcl2
            (fun x x' y hy e1 e2 => hinj x x' y (hr2 y hy).1 e1 e2) k g last
            (List.mem_cons_self _ _) hk
    exact ⟨rfl, hmem,
      length_eq_of_nodup_of_mem_iff _ _ hnd (ccm_VertexHalfedges_nodup cage v) hmem⟩

/-- C36: on a valid cage the ring walks terminate.  The cage satisfies the
invariants of the data model (`ccm_Valid`) and is a manifold mesh
(`ccm_Manifold`: the halfedges of a face are one ring of `next`, the halfedges
of a vertex one fan of the rotation), and the loops may run for `H0 - 1`
iterations.  First part: for every face `f`, the inner loop of
`ccs__CageFacePoints_Gather` from the halfedge `h0` of the face exits with its
iterator back at `h0`; the halfedges `ring` it has visited, `h0` first, are
distinct and are exactly the halfedges of the face, and `faceVertexCount` is the
number of halfedges of the face.  Second part: for every vertex `v`, the loop
around the vertex of `ccs__CageVertexPoints_Gather` from the halfedge `h0` of
the vertex exits without visiting a halfedge twice, with `valence` the number
of halfedges visited, either with its iterator back at `h0` (closed ring: the
halfedges visited are exactly the halfedges whose origin is `v`, and `valence`
is their number) or with a negative iterator (open ring). -/
theorem C36_ring_walks_terminate (cage : cc_Mesh) (fuel : Nat) (hv : ccm_Valid cage)
    (hm : ccm_Manifold cage) (hf : ccm_HalfedgeCount cage ≤ fuel + 1) :
    (∀ f : Nat, f < ccm_FaceCount cage →
      ∃ (h0 : Int) (ring : List Int) (sum : cc_VertexPoint),
        ccm_FaceToHalfedgeID cage f = some h0 ∧
        ccm_HalfedgeRing cage fuel h0 = some ring ∧ ring.Nodup ∧
        (∀ g : Int, g ∈ ring ↔ g ∈ ccm_FaceHalfedges cage f) ∧
        ccs__CageFacePoints_Gather_walk cage fuel h0
          = some (h0, sum, ((ccm_FaceHalfedges cage f).length : ℚ))) ∧
    (∀ points : List cc_VertexPoint,
      ccm_VertexCount cage + ccm_FaceCount cage + ccm_EdgeCount cage ≤ points.length →
      ∀ v : Nat, v < ccm_VertexCount cage →
      ∃ (h0 : Int) (ring : List Int) (last : Int) (smoothPoint : cc_VertexPoint),
        ccm_VertexToHalfedgeID cage v = some h0 ∧
        ccm_VertexRing cage fuel h0 = some (ring, last) ∧ ring.Nodup ∧
        ccs__CageVertexPoints_Gather_walk cage (ccm_VertexCount cage) (ccm_FaceCount cage)
          points fuel h0 = some (last, smoothPoint, (ring.length : ℚ)) ∧
        ((last = h0 ∧ (∀ g : Int, g ∈ ring ↔ g ∈ ccm_VertexHalfedges cage v) ∧
            ring.length = (ccm_VertexHalfedges cage v).length) ∨ last < 0)) := by
  have ht := hv.2.2.2.2.2.2
  constructor
  · intro f hf'
    obtain ⟨h0, hh, hface⟩ := hm.2.2.1 f hf'
    obtain ⟨h0', hh', r0, r1⟩ := ht.2.2 f hf'
    have : h0' = h0 := Option.some.inj ((Option.mem_def.mp hh').symm.trans (Option.mem_def.mp hh))
    subst this
    obtain ⟨ring, sum, a, b, c, d⟩ := cage_face_walk cage fuel hv hm hf f h0' r0 r1 hface
    exact ⟨h0', ring, sum, hh, a, b, c, d⟩
  · intro points hpl v hv'
    obtain ⟨h0, hh, hvert⟩ := hm.2.2.2.1 v hv'
    obtain ⟨h0', hh', r0, r1⟩ := ht.1 v hv'
    have : h0' = h0 := Option.some.inj ((Option.mem_def.mp hh').symm.trans (Option.mem_def.mp hh))
    subst this
    obtain ⟨ring, last, sp, a, b, c, d⟩ :=
      cage_vertex_walk cage fuel hv hm hf points hpl v h0' r0 r1 hvert
    exact ⟨h0', ring, last, sp, hh, a, b, c, d⟩

/-- C36, witness: the closed cage `pillow` (two triangles glued along their
three edges) is valid and manifold, and its loops may run for 5 iterations. -/
theorem C36_ring_walks_terminate_witness :
    ccm_Valid pillow ∧ ccm_Manifold pillow ∧
    (∀ f : Nat, f < ccm_FaceCount pillow →
      ∃ (h0 : Int) (ring : List Int) (sum : cc_VertexPoint),
        ccm_FaceToHalfedgeID pillow f = some h0 ∧
        ccm_HalfedgeRing pillow 5 h0 = some ring ∧ ring.Nodup ∧
        (∀ g : Int, g ∈ ring ↔ g ∈ ccm_FaceHalfedges pillow f) ∧
        ccs__CageFacePoints_Gather_walk pillow 5 h0
          = some (h0, sum, ((ccm_FaceHalfedges pillow f).length : ℚ))) ∧
    (∀ points : List cc_VertexPoint,
      ccm_VertexCount pillow + ccm_FaceCount pillow + ccm_EdgeCount pillow ≤ points.length →
      ∀ v : Nat, v < ccm_VertexCount pillow →
      ∃ (h0 : Int) (ring : List Int) (last : Int) (smoothPoint : cc_VertexPoint),
        ccm_VertexToHalfedgeID pillow v = some h0 ∧
        ccm_VertexRing pillow 5 h0 = some (ring, last) ∧ ring.Nodup ∧
        ccs__CageVertexPoints_Gather_walk pillow (ccm_VertexCount pillow) (ccm_FaceCount pillow)
          points 5 h0 = some (last, smoothPoint, (ring.length : ℚ)) ∧
        ((last = h0 ∧ (∀ g : Int, g ∈ ring ↔ g ∈ ccm_VertexHalfedges pillow v) ∧
            ring.length = (ccm_VertexHalfedges pillow v).length) ∨ last < 0)) :=
  ⟨by decide, by decide,
    C36_ring_walks_terminate pillow 5 (by decide) (by decide) (by decide)⟩

/-! ## C34: the texture coordinates of the children -/

/-- The effect of the four assignments of one iteration of a UV kernel on the
slot `j` whose content was `old`. -/
def newUvs_slot (h : Nat) (uvIDs : Int × Int × Int × Int) (j : Nat)
    (old : cc_Halfedge_SemiRegular) : cc_Halfedge_SemiRegular :=
  if j = 4 * h then { old with uvID := uvIDs.1 }
  else if j = 4 * h + 1 then { old with uvID := uvIDs.2.1 }
  else if j = 4 * h + 2 then { old with uvID := uvIDs.2.2.1 }
  else if j = 4 * h + 3 then { old with uvID := uvIDs.2.2.2 }
  else old

theorem writeNewUvs_spec (out : List cc_Halfedge_SemiRegular) (h : Nat)
    (uvIDs : Int × Int × Int × Int) (hlen : 4 * h + 3 < out.length) :
    ∃ out', writeNewUvs out (h : Int) uvIDs = some out' ∧ out'.length = out.length ∧
      ∀ j, out'[j]? = (out[j]?).map (newUvs_slot h uvIDs j) := by
  have e0 : (4 * (h : Int) + 0) = ((4 * h : Nat) : Int) := by push_cast; ring
  have e1 : (4 * (h : Int) + 1) = ((4 * h + 1 : Nat) : Int) := by push_cast; ring
  have e2 : (4 * (h : Int) + 2) = ((4 * h + 2 : Nat) : Int) := by push_cast; ring
  have e3 : (4 * (h : Int) + 3) = ((4 * h + 3 : Nat) : Int) := by push_cast; ring
  unfold writeNewUvs setUvID
  rw [e0, e1, e2, e3]
  simp only [Option.bind_eq_bind]
  rw [writeAt_natCast _ _ _ (by omega)]
  simp only [Option.some_bind]
  iterate 2
    rw [writeAt_natCast _ _ _ (by simp only [List.length_modify]; omega)]
    simp only [Option.some_bind]
  rw [writeAt_natCast _ _ _ (by simp only [List.length_modify]; omega)]
  refine ⟨_, rfl, by simp only [List.length_modify], ?_⟩
  intro j
  simp only [List.getElem?_modify, Option.map_eq_map, Option.map_map]
  cases hj : out[j]? with
  | none => simp
  | some old =>
    simp only [Option.map_some', Function.comp_apply, newUvs_slot]
    by_cases c0 : j = 4 * h
    · subst c0; simp
    · by_cases c1 : j = 4 * h + 1
      · subst c1; simp
      · by_cases c2 : j = 4 * h + 2
        · subst c2; simp
        · by_cases c3 : j = 4 * h + 3
          · subst c3; simp
          · have d0 : ¬ (4 * h = j) := fun hh => c0 hh.symm
            have d1 : ¬ (4 * h + 1 = j) := fun hh => c1 hh.symm
            have d2 : ¬ (4 * h + 2 = j) := fun hh => c2 hh.symm
            have d3 : ¬ (4 * h + 3 = j) := fun hh => c3 hh.symm
            simp [c0, c1, c2, c3, d0, d1, d2, d3]

theorem newUvs_slot_other (h : Nat) (uvIDs : Int × Int × Int × Int) (j : Nat)
    (old : cc_Halfedge_SemiRegular) (hj : j / 4 ≠ h) : newUvs_slot h uvIDs j old = old := by
  unfold newUvs_slot
  have c0 : ¬ (j = 4 * h) := by omega
  have c1 : ¬ (j = 4 * h + 1) := by omega
  have c2 : ¬ (j = 4 * h + 2) := by omega
  have c3 : ¬ (j = 4 * h + 3) := by omega
  simp [c0, c1, c2, c3]

/-- The array `out'` is the array `out` after the loop of a UV kernel over `H`
parent halfedges, whose iteration `h` assigns the four values `U h`. -/
def UvRefined (H : Nat) (U : Nat → Int × Int × Int × Int)
    (out out' : List cc_Halfedge_SemiRegular) : Prop :=
  4 * H ≤ out.length ∧ out'.length = out.length ∧
    ∀ j, out'[j]? = (out[j]?).map
      (fun old => if j < 4 * H then newUvs_slot (j / 4) (U (j / 4)) j old else old)

/-- The loop of a UV kernel whose iterations read inside of the arrays. -/
theorem uv_loop_spec (reads : Nat → Option (Int × Int × Int × Int)) (H : Nat)
    (out : List cc_Halfedge_SemiRegular) (hlen : 4 * H ≤ out.length)
    (hr : ∀ h, h < H → (reads h).isSome = true) :
    ∃ out', (List.range H).foldlM
        (fun o (h : Nat) => (reads h).bind (fun uvIDs => writeNewUvs o (h : Int) uvIDs)) out
        = some out' ∧
      UvRefined H (fun h => (reads h).getD default) out out' := by
  obtain ⟨o, e1, e2, e3⟩ := foldlM_blocks
    (fun o (h : Nat) => (reads h).bind (fun uvIDs => writeNewUvs o (h : Int) uvIDs))
    (fun h j => newUvs_slot h ((reads h).getD default) j) H out
    (fun h hh o ho => by
      obtain ⟨u, hu⟩ := Option.isSome_iff_exists.mp (hr h hh)
      obtain ⟨o', a, b, c⟩ := writeNewUvs_spec o h u (by omega)
      refine ⟨o', ?_, b, ?_⟩
      · simp only [hu, Option.some_bind]
        exact a
      · simp only [hu, Option.getD_some]
        exact c)
    (fun h j old hj => newUvs_slot_other h _ j old hj) H (le_refl _)
  exact ⟨o, e1, hlen, e2, e3⟩

/-- The `uvID` of the four children of a parent halfedge after the loop of a UV
kernel. -/
theorem UvRefined.uvSlots {H : Nat} {U : Nat → Int × Int × Int × Int}
    {out out' : List cc_Halfedge_SemiRegular} (hr : UvRefined H U out out') (h : Nat)
    (hh : h < H) :
    (out'[4 * h]?).map (fun r => r.uvID) = some (U h).1 ∧
    (out'[4 * h + 1]?).map (fun r => r.uvID) = some (U h).2.1 ∧
    (out'[4 * h + 2]?).map (fun r => r.uvID) = some (U h).2.2.1 ∧
    (out'[4 * h + 3]?).map (fun r => r.uvID) = some (U h).2.2.2 := by
  obtain ⟨hlen, _, hj⟩ := hr
  have l0 : 4 * h < out.length := by omega
  have l1 : 4 * h + 1 < out.length := by omega
  have l2 : 4 * h + 2 < out.length := by omega
  have l3 : 4 * h + 3 < out.length := by omega
  have d0 : 4 * h / 4 = h := by omega
  have d1 : (4 * h + 1) / 4 = h := by omega
  have d2 : (4 * h + 2) / 4 = h := by omega
  have d3 : (4 * h + 3) / 4 = h := by omega
  have c0 : 4 * h < 4 * H := by omega
  have c1 : 4 * h + 1 < 4 * H := by omega
  have c2 : 4 * h + 2 < 4 * H := by omega
  have c3 : 4 * h + 3 < 4 * H := by omega
  refine ⟨?_, ?_, ?_, ?_⟩
  · rw [hj, List.getElem?_eq_getElem l0]
    simp [newUvs_slot, d0, c0]
  · rw [hj, List.getElem?_eq_getElem l1]
    simp [newUvs_slot, d1, c1]
  · rw [hj, List.getElem?_eq_getElem l2]
    simp [newUvs_slot, d2, c2]
  · rw [hj, List.getElem?_eq_getElem l3]
    simp [newUvs_slot, d3, c3]

/-- The slots the loop of a UV kernel does not write, and the fields it does not
write: every record keeps its `twinID`, `edgeID` and `vertexID`, and the records
from `4H` on are as they were. -/
theorem UvRefined.frame {H : Nat} {U : Nat → Int × Int × Int × Int}
    {out out' : List cc_Halfedge_SemiRegular} (hr : UvRefined H U out out') :
    (∀ j : Nat, 4 * H ≤ j → out'[j]? = out[j]?) ∧
    (∀ j : Nat, (out'[j]?).map (fun r => (r.twinID, r.edgeID, r.vertexID))
      = (out[j]?).map (fun r => (r.twinID, r.edgeID, r.vertexID))) := by
  obtain ⟨_, _, hj⟩ := hr
  constructor
  · intro j hge
    rw [hj]
    have c : ¬ (j < 4 * H) := by omega
    cases out[j]? with
    | none => rfl
    | some old => simp [c]
  · intro j
    rw [hj]
    cases out[j]? with
    | none => rfl
    | some old =>
      simp only [Option.map_some', Option.some.injEq]
      unfold newUvs_slot
      split_ifs <;> rfl

theorem cage_uv_kernel_spec (cc__EncodeUv : cc_VertexUv → Int) (subd : cc_Subd) (fuel : Nat)
    (out : List cc_Halfedge_SemiRegular) (hout : subd.halfedges[0]? = some out)
    (hlen : 4 * ccm_HalfedgeCount subd.cage ≤ out.length)
    (hr : ∀ h : Nat, h < ccm_HalfedgeCount subd.cage →
      (ccs__RefineCageVertexUvs_reads cc__EncodeUv subd.cage fuel h).isSome = true) :
    ∃ out', ccs__RefineCageVertexUvs cc__EncodeUv subd fuel
        = some { subd with halfedges := subd.halfedges.set 0 out' } ∧
      UvRefined (ccm_HalfedgeCount subd.cage)
        (fun h => (ccs__RefineCageVertexUvs_reads cc__EncodeUv subd.cage fuel h).getD default)
        out out' := by
  obtain ⟨o, e1, e2⟩ := uv_loop_spec
    (fun h : Nat => ccs__RefineCageVertexUvs_reads cc__EncodeUv subd.cage fuel h)
    (ccm_HalfedgeCount subd.cage) out hlen hr
  refine ⟨o, ?_, e2⟩
  unfold ccs__RefineCageVertexUvs
  simp only [hout, Option.bind_eq_bind, Option.some_bind]
  have : (List.range (ccm_HalfedgeCount subd.cage)).foldlM
      (fun out (halfedgeID : Nat) =>
        ccs__RefineCageVertexUvs_iteration cc__EncodeUv subd.cage fuel out halfedgeID) out
      = some o := e1
  rw [this]
  rfl

theorem level_uv_kernel_spec (cc__EncodeUv : cc_VertexUv → Int)
    (cc__DecodeUv : Int → cc_VertexUv) (subd : cc_Subd) (depth fuel : Nat)
    (out : List cc_Halfedge_SemiRegular)
    (hout : ccs__Level subd.halfedges (depth + 1) = some out)
    (hlen : 4 * ccm_HalfedgeCountAtDepth subd.cage depth ≤ out.length)
    (hr : ∀ h : Nat, h < ccm_HalfedgeCountAtDepth subd.cage depth →
      (ccs__RefineVertexUvs_reads cc__EncodeUv cc__DecodeUv subd depth fuel h).isSome = true) :
    ∃ out', ccs__RefineVertexUvs cc__EncodeUv cc__DecodeUv subd depth fuel
        = some { subd with halfedges := subd.halfedges.set depth out' } ∧
      UvRefined (ccm_HalfedgeCountAtDepth subd.cage depth)
        (fun h => (ccs__RefineVertexUvs_reads cc__EncodeUv cc__DecodeUv subd depth fuel
          h).getD default) out out' := by
  obtain ⟨o, e1, e2⟩ := uv_loop_spec
    (fun h : Nat => ccs__RefineVertexUvs_reads cc__EncodeUv cc__DecodeUv subd depth fuel h)
    (ccm_HalfedgeCountAtDepth subd.cage depth) out hlen hr
  refine ⟨o, ?_, e2⟩
  unfold ccs__RefineVertexUvs
  simp only [hout, Option.bind_eq_bind, Option.some_bind]
  have : (List.range (ccm_HalfedgeCountAtDepth subd.cage depth)).foldlM
      (fun out (halfedgeID : Nat) =>
        ccs__RefineVertexUvs_iteration cc__EncodeUv cc__DecodeUv subd depth fuel out halfedgeID)
      out = some o := e1
  rw [this]
  rfl

/-- The midpoint of two texture coordinates, as `cc__Lerp2f` computes it. -/
theorem cc__Lerp2f_half (x y : cc_VertexUv) : cc__Lerp2f x y (1 / 2) = (1 / 2 : ℚ) • (x + y) := by
  unfold cc__Lerp2f
  ext
  · simp only [Prod.fst_add, Prod.smul_fst, Prod.fst_sub, smul_eq_mul]
    ring
  · simp only [Prod.snd_add, Prod.smul_snd, Prod.snd_sub, smul_eq_mul]
    ring

theorem foldl_uv_count (g : Int → cc_VertexUv) (ring : List Int) :
    ∀ (p : cc_VertexUv) (c : Nat),
      ring.foldl (fun (s : cc_VertexUv × Nat) h =>
          ((s.1.1 + (g h).1, s.1.2 + (g h).2), s.2 + 1)) (p, c)
        = (p + (ring.map g).sum, c + ring.length) := by
  induction ring with
  | nil => intro p c; simp
  | cons h t ih =>
    intro p c
    rw [List.foldl_cons, ih]
    simp only [List.map_cons, List.sum_cons, List.length_cons, Prod.mk.injEq]
    constructor
    · ext
      · simp only [Prod.fst_add]
        ring
      · simp only [Prod.snd_add]
        ring
    · omega

/-- What an iteration of `ccs__RefineCageVertexUvs` assigns, from its reads: the
texture coordinate `u` of the halfedge, those of its successor and of its
predecessor, and those of the halfedges of its next-ring. -/
theorem cage_uv_reads (cc__EncodeUv : cc_VertexUv → Int) (cage : cc_Mesh) (fuel : Nat)
    (h p n : Int) (u un up : cc_VertexUv) (ring : List Int) (uvs : List cc_VertexUv)
    (hp : ccm_HalfedgePrevID cage h = some p) (hn : ccm_HalfedgeNextID cage h = some n)
    (hu : ccm_HalfedgeVertexUv cage h = some u) (hun : ccm_HalfedgeVertexUv cage n = some un)
    (hup : ccm_HalfedgeVertexUv cage p = some up)
    (hr : ccm_HalfedgeRing cage fuel h = some ring)
    (huvs : ring.map (ccm_HalfedgeVertexUv cage) = uvs.map some) :
    ccs__RefineCageVertexUvs_reads cc__EncodeUv cage fuel h
      = some (cc__EncodeUv u, cc__EncodeUv ((1 / 2 : ℚ) • (u + un)),
          cc__EncodeUv ((1 / (ring.length : ℚ)) • uvs.sum),
          cc__EncodeUv ((1 / 2 : ℚ) • (u + up))) := by
  unfold ccm_HalfedgeRing at hr
  rw [hn] at hr
  simp only [Option.bind_eq_bind, Option.some_bind] at hr
  obtain ⟨w, hw, hwr⟩ := Option.bind_eq_some.mp hr
  obtain ⟨rest, last⟩ := w
  simp only [Option.some.injEq] at hwr
  subst hwr
  obtain ⟨e1, e2⟩ := map_eq_map_some _ _ _ huvs
  have hl := forLoop_of_ringWalk (ccm_HalfedgeNextID cage)
    (fun halfedgeIt => decide (halfedgeIt ≠ h))
    (fun halfedgeIt (acc : cc_VertexUv × Nat) =>
      (ccm_HalfedgeVertexUv cage halfedgeIt).bind (fun uv =>
        (ccm_HalfedgeNextID cage halfedgeIt).bind (fun next =>
          some (next, ((acc.1.1 + uv.1, acc.1.2 + uv.2), acc.2 + 1)))))
    (fun g (s : cc_VertexUv × Nat) =>
      ((s.1.1 + ((ccm_HalfedgeVertexUv cage g).getD default).1,
        s.1.2 + ((ccm_HalfedgeVertexUv cage g).getD default).2), s.2 + 1))
    fuel n rest last (u, 1) hw
    (by
      intro g hg nxt s' hst
      beta_reduce
      rw [e2 g (List.mem_cons_of_mem _ hg), hst]
      simp)
  rw [foldl_uv_count (fun g => (ccm_HalfedgeVertexUv cage g).getD default)] at hl
  unfold ccs__RefineCageVertexUvs_reads
  simp only [hp, hn, hu, hun, hup, Option.bind_eq_bind, Option.some_bind]
  rw [hl]
  simp only [Option.some_bind, Option.some.injEq, Prod.mk.injEq, true_and]
  refine ⟨by rw [cc__Lerp2f_half], ?_, by rw [cc__Lerp2f_half]⟩
  congr 1
  have hsum : uvs.sum = u + (rest.map (fun g => (ccm_HalfedgeVertexUv cage g).getD default)).sum := by
    rw [e1]
    simp only [List.map_cons, List.sum_cons, hu, Option.getD_some]
  rw [hsum]
  ext
  · simp only [Prod.smul_fst, smul_eq_mul, List.length_cons, Nat.cast_add, Nat.cast_one]
    rw [add_comm (1 : ℚ)]
    ring
  · simp only [Prod.smul_snd, smul_eq_mul, List.length_cons, Nat.cast_add, Nat.cast_one]
    rw [add_comm (1 : ℚ)]
    ring

/-- What an iteration of `ccs__RefineVertexUvs` assigns, from its reads: the
`uvID` of the halfedge `h`, its texture coordinate `u`, and those of the three
other halfedges `next(h)`, `next(next(h))` and `prev(h)` of its quad. -/
theorem level_uv_reads (cc__EncodeUv : cc_VertexUv → Int) (cc__DecodeUv : Int → cc_VertexUv)
    (subd : cc_Subd) (depth fuel : Nat) (hfuel : 3 ≤ fuel) (h : Int) (uvID : Int)
    (u u1 u2 u3 : cc_VertexUv)
    (hid : ccs__HalfedgeVertexUvID subd h depth = some uvID)
    (h0 : ccs_HalfedgeVertexUv cc__DecodeUv subd h depth = some u)
    (h1 : ccs_HalfedgeVertexUv cc__DecodeUv subd (ccm_HalfedgeNextID_Quad h) depth = some u1)
    (h2 : ccs_HalfedgeVertexUv cc__DecodeUv subd
      (ccm_HalfedgeNextID_Quad (ccm_HalfedgeNextID_Quad h)) depth = some u2)
    (h3 : ccs_HalfedgeVertexUv cc__DecodeUv subd (ccm_HalfedgePrevID_Quad h) depth = some u3) :
    ccs__RefineVertexUvs_reads cc__EncodeUv cc__DecodeUv subd depth fuel h
      = some (uvID, cc__EncodeUv ((1 / 2 : ℚ) • (u + u1)),
          cc__EncodeUv ((1 / 4 : ℚ) • (u + u1 + u2 + u3)),
          cc__EncodeUv ((1 / 2 : ℚ) • (u + u3))) := by
  obtain ⟨k, rfl⟩ : ∃ k, fuel = k + 1 + 1 + 1 := ⟨fuel - 3, by omega⟩
  have n3 : ccm_HalfedgeNextID_Quad (ccm_HalfedgeNextID_Quad (ccm_HalfedgeNextID_Quad h))
      = ccm_HalfedgePrevID_Quad h := by
    unfold ccm_HalfedgeNextID_Quad ccm_HalfedgePrevID_Quad
    omega
  have n4 : ccm_HalfedgeNextID_Quad (ccm_HalfedgePrevID_Quad h) = h := by
    unfold ccm_HalfedgeNextID_Quad ccm_HalfedgePrevID_Quad
    omega
  have c1 : decide (ccm_HalfedgeNextID_Quad h ≠ h) = true := by
    rw [decide_eq_true_eq]
    unfold ccm_HalfedgeNextID_Quad
    omega
  have c2 : decide (ccm_HalfedgeNextID_Quad (ccm_HalfedgeNextID_Quad h) ≠ h) = true := by
    rw [decide_eq_true_eq]
    unfold ccm_HalfedgeNextID_Quad
    omega
  have c3 : decide (ccm_HalfedgePrevID_Quad h ≠ h) = true := by
    rw [decide_eq_true_eq]
    unfold ccm_HalfedgePrevID_Quad
    omega
  unfold ccs__RefineVertexUvs_reads
  simp only [ccs_HalfedgeNextID, h0, h1, h3, hid, Option.bind_eq_bind, Option.some_bind]
  rw [forLoop_succ]
  simp only [c1, if_true, h1, Option.some_bind]
  rw [forLoop_succ]
  simp only [c2, if_true, h2, Option.some_bind, n3]
  rw [forLoop_succ]
  simp only [c3, if_true, h3, Option.some_bind, n4]
  rw [forLoop_exit _ _ _ _ _ (by simp)]
  simp only [Option.some_bind, Option.some.injEq, Prod.mk.injEq, true_and]
  refine ⟨by rw [cc__Lerp2f_half], ?_, by rw [cc__Lerp2f_half]⟩
  congr 1
  ext
  · simp only [Prod.smul_fst, Prod.fst_add, smul_eq_mul]
    ring
  · simp only [Prod.smul_snd, Prod.snd_add, smul_eq_mul]
    ring

/-- The `uvID` of every halfedge of the cage is the index of a record of the
array `uvs`. -/
def ccm_UvIDsInBounds (cage : cc_Mesh) : Prop :=
  ∀ r ∈ cage.halfedges, 0 ≤ r.uvID ∧ r.uvID < (ccm_UvCount cage : Int)

instance (cage : cc_Mesh) : Decidable (ccm_UvIDsInBounds cage) := by
  unfold ccm_UvIDsInBounds
  infer_instance

/-- The texture coordinate of a halfedge of a cage whose `uvID`s are in bounds
can be read. -/
theorem cage_uv_isSome (cage : cc_Mesh) (hb : ccm_UvIDsInBounds cage) (h : Int) (h0 : 0 ≤ h)
    (h1 : h < (ccm_HalfedgeCount cage : Int)) :
    (ccm_HalfedgeVertexUv cage h).isSome = true := by
  have hh : h.toNat < cage.halfedges.length := by
    unfold ccm_HalfedgeCount at h1
    omega
  have hmem : cage.halfedges.getD h.toNat default ∈ cage.halfedges := by
    rw [List.getD_eq_getElem?_getD, List.getElem?_eq_getElem hh]
    exact List.getElem_mem _
  obtain ⟨a, b⟩ := hb _ hmem
  unfold ccm_HalfedgeVertexUv ccm_HalfedgeVertexUvID
  rw [readAt_getD _ _ h0 h1, Option.map_some', Option.some_bind]
  exact readAt_isSome _ _ a b

/-- The reads of `ccs__RefineCageVertexUvs` on a cage whose `next` and `prev` are
inverse of each other and whose `uvID`s are in bounds, with the next-ring of the
halfedge and the texture coordinates of its halfedges. -/
theorem cage_uv_reads_total (cc__EncodeUv : cc_VertexUv → Int) (cage : cc_Mesh) (fuel : Nat)
    (hv : (cageParent cage).Valid) (hb : ccm_UvIDsInBounds cage)
    (hf : ccm_HalfedgeCount cage ≤ fuel + 1) (h : Int) (h0 : 0 ≤ h)
    (h1 : h < (ccm_HalfedgeCount cage : Int)) :
    ∃ (p n : Int) (u un up : cc_VertexUv) (ring : List Int) (uvs : List cc_VertexUv),
      ccm_HalfedgePrevID cage h = some p ∧ ccm_HalfedgeNextID cage h = some n ∧
      ccm_HalfedgeVertexUv cage h = some u ∧ ccm_HalfedgeVertexUv cage n = some un ∧
      ccm_HalfedgeVertexUv cage p = some up ∧ ccm_HalfedgeRing cage fuel h = some ring ∧
      ring.map (ccm_HalfedgeVertexUv cage) = uvs.map some ∧
      ccs__RefineCageVertexUvs_reads cc__EncodeUv cage fuel h
        = some (cc__EncodeUv u, cc__EncodeUv ((1 / 2 : ℚ) • (u + un)),
            cc__EncodeUv ((1 / (ring.length : ℚ)) • uvs.sum),
            cc__EncodeUv ((1 / 2 : ℚ) • (u + up))) := by
  obtain ⟨n0, n1⟩ := hv.next_range h h0 h1
  obtain ⟨p0, p1⟩ := hv.prev_range h h0 h1
  obtain ⟨u, hu⟩ := Option.isSome_iff_exists.mp (cage_uv_isSome cage hb h h0 h1)
  obtain ⟨un, hun⟩ := Option.isSome_iff_exists.mp (cage_uv_isSome cage hb _ n0 n1)
  obtain ⟨up, hup⟩ := Option.isSome_iff_exists.mp (cage_uv_isSome cage hb _ p0 p1)
  obtain ⟨ring, hr1, hr2⟩ := ccm_HalfedgeRing_total cage hv fuel hf h h0 h1
  have huvs := map_some_of_isSome (ccm_HalfedgeVertexUv cage) ring
    (fun g hg => cage_uv_isSome cage hb g (hr2 g hg).1 (hr2 g hg).2)
  exact ⟨_, _, u, un, up, ring, _, cage_prev_eq cage h h0 h1, cage_next_eq cage h h0 h1, hu,
    hun, hup, hr1, huvs,
    cage_uv_reads cc__EncodeUv cage fuel h _ _ u un up ring _ (cage_prev_eq cage h h0 h1)
      (cage_next_eq cage h h0 h1) hu hun hup hr1 huvs⟩

/-- The reads of `ccs__RefineVertexUvs` on a level of `H_depth` halfedges. -/
theorem level_uv_reads_total (cc__EncodeUv : cc_VertexUv → Int)
    (cc__DecodeUv : Int → cc_VertexUv) (subd : cc_Subd) (depth fuel : Nat)
    (halfedgesIn : List cc_Halfedge_SemiRegular)
    (hin : ccs__Level subd.halfedges depth = some halfedgesIn)
    (hH : halfedgesIn.length = ccm_HalfedgeCountAtDepth subd.cage depth) (hfuel : 3 ≤ fuel)
    (h : Int) (h0 : 0 ≤ h) (h1 : h < (ccm_HalfedgeCountAtDepth subd.cage depth : Int)) :
    ∃ (uvID : Int) (u u1 u2 u3 : cc_VertexUv),
      ccs__HalfedgeVertexUvID subd h depth = some uvID ∧
      ccs_HalfedgeVertexUv cc__DecodeUv subd h depth = some u ∧
      ccs_HalfedgeVertexUv cc__DecodeUv subd (ccm_HalfedgeNextID_Quad h) depth = some u1 ∧
      ccs_HalfedgeVertexUv cc__DecodeUv subd
        (ccm_HalfedgeNextID_Quad (ccm_HalfedgeNextID_Quad h)) depth = some u2 ∧
      ccs_HalfedgeVertexUv cc__DecodeUv subd (ccm_HalfedgePrevID_Quad h) depth = some u3 ∧
      ccs__RefineVertexUvs_reads cc__EncodeUv cc__DecodeUv subd depth fuel h
        = some (uvID, cc__EncodeUv ((1 / 2 : ℚ) • (u + u1)),
            cc__EncodeUv ((1 / 4 : ℚ) • (u + u1 + u2 + u3)),
            cc__EncodeUv ((1 / 2 : ℚ) • (u + u3))) := by
  obtain ⟨k, hk⟩ := ccm_HalfedgeCountAtDepth_dvd subd.cage depth (ccs__Level_depth_pos _ _ _ hin)
  have key : ∀ g : Int, 0 ≤ g → g < (ccm_HalfedgeCountAtDepth subd.cage depth : Int) →
      ccs__HalfedgeVertexUvID subd g depth = some (halfedgesIn.getD g.toNat default).uvID ∧
      ccs_HalfedgeVertexUv cc__DecodeUv subd g depth
        = some (cc__DecodeUv (halfedgesIn.getD g.toNat default).uvID) := by
    intro g g0 g1
    have : ccs__HalfedgeVertexUvID subd g depth
        = some (halfedgesIn.getD g.toNat default).uvID := by
      unfold ccs__HalfedgeVertexUvID
      rw [hin, Option.bind_eq_bind, Option.some_bind, readAt_getD _ _ g0 (by omega)]
      rfl
    refine ⟨this, ?_⟩
    unfold ccs_HalfedgeVertexUv
    rw [this]
    rfl
  have r1 : 0 ≤ ccm_HalfedgeNextID_Quad h ∧
      ccm_HalfedgeNextID_Quad h < (ccm_HalfedgeCountAtDepth subd.cage depth : Int) := by
    unfold ccm_HalfedgeNextID_Quad
    omega
  have r2 : 0 ≤ ccm_HalfedgeNextID_Quad (ccm_HalfedgeNextID_Quad h) ∧
      ccm_HalfedgeNextID_Quad (ccm_HalfedgeNextID_Quad h)
        < (ccm_HalfedgeCountAtDepth subd.cage depth : Int) := by
    unfold ccm_HalfedgeNextID_Quad
    omega
  have r3 : 0 ≤ ccm_HalfedgePrevID_Quad h ∧
      ccm_HalfedgePrevID_Quad h < (ccm_HalfedgeCountAtDepth subd.cage depth : Int) := by
    unfold ccm_HalfedgePrevID_Quad
    omega
  exact ⟨_, _, _, _, _, (key h h0 h1).1, (key h h0 h1).2, (key _ r1.1 r1.2).2,
    (key _ r2.1 r2.2).2, (key _ r3.1 r3.2).2,
    level_uv_reads cc__EncodeUv cc__DecodeUv subd depth fuel hfuel h _ _ _ _ _
      (key h h0 h1).1 (key h h0 h1).2 (key _ r1.1 r1.2).2 (key _ r2.1 r2.2).2
      (key _ r3.1 r3.2).2⟩

/-- C34: the texture coordinates of the children.  First part: on a cage whose
`next` and `prev` are inverse of each other, whose twins are reciprocal and
whose `uvID`s are indices of the array `uvs`, with a region of level 1 of at
least `4 H0` records, `ccs__RefineCageVertexUvs` returns when its inner loop may
run for `H0 - 1` iterations, and for every cage halfedge `h` with the texture
coordinate `u`, in a next-ring `ring` of `m` halfedges, it writes into the
`uvID` of the slots `4h`, `4h+1`, `4h+2`, `4h+3` the encodings of `u`, of the
midpoint of `u` and the texture coordinate of `next(h)`, of the average of the
texture coordinates of the `m` halfedges of the ring, and of the midpoint of
`u` and the texture coordinate of `prev(h)`.  Second part: at a depth at least
1, `ccs__RefineVertexUvs` returns when its inner loop may run for 3 iterations,
and writes into the slot `4h` the `uvID` of the parent halfedge `h`, as it is,
and into the slots `4h+1`, `4h+2`, `4h+3` the encodings of the midpoint with
`next(h)`, of the average over the four halfedges `h`, `next(h)`,
`next(next(h))`, `prev(h)` of the quad, and of the midpoint with `prev(h)`. -/
theorem C34_child_uvs :
    (∀ (cc__EncodeUv : cc_VertexUv → Int) (subd : cc_Subd) (fuel : Nat)
      (out : List cc_Halfedge_SemiRegular),
      subd.halfedges[0]? = some out →
      4 * ccm_HalfedgeCount subd.cage ≤ out.length →
      ccm_NextPrevInvariant subd.cage → ccm_TwinInvariant subd.cage →
      ccm_UvIDsInBounds subd.cage →
      ccm_HalfedgeCount subd.cage ≤ fuel + 1 →
      ∃ out', ccs__RefineCageVertexUvs cc__EncodeUv subd fuel
          = some { subd with halfedges := subd.halfedges.set 0 out' } ∧
        ∀ h : Nat, h < ccm_HalfedgeCount subd.cage →
          ∃ (p n : Int) (u un up : cc_VertexUv) (ring : List Int) (uvs : List cc_VertexUv),
            ccm_HalfedgePrevID subd.cage h = some p ∧ ccm_HalfedgeNextID subd.cage h = some n ∧
            ccm_HalfedgeVertexUv subd.cage h = some u ∧
            ccm_HalfedgeVertexUv subd.cage n = some un ∧
            ccm_HalfedgeVertexUv subd.cage p = some up ∧
            ccm_HalfedgeRing subd.cage fuel h = some ring ∧
            ring.map (ccm_HalfedgeVertexUv subd.cage) = uvs.map some ∧
            (out'[4 * h]?).map (fun r => r.uvID) = some (cc__EncodeUv u) ∧
            (out'[4 * h + 1]?).map (fun r => r.uvID)
              = some (cc__EncodeUv ((1 / 2 : ℚ) • (u + un))) ∧
            (out'[4 * h + 2]?).map (fun r => r.uvID)
              = some (cc__EncodeUv ((1 / (ring.length : ℚ)) • uvs.sum)) ∧
            (out'[4 * h + 3]?).map (fun r => r.uvID)
              = some (cc__EncodeUv ((1 / 2 : ℚ) • (u + up)))) ∧
    (∀ (cc__EncodeUv : cc_VertexUv → Int) (cc__DecodeUv : Int → cc_VertexUv) (subd : cc_Subd)
      (depth fuel : Nat) (halfedgesIn out : List cc_Halfedge_SemiRegular),
      ccs__Level subd.halfedges depth = some halfedgesIn →
      halfedgesIn.length = ccm_HalfedgeCountAtDepth subd.cage depth →
      ccs__Level subd.halfedges (depth + 1) = some out →
      4 * ccm_HalfedgeCountAtDepth subd.cage depth ≤ out.length →
      3 ≤ fuel →
      ∃ out', ccs__RefineVertexUvs cc__EncodeUv cc__DecodeUv subd depth fuel
          = some { subd with halfedges := subd.halfedges.set depth out' } ∧
        ∀ h : Nat, h < ccm_HalfedgeCountAtDepth subd.cage depth →
          ∃ (uvID : Int) (u u1 u2 u3 : cc_VertexUv),
            ccs__HalfedgeVertexUvID subd h depth = some uvID ∧
            ccs_HalfedgeVertexUv cc__DecodeUv subd h depth = some u ∧
            ccs_HalfedgeVertexUv cc__DecodeUv subd (ccm_HalfedgeNextID_Quad h) depth
              = some u1 ∧
            ccs_HalfedgeVertexUv cc__DecodeUv subd
              (ccm_HalfedgeNextID_Quad (ccm_HalfedgeNextID_Quad h)) depth = some u2 ∧
            ccs_HalfedgeVertexUv cc__DecodeUv subd (ccm_HalfedgePrevID_Quad h) depth
              = some u3 ∧
            (out'[4 * h]?).map (fun r => r.uvID) = some uvID ∧
            (out'[4 * h + 1]?).map (fun r => r.uvID)
              = some (cc__EncodeUv ((1 / 2 : ℚ) • (u + u1))) ∧
            (out'[4 * h + 2]?).map (fun r => r.uvID)
              = some (cc__EncodeUv ((1 / 4 : ℚ) • (u + u1 + u2 + u3))) ∧
            (out'[4 * h + 3]?).map (fun r => r.uvID)
              = some (cc__EncodeUv ((1 / 2 : ℚ) • (u + u3)))) := by
  constructor
  · intro enc subd fuel out hout hlen hnp htw hb hf
    have hv := cageParent_valid subd.cage hnp htw
    obtain ⟨o, e1, e2⟩ := cage_uv_kernel_spec enc subd fuel out hout hlen
      (fun h hh => by
        obtain ⟨_, _, _, _, _, _, _, _, _, _, _, _, _, _, e⟩ :=
          cage_uv_reads_total enc subd.cage fuel hv hb hf h (by omega) (by exact_mod_cast hh)
        rw [e]
        rfl)
    refine ⟨o, e1, ?_⟩
    intro h hh
    obtain ⟨p, n, u, un, up, ring, uvs, a1, a2, a3, a4, a5, a6, a7, e⟩ :=
      cage_uv_reads_total enc subd.cage fuel hv hb hf h (by omega) (by exact_mod_cast hh)
    obtain ⟨s0, s1, s2, s3⟩ := e2.uvSlots h hh
    simp only [e, Option.getD_some] at s0 s1 s2 s3
    exact ⟨p, n, u, un, up, ring, uvs, a1, a2, a3, a4, a5, a6, a7, s0, s1, s2, s3⟩
  · intro enc dec subd depth fuel halfedgesIn out hin hH hout hlen hfuel
    obtain ⟨o, e1, e2⟩ := level_uv_kernel_spec enc dec subd depth fuel out hout hlen
      (fun h hh => by
        obtain ⟨_, _, _, _, _, _, _, _, _, _, e⟩ :=
          level_uv_reads_total enc dec subd depth fuel halfedgesIn hin hH hfuel h (by omega)
            (by exact_mod_cast hh)
        rw [e]
        rfl)
    refine ⟨o, e1, ?_⟩
    intro h hh
    obtain ⟨uvID, u, u1, u2, u3, a1, a2, a3, a4, a5, e⟩ :=
      level_uv_reads_total enc dec subd depth fuel halfedgesIn hin hH hfuel h (by omega)
        (by exact_mod_cast hh)
    obtain ⟨s0, s1, s2, s3⟩ := e2.uvSlots h hh
    simp only [e, Option.getD_some] at s0 s1 s2 s3
    exact ⟨uvID, u, u1, u2, u3, a1, a2, a3, a4, a5, s0, s1, s2, s3⟩

/-- The open quad with a texture coordinate per corner: the unit square. -/
def quadUvMesh : cc_Mesh :=
  { quadMesh with
    halfedges := [⟨-1, 1, 3, 0, 0, 0, 0⟩, ⟨-1, 2, 0, 0, 1, 1, 1⟩, ⟨-1, 3, 1, 0, 2, 2, 2⟩,
      ⟨-1, 0, 2, 0, 3, 3, 3⟩],
    uvs := [(0, 0), (1, 0), (1, 1), (0, 1)] }

/-- A packing of a texture coordinate of the unit square into an integer: 16
bits per coordinate. -/
def packUv (uv : cc_VertexUv) : Int :=
  Int.floor (uv.1 * 65535) + 65536 * Int.floor (uv.2 * 65535)

/-- The texture coordinate that `packUv` packs into an integer of
`[0, 2^32)`. -/
def unpackUv (uvID : Int) : cc_VertexUv :=
  (((uvID % 65536 : Int) : ℚ) / 65535, ((uvID / 65536 : Int) : ℚ) / 65535)

/-- C34, witness: the open quad with the corners of the unit square as texture
coordinates (cage kernel, 3 iterations of the inner loop) and its level 1 (level
kernel), with a packing of 16 bits per coordinate. -/
theorem C34_child_uvs_witness :
    (ccm_NextPrevInvariant quadUvMesh ∧ ccm_TwinInvariant quadUvMesh ∧
      ccm_UvIDsInBounds quadUvMesh ∧
      ∃ out', ccs__RefineCageVertexUvs packUv
          { cage := quadUvMesh, maxDepth := 1, creases := [],
            halfedges := [List.replicate 16 ⟨0, 0, 0, 0⟩] } 3
          = some { cage := quadUvMesh, maxDepth := 1, creases := [], halfedges := [out'] } ∧
        ∀ h : Nat, h < ccm_HalfedgeCount quadUvMesh →
          ∃ (p n : Int) (u un up : cc_VertexUv) (ring : List Int) (uvs : List cc_VertexUv),
            ccm_HalfedgePrevID quadUvMesh h = some p ∧ ccm_HalfedgeNextID quadUvMesh h = some n ∧
            ccm_HalfedgeVertexUv quadUvMesh h = some u ∧
            ccm_HalfedgeVertexUv quadUvMesh n = some un ∧
            ccm_HalfedgeVertexUv quadUvMesh p = some up ∧
            ccm_HalfedgeRing quadUvMesh 3 h = some ring ∧
            ring.map (ccm_HalfedgeVertexUv quadUvMesh) = uvs.map some ∧
            (out'[4 * h]?).map (fun r => r.uvID) = some (packUv u) ∧
            (out'[4 * h + 1]?).map (fun r => r.uvID)
              = some (packUv ((1 / 2 : ℚ) • (u + un))) ∧
            (out'[4 * h + 2]?).map (fun r => r.uvID)
              = some (packUv ((1 / (ring.length : ℚ)) • uvs.sum)) ∧
            (out'[4 * h + 3]?).map (fun r => r.uvID)
              = some (packUv ((1 / 2 : ℚ) • (u + up)))) ∧
    (∃ out', ccs__RefineVertexUvs packUv unpackUv quadSubd 1 3
          = some { quadSubd with halfedges := quadSubd.halfedges.set 1 out' } ∧
        ∀ h : Nat, h < ccm_HalfedgeCountAtDepth quadSubd.cage 1 →
          ∃ (uvID : Int) (u u1 u2 u3 : cc_VertexUv),
            ccs__HalfedgeVertexUvID quadSubd h 1 = some uvID ∧
            ccs_HalfedgeVertexUv unpackUv quadSubd h 1 = some u ∧
            ccs_HalfedgeVertexUv unpackUv quadSubd (ccm_HalfedgeNextID_Quad h) 1 = some u1 ∧
            ccs_HalfedgeVertexUv unpackUv quadSubd
              (ccm_HalfedgeNextID_Quad (ccm_HalfedgeNextID_Quad h)) 1 = some u2 ∧
            ccs_HalfedgeVertexUv unpackUv quadSubd (ccm_HalfedgePrevID_Quad h) 1 = some u3 ∧
            (out'[4 * h]?).map (fun r => r.uvID) = some uvID ∧
            (out'[4 * h + 1]?).map (fun r => r.uvID)
              = some (packUv ((1 / 2 : ℚ) • (u + u1))) ∧
            (out'[4 * h + 2]?).map (fun r => r.uvID)
              = some (packUv ((1 / 4 : ℚ) • (u + u1 + u2 + u3))) ∧
            (out'[4 * h + 3]?).map (fun r => r.uvID)
              = some (packUv ((1 / 2 : ℚ) • (u + u3)))) :=
  ⟨⟨by decide, by decide, by decide,
    C34_child_uvs.1 packUv
      { cage := quadUvMesh, maxDepth := 1, creases := [],
        halfedges := [List.replicate 16 ⟨0, 0, 0, 0⟩] } 3
      (List.replicate 16 ⟨0, 0, 0, 0⟩) rfl (by decide) (by decide) (by decide) (by decide)
      (by decide)⟩,
    C34_child_uvs.2 packUv unpackUv quadSubd 1 3 quadLevel1 (List.replicate 64 ⟨0, 0, 0, 0⟩)
      rfl (by decide) rfl (by decide) (by decide)⟩

/-! ## The fields that the topology stage and the UV stage touch -/

/-- The record of a level with its `uvID` erased: what is left is the topology
fields `twinID`, `edgeID`, `vertexID`. -/
def cc_Halfedge_SemiRegular.eraseUv (r : cc_Halfedge_SemiRegular) : cc_Halfedge_SemiRegular :=
  { r with uvID := 0 }

/-- The record of a level with its fields `twinID`, `edgeID`, `vertexID` erased:
what is left is the `uvID`. -/
def cc_Halfedge_SemiRegular.eraseTopology (r : cc_Halfedge_SemiRegular) :
    cc_Halfedge_SemiRegular :=
  { r with twinID := 0, edgeID := 0, vertexID := 0 }

/-- The halfedge record of the cage with its `uvID` erased. -/
def cc_Halfedge.eraseUv (r : cc_Halfedge) : cc_Halfedge :=
  { r with uvID := 0 }

/-- The cage without its texture coordinates: the `uvID` of every halfedge is
erased and the array `uvs` is empty. -/
def ccm_EraseUvs (cage : cc_Mesh) : cc_Mesh :=
  { cage with halfedges := cage.halfedges.map cc_Halfedge.eraseUv, uvs := [] }

/-- The subdivision without any texture coordinate: the cage without its
texture coordinates, and the `uvID` of every halfedge record of every level
erased. -/
def ccs_EraseUvs (subd : cc_Subd) : cc_Subd :=
  { subd with
    cage := ccm_EraseUvs subd.cage,
    halfedges := subd.halfedges.map (List.map cc_Halfedge_SemiRegular.eraseUv) }

/-- The subdivision with the fields `twinID`, `edgeID`, `vertexID` of every
halfedge record of every level erased; the cage is as it is. -/
def ccs_EraseTopology (subd : cc_Subd) : cc_Subd :=
  { subd with
    halfedges := subd.halfedges.map (List.map cc_Halfedge_SemiRegular.eraseTopology) }

theorem readAt_map {α β : Type} (f : α → β) (xs : List α) (i : Int) :
    readAt (xs.map f) i = (readAt xs i).map f := by
  unfold readAt
  split
  · rw [List.getElem?_map]
  · rfl

/-- An update of a record commutes with a map of the array that commutes with
the update. -/
theorem writeAt_map_comm {α β : Type} (φ : α → β) (g : α → α) (g' : β → β)
    (h : ∀ a, φ (g a) = g' (φ a)) (xs : List α) (i : Int) :
    writeAt (xs.map φ) i g' = (writeAt xs i g).map (List.map φ) := by
  unfold writeAt
  rw [readAt_map]
  cases readAt xs i with
  | none => rfl
  | some x =>
    simp only [Option.map_some', Option.some.injEq]
    rw [List.map_set, h]

/-- An update of a record is not seen through a map that forgets what the
update writes. -/
theorem writeAt_map_keep {α β : Type} (φ : α → β) (g : α → α) (h : ∀ a, φ (g a) = φ a)
    (xs ys : List α) (i : Int) (hw : writeAt xs i g = some ys) : ys.map φ = xs.map φ := by
  unfold writeAt at hw
  cases hr : readAt xs i with
  | none => simp [hr] at hw
  | some x =>
    rw [hr] at hw
    simp only [Option.some.injEq] at hw
    subst hw
    rw [List.map_set, h]
    obtain ⟨i0, hx⟩ := (readAt_eq_some_iff xs i x).mp hr
    apply List.ext_getElem?
    intro n
    rw [List.getElem?_set]
    split
    · next e =>
      subst e
      split
      · rw [List.getElem?_map, hx]
        rfl
      · next hlt =>
        rw [List.getElem?_eq_none (by omega)]
    · rfl

/-- Two steps in a row commute with a map when each of them does. -/
theorem bind_map_comm {α β α' β' : Type} (φ : α → α') (ψ : β → β') (x : Option α)
    (x' : Option α') (k : α → Option β) (k' : α' → Option β') (hx : x' = x.map φ)
    (hk : ∀ a, k' (φ a) = (k a).map ψ) : x'.bind k' = (x.bind k).map ψ := by
  subst hx
  cases x with
  | none => rfl
  | some a => exact hk a

/-- A loop commutes with a map of its state when its body does. -/
theorem foldlM_map_comm {σ τ ι : Type} (φ : σ → τ) (body : σ → ι → Option σ)
    (body' : τ → ι → Option τ) (h : ∀ s i, body' (φ s) i = (body s i).map φ) (l : List ι) :
    ∀ s : σ, l.foldlM body' (φ s) = (l.foldlM body s).map φ := by
  induction l with
  | nil => intro s; rfl
  | cons i l ih =>
    intro s
    simp only [List.foldlM_cons, Option.bind_eq_bind]
    exact bind_map_comm φ φ _ _ _ _ (h s i) ih

/-- A loop keeps what every iteration of its body keeps. -/
theorem foldlM_keep {σ τ ι : Type} (φ : σ → τ) (body : σ → ι → Option σ)
    (h : ∀ s i t, body s i = some t → φ t = φ s) (l : List ι) :
    ∀ s t : σ, l.foldlM body s = some t → φ t = φ s := by
  induction l with
  | nil =>
    intro s t e
    simp only [List.foldlM_nil, Option.pure_def, Option.some.injEq] at e
    rw [e]
  | cons i l ih =>
    intro s t e
    simp only [List.foldlM_cons, Option.bind_eq_bind] at e
    cases hb : body s i with
    | none => simp [hb] at e
    | some s1 =>
      rw [hb, Option.some_bind] at e
      rw [ih s1 t e, h s i s1 hb]

/-- A step that keeps something, followed by a step that keeps it. -/
theorem bind_keep {α τ : Type} (φ : α → τ) (x : Option α) (k : α → Option α) (s t : α)
    (hx : ∀ a, x = some a → φ a = φ s) (hk : ∀ a b, k a = some b → φ b = φ a)
    (e : x.bind k = some t) : φ t = φ s := by
  cases x with
  | none => simp at e
  | some a => rw [hk a t e, hx a rfl]

theorem setTwinID_eraseUv (xs : List cc_Halfedge_SemiRegular) (i v : Int) :
    setTwinID (xs.map cc_Halfedge_SemiRegular.eraseUv) i v
      = (setTwinID xs i v).map (List.map cc_Halfedge_SemiRegular.eraseUv) :=
  writeAt_map_comm cc_Halfedge_SemiRegular.eraseUv (fun r => { r with twinID := v })
    (fun r => { r with twinID := v }) (fun _ => rfl) xs i

theorem setEdgeID_eraseUv (xs : List cc_Halfedge_SemiRegular) (i v : Int) :
    setEdgeID (xs.map cc_Halfedge_SemiRegular.eraseUv) i v
      = (setEdgeID xs i v).map (List.map cc_Halfedge_SemiRegular.eraseUv) :=
  writeAt_map_comm cc_Halfedge_SemiRegular.eraseUv (fun r => { r with edgeID := v })
    (fun r => { r with edgeID := v }) (fun _ => rfl) xs i

theorem setVertexID_eraseUv (xs : List cc_Halfedge_SemiRegular) (i v : Int) :
    setVertexID (xs.map cc_Halfedge_SemiRegular.eraseUv) i v
      = (setVertexID xs i v).map (List.map cc_Halfedge_SemiRegular.eraseUv) :=
  writeAt_map_comm cc_Halfedge_SemiRegular.eraseUv (fun r => { r with vertexID := v })
    (fun r => { r with vertexID := v }) (fun _ => rfl) xs i

theorem setUvID_eraseTopology (xs : List cc_Halfedge_SemiRegular) (i v : Int) :
    setUvID (xs.map cc_Halfedge_SemiRegular.eraseTopology) i v
      = (setUvID xs i v).map (List.map cc_Halfedge_SemiRegular.eraseTopology) :=
  writeAt_map_comm cc_Halfedge_SemiRegular.eraseTopology (fun r => { r with uvID := v })
    (fun r => { r with uvID := v }) (fun _ => rfl) xs i

theorem setTwinID_keep (xs ys : List cc_Halfedge_SemiRegular) (i v : Int)
    (e : setTwinID xs i v = some ys) :
    ys.map cc_Halfedge_SemiRegular.eraseTopology
      = xs.map cc_Halfedge_SemiRegular.eraseTopology :=
  writeAt_map_keep cc_Halfedge_SemiRegular.eraseTopology (fun r => { r with twinID := v }) (fun _ => rfl) xs ys i e

theorem setEdgeID_keep (xs ys : List cc_Halfedge_SemiRegular) (i v : Int)
    (e : setEdgeID xs i v = some ys) :
    ys.map cc_Halfedge_SemiRegular.eraseTopology
      = xs.map cc_Halfedge_SemiRegular.eraseTopology :=
  writeAt_map_keep cc_Halfedge_SemiRegular.eraseTopology (fun r => { r with edgeID := v }) (fun _ => rfl) xs ys i e

theorem setVertexID_keep (xs ys : List cc_Halfedge_SemiRegular) (i v : Int)
    (e : setVertexID xs i v = some ys) :
    ys.map cc_Halfedge_SemiRegular.eraseTopology
      = xs.map cc_Halfedge_SemiRegular.eraseTopology :=
  writeAt_map_keep cc_Halfedge_SemiRegular.eraseTopology (fun r => { r with vertexID := v }) (fun _ => rfl) xs ys i e

theorem setUvID_keep (xs ys : List cc_Halfedge_SemiRegular) (i v : Int)
    (e : setUvID xs i v = some ys) :
    ys.map cc_Halfedge_SemiRegular.eraseUv = xs.map cc_Halfedge_SemiRegular.eraseUv :=
  writeAt_map_keep cc_Halfedge_SemiRegular.eraseUv (fun r => { r with uvID := v }) (fun _ => rfl) xs ys i e

/-- The twelve assignments of the topology kernels do not read any `uvID`. -/
theorem writeNewHalfedges_eraseUv (V E F : Int) (out : List cc_Halfedge_SemiRegular)
    (h t p n f e ep pt v tn : Int) :
    writeNewHalfedges V E F (out.map cc_Halfedge_SemiRegular.eraseUv) h t p n f e ep pt v tn
      = (writeNewHalfedges V E F out h t p n f e ep pt v tn).map
          (List.map cc_Halfedge_SemiRegular.eraseUv) := by
  unfold writeNewHalfedges
  simp only [Option.bind_eq_bind]
  refine bind_map_comm _ _ _ _ _ _ (setTwinID_eraseUv _ _ _) (fun a => ?_)
  refine bind_map_comm _ _ _ _ _ _ (setTwinID_eraseUv _ _ _) (fun a => ?_)
  refine bind_map_comm _ _ _ _ _ _ (setTwinID_eraseUv _ _ _) (fun a => ?_)
  refine bind_map_comm _ _ _ _ _ _ (setTwinID_eraseUv _ _ _) (fun a => ?_)
  refine bind_map_comm _ _ _ _ _ _ (setEdgeID_eraseUv _ _ _) (fun a => ?_)
  refine bind_map_comm _ _ _ _ _ _ (setEdgeID_eraseUv _ _ _) (fun a => ?_)
  refine bind_map_comm _ _ _ _ _ _ (setEdgeID_eraseUv _ _ _) (fun a => ?_)
  refine bind_map_comm _ _ _ _ _ _ (setEdgeID_eraseUv _ _ _) (fun a => ?_)
  refine bind_map_comm _ _ _ _ _ _ (setVertexID_eraseUv _ _ _) (fun a => ?_)
  refine bind_map_comm _ _ _ _ _ _ (setVertexID_eraseUv _ _ _) (fun a => ?_)
  refine bind_map_comm _ _ _ _ _ _ (setVertexID_eraseUv _ _ _) (fun a => ?_)
  exact setVertexID_eraseUv _ _ _

/-- The twelve assignments of the topology kernels write no `uvID`, and keep
the length of the array. -/
theorem writeNewHalfedges_keep (V E F : Int) (out out' : List cc_Halfedge_SemiRegular)
    (h t p n f e ep pt v tn : Int)
    (hw : writeNewHalfedges V E F out h t p n f e ep pt v tn = some out') :
    out'.map cc_Halfedge_SemiRegular.eraseTopology
      = out.map cc_Halfedge_SemiRegular.eraseTopology := by
  unfold writeNewHalfedges at hw
  simp only [Option.bind_eq_bind] at hw
  refine bind_keep _ _ _ out out' (fun a ha => setTwinID_keep _ _ _ _ ha) (fun a b hb => ?_) hw
  refine bind_keep _ _ _ a b (fun a ha => setTwinID_keep _ _ _ _ ha) (fun a b hb => ?_) hb
  refine bind_keep _ _ _ a b (fun a ha => setTwinID_keep _ _ _ _ ha) (fun a b hb => ?_) hb
  refine bind_keep _ _ _ a b (fun a ha => setTwinID_keep _ _ _ _ ha) (fun a b hb => ?_) hb
  refine bind_keep _ _ _ a b (fun a ha => setEdgeID_keep _ _ _ _ ha) (fun a b hb => ?_) hb
  refine bind_keep _ _ _ a b (fun a ha => setEdgeID_keep _ _ _ _ ha) (fun a b hb => ?_) hb
  refine bind_keep _ _ _ a b (fun a ha => setEdgeID_keep _ _ _ _ ha) (fun a b hb => ?_) hb
  refine bind_keep _ _ _ a b (fun a ha => setEdgeID_keep _ _ _ _ ha) (fun a b hb => ?_) hb
  refine bind_keep _ _ _ a b (fun a ha => setVertexID_keep _ _ _ _ ha) (fun a b hb => ?_) hb
  refine bind_keep _ _ _ a b (fun a ha => setVertexID_keep _ _ _ _ ha) (fun a b hb => ?_) hb
  refine bind_keep _ _ _ a b (fun a ha => setVertexID_keep _ _ _ _ ha) (fun a b hb => ?_) hb
  exact setVertexID_keep _ _ _ _ hb

/-- The four assignments of the UV kernels do not read any topology field. -/
theorem writeNewUvs_eraseTopology (out : List cc_Halfedge_SemiRegular) (h : Int)
    (uvIDs : Int × Int × Int × Int) :
    writeNewUvs (out.map cc_Halfedge_SemiRegular.eraseTopology) h uvIDs
      = (writeNewUvs out h uvIDs).map (List.map cc_Halfedge_SemiRegular.eraseTopology) := by
  unfold writeNewUvs
  simp only [Option.bind_eq_bind]
  refine bind_map_comm _ _ _ _ _ _ (setUvID_eraseTopology _ _ _) (fun a => ?_)
  refine bind_map_comm _ _ _ _ _ _ (setUvID_eraseTopology _ _ _) (fun a => ?_)
  refine bind_map_comm _ _ _ _ _ _ (setUvID_eraseTopology _ _ _) (fun a => ?_)
  exact setUvID_eraseTopology _ _ _

/-- The four assignments of the UV kernels write no topology field, and keep
the length of the array. -/
theorem writeNewUvs_keep (out out' : List cc_Halfedge_SemiRegular) (h : Int)
    (uvIDs : Int × Int × Int × Int) (hw : writeNewUvs out h uvIDs = some out') :
    out'.map cc_Halfedge_SemiRegular.eraseUv = out.map cc_Halfedge_SemiRegular.eraseUv := by
  unfold writeNewUvs at hw
  simp only [Option.bind_eq_bind] at hw
  refine bind_keep _ _ _ out out' (fun a ha => setUvID_keep _ _ _ _ ha) (fun a b hb => ?_) hw
  refine bind_keep _ _ _ a b (fun a ha => setUvID_keep _ _ _ _ ha) (fun a b hb => ?_) hb
  refine bind_keep _ _ _ a b (fun a ha => setUvID_keep _ _ _ _ ha) (fun a b hb => ?_) hb
  exact setUvID_keep _ _ _ _ hb

theorem map_bind_eq {α β γ : Type} (x : Option α) (k : α → Option β) (ψ : β → γ) :
    (x.bind k).map ψ = x.bind (fun a => (k a).map ψ) := by
  cases x <;> rfl

theorem ccs__Level_map {α β : Type} (φ : α → β) (buffer : List (List α)) (depth : Nat) :
    ccs__Level (buffer.map (List.map φ)) depth = (ccs__Level buffer depth).map (List.map φ) := by
  unfold ccs__Level
  split
  · rw [List.getElem?_map]
  · rfl

/-- Writing back a region that a map does not tell from the one that was read
is not seen through the map. -/
theorem level_set_keep {α β : Type} (φ : α → β) (buffer : List (List α)) (i : Nat)
    (out out' : List α) (h : buffer[i]? = some out) (e : out'.map φ = out.map φ) :
    (buffer.set i out').map (List.map φ) = buffer.map (List.map φ) := by
  rw [List.map_set, e]
  apply List.ext_getElem?
  intro n
  rw [List.getElem?_set]
  split
  · next e1 =>
    subst e1
    split
    · rw [List.getElem?_map, h]
      rfl
    · next hlt =>
      rw [List.getElem?_eq_none (by omega)]
  · rfl

theorem ccm_HalfedgeTwinID_eraseUvs (cage : cc_Mesh) :
    ccm_HalfedgeTwinID (ccm_EraseUvs cage) = ccm_HalfedgeTwinID cage := by
  funext h
  simp only [ccm_HalfedgeTwinID, ccm_EraseUvs, readAt_map, Option.map_map]
  rfl

theorem ccm_HalfedgeNextID_eraseUvs (cage : cc_Mesh) :
    ccm_HalfedgeNextID (ccm_EraseUvs cage) = ccm_HalfedgeNextID cage := by
  funext h
  simp only [ccm_HalfedgeNextID, ccm_EraseUvs, readAt_map, Option.map_map]
  rfl

theorem ccm_HalfedgePrevID_eraseUvs (cage : cc_Mesh) :
    ccm_HalfedgePrevID (ccm_EraseUvs cage) = ccm_HalfedgePrevID cage := by
  funext h
  simp only [ccm_HalfedgePrevID, ccm_EraseUvs, readAt_map, Option.map_map]
  rfl

theorem ccm_HalfedgeFaceID_eraseUvs (cage : cc_Mesh) :
    ccm_HalfedgeFaceID (ccm_EraseUvs cage) = ccm_HalfedgeFaceID cage := by
  funext h
  simp only [ccm_HalfedgeFaceID, ccm_EraseUvs, readAt_map, Option.map_map]
  rfl

theorem ccm_HalfedgeEdgeID_eraseUvs (cage : cc_Mesh) :
    ccm_HalfedgeEdgeID (ccm_EraseUvs cage) = ccm_HalfedgeEdgeID cage := by
  funext h
  simp only [ccm_HalfedgeEdgeID, ccm_EraseUvs, readAt_map, Option.map_map]
  rfl

theorem ccm_HalfedgeVertexID_eraseUvs (cage : cc_Mesh) :
    ccm_HalfedgeVertexID (ccm_EraseUvs cage) = ccm_HalfedgeVertexID cage := by
  funext h
  simp only [ccm_HalfedgeVertexID, ccm_EraseUvs, readAt_map, Option.map_map]
  rfl

theorem ccm_HalfedgeCount_eraseUvs (cage : cc_Mesh) :
    ccm_HalfedgeCount (ccm_EraseUvs cage) = ccm_HalfedgeCount cage := by
  simp only [ccm_HalfedgeCount, ccm_EraseUvs, List.length_map]

theorem ccm_HalfedgeCountAtDepth_eraseUvs (cage : cc_Mesh) (depth : Nat) :
    ccm_HalfedgeCountAtDepth (ccm_EraseUvs cage) depth = ccm_HalfedgeCountAtDepth cage depth := by
  simp only [ccm_HalfedgeCountAtDepth, ccm_HalfedgeCount_eraseUvs]

theorem ccm_FaceCountAtDepth_Fast_eraseUvs (cage : cc_Mesh) (depth : Nat) :
    ccm_FaceCountAtDepth_Fast (ccm_EraseUvs cage) depth
      = ccm_FaceCountAtDepth_Fast cage depth := by
  cases depth with
  | zero => rfl
  | succ d => simp only [ccm_FaceCountAtDepth_Fast, ccm_HalfedgeCount_eraseUvs]

theorem ccm_EdgeCountAtDepth_Fast_eraseUvs (cage : cc_Mesh) (depth : Nat) :
    ccm_EdgeCountAtDepth_Fast (ccm_EraseUvs cage) depth
      = ccm_EdgeCountAtDepth_Fast cage depth := by
  induction depth with
  | zero => rfl
  | succ d ih => simp only [ccm_EdgeCountAtDepth_Fast, ih, ccm_HalfedgeCountAtDepth_eraseUvs]

theorem ccm_VertexCountAtDepth_Fast_eraseUvs (cage : cc_Mesh) (depth : Nat) :
    ccm_VertexCountAtDepth_Fast (ccm_EraseUvs cage) depth
      = ccm_VertexCountAtDepth_Fast cage depth := by
  induction depth with
  | zero => rfl
  | succ d ih =>
    simp only [ccm_VertexCountAtDepth_Fast, ih, ccm_FaceCountAtDepth_Fast_eraseUvs,
      ccm_EdgeCountAtDepth_Fast_eraseUvs]

theorem ccs_HalfedgeTwinID_eraseUvs (subd : cc_Subd) :
    ccs_HalfedgeTwinID (ccs_EraseUvs subd) = ccs_HalfedgeTwinID subd := by
  funext h depth
  simp only [ccs_HalfedgeTwinID, ccs_EraseUvs, ccs__Level_map, Option.bind_eq_bind]
  cases ccs__Level subd.halfedges depth with
  | none => rfl
  | some level =>
    simp only [Option.map_some', Option.some_bind, readAt_map, Option.map_map]
    rfl

theorem ccs_HalfedgeEdgeID_eraseUvs (subd : cc_Subd) :
    ccs_HalfedgeEdgeID (ccs_EraseUvs subd) = ccs_HalfedgeEdgeID subd := by
  funext h depth
  simp only [ccs_HalfedgeEdgeID, ccs_EraseUvs, ccs__Level_map, Option.bind_eq_bind]
  cases ccs__Level subd.halfedges depth with
  | none => rfl
  | some level =>
    simp only [Option.map_some', Option.some_bind, readAt_map, Option.map_map]
    rfl

theorem ccs_HalfedgeVertexID_eraseUvs (subd : cc_Subd) :
    ccs_HalfedgeVertexID (ccs_EraseUvs subd) = ccs_HalfedgeVertexID subd := by
  funext h depth
  simp only [ccs_HalfedgeVertexID, ccs_EraseUvs, ccs__Level_map, Option.bind_eq_bind]
  cases ccs__Level subd.halfedges depth with
  | none => rfl
  | some level =>
    simp only [Option.map_some', Option.some_bind, readAt_map, Option.map_map]
    rfl

theorem ccs__HalfedgeVertexUvID_eraseTopology (subd : cc_Subd) :
    ccs__HalfedgeVertexUvID (ccs_EraseTopology subd) = ccs__HalfedgeVertexUvID subd := by
  funext h depth
  simp only [ccs__HalfedgeVertexUvID, ccs_EraseTopology, ccs__Level_map, Option.bind_eq_bind]
  cases ccs__Level subd.halfedges depth with
  | none => rfl
  | some level =>
    simp only [Option.map_some', Option.some_bind, readAt_map, Option.map_map]
    rfl

theorem ccs_HalfedgeVertexUv_eraseTopology (cc__DecodeUv : Int → cc_VertexUv) (subd : cc_Subd) :
    ccs_HalfedgeVertexUv cc__DecodeUv (ccs_EraseTopology subd)
      = ccs_HalfedgeVertexUv cc__DecodeUv subd := by
  funext h depth
  simp only [ccs_HalfedgeVertexUv, ccs__HalfedgeVertexUvID_eraseTopology]

/-! ### The topology kernels read no `uvID` -/

theorem cage_iteration_eraseUv (cage : cc_Mesh) (V E F : Int)
    (out : List cc_Halfedge_SemiRegular) (h : Int) :
    ccs__RefineCageHalfedges_iteration (ccm_EraseUvs cage) V E F
        (out.map cc_Halfedge_SemiRegular.eraseUv) h
      = (ccs__RefineCageHalfedges_iteration cage V E F out h).map
          (List.map cc_Halfedge_SemiRegular.eraseUv) := by
  unfold ccs__RefineCageHalfedges_iteration
  simp only [ccm_HalfedgeTwinID_eraseUvs, ccm_HalfedgeNextID_eraseUvs,
    ccm_HalfedgePrevID_eraseUvs, ccm_HalfedgeFaceID_eraseUvs, ccm_HalfedgeEdgeID_eraseUvs,
    ccm_HalfedgeVertexID_eraseUvs, Option.bind_eq_bind, map_bind_eq, writeNewHalfedges_eraseUv,
    apply_ite (Option.map (List.map cc_Halfedge_SemiRegular.eraseUv))]

theorem level_iteration_eraseUv (subd : cc_Subd) (depth : Nat) (V E F : Int)
    (out : List cc_Halfedge_SemiRegular) (h : Int) :
    ccs__RefineHalfedges_iteration (ccs_EraseUvs subd) depth V E F
        (out.map cc_Halfedge_SemiRegular.eraseUv) h
      = (ccs__RefineHalfedges_iteration subd depth V E F out h).map
          (List.map cc_Halfedge_SemiRegular.eraseUv) := by
  unfold ccs__RefineHalfedges_iteration
  simp only [ccs_HalfedgeTwinID_eraseUvs, ccs_HalfedgeEdgeID_eraseUvs,
    ccs_HalfedgeVertexID_eraseUvs, Option.bind_eq_bind, map_bind_eq, writeNewHalfedges_eraseUv]

theorem ccs__RefineCageHalfedges_eraseUvs (subd : cc_Subd) :
    ccs__RefineCageHalfedges (ccs_EraseUvs subd)
      = (ccs__RefineCageHalfedges subd).map ccs_EraseUvs := by
  unfold ccs__RefineCageHalfedges ccs__RefineCageHalfedges_loop
  simp only [Option.bind_eq_bind]
  have e0 : (ccs_EraseUvs subd).halfedges[0]?
      = (subd.halfedges[0]?).map (List.map cc_Halfedge_SemiRegular.eraseUv) := by
    simp only [ccs_EraseUvs, List.getElem?_map]
  refine bind_map_comm _ _ _ _ _ _ e0 (fun out => ?_)
  refine bind_map_comm (List.map cc_Halfedge_SemiRegular.eraseUv) _ _ _ _ _ ?_ (fun out' => ?_)
  · have : ccm_HalfedgeCount (ccs_EraseUvs subd).cage = ccm_HalfedgeCount subd.cage :=
      ccm_HalfedgeCount_eraseUvs subd.cage
    rw [this]
    exact foldlM_map_comm _ _ _
      (fun s (i : Nat) => cage_iteration_eraseUv subd.cage _ _ _ s i) _ out
  · simp only [ccs_EraseUvs, Option.map_some', List.map_set]

theorem ccs__RefineHalfedges_eraseUvs (subd : cc_Subd) (depth : Nat) :
    ccs__RefineHalfedges (ccs_EraseUvs subd) depth
      = (ccs__RefineHalfedges subd depth).map ccs_EraseUvs := by
  unfold ccs__RefineHalfedges ccs__RefineHalfedges_loop
  simp only [Option.bind_eq_bind]
  have e0 : ccs__Level (ccs_EraseUvs subd).halfedges (depth + 1)
      = (ccs__Level subd.halfedges (depth + 1)).map
          (List.map cc_Halfedge_SemiRegular.eraseUv) := ccs__Level_map _ _ _
  refine bind_map_comm _ _ _ _ _ _ e0 (fun out => ?_)
  have c1 : ccm_HalfedgeCountAtDepth (ccs_EraseUvs subd).cage depth
      = ccm_HalfedgeCountAtDepth subd.cage depth := ccm_HalfedgeCountAtDepth_eraseUvs _ _
  have c2 : ccm_VertexCountAtDepth_Fast (ccs_EraseUvs subd).cage depth
      = ccm_VertexCountAtDepth_Fast subd.cage depth := ccm_VertexCountAtDepth_Fast_eraseUvs _ _
  have c3 : ccm_EdgeCountAtDepth_Fast (ccs_EraseUvs subd).cage depth
      = ccm_EdgeCountAtDepth_Fast subd.cage depth := ccm_EdgeCountAtDepth_Fast_eraseUvs _ _
  have c4 : ccm_FaceCountAtDepth_Fast (ccs_EraseUvs subd).cage depth
      = ccm_FaceCountAtDepth_Fast subd.cage depth := ccm_FaceCountAtDepth_Fast_eraseUvs _ _
  rw [c1, c2, c3, c4]
  refine bind_map_comm (List.map cc_Halfedge_SemiRegular.eraseUv) _ _ _ _ _ ?_ (fun out' => ?_)
  · exact foldlM_map_comm _ _ _
      (fun s (i : Nat) => level_iteration_eraseUv subd depth _ _ _ s i) _ out
  · simp only [ccs_EraseUvs, Option.map_some', List.map_set]

/-- The topology stage reads no `uvID`: it commutes with the erasure of every
texture coordinate. -/
theorem ccs_RefineHalfedges_eraseUvs (subd : cc_Subd) :
    ccs_RefineHalfedges (ccs_EraseUvs subd) = (ccs_RefineHalfedges subd).map ccs_EraseUvs := by
  unfold ccs_RefineHalfedges
  simp only [Option.bind_eq_bind]
  refine bind_map_comm _ _ _ _ _ _ (ccs__RefineCageHalfedges_eraseUvs subd) (fun s => ?_)
  exact foldlM_map_comm _ _ _ (fun s d => ccs__RefineHalfedges_eraseUvs s d) _ s

/-! ### The topology kernels write no `uvID` -/

theorem ccs__RefineCageHalfedges_keep (subd t : cc_Subd)
    (h : ccs__RefineCageHalfedges subd = some t) :
    ccs_EraseTopology t = ccs_EraseTopology subd := by
  unfold ccs__RefineCageHalfedges ccs__RefineCageHalfedges_loop at h
  simp only [Option.bind_eq_bind] at h
  obtain ⟨out, h0, h1⟩ := Option.bind_eq_some.mp h
  obtain ⟨out', h2, h3⟩ := Option.bind_eq_some.mp h1
  simp only [Option.some.injEq] at h3
  subst h3
  have e := foldlM_keep (List.map cc_Halfedge_SemiRegular.eraseTopology) _
    (fun s (i : Nat) t hs => by
      unfold ccs__RefineCageHalfedges_iteration at hs
      simp only [Option.bind_eq_bind, Option.bind_eq_some] at hs
      obtain ⟨_, _, _, _, _, _, _, _, _, _, _, _, _, _, _, _, hs⟩ := hs
      split at hs
      · obtain ⟨_, _, hw⟩ := Option.bind_eq_some.mp hs
        exact writeNewHalfedges_keep _ _ _ _ _ _ _ _ _ _ _ _ _ _ _ hw
      · exact writeNewHalfedges_keep _ _ _ _ _ _ _ _ _ _ _ _ _ _ _ hs) _ out out' h2
  simp only [ccs_EraseTopology]
  rw [level_set_keep _ _ _ out out' h0 e]

theorem ccs__RefineHalfedges_keep (subd t : cc_Subd) (depth : Nat)
    (h : ccs__RefineHalfedges subd depth = some t) :
    ccs_EraseTopology t = ccs_EraseTopology subd := by
  unfold ccs__RefineHalfedges ccs__RefineHalfedges_loop at h
  simp only [Option.bind_eq_bind] at h
  obtain ⟨out, h0, h1⟩ := Option.bind_eq_some.mp h
  obtain ⟨out', h2, h3⟩ := Option.bind_eq_some.mp h1
  simp only [Option.some.injEq] at h3
  subst h3
  have e := foldlM_keep (List.map cc_Halfedge_SemiRegular.eraseTopology) _
    (fun s (i : Nat) t hs => by
      unfold ccs__RefineHalfedges_iteration at hs
      simp only [Option.bind_eq_bind, Option.bind_eq_some] at hs
      obtain ⟨_, _, _, _, _, _, _, _, _, _, hw⟩ := hs
      exact writeNewHalfedges_keep _ _ _ _ _ _ _ _ _ _ _ _ _ _ _ hw) _ out out' h2
  simp only [ccs_EraseTopology]
  rw [level_set_keep _ _ _ out out' (by rw [← ccs__Level_succ]; exact h0) e]

/-- The topology stage writes the fields `twinID`, `edgeID`, `vertexID` of the
halfedge records of the levels and nothing else. -/
theorem ccs_RefineHalfedges_keep (subd t : cc_Subd) (h : ccs_RefineHalfedges subd = some t) :
    ccs_EraseTopology t = ccs_EraseTopology subd := by
  unfold ccs_RefineHalfedges at h
  simp only [Option.bind_eq_bind] at h
  obtain ⟨s1, h0, h1⟩ := Option.bind_eq_some.mp h
  rw [foldlM_keep ccs_EraseTopology _ (fun s d t hs => ccs__RefineHalfedges_keep s t d hs) _ s1 t
    h1]
  exact ccs__RefineCageHalfedges_keep subd s1 h0

/-! ### The UV kernels read no topology field of a level -/

theorem ccs__RefineVertexUvs_reads_eraseTopology (cc__EncodeUv : cc_VertexUv → Int)
    (cc__DecodeUv : Int → cc_VertexUv) (subd : cc_Subd) (depth fuel : Nat) (h : Int) :
    ccs__RefineVertexUvs_reads cc__EncodeUv cc__DecodeUv (ccs_EraseTopology subd) depth fuel h
      = ccs__RefineVertexUvs_reads cc__EncodeUv cc__DecodeUv subd depth fuel h := by
  unfold ccs__RefineVertexUvs_reads
  simp only [ccs_HalfedgeVertexUv_eraseTopology, ccs__HalfedgeVertexUvID_eraseTopology,
    ccs_HalfedgeNextID]

theorem cage_uv_iteration_eraseTopology (cc__EncodeUv : cc_VertexUv → Int) (cage : cc_Mesh)
    (fuel : Nat) (out : List cc_Halfedge_SemiRegular) (h : Int) :
    ccs__RefineCageVertexUvs_iteration cc__EncodeUv cage fuel
        (out.map cc_Halfedge_SemiRegular.eraseTopology) h
      = (ccs__RefineCageVertexUvs_iteration cc__EncodeUv cage fuel out h).map
          (List.map cc_Halfedge_SemiRegular.eraseTopology) := by
  unfold ccs__RefineCageVertexUvs_iteration
  simp only [Option.bind_eq_bind, map_bind_eq, writeNewUvs_eraseTopology]

theorem level_uv_iteration_eraseTopology (cc__EncodeUv : cc_VertexUv → Int)
    (cc__DecodeUv : Int → cc_VertexUv) (subd : cc_Subd) (depth fuel : Nat)
    (out : List cc_Halfedge_SemiRegular) (h : Int) :
    ccs__RefineVertexUvs_iteration cc__EncodeUv cc__DecodeUv (ccs_EraseTopology subd) depth fuel
        (out.map cc_Halfedge_SemiRegular.eraseTopology) h
      = (ccs__RefineVertexUvs_iteration cc__EncodeUv cc__DecodeUv subd depth fuel out h).map
          (List.map cc_Halfedge_SemiRegular.eraseTopology) := by
  unfold ccs__RefineVertexUvs_iteration
  simp only [Option.bind_eq_bind, map_bind_eq, writeNewUvs_eraseTopology,
    ccs__RefineVertexUvs_reads_eraseTopology]

theorem ccs__RefineCageVertexUvs_eraseTopology (cc__EncodeUv : cc_VertexUv → Int)
    (subd : cc_Subd) (fuel : Nat) :
    ccs__RefineCageVertexUvs cc__EncodeUv (ccs_EraseTopology subd) fuel
      = (ccs__RefineCageVertexUvs cc__EncodeUv subd fuel).map ccs_EraseTopology := by
  unfold ccs__RefineCageVertexUvs
  simp only [Option.bind_eq_bind]
  have e0 : (ccs_EraseTopology subd).halfedges[0]?
      = (subd.halfedges[0]?).map (List.map cc_Halfedge_SemiRegular.eraseTopology) := by
    simp only [ccs_EraseTopology, List.getElem?_map]
  refine bind_map_comm _ _ _ _ _ _ e0 (fun out => ?_)
  refine bind_map_comm (List.map cc_Halfedge_SemiRegular.eraseTopology) _ _ _ _ _ ?_
    (fun out' => ?_)
  · exact foldlM_map_comm _ _ _
      (fun s (i : Nat) => cage_uv_iteration_eraseTopology cc__EncodeUv subd.cage fuel s i) _ out
  · simp only [ccs_EraseTopology, Option.map_some', List.map_set]

theorem ccs__RefineVertexUvs_eraseTopology (cc__EncodeUv : cc_VertexUv → Int)
    (cc__DecodeUv : Int → cc_VertexUv) (subd : cc_Subd) (depth fuel : Nat) :
    ccs__RefineVertexUvs cc__EncodeUv cc__DecodeUv (ccs_EraseTopology subd) depth fuel
      = (ccs__RefineVertexUvs cc__EncodeUv cc__DecodeUv subd depth fuel).map
          ccs_EraseTopology := by
  unfold ccs__RefineVertexUvs
  simp only [Option.bind_eq_bind]
  have e0 : ccs__Level (ccs_EraseTopology subd).halfedges (depth + 1)
      = (ccs__Level subd.halfedges (depth + 1)).map
          (List.map cc_Halfedge_SemiRegular.eraseTopology) := ccs__Level_map _ _ _
  refine bind_map_comm _ _ _ _ _ _ e0 (fun out => ?_)
  refine bind_map_comm (List.map cc_Halfedge_SemiRegular.eraseTopology) _ _ _ _ _ ?_
    (fun out' => ?_)
  · exact foldlM_map_comm _ _ _
      (fun s (i : Nat) =>
        level_uv_iteration_eraseTopology cc__EncodeUv cc__DecodeUv subd depth fuel s i) _ out
  · simp only [ccs_EraseTopology, Option.map_some', List.map_set]

/-- The UV stage reads no field `twinID`, `edgeID`, `vertexID` of a halfedge
record of a level: it commutes with their erasure. -/
theorem ccs_RefineVertexUvs_eraseTopology (cc__EncodeUv : cc_VertexUv → Int)
    (cc__DecodeUv : Int → cc_VertexUv) (subd : cc_Subd) (fuel : Nat) :
    ccs_RefineVertexUvs cc__EncodeUv cc__DecodeUv (ccs_EraseTopology subd) fuel
      = (ccs_RefineVertexUvs cc__EncodeUv cc__DecodeUv subd fuel).map ccs_EraseTopology := by
  unfold ccs_RefineVertexUvs
  have c : (ccs_EraseTopology subd).cage = subd.cage := rfl
  rw [c]
  split
  · simp only [Option.bind_eq_bind]
    refine bind_map_comm _ _ _ _ _ _
      (ccs__RefineCageVertexUvs_eraseTopology cc__EncodeUv subd fuel) (fun s => ?_)
    exact foldlM_map_comm _ _ _
      (fun s d => ccs__RefineVertexUvs_eraseTopology cc__EncodeUv cc__DecodeUv s d fuel) _ s
  · rfl

/-! ### The UV kernels write no topology field -/

theorem ccs__RefineCageVertexUvs_keep (cc__EncodeUv : cc_VertexUv → Int) (subd u : cc_Subd)
    (fuel : Nat) (h : ccs__RefineCageVertexUvs cc__EncodeUv subd fuel = some u) :
    ccs_EraseUvs u = ccs_EraseUvs subd ∧ u.cage = subd.cage := by
  unfold ccs__RefineCageVertexUvs at h
  simp only [Option.bind_eq_bind] at h
  obtain ⟨out, h0, h1⟩ := Option.bind_eq_some.mp h
  obtain ⟨out', h2, h3⟩ := Option.bind_eq_some.mp h1
  simp only [Option.some.injEq] at h3
  subst h3
  have e := foldlM_keep (List.map cc_Halfedge_SemiRegular.eraseUv) _
    (fun s (i : Nat) t hs => by
      unfold ccs__RefineCageVertexUvs_iteration at hs
      obtain ⟨_, _, hw⟩ := Option.bind_eq_some.mp hs
      exact writeNewUvs_keep _ _ _ _ hw) _ out out' h2
  refine ⟨?_, rfl⟩
  simp only [ccs_EraseUvs]
  rw [level_set_keep _ _ _ out out' h0 e]

theorem ccs__RefineVertexUvs_keep (cc__EncodeUv : cc_VertexUv → Int)
    (cc__DecodeUv : Int → cc_VertexUv) (subd u : cc_Subd) (depth fuel : Nat)
    (h : ccs__RefineVertexUvs cc__EncodeUv cc__DecodeUv subd depth fuel = some u) :
    ccs_EraseUvs u = ccs_EraseUvs subd ∧ u.cage = subd.cage := by
  unfold ccs__RefineVertexUvs at h
  simp only [Option.bind_eq_bind] at h
  obtain ⟨out, h0, h1⟩ := Option.bind_eq_some.mp h
  obtain ⟨out', h2, h3⟩ := Option.bind_eq_some.mp h1
  simp only [Option.some.injEq] at h3
  subst h3
  have e := foldlM_keep (List.map cc_Halfedge_SemiRegular.eraseUv) _
    (fun s (i : Nat) t hs => by
      unfold ccs__RefineVertexUvs_iteration at hs
      obtain ⟨_, _, hw⟩ := Option.bind_eq_some.mp hs
      exact writeNewUvs_keep _ _ _ _ hw) _ out out' h2
  refine ⟨?_, rfl⟩
  simp only [ccs_EraseUvs]
  rw [level_set_keep _ _ _ out out' (by rw [← ccs__Level_succ]; exact h0) e]

/-- The UV stage writes the field `uvID` of the halfedge records of the levels
and nothing else. -/
theorem ccs_RefineVertexUvs_keep (cc__EncodeUv : cc_VertexUv → Int)
    (cc__DecodeUv : Int → cc_VertexUv) (subd u : cc_Subd) (fuel : Nat)
    (h : ccs_RefineVertexUvs cc__EncodeUv cc__DecodeUv subd fuel = some u) :
    ccs_EraseUvs u = ccs_EraseUvs subd ∧ u.cage = subd.cage := by
  unfold ccs_RefineVertexUvs at h
  split at h
  · simp only [Option.bind_eq_bind] at h
    obtain ⟨s1, h0, h1⟩ := Option.bind_eq_some.mp h
    have e := foldlM_keep (fun s : cc_Subd => (ccs_EraseUvs s, s.cage)) _
      (fun s d t hs => by
        obtain ⟨a, b⟩ := ccs__RefineVertexUvs_keep cc__EncodeUv cc__DecodeUv s t d fuel hs
        simp only [a, b]) _ s1 u h1
    obtain ⟨a, b⟩ := ccs__RefineCageVertexUvs_keep cc__EncodeUv subd s1 fuel h0
    simp only [Prod.mk.injEq] at e
    exact ⟨e.1.trans a, e.2.trans b⟩
  · simp only [Option.some.injEq] at h
    subst h
    exact ⟨rfl, rfl⟩

/-! ### The two stages in either order -/

theorem eraseUv_eraseTopology_inj (r r' : cc_Halfedge_SemiRegular)
    (h1 : r.eraseUv = r'.eraseUv) (h2 : r.eraseTopology = r'.eraseTopology) : r = r' := by
  cases r
  cases r'
  simp only [cc_Halfedge_SemiRegular.eraseUv, cc_Halfedge_SemiRegular.eraseTopology,
    cc_Halfedge_SemiRegular.mk.injEq] at h1 h2 ⊢
  exact ⟨h1.1, h1.2.1, h1.2.2.1, h2.2.2.2⟩

theorem map_erase_inj : ∀ (xs ys : List cc_Halfedge_SemiRegular),
    xs.map cc_Halfedge_SemiRegular.eraseUv = ys.map cc_Halfedge_SemiRegular.eraseUv →
    xs.map cc_Halfedge_SemiRegular.eraseTopology = ys.map cc_Halfedge_SemiRegular.eraseTopology →
    xs = ys
  | [], [], _, _ => rfl
  | [], _ :: _, h, _ => by simp at h
  | _ :: _, [], h, _ => by simp at h
  | x :: xs, y :: ys, h1, h2 => by
    simp only [List.map_cons, List.cons.injEq] at h1 h2
    rw [eraseUv_eraseTopology_inj x y h1.1 h2.1, map_erase_inj xs ys h1.2 h2.2]

theorem map_map_erase_inj : ∀ (xs ys : List (List cc_Halfedge_SemiRegular)),
    xs.map (List.map cc_Halfedge_SemiRegular.eraseUv)
      = ys.map (List.map cc_Halfedge_SemiRegular.eraseUv) →
    xs.map (List.map cc_Halfedge_SemiRegular.eraseTopology)
      = ys.map (List.map cc_Halfedge_SemiRegular.eraseTopology) →
    xs = ys
  | [], [], _, _ => rfl
  | [], _ :: _, h, _ => by simp at h
  | _ :: _, [], h, _ => by simp at h
  | x :: xs, y :: ys, h1, h2 => by
    simp only [List.map_cons, List.cons.injEq] at h1 h2
    rw [map_erase_inj x y h1.1 h2.1, map_map_erase_inj xs ys h1.2 h2.2]

/-- A subdivision is known by its topology fields and its texture
coordinates. -/
theorem ccs_erase_inj (x y : cc_Subd) (h1 : ccs_EraseUvs x = ccs_EraseUvs y)
    (h2 : ccs_EraseTopology x = ccs_EraseTopology y) : x = y := by
  cases x
  cases y
  simp only [ccs_EraseUvs, ccs_EraseTopology, cc_Subd.mk.injEq] at h1 h2 ⊢
  exact ⟨h2.1, h2.2.1, map_map_erase_inj _ _ h1.2.2.1 h2.2.2.1, h2.2.2.2.1, h2.2.2.2.2⟩

/-- Two stages of which the first reads nothing of what the second writes, and
the other way round, give the same result in either order, and fail in one
order when they fail in the other. -/
theorem stages_commute {σ : Type} (T U : σ → Option σ) (πT πU : σ → σ)
    (hTr : ∀ s, T (πT s) = (T s).map πT) (hTw : ∀ s t, T s = some t → πU t = πU s)
    (hUr : ∀ s, U (πU s) = (U s).map πU) (hUw : ∀ s u, U s = some u → πT u = πT s)
    (hinj : ∀ x y, πT x = πT y → πU x = πU y → x = y) (s : σ) :
    (T s).bind U = (U s).bind T := by
  cases hT : T s with
  | none =>
    cases hU : U s with
    | none => rfl
    | some u =>
      simp only [Option.none_bind, Option.some_bind]
      have a := hTr u
      rw [hUw s u hU, hTr s, hT] at a
      cases hTu : T u with
      | none => rfl
      | some y => simp [hTu] at a
  | some t =>
    cases hU : U s with
    | none =>
      simp only [Option.none_bind, Option.some_bind]
      have a := hUr t
      rw [hTw s t hT, hUr s, hU] at a
      cases hUt : U t with
      | none => rfl
      | some y => simp [hUt] at a
    | some u =>
      simp only [Option.some_bind]
      have a := hUr t
      rw [hTw s t hT, hUr s, hU] at a
      have b := hTr u
      rw [hUw s u hU, hTr s, hT] at b
      cases hUt : U t with
      | none => simp [hUt] at a
      | some x =>
        cases hTu : T u with
        | none => simp [hTu] at b
        | some y =>
          rw [hUt] at a
          rw [hTu] at b
          simp only [Option.map_some', Option.some.injEq] at a b
          rw [hinj x y ((hUw t x hUt).trans b) (a.symm.trans (hTw u y hTu).symm)]

/-- C39: the topology stage and the UV stage touch disjoint fields.
`ccs_RefineHalfedges` writes the fields `twinID`, `edgeID`, `vertexID` of the
halfedge records of the levels and nothing else (what is left of the
subdivision when these fields are erased is as it was), and reads no `uvID`
(on the subdivision without any texture coordinate it does the same, texture
coordinates apart, and fails in the same cases).  `ccs_RefineVertexUvs` writes
the field `uvID` of the halfedge records of the levels and nothing else, reads
no `twinID`, `edgeID`, `vertexID` of a record of a level, and returns the
subdivision as it is when the cage has no texture coordinate.  The two stages
in either order give the same subdivision, and one order fails exactly when
the other one does.  The packing `cc__EncodeUv`, its inverse `cc__DecodeUv` and
the bound `fuel` on the iterations of the inner loop of the UV kernels are
arbitrary. -/
theorem C39_topology_uv_disjoint (cc__EncodeUv : cc_VertexUv → Int)
    (cc__DecodeUv : Int → cc_VertexUv) (fuel : Nat) (subd : cc_Subd) :
    (∀ t, ccs_RefineHalfedges subd = some t → ccs_EraseTopology t = ccs_EraseTopology subd) ∧
    ccs_RefineHalfedges (ccs_EraseUvs subd) = (ccs_RefineHalfedges subd).map ccs_EraseUvs ∧
    (∀ u, ccs_RefineVertexUvs cc__EncodeUv cc__DecodeUv subd fuel = some u →
      ccs_EraseUvs u = ccs_EraseUvs subd ∧ u.cage = subd.cage) ∧
    ccs_RefineVertexUvs cc__EncodeUv cc__DecodeUv (ccs_EraseTopology subd) fuel
      = (ccs_RefineVertexUvs cc__EncodeUv cc__DecodeUv subd fuel).map ccs_EraseTopology ∧
    (ccm_UvCount subd.cage = 0 →
      ccs_RefineVertexUvs cc__EncodeUv cc__DecodeUv subd fuel = some subd) ∧
    (ccs_RefineHalfedges subd).bind
        (fun t => ccs_RefineVertexUvs cc__EncodeUv cc__DecodeUv t fuel)
      = (ccs_RefineVertexUvs cc__EncodeUv cc__DecodeUv subd fuel).bind ccs_RefineHalfedges := by
  refine ⟨fun t h => ccs_RefineHalfedges_keep subd t h, ccs_RefineHalfedges_eraseUvs subd,
    fun u h => ccs_RefineVertexUvs_keep cc__EncodeUv cc__DecodeUv subd u fuel h,
    ccs_RefineVertexUvs_eraseTopology cc__EncodeUv cc__DecodeUv subd fuel, ?_, ?_⟩
  · intro h0
    unfold ccs_RefineVertexUvs
    rw [if_neg (by omega)]
  · exact stages_commute ccs_RefineHalfedges
      (fun s => ccs_RefineVertexUvs cc__EncodeUv cc__DecodeUv s fuel) ccs_EraseUvs
      ccs_EraseTopology ccs_RefineHalfedges_eraseUvs ccs_RefineHalfedges_keep
      (fun s => ccs_RefineVertexUvs_eraseTopology cc__EncodeUv cc__DecodeUv s fuel)
      (fun s u h => (ccs_RefineVertexUvs_keep cc__EncodeUv cc__DecodeUv s u fuel h).1)
      ccs_erase_inj subd

/-! ## The mesh container: `ccm_Save` and `ccm_Load`

A file is the list of its bytes.  `fwrite` copies the memory image of objects
to the file and `fread` copies bytes of the file back to objects: the images of
the C types are fixed by the compiler and the machine, and they are a parameter
of the model, the layout. -/

/-- A byte of a file. -/
abbrev cc_Byte := Fin 256

/-- The memory image of the objects of a C type: `size` is `sizeof` of the type,
`image` gives the bytes of an object, `value` the object that the bytes hold,
and `ok` tells the values of the model that an object of the type can hold (an
integer in the range of `int32_t`, a rational that is a `float`). -/
structure cc_Image (α : Type) where
  size : Nat
  image : α → List cc_Byte
  value : List cc_Byte → α
  ok : α → Prop

/-- What is true of the memory image of a C type: an object has `size` bytes,
and its bytes hold it. -/
structure cc_Image.Lawful {α : Type} (I : cc_Image α) : Prop where
  length_image : ∀ a, (I.image a).length = I.size
  value_image : ∀ a, I.ok a → I.value (I.image a) = a

/-- The layout: the memory images of `int32_t` and of the records
`cc_VertexPoint`, `cc_VertexUv`, `cc_Crease` and `cc_Halfedge` of the header
`CatmullClark.h`, and the bytes `headerPadding` that the compiler adds at the
end of `ccm__Header` (none, or four where an `int64_t` is aligned on eight
bytes). -/
structure cc_Layout where
  int32 : cc_Image Int
  vertexPoint : cc_Image cc_VertexPoint
  vertexUv : cc_Image cc_VertexUv
  crease : cc_Image cc_Crease
  halfedge : cc_Image cc_Halfedge
  headerPadding : List cc_Byte

/-- The memory images of a layout are lawful. -/
structure cc_Layout.Lawful (L : cc_Layout) : Prop where
  int32 : L.int32.Lawful
  vertexPoint : L.vertexPoint.Lawful
  vertexUv : L.vertexUv.Lawful
  crease : L.crease.Lawful
  halfedge : L.halfedge.Lawful

/-- The bytes of the objects of an array, one after the other. -/
def cc_Image.images {α : Type} (I : cc_Image α) : List α → List cc_Byte
  | [] => []
  | a :: as => I.image a ++ I.images as

/-- The `count` objects that the first `count * size` bytes of a stream hold. -/
def cc_Image.values {α : Type} (I : cc_Image α) : Nat → List cc_Byte → List α
  | 0, _ => []
  | count + 1, stream => I.value (stream.take I.size) :: I.values count (stream.drop I.size)

/-- The call `fwrite(ptr, size, count, stream) == count` on a stream that is
written without an error of the device: the images of the first `count` objects
of the array `ptr` are appended to the stream.  `none` when the array has less
than `count` objects. -/
def fwrite {α : Type} (I : cc_Image α) (ptr : List α) (count : Nat) (stream : List cc_Byte) :
    Option (List cc_Byte) :=
  if count ≤ ptr.length then some (stream ++ I.images (ptr.take count)) else none

/-- The call `fread(ptr, size, count, stream) == count`: when the rest of the
stream has `count * size` bytes, the `count` objects they hold and what is left
of the stream; `none` (the test is false) when the stream is shorter. -/
def fread {α : Type} (I : cc_Image α) (count : Nat) (stream : List cc_Byte) :
    Option (List α × List cc_Byte) :=
  if count * I.size ≤ stream.length then
    some (I.values count stream, stream.drop (count * I.size))
  else none

/-- The value of `ccm__Magic`: the function returns the member `numeric` of a
union whose member `string` holds the eight characters `cc_Mesh1`.  An
`int64_t` has no padding bit, so two of them are equal exactly when their eight
bytes are: the model keeps the eight bytes of the integer. -/
def ccm__Magic : List cc_Byte := [0x63, 0x63, 0x5F, 0x4D, 0x65, 0x73, 0x68, 0x31]

/-- The structure `ccm__Header`; `magic` is the eight bytes of the `int64_t`. -/
structure ccm__Header where
  magic : List cc_Byte
  vertexCount : Int
  uvCount : Int
  halfedgeCount : Int
  edgeCount : Int
  faceCount : Int
deriving DecidableEq, Repr

/-- Modelled from the spec: `ccm_CreaseCount` of the header, the number of
creases of the cage: `creaseCount` equals `edgeCount` (section 6). -/
def ccm_CreaseCount (cage : cc_Mesh) : Nat := ccm_EdgeCount cage

/-- The function `ccm__CreateHeader`. -/
def ccm__CreateHeader (mesh : cc_Mesh) : ccm__Header :=
  { magic := ccm__Magic,
    vertexCount := ccm_VertexCount mesh,
    uvCount := ccm_UvCount mesh,
    halfedgeCount := ccm_HalfedgeCount mesh,
    edgeCount := ccm_EdgeCount mesh,
    faceCount := ccm_FaceCount mesh }

/-- The value of `sizeof(ccm__Header)`: the eight bytes of `magic`, the five
counts, and the padding of the layout. -/
def ccm__HeaderSize (L : cc_Layout) : Nat :=
  8 + 5 * L.int32.size + L.headerPadding.length

/-- The memory image of a `ccm__Header`: its members in the order of their
declaration, then the padding. -/
def ccm__HeaderImage (L : cc_Layout) (header : ccm__Header) : List cc_Byte :=
  header.magic ++ L.int32.image header.vertexCount ++ L.int32.image header.uvCount
    ++ L.int32.image header.halfedgeCount ++ L.int32.image header.edgeCount
    ++ L.int32.image header.faceCount ++ L.headerPadding

/-- The `ccm__Header` that `sizeof(ccm__Header)` bytes hold. -/
def ccm__HeaderValue (L : cc_Layout) (bytes : List cc_Byte) : ccm__Header :=
  { magic := bytes.take 8,
    vertexCount := L.int32.value ((bytes.drop 8).take L.int32.size),
    uvCount := L.int32.value ((bytes.drop (8 + L.int32.size)).take L.int32.size),
    halfedgeCount := L.int32.value ((bytes.drop (8 + 2 * L.int32.size)).take L.int32.size),
    edgeCount := L.int32.value ((bytes.drop (8 + 3 * L.int32.size)).take L.int32.size),
    faceCount := L.int32.value ((bytes.drop (8 + 4 * L.int32.size)).take L.int32.size) }

/-- The function `ccm__ReadHeader`: `none` when it returns `false` (the stream
has less than `sizeof(ccm__Header)` bytes, or the magic is not `ccm__Magic`),
the header and the rest of the stream otherwise. -/
def ccm__ReadHeader (L : cc_Layout) (stream : List cc_Byte) :
    Option (ccm__Header × List cc_Byte) :=
  if stream.length < ccm__HeaderSize L then none
  else
    let header := ccm__HeaderValue L (stream.take (ccm__HeaderSize L))
    if header.magic = ccm__Magic then some (header, stream.drop (ccm__HeaderSize L)) else none

/-- Modelled from the spec: `ccm_Create` of the header, a mesh of the five
counts whose arrays are allocated and not filled (section 3, section 6); the
blank records are zero.  `none` when a count is negative: there is no array of
a negative number of records, and a read of `(size_t) count` records by
`ccm__ReadData` does not return that number. -/
def ccm_Create (vertexCount uvCount halfedgeCount edgeCount faceCount : Int) : Option cc_Mesh :=
  if 0 ≤ vertexCount ∧ 0 ≤ uvCount ∧ 0 ≤ halfedgeCount ∧ 0 ≤ edgeCount ∧ 0 ≤ faceCount then
    some
      { vertexCount := vertexCount.toNat,
        edgeCount := edgeCount.toNat,
        faceCount := faceCount.toNat,
        halfedges := List.replicate halfedgeCount.toNat ⟨0, 0, 0, 0, 0, 0, 0⟩,
        creases := List.replicate edgeCount.toNat ⟨0, 0, 0⟩,
        vertexToHalfedgeIDs := List.replicate vertexCount.toNat 0,
        edgeToHalfedgeIDs := List.replicate edgeCount.toNat 0,
        faceToHalfedgeIDs := List.replicate faceCount.toNat 0,
        vertexPoints := List.replicate vertexCount.toNat (0, 0, 0),
        uvs := List.replicate uvCount.toNat (0, 0) }
  else none

/-- The function `ccm__ReadData`: the seven reads, in the order of the source;
`none` when it returns `false`, the filled mesh otherwise.  The arrays of the
mesh have the length of their count, so a read of `count` records fills the
array. -/
def ccm__ReadData (L : cc_Layout) (mesh : cc_Mesh) (stream : List cc_Byte) : Option cc_Mesh := do
  let vertexCount := ccm_VertexCount mesh
  let uvCount := ccm_UvCount mesh
  let halfedgeCount := ccm_HalfedgeCount mesh
  let creaseCount := ccm_CreaseCount mesh
  let edgeCount := ccm_EdgeCount mesh
  let faceCount := ccm_FaceCount mesh
  let (vertexToHalfedgeIDs, stream) ← fread L.int32 vertexCount stream
  let (edgeToHalfedgeIDs, stream) ← fread L.int32 edgeCount stream
  let (faceToHalfedgeIDs, stream) ← fread L.int32 faceCount stream
  let (vertexPoints, stream) ← fread L.vertexPoint vertexCount stream
  let (uvs, stream) ← fread L.vertexUv uvCount stream
  let (creases, stream) ← fread L.crease creaseCount stream
  let (halfedges, _) ← fread L.halfedge halfedgeCount stream
  some { mesh with
    vertexToHalfedgeIDs := vertexToHalfedgeIDs,
    edgeToHalfedgeIDs := edgeToHalfedgeIDs,
    faceToHalfedgeIDs := faceToHalfedgeIDs,
    vertexPoints := vertexPoints,
    uvs := uvs,
    creases := creases,
    halfedges := halfedges }

/-- What a call of `ccm_Load` does: the mesh it returns (`none` for `NULL`), and
the numbers of calls of `ccm_Create`, of `ccm_Release`, of `fopen` that return a
stream, and of `fclose`. -/
structure ccm_LoadOutcome where
  mesh : Option cc_Mesh
  created : Nat
  released : Nat
  opened : Nat
  closed : Nat
deriving DecidableEq, Repr

/-- The function `ccm_Load`; `file` is the bytes of the file of the name
`filename`, `none` when `fopen` does not open it. -/
def ccm_Load (L : cc_Layout) (file : Option (List cc_Byte)) : ccm_LoadOutcome :=
  match file with
  | none => { mesh := none, created := 0, released := 0, opened := 0, closed := 0 }
  | some stream =>
    match ccm__ReadHeader L stream with
    | none => { mesh := none, created := 0, released := 0, opened := 1, closed := 1 }
    | some (header, stream) =>
      match (ccm_Create header.vertexCount header.uvCount header.halfedgeCount
          header.edgeCount header.faceCount).bind (fun mesh => ccm__ReadData L mesh stream) with
      | none => { mesh := none, created := 1, released := 1, opened := 1, closed := 1 }
      | some mesh => { mesh := some mesh, created := 1, released := 0, opened := 1, closed := 1 }

/-- The function `ccm_Save` on a file that is opened and written without an
error of the device: the bytes of the file when it returns `true`.  `none` when
an array of the mesh has less records than its count. -/
def ccm_Save (L : cc_Layout) (mesh : cc_Mesh) : Option (List cc_Byte) := do
  let vertexCount := ccm_VertexCount mesh
  let uvCount := ccm_UvCount mesh
  let halfedgeCount := ccm_HalfedgeCount mesh
  let creaseCount := ccm_CreaseCount mesh
  let edgeCount := ccm_EdgeCount mesh
  let faceCount := ccm_FaceCount mesh
  let header := ccm__CreateHeader mesh
  let stream : List cc_Byte := ccm__HeaderImage L header
  let stream ← fwrite L.int32 mesh.vertexToHalfedgeIDs vertexCount stream
  let stream ← fwrite L.int32 mesh.edgeToHalfedgeIDs edgeCount stream
  let stream ← fwrite L.int32 mesh.faceToHalfedgeIDs faceCount stream
  let stream ← fwrite L.vertexPoint mesh.vertexPoints vertexCount stream
  let stream ← fwrite L.vertexUv mesh.uvs uvCount stream
  let stream ← fwrite L.crease mesh.creases creaseCount stream
  let stream ← fwrite L.halfedge mesh.halfedges halfedgeCount stream
  some stream

/-- The arrays of the mesh have the number of records of their count. -/
def ccm_WellFormed (mesh : cc_Mesh) : Prop :=
  mesh.vertexToHalfedgeIDs.length = ccm_VertexCount mesh ∧
  mesh.edgeToHalfedgeIDs.length = ccm_EdgeCount mesh ∧
  mesh.faceToHalfedgeIDs.length = ccm_FaceCount mesh ∧
  mesh.vertexPoints.length = ccm_VertexCount mesh ∧
  mesh.creases.length = ccm_CreaseCount mesh

instance (mesh : cc_Mesh) : Decidable (ccm_WellFormed mesh) := by
  unfold ccm_WellFormed
  infer_instance

/-- The counts and the records of the mesh are values that the C types hold. -/
def ccm_Representable (L : cc_Layout) (mesh : cc_Mesh) : Prop :=
  L.int32.ok (ccm_VertexCount mesh) ∧ L.int32.ok (ccm_UvCount mesh) ∧
  L.int32.ok (ccm_HalfedgeCount mesh) ∧ L.int32.ok (ccm_EdgeCount mesh) ∧
  L.int32.ok (ccm_FaceCount mesh) ∧
  (∀ x ∈ mesh.vertexToHalfedgeIDs, L.int32.ok x) ∧
  (∀ x ∈ mesh.edgeToHalfedgeIDs, L.int32.ok x) ∧
  (∀ x ∈ mesh.faceToHalfedgeIDs, L.int32.ok x) ∧
  (∀ x ∈ mesh.vertexPoints, L.vertexPoint.ok x) ∧
  (∀ x ∈ mesh.uvs, L.vertexUv.ok x) ∧
  (∀ x ∈ mesh.creases, L.crease.ok x) ∧
  (∀ x ∈ mesh.halfedges, L.halfedge.ok x)

/-- The number of bytes of the seven arrays of a file whose header has the
counts of `header`. -/
def ccm__BodySize (L : cc_Layout) (header : ccm__Header) : Int :=
  header.vertexCount * L.int32.size + header.edgeCount * L.int32.size
    + header.faceCount * L.int32.size + header.vertexCount * L.vertexPoint.size
    + header.uvCount * L.vertexUv.size + header.edgeCount * L.crease.size
    + header.halfedgeCount * L.halfedge.size

/-- The body of a file holds the arrays of the counts of its header: no count
is negative (as a `size_t`, a negative count is a count that no file holds), and
the body has the bytes of the seven arrays. -/
def ccm__BodyFits (L : cc_Layout) (header : ccm__Header) (body : List cc_Byte) : Prop :=
  0 ≤ header.vertexCount ∧ 0 ≤ header.uvCount ∧ 0 ≤ header.halfedgeCount ∧
  0 ≤ header.edgeCount ∧ 0 ≤ header.faceCount ∧
  ccm__BodySize L header ≤ body.length

theorem cc_Image.length_images {α : Type} (I : cc_Image α) (hI : I.Lawful) (xs : List α) :
    (I.images xs).length = xs.length * I.size := by
  induction xs with
  | nil => simp [cc_Image.images]
  | cons a as ih =>
    simp only [cc_Image.images, List.length_append, hI.length_image, ih, List.length_cons]
    ring

/-- The objects that `fread` gets from the images that `fwrite` wrote. -/
theorem cc_Image.values_images {α : Type} (I : cc_Image α) (hI : I.Lawful) (xs : List α)
    (hok : ∀ x ∈ xs, I.ok x) (rest : List cc_Byte) :
    I.values xs.length (I.images xs ++ rest) = xs := by
  induction xs with
  | nil => rfl
  | cons a as ih =>
    simp only [cc_Image.images, List.length_cons, cc_Image.values, List.append_assoc]
    rw [List.take_left' (hI.length_image a), List.drop_left' (hI.length_image a),
      hI.value_image a (hok a (List.mem_cons_self a as)),
      ih (fun x hx => hok x (List.mem_cons_of_mem a hx))]

/-- A read of the records that a write has written gives them back, and leaves
what follows them in the stream. -/
theorem fread_images {α : Type} (I : cc_Image α) (hI : I.Lawful) (xs : List α)
    (hok : ∀ x ∈ xs, I.ok x) (count : Nat) (hc : xs.length = count) (rest : List cc_Byte) :
    fread I count (I.images xs ++ rest) = some (xs, rest) := by
  subst hc
  unfold fread
  have hl := I.length_images hI xs
  rw [if_pos (by rw [List.length_append, hl]; omega), I.values_images hI xs hok rest,
    ← hl, List.drop_left]

theorem fwrite_all {α : Type} (I : cc_Image α) (xs : List α) (count : Nat)
    (hc : xs.length = count) (stream : List cc_Byte) :
    fwrite I xs count stream = some (stream ++ I.images xs) := by
  subst hc
  unfold fwrite
  rw [if_pos (le_refl _), List.take_length]

theorem drop_take_mid {α : Type} (pre x post : List α) (n k : Nat) (hn : pre.length = n)
    (hk : x.length = k) : ((pre ++ (x ++ post)).drop n).take k = x := by
  subst hn
  subst hk
  rw [List.drop_left, List.take_left]

/-- The header that the image of a header holds. -/
theorem ccm__HeaderValue_image (L : cc_Layout) (hL : L.int32.Lawful) (header : ccm__Header)
    (hm : header.magic.length = 8) (h1 : L.int32.ok header.vertexCount)
    (h2 : L.int32.ok header.uvCount) (h3 : L.int32.ok header.halfedgeCount)
    (h4 : L.int32.ok header.edgeCount) (h5 : L.int32.ok header.faceCount) :
    ccm__HeaderValue L (ccm__HeaderImage L header) = header := by
  have l1 := hL.length_image header.vertexCount
  have l2 := hL.length_image header.uvCount
  have l3 := hL.length_image header.halfedgeCount
  have l4 := hL.length_image header.edgeCount
  have l5 := hL.length_image header.faceCount
  unfold ccm__HeaderValue ccm__HeaderImage
  simp only [List.append_assoc]
  have e0 : (header.magic ++ (L.int32.image header.vertexCount ++ (L.int32.image header.uvCount
      ++ (L.int32.image header.halfedgeCount ++ (L.int32.image header.edgeCount
      ++ (L.int32.image header.faceCount ++ L.headerPadding)))))).take 8 = header.magic := by
    rw [← hm, List.take_left]
  have e1 := drop_take_mid header.magic (L.int32.image header.vertexCount)
    (L.int32.image header.uvCount ++ (L.int32.image header.halfedgeCount
      ++ (L.int32.image header.edgeCount ++ (L.int32.image header.faceCount
      ++ L.headerPadding)))) 8 L.int32.size hm l1
  have e2 := drop_take_mid (header.magic ++ L.int32.image header.vertexCount)
    (L.int32.image header.uvCount)
    (L.int32.image header.halfedgeCount ++ (L.int32.image header.edgeCount
      ++ (L.int32.image header.faceCount ++ L.headerPadding))) (8 + L.int32.size) L.int32.size
    (by rw [List.length_append, hm, l1]) l2
  have e3 := drop_take_mid
    (header.magic ++ (L.int32.image header.vertexCount ++ L.int32.image header.uvCount))
    (L.int32.image header.halfedgeCount)
    (L.int32.image header.edgeCount ++ (L.int32.image header.faceCount ++ L.headerPadding))
    (8 + 2 * L.int32.size) L.int32.size
    (by simp only [List.length_append, hm, l1, l2]; omega) l3
  have e4 := drop_take_mid
    (header.magic ++ (L.int32.image header.vertexCount ++ (L.int32.image header.uvCount
      ++ L.int32.image header.halfedgeCount)))
    (L.int32.image header.edgeCount) (L.int32.image header.faceCount ++ L.headerPadding)
    (8 + 3 * L.int32.size) L.int32.size
    (by simp only [List.length_append, hm, l1, l2, l3]; omega) l4
  have e5 := drop_take_mid
    (header.magic ++ (L.int32.image header.vertexCount ++ (L.int32.image header.uvCount
      ++ (L.int32.image header.halfedgeCount ++ L.int32.image header.edgeCount))))
    (L.int32.image header.faceCount) L.headerPadding
    (8 + 4 * L.int32.size) L.int32.size
    (by simp only [List.length_append, hm, l1, l2, l3, l4]; omega) l5
  simp only [List.append_assoc] at e1 e2 e3 e4 e5
  rw [e0, e1, e2, e3, e4, e5, hL.value_image _ h1, hL.value_image _ h2, hL.value_image _ h3,
    hL.value_image _ h4, hL.value_image _ h5]

theorem ccm__HeaderImage_length (L : cc_Layout) (hL : L.int32.Lawful) (header : ccm__Header)
    (hm : header.magic.length = 8) :
    (ccm__HeaderImage L header).length = ccm__HeaderSize L := by
  unfold ccm__HeaderImage ccm__HeaderSize
  simp only [List.length_append, hL.length_image, hm]
  omega

/-- A read of the header that `ccm_Save` writes gives it back, and leaves the
body of the file in the stream. -/
theorem ccm__ReadHeader_image (L : cc_Layout) (hL : L.int32.Lawful) (mesh : cc_Mesh)
    (h1 : L.int32.ok (ccm_VertexCount mesh)) (h2 : L.int32.ok (ccm_UvCount mesh))
    (h3 : L.int32.ok (ccm_HalfedgeCount mesh)) (h4 : L.int32.ok (ccm_EdgeCount mesh))
    (h5 : L.int32.ok (ccm_FaceCount mesh)) (body : List cc_Byte) :
    ccm__ReadHeader L (ccm__HeaderImage L (ccm__CreateHeader mesh) ++ body)
      = some (ccm__CreateHeader mesh, body) := by
  have hm : (ccm__CreateHeader mesh).magic.length = 8 := rfl
  have hl := ccm__HeaderImage_length L hL (ccm__CreateHeader mesh) hm
  unfold ccm__ReadHeader
  rw [if_neg (by rw [List.length_append, hl]; omega)]
  simp only
  rw [← hl, List.take_left, List.drop_left,
    ccm__HeaderValue_image L hL (ccm__CreateHeader mesh) hm h1 h2 h3 h4 h5]
  exact if_pos rfl

/-- The bytes of the file that `ccm_Save` writes: the image of the header, then
the seven arrays in the order of the source. -/
theorem ccm_Save_eq (L : cc_Layout) (mesh : cc_Mesh) (hw : ccm_WellFormed mesh) :
    ccm_Save L mesh = some (ccm__HeaderImage L (ccm__CreateHeader mesh)
      ++ L.int32.images mesh.vertexToHalfedgeIDs ++ L.int32.images mesh.edgeToHalfedgeIDs
      ++ L.int32.images mesh.faceToHalfedgeIDs ++ L.vertexPoint.images mesh.vertexPoints
      ++ L.vertexUv.images mesh.uvs ++ L.crease.images mesh.creases
      ++ L.halfedge.images mesh.halfedges) := by
  obtain ⟨w1, w2, w3, w4, w5⟩ := hw
  unfold ccm_Save
  simp only [Option.bind_eq_bind]
  rw [fwrite_all _ _ _ w1, Option.some_bind, fwrite_all _ _ _ w2, Option.some_bind,
    fwrite_all _ _ _ w3, Option.some_bind, fwrite_all _ _ _ w4, Option.some_bind,
    fwrite_all _ mesh.uvs (ccm_UvCount mesh) rfl, Option.some_bind, fwrite_all _ _ _ w5,
    Option.some_bind, fwrite_all _ mesh.halfedges (ccm_HalfedgeCount mesh) rfl, Option.some_bind]

theorem ccm_Create_natCast (v u h e f : Nat) :
    ccm_Create v u h e f = some
      { vertexCount := v, edgeCount := e, faceCount := f,
        halfedges := List.replicate h ⟨0, 0, 0, 0, 0, 0, 0⟩,
        creases := List.replicate e ⟨0, 0, 0⟩,
        vertexToHalfedgeIDs := List.replicate v 0,
        edgeToHalfedgeIDs := List.replicate e 0,
        faceToHalfedgeIDs := List.replicate f 0,
        vertexPoints := List.replicate v (0, 0, 0),
        uvs := List.replicate u (0, 0) } := by
  unfold ccm_Create
  rw [if_pos ⟨Int.natCast_nonneg _, Int.natCast_nonneg _, Int.natCast_nonneg _,
    Int.natCast_nonneg _, Int.natCast_nonneg _⟩]
  simp only [Int.toNat_ofNat]

/-- C31: Save then Load is the identity.  For every layout whose memory images
are lawful, and every mesh whose arrays have the number of records of their
count and whose counts and records are values that the C types hold, `ccm_Save`
writes the image of the header followed by the arrays `vertexToHalfedgeIDs`,
`edgeToHalfedgeIDs`, `faceToHalfedgeIDs`, `vertexPoints`, `uvs`, `creases` and
`halfedges`, in this order, and `ccm_Load` of these bytes returns the mesh: the
same counts and the same arrays, record for record. -/
theorem C31_save_load_identity (L : cc_Layout) (hL : L.Lawful) (mesh : cc_Mesh)
    (hw : ccm_WellFormed mesh) (hr : ccm_Representable L mesh) :
    ∃ bytes : List cc_Byte, ccm_Save L mesh = some bytes ∧
      bytes = ccm__HeaderImage L (ccm__CreateHeader mesh)
        ++ L.int32.images mesh.vertexToHalfedgeIDs ++ L.int32.images mesh.edgeToHalfedgeIDs
        ++ L.int32.images mesh.faceToHalfedgeIDs ++ L.vertexPoint.images mesh.vertexPoints
        ++ L.vertexUv.images mesh.uvs ++ L.crease.images mesh.creases
        ++ L.halfedge.images mesh.halfedges ∧
      ccm_Load L (some bytes)
        = { mesh := some mesh, created := 1, released := 0, opened := 1, closed := 1 } := by
  refine ⟨_, ccm_Save_eq L mesh hw, rfl, ?_⟩
  obtain ⟨w1, w2, w3, w4, w5⟩ := hw
  obtain ⟨r1, r2, r3, r4, r5, r6, r7, r8, r9, r10, r11, r12⟩ := hr
  unfold ccm_Load
  simp only [List.append_assoc]
  rw [ccm__ReadHeader_image L hL.int32 mesh r1 r2 r3 r4 r5]
  simp only [ccm__CreateHeader]
  rw [ccm_Create_natCast, Option.some_bind]
  unfold ccm__ReadData
  simp only [ccm_VertexCount, ccm_UvCount, ccm_HalfedgeCount, ccm_CreaseCount, ccm_EdgeCount,
    ccm_FaceCount, List.length_replicate, Option.bind_eq_bind] at w1 w2 w3 w4 w5 ⊢
  rw [fread_images L.int32 hL.int32 _ r6 _ w1, Option.some_bind]
  simp only
  rw [fread_images L.int32 hL.int32 _ r7 _ w2, Option.some_bind]
  simp only
  rw [fread_images L.int32 hL.int32 _ r8 _ w3, Option.some_bind]
  simp only
  rw [fread_images L.vertexPoint hL.vertexPoint _ r9 _ w4, Option.some_bind]
  simp only
  rw [fread_images L.vertexUv hL.vertexUv _ r10 _ rfl, Option.some_bind]
  simp only
  rw [fread_images L.crease hL.crease _ r11 _ w5, Option.some_bind]
  simp only
  have e := fread_images L.halfedge hL.halfedge _ r12 _ rfl []
  rw [List.append_nil] at e
  rw [e, Option.some_bind]

/-- The function `ccm__ReadHeader` returns `false` exactly when the stream is
shorter than a header or its first eight bytes are not the magic. -/
theorem ccm__ReadHeader_eq_none (L : cc_Layout) (stream : List cc_Byte) :
    ccm__ReadHeader L stream = none ↔
      stream.length < ccm__HeaderSize L ∨ stream.take 8 ≠ ccm__Magic := by
  have h8 : (stream.take (ccm__HeaderSize L)).take 8 = stream.take 8 := by
    rw [List.take_take]
    congr 1
    unfold ccm__HeaderSize
    omega
  unfold ccm__ReadHeader
  by_cases hl : stream.length < ccm__HeaderSize L
  · simp [hl]
  · rw [if_neg hl]
    simp only [ccm__HeaderValue, h8, hl, false_or]
    by_cases hm : stream.take 8 = ccm__Magic
    · simp [hm]
    · simp [hm]

theorem ccm__ReadHeader_eq_some (L : cc_Layout) (stream : List cc_Byte)
    (hl : ¬ stream.length < ccm__HeaderSize L) (hm : stream.take 8 = ccm__Magic) :
    ccm__ReadHeader L stream
      = some (ccm__HeaderValue L (stream.take (ccm__HeaderSize L)),
          stream.drop (ccm__HeaderSize L)) := by
  have h8 : (stream.take (ccm__HeaderSize L)).take 8 = stream.take 8 := by
    rw [List.take_take]
    congr 1
    unfold ccm__HeaderSize
    omega
  unfold ccm__ReadHeader
  rw [if_neg hl]
  simp only
  rw [if_pos]
  simp only [ccm__HeaderValue, h8, hm]

theorem fread_bind_isSome {α β : Type} (I : cc_Image α) (count : Nat) (stream : List cc_Byte)
    (k : List α × List cc_Byte → Option β) :
    ((fread I count stream).bind k).isSome = true ↔
      count * I.size ≤ stream.length ∧
        (k (I.values count stream, stream.drop (count * I.size))).isSome = true := by
  unfold fread
  by_cases h : count * I.size ≤ stream.length
  · simp [h]
  · simp [h]

/-- The seven reads of `ccm__ReadData` on a mesh of `ccm_Create` succeed exactly
when the stream has the bytes of the seven arrays. -/
theorem ccm__ReadData_isSome (L : cc_Layout) (v u h e f : Nat) (body : List cc_Byte) :
    ((ccm_Create v u h e f).bind (fun mesh => ccm__ReadData L mesh body)).isSome = true ↔
      v * L.int32.size + e * L.int32.size + f * L.int32.size + v * L.vertexPoint.size
        + u * L.vertexUv.size + e * L.crease.size + h * L.halfedge.size ≤ body.length := by
  rw [ccm_Create_natCast, Option.some_bind]
  unfold ccm__ReadData
  simp only [ccm_VertexCount, ccm_UvCount, ccm_HalfedgeCount, ccm_CreaseCount, ccm_EdgeCount,
    ccm_FaceCount, List.length_replicate, Option.bind_eq_bind, fread_bind_isSome,
    List.length_drop, Option.isSome_some, and_true]
  generalize v * L.int32.size = a1
  generalize e * L.int32.size = a2
  generalize f * L.int32.size = a3
  generalize v * L.vertexPoint.size = a4
  generalize u * L.vertexUv.size = a5
  generalize e * L.crease.size = a6
  generalize h * L.halfedge.size = a7
  omega

/-- After a header is read, `ccm_Load` gets no mesh exactly when the body does
not hold the arrays of the counts of the header. -/
theorem ccm__ReadData_eq_none (L : cc_Layout) (header : ccm__Header) (body : List cc_Byte) :
    (ccm_Create header.vertexCount header.uvCount header.halfedgeCount header.edgeCount
        header.faceCount).bind (fun mesh => ccm__ReadData L mesh body) = none ↔
      ¬ ccm__BodyFits L header body := by
  by_cases hn : 0 ≤ header.vertexCount ∧ 0 ≤ header.uvCount ∧ 0 ≤ header.halfedgeCount ∧
      0 ≤ header.edgeCount ∧ 0 ≤ header.faceCount
  · obtain ⟨n1, n2, n3, n4, n5⟩ := hn
    obtain ⟨v, hv⟩ := Int.eq_ofNat_of_zero_le n1
    obtain ⟨u, hu⟩ := Int.eq_ofNat_of_zero_le n2
    obtain ⟨h, hh⟩ := Int.eq_ofNat_of_zero_le n3
    obtain ⟨e, he⟩ := Int.eq_ofNat_of_zero_le n4
    obtain ⟨f, hf⟩ := Int.eq_ofNat_of_zero_le n5
    have key := ccm__ReadData_isSome L v u h e f body
    unfold ccm__BodyFits ccm__BodySize
    rw [hv, hu, hh, he, hf]
    rw [← Option.not_isSome_iff_eq_none, key]
    simp only [Int.natCast_nonneg, true_and]
    constructor
    · intro a b
      apply a
      exact_mod_cast b
    · intro a b
      apply a
      exact_mod_cast b
  · constructor
    · intro _ hb
      exact hn ⟨hb.1, hb.2.1, hb.2.2.1, hb.2.2.2.1, hb.2.2.2.2.1⟩
    · intro _
      unfold ccm_Create
      rw [if_neg hn]
      rfl

/-- C32: `ccm_Load` returns no mesh if and only if the file cannot be opened,
or the file is shorter than a header (the header cannot be read in full), or
its first eight bytes are not the magic `cc_Mesh1`, or its body does not hold
the arrays of the counts of the header (it is shorter than the seven arrays, a
negative count being a count that no file holds).  In each of these cases every
mesh that was created is released and every stream that was opened is closed;
when a mesh is returned it is the one mesh that was created, it is not
released, and the stream is closed. -/
theorem C32_load_fails_iff (L : cc_Layout) (file : Option (List cc_Byte)) :
    ((ccm_Load L file).mesh = none ↔
      file = none ∨
      ∃ stream, file = some stream ∧
        (stream.length < ccm__HeaderSize L ∨ stream.take 8 ≠ ccm__Magic ∨
          ¬ ccm__BodyFits L (ccm__HeaderValue L (stream.take (ccm__HeaderSize L)))
            (stream.drop (ccm__HeaderSize L)))) ∧
    ((ccm_Load L file).mesh = none →
      (ccm_Load L file).released = (ccm_Load L file).created ∧
      (ccm_Load L file).closed = (ccm_Load L file).opened) ∧
    (∀ mesh, (ccm_Load L file).mesh = some mesh →
      (ccm_Load L file).created = 1 ∧ (ccm_Load L file).released = 0 ∧
      (ccm_Load L file).closed = (ccm_Load L file).opened) := by
  cases file with
  | none =>
    refine ⟨⟨fun _ => Or.inl rfl, fun _ => rfl⟩, fun _ => ⟨rfl, rfl⟩, ?_⟩
    intro mesh h
    simp [ccm_Load] at h
  | some stream =>
    by_cases hh : stream.length < ccm__HeaderSize L ∨ stream.take 8 ≠ ccm__Magic
    · have e : ccm_Load L (some stream)
          = { mesh := none, created := 0, released := 0, opened := 1, closed := 1 } := by
        unfold ccm_Load
        dsimp only
        rw [(ccm__ReadHeader_eq_none L stream).mpr hh]
      rw [e]
      refine ⟨⟨fun _ => Or.inr ⟨stream, rfl, ?_⟩, fun _ => rfl⟩, fun _ => ⟨rfl, rfl⟩, ?_⟩
      · rcases hh with a | a
        · exact Or.inl a
        · exact Or.inr (Or.inl a)
      · intro mesh h
        simp at h
    · have hl : ¬ stream.length < ccm__HeaderSize L := fun a => hh (Or.inl a)
      have hm : stream.take 8 = ccm__Magic := by
        by_contra a
        exact hh (Or.inr a)
      have key := ccm__ReadData_eq_none L (ccm__HeaderValue L (stream.take (ccm__HeaderSize L)))
        (stream.drop (ccm__HeaderSize L))
      cases hd : (ccm_Create (ccm__HeaderValue L (stream.take (ccm__HeaderSize L))).vertexCount
          (ccm__HeaderValue L (stream.take (ccm__HeaderSize L))).uvCount
          (ccm__HeaderValue L (stream.take (ccm__HeaderSize L))).halfedgeCount
          (ccm__HeaderValue L (stream.take (ccm__HeaderSize L))).edgeCount
          (ccm__HeaderValue L (stream.take (ccm__HeaderSize L))).faceCount).bind
          (fun mesh => ccm__ReadData L mesh (stream.drop (ccm__HeaderSize L))) with
      | none =>
        have e : ccm_Load L (some stream)
            = { mesh := none, created := 1, released := 1, opened := 1, closed := 1 } := by
          unfold ccm_Load
          dsimp only
          rw [ccm__ReadHeader_eq_some L stream hl hm]
          dsimp only
          rw [hd]
        rw [e]
        refine ⟨⟨fun _ => Or.inr ⟨stream, rfl, Or.inr (Or.inr (key.mp hd))⟩, fun _ => rfl⟩,
          fun _ => ⟨rfl, rfl⟩, ?_⟩
        intro mesh h
        simp at h
      | some m =>
        have e : ccm_Load L (some stream)
            = { mesh := some m, created := 1, released := 0, opened := 1, closed := 1 } := by
          unfold ccm_Load
          dsimp only
          rw [ccm__ReadHeader_eq_some L stream hl hm]
          dsimp only
          rw [hd]
        rw [e]
        refine ⟨⟨fun a => by simp at a, ?_⟩, fun a => by simp at a, fun _ _ => ⟨rfl, rfl, rfl⟩⟩
        rintro (a | ⟨s, hs, a | a | a⟩)
        · simp at a
        · simp only [Option.some.injEq] at hs
          subst hs
          exact absurd a hl
        · simp only [Option.some.injEq] at hs
          subst hs
          exact absurd hm a
        · simp only [Option.some.injEq] at hs
          subst hs
          rw [key.mpr a] at hd
          simp at hd

/-! ### A layout: little-endian integers, records without padding -/

/-- The image of a pair of members of a record, one after the other. -/
def cc_Image.pair {α β : Type} (I : cc_Image α) (J : cc_Image β) : cc_Image (α × β) where
  size := I.size + J.size
  image := fun x => I.image x.1 ++ J.image x.2
  value := fun bytes => (I.value (bytes.take I.size), J.value (bytes.drop I.size))
  ok := fun x => I.ok x.1 ∧ J.ok x.2

/-- The image of a record, from the image of the tuple of its members. -/
def cc_Image.record {α β : Type} (I : cc_Image α) (members : β → α) (make : α → β) :
    cc_Image β where
  size := I.size
  image := fun x => I.image (members x)
  value := fun bytes => make (I.value bytes)
  ok := fun x => I.ok (members x)

theorem cc_Image.pair_lawful {α β : Type} (I : cc_Image α) (J : cc_Image β) (hI : I.Lawful)
    (hJ : J.Lawful) : (I.pair J).Lawful where
  length_image := fun x => by
    simp only [cc_Image.pair, List.length_append, hI.length_image, hJ.length_image]
  value_image := fun x hx => by
    simp only [cc_Image.pair]
    rw [List.take_left' (hI.length_image x.1), List.drop_left' (hI.length_image x.1),
      hI.value_image _ hx.1, hJ.value_image _ hx.2]

theorem cc_Image.record_lawful {α β : Type} (I : cc_Image α) (members : β → α) (make : α → β)
    (hI : I.Lawful) (hm : ∀ x, make (members x) = x) : (I.record members make).Lawful where
  length_image := fun x => hI.length_image _
  value_image := fun x hx => by
    simp only [cc_Image.record]
    rw [hI.value_image _ hx, hm]

/-- The low byte of an integer: its residue modulo 256. -/
def cc_Byte.ofInt (i : Int) : cc_Byte := ⟨(i % 256).toNat, by omega⟩

/-- The image of an `int32_t` on a little-endian machine: the four bytes of its
two's complement, the low one first. -/
def int32LittleEndian : cc_Image Int where
  size := 4
  image := fun i =>
    [cc_Byte.ofInt i, cc_Byte.ofInt (i / 256), cc_Byte.ofInt (i / 65536),
      cc_Byte.ofInt (i / 16777216)]
  value := fun bytes =>
    let n : Int := ((bytes.getD 0 0).val : Int) + 256 * ((bytes.getD 1 0).val : Int)
      + 65536 * ((bytes.getD 2 0).val : Int) + 16777216 * ((bytes.getD 3 0).val : Int)
    if n < 2147483648 then n else n - 4294967296
  ok := fun i => -2147483648 ≤ i ∧ i < 2147483648

/-- The image of a `float`, for the floats `0`, `1/2` and `1`: their four bytes
in the binary32 format, the low one first. -/
def floatLittleEndian : cc_Image ℚ where
  size := 4
  image := fun q =>
    if q = 1 then [0, 0, 128, 63] else if q = 1 / 2 then [0, 0, 0, 63] else [0, 0, 0, 0]
  value := fun bytes =>
    if bytes = [0, 0, 128, 63] then 1 else if bytes = [0, 0, 0, 63] then 1 / 2 else 0
  ok := fun q => q = 0 ∨ q = 1 / 2 ∨ q = 1

theorem int32LittleEndian_lawful : int32LittleEndian.Lawful where
  length_image := fun _ => rfl
  value_image := fun i hi => by
    obtain ⟨h0, h1⟩ := hi
    simp only [int32LittleEndian, cc_Byte.ofInt, List.getD_cons_zero, List.getD_cons_succ]
    split
    · next h => omega
    · next h => omega

theorem floatLittleEndian_lawful : floatLittleEndian.Lawful where
  length_image := fun q => by
    simp only [floatLittleEndian]
    split
    · rfl
    · split <;> rfl
  value_image := fun q hq => by
    rcases hq with h | h | h
    · subst h
      have e : floatLittleEndian.image 0 = [0, 0, 0, 0] := by
        simp only [floatLittleEndian]
        rw [if_neg (by norm_num), if_neg (by norm_num)]
      rw [e]
      simp only [floatLittleEndian]
      rw [if_neg (by decide), if_neg (by decide)]
    · subst h
      have e : floatLittleEndian.image (1 / 2) = [0, 0, 0, 63] := by
        simp only [floatLittleEndian]
        rw [if_neg (by norm_num), if_pos trivial]
      rw [e]
      simp only [floatLittleEndian]
      rw [if_neg (by decide), if_pos trivial]
    · subst h
      have e : floatLittleEndian.image 1 = [0, 0, 128, 63] := by
        simp only [floatLittleEndian]
        rw [if_pos trivial]
      rw [e]
      simp only [floatLittleEndian]
      rw [if_pos trivial]

/-- The image of a `cc_VertexPoint`: three floats. -/
def vertexPointLittleEndian : cc_Image cc_VertexPoint :=
  floatLittleEndian.pair (floatLittleEndian.pair floatLittleEndian)

/-- The image of a `cc_VertexUv`: two floats. -/
def vertexUvLittleEndian : cc_Image cc_VertexUv :=
  floatLittleEndian.pair floatLittleEndian

/-- The image of a `cc_Crease`: `nextID`, `prevID`, `sharpness`. -/
def creaseLittleEndian : cc_Image cc_Crease :=
  (int32LittleEndian.pair (int32LittleEndian.pair floatLittleEndian)).record
    (fun c => (c.nextID, c.prevID, c.sharpness)) (fun t => ⟨t.1, t.2.1, t.2.2⟩)

/-- The image of a `cc_Halfedge`: `twinID`, `nextID`, `prevID`, `faceID`,
`edgeID`, `vertexID`, `uvID`. -/
def halfedgeLittleEndian : cc_Image cc_Halfedge :=
  (int32LittleEndian.pair (int32LittleEndian.pair (int32LittleEndian.pair
    (int32LittleEndian.pair (int32LittleEndian.pair
      (int32LittleEndian.pair int32LittleEndian)))))).record
    (fun r => (r.twinID, r.nextID, r.prevID, r.faceID, r.edgeID, r.vertexID, r.uvID))
    (fun t => ⟨t.1, t.2.1, t.2.2.1, t.2.2.2.1, t.2.2.2.2.1, t.2.2.2.2.2.1, t.2.2.2.2.2.2⟩)

theorem vertexPointLittleEndian_lawful : vertexPointLittleEndian.Lawful :=
  cc_Image.pair_lawful _ _ floatLittleEndian_lawful
    (cc_Image.pair_lawful _ _ floatLittleEndian_lawful floatLittleEndian_lawful)

theorem vertexUvLittleEndian_lawful : vertexUvLittleEndian.Lawful :=
  cc_Image.pair_lawful _ _ floatLittleEndian_lawful floatLittleEndian_lawful

theorem creaseLittleEndian_lawful : creaseLittleEndian.Lawful :=
  cc_Image.record_lawful _ _ _
    (cc_Image.pair_lawful _ _ int32LittleEndian_lawful
      (cc_Image.pair_lawful _ _ int32LittleEndian_lawful floatLittleEndian_lawful))
    (fun _ => rfl)

theorem halfedgeLittleEndian_lawful : halfedgeLittleEndian.Lawful :=
  cc_Image.record_lawful _ _ _
    (cc_Image.pair_lawful _ _ int32LittleEndian_lawful
      (cc_Image.pair_lawful _ _ int32LittleEndian_lawful
        (cc_Image.pair_lawful _ _ int32LittleEndian_lawful
          (cc_Image.pair_lawful _ _ int32LittleEndian_lawful
            (cc_Image.pair_lawful _ _ int32LittleEndian_lawful
              (cc_Image.pair_lawful _ _ int32LittleEndian_lawful int32LittleEndian_lawful))))))
    (fun _ => rfl)

/-- A layout: little-endian integers and floats, records whose members follow
each other without padding (`cc_VertexPoint` of three floats, `cc_VertexUv` of
two, `cc_Crease` of `nextID`, `prevID`, `sharpness`, `cc_Halfedge` of `twinID`,
`nextID`, `prevID`, `faceID`, `edgeID`, `vertexID`, `uvID`), and a
`ccm__Header` padded to 32 bytes. -/
def littleEndianLayout : cc_Layout where
  int32 := int32LittleEndian
  vertexPoint := vertexPointLittleEndian
  vertexUv := vertexUvLittleEndian
  crease := creaseLittleEndian
  halfedge := halfedgeLittleEndian
  headerPadding := [0, 0, 0, 0]

theorem littleEndianLayout_lawful : littleEndianLayout.Lawful where
  int32 := int32LittleEndian_lawful
  vertexPoint := vertexPointLittleEndian_lawful
  vertexUv := vertexUvLittleEndian_lawful
  crease := creaseLittleEndian_lawful
  halfedge := halfedgeLittleEndian_lawful

/-- A mesh with all its arrays: one triangle, the edge of its halfedge 0 sharp,
with the corners of a half unit square as vertex points and as texture
coordinates. -/
def savedTriangle : cc_Mesh :=
  { vertexCount := 3, edgeCount := 3, faceCount := 1,
    halfedges := [⟨-1, 1, 2, 0, 0, 0, 0⟩, ⟨-1, 2, 0, 0, 1, 1, 1⟩, ⟨-1, 0, 1, 0, 2, 2, 2⟩],
    creases := [⟨0, 0, 1⟩, ⟨1, 1, 0⟩, ⟨2, 2, 0⟩],
    vertexToHalfedgeIDs := [0, 1, 2],
    edgeToHalfedgeIDs := [0, 1, 2],
    faceToHalfedgeIDs := [0],
    vertexPoints := [(0, 0, 0), (1, 0, 0), (0, 1, 1 / 2)],
    uvs := [(0, 0), (1, 0), (0, 1)] }

theorem savedTriangle_representable : ccm_Representable littleEndianLayout savedTriangle := by
  have hi : ∀ xs : List Int, (∀ x ∈ xs, (-2147483648 : Int) ≤ x ∧ x < 2147483648) →
      ∀ x ∈ xs, littleEndianLayout.int32.ok x := fun _ h => h
  refine ⟨⟨by decide, by decide⟩, ⟨by decide, by decide⟩, ⟨by decide, by decide⟩,
    ⟨by decide, by decide⟩, ⟨by decide, by decide⟩, hi _ (by decide), hi _ (by decide),
    hi _ (by decide), ?_, ?_, ?_, ?_⟩
  · intro x hx
    simp only [savedTriangle, List.mem_cons, List.mem_singleton, List.not_mem_nil,
      or_false] at hx
    rcases hx with rfl | rfl | rfl
    · exact ⟨Or.inl rfl, Or.inl rfl, Or.inl rfl⟩
    · exact ⟨Or.inr (Or.inr rfl), Or.inl rfl, Or.inl rfl⟩
    · exact ⟨Or.inl rfl, Or.inr (Or.inr rfl), Or.inr (Or.inl rfl)⟩
  · intro x hx
    simp only [savedTriangle, List.mem_cons, List.mem_singleton, List.not_mem_nil,
      or_false] at hx
    rcases hx with rfl | rfl | rfl
    · exact ⟨Or.inl rfl, Or.inl rfl⟩
    · exact ⟨Or.inr (Or.inr rfl), Or.inl rfl⟩
    · exact ⟨Or.inl rfl, Or.inr (Or.inr rfl)⟩
  · intro x hx
    simp only [savedTriangle, List.mem_cons, List.mem_singleton, List.not_mem_nil,
      or_false] at hx
    rcases hx with rfl | rfl | rfl
    · exact ⟨⟨by decide, by decide⟩, ⟨by decide, by decide⟩, Or.inr (Or.inr rfl)⟩
    · exact ⟨⟨by decide, by decide⟩, ⟨by decide, by decide⟩, Or.inl rfl⟩
    · exact ⟨⟨by decide, by decide⟩, ⟨by decide, by decide⟩, Or.inl rfl⟩
  · intro x hx
    simp only [savedTriangle, List.mem_cons, List.mem_singleton, List.not_mem_nil,
      or_false] at hx
    rcases hx with rfl | rfl | rfl
    · exact ⟨⟨by decide, by decide⟩, ⟨by decide, by decide⟩, ⟨by decide, by decide⟩,
        ⟨by decide, by decide⟩, ⟨by decide, by decide⟩, ⟨by decide, by decide⟩,
        ⟨by decide, by decide⟩⟩
    · exact ⟨⟨by decide, by decide⟩, ⟨by decide, by decide⟩, ⟨by decide, by decide⟩,
        ⟨by decide, by decide⟩, ⟨by decide, by decide⟩, ⟨by decide, by decide⟩,
        ⟨by decide, by decide⟩⟩
    · exact ⟨⟨by decide, by decide⟩, ⟨by decide, by decide⟩, ⟨by decide, by decide⟩,
        ⟨by decide, by decide⟩, ⟨by decide, by decide⟩, ⟨by decide, by decide⟩,
        ⟨by decide, by decide⟩⟩

/-- C31, witness: the triangle `savedTriangle` in the little-endian layout. -/
theorem C31_save_load_identity_witness :
    littleEndianLayout.Lawful ∧ ccm_WellFormed savedTriangle ∧
    ccm_Representable littleEndianLayout savedTriangle ∧
    ∃ bytes : List cc_Byte, ccm_Save littleEndianLayout savedTriangle = some bytes ∧
      bytes = ccm__HeaderImage littleEndianLayout (ccm__CreateHeader savedTriangle)
        ++ littleEndianLayout.int32.images savedTriangle.vertexToHalfedgeIDs
        ++ littleEndianLayout.int32.images savedTriangle.edgeToHalfedgeIDs
        ++ littleEndianLayout.int32.images savedTriangle.faceToHalfedgeIDs
        ++ littleEndianLayout.vertexPoint.images savedTriangle.vertexPoints
        ++ littleEndianLayout.vertexUv.images savedTriangle.uvs
        ++ littleEndianLayout.crease.images savedTriangle.creases
        ++ littleEndianLayout.halfedge.images savedTriangle.halfedges ∧
      ccm_Load littleEndianLayout (some bytes)
        = { mesh := some savedTriangle, created := 1, released := 0, opened := 1,
            closed := 1 } :=
  ⟨littleEndianLayout_lawful, by decide, savedTriangle_representable,
    C31_save_load_identity littleEndianLayout littleEndianLayout_lawful savedTriangle
      (by decide) savedTriangle_representable⟩

/-! ## C35: the valence and the crease count of the creased vertex point kernels

### Walks: more fuel, another test, two walks in a row -/

theorem ringWalk_mono (step : Int → Option Int) (cont : Int → Bool) :
    ∀ (fuel : Nat) (it : Int) (r : List Int × Int),
      ringWalk step cont fuel it = some r → ringWalk step cont (fuel + 1) it = some r := by
  intro fuel
  induction fuel with
  | zero =>
    intro it r hw
    by_cases c : cont it = true
    · unfold ringWalk at hw
      simp [c] at hw
    · have c' : cont it = false := by simpa using c
      rw [ringWalk_stop step cont _ it c'] at hw
      rw [ringWalk_stop step cont _ it c']
      exact hw
  | succ n ih =>
    intro it r hw
    by_cases c : cont it = true
    · rw [ringWalk_step step cont n it c] at hw
      rw [ringWalk_step step cont (n + 1) it c]
      obtain ⟨nxt, hs, hm⟩ := Option.bind_eq_some.mp hw
      obtain ⟨r', hr, hq⟩ := Option.map_eq_some'.mp hm
      rw [hs, Option.some_bind, ih nxt r' hr, Option.map_some', hq]
    · have c' : cont it = false := by simpa using c
      rw [ringWalk_stop step cont _ it c'] at hw
      rw [ringWalk_stop step cont _ it c']
      exact hw

theorem ringWalk_mono_add (step : Int → Option Int) (cont : Int → Bool) (fuel : Nat) (it : Int)
    (r : List Int × Int) (hw : ringWalk step cont fuel it = some r) :
    ∀ k : Nat, ringWalk step cont (fuel + k) it = some r := by
  intro k
  induction k with
  | zero => exact hw
  | succ k ih => exact ringWalk_mono step cont (fuel + k) it r ih

/-- The result of a walk does not depend on the fuel that lets it exit. -/
theorem ringWalk_det (step : Int → Option Int) (cont : Int → Bool) (f1 f2 : Nat) (it : Int)
    (r1 r2 : List Int × Int) (h1 : ringWalk step cont f1 it = some r1)
    (h2 : ringWalk step cont f2 it = some r2) : r1 = r2 := by
  rcases Nat.le_total f1 f2 with h | h
  · obtain ⟨k, rfl⟩ := Nat.exists_eq_add_of_le h
    have := ringWalk_mono_add step cont f1 it r1 h1 k
    rw [this] at h2
    exact Option.some.inj h2
  · obtain ⟨k, rfl⟩ := Nat.exists_eq_add_of_le h
    have := ringWalk_mono_add step cont f2 it r2 h2 k
    rw [this] at h1
    exact (Option.some.inj h1).symm

/-- A walk that starts inside of the loop: its first step. -/
theorem ringWalk_cons_inv (step : Int → Option Int) (cont : Int → Bool) (fuel : Nat) (it : Int)
    (ring : List Int) (last : Int) (hc : cont it = true)
    (hw : ringWalk step cont fuel it = some (ring, last)) :
    ∃ (n : Nat) (nxt : Int) (rest : List Int), fuel = n + 1 ∧ step it = some nxt ∧
      ring = it :: rest ∧ ringWalk step cont n nxt = some (rest, last) := by
  cases fuel with
  | zero =>
    unfold ringWalk at hw
    simp [hc] at hw
  | succ n =>
    rw [ringWalk_step step cont n it hc] at hw
    obtain ⟨nxt, hs, hm⟩ := Option.bind_eq_some.mp hw
    obtain ⟨r', hr, hq⟩ := Option.map_eq_some'.mp hm
    obtain ⟨r1, r2⟩ := r'
    simp only [Prod.mk.injEq] at hq
    obtain ⟨rfl, rfl⟩ := hq
    exact ⟨n, nxt, r1, rfl, hs, rfl, hr⟩

/-- The same walk with another step and another test that agree with the first
ones on the iterators of the walk and at its exit. -/
theorem ringWalk_congr (step step' : Int → Option Int) (cont cont' : Int → Bool) :
    ∀ (fuel : Nat) (it : Int) (ring : List Int) (last : Int),
      ringWalk step cont fuel it = some (ring, last) →
      (∀ x ∈ ring, cont' x = true ∧ step' x = step x) → cont' last = false →
      ringWalk step' cont' fuel it = some (ring, last) := by
  intro fuel
  induction fuel with
  | zero =>
    intro it ring last hw _ hl
    by_cases c : cont it = true
    · unfold ringWalk at hw
      simp [c] at hw
    · have c' : cont it = false := by simpa using c
      rw [ringWalk_stop step cont _ it c'] at hw
      simp only [Option.some.injEq, Prod.mk.injEq] at hw
      obtain ⟨rfl, rfl⟩ := hw
      exact ringWalk_stop step' cont' _ _ hl
  | succ n ih =>
    intro it ring last hw hr hl
    by_cases c : cont it = true
    · obtain ⟨m, nxt, rest, hm, hs, rfl, hrest⟩ :=
        ringWalk_cons_inv step cont (n + 1) it ring last c hw
      have hmn : m = n := by omega
      subst hmn
      obtain ⟨c1, s1⟩ := hr it (List.mem_cons_self _ _)
      rw [ringWalk_step step' cont' m it c1, s1, hs, Option.some_bind,
        ih nxt rest last hrest (fun x hx => hr x (List.mem_cons_of_mem _ hx)) hl]
      rfl
    · have c' : cont it = false := by simpa using c
      rw [ringWalk_stop step cont _ it c'] at hw
      simp only [Option.some.injEq, Prod.mk.injEq] at hw
      obtain ⟨rfl, rfl⟩ := hw
      exact ringWalk_stop step' cont' _ _ hl

/-- A walk that goes on where another one has stopped: with a test that holds on
the iterators of the first walk, the walk from the start of the first one is
the two walks in a row. -/
theorem ringWalk_append (step : Int → Option Int) (cont cont' : Int → Bool) :
    ∀ (fuel : Nat) (it : Int) (ring : List Int) (last : Int) (k : Nat) (ring2 : List Int)
      (last2 : Int),
      ringWalk step cont fuel it = some (ring, last) →
      (∀ x ∈ ring, cont' x = true) →
      ringWalk step cont' k last = some (ring2, last2) →
      ringWalk step cont' (fuel + k) it = some (ring ++ ring2, last2) := by
  intro fuel
  induction fuel with
  | zero =>
    intro it ring last k ring2 last2 hw _ h2
    by_cases c : cont it = true
    · unfold ringWalk at hw
      simp [c] at hw
    · have c' : cont it = false := by simpa using c
      rw [ringWalk_stop step cont _ it c'] at hw
      simp only [Option.some.injEq, Prod.mk.injEq] at hw
      obtain ⟨rfl, rfl⟩ := hw
      rw [Nat.zero_add, List.nil_append]
      exact h2
  | succ n ih =>
    intro it ring last k ring2 last2 hw hr h2
    by_cases c : cont it = true
    · obtain ⟨m, nxt, rest, hm, hs, rfl, hrest⟩ :=
        ringWalk_cons_inv step cont (n + 1) it ring last c hw
      have hmn : m = n := by omega
      subst hmn
      have c1 := hr it (List.mem_cons_self _ _)
      have e : m + 1 + k = (m + k) + 1 := by omega
      rw [e, ringWalk_step step cont' (m + k) it c1, hs, Option.some_bind,
        ih nxt rest last k ring2 last2 hrest (fun x hx => hr x (List.mem_cons_of_mem _ hx)) h2]
      rfl
    · have c' : cont it = false := by simpa using c
      rw [ringWalk_stop step cont _ it c'] at hw
      simp only [Option.some.injEq, Prod.mk.injEq] at hw
      obtain ⟨rfl, rfl⟩ := hw
      rw [List.nil_append, Nat.add_comm]
      exact ringWalk_mono_add step cont' k it _ h2 (n + 1)

/-- The iterators of a walk are iterators the step can be taken from. -/
theorem ringWalk_step_some (step : Int → Option Int) (cont : Int → Bool) (fuel : Nat) (it : Int)
    (ring : List Int) (last : Int) (hw : ringWalk step cont fuel it = some (ring, last))
    (x : Int) (hx : x ∈ ring) : cont x = true ∧ ∃ nxt, step x = some nxt :=
  (ringWalk_mem step cont fuel it ring last hw).1 x hx

/-! ### The loops that count around a vertex -/

/-- The local variables of the scatter kernels after a loop around the vertex:
the sum of the sharpnesses, the sum of their signs, and the count of the
iterations. -/
theorem foldl_counts (σ : Int → ℚ) (ring : List Int) :
    ∀ s : cc_VertexCounts,
      ring.foldl (fun s h => s.accumulate (σ h)) s =
        { avgS := s.avgS + (ring.map σ).sum,
          creaseCount := s.creaseCount + (ring.map (fun h => cc__Signf (σ h))).sum,
          valence := s.valence + (ring.length : ℚ) } := by
  induction ring with
  | nil =>
    intro s
    simp
  | cons a t ih =>
    intro s
    rw [List.foldl_cons, ih]
    simp only [cc_VertexCounts.accumulate, List.map_cons, List.sum_cons, List.length_cons]
    refine cc_VertexCounts.ext ?_ ?_ ?_
    · simp only
      ring
    · simp only
      ring
    · simp only
      push_cast
      ring

/-! ### The fan of a halfedge of a parent level -/

/-- The rotation `twin(prev(x))` around the vertex of a halfedge of the parent
level, the step of the first loop of the creased vertex point kernels; `none`
outside of the level. -/
def Parent.forward (P : Parent) (x : Int) : Option Int :=
  if 0 ≤ x ∧ x < (P.H : Int) then some (P.twin (P.prev x)) else none

/-- The step `twin(next(b))` of the second loop of the creased vertex point
kernels; `none` outside of the level. -/
def Parent.backward (P : Parent) (b : Int) : Option Int :=
  if 0 ≤ b ∧ b < (P.H : Int) then some (P.twin (P.next b)) else none

/-- No edge of the parent level is a loop: a halfedge ends at another vertex
than the one it starts from. -/
def Parent.NoLoops (P : Parent) : Prop :=
  ∀ h : Int, 0 ≤ h → h < P.H → P.vertex (P.next h) ≠ P.vertex h

/-- The two walks of the creased vertex point kernels around the vertex of the
halfedge `g`: the iterators of the first loop, its exit value, and the
iterators of the second loop. -/
def Parent.fanWalks (P : Parent) (fuel : Nat) (g : Int) : Option (List Int × Int × List Int) :=
  (ringWalk P.forward (fun x => decide (x ≥ 0) && decide (x ≠ g)) fuel
    (P.twin (P.prev g))).bind (fun f =>
      (ringWalk P.backward
        (fun b => decide (f.2 < 0) && decide (b ≥ 0) && decide (b ≠ g)) fuel (P.twin g)).map
        (fun b => (f.1, f.2, b.1)))

/-- The valence and the crease count that the two loops and the boundary
correction give for the halfedge `g`, with the weight `W e` for the edge `e`:
one and the weight of the predecessor of `g`, one and the weight of its
predecessor for every iterator of the first loop, one and the weight of its
successor for every iterator of the second loop, and, when the first loop has
left the mesh, one and the weight of `g`. -/
def Parent.fanCounts (P : Parent) (W : Int → ℚ) (fuel : Nat) (g : Int) : Option (ℚ × ℚ) :=
  (P.fanWalks fuel g).map (fun r =>
    ((1 : ℚ) + (r.1.length : ℚ) + (r.2.2.length : ℚ) + (if r.2.1 < 0 then 1 else 0),
      W (P.edge (P.prev g)) + (r.1.map (fun x => W (P.edge (P.prev x)))).sum
        + (r.2.2.map (fun b => W (P.edge (P.next b)))).sum
        + (if r.2.1 < 0 then W (P.edge g) else 0)))

theorem Parent.forward_eq (P : Parent) (x : Int) (x0 : 0 ≤ x) (x1 : x < P.H) :
    P.forward x = some (P.twin (P.prev x)) := by
  unfold Parent.forward
  rw [if_pos ⟨x0, x1⟩]

theorem Parent.backward_eq (P : Parent) (x : Int) (x0 : 0 ≤ x) (x1 : x < P.H) :
    P.backward x = some (P.twin (P.next x)) := by
  unfold Parent.backward
  rw [if_pos ⟨x0, x1⟩]

theorem Parent.forward_of_some (P : Parent) (x y : Int) (h : P.forward x = some y) :
    0 ≤ x ∧ x < (P.H : Int) ∧ P.twin (P.prev x) = y := by
  unfold Parent.forward at h
  by_cases c : 0 ≤ x ∧ x < (P.H : Int)
  · rw [if_pos c] at h
    exact ⟨c.1, c.2, Option.some.inj h⟩
  · rw [if_neg c] at h
    exact absurd h (by simp)

theorem Parent.backward_of_some (P : Parent) (x y : Int) (h : P.backward x = some y) :
    0 ≤ x ∧ x < (P.H : Int) ∧ P.twin (P.next x) = y := by
  unfold Parent.backward at h
  by_cases c : 0 ≤ x ∧ x < (P.H : Int)
  · rw [if_pos c] at h
    exact ⟨c.1, c.2, Option.some.inj h⟩
  · rw [if_neg c] at h
    exact absurd h (by simp)

/-- The first walk around the vertex of a halfedge of a valid level exits within
`H` steps. -/
theorem Parent.forward_walk_total (P : Parent) (hv : P.Valid) (fuel : Nat)
    (hf : P.H ≤ fuel + 1) (g : Int) (g0 : 0 ≤ g) (g1 : g < P.H) :
    ∃ r, ringWalk P.forward (fun x => decide (x ≥ 0) && decide (x ≠ g)) fuel
      (P.twin (P.prev g)) = some r := by
  obtain ⟨r, hr, _⟩ := ringWalk_total P.forward
    (fun x => decide (x ≥ 0) && decide (x ≠ g)) P.H g g0 g1 (by simp)
    (fun x x0 x1 => ⟨_, P.forward_eq x x0 x1, fun c => by
      simp only [Bool.and_eq_true, decide_eq_true_eq] at c
      exact ⟨c.1, hv.twin_lt _ (hv.prev_range x x0 x1).1 (hv.prev_range x x0 x1).2⟩⟩)
    (fun x x' y x0 x1 y0 y1 c e1 e2 => by
      simp only [Bool.and_eq_true, decide_eq_true_eq] at c
      rw [P.forward_eq x x0 x1] at e1
      rw [P.forward_eq x' y0 y1] at e2
      exact hv.forward_inj x x' y x0 x1 y0 y1 c.1 (Option.some.inj e1) (Option.some.inj e2))
    fuel hf _ (P.forward_eq g g0 g1)
  exact ⟨r, hr⟩

/-- The second walk around the vertex of a halfedge of a valid level exits
within `H` steps: it cannot come back to its start, since the first walk has
left the mesh. -/
theorem Parent.backward_walk_total (P : Parent) (hv : P.Valid) (fuel : Nat) (hf : P.H ≤ fuel)
    (g : Int) (g0 : 0 ≤ g) (g1 : g < P.H) (F : List Int) (last : Int)
    (hF : ringWalk P.forward (fun x => decide (x ≥ 0) && decide (x ≠ g)) fuel
      (P.twin (P.prev g)) = some (F, last)) :
    ∃ r, ringWalk P.backward
      (fun b => decide (last < 0) && decide (b ≥ 0) && decide (b ≠ g)) fuel (P.twin g)
        = some r := by
  generalize hcont : (fun b : Int => decide (last < 0) && decide (b ≥ 0) && decide (b ≠ g))
    = cont
  have hcontE : ∀ b : Int, cont b = true → last < 0 ∧ 0 ≤ b ∧ b ≠ g := by
    intro b hb
    rw [← hcont] at hb
    simp only [Bool.and_eq_true, decide_eq_true_eq] at hb
    exact ⟨hb.1.1, hb.1.2, hb.2⟩
  by_cases c : cont (P.twin g) = true
  · obtain ⟨hl0, t0, tne⟩ := hcontE _ c
    have t1 := hv.twin_lt g g0 g1
    have htt := hv.twin_twin g g0 g1 t0
    cases fuel with
    | zero => omega
    | succ n =>
      obtain ⟨r, hr1, _⟩ := ringWalk_total_aux P.backward cont P.H (P.twin g)
        (fun x x0 x1 => ⟨_, P.backward_eq x x0 x1, fun cy =>
          ⟨(hcontE _ cy).2.1, hv.twin_lt _ (hv.next_range x x0 x1).1 (hv.next_range x x0 x1).2⟩⟩)
        (fun x x' y x0 x1 y0 y1 cy e1 e2 => by
          rw [P.backward_eq x x0 x1] at e1
          rw [P.backward_eq x' y0 y1] at e2
          exact hv.backward_inj x x' y x0 x1 y0 y1 (hcontE _ cy).2.1 (Option.some.inj e1)
            (Option.some.inj e2))
        (by
          intro vis a hvis ha hpred hsa _
          obtain ⟨a0, a1⟩ := hvis a ha
          rw [P.backward_eq a a0 a1] at hsa
          have hsa := Option.some.inj hsa
          obtain ⟨n0, n1⟩ := hv.next_range a a0 a1
          have hna := hv.twin_twin _ n0 n1 (by rw [hsa]; exact t0)
          rw [hsa, htt] at hna
          have hpa : P.prev g = a := by
            rw [hna]
            exact hv.prev_next a a0 a1
          have key : ∀ x : Int, (0 ≤ x ∧ x < (P.H : Int) ∧ P.prev x ∈ vis) →
              (0 ≤ P.twin (P.prev x) ∧ P.twin (P.prev x) < (P.H : Int) ∧
                P.prev (P.twin (P.prev x)) ∈ vis) := by
            intro x hx
            obtain ⟨x0, x1, xm⟩ := hx
            by_cases e : P.prev x = P.twin g
            · rw [e, htt]
              refine ⟨g0, g1, ?_⟩
              rw [hpa]
              exact ha
            · obtain ⟨p, p1, p2⟩ := hpred _ xm e
              obtain ⟨q0, q1⟩ := hvis p p1
              rw [P.backward_eq p q0 q1] at p2
              have p2 := Option.some.inj p2
              obtain ⟨m0, m1⟩ := hv.next_range p q0 q1
              have hb0 := (hvis _ xm).1
              have hnp := hv.twin_twin _ m0 m1 (by rw [p2]; exact hb0)
              rw [p2] at hnp
              rw [hnp]
              refine ⟨m0, m1, ?_⟩
              rw [hv.prev_next p q0 q1]
              exact p1
          have hall := ringWalk_forall P.forward
            (fun x => decide (x ≥ 0) && decide (x ≠ g))
            (fun x => 0 ≤ x ∧ x < (P.H : Int) ∧ P.prev x ∈ vis)
            (by
              intro x b hx _ hsb
              rw [P.forward_eq x hx.1 hx.2.1] at hsb
              have := Option.some.inj hsb
              subst this
              exact key x hx)
            _ _ F last hF (key g ⟨g0, g1, by rw [hpa]; exact ha⟩)
          have := hall.2.1
          omega)
        n [P.twin g] (P.twin g) (P.twin (P.next (P.twin g)))
        (List.nodup_singleton _)
        (by
          intro x hx
          rw [List.mem_singleton] at hx
          subst hx
          exact ⟨t0, t1⟩)
        (List.mem_singleton_self _)
        (by
          intro x hx hxr
          rw [List.mem_singleton] at hx
          exact absurd hx hxr)
        (P.backward_eq _ t0 t1)
        (by rw [List.length_singleton]; omega)
      rw [ringWalk_step P.backward cont n _ c, P.backward_eq _ t0 t1, Option.some_bind, hr1,
        Option.map_some']
      exact ⟨_, rfl⟩
  · have c' : cont (P.twin g) = false := by simpa using c
    rw [ringWalk_stop P.backward cont fuel _ c']
    exact ⟨_, rfl⟩

/-- The two walks around the vertex of a halfedge of a valid level exit within
`H` steps. -/
theorem Parent.fanWalks_total (P : Parent) (hv : P.Valid) (fuel : Nat) (hf : P.H ≤ fuel)
    (g : Int) (g0 : 0 ≤ g) (g1 : g < P.H) : ∃ r, P.fanWalks fuel g = some r := by
  obtain ⟨f, hf1⟩ := P.forward_walk_total hv fuel (by omega) g g0 g1
  obtain ⟨b, hb1⟩ := P.backward_walk_total hv fuel hf g g0 g1 f.1 f.2 hf1
  unfold Parent.fanWalks
  rw [hf1, Option.some_bind, hb1, Option.map_some']
  exact ⟨_, rfl⟩

theorem Parent.fanWalks_mono (P : Parent) (fuel : Nat) (g : Int)
    (r : List Int × Int × List Int) (h : P.fanWalks fuel g = some r) :
    P.fanWalks (fuel + 1) g = some r := by
  unfold Parent.fanWalks at h ⊢
  obtain ⟨f, hf, hm⟩ := Option.bind_eq_some.mp h
  obtain ⟨b, hb, hq⟩ := Option.map_eq_some'.mp hm
  rw [ringWalk_mono _ _ fuel _ f hf, Option.some_bind, ringWalk_mono _ _ fuel _ b hb,
    Option.map_some', hq]

theorem Parent.fanWalks_of_walks (P : Parent) (fuel : Nat) (g : Int) (F B : List Int)
    (last lastB : Int)
    (hF : ringWalk P.forward (fun x => decide (x ≥ 0) && decide (x ≠ g)) fuel
      (P.twin (P.prev g)) = some (F, last))
    (hB : ringWalk P.backward
      (fun b => decide (last < 0) && decide (b ≥ 0) && decide (b ≠ g)) fuel (P.twin g)
        = some (B, lastB)) :
    P.fanWalks fuel g = some (F, last, B) := by
  unfold Parent.fanWalks
  rw [hF, Option.some_bind]
  simp only
  rw [hB, Option.map_some']

theorem Parent.walks_of_fanWalks (P : Parent) (fuel : Nat) (g : Int) (F B : List Int)
    (last : Int) (h : P.fanWalks fuel g = some (F, last, B)) :
    ringWalk P.forward (fun x => decide (x ≥ 0) && decide (x ≠ g)) fuel
      (P.twin (P.prev g)) = some (F, last) ∧
    ∃ lastB, ringWalk P.backward
      (fun b => decide (last < 0) && decide (b ≥ 0) && decide (b ≠ g)) fuel (P.twin g)
        = some (B, lastB) := by
  unfold Parent.fanWalks at h
  obtain ⟨f, hf, hm⟩ := Option.bind_eq_some.mp h
  obtain ⟨b, hb, hq⟩ := Option.map_eq_some'.mp hm
  obtain ⟨f1, f2⟩ := f
  obtain ⟨b1, b2⟩ := b
  simp only [Prod.mk.injEq] at hq
  obtain ⟨rfl, rfl, rfl⟩ := hq
  exact ⟨hf, b2, hb⟩

/-- The iterators of the second walk around the vertex of `g`, and its exit value
when it is a halfedge, end at the vertex of `g`: their successors start from
it. -/
theorem Parent.backward_walk_vertex (P : Parent) (hv : P.Valid) (ho : P.Oriented) (g : Int)
    (g0 : 0 ≤ g) (g1 : g < P.H) (cont : Int → Bool) (fuel : Nat) (B : List Int) (lastB : Int)
    (hB : ringWalk P.backward cont fuel (P.twin g) = some (B, lastB)) :
    (∀ b ∈ B, 0 ≤ b → b < (P.H : Int) ∧ P.vertex (P.next b) = P.vertex g) ∧
    (0 ≤ lastB → lastB < (P.H : Int) ∧ P.vertex (P.next lastB) = P.vertex g) :=
  ringWalk_forall P.backward cont
    (fun b => 0 ≤ b → b < (P.H : Int) ∧ P.vertex (P.next b) = P.vertex g)
    (by
      intro a b hqa _ hsb hb0
      obtain ⟨a0, a1, e⟩ := P.backward_of_some a b hsb
      subst e
      obtain ⟨n0, n1⟩ := hv.next_range a a0 a1
      have hb1 := hv.twin_lt _ n0 n1
      have htt := hv.twin_twin _ n0 n1 hb0
      refine ⟨hb1, ?_⟩
      have := ho.vertex_twin _ hb0 hb1 (by rw [htt]; exact n0)
      rw [htt] at this
      rw [← this]
      exact (hqa a0).2)
    fuel (P.twin g) B lastB hB
    (by
      intro t0
      have t1 := hv.twin_lt g g0 g1
      refine ⟨t1, ?_⟩
      have := ho.vertex_twin _ t0 t1 (by rw [hv.twin_twin g g0 g1 t0]; exact g0)
      rw [hv.twin_twin g g0 g1 t0] at this
      exact this.symm)

/-- The second walk around the vertex of `g`, taken when the first walk has left
the mesh, leaves the mesh: on a mesh without loops it does not meet `g`. -/
theorem Parent.backward_walk_exit (P : Parent) (hv : P.Valid) (ho : P.Oriented)
    (hnl : P.NoLoops) (g : Int) (g0 : 0 ≤ g) (g1 : g < P.H) (last : Int) (hl : last < 0)
    (fuel : Nat) (B : List Int) (lastB : Int)
    (hB : ringWalk P.backward
      (fun b => decide (last < 0) && decide (b ≥ 0) && decide (b ≠ g)) fuel (P.twin g)
        = some (B, lastB)) : lastB < 0 := by
  have hQ := P.backward_walk_vertex hv ho g g0 g1 _ fuel B lastB hB
  obtain ⟨_, hb2⟩ := ringWalk_mem P.backward _ fuel _ B lastB hB
  simp only [Bool.and_eq_false_iff, decide_eq_false_iff_not, not_lt, not_le, ne_eq,
    not_not] at hb2
  rcases hb2 with (h1 | h1) | h1
  · omega
  · exact h1
  · exfalso
    have hq := (hQ.2 (by rw [h1]; exact g0)).2
    rw [h1] at hq
    exact hnl g g0 g1 hq

/-- A vertex whose first walk leaves the mesh has a halfedge without a twin. -/
theorem Parent.open_has_boundary (P : Parent) (hv : P.Valid) (ho : P.Oriented)
    (hnl : P.NoLoops) (g : Int) (g0 : 0 ≤ g) (g1 : g < P.H) (fuel : Nat) (F B : List Int)
    (last : Int) (hw : P.fanWalks fuel g = some (F, last, B)) (hl : last < 0) :
    ∃ x : Int, 0 ≤ x ∧ x < (P.H : Int) ∧ P.vertex x = P.vertex g ∧ P.twin x < 0 := by
  obtain ⟨_, lastB, hB⟩ := P.walks_of_fanWalks fuel g F B last hw
  have hQ := P.backward_walk_vertex hv ho g g0 g1 _ fuel B lastB hB
  have hx := P.backward_walk_exit hv ho hnl g g0 g1 last hl fuel B lastB hB
  obtain ⟨_, a2, _⟩ := ringWalk_links P.backward _ fuel _ B lastB hB
  rcases a2 lastB (by simp) with e | ⟨b, hb, e⟩
  · exact ⟨g, g0, g1, rfl, by rw [← e]; exact hx⟩
  · obtain ⟨b0, b1, e'⟩ := P.backward_of_some b lastB e
    obtain ⟨n0, n1⟩ := hv.next_range b b0 b1
    exact ⟨P.next b, n0, n1, ((hQ.1 b hb b0).2), by rw [e']; exact hx⟩

/-- The walks around the vertex from the next halfedge `twin(prev(g))` of the
fan, from the walks from `g`: on an open fan the first walk loses its first
iterator and the second walk gets `prev(g)` as its first iterator; on a closed
fan the first walk is rotated. -/
theorem Parent.fanWalks_step (P : Parent) (hv : P.Valid) (hirr : P.TwinIrreflexive)
    (ho : P.Oriented) (hnl : P.NoLoops) (fuel : Nat) (g : Int) (g0 : 0 ≤ g) (g1 : g < P.H)
    (hg' : 0 ≤ P.twin (P.prev g)) (hne : P.twin (P.prev g) ≠ g) (F B : List Int) (last : Int)
    (hw : P.fanWalks fuel g = some (F, last, B)) :
    ∃ F1, F = P.twin (P.prev g) :: F1 ∧
      ((last < 0 ∧
          P.fanWalks (fuel + 1) (P.twin (P.prev g)) = some (F1, last, P.prev g :: B)) ∨
        (last = g ∧ B = [] ∧
          P.fanWalks (fuel + 1) (P.twin (P.prev g))
            = some (F1 ++ [g], P.twin (P.prev g), []))) := by
  obtain ⟨hF, lastB, hB⟩ := P.walks_of_fanWalks fuel g F B last hw
  obtain ⟨p0, p1⟩ := hv.prev_range g g0 g1
  have hg'1 := hv.twin_lt _ p0 p1
  have htp := hv.twin_twin _ p0 p1 hg'
  have hnp := hv.next_prev g g0 g1
  -- the first step of the first walk
  obtain ⟨n, x2, F1, hn, hs2, hFe, hF1⟩ := ringWalk_cons_inv P.forward _ fuel _ F last
    (by simp [hg', hne]) hF
  subst hn
  subst hFe
  rw [P.forward_eq _ hg' hg'1] at hs2
  have hs2 := Option.some.inj hs2
  subst hs2
  -- no halfedge twice
  have hnd := ringWalk_nodup P.forward (fun x => decide (x ≥ 0) && decide (x ≠ g)) g (by simp)
    (fun x x' y c e1 e2 => by
      simp only [Bool.and_eq_true, decide_eq_true_eq] at c
      obtain ⟨x0, x1, ex⟩ := P.forward_of_some x y e1
      obtain ⟨y0, y1, ey⟩ := P.forward_of_some x' y e2
      exact hv.forward_inj x x' y x0 x1 y0 y1 c.1 ex ey)
    (n + 1) _ (P.forward_eq g g0 g1) _ last hF
  have hnd1 : P.twin (P.prev g) ∉ F1 := (List.nodup_cons.mp (List.nodup_cons.mp hnd).2).1
  obtain ⟨hm1, hm2⟩ := ringWalk_mem P.forward _ n _ F1 last hF1
  have hF1c : ∀ x ∈ F1, (decide (x ≥ 0) && decide (x ≠ P.twin (P.prev g))) = true := by
    intro x hx
    have := (hm1 x hx).1
    simp only [Bool.and_eq_true, decide_eq_true_eq] at this ⊢
    exact ⟨this.1, fun e => hnd1 (e ▸ hx)⟩
  simp only [Bool.and_eq_false_iff, decide_eq_false_iff_not, not_le, ne_eq, not_not] at hm2
  -- the vertex of the fan
  have hvg' : P.vertex (P.twin (P.prev g)) = P.vertex g := by
    rw [ho.vertex_twin _ p0 p1 hg', hnp]
  refine ⟨F1, rfl, ?_⟩
  rcases hm2 with hl | hl
  · -- the open fan
    left
    refine ⟨hl, ?_⟩
    have hf' : ringWalk P.forward
        (fun x => decide (x ≥ 0) && decide (x ≠ P.twin (P.prev g))) (n + 1 + 1)
        (P.twin (P.prev (P.twin (P.prev g)))) = some (F1, last) := by
      have := ringWalk_congr P.forward P.forward (fun x => decide (x ≥ 0) && decide (x ≠ g))
        (fun x => decide (x ≥ 0) && decide (x ≠ P.twin (P.prev g))) n _ F1 last hF1
        (fun x hx => ⟨hF1c x hx, rfl⟩) (by simp [hl])
      exact ringWalk_mono_add _ _ n _ _ this 2
    have hQ := P.backward_walk_vertex hv ho g g0 g1 _ (n + 1) B lastB hB
    obtain ⟨hb1, _⟩ := ringWalk_mem P.backward _ (n + 1) _ B lastB hB
    have hBc : ∀ b ∈ B, (decide (last < 0) && decide (b ≥ 0)
        && decide (b ≠ P.twin (P.prev g))) = true ∧ P.backward b = P.backward b := by
      intro b hb
      refine ⟨?_, rfl⟩
      have := (hb1 b hb).1
      simp only [Bool.and_eq_true, decide_eq_true_eq] at this ⊢
      refine ⟨⟨this.1.1, this.1.2⟩, ?_⟩
      intro e
      have hq := (hQ.1 b hb this.1.2).2
      rw [e] at hq
      exact hnl _ hg' hg'1 (hq.trans hvg'.symm)
    have hlastB : lastB < 0 :=
      P.backward_walk_exit hv ho hnl g g0 g1 last hl (n + 1) B lastB hB
    have hb' : ringWalk P.backward
        (fun b => decide (last < 0) && decide (b ≥ 0) && decide (b ≠ P.twin (P.prev g)))
        (n + 1 + 1) (P.twin (P.twin (P.prev g))) = some (P.prev g :: B, lastB) := by
      rw [htp]
      have hcp : (decide (last < 0) && decide (P.prev g ≥ 0)
          && decide (P.prev g ≠ P.twin (P.prev g))) = true := by
        simp only [Bool.and_eq_true, decide_eq_true_eq]
        exact ⟨⟨hl, p0⟩, fun e => hirr _ p0 p1 e.symm⟩
      rw [ringWalk_step P.backward _ (n + 1) _ hcp, P.backward_eq _ p0 p1, Option.some_bind,
        hnp]
      rw [ringWalk_congr P.backward P.backward _
        (fun b => decide (last < 0) && decide (b ≥ 0) && decide (b ≠ P.twin (P.prev g)))
        (n + 1) _ B lastB hB hBc (by simp [hlastB])]
      rfl
    exact P.fanWalks_of_walks _ _ _ _ _ _ hf' hb'
  · -- the closed fan
    right
    subst hl
    have hBnil : B = [] := by
      rw [ringWalk_stop P.backward _ (n + 1) _ (by simp [g0])] at hB
      simp only [Option.some.injEq, Prod.mk.injEq] at hB
      exact hB.1.symm
    refine ⟨rfl, hBnil, ?_⟩
    have hone : ringWalk P.forward
        (fun x => decide (x ≥ 0) && decide (x ≠ P.twin (P.prev last))) 1 last
          = some ([last], P.twin (P.prev last)) := by
      rw [ringWalk_step P.forward _ 0 last (by simp [g0, Ne.symm hne]), P.forward_eq _ g0 g1,
        Option.some_bind, ringWalk_stop P.forward _ 0 _ (by simp)]
      rfl
    have hf' := ringWalk_append P.forward (fun x => decide (x ≥ 0) && decide (x ≠ last))
      (fun x => decide (x ≥ 0) && decide (x ≠ P.twin (P.prev last))) n _ F1 last 1 _ _ hF1 hF1c
      hone
    have hf'' := ringWalk_mono _ _ _ _ _ hf'
    have hb' : ringWalk P.backward
        (fun b => decide (P.twin (P.prev last) < 0) && decide (b ≥ 0)
          && decide (b ≠ P.twin (P.prev last)))
        (n + 1 + 1) (P.twin (P.twin (P.prev last))) = some ([], P.twin (P.twin (P.prev last))) :=
      ringWalk_stop P.backward _ _ _ (by simp [hg'])
    exact P.fanWalks_of_walks _ _ _ _ _ _ hf'' hb'

/-- The valence and the crease count of the creased vertex point kernels are
those of the next halfedge `twin(prev(g))` of the fan. -/
theorem Parent.fanCounts_step (P : Parent) (hv : P.Valid) (hirr : P.TwinIrreflexive)
    (ho : P.Oriented) (hnl : P.NoLoops) (W : Int → ℚ) (fuel : Nat) (hf : P.H ≤ fuel) (g : Int)
    (g0 : 0 ≤ g) (g1 : g < P.H) (hg' : 0 ≤ P.twin (P.prev g)) :
    P.fanCounts W fuel (P.twin (P.prev g)) = P.fanCounts W fuel g := by
  by_cases hne : P.twin (P.prev g) = g
  · rw [hne]
  obtain ⟨p0, p1⟩ := hv.prev_range g g0 g1
  have hg'1 := hv.twin_lt _ p0 p1
  obtain ⟨r, hr⟩ := P.fanWalks_total hv fuel hf g g0 g1
  obtain ⟨r', hr'⟩ := P.fanWalks_total hv fuel hf _ hg' hg'1
  obtain ⟨F, last, B⟩ := r
  obtain ⟨F1, rfl, hcase⟩ := P.fanWalks_step hv hirr ho hnl fuel g g0 g1 hg' hne F B last hr
  have hr'' := P.fanWalks_mono fuel _ r' hr'
  have hedge := hv.twin_edge _ p0 p1 hg'
  have hnp := hv.next_prev g g0 g1
  unfold Parent.fanCounts
  rw [hr, hr']
  simp only [Option.map_some', Option.some.injEq]
  rcases hcase with ⟨hl, e⟩ | ⟨hl, hB, e⟩
  · rw [e] at hr''
    have := Option.some.inj hr''
    subst this
    simp only [hl, if_true, List.length_cons, List.map_cons, List.sum_cons, hedge, hnp,
      Prod.mk.injEq]
    constructor
    · push_cast
      ring
    · ring
  · rw [e] at hr''
    have := Option.some.inj hr''
    subst this
    subst hB
    subst hl
    have hn1 : ¬ last < 0 := by omega
    have hn2 : ¬ P.twin (P.prev last) < 0 := by omega
    simp only [hn1, hn2, if_false, List.length_cons, List.length_append, List.length_singleton,
      List.length_nil, List.map_cons, List.map_append, List.map_nil, List.sum_cons,
      List.sum_append, List.sum_nil, Prod.mk.injEq]
    constructor
    · push_cast
    · ring

/-- The valence and the crease count are the same for the halfedges that the
rotation around the vertex reaches from a halfedge. -/
theorem Parent.fanCounts_iterate (P : Parent) (hv : P.Valid) (hirr : P.TwinIrreflexive)
    (ho : P.Oriented) (hnl : P.NoLoops) (W : Int → ℚ) (fuel : Nat) (hf : P.H ≤ fuel) :
    ∀ (k : Nat) (h g : Int), 0 ≤ g → stepIterate P.forward k h = some g →
      P.fanCounts W fuel g = P.fanCounts W fuel h := by
  intro k
  induction k with
  | zero =>
    intro h g _ e
    simp only [stepIterate, Option.some.injEq] at e
    rw [e]
  | succ k ih =>
    intro h g hg e
    simp only [stepIterate] at e
    obtain ⟨h1, hs, e'⟩ := Option.bind_eq_some.mp e
    obtain ⟨h0, hH, rfl⟩ := P.forward_of_some h h1 hs
    have h10 : 0 ≤ P.twin (P.prev h) := by
      cases k with
      | zero =>
        simp only [stepIterate, Option.some.injEq] at e'
        rw [e']
        exact hg
      | succ j =>
        simp only [stepIterate] at e'
        obtain ⟨_, hs', _⟩ := Option.bind_eq_some.mp e'
        exact (P.forward_of_some _ _ hs').1
    rw [ih _ g hg e', P.fanCounts_step hv hirr ho hnl W fuel hf h h0 hH h10]

/-- The valence and the crease count are the same for two halfedges one of which
the rotation around the vertex reaches from the other. -/
theorem Parent.fanCounts_linked (P : Parent) (hv : P.Valid) (hirr : P.TwinIrreflexive)
    (ho : P.Oriented) (hnl : P.NoLoops) (W : Int → ℚ) (fuel : Nat) (hf : P.H ≤ fuel)
    (k : Nat) (h g : Int) (h0 : 0 ≤ h) (g0 : 0 ≤ g)
    (hk : stepIterate P.forward k h = some g ∨ stepIterate P.forward k g = some h) :
    P.fanCounts W fuel g = P.fanCounts W fuel h := by
  rcases hk with e | e
  · exact P.fanCounts_iterate hv hirr ho hnl W fuel hf k h g g0 e
  · exact (P.fanCounts_iterate hv hirr ho hnl W fuel hf k g h h0 e).symm

/-- The valence and the crease count that the first loop alone and the boundary
correction give for the halfedge `g`. -/
def Parent.forwardCounts (P : Parent) (W : Int → ℚ) (fuel : Nat) (g : Int) : Option (ℚ × ℚ) :=
  (ringWalk P.forward (fun x => decide (x ≥ 0) && decide (x ≠ g)) fuel
    (P.twin (P.prev g))).map (fun f =>
      ((1 : ℚ) + (f.1.length : ℚ) + (if f.2 < 0 then 1 else 0),
        W (P.edge (P.prev g)) + (f.1.map (fun x => W (P.edge (P.prev x)))).sum
          + (if f.2 < 0 then W (P.edge g) else 0)))

/-- From a halfedge without a twin the second loop has nothing to count, and so
has it after a first loop that comes back to the halfedge. -/
theorem Parent.fanCounts_eq_forwardCounts (P : Parent) (W : Int → ℚ) (fuel : Nat) (g : Int)
    (hb : ∀ F last, ringWalk P.forward (fun x => decide (x ≥ 0) && decide (x ≠ g)) fuel
      (P.twin (P.prev g)) = some (F, last) → last < 0 → P.twin g < 0) :
    P.fanCounts W fuel g = P.forwardCounts W fuel g := by
  unfold Parent.fanCounts Parent.forwardCounts Parent.fanWalks
  cases hF : ringWalk P.forward (fun x => decide (x ≥ 0) && decide (x ≠ g)) fuel
      (P.twin (P.prev g)) with
  | none => rfl
  | some f =>
    obtain ⟨F, last⟩ := f
    have hstop : ringWalk P.backward
        (fun b => decide (last < 0) && decide (b ≥ 0) && decide (b ≠ g)) fuel (P.twin g)
          = some ([], P.twin g) := by
      apply ringWalk_stop
      by_cases hl : last < 0
      · have := hb F last hF hl
        simp only [Bool.and_eq_false_iff, decide_eq_false_iff_not, not_lt, not_le]
        exact Or.inl (Or.inr (by omega))
      · simp only [Bool.and_eq_false_iff, decide_eq_false_iff_not]
        exact Or.inl (Or.inl hl)
    simp only [Option.some_bind, hstop, Option.map_some', List.length_nil, List.map_nil,
      List.sum_nil, Nat.cast_zero, add_zero]

/-- The two loops around the vertex of a halfedge, from the two walks: the
iterator at the exit of the first loop, and the local variables after each
loop. -/
theorem Parent.fan_forLoops {σ : Type} (P : Parent)
    (bodyF bodyB : Int → σ → Option (Int × σ)) (updF updB : Int → σ → σ)
    (hbF : ∀ x : Int, 0 ≤ x → x < (P.H : Int) → ∀ s,
      bodyF x s = some (P.twin (P.prev x), updF x s))
    (hbB : ∀ x : Int, 0 ≤ x → x < (P.H : Int) → ∀ s,
      bodyB x s = some (P.twin (P.next x), updB x s))
    (fuel : Nat) (g : Int) (F B : List Int) (last : Int)
    (hw : P.fanWalks fuel g = some (F, last, B)) (s0 : σ) :
    forLoop (fun x => decide (x ≥ 0) && decide (x ≠ g)) bodyF fuel (P.twin (P.prev g)) s0
      = some (last, F.foldl (fun s x => updF x s) s0) ∧
    ∀ s1, ∃ lastB,
      forLoop (fun b => decide (last < 0) && decide (b ≥ 0) && decide (b ≠ g)) bodyB fuel
        (P.twin g) s1 = some (lastB, B.foldl (fun s x => updB x s) s1) := by
  obtain ⟨hF, lastB, hB⟩ := P.walks_of_fanWalks fuel g F B last hw
  refine ⟨?_, fun s1 => ⟨lastB, ?_⟩⟩
  · exact forLoop_of_ringWalk P.forward _ bodyF updF fuel _ F last s0 hF
      (fun x _ nxt s hs => by
        obtain ⟨x0, x1, e⟩ := P.forward_of_some x nxt hs
        rw [hbF x x0 x1 s, e])
  · exact forLoop_of_ringWalk P.backward _ bodyB updB fuel _ B lastB s1 hB
      (fun x _ nxt s hs => by
        obtain ⟨x0, x1, e⟩ := P.backward_of_some x nxt hs
        rw [hbB x x0 x1 s, e])

/-- The first loop around the vertex of a halfedge, from its walk. -/
theorem Parent.forward_forLoop {σ : Type} (P : Parent)
    (bodyF : Int → σ → Option (Int × σ)) (updF : Int → σ → σ)
    (hbF : ∀ x : Int, 0 ≤ x → x < (P.H : Int) → ∀ s,
      bodyF x s = some (P.twin (P.prev x), updF x s))
    (fuel : Nat) (g : Int) (F : List Int) (last : Int)
    (hF : ringWalk P.forward (fun x => decide (x ≥ 0) && decide (x ≠ g)) fuel
      (P.twin (P.prev g)) = some (F, last)) (s0 : σ) :
    forLoop (fun x => decide (x ≥ 0) && decide (x ≠ g)) bodyF fuel (P.twin (P.prev g)) s0
      = some (last, F.foldl (fun s x => updF x s) s0) :=
  forLoop_of_ringWalk P.forward _ bodyF updF fuel _ F last s0 hF
    (fun x _ nxt s hs => by
      obtain ⟨x0, x1, e⟩ := P.forward_of_some x nxt hs
      rw [hbF x x0 x1 s, e])

/-- The steps of a rotation that are steps of another one. -/
theorem stepIterate_congr (step step' : Int → Option Int)
    (h : ∀ x y, step x = some y → step' x = some y) :
    ∀ (k : Nat) (x y : Int), stepIterate step k x = some y → stepIterate step' k x = some y := by
  intro k
  induction k with
  | zero =>
    intro x y e
    exact e
  | succ k ih =>
    intro x y e
    simp only [stepIterate] at e ⊢
    obtain ⟨x1, hs, e'⟩ := Option.bind_eq_some.mp e
    rw [h x x1 hs, Option.some_bind]
    exact ih x1 y e'

/-! ### The cage pair: `ccs__CreasedCageVertexPoints_Gather` and
`ccs__CreasedCageVertexPoints_Scatter` -/

/-- The body of the loop over the vertices of
`ccs__CreasedCageVertexPoints_Gather` up to the exit of its loop around the
vertex: `oldPoint`, `newEdgePoint`, `creaseWeight`, the value of
`forwardIterator` at the exit of the loop, and the local variables before the
statements "boundary corrections". -/
def ccs__CreasedCageVertexPoints_Gather_locals (cage : cc_Mesh) (vertexCount faceCount : Int)
    (points : List cc_VertexPoint) (fuel : Nat) (vertexID : Int) :
    Option (cc_VertexPoint × cc_VertexPoint × ℚ × Int × cc_VertexLocals) := do
  let halfedgeID ← ccm_VertexToHalfedgeID cage vertexID
  let edgeID ← ccm_HalfedgeEdgeID cage halfedgeID
  let prevID ← ccm_HalfedgePrevID cage halfedgeID
  let thisS ← ccm_HalfedgeSharpness cage halfedgeID
  let creaseWeight := cc__Signf thisS
  let newEdgePoint ← readAt points (vertexCount + faceCount + edgeID)
  let prev ← ccm_HalfedgeNewPoints cage vertexCount faceCount points prevID
  let oldPoint ← ccm_VertexPoint cage vertexID
  let start ← ccm_HalfedgeTwinID cage prevID
  let r ← forLoop
    (fun forwardIterator => decide (forwardIterator ≥ 0) && decide (forwardIterator ≠ halfedgeID))
    (ccs__CreasedCageVertexPoints_Gather_forward cage vertexCount faceCount points)
    fuel start (cc_VertexLocals.first prev.1 prev.2.1 prev.2.2)
  some (oldPoint, newEdgePoint, creaseWeight, r.1, r.2)

/-- The body of the loop over the vertices of
`ccs__CreasedCageVertexPoints_Gather` is its rule on the local variables of
`ccs__CreasedCageVertexPoints_Gather_locals`. -/
theorem ccs__CreasedCageVertexPoints_Gather_vertex_eq (cage : cc_Mesh)
    (vertexCount faceCount : Int) (points : List cc_VertexPoint) (fuel : Nat) (vertexID : Int) :
    ccs__CreasedCageVertexPoints_Gather_vertex cage vertexCount faceCount points fuel vertexID =
      (ccs__CreasedCageVertexPoints_Gather_locals cage vertexCount faceCount points fuel
        vertexID).map (fun r =>
          ccs__CreasedCageVertexPoints_Gather_rule r.1 r.2.1 r.2.2.1 r.2.2.2.1 r.2.2.2.2) := by
  unfold ccs__CreasedCageVertexPoints_Gather_vertex ccs__CreasedCageVertexPoints_Gather_locals
  simp only [Option.bind_eq_bind, map_bind_eq, Option.map_some']

/-- The valence and the crease count that `ccs__CreasedCageVertexPoints_Gather`
computes for a vertex: the local variables `valence` and `creaseCount` after the
statements "boundary corrections", with which its rule starts. -/
def ccs__CreasedCageVertexPoints_Gather_counts (cage : cc_Mesh) (vertexCount faceCount : Int)
    (points : List cc_VertexPoint) (fuel : Nat) (vertexID : Int) : Option (ℚ × ℚ) :=
  (ccs__CreasedCageVertexPoints_Gather_locals cage vertexCount faceCount points fuel
    vertexID).map (fun r =>
      let s := r.2.2.2.2.boundaryCorrections r.2.2.2.1 r.2.1 r.2.2.1
      (s.valence, s.creaseCount))

/-- The body of the loop over the halfedges of
`ccs__CreasedCageVertexPoints_Scatter` without its reads of the points:
`creaseWeight`, `prevCreaseWeight`, the value of `forwardIterator` at the exit of
the first loop, and the local variables after the second loop. -/
def ccs__CreasedCageVertexPoints_Scatter_locals (cage : cc_Mesh) (fuel : Nat)
    (halfedgeID : Int) : Option (ℚ × ℚ × Int × cc_VertexCounts) := do
  let prevID ← ccm_HalfedgePrevID cage halfedgeID
  let thisS ← ccm_HalfedgeSharpness cage halfedgeID
  let prevS ← ccm_HalfedgeSharpness cage prevID
  let creaseWeight := cc__Signf thisS
  let prevCreaseWeight := cc__Signf prevS
  let r ← ccs__CreasedCageVertexPoints_Scatter_walks cage fuel halfedgeID prevID prevS
  some (creaseWeight, prevCreaseWeight, r.1, r.2)

/-- The local variables after "boundary corrections" of the scatter kernels do
not depend on the points. -/
theorem cc_VertexCounts.points_counts (s : cc_VertexCounts)
    (a b c d a' b' c' d' : cc_VertexPoint) (cw pcw : ℚ) (it : Int) :
    (s.points a b c d cw pcw it).2.2.2 = (s.points a' b' c' d' cw pcw it).2.2.2 := by
  unfold cc_VertexCounts.points
  by_cases h : it < 0
  · simp only [if_pos h]
  · simp only [if_neg h]

/-- When the body of the loop over the halfedges of
`ccs__CreasedCageVertexPoints_Scatter` returns, its contribution is its rule on
the local variables of `ccs__CreasedCageVertexPoints_Scatter_locals`. -/
theorem ccs__CreasedCageVertexPoints_Scatter_halfedge_eq (cage : cc_Mesh)
    (vertexCount faceCount : Int) (points : List cc_VertexPoint) (fuel : Nat) (halfedgeID : Int)
    (x : Int × cc_VertexPoint)
    (h : ccs__CreasedCageVertexPoints_Scatter_halfedge cage vertexCount faceCount points fuel
      halfedgeID = some x) :
    ∃ (oldPoint newEdgePoint newPrevEdgePoint newFacePoint : cc_VertexPoint)
      (r : ℚ × ℚ × Int × cc_VertexCounts),
      ccs__CreasedCageVertexPoints_Scatter_locals cage fuel halfedgeID = some r ∧
      x.2 = ccs__CreasedCageVertexPoints_Scatter_rule oldPoint newEdgePoint newPrevEdgePoint
        newFacePoint r.1 r.2.1 r.2.2.1 r.2.2.2 := by
  unfold ccs__CreasedCageVertexPoints_Scatter_halfedge at h
  simp only [Option.bind_eq_bind] at h
  obtain ⟨v, _, h⟩ := Option.bind_eq_some.mp h
  obtain ⟨p, hp, h⟩ := Option.bind_eq_some.mp h
  obtain ⟨thisS, hS, h⟩ := Option.bind_eq_some.mp h
  obtain ⟨prevS, hP, h⟩ := Option.bind_eq_some.mp h
  obtain ⟨q, _, h⟩ := Option.bind_eq_some.mp h
  obtain ⟨old, _, h⟩ := Option.bind_eq_some.mp h
  obtain ⟨r, hr, h⟩ := Option.bind_eq_some.mp h
  have := Option.some.inj h
  subst this
  refine ⟨old, q.2.1, q.1, q.2.2, (cc__Signf thisS, cc__Signf prevS, r.1, r.2), ?_, rfl⟩
  unfold ccs__CreasedCageVertexPoints_Scatter_locals
  simp only [hp, hS, hP, hr, Option.bind_eq_bind, Option.some_bind]

/-- The valence and the crease count that `ccs__CreasedCageVertexPoints_Scatter`
computes at a halfedge: the local variables `valence` and `creaseCount` after
its statements "boundary corrections". -/
def ccs__CreasedCageVertexPoints_Scatter_counts (cage : cc_Mesh) (fuel : Nat)
    (halfedgeID : Int) : Option (ℚ × ℚ) :=
  (ccs__CreasedCageVertexPoints_Scatter_locals cage fuel halfedgeID).map (fun r =>
    let s := (r.2.2.2.points (0, 0, 0) (0, 0, 0) (0, 0, 0) (0, 0, 0) r.1 r.2.1 r.2.2.1).2.2.2
    (s.valence, s.creaseCount))

/-- The weight `sign(sharpness)` of the crease of the edge `edgeID` of the cage,
0 for an edge without a crease record. -/
def ccm_CreaseWeight (cage : cc_Mesh) (edgeID : Int) : ℚ :=
  cc__Signf ((ccm_CreaseSharpness cage edgeID).getD 0)

/-- No edge of the cage is a loop: a halfedge ends at another vertex than the
one it starts from. -/
def ccm_NoLoops (cage : cc_Mesh) : Prop :=
  ∀ h : Nat, h < ccm_HalfedgeCount cage → ∀ n ∈ ccm_HalfedgeNextID cage h,
    ccm_HalfedgeVertexID cage n ≠ ccm_HalfedgeVertexID cage h

instance (cage : cc_Mesh) : Decidable (ccm_NoLoops cage) := by
  unfold ccm_NoLoops
  infer_instance

/-- The table `vertexToHalfedgeIDs` gives a halfedge without a twin for every
vertex that has one: the halfedge of a vertex on the boundary is the first one
of its fan. -/
def ccm_BoundaryFirst (cage : cc_Mesh) : Prop :=
  ∀ g : Nat, g < ccm_HalfedgeCount cage → ∀ t ∈ ccm_HalfedgeTwinID cage g, t < 0 →
    ∀ v ∈ ccm_HalfedgeVertexID cage g, ∀ h ∈ ccm_VertexToHalfedgeID cage v,
      ∀ th ∈ ccm_HalfedgeTwinID cage h, th < 0

instance (cage : cc_Mesh) : Decidable (ccm_BoundaryFirst cage) := by
  unfold ccm_BoundaryFirst
  infer_instance

theorem cageParent_noLoops (cage : cc_Mesh) (hv : (cageParent cage).Valid)
    (hnl : ccm_NoLoops cage) : (cageParent cage).NoLoops := by
  intro h h0 h1 e
  have h1' : h < (ccm_HalfedgeCount cage : Int) := h1
  have hc : ((h.toNat : Nat) : Int) = h := by omega
  obtain ⟨n0, n1⟩ := hv.next_range h h0 h1
  have := hnl h.toNat (by omega) ((cageParent cage).next h)
    (by rw [hc, cage_next_eq cage h h0 h1']; exact rfl)
  rw [hc, cage_vertex_eq cage _ n0 n1, cage_vertex_eq cage h h0 h1', e] at this
  exact this rfl

/-- The local variables `valence` and `creaseCount` after a loop around the
vertex of the gather kernels. -/
theorem foldl_locals_counts (r : Int → cc_VertexPoint × cc_VertexPoint × ℚ) (ring : List Int) :
    ∀ s : cc_VertexLocals,
      (ring.foldl (fun s x => s.accumulate (r x).1 (r x).2.1 (r x).2.2) s).valence
          = s.valence + (ring.length : ℚ) ∧
      (ring.foldl (fun s x => s.accumulate (r x).1 (r x).2.1 (r x).2.2) s).creaseCount
          = s.creaseCount + (ring.map (fun x => cc__Signf (r x).2.2)).sum := by
  induction ring with
  | nil =>
    intro s
    simp
  | cons a t ih =>
    intro s
    rw [List.foldl_cons]
    obtain ⟨i1, i2⟩ := ih (s.accumulate (r a).1 (r a).2.1 (r a).2.2)
    rw [i1, i2]
    simp only [cc_VertexLocals.accumulate, List.map_cons, List.sum_cons, List.length_cons]
    constructor
    · push_cast
      ring
    · ring

/-- The sharpness of a halfedge of a valid cage. -/
theorem cage_sharpness_eq (cage : cc_Mesh) (hc : ccm_Covered cage)
    (hw : ccs_CreaseLinksInBounds cage.creases (ccm_EdgeCount cage)) (p : Int) (p0 : 0 ≤ p)
    (p1 : p < (ccm_HalfedgeCount cage : Int)) :
    ccm_HalfedgeSharpness cage p
      = some ((ccm_CreaseSharpness cage ((cageParent cage).edge p)).getD 0) := by
  have hs := (cage_halfedge_creaseReadable cage hc hw p p0 p1).2
  obtain ⟨x, hx⟩ := Option.isSome_iff_exists.mp hs
  have hx' := hx
  unfold ccm_HalfedgeSharpness at hx'
  rw [cage_edge_eq cage p p0 p1, Option.some_bind] at hx'
  rw [hx, hx', Option.getD_some]

/-- The reads of a halfedge of a valid cage in a walk around a vertex. -/
theorem cage_newPoints_eq (cage : cc_Mesh) (hc : ccm_Covered cage)
    (hw : ccs_CreaseLinksInBounds cage.creases (ccm_EdgeCount cage))
    (points : List cc_VertexPoint)
    (hlen : ccm_VertexCount cage + ccm_FaceCount cage + ccm_EdgeCount cage ≤ points.length)
    (p : Int) (p0 : 0 ≤ p) (p1 : p < (ccm_HalfedgeCount cage : Int)) :
    ∃ E Fp : cc_VertexPoint,
      ccm_HalfedgeNewPoints cage (ccm_VertexCount cage) (ccm_FaceCount cage) points p
        = some (E, Fp, (ccm_CreaseSharpness cage ((cageParent cage).edge p)).getD 0) ∧
      readAt points ((ccm_VertexCount cage : Int) + (ccm_FaceCount cage : Int)
        + (cageParent cage).edge p) = some E := by
  obtain ⟨_, ⟨c, d⟩, ⟨e, f⟩⟩ := cage_ids_range cage hc p p0 p1
  obtain ⟨E, hE⟩ := Option.isSome_iff_exists.mp (readAt_isSome points
    ((ccm_VertexCount cage : Int) + (ccm_FaceCount cage : Int) + (cageParent cage).edge p)
    (by omega) (by omega))
  obtain ⟨Fp, hF⟩ := Option.isSome_iff_exists.mp (readAt_isSome points
    ((ccm_VertexCount cage : Int) + (cageParent cage).face p) (by omega) (by omega))
  refine ⟨E, Fp, ?_, hE⟩
  unfold ccm_HalfedgeNewPoints
  simp only [cage_edge_eq cage p p0 p1, cage_face_eq cage p p0 p1, hE, hF,
    cage_sharpness_eq cage hc hw p p0 p1, Option.bind_eq_bind, Option.some_bind]

/-- The valence and the crease count of `ccs__CreasedCageVertexPoints_Scatter`
at a halfedge of a valid cage are those of the two walks around its vertex. -/
theorem cage_scatter_counts (cage : cc_Mesh) (hv : ccm_Valid cage) (fuel : Nat) (g : Int)
    (g0 : 0 ≤ g) (g1 : g < (ccm_HalfedgeCount cage : Int)) (c : ℚ × ℚ)
    (hc : (cageParent cage).fanCounts (ccm_CreaseWeight cage) fuel g = some c) :
    ccs__CreasedCageVertexPoints_Scatter_counts cage fuel g = some c := by
  obtain ⟨hnp, htw, _, hcov, hcl, _, _⟩ := hv
  have hP := cageParent_valid cage hnp htw
  obtain ⟨p0, p1⟩ := hP.prev_range g g0 g1
  have p1' : (cageParent cage).prev g < (ccm_HalfedgeCount cage : Int) := p1
  unfold Parent.fanCounts at hc
  obtain ⟨r, hw, hq⟩ := Option.map_eq_some'.mp hc
  obtain ⟨F, last, B⟩ := r
  subst hq
  obtain ⟨l1, l2⟩ := (cageParent cage).fan_forLoops
    (ccs__CreasedCageVertexPoints_Scatter_forward cage)
    (ccs__CreasedCageVertexPoints_Scatter_backward cage)
    (fun x s => s.accumulate
      ((ccm_CreaseSharpness cage ((cageParent cage).edge ((cageParent cage).prev x))).getD 0))
    (fun x s => s.accumulate
      ((ccm_CreaseSharpness cage ((cageParent cage).edge ((cageParent cage).next x))).getD 0))
    (by
      intro x x0 x1 s
      have x1' : x < (ccm_HalfedgeCount cage : Int) := x1
      obtain ⟨a, b⟩ := hP.prev_range x x0 x1
      have b' : (cageParent cage).prev x < (ccm_HalfedgeCount cage : Int) := b
      unfold ccs__CreasedCageVertexPoints_Scatter_forward
      simp only [cage_prev_eq cage x x0 x1', cage_sharpness_eq cage hcov hcl _ a b',
        cage_twin_eq cage _ a b', Option.bind_eq_bind, Option.some_bind])
    (by
      intro x x0 x1 s
      have x1' : x < (ccm_HalfedgeCount cage : Int) := x1
      obtain ⟨a, b⟩ := hP.next_range x x0 x1
      have b' : (cageParent cage).next x < (ccm_HalfedgeCount cage : Int) := b
      unfold ccs__CreasedCageVertexPoints_Scatter_backward
      simp only [cage_next_eq cage x x0 x1', cage_sharpness_eq cage hcov hcl _ a b',
        cage_twin_eq cage _ a b', Option.bind_eq_bind, Option.some_bind])
    fuel g F B last hw
    (cc_VertexCounts.first
      ((ccm_CreaseSharpness cage ((cageParent cage).edge ((cageParent cage).prev g))).getD 0))
  obtain ⟨lastB, l2⟩ := l2 (F.foldl (fun s x => s.accumulate
    ((ccm_CreaseSharpness cage ((cageParent cage).edge ((cageParent cage).prev x))).getD 0))
    (cc_VertexCounts.first
      ((ccm_CreaseSharpness cage ((cageParent cage).edge ((cageParent cage).prev g))).getD 0)))
  unfold ccs__CreasedCageVertexPoints_Scatter_counts ccs__CreasedCageVertexPoints_Scatter_locals
    ccs__CreasedCageVertexPoints_Scatter_walks
  simp only [cage_prev_eq cage g g0 g1, cage_sharpness_eq cage hcov hcl g g0 g1,
    cage_sharpness_eq cage hcov hcl _ p0 p1', cage_twin_eq cage _ p0 p1',
    cage_twin_eq cage g g0 g1, Option.bind_eq_bind, Option.some_bind]
  simp only [l1, Option.some_bind, l2, Option.map_some', Option.some.injEq]
  simp only [foldl_counts, cc_VertexCounts.first, cc_VertexCounts.points, ccm_CreaseWeight]
  by_cases hl : last < 0
  · simp only [if_pos hl, Prod.mk.injEq]
  · simp only [if_neg hl, Prod.mk.injEq]
    constructor <;> ring

/-- The valence and the crease count of `ccs__CreasedCageVertexPoints_Gather`
for a vertex of a valid cage are those of the first walk around the vertex from
its halfedge in the table `vertexToHalfedgeIDs`. -/
theorem cage_gather_counts (cage : cc_Mesh) (hv : ccm_Valid cage)
    (points : List cc_VertexPoint)
    (hlen : ccm_VertexCount cage + ccm_FaceCount cage + ccm_EdgeCount cage ≤ points.length)
    (fuel : Nat) (v : Nat) (hlt : v < ccm_VertexCount cage) (h : Int)
    (hh : ccm_VertexToHalfedgeID cage v = some h) (h0 : 0 ≤ h)
    (h1 : h < (ccm_HalfedgeCount cage : Int)) (c : ℚ × ℚ)
    (hc : (cageParent cage).forwardCounts (ccm_CreaseWeight cage) fuel h = some c) :
    ccs__CreasedCageVertexPoints_Gather_counts cage (ccm_VertexCount cage) (ccm_FaceCount cage)
      points fuel v = some c := by
  obtain ⟨hnp, htw, _, hcov, hcl, hvp, _⟩ := hv
  have hP := cageParent_valid cage hnp htw
  obtain ⟨p0, p1⟩ := hP.prev_range h h0 h1
  have p1' : (cageParent cage).prev h < (ccm_HalfedgeCount cage : Int) := p1
  unfold Parent.forwardCounts at hc
  obtain ⟨r, hw, hq⟩ := Option.map_eq_some'.mp hc
  obtain ⟨F, last⟩ := r
  subst hq
  obtain ⟨Eh, _, _, hEh⟩ := cage_newPoints_eq cage hcov hcl points hlen h h0 h1
  obtain ⟨Ep, Fp, hNp, _⟩ := cage_newPoints_eq cage hcov hcl points hlen _ p0 p1'
  obtain ⟨Vp, hVp⟩ := Option.isSome_iff_exists.mp
    (readAt_isSome cage.vertexPoints (v : Int) (by omega) (by omega))
  have hVp' : ccm_VertexPoint cage (v : Int) = some Vp := hVp
  have l1 := (cageParent cage).forward_forLoop
    (ccs__CreasedCageVertexPoints_Gather_forward cage (ccm_VertexCount cage)
      (ccm_FaceCount cage) points)
    (fun x s => s.accumulate
      ((ccm_HalfedgeNewPoints cage (ccm_VertexCount cage) (ccm_FaceCount cage) points
        ((cageParent cage).prev x)).getD default).1
      ((ccm_HalfedgeNewPoints cage (ccm_VertexCount cage) (ccm_FaceCount cage) points
        ((cageParent cage).prev x)).getD default).2.1
      ((ccm_HalfedgeNewPoints cage (ccm_VertexCount cage) (ccm_FaceCount cage) points
        ((cageParent cage).prev x)).getD default).2.2)
    (by
      intro x x0 x1 s
      have x1' : x < (ccm_HalfedgeCount cage : Int) := x1
      obtain ⟨a, b⟩ := hP.prev_range x x0 x1
      have b' : (cageParent cage).prev x < (ccm_HalfedgeCount cage : Int) := b
      obtain ⟨E, Fx, hN, _⟩ := cage_newPoints_eq cage hcov hcl points hlen _ a b'
      unfold ccs__CreasedCageVertexPoints_Gather_forward
      simp only [cage_prev_eq cage x x0 x1', hN, cage_twin_eq cage _ a b', Option.bind_eq_bind,
        Option.some_bind, Option.getD_some])
    fuel h F last hw (cc_VertexLocals.first Ep Fp
      ((ccm_CreaseSharpness cage ((cageParent cage).edge ((cageParent cage).prev h))).getD 0))
  obtain ⟨k1, k2⟩ := foldl_locals_counts
    (fun x => (ccm_HalfedgeNewPoints cage (ccm_VertexCount cage) (ccm_FaceCount cage) points
      ((cageParent cage).prev x)).getD default) F
    (cc_VertexLocals.first Ep Fp
      ((ccm_CreaseSharpness cage ((cageParent cage).edge ((cageParent cage).prev h))).getD 0))
  have hmap : F.map (fun x => cc__Signf
        ((ccm_HalfedgeNewPoints cage (ccm_VertexCount cage) (ccm_FaceCount cage) points
          ((cageParent cage).prev x)).getD default).2.2)
      = F.map (fun x => ccm_CreaseWeight cage
          ((cageParent cage).edge ((cageParent cage).prev x))) := by
    apply List.map_congr_left
    intro x hx
    obtain ⟨_, nxt, hs⟩ := (ringWalk_mem _ _ fuel _ F last hw).1 x hx
    obtain ⟨x0, x1, _⟩ := (cageParent cage).forward_of_some x nxt hs
    obtain ⟨a, b⟩ := hP.prev_range x x0 x1
    have b' : (cageParent cage).prev x < (ccm_HalfedgeCount cage : Int) := b
    obtain ⟨E, Fx, hN, _⟩ := cage_newPoints_eq cage hcov hcl points hlen _ a b'
    rw [hN, Option.getD_some]
    rfl
  unfold ccs__CreasedCageVertexPoints_Gather_counts ccs__CreasedCageVertexPoints_Gather_locals
  simp only [hh, cage_edge_eq cage h h0 h1, cage_prev_eq cage h h0 h1,
    cage_sharpness_eq cage hcov hcl h h0 h1, hEh, hNp, hVp', cage_twin_eq cage _ p0 p1',
    Option.bind_eq_bind, Option.some_bind]
  simp only [l1, Option.some_bind, Option.map_some', Option.some.injEq]
  unfold cc_VertexLocals.boundaryCorrections
  by_cases hl : last < 0
  · simp only [if_pos hl, Prod.mk.injEq, k1, k2, hmap]
    simp only [cc_VertexLocals.first, ccm_CreaseWeight, and_self]
  · simp only [if_neg hl, Prod.mk.injEq, k1, k2, hmap]
    simp only [cc_VertexLocals.first, ccm_CreaseWeight]
    constructor <;> ring

/-- On a valid manifold cage without loops whose table `vertexToHalfedgeIDs`
gives the first halfedge of the fan of every vertex on the boundary, the scatter
kernel at a halfedge and the gather kernel for its vertex compute the same
valence and the same crease count, and both return them. -/
theorem cage_creased_counts (cage : cc_Mesh) (points : List cc_VertexPoint) (fuel : Nat)
    (hv : ccm_Valid cage) (hm : ccm_Manifold cage) (hnl : ccm_NoLoops cage)
    (hbf : ccm_BoundaryFirst cage) (hf : ccm_HalfedgeCount cage ≤ fuel)
    (hlen : ccm_VertexCount cage + ccm_FaceCount cage + ccm_EdgeCount cage ≤ points.length)
    (v : Nat) (hlt : v < ccm_VertexCount cage) (g : Nat) (hg : g < ccm_HalfedgeCount cage)
    (hgv : ccm_HalfedgeVertexID cage g = some (v : Int)) :
    ∃ c : ℚ × ℚ,
      ccs__CreasedCageVertexPoints_Scatter_counts cage fuel g = some c ∧
      ccs__CreasedCageVertexPoints_Gather_counts cage (ccm_VertexCount cage)
        (ccm_FaceCount cage) points fuel v = some c := by
  have hv' := hv
  obtain ⟨hnp, htw, hirr, hcov, hcl, hvp, htab⟩ := hv'
  obtain ⟨hkf, hor, _, hmv, _, hfan⟩ := hm
  have hP := cageParent_valid cage hnp htw
  have hI := cageParent_irreflexive cage hirr
  have hO := cageParent_oriented cage hnp htw hkf hor
  have hN := cageParent_noLoops cage hP hnl
  have hPH : (cageParent cage).H = ccm_HalfedgeCount cage := rfl
  obtain ⟨h, hh, h0, h1⟩ := htab.1 v hlt
  rw [Option.mem_def] at hh
  obtain ⟨h', hh', hhv⟩ := hmv v hlt
  rw [Option.mem_def, hh] at hh'
  have := Option.some.inj hh'
  subst this
  obtain ⟨kh, rfl⟩ : ∃ kh : Nat, h = (kh : Int) := ⟨h.toNat, by omega⟩
  have g0 : (0 : Int) ≤ (g : Int) := by omega
  have g1 : (g : Int) < (ccm_HalfedgeCount cage : Int) := by omega
  -- the halfedge of the table and the halfedge `g` are in one fan
  obtain ⟨k, _, hk⟩ := hfan kh (by omega) g hg (by rw [hhv, hgv])
  have hcongr : ∀ x y, ccm_PrevVertexHalfedgeID cage x = some y →
      (cageParent cage).forward x = some y := by
    intro x y e
    obtain ⟨x0, x1⟩ := cage_forward_range_of_some cage x y e
    rw [cage_forward_eq cage hP x x0 x1] at e
    rw [(cageParent cage).forward_eq x x0 x1, e]
  have hlink := (cageParent cage).fanCounts_linked hP hI hO hN (ccm_CreaseWeight cage) fuel
    (by rw [hPH]; exact hf) k (kh : Int) (g : Int) h0 g0
    (hk.imp (stepIterate_congr _ _ hcongr k _ _) (stepIterate_congr _ _ hcongr k _ _))
  obtain ⟨r, hr⟩ := (cageParent cage).fanWalks_total hP fuel (by rw [hPH]; exact hf)
    (kh : Int) h0 h1
  obtain ⟨F, last, B⟩ := r
  -- the second loop has nothing to count from the halfedge of the table
  have hfw := (cageParent cage).fanCounts_eq_forwardCounts (ccm_CreaseWeight cage) fuel
    (kh : Int)
    (by
      intro F' last' hF' hl
      obtain ⟨hF, _⟩ := (cageParent cage).walks_of_fanWalks fuel _ F B last hr
      rw [hF] at hF'
      simp only [Option.some.injEq, Prod.mk.injEq] at hF'
      obtain ⟨rfl, rfl⟩ := hF'
      obtain ⟨x, x0, x1, xv, xt⟩ := (cageParent cage).open_has_boundary hP hO hN (kh : Int)
        h0 h1 fuel F B last hr hl
      have x1' : x < (ccm_HalfedgeCount cage : Int) := x1
      have hxc : ((x.toNat : Nat) : Int) = x := by omega
      have := hbf x.toNat (by omega) ((cageParent cage).twin x)
        (by rw [hxc, cage_twin_eq cage x x0 x1']; exact rfl) xt (v : Int)
        (by
          rw [hxc, cage_vertex_eq cage x x0 x1', xv, ← cage_vertex_eq cage _ h0 h1, hhv]
          exact rfl)
        (kh : Int) (Option.mem_def.mpr hh) ((cageParent cage).twin (kh : Int))
        (by rw [cage_twin_eq cage _ h0 h1]; exact rfl)
      exact this)
  have hsome : ∃ c, (cageParent cage).fanCounts (ccm_CreaseWeight cage) fuel (kh : Int)
      = some c := by
    unfold Parent.fanCounts
    rw [hr]
    exact ⟨_, rfl⟩
  obtain ⟨c, hc⟩ := hsome
  refine ⟨c, cage_scatter_counts cage hv fuel g g0 g1 c (by rw [hlink]; exact hc),
    cage_gather_counts cage hv points hlen fuel v hlt (kh : Int) hh h0 h1 c
      (by rw [← hfw]; exact hc)⟩

/-! ### The interior pair: `ccs__CreasedVertexPoints_Gather` and
`ccs__CreasedVertexPoints_Scatter` -/

/-- The body of the loop over the vertices of `ccs__CreasedVertexPoints_Gather`
up to the exit of its second loop around the vertex: `oldPoint`,
`newEdgePoint`, `creaseWeight`, the value of `forwardIterator` at the exit of
the first loop, and the local variables before the statements "boundary
corrections". -/
def ccs__CreasedVertexPoints_Gather_locals (subd : cc_Subd)
    (edgeToHalfedgeID : Int → Nat → Int) (vertexToHalfedgeID_First : Int → Int) (depth : Nat)
    (vertexCount faceCount : Int) (points : List cc_VertexPoint) (fuel : Nat)
    (vertexID : Int) :
    Option (cc_VertexPoint × cc_VertexPoint × ℚ × Int × cc_VertexLocals) := do
  let halfedgeID ← ccs_VertexPointToHalfedgeID subd.cage edgeToHalfedgeID
    vertexToHalfedgeID_First vertexID depth fuel
  let edgeID ← ccs_HalfedgeEdgeID subd halfedgeID depth
  let prevID := ccs_HalfedgePrevID subd halfedgeID depth
  let thisS ← ccs_HalfedgeSharpness subd halfedgeID depth
  let creaseWeight := cc__Signf thisS
  let newEdgePoint ← readAt points (vertexCount + faceCount + edgeID)
  let prev ← ccs_HalfedgeNewPoints subd depth vertexCount faceCount points prevID
  let oldPoint ← ccs_VertexPoint subd vertexID depth
  let start ← ccs_HalfedgeTwinID subd prevID depth
  let r ← forLoop
    (fun forwardIterator => decide (forwardIterator ≥ 0) && decide (forwardIterator ≠ halfedgeID))
    (ccs__CreasedVertexPoints_Gather_forward subd depth vertexCount faceCount points)
    fuel start (cc_VertexLocals.first prev.1 prev.2.1 prev.2.2)
  let forwardIterator := r.1
  let back ← ccs_HalfedgeTwinID subd halfedgeID depth
  let b ← forLoop
    (fun backwardIterator => decide (forwardIterator < 0) && decide (backwardIterator ≥ 0)
      && decide (backwardIterator ≠ halfedgeID))
    (ccs__CreasedVertexPoints_Gather_backward subd depth vertexCount faceCount points)
    fuel back r.2
  some (oldPoint, newEdgePoint, creaseWeight, forwardIterator, b.2)

/-- The body of the loop over the vertices of `ccs__CreasedVertexPoints_Gather`
is its rule on the local variables of `ccs__CreasedVertexPoints_Gather_locals`. -/
theorem ccs__CreasedVertexPoints_Gather_vertex_eq (subd : cc_Subd)
    (edgeToHalfedgeID : Int → Nat → Int) (vertexToHalfedgeID_First : Int → Int) (depth : Nat)
    (vertexCount faceCount : Int) (points : List cc_VertexPoint) (fuel : Nat)
    (vertexID : Int) :
    ccs__CreasedVertexPoints_Gather_vertex subd edgeToHalfedgeID vertexToHalfedgeID_First depth
        vertexCount faceCount points fuel vertexID =
      (ccs__CreasedVertexPoints_Gather_locals subd edgeToHalfedgeID vertexToHalfedgeID_First
        depth vertexCount faceCount points fuel vertexID).map (fun r =>
          ccs__CreasedVertexPoints_Gather_rule r.1 r.2.1 r.2.2.1 r.2.2.2.1 r.2.2.2.2) := by
  unfold ccs__CreasedVertexPoints_Gather_vertex ccs__CreasedVertexPoints_Gather_locals
  simp only [Option.bind_eq_bind, map_bind_eq, Option.map_some']

/-- The valence and the crease count that `ccs__CreasedVertexPoints_Gather`
computes for a vertex: the local variables `valence` and `creaseCount` after the
statements "boundary corrections", with which its rule starts. -/
def ccs__CreasedVertexPoints_Gather_counts (subd : cc_Subd)
    (edgeToHalfedgeID : Int → Nat → Int) (vertexToHalfedgeID_First : Int → Int) (depth : Nat)
    (vertexCount faceCount : Int) (points : List cc_VertexPoint) (fuel : Nat)
    (vertexID : Int) : Option (ℚ × ℚ) :=
  (ccs__CreasedVertexPoints_Gather_locals subd edgeToHalfedgeID vertexToHalfedgeID_First depth
    vertexCount faceCount points fuel vertexID).map (fun r =>
      let s := r.2.2.2.2.boundaryCorrections r.2.2.2.1 r.2.1 r.2.2.1
      (s.valence, s.creaseCount))

/-- The body of the loop over the halfedges of
`ccs__CreasedVertexPoints_Scatter` without its reads of the points:
`creaseWeight`, `prevCreaseWeight`, the value of `forwardIterator` at the exit of
the first loop, and the local variables after the second loop. -/
def ccs__CreasedVertexPoints_Scatter_locals (subd : cc_Subd) (depth : Nat) (fuel : Nat)
    (halfedgeID : Int) : Option (ℚ × ℚ × Int × cc_VertexCounts) := do
  let prevID := ccs_HalfedgePrevID subd halfedgeID depth
  let thisS ← ccs_HalfedgeSharpness subd halfedgeID depth
  let prevS ← ccs_HalfedgeSharpness subd prevID depth
  let creaseWeight := cc__Signf thisS
  let prevCreaseWeight := cc__Signf prevS
  let r ← ccs__CreasedVertexPoints_Scatter_walks subd depth fuel halfedgeID prevID prevS
  some (creaseWeight, prevCreaseWeight, r.1, r.2)

/-- When the body of the loop over the halfedges of
`ccs__CreasedVertexPoints_Scatter` returns, its contribution is its rule on the
local variables of `ccs__CreasedVertexPoints_Scatter_locals`. -/
theorem ccs__CreasedVertexPoints_Scatter_halfedge_eq (subd : cc_Subd) (depth : Nat)
    (vertexCount faceCount : Int) (points : List cc_VertexPoint) (fuel : Nat) (halfedgeID : Int)
    (x : Int × cc_VertexPoint)
    (h : ccs__CreasedVertexPoints_Scatter_halfedge subd depth vertexCount faceCount points fuel
      halfedgeID = some x) :
    ∃ (oldPoint newEdgePoint newPrevEdgePoint newFacePoint : cc_VertexPoint)
      (r : ℚ × ℚ × Int × cc_VertexCounts),
      ccs__CreasedVertexPoints_Scatter_locals subd depth fuel halfedgeID = some r ∧
      x.2 = ccs__CreasedVertexPoints_Scatter_rule oldPoint newEdgePoint newPrevEdgePoint
        newFacePoint r.1 r.2.1 r.2.2.1 r.2.2.2 := by
  unfold ccs__CreasedVertexPoints_Scatter_halfedge at h
  simp only [Option.bind_eq_bind] at h
  obtain ⟨v, _, h⟩ := Option.bind_eq_some.mp h
  obtain ⟨thisS, hS, h⟩ := Option.bind_eq_some.mp h
  obtain ⟨prevS, hP, h⟩ := Option.bind_eq_some.mp h
  obtain ⟨q, _, h⟩ := Option.bind_eq_some.mp h
  obtain ⟨old, _, h⟩ := Option.bind_eq_some.mp h
  obtain ⟨r, hr, h⟩ := Option.bind_eq_some.mp h
  have := Option.some.inj h
  subst this
  refine ⟨old, q.2.1, q.1, q.2.2, (cc__Signf thisS, cc__Signf prevS, r.1, r.2), ?_, rfl⟩
  unfold ccs__CreasedVertexPoints_Scatter_locals
  simp only [hS, hP, hr, Option.bind_eq_bind, Option.some_bind]

/-- The valence and the crease count that `ccs__CreasedVertexPoints_Scatter`
computes at a halfedge: the local variables `valence` and `creaseCount` after
its statements "boundary corrections". -/
def ccs__CreasedVertexPoints_Scatter_counts (subd : cc_Subd) (depth : Nat) (fuel : Nat)
    (halfedgeID : Int) : Option (ℚ × ℚ) :=
  (ccs__CreasedVertexPoints_Scatter_locals subd depth fuel halfedgeID).map (fun r =>
    let s := (r.2.2.2.points (0, 0, 0) (0, 0, 0) (0, 0, 0) (0, 0, 0) r.1 r.2.1 r.2.2.1).2.2.2
    (s.valence, s.creaseCount))

/-- The weight `sign(sharpness)` of the crease of the edge `edgeID` of level
`depth`, 0 for an edge without a crease record. -/
def ccs_CreaseWeight (subd : cc_Subd) (depth : Nat) (edgeID : Int) : ℚ :=
  cc__Signf ((ccs_CreaseSharpness subd edgeID depth).getD 0)

/-- On the first `n` halfedges of a level no edge is a loop: the quad successor
of a halfedge starts from another vertex than the halfedge. -/
def ccs_NoLoops (halfedges : List cc_Halfedge_SemiRegular) (n : Nat) : Prop :=
  ∀ c : Nat, c < n → ∀ r ∈ halfedges[c]?,
    ∀ rn ∈ readAt halfedges (ccm_HalfedgeNextID_Quad c), rn.vertexID ≠ r.vertexID

instance (halfedges : List cc_Halfedge_SemiRegular) (n : Nat) :
    Decidable (ccs_NoLoops halfedges n) := by
  unfold ccs_NoLoops
  infer_instance

/-- The halfedges of a vertex of level `depth` are one fan: of two of them, the
rotation `ccs_PrevVertexHalfedgeID` leads from one to the other. -/
def ccs_VertexFans (subd : cc_Subd) (depth : Nat) : Prop :=
  ∀ h : Nat, h < ccm_HalfedgeCountAtDepth subd.cage depth →
    ∀ g : Nat, g < ccm_HalfedgeCountAtDepth subd.cage depth →
      ccs_HalfedgeVertexID subd h depth = ccs_HalfedgeVertexID subd g depth →
      ∃ k : Nat, k < ccm_HalfedgeCountAtDepth subd.cage depth ∧
        (stepIterate (fun x => ccs_PrevVertexHalfedgeID subd x depth) k h = some (g : Int) ∨
          stepIterate (fun x => ccs_PrevVertexHalfedgeID subd x depth) k g = some (h : Int))

instance (subd : cc_Subd) (depth : Nat) : Decidable (ccs_VertexFans subd depth) := by
  unfold ccs_VertexFans
  infer_instance

theorem levelParent_noLoops (cage : cc_Mesh) (depth : Nat)
    (halfedgesIn : List cc_Halfedge_SemiRegular)
    (hH : halfedgesIn.length = ccm_HalfedgeCountAtDepth cage depth)
    (hv : (levelParent cage depth halfedgesIn).Valid)
    (hnl : ccs_NoLoops halfedgesIn (ccm_HalfedgeCountAtDepth cage depth)) :
    (levelParent cage depth halfedgesIn).NoLoops := by
  intro h h0 h1 e
  have hPH : (levelParent cage depth halfedgesIn).H = ccm_HalfedgeCountAtDepth cage depth := rfl
  rw [hPH] at h1
  have hc : ((h.toNat : Nat) : Int) = h := by omega
  have hlt : h.toNat < halfedgesIn.length := by omega
  have hr : halfedgesIn[h.toNat]? = some (halfedgesIn.getD h.toNat default) := by
    simp [List.getD_eq_getElem?_getD, List.getElem?_eq_getElem hlt]
  obtain ⟨n0, n1⟩ := hv.next_range h h0 (by rw [hPH]; exact h1)
  rw [hPH] at n1
  have n0' : 0 ≤ ccm_HalfedgeNextID_Quad h := n0
  have n1' : ccm_HalfedgeNextID_Quad h < (halfedgesIn.length : Int) := by
    rw [hH]
    exact n1
  have := hnl h.toNat (by omega) _ hr
    (halfedgesIn.getD (ccm_HalfedgeNextID_Quad h).toNat default)
    (by rw [hc, Option.mem_def]; exact readAt_getD _ _ n0' n1')
  exact this e

/-- The sharpness of a readable halfedge of a level. -/
theorem level_sharpness_eq (u : cc_Subd) (depth : Nat) (l : List cc_Halfedge_SemiRegular)
    (hl : ccs__Level u.halfedges depth = some l) (p : Int) (p0 : 0 ≤ p)
    (p1 : p < (l.length : Int)) (hr : ccs_HalfedgeCreaseReadable u depth p) :
    ccs_HalfedgeSharpness u p depth
      = some ((ccs_CreaseSharpness u ((levelParent u.cage depth l).edge p) depth).getD 0) := by
  obtain ⟨x, hx⟩ := Option.isSome_iff_exists.mp hr.2
  have hx' := hx
  unfold ccs_HalfedgeSharpness at hx'
  rw [level_edge_eq u depth l hl p p0 p1, Option.some_bind] at hx'
  rw [hx, hx', Option.getD_some]

/-- The reads of a readable halfedge of a level in a walk around a vertex. -/
theorem level_newPoints_eq (u : cc_Subd) (depth : Nat) (l : List cc_Halfedge_SemiRegular)
    (hl : ccs__Level u.halfedges depth = some l) (points : List cc_VertexPoint)
    (hlen : ccm_VertexCountAtDepth_Fast u.cage depth + ccm_FaceCountAtDepth_Fast u.cage depth
      + ccm_EdgeCountAtDepth_Fast u.cage depth ≤ points.length)
    (p : Int) (p0 : 0 ≤ p) (p1 : p < (l.length : Int))
    (hr : ccs_HalfedgeCreaseReadable u depth p) :
    ∃ E Fp : cc_VertexPoint,
      ccs_HalfedgeNewPoints u depth (ccm_VertexCountAtDepth_Fast u.cage depth)
          (ccm_FaceCountAtDepth_Fast u.cage depth) points p
        = some (E, Fp,
            (ccs_CreaseSharpness u ((levelParent u.cage depth l).edge p) depth).getD 0) ∧
      readAt points ((ccm_VertexCountAtDepth_Fast u.cage depth : Int)
        + (ccm_FaceCountAtDepth_Fast u.cage depth : Int)
        + (levelParent u.cage depth l).edge p) = some E := by
  obtain ⟨⟨e, e1, e2, e3⟩, ⟨f2, f3⟩⟩ := hr.1
  rw [Option.mem_def, level_edge_eq u depth l hl p p0 p1] at e1
  have := Option.some.inj e1
  subst this
  obtain ⟨E, hE⟩ := Option.isSome_iff_exists.mp (readAt_isSome points
    ((ccm_VertexCountAtDepth_Fast u.cage depth : Int)
      + (ccm_FaceCountAtDepth_Fast u.cage depth : Int) + (levelParent u.cage depth l).edge p)
    (by omega) (by omega))
  obtain ⟨Fp, hF⟩ := Option.isSome_iff_exists.mp (readAt_isSome points
    ((ccm_VertexCountAtDepth_Fast u.cage depth : Int) + ccs_HalfedgeFaceID u p depth)
    (by omega) (by omega))
  refine ⟨E, Fp, ?_, hE⟩
  unfold ccs_HalfedgeNewPoints
  simp only [level_edge_eq u depth l hl p p0 p1, hE, hF, level_sharpness_eq u depth l hl p p0 p1 hr,
    Option.bind_eq_bind, Option.some_bind]

/-- The reads of the predecessor and of the successor of a halfedge of a sound
level in a walk around a vertex. -/
theorem level_walk_reads (u : cc_Subd) (depth : Nat) (hs : ccs_LevelSound u depth)
    (l : List cc_Halfedge_SemiRegular) (hl : ccs__Level u.halfedges depth = some l) (x : Int)
    (x0 : 0 ≤ x) (x1 : x < (ccm_HalfedgeCountAtDepth u.cage depth : Int)) :
    (ccs_HalfedgeSharpness u (ccs_HalfedgePrevID u x depth) depth
        = some ((ccs_CreaseSharpness u ((levelParent u.cage depth l).edge
            ((levelParent u.cage depth l).prev x)) depth).getD 0) ∧
      ccs_HalfedgeTwinID u (ccs_HalfedgePrevID u x depth) depth
        = some ((levelParent u.cage depth l).twin ((levelParent u.cage depth l).prev x))) ∧
    (ccs_HalfedgeSharpness u (ccs_HalfedgeNextID u x depth) depth
        = some ((ccs_CreaseSharpness u ((levelParent u.cage depth l).edge
            ((levelParent u.cage depth l).next x)) depth).getD 0) ∧
      ccs_HalfedgeTwinID u (ccs_HalfedgeNextID u x depth) depth
        = some ((levelParent u.cage depth l).twin ((levelParent u.cage depth l).next x))) := by
  obtain ⟨hd, l', hl', hlen, hP, hr⟩ := hs.reads
  rw [hl] at hl'
  have := Option.some.inj hl'
  subst this
  have hPH : ((levelParent u.cage depth l).H : Int)
      = (ccm_HalfedgeCountAtDepth u.cage depth : Int) := rfl
  obtain ⟨a, b⟩ := hP.prev_range x x0 x1
  obtain ⟨c, d⟩ := hP.next_range x x0 x1
  rw [hPH] at b d
  have b' : (levelParent u.cage depth l).prev x < (l.length : Int) := by rw [hlen]; exact b
  have d' : (levelParent u.cage depth l).next x < (l.length : Int) := by rw [hlen]; exact d
  exact ⟨⟨level_sharpness_eq u depth l hl _ a b' (hr _ a b).1, level_twin_eq u depth l hl _ a b'⟩,
    ⟨level_sharpness_eq u depth l hl _ c d' (hr _ c d).1, level_twin_eq u depth l hl _ c d'⟩⟩

/-- The new points of the predecessor and of the successor of a halfedge of a
sound level in a walk around a vertex. -/
theorem level_walk_newPoints (u : cc_Subd) (depth : Nat) (hs : ccs_LevelSound u depth)
    (l : List cc_Halfedge_SemiRegular) (hl : ccs__Level u.halfedges depth = some l)
    (points : List cc_VertexPoint)
    (hlen : ccm_VertexCountAtDepth_Fast u.cage depth + ccm_FaceCountAtDepth_Fast u.cage depth
      + ccm_EdgeCountAtDepth_Fast u.cage depth ≤ points.length) (x : Int)
    (x0 : 0 ≤ x) (x1 : x < (ccm_HalfedgeCountAtDepth u.cage depth : Int)) :
    (∃ E Fp : cc_VertexPoint,
      ccs_HalfedgeNewPoints u depth (ccm_VertexCountAtDepth_Fast u.cage depth)
          (ccm_FaceCountAtDepth_Fast u.cage depth) points (ccs_HalfedgePrevID u x depth)
        = some (E, Fp, (ccs_CreaseSharpness u ((levelParent u.cage depth l).edge
            ((levelParent u.cage depth l).prev x)) depth).getD 0) ∧
      ccs_HalfedgeNewPoints u depth (ccm_VertexCountAtDepth_Fast u.cage depth)
          (ccm_FaceCountAtDepth_Fast u.cage depth) points ((levelParent u.cage depth l).prev x)
        = some (E, Fp, (ccs_CreaseSharpness u ((levelParent u.cage depth l).edge
            ((levelParent u.cage depth l).prev x)) depth).getD 0)) ∧
    (∃ E Fp : cc_VertexPoint,
      ccs_HalfedgeNewPoints u depth (ccm_VertexCountAtDepth_Fast u.cage depth)
          (ccm_FaceCountAtDepth_Fast u.cage depth) points (ccs_HalfedgeNextID u x depth)
        = some (E, Fp, (ccs_CreaseSharpness u ((levelParent u.cage depth l).edge
            ((levelParent u.cage depth l).next x)) depth).getD 0) ∧
      ccs_HalfedgeNewPoints u depth (ccm_VertexCountAtDepth_Fast u.cage depth)
          (ccm_FaceCountAtDepth_Fast u.cage depth) points ((levelParent u.cage depth l).next x)
        = some (E, Fp, (ccs_CreaseSharpness u ((levelParent u.cage depth l).edge
            ((levelParent u.cage depth l).next x)) depth).getD 0)) := by
  obtain ⟨hd, l', hl', hlenl, hP, hr⟩ := hs.reads
  rw [hl] at hl'
  have := Option.some.inj hl'
  subst this
  have hPH : ((levelParent u.cage depth l).H : Int)
      = (ccm_HalfedgeCountAtDepth u.cage depth : Int) := rfl
  obtain ⟨a, b⟩ := hP.prev_range x x0 x1
  obtain ⟨c, d⟩ := hP.next_range x x0 x1
  rw [hPH] at b d
  have b' : (levelParent u.cage depth l).prev x < (l.length : Int) := by rw [hlenl]; exact b
  have d' : (levelParent u.cage depth l).next x < (l.length : Int) := by rw [hlenl]; exact d
  obtain ⟨E1, F1, n1, _⟩ := level_newPoints_eq u depth l hl points hlen _ a b' (hr _ a b).1
  obtain ⟨E2, F2, n2, _⟩ := level_newPoints_eq u depth l hl points hlen _ c d' (hr _ c d).1
  exact ⟨⟨E1, F1, n1, n1⟩, ⟨E2, F2, n2, n2⟩⟩

/-- The valence and the crease count of `ccs__CreasedVertexPoints_Scatter` at a
halfedge of a sound level are those of the two walks around its vertex. -/
theorem level_scatter_counts (u : cc_Subd) (depth : Nat) (hs : ccs_LevelSound u depth)
    (l : List cc_Halfedge_SemiRegular) (hl : ccs__Level u.halfedges depth = some l)
    (fuel : Nat) (g : Int) (g0 : 0 ≤ g) (g1 : g < (ccm_HalfedgeCountAtDepth u.cage depth : Int))
    (c : ℚ × ℚ)
    (hc : (levelParent u.cage depth l).fanCounts (ccs_CreaseWeight u depth) fuel g = some c) :
    ccs__CreasedVertexPoints_Scatter_counts u depth fuel g = some c := by
  obtain ⟨hd, l', hl', hlen, hP, hr⟩ := hs.reads
  rw [hl] at hl'
  have := Option.some.inj hl'
  subst this
  have hPH : ((levelParent u.cage depth l).H : Int)
      = (ccm_HalfedgeCountAtDepth u.cage depth : Int) := rfl
  have hin : ∀ x : Int, x < (ccm_HalfedgeCountAtDepth u.cage depth : Int) →
      x < (l.length : Int) := by
    intro x hx
    rw [hlen]
    exact hx
  obtain ⟨p0, p1⟩ := hP.prev_range g g0 g1
  rw [hPH] at p1
  unfold Parent.fanCounts at hc
  obtain ⟨r, hw, hq⟩ := Option.map_eq_some'.mp hc
  obtain ⟨F, last, B⟩ := r
  subst hq
  obtain ⟨l1, l2⟩ := (levelParent u.cage depth l).fan_forLoops
    (ccs__CreasedVertexPoints_Scatter_forward u depth)
    (ccs__CreasedVertexPoints_Scatter_backward u depth)
    (fun x s => s.accumulate ((ccs_CreaseSharpness u ((levelParent u.cage depth l).edge
      ((levelParent u.cage depth l).prev x)) depth).getD 0))
    (fun x s => s.accumulate ((ccs_CreaseSharpness u ((levelParent u.cage depth l).edge
      ((levelParent u.cage depth l).next x)) depth).getD 0))
    (by
      intro x x0 x1 s
      obtain ⟨⟨e1, e2⟩, _⟩ := level_walk_reads u depth hs l hl x x0 x1
      unfold ccs__CreasedVertexPoints_Scatter_forward
      simp only [e1, e2, Option.bind_eq_bind, Option.some_bind])
    (by
      intro x x0 x1 s
      obtain ⟨_, ⟨e1, e2⟩⟩ := level_walk_reads u depth hs l hl x x0 x1
      unfold ccs__CreasedVertexPoints_Scatter_backward
      simp only [e1, e2, Option.bind_eq_bind, Option.some_bind])
    fuel g F B last hw
    (cc_VertexCounts.first ((ccs_CreaseSharpness u ((levelParent u.cage depth l).edge
      ((levelParent u.cage depth l).prev g)) depth).getD 0))
  obtain ⟨lastB, l2⟩ := l2 (F.foldl (fun s x => s.accumulate
    ((ccs_CreaseSharpness u ((levelParent u.cage depth l).edge
      ((levelParent u.cage depth l).prev x)) depth).getD 0))
    (cc_VertexCounts.first ((ccs_CreaseSharpness u ((levelParent u.cage depth l).edge
      ((levelParent u.cage depth l).prev g)) depth).getD 0)))
  obtain ⟨⟨e1, e2⟩, _⟩ := level_walk_reads u depth hs l hl g g0 g1
  unfold ccs__CreasedVertexPoints_Scatter_counts ccs__CreasedVertexPoints_Scatter_locals
    ccs__CreasedVertexPoints_Scatter_walks
  simp only [level_sharpness_eq u depth l hl g g0 (hin _ g1) (hr g g0 g1).1, e1, e2,
    level_twin_eq u depth l hl g g0 (hin _ g1), Option.bind_eq_bind, Option.some_bind]
  simp only [l1, Option.some_bind, l2, Option.map_some', Option.some.injEq]
  simp only [foldl_counts, cc_VertexCounts.first, cc_VertexCounts.points, ccs_CreaseWeight]
  by_cases hl0 : last < 0
  · simp only [if_pos hl0, Prod.mk.injEq]
  · simp only [if_neg hl0, Prod.mk.injEq]
    constructor <;> ring

/-- The valence and the crease count of `ccs__CreasedVertexPoints_Gather` for a
vertex of a sound level are those of the two walks around the vertex from the
halfedge `ccs_VertexPointToHalfedgeID` gives. -/
theorem level_gather_counts (u : cc_Subd) (e2h : Int → Nat → Int) (v2h : Int → Int)
    (depth : Nat) (hs : ccs_LevelSound u depth) (l : List cc_Halfedge_SemiRegular)
    (hl : ccs__Level u.halfedges depth = some l) (points : List cc_VertexPoint)
    (hlen : ccm_VertexCountAtDepth_Fast u.cage depth + ccm_FaceCountAtDepth_Fast u.cage depth
      + ccm_EdgeCountAtDepth_Fast u.cage depth ≤ points.length)
    (fuel : Nat) (v : Nat) (hlt : v < ccm_VertexCountAtDepth_Fast u.cage depth) (h : Int)
    (hh : ccs_VertexPointToHalfedgeID u.cage e2h v2h v depth fuel = some h) (h0 : 0 ≤ h)
    (h1 : h < (ccm_HalfedgeCountAtDepth u.cage depth : Int)) (c : ℚ × ℚ)
    (hc : (levelParent u.cage depth l).fanCounts (ccs_CreaseWeight u depth) fuel h = some c) :
    ccs__CreasedVertexPoints_Gather_counts u e2h v2h depth
      (ccm_VertexCountAtDepth_Fast u.cage depth) (ccm_FaceCountAtDepth_Fast u.cage depth)
      points fuel v = some c := by
  obtain ⟨hd, l', hl', hlenl, hP, hr⟩ := hs.reads
  rw [hl] at hl'
  have := Option.some.inj hl'
  subst this
  obtain ⟨pts, hpts, hpl⟩ := hs.points
  have hPH : ((levelParent u.cage depth l).H : Int)
      = (ccm_HalfedgeCountAtDepth u.cage depth : Int) := rfl
  have hin : ∀ x : Int, x < (ccm_HalfedgeCountAtDepth u.cage depth : Int) →
      x < (l.length : Int) := by
    intro x hx
    rw [hlenl]
    exact hx
  obtain ⟨p0, p1⟩ := hP.prev_range h h0 h1
  rw [hPH] at p1
  unfold Parent.fanCounts at hc
  obtain ⟨r, hw, hq⟩ := Option.map_eq_some'.mp hc
  obtain ⟨F, last, B⟩ := r
  subst hq
  obtain ⟨hF, lastB', hB⟩ := (levelParent u.cage depth l).walks_of_fanWalks fuel h F B last hw
  obtain ⟨Eh, _, _, hEh⟩ := level_newPoints_eq u depth l hl points hlen h h0 (hin _ h1)
    (hr h h0 h1).1
  obtain ⟨⟨Ep, Fp, hNp', _⟩, _⟩ := level_walk_newPoints u depth hs l hl points hlen h h0 h1
  obtain ⟨Vp, hVp⟩ := Option.isSome_iff_exists.mp
    (readAt_isSome pts (v : Int) (by omega) (by omega))
  have hVp' : ccs_VertexPoint u (v : Int) depth = some Vp := by
    unfold ccs_VertexPoint
    rw [hpts]
    exact hVp
  obtain ⟨l1, l2⟩ := (levelParent u.cage depth l).fan_forLoops
    (ccs__CreasedVertexPoints_Gather_forward u depth (ccm_VertexCountAtDepth_Fast u.cage depth)
      (ccm_FaceCountAtDepth_Fast u.cage depth) points)
    (ccs__CreasedVertexPoints_Gather_backward u depth (ccm_VertexCountAtDepth_Fast u.cage depth)
      (ccm_FaceCountAtDepth_Fast u.cage depth) points)
    (fun x s => s.accumulate
      ((ccs_HalfedgeNewPoints u depth (ccm_VertexCountAtDepth_Fast u.cage depth)
        (ccm_FaceCountAtDepth_Fast u.cage depth) points
        ((levelParent u.cage depth l).prev x)).getD default).1
      ((ccs_HalfedgeNewPoints u depth (ccm_VertexCountAtDepth_Fast u.cage depth)
        (ccm_FaceCountAtDepth_Fast u.cage depth) points
        ((levelParent u.cage depth l).prev x)).getD default).2.1
      ((ccs_HalfedgeNewPoints u depth (ccm_VertexCountAtDepth_Fast u.cage depth)
        (ccm_FaceCountAtDepth_Fast u.cage depth) points
        ((levelParent u.cage depth l).prev x)).getD default).2.2)
    (fun x s => s.accumulate
      ((ccs_HalfedgeNewPoints u depth (ccm_VertexCountAtDepth_Fast u.cage depth)
        (ccm_FaceCountAtDepth_Fast u.cage depth) points
        ((levelParent u.cage depth l).next x)).getD default).1
      ((ccs_HalfedgeNewPoints u depth (ccm_VertexCountAtDepth_Fast u.cage depth)
        (ccm_FaceCountAtDepth_Fast u.cage depth) points
        ((levelParent u.cage depth l).next x)).getD default).2.1
      ((ccs_HalfedgeNewPoints u depth (ccm_VertexCountAtDepth_Fast u.cage depth)
        (ccm_FaceCountAtDepth_Fast u.cage depth) points
        ((levelParent u.cage depth l).next x)).getD default).2.2)
    (by
      intro x x0 x1 s
      obtain ⟨⟨_, e2⟩, _⟩ := level_walk_reads u depth hs l hl x x0 x1
      obtain ⟨⟨E, Fx, e1, hN⟩, _⟩ := level_walk_newPoints u depth hs l hl points hlen x x0 x1
      unfold ccs__CreasedVertexPoints_Gather_forward
      simp only [e1, e2, hN, Option.bind_eq_bind, Option.some_bind, Option.getD_some])
    (by
      intro x x0 x1 s
      obtain ⟨_, ⟨_, e2⟩⟩ := level_walk_reads u depth hs l hl x x0 x1
      obtain ⟨_, ⟨E, Fx, e1, hN⟩⟩ := level_walk_newPoints u depth hs l hl points hlen x x0 x1
      unfold ccs__CreasedVertexPoints_Gather_backward
      simp only [e1, e2, hN, Option.bind_eq_bind, Option.some_bind, Option.getD_some])
    fuel h F B last hw (cc_VertexLocals.first Ep Fp
      ((ccs_CreaseSharpness u ((levelParent u.cage depth l).edge
        ((levelParent u.cage depth l).prev h)) depth).getD 0))
  obtain ⟨lastB, l2⟩ := l2 (F.foldl (fun s x => s.accumulate
      ((ccs_HalfedgeNewPoints u depth (ccm_VertexCountAtDepth_Fast u.cage depth)
        (ccm_FaceCountAtDepth_Fast u.cage depth) points
        ((levelParent u.cage depth l).prev x)).getD default).1
      ((ccs_HalfedgeNewPoints u depth (ccm_VertexCountAtDepth_Fast u.cage depth)
        (ccm_FaceCountAtDepth_Fast u.cage depth) points
        ((levelParent u.cage depth l).prev x)).getD default).2.1
      ((ccs_HalfedgeNewPoints u depth (ccm_VertexCountAtDepth_Fast u.cage depth)
        (ccm_FaceCountAtDepth_Fast u.cage depth) points
        ((levelParent u.cage depth l).prev x)).getD default).2.2)
    (cc_VertexLocals.first Ep Fp
      ((ccs_CreaseSharpness u ((levelParent u.cage depth l).edge
        ((levelParent u.cage depth l).prev h)) depth).getD 0)))
  obtain ⟨k1, k2⟩ := foldl_locals_counts
    (fun x => (ccs_HalfedgeNewPoints u depth (ccm_VertexCountAtDepth_Fast u.cage depth)
      (ccm_FaceCountAtDepth_Fast u.cage depth) points
      ((levelParent u.cage depth l).prev x)).getD default) F
    (cc_VertexLocals.first Ep Fp
      ((ccs_CreaseSharpness u ((levelParent u.cage depth l).edge
        ((levelParent u.cage depth l).prev h)) depth).getD 0))
  obtain ⟨j1, j2⟩ := foldl_locals_counts
    (fun x => (ccs_HalfedgeNewPoints u depth (ccm_VertexCountAtDepth_Fast u.cage depth)
      (ccm_FaceCountAtDepth_Fast u.cage depth) points
      ((levelParent u.cage depth l).next x)).getD default) B
    (F.foldl (fun s x => s.accumulate
      ((ccs_HalfedgeNewPoints u depth (ccm_VertexCountAtDepth_Fast u.cage depth)
        (ccm_FaceCountAtDepth_Fast u.cage depth) points
        ((levelParent u.cage depth l).prev x)).getD default).1
      ((ccs_HalfedgeNewPoints u depth (ccm_VertexCountAtDepth_Fast u.cage depth)
        (ccm_FaceCountAtDepth_Fast u.cage depth) points
        ((levelParent u.cage depth l).prev x)).getD default).2.1
      ((ccs_HalfedgeNewPoints u depth (ccm_VertexCountAtDepth_Fast u.cage depth)
        (ccm_FaceCountAtDepth_Fast u.cage depth) points
        ((levelParent u.cage depth l).prev x)).getD default).2.2)
    (cc_VertexLocals.first Ep Fp
      ((ccs_CreaseSharpness u ((levelParent u.cage depth l).edge
        ((levelParent u.cage depth l).prev h)) depth).getD 0)))
  have hmapF : F.map (fun x => cc__Signf
        ((ccs_HalfedgeNewPoints u depth (ccm_VertexCountAtDepth_Fast u.cage depth)
          (ccm_FaceCountAtDepth_Fast u.cage depth) points
          ((levelParent u.cage depth l).prev x)).getD default).2.2)
      = F.map (fun x => ccs_CreaseWeight u depth
          ((levelParent u.cage depth l).edge ((levelParent u.cage depth l).prev x))) := by
    apply List.map_congr_left
    intro x hx
    obtain ⟨_, nxt, hsx⟩ := (ringWalk_mem _ _ fuel _ F last hF).1 x hx
    obtain ⟨x0, x1, _⟩ := (levelParent u.cage depth l).forward_of_some x nxt hsx
    obtain ⟨a, b⟩ := hP.prev_range x x0 x1
    rw [hPH] at b
    obtain ⟨E, Fx, hN, _⟩ := level_newPoints_eq u depth l hl points hlen _ a (hin _ b)
      (hr _ a b).1
    rw [hN, Option.getD_some]
    rfl
  have hmapB : B.map (fun x => cc__Signf
        ((ccs_HalfedgeNewPoints u depth (ccm_VertexCountAtDepth_Fast u.cage depth)
          (ccm_FaceCountAtDepth_Fast u.cage depth) points
          ((levelParent u.cage depth l).next x)).getD default).2.2)
      = B.map (fun x => ccs_CreaseWeight u depth
          ((levelParent u.cage depth l).edge ((levelParent u.cage depth l).next x))) := by
    apply List.map_congr_left
    intro x hx
    obtain ⟨_, nxt, hsx⟩ := (ringWalk_mem _ _ fuel _ B lastB' hB).1 x hx
    obtain ⟨x0, x1, _⟩ := (levelParent u.cage depth l).backward_of_some x nxt hsx
    obtain ⟨a, b⟩ := hP.next_range x x0 x1
    rw [hPH] at b
    obtain ⟨E, Fx, hN, _⟩ := level_newPoints_eq u depth l hl points hlen _ a (hin _ b)
      (hr _ a b).1
    rw [hN, Option.getD_some]
    rfl
  obtain ⟨⟨_, e2⟩, _⟩ := level_walk_reads u depth hs l hl h h0 h1
  unfold ccs__CreasedVertexPoints_Gather_counts ccs__CreasedVertexPoints_Gather_locals
  simp only [hh, level_edge_eq u depth l hl h h0 (hin _ h1),
    level_sharpness_eq u depth l hl h h0 (hin _ h1) (hr h h0 h1).1, hEh, hNp', hVp', e2,
    level_twin_eq u depth l hl h h0 (hin _ h1), Option.bind_eq_bind, Option.some_bind]
  simp only [l1, Option.some_bind, l2, Option.map_some', Option.some.injEq]
  unfold cc_VertexLocals.boundaryCorrections
  by_cases hl0 : last < 0
  · simp only [if_pos hl0, Prod.mk.injEq, j1, j2, k1, k2, hmapF, hmapB]
    simp only [cc_VertexLocals.first, ccs_CreaseWeight, and_self]
  · simp only [if_neg hl0, Prod.mk.injEq, j1, j2, k1, k2, hmapF, hmapB]
    simp only [cc_VertexLocals.first, ccs_CreaseWeight]
    constructor <;> ring

/-- A halfedge of a level from which `ccs_PrevVertexHalfedgeID` rotates is a
halfedge of the level. -/
theorem level_forward_range_of_some (u : cc_Subd) (depth : Nat) (hd : 1 ≤ depth)
    (l : List cc_Halfedge_SemiRegular) (hl : ccs__Level u.halfedges depth = some l)
    (hlen : l.length = ccm_HalfedgeCountAtDepth u.cage depth) (x y : Int)
    (h : ccs_PrevVertexHalfedgeID u x depth = some y) :
    0 ≤ x ∧ x < (ccm_HalfedgeCountAtDepth u.cage depth : Int) := by
  obtain ⟨k, hk⟩ := ccm_HalfedgeCountAtDepth_dvd u.cage depth hd
  unfold ccs_PrevVertexHalfedgeID ccs_HalfedgeTwinID at h
  rw [hl] at h
  simp only [Option.bind_eq_bind, Option.some_bind] at h
  obtain ⟨a, b⟩ := readAt_map_some_range _ _ _ _ h
  rw [hlen] at b
  unfold ccs_HalfedgePrevID ccm_HalfedgePrevID_Quad at a b
  omega

/-- On a sound, oriented level without loops whose vertices have one fan each,
the scatter kernel at a halfedge and the gather kernel for its vertex compute
the same valence and the same crease count, and both return them. -/
theorem level_creased_counts (u : cc_Subd) (e2h : Int → Nat → Int) (v2h : Int → Int)
    (depth : Nat) (points : List cc_VertexPoint) (fuel : Nat) (hs : ccs_LevelSound u depth)
    (l : List cc_Halfedge_SemiRegular) (hl : ccs__Level u.halfedges depth = some l)
    (ho : ccs_Oriented l (ccm_HalfedgeCountAtDepth u.cage depth))
    (hnl : ccs_NoLoops l (ccm_HalfedgeCountAtDepth u.cage depth))
    (hfan : ccs_VertexFans u depth) (hf : ccm_HalfedgeCountAtDepth u.cage depth ≤ fuel)
    (hlen : ccm_VertexCountAtDepth_Fast u.cage depth + ccm_FaceCountAtDepth_Fast u.cage depth
      + ccm_EdgeCountAtDepth_Fast u.cage depth ≤ points.length)
    (v : Nat) (hlt : v < ccm_VertexCountAtDepth_Fast u.cage depth) (h : Nat)
    (hh : ccs_VertexPointToHalfedgeID u.cage e2h v2h v depth fuel = some (h : Int))
    (h1 : h < ccm_HalfedgeCountAtDepth u.cage depth)
    (hhv : ccs_HalfedgeVertexID u h depth = some (v : Int))
    (g : Nat) (hg : g < ccm_HalfedgeCountAtDepth u.cage depth)
    (hgv : ccs_HalfedgeVertexID u g depth = some (v : Int)) :
    ∃ c : ℚ × ℚ,
      ccs__CreasedVertexPoints_Scatter_counts u depth fuel g = some c ∧
      ccs__CreasedVertexPoints_Gather_counts u e2h v2h depth
        (ccm_VertexCountAtDepth_Fast u.cage depth) (ccm_FaceCountAtDepth_Fast u.cage depth)
        points fuel v = some c := by
  obtain ⟨hd, l', hl', hlenl, hP, hr⟩ := hs.reads
  rw [hl] at hl'
  have := Option.some.inj hl'
  subst this
  obtain ⟨l'', hl'', _, _, hirr, _, _⟩ := hs.halfedges
  rw [hl] at hl''
  have := Option.some.inj hl''
  subst this
  have hI := levelParent_irreflexive u.cage depth l hlenl hirr
  have hO := levelParent_oriented u.cage depth hd l hlenl ho
  have hN := levelParent_noLoops u.cage depth l hlenl hP hnl
  have hPH : (levelParent u.cage depth l).H = ccm_HalfedgeCountAtDepth u.cage depth := rfl
  have h0 : (0 : Int) ≤ (h : Int) := by omega
  have h1' : (h : Int) < (ccm_HalfedgeCountAtDepth u.cage depth : Int) := by omega
  have g0 : (0 : Int) ≤ (g : Int) := by omega
  have g1 : (g : Int) < (ccm_HalfedgeCountAtDepth u.cage depth : Int) := by omega
  obtain ⟨k, _, hk⟩ := hfan h h1 g hg (by rw [hhv, hgv])
  have hcongr : ∀ x y, (fun x => ccs_PrevVertexHalfedgeID u x depth) x = some y →
      (levelParent u.cage depth l).forward x = some y := by
    intro x y e
    obtain ⟨x0, x1⟩ := level_forward_range_of_some u depth hd l hl hlenl x y e
    have e' : ccs_PrevVertexHalfedgeID u x depth = some y := e
    rw [level_forward_eq u depth l hl hlenl hP x x0 x1] at e'
    rw [(levelParent u.cage depth l).forward_eq x x0 x1, e']
  have hlink := (levelParent u.cage depth l).fanCounts_linked hP hI hO hN
    (ccs_CreaseWeight u depth) fuel (by rw [hPH]; exact hf) k (h : Int) (g : Int) h0 g0
    (hk.imp (stepIterate_congr _ _ hcongr k _ _) (stepIterate_congr _ _ hcongr k _ _))
  obtain ⟨r, hr'⟩ := (levelParent u.cage depth l).fanWalks_total hP fuel (by rw [hPH]; exact hf)
    (h : Int) h0 h1'
  have hsome : ∃ c, (levelParent u.cage depth l).fanCounts (ccs_CreaseWeight u depth) fuel
      (h : Int) = some c := by
    unfold Parent.fanCounts
    rw [hr']
    exact ⟨_, rfl⟩
  obtain ⟨c, hc⟩ := hsome
  exact ⟨c, level_scatter_counts u depth hs l hl fuel g g0 g1 c (by rw [hlink]; exact hc),
    level_gather_counts u e2h v2h depth hs l hl points hlen fuel v hlt (h : Int) hh h0 h1' c hc⟩

/-! ### C35: the scatter kernels against the gather kernels -/

/-- The two glued triangles `sharpTriangles` with another table
`vertexToHalfedgeIDs`: the halfedge of the vertex 0, which is on the boundary,
is the halfedge 0, which has a twin, and not the halfedge 4 without a twin. -/
def innerTriangles : cc_Mesh :=
  { sharpTriangles with vertexToHalfedgeIDs := [0, 1, 2, 5] }

/-- C35 (as amended): the valence and the crease count of the creased vertex
point kernels, after their boundary corrections, are the same in the scatter
kernel at a halfedge `g` and in the gather kernel for the vertex `v` of `g`, and
both kernels return them.  Cage pair: on a valid manifold cage without loop
edges whose table `vertexToHalfedgeIDs` gives a halfedge without a twin for
every vertex that has one (`ccm_BoundaryFirst`: on an open ring the gather
kernel, which has the first loop only, starts from the first halfedge of the
fan), with `H0` iterations for the loops.  Interior pair: on a sound, oriented
level without loop edges whose vertices have one fan each, from any halfedge `h`
of `v` that `ccs_VertexPointToHalfedgeID` gives; no condition on `h`, the gather
kernel has the two loops there.  Closed and open rings are covered. -/
theorem C35_scatter_gather_counts :
    (∀ (cage : cc_Mesh) (points : List cc_VertexPoint) (fuel : Nat),
      ccm_Valid cage → ccm_Manifold cage → ccm_NoLoops cage → ccm_BoundaryFirst cage →
      ccm_HalfedgeCount cage ≤ fuel →
      ccm_VertexCount cage + ccm_FaceCount cage + ccm_EdgeCount cage ≤ points.length →
      ∀ v : Nat, v < ccm_VertexCount cage → ∀ g : Nat, g < ccm_HalfedgeCount cage →
        ccm_HalfedgeVertexID cage g = some (v : Int) →
        ∃ c : ℚ × ℚ,
          ccs__CreasedCageVertexPoints_Scatter_counts cage fuel g = some c ∧
          ccs__CreasedCageVertexPoints_Gather_counts cage (ccm_VertexCount cage)
            (ccm_FaceCount cage) points fuel v = some c) ∧
    (∀ (subd : cc_Subd) (edgeToHalfedgeID : Int → Nat → Int)
      (vertexToHalfedgeID_First : Int → Int) (depth : Nat) (points : List cc_VertexPoint)
      (fuel : Nat) (halfedgesIn : List cc_Halfedge_SemiRegular),
      ccs_LevelSound subd depth → ccs__Level subd.halfedges depth = some halfedgesIn →
      ccs_Oriented halfedgesIn (ccm_HalfedgeCountAtDepth subd.cage depth) →
      ccs_NoLoops halfedgesIn (ccm_HalfedgeCountAtDepth subd.cage depth) →
      ccs_VertexFans subd depth → ccm_HalfedgeCountAtDepth subd.cage depth ≤ fuel →
      ccm_VertexCountAtDepth_Fast subd.cage depth + ccm_FaceCountAtDepth_Fast subd.cage depth
        + ccm_EdgeCountAtDepth_Fast subd.cage depth ≤ points.length →
      ∀ v : Nat, v < ccm_VertexCountAtDepth_Fast subd.cage depth →
      ∀ h : Nat, h < ccm_HalfedgeCountAtDepth subd.cage depth →
        ccs_VertexPointToHalfedgeID subd.cage edgeToHalfedgeID vertexToHalfedgeID_First v depth
          fuel = some (h : Int) →
        ccs_HalfedgeVertexID subd h depth = some (v : Int) →
      ∀ g : Nat, g < ccm_HalfedgeCountAtDepth subd.cage depth →
        ccs_HalfedgeVertexID subd g depth = some (v : Int) →
        ∃ c : ℚ × ℚ,
          ccs__CreasedVertexPoints_Scatter_counts subd depth fuel g = some c ∧
          ccs__CreasedVertexPoints_Gather_counts subd edgeToHalfedgeID vertexToHalfedgeID_First
            depth (ccm_VertexCountAtDepth_Fast subd.cage depth)
            (ccm_FaceCountAtDepth_Fast subd.cage depth) points fuel v = some c) := by
  constructor
  · intro cage points fuel hv hm hnl hbf hf hlen v hlt g hg hgv
    exact cage_creased_counts cage points fuel hv hm hnl hbf hf hlen v hlt g hg hgv
  · intro subd e2h v2h depth points fuel l hs hl ho hnl hfan hf hlen v hlt h h1 hh hhv g hg hgv
    exact level_creased_counts subd e2h v2h depth points fuel hs l hl ho hnl hfan hf hlen v hlt
      h hh h1 hhv g hg hgv

/-- C35, witness: the vertex 0 of `sharpTriangles` (cage pair, open ring: the
halfedges 4, without a twin, and 0) at its halfedge 0, and the vertex 5 of
level 1 of `quadBoundarySubd` (interior pair, open ring: the halfedges 1 and 7)
at its halfedge 7. -/
theorem C35_scatter_gather_counts_witness :
    (ccm_Valid sharpTriangles ∧ ccm_Manifold sharpTriangles ∧ ccm_BoundaryFirst sharpTriangles ∧
      ccm_HalfedgeTwinID sharpTriangles 0 = some 3 ∧
      ∃ c : ℚ × ℚ,
        ccs__CreasedCageVertexPoints_Scatter_counts sharpTriangles 6 (0 : Nat) = some c ∧
        ccs__CreasedCageVertexPoints_Gather_counts sharpTriangles
          (ccm_VertexCount sharpTriangles) (ccm_FaceCount sharpTriangles) sharpTrianglesPoints
          6 (0 : Nat) = some c) ∧
    (ccs_VertexFans quadBoundarySubd 1 ∧
      ccs_HalfedgeTwinID quadBoundarySubd 7 1 = some (-4) ∧
      ∃ c : ℚ × ℚ,
        ccs__CreasedVertexPoints_Scatter_counts quadBoundarySubd 1 16 (7 : Nat) = some c ∧
        ccs__CreasedVertexPoints_Gather_counts quadBoundarySubd quadEdgeToHalfedgeID
          quadVertexToHalfedgeID_First 1 (ccm_VertexCountAtDepth_Fast quadBoundarySubd.cage 1)
          (ccm_FaceCountAtDepth_Fast quadBoundarySubd.cage 1)
          (quadBoundarySubd.vertexPoints.getD 1 []) 16 (5 : Nat) = some c) :=
  ⟨⟨by decide, by decide, by decide, by decide,
      C35_scatter_gather_counts.1 sharpTriangles sharpTrianglesPoints 6 (by decide) (by decide)
        (by decide) (by decide) (by decide) (by decide) 0 (by decide) 0 (by decide)
        (by decide)⟩,
    ⟨by decide, by decide,
      C35_scatter_gather_counts.2 quadBoundarySubd quadEdgeToHalfedgeID
        quadVertexToHalfedgeID_First 1 (quadBoundarySubd.vertexPoints.getD 1 []) 16 quadLevel1
        ⟨⟨quadLevel1, rfl, by decide⟩, ⟨_, rfl, by decide⟩, ⟨_, rfl, by decide⟩⟩ rfl
        (by decide) (by decide) (by decide) (by decide) (by decide) 5 (by decide) 1 (by decide)
        (by decide) (by decide) 7 (by decide) (by decide)⟩⟩

/-- C35, counterexample: the cage `innerTriangles` is valid, manifold and without
loop edges; its vertex 0 has the open ring of the halfedges 4 and 0 and three
edges, two of them sharp.  The scatter kernel computes the valence 3 and the
crease count 2 at the halfedges 0 and 4; the gather kernel starts from the
halfedge 0 of the table, whose predecessor has no twin, does not run its loop
and computes the valence 2 and the crease count 1. -/
theorem C35_counterexample :
    ccm_Valid innerTriangles ∧ ccm_Manifold innerTriangles ∧ ccm_NoLoops innerTriangles ∧
    ccm_HalfedgeVertexID innerTriangles 0 = some 0 ∧
    ccm_HalfedgeVertexID innerTriangles 4 = some 0 ∧
    ccm_VertexToHalfedgeID innerTriangles 0 = some 0 ∧
    ccs__CreasedCageVertexPoints_Scatter_counts innerTriangles 6 0 = some (3, 2) ∧
    ccs__CreasedCageVertexPoints_Scatter_counts innerTriangles 6 4 = some (3, 2) ∧
    ccs__CreasedCageVertexPoints_Gather_counts innerTriangles (ccm_VertexCount innerTriangles)
      (ccm_FaceCount innerTriangles) sharpTrianglesPoints 6 0 = some (2, 1) := by
  decide!

/-! ## The pass `ccs_RefineVertexUvs` inside of `ccs__RefineTopology`

The third pass of `ccs__RefineTopology` writes the fields `uvID` of the halfedge
records of the levels and nothing else: what the passes before it have
established about the fields `twinID`, `edgeID`, `vertexID`, about the creases
and about the vertex points holds after it. -/

/-- The subdivision `u` is the subdivision `t` up to the fields `uvID` of the
halfedge records of its levels. -/
def ccs_SameTopology (u t : cc_Subd) : Prop :=
  ccs_EraseUvs u = ccs_EraseUvs t ∧ u.cage = t.cage

theorem ccs_SameTopology.topology_refl (s : cc_Subd) : ccs_SameTopology s s := ⟨rfl, rfl⟩

theorem ccs_SameTopology.topology_trans {s t u : cc_Subd} (h1 : ccs_SameTopology s t)
    (h2 : ccs_SameTopology t u) : ccs_SameTopology s u :=
  ⟨h1.1.trans h2.1, h1.2.trans h2.2⟩

theorem ccs_SameTopology.maxDepth_eq {u t : cc_Subd} (h : ccs_SameTopology u t) :
    ccs_MaxDepth u = ccs_MaxDepth t :=
  show (ccs_EraseUvs u).maxDepth = (ccs_EraseUvs t).maxDepth from congrArg cc_Subd.maxDepth h.1

theorem ccs_SameTopology.creases_eq {u t : cc_Subd} (h : ccs_SameTopology u t) :
    u.creases = t.creases :=
  show (ccs_EraseUvs u).creases = (ccs_EraseUvs t).creases from congrArg cc_Subd.creases h.1

theorem ccs_SameTopology.vertexPoints_eq {u t : cc_Subd} (h : ccs_SameTopology u t) :
    u.vertexPoints = t.vertexPoints :=
  show (ccs_EraseUvs u).vertexPoints = (ccs_EraseUvs t).vertexPoints from
    congrArg cc_Subd.vertexPoints h.1

theorem ccs_SameTopology.halfedges_eq {u t : cc_Subd} (h : ccs_SameTopology u t) :
    u.halfedges.map (List.map cc_Halfedge_SemiRegular.eraseUv)
      = t.halfedges.map (List.map cc_Halfedge_SemiRegular.eraseUv) :=
  show (ccs_EraseUvs u).halfedges = (ccs_EraseUvs t).halfedges from
    congrArg cc_Subd.halfedges h.1

theorem ccs_SameTopology.twin_eq {u t : cc_Subd} (h : ccs_SameTopology u t) :
    ccs_HalfedgeTwinID u = ccs_HalfedgeTwinID t := by
  rw [← ccs_HalfedgeTwinID_eraseUvs u, ← ccs_HalfedgeTwinID_eraseUvs t, h.1]

theorem ccs_SameTopology.edge_eq {u t : cc_Subd} (h : ccs_SameTopology u t) :
    ccs_HalfedgeEdgeID u = ccs_HalfedgeEdgeID t := by
  rw [← ccs_HalfedgeEdgeID_eraseUvs u, ← ccs_HalfedgeEdgeID_eraseUvs t, h.1]

theorem ccs_SameTopology.vertex_eq {u t : cc_Subd} (h : ccs_SameTopology u t) :
    ccs_HalfedgeVertexID u = ccs_HalfedgeVertexID t := by
  rw [← ccs_HalfedgeVertexID_eraseUvs u, ← ccs_HalfedgeVertexID_eraseUvs t, h.1]

theorem ccs_SameTopology.sharpness_eq {u t : cc_Subd} (h : ccs_SameTopology u t) :
    ccs_CreaseSharpness u = ccs_CreaseSharpness t := by
  funext e d
  unfold ccs_CreaseSharpness
  rw [h.creases_eq]

theorem ccs_SameTopology.halfedgeSharpness_eq {u t : cc_Subd} (h : ccs_SameTopology u t) :
    ccs_HalfedgeSharpness u = ccs_HalfedgeSharpness t := by
  funext g d
  unfold ccs_HalfedgeSharpness
  rw [h.edge_eq, h.sharpness_eq]

/-- The region of a level of `u` is the region of `t` up to the fields `uvID`. -/
theorem ccs_SameTopology.topology_level {u t : cc_Subd} (h : ccs_SameTopology u t) (d : Nat)
    (l : List cc_Halfedge_SemiRegular) (hl : ccs__Level t.halfedges d = some l) :
    ∃ l', ccs__Level u.halfedges d = some l' ∧
      l'.map cc_Halfedge_SemiRegular.eraseUv = l.map cc_Halfedge_SemiRegular.eraseUv := by
  have e := congrArg (fun b => ccs__Level b d) h.halfedges_eq
  simp only [ccs__Level_map, hl, Option.map_some'] at e
  cases hu : ccs__Level u.halfedges d with
  | none => rw [hu] at e; cases e
  | some l' =>
    rw [hu, Option.map_some', Option.some.injEq] at e
    exact ⟨l', rfl, e⟩

theorem eraseUv_fields {r r' : cc_Halfedge_SemiRegular}
    (h : r.eraseUv = r'.eraseUv) :
    r.twinID = r'.twinID ∧ r.edgeID = r'.edgeID ∧ r.vertexID = r'.vertexID := by
  cases r
  cases r'
  simp only [cc_Halfedge_SemiRegular.eraseUv, cc_Halfedge_SemiRegular.mk.injEq] at h
  exact ⟨h.1, h.2.1, h.2.2.1⟩

theorem getElem?_of_map_eraseUv {l l' : List cc_Halfedge_SemiRegular}
    (h : l'.map cc_Halfedge_SemiRegular.eraseUv = l.map cc_Halfedge_SemiRegular.eraseUv)
    (c : Nat) (r' : cc_Halfedge_SemiRegular) (hr : l'[c]? = some r') :
    ∃ r, l[c]? = some r ∧ r.twinID = r'.twinID ∧ r.edgeID = r'.edgeID ∧
      r.vertexID = r'.vertexID := by
  have e := congrArg (fun x => x[c]?) h
  simp only [List.getElem?_map, hr, Option.map_some'] at e
  cases hl : l[c]? with
  | none => rw [hl] at e; cases e
  | some r =>
    rw [hl, Option.map_some', Option.some.injEq] at e
    exact ⟨r, rfl, eraseUv_fields e.symm⟩

theorem length_of_map_eraseUv {l l' : List cc_Halfedge_SemiRegular}
    (h : l'.map cc_Halfedge_SemiRegular.eraseUv = l.map cc_Halfedge_SemiRegular.eraseUv) :
    l'.length = l.length := by
  have := congrArg List.length h
  simpa using this

/-- A level is valid whatever the fields `uvID` of its records hold. -/
theorem ccs_ValidLevel_of_map (cage : cc_Mesh) (d : Nat) {l l' : List cc_Halfedge_SemiRegular}
    (h : l'.map cc_Halfedge_SemiRegular.eraseUv = l.map cc_Halfedge_SemiRegular.eraseUv)
    (hv : ccs_ValidLevel cage d l) : ccs_ValidLevel cage d l' := by
  obtain ⟨a, ⟨b0, b⟩, c, ⟨d1, d2⟩, ⟨e1, e2⟩⟩ := hv
  have hlen := length_of_map_eraseUv h
  refine ⟨by rw [hlen]; exact a, ⟨by rw [hlen]; exact b0, ?_⟩, ?_, ⟨?_, ?_⟩, ⟨?_, ?_⟩⟩
  · intro k hk r' hr' h0
    obtain ⟨r, r1, r2, r3, r4⟩ := getElem?_of_map_eraseUv h k r' (Option.mem_def.mp hr')
    obtain ⟨t1, rt, t2, t3, t4⟩ := b k hk r (Option.mem_def.mpr r1) (by rw [r2]; exact h0)
    rw [r2] at t1 t2
    refine ⟨t1, ?_⟩
    obtain ⟨q0, q1⟩ := (readAt_eq_some_iff _ _ _).mp (Option.mem_def.mp t2)
    obtain ⟨rt', s1, s2, s3, s4⟩ := getElem?_of_map_eraseUv h.symm _ rt q1
    refine ⟨rt', Option.mem_def.mpr ((readAt_eq_some_iff _ _ _).mpr ⟨q0, s1⟩), ?_, ?_⟩
    · rw [s2]; exact t3
    · rw [s3, t4, r3]
  · intro k hk r' hr'
    obtain ⟨r, r1, r2, r3, r4⟩ := getElem?_of_map_eraseUv h k r' (Option.mem_def.mp hr')
    rw [← r2]
    exact c k hk r (Option.mem_def.mpr r1)
  · intro k hk r' hr'
    obtain ⟨r, r1, r2, r3, r4⟩ := getElem?_of_map_eraseUv h k r' (Option.mem_def.mp hr')
    rw [← r4]
    exact d1 k hk r (Option.mem_def.mpr r1)
  · intro v hv
    obtain ⟨k, hk, r, hr, e⟩ := d2 v hv
    obtain ⟨r', s1, s2, s3, s4⟩ := getElem?_of_map_eraseUv h.symm k r (Option.mem_def.mp hr)
    exact ⟨k, hk, r', Option.mem_def.mpr s1, by rw [s4]; exact e⟩
  · intro k hk r' hr'
    obtain ⟨r, r1, r2, r3, r4⟩ := getElem?_of_map_eraseUv h k r' (Option.mem_def.mp hr')
    rw [← r3]
    exact e1 k hk r (Option.mem_def.mpr r1)
  · intro v hv
    obtain ⟨k, hk, r, hr, e⟩ := e2 v hv
    obtain ⟨r', s1, s2, s3, s4⟩ := getElem?_of_map_eraseUv h.symm k r (Option.mem_def.mp hr)
    exact ⟨k, hk, r', Option.mem_def.mpr s1, by rw [s3]; exact e⟩

theorem ccs_LevelSound.sameTopology_sound {u t : cc_Subd} (h : ccs_SameTopology u t) {d : Nat}
    (ht : ccs_LevelSound t d) : ccs_LevelSound u d := by
  obtain ⟨l, hl, hlv⟩ := ht.halfedges
  obtain ⟨cr, hcr, hcl⟩ := ht.creases
  obtain ⟨pts, hpts, hpl⟩ := ht.points
  obtain ⟨l', hl', e⟩ := h.topology_level d l hl
  refine ⟨⟨l', hl', ?_⟩, ⟨cr, ?_, ?_⟩, ⟨pts, ?_, ?_⟩⟩
  · rw [h.2]
    exact ccs_ValidLevel_of_map t.cage d e hlv
  · rw [h.creases_eq]; exact hcr
  · rw [h.2]; exact hcl
  · rw [h.vertexPoints_eq]; exact hpts
  · rw [h.2]; exact hpl

/-- A subdivision that is ready for the vertex point kernels is ready whatever
the fields `uvID` of its halfedge records hold. -/
theorem ccs_Ready.sameTopology_ready {u t : cc_Subd} (h : ccs_SameTopology u t)
    {e2h : Int → Nat → Int} {v2h : Int → Int} {fuel : Nat} (ht : ccs_Ready t e2h v2h fuel) :
    ccs_Ready u e2h v2h fuel := by
  have hD : ccs_MaxDepth u = ccs_MaxDepth t := h.maxDepth_eq
  refine ⟨?_, ?_, ?_, ?_, ?_⟩
  · rw [h.2]; exact ht.cage
  · rw [h.vertexPoints_eq, h.2]; exact ht.points0
  · intro d d1 d2
    obtain ⟨a, b⟩ := ht.levels d d1 (by rw [← hD]; exact d2)
    refine ⟨a.sameTopology_sound h, ?_⟩
    rw [h.vertexPoints_eq, h.2]
    exact b
  · rw [h.2, hD]; exact ht.helpers
  · rw [h.2, hD]; exact ht.fuel_le

/-! ### The pass `ccs_RefineVertexUvs` returns -/

/-- The halfedge regions of the levels `1 .. maxDepth` have `H_d` records. -/
def ccs_HalfedgeLevels (T : cc_Subd) : Prop :=
  ∀ d : Nat, 1 ≤ d → d ≤ ccs_MaxDepth T →
    ∃ l, ccs__Level T.halfedges d = some l ∧ l.length = ccm_HalfedgeCountAtDepth T.cage d

theorem ccs_HalfedgeLevels.sameTopology_levels {u t : cc_Subd} (h : ccs_SameTopology u t)
    (ht : ccs_HalfedgeLevels t) : ccs_HalfedgeLevels u := by
  intro d d1 d2
  obtain ⟨l, hl, hlen⟩ := ht d d1 (by rw [← h.maxDepth_eq]; exact d2)
  obtain ⟨l', hl', e⟩ := h.topology_level d l hl
  exact ⟨l', hl', by rw [length_of_map_eraseUv e, hlen, h.2]⟩

/-- The kernel `ccs__RefineCageVertexUvs` returns on a cage whose `next` and
`prev` are inverse of each other and whose `uvID`s are in bounds, and changes
the fields `uvID` only. -/
theorem refineCageVertexUvs_total (cc__EncodeUv : cc_VertexUv → Int) (T : cc_Subd) (fuel : Nat)
    (hD : 1 ≤ ccs_MaxDepth T) (hv : (cageParent T.cage).Valid)
    (hb : ccm_UvIDsInBounds T.cage) (hl : ccs_HalfedgeLevels T)
    (hf : ccm_HalfedgeCount T.cage ≤ fuel + 1) :
    ∃ u, ccs__RefineCageVertexUvs cc__EncodeUv T fuel = some u ∧ ccs_SameTopology u T := by
  obtain ⟨out, ho, hlen⟩ := hl 1 le_rfl hD
  rw [ccs__Level_succ] at ho
  rw [ccm_HalfedgeCountAtDepth_succ, ccm_HalfedgeCountAtDepth_zero] at hlen
  obtain ⟨o, e1, _⟩ := cage_uv_kernel_spec cc__EncodeUv T fuel out ho (by omega)
    (fun h hh => by
      obtain ⟨_, _, _, _, _, _, _, _, _, _, _, _, _, _, e⟩ :=
        cage_uv_reads_total cc__EncodeUv T.cage fuel hv hb hf h (by omega)
          (by exact_mod_cast hh)
      rw [e]
      rfl)
  exact ⟨_, e1, ccs__RefineCageVertexUvs_keep cc__EncodeUv T _ fuel e1⟩

/-- The kernel `ccs__RefineVertexUvs` returns at a depth `1 ≤ d < maxDepth`, and
changes the fields `uvID` only. -/
theorem refineVertexUvs_level_total (cc__EncodeUv : cc_VertexUv → Int)
    (cc__DecodeUv : Int → cc_VertexUv) (A : cc_Subd) (d fuel : Nat) (d1 : 1 ≤ d)
    (d2 : d < ccs_MaxDepth A) (hl : ccs_HalfedgeLevels A)
    (hf : ccm_HalfedgeCountAtDepth A.cage d ≤ fuel) :
    ∃ u, ccs__RefineVertexUvs cc__EncodeUv cc__DecodeUv A d fuel = some u ∧
      ccs_SameTopology u A := by
  obtain ⟨lin, hin, hH⟩ := hl d d1 (le_of_lt d2)
  obtain ⟨out, ho, hlen⟩ := hl (d + 1) (by omega) d2
  rw [ccm_HalfedgeCountAtDepth_succ] at hlen
  obtain ⟨k, hk⟩ := ccm_HalfedgeCountAtDepth_dvd A.cage d d1
  obtain ⟨o, e1, _⟩ := level_uv_kernel_spec cc__EncodeUv cc__DecodeUv A d fuel out ho
    (by omega)
    (fun h hh => by
      obtain ⟨_, _, _, _, _, _, _, _, _, _, e⟩ :=
        level_uv_reads_total cc__EncodeUv cc__DecodeUv A d fuel lin hin hH (by omega) h
          (by omega) (by exact_mod_cast hh)
      rw [e]
      rfl)
  exact ⟨_, e1, ccs__RefineVertexUvs_keep cc__EncodeUv cc__DecodeUv A _ d fuel e1⟩

/-- The entry point `ccs_RefineVertexUvs` returns on a subdivision whose
halfedge regions have their sizes, for a cage whose `next` and `prev` are
inverse of each other and, when it has texture coordinates, whose `uvID`s are
indices of the array `uvs`; it changes the fields `uvID` only. -/
theorem refineVertexUvs_total (cc__EncodeUv : cc_VertexUv → Int)
    (cc__DecodeUv : Int → cc_VertexUv) (T : cc_Subd) (fuel : Nat)
    (hD : 1 ≤ ccs_MaxDepth T) (hv : (cageParent T.cage).Valid)
    (hb : 0 < ccm_UvCount T.cage → ccm_UvIDsInBounds T.cage) (hl : ccs_HalfedgeLevels T)
    (hf : ccm_HalfedgeCountAtDepth T.cage (ccs_MaxDepth T) ≤ fuel) :
    ∃ u, ccs_RefineVertexUvs cc__EncodeUv cc__DecodeUv T fuel = some u ∧
      ccs_SameTopology u T := by
  unfold ccs_RefineVertexUvs
  split
  · next hpos =>
    have hH0 : ccm_HalfedgeCount T.cage ≤ fuel + 1 := by
      have := ccm_HalfedgeCountAtDepth_mono T.cage 0 (ccs_MaxDepth T) (Nat.zero_le _)
      rw [ccm_HalfedgeCountAtDepth_zero] at this
      omega
    obtain ⟨s1, e1, sh1⟩ := refineCageVertexUvs_total cc__EncodeUv T fuel hD hv (hb hpos) hl hH0
    simp only [e1, Option.bind_eq_bind, Option.some_bind]
    have key : ∀ (l : List Nat) (A : cc_Subd), (∀ d ∈ l, 1 ≤ d ∧ d < ccs_MaxDepth T) →
        ccs_SameTopology A T →
        ∃ B, l.foldlM (fun s depth =>
          ccs__RefineVertexUvs cc__EncodeUv cc__DecodeUv s depth fuel) A = some B ∧
          ccs_SameTopology B T := by
      intro l
      induction l with
      | nil => intro A _ hA; exact ⟨A, rfl, hA⟩
      | cons d t ih =>
        intro A hmem hA
        obtain ⟨d1, d2⟩ := hmem d (List.mem_cons_self _ _)
        have hm : ccs_MaxDepth A = ccs_MaxDepth T := hA.maxDepth_eq
        obtain ⟨A1, f1, shA⟩ := refineVertexUvs_level_total cc__EncodeUv cc__DecodeUv A d fuel
          d1 (by rw [hm]; exact d2) (hl.sameTopology_levels hA)
          (by
            rw [hA.2]
            exact le_trans (ccm_HalfedgeCountAtDepth_mono T.cage d (ccs_MaxDepth T)
              (le_of_lt d2)) hf)
        obtain ⟨B, hB, shB⟩ := ih A1 (fun x hx => hmem x (List.mem_cons_of_mem _ hx))
          (shA.topology_trans hA)
        refine ⟨B, ?_, shB⟩
        rw [List.foldlM_cons, f1]
        exact hB
    exact key _ s1 (by
      intro d hd
      rw [List.mem_range'_1] at hd
      omega) sh1
  · exact ⟨T, rfl, ccs_SameTopology.topology_refl T⟩

/-- The sizes of the halfedge regions after `ccs_RefineHalfedges`. -/
theorem refineHalfedges_levels (s T1 : cc_Subd) (hD : 1 ≤ ccs_MaxDepth s)
    (hcage : ccm_Valid s.cage) (ha : ccs_Allocated s)
    (h1 : ccs_RefineHalfedges s = some T1) : ccs_HalfedgeLevels T1 := by
  obtain ⟨hnp, htw, hne, hcov, _, _, _⟩ := hcage
  obtain ⟨T, a1, a2⟩ := refine_all_levels s ha hD (cage_linksInBounds s.cage hnp htw)
  rw [h1] at a1
  cases a1
  intro d d1 d2
  have hme : ccs_MaxDepth T1 = ccs_MaxDepth s := a2.maxDepth_eq
  obtain ⟨l, hl, hv⟩ := a2.valid ha hnp htw hne hcov d d1 (by rw [← hme]; exact d2)
    (by rw [← hme]; exact d2)
  exact ⟨l, hl, by rw [hv.1, a2.cage_eq]⟩

/-- On a constructed subdivision of depth at least 1 of a valid cage, the three
passes of `ccs__RefineTopology` return, and the subdivision is then ready for
the vertex point kernels. -/
theorem refineTopology_total (cc__EncodeUv : cc_VertexUv → Int)
    (cc__DecodeUv : Int → cc_VertexUv) (s : cc_Subd) (e2h : Int → Nat → Int)
    (v2h : Int → Int) (fuel : Nat) (hD : 1 ≤ ccs_MaxDepth s) (hcage : ccm_Valid s.cage)
    (hb : 0 < ccm_UvCount s.cage → ccm_UvIDsInBounds s.cage)
    (hc : ccs_Constructed s) (hh : ccs_HelpersInBounds s.cage (ccs_MaxDepth s) e2h v2h)
    (hf : ccm_HalfedgeCountAtDepth s.cage (ccs_MaxDepth s) ≤ fuel) :
    ∃ T1 T2 u, ccs_RefineHalfedges s = some T1 ∧ ccs_RefineCreases T1 = some T2 ∧
      ccs_RefineVertexUvs cc__EncodeUv cc__DecodeUv T2 fuel = some u ∧
      ccs__RefineTopology cc__EncodeUv cc__DecodeUv s fuel = some u ∧
      ccs_Ready T2 e2h v2h fuel ∧ ccs_SameTopology u T2 ∧ ccs_Ready u e2h v2h fuel ∧
      u.cage = s.cage ∧ ccs_MaxDepth u = ccs_MaxDepth s := by
  obtain ⟨T1, T2, a1, a2, a3⟩ := refineTopology_ready s e2h v2h fuel hD hcage hc hh hf
  have hl1 := refineHalfedges_levels s T1 hD hcage hc.1 a1
  have k1 : T1.cage = s.cage ∧ ccs_MaxDepth T1 = ccs_MaxDepth s := by
    obtain ⟨hnp, htw, _, _, _, _, _⟩ := hcage
    obtain ⟨T, b1, b2⟩ := refine_all_levels s hc.1 hD (cage_linksInBounds s.cage hnp htw)
    rw [a1] at b1
    cases b1
    exact ⟨b2.cage_eq, b2.maxDepth_eq⟩
  have k2 : T2.cage = T1.cage ∧ ccs_MaxDepth T2 = ccs_MaxDepth T1 ∧
      T2.halfedges = T1.halfedges := by
    unfold ccs_RefineCreases at a2
    obtain ⟨S1, c1, c2⟩ := Option.bind_eq_some.mp a2
    have q1 : S1.cage = T1.cage ∧ S1.maxDepth = T1.maxDepth ∧ S1.halfedges = T1.halfedges := by
      unfold ccs__RefineCageCreases at c1
      simp only [Option.bind_eq_bind, Option.bind_eq_some, Option.some.injEq] at c1
      obtain ⟨p, _, out, _, rfl⟩ := c1
      exact ⟨rfl, rfl, rfl⟩
    have q2 := foldlM_keeps (fun S => (S.cage, S.maxDepth, S.halfedges))
      (fun s depth => ccs__RefineCreases s depth)
      (by
        intro A B d hAB
        unfold ccs__RefineCreases at hAB
        simp only [Option.bind_eq_bind, Option.bind_eq_some, Option.some.injEq] at hAB
        obtain ⟨p, _, out, _, rfl⟩ := hAB
        rfl) _ S1 T2 c2
    simp only [Prod.mk.injEq] at q2
    exact ⟨q2.1.trans q1.1, q2.2.1.trans q1.2.1, q2.2.2.trans q1.2.2⟩
  have hl2 : ccs_HalfedgeLevels T2 := by
    intro d d1 d2
    rw [k2.2.2, k2.1]
    exact hl1 d d1 (by rw [← k2.2.1]; exact d2)
  have hc2 : T2.cage = s.cage := k2.1.trans k1.1
  have hm2 : ccs_MaxDepth T2 = ccs_MaxDepth s := k2.2.1.trans k1.2
  obtain ⟨u, e, sh⟩ := refineVertexUvs_total cc__EncodeUv cc__DecodeUv T2 fuel
    (by rw [hm2]; exact hD)
    (by rw [hc2]; exact cageParent_valid s.cage hcage.1 hcage.2.1)
    (by rw [hc2]; exact hb) hl2 (by rw [hc2, hm2]; exact hf)
  refine ⟨T1, T2, u, a1, a2, e, ?_, a3, sh, a3.sameTopology_ready sh, sh.2.trans hc2,
    sh.maxDepth_eq.trans hm2⟩
  unfold ccs__RefineTopology
  simp only [a1, a2, e, Option.bind_eq_bind, Option.some_bind]

/-! ## C30: the refinement returns on a valid cage

The crease kernels write the records `[0, 2 E_d)` of the region of level
`d + 1`, and the kernel of the depth `d + 1` runs over the `E_(d+1)` crease
records of that level (the crease count of a level is its edge count): it reads
the `H_d` records from `2 E_d` on as the subdivision was given them, and follows
their links. -/

/-- The crease buffer of the subdivision has a region for every level
`1 .. maxDepth`, and the region of level `d + 1` has at least `E_(d+1)`
records; nothing is said of what the records hold. -/
def ccs_CreasesSized (cage : cc_Mesh) (maxDepth : Nat) (creases : List (List cc_Crease)) :
    Prop :=
  maxDepth ≤ creases.length ∧
  ∀ d : Nat, d < maxDepth → ∀ l ∈ creases[d]?,
    ccm_EdgeCountAtDepth_Fast cage (d + 1) ≤ l.length

instance (cage : cc_Mesh) (maxDepth : Nat) (creases : List (List cc_Crease)) :
    Decidable (ccs_CreasesSized cage maxDepth creases) := by
  unfold ccs_CreasesSized
  infer_instance

/-- The subdivision `sharpTriangleBlank` of depth 2 with stale records in the
crease region of level 1: the links of its 9 records are 99.  The cage kernel
overwrites the records 0 to 5; the records 6, 7, 8 are the crease records of the
edges of level 1 interior to the triangle. -/
def sharpTriangleStale : cc_Subd :=
  { sharpTriangleBlank with
    creases := [List.replicate 9 ⟨99, 99, 0⟩, List.replicate 30 ⟨0, 0, 0⟩] }

/-- The triangle `sharpTriangle` with one texture coordinate, the `uvID` of its
three halfedges. -/
def sharpTriangleUv : cc_Mesh := { sharpTriangle with uvs := [(1 / 2, 1 / 2)] }

theorem trunc_HalfedgeVertexUvID (S : cc_Subd) (n d : Nat) (hd : d ≤ n) (h : Int) :
    ccs__HalfedgeVertexUvID (ccs_Truncate n S) h d = ccs__HalfedgeVertexUvID S h d := by
  unfold ccs__HalfedgeVertexUvID ccs_Truncate
  simp only [ccs__Level_take _ _ _ hd]

theorem trunc_HalfedgeVertexUv (cc__DecodeUv : Int → cc_VertexUv) (S : cc_Subd) (n d : Nat)
    (hd : d ≤ n) (h : Int) :
    ccs_HalfedgeVertexUv cc__DecodeUv (ccs_Truncate n S) h d
      = ccs_HalfedgeVertexUv cc__DecodeUv S h d := by
  unfold ccs_HalfedgeVertexUv
  rw [trunc_HalfedgeVertexUvID S n d hd]

theorem trunc_RefineVertexUvs_iteration (cc__EncodeUv : cc_VertexUv → Int)
    (cc__DecodeUv : Int → cc_VertexUv) (S : cc_Subd) (n d : Nat) (hd : d ≤ n) (fuel : Nat)
    (out : List cc_Halfedge_SemiRegular) (h : Int) :
    ccs__RefineVertexUvs_iteration cc__EncodeUv cc__DecodeUv (ccs_Truncate n S) d fuel out h
      = ccs__RefineVertexUvs_iteration cc__EncodeUv cc__DecodeUv S d fuel out h := by
  unfold ccs__RefineVertexUvs_iteration ccs__RefineVertexUvs_reads
  simp only [trunc_HalfedgeVertexUv cc__DecodeUv S n d hd, trunc_HalfedgeVertexUvID S n d hd,
    ccs_HalfedgeNextID]

/-- The kernel `ccs__RefineVertexUvs` at a depth `d < n` commutes with the
truncation to `n` levels. -/
theorem trunc_RefineVertexUvs (cc__EncodeUv : cc_VertexUv → Int)
    (cc__DecodeUv : Int → cc_VertexUv) (S : cc_Subd) (n d : Nat) (hd : d + 1 ≤ n)
    (fuel : Nat) :
    ccs__RefineVertexUvs cc__EncodeUv cc__DecodeUv (ccs_Truncate n S) d fuel
      = (ccs__RefineVertexUvs cc__EncodeUv cc__DecodeUv S d fuel).map (ccs_Truncate n) := by
  have hd0 : d ≤ n := by omega
  unfold ccs__RefineVertexUvs
  simp only [trunc_RefineVertexUvs_iteration cc__EncodeUv cc__DecodeUv S n d hd0]
  show (ccs__Level (S.halfedges.take n) (d + 1)).bind _ = _
  rw [ccs__Level_take _ _ _ hd]
  cases ccs__Level S.halfedges (d + 1) with
  | none => rfl
  | some p =>
    simp only [Option.bind_eq_bind, Option.some_bind]
    rw [option_bind_map_comm]
    unfold ccs_Truncate
    simp only [take_set_comm]

theorem trunc_RefineCageVertexUvs (cc__EncodeUv : cc_VertexUv → Int) (S : cc_Subd) (n : Nat)
    (hn : 1 ≤ n) (fuel : Nat) :
    ccs__RefineCageVertexUvs cc__EncodeUv (ccs_Truncate n S) fuel
      = (ccs__RefineCageVertexUvs cc__EncodeUv S fuel).map (ccs_Truncate n) := by
  unfold ccs__RefineCageVertexUvs
  show ((S.halfedges.take n)[0]?).bind _ = _
  rw [getElem?_zero_take _ _ hn]
  cases S.halfedges[0]? with
  | none => rfl
  | some p =>
    simp only [Option.bind_eq_bind, Option.some_bind]
    rw [option_bind_map_comm]
    unfold ccs_Truncate
    simp only [take_set_comm]

theorem keep_RefineCageVertexUvs (cc__EncodeUv : cc_VertexUv → Int) (S S' : cc_Subd)
    (fuel : Nat) (h : ccs__RefineCageVertexUvs cc__EncodeUv S fuel = some S') :
    S'.maxDepth = S.maxDepth ∧ ∀ n, n ≤ 0 → ccs_Truncate n S' = ccs_Truncate n S := by
  apply keep_of_set_halfedges
  unfold ccs__RefineCageVertexUvs at h
  simp only [Option.bind_eq_bind, Option.bind_eq_some, Option.some.injEq] at h
  obtain ⟨p, _, out, _, rfl⟩ := h
  exact ⟨out, rfl⟩

theorem keep_RefineVertexUvs (cc__EncodeUv : cc_VertexUv → Int)
    (cc__DecodeUv : Int → cc_VertexUv) (S S' : cc_Subd) (d fuel : Nat)
    (h : ccs__RefineVertexUvs cc__EncodeUv cc__DecodeUv S d fuel = some S') :
    S'.maxDepth = S.maxDepth ∧ ∀ n, n ≤ d → ccs_Truncate n S' = ccs_Truncate n S := by
  apply keep_of_set_halfedges
  unfold ccs__RefineVertexUvs at h
  simp only [Option.bind_eq_bind, Option.bind_eq_some, Option.some.injEq] at h
  obtain ⟨p, _, out, _, rfl⟩ := h
  exact ⟨out, rfl⟩

/-- The entry point `ccs_RefineVertexUvs` on the truncation. -/
theorem trunc_RefineVertexUvs_all (cc__EncodeUv : cc_VertexUv → Int)
    (cc__DecodeUv : Int → cc_VertexUv) (S S' : cc_Subd) (fuel : Nat) (n : Nat) (h1 : 1 ≤ n)
    (hn : n ≤ ccs_MaxDepth S)
    (h : ccs_RefineVertexUvs cc__EncodeUv cc__DecodeUv S fuel = some S') :
    ccs_RefineVertexUvs cc__EncodeUv cc__DecodeUv (ccs_Truncate n S) fuel
        = some (ccs_Truncate n S') ∧
      ccs_MaxDepth S' = ccs_MaxDepth S := by
  unfold ccs_RefineVertexUvs at h ⊢
  have hc : (ccs_Truncate n S).cage = S.cage := rfl
  rw [hc]
  split at h
  · next hpos =>
    rw [if_pos hpos]
    simp only [Option.bind_eq_bind] at h ⊢
    obtain ⟨S1, hcage, hf⟩ := Option.bind_eq_some.mp h
    constructor
    · rw [trunc_RefineCageVertexUvs cc__EncodeUv S n h1, hcage]
      exact foldlM_truncate
        (fun s depth => ccs__RefineVertexUvs cc__EncodeUv cc__DecodeUv s depth fuel) n
        (fun A d hd => trunc_RefineVertexUvs cc__EncodeUv cc__DecodeUv A n d hd fuel)
        (fun A B d hd hAB =>
          (keep_RefineVertexUvs cc__EncodeUv cc__DecodeUv A B d fuel hAB).2 n hd)
        (ccs_MaxDepth S) hn h1 S1 S' hf
    · unfold ccs_MaxDepth
      rw [foldlM_maxDepth
        (fun s depth => ccs__RefineVertexUvs cc__EncodeUv cc__DecodeUv s depth fuel)
        (fun A B d hAB => (keep_RefineVertexUvs cc__EncodeUv cc__DecodeUv A B d fuel hAB).1)
        _ S1 S' hf,
        (keep_RefineCageVertexUvs cc__EncodeUv S S1 fuel hcage).1]
  · next hz =>
    rw [if_neg hz]
    simp only [Option.some.injEq] at h
    subst h
    exact ⟨rfl, rfl⟩

/-- When `ccs_Refine_Gather` returns `r` on a subdivision `s` of depth `D`, it
returns `ccs_Truncate n r` on the subdivision truncated to `1 ≤ n ≤ D` levels. -/
theorem refine_gather_truncate (cc__EncodeUv : cc_VertexUv → Int)
    (cc__DecodeUv : Int → cc_VertexUv) (s r : cc_Subd) (e2h : Int → Nat → Int)
    (v2h : Int → Int) (fuel : Nat) (n : Nat) (h1 : 1 ≤ n) (hn : n ≤ ccs_MaxDepth s)
    (hr : ccs_Refine_Gather cc__EncodeUv cc__DecodeUv s e2h v2h fuel = some r) :
    ccs_Refine_Gather cc__EncodeUv cc__DecodeUv (ccs_Truncate n s) e2h v2h fuel
      = some (ccs_Truncate n r) := by
  unfold ccs_Refine_Gather ccs__RefineTopology at hr ⊢
  simp only [Option.bind_eq_bind] at hr ⊢
  obtain ⟨T, ht, hv⟩ := Option.bind_eq_some.mp hr
  obtain ⟨H, hh, ht⟩ := Option.bind_eq_some.mp ht
  obtain ⟨C, hc, hu⟩ := Option.bind_eq_some.mp ht
  obtain ⟨b1, b2⟩ := trunc_RefineHalfedges_all s H n h1 hn hh
  obtain ⟨c1, c2⟩ := trunc_RefineCreases_all H C n h1 (by rw [b2]; exact hn) hc
  obtain ⟨u1, u2⟩ := trunc_RefineVertexUvs_all cc__EncodeUv cc__DecodeUv C T fuel n h1
    (by rw [c2, b2]; exact hn) hu
  rw [b1, Option.some_bind, c1, Option.some_bind, u1, Option.some_bind]
  exact trunc_RefineVertexPoints_Gather_all T r e2h v2h fuel n h1
    (by rw [u2, c2, b2]; exact hn) hv

/-- The first `B` records of a crease array hold links in `[0, B)` and a
sharpness of at least `S`. -/
def ccs_SharpPrefix (creases : List cc_Crease) (B : Nat) (S : ℚ) : Prop :=
  B ≤ creases.length ∧
  ∀ e : Nat, e < B → ∀ c ∈ creases[e]?,
    0 ≤ c.nextID ∧ c.nextID < (B : Int) ∧ 0 ≤ c.prevID ∧ c.prevID < (B : Int) ∧
    S ≤ c.sharpness

theorem ccs_SharpPrefix.read {creases : List cc_Crease} {B : Nat} {S : ℚ}
    (hp : ccs_SharpPrefix creases B S) (e : Int) (e0 : 0 ≤ e) (e1 : e < (B : Int)) :
    creases[e.toNat]? = some (creases.getD e.toNat default) ∧
    0 ≤ (creases.getD e.toNat default).nextID ∧
    (creases.getD e.toNat default).nextID < (B : Int) ∧
    0 ≤ (creases.getD e.toNat default).prevID ∧
    (creases.getD e.toNat default).prevID < (B : Int) ∧
    S ≤ (creases.getD e.toNat default).sharpness := by
  have hlt : e.toNat < creases.length := by have := hp.1; omega
  have hr : creases[e.toNat]? = some (creases.getD e.toNat default) := by
    simp [List.getD_eq_getElem?_getD, List.getElem?_eq_getElem hlt]
  exact ⟨hr, hp.2 e.toNat (by omega) _ (Option.mem_def.mpr hr)⟩

/-- The children of the first `B` creases are the first `2B` creases of the next
level; their links stay among them and their sharpness is at least `S - 1`. -/
theorem creaseRefined_sharp (creases : List cc_Crease) (E B : Nat) (S : ℚ) (hB : B ≤ E)
    (hp : ccs_SharpPrefix creases B S) (out out' : List cc_Crease)
    (hr : CreaseRefined (creaseParent creases E) out out') :
    ccs_SharpPrefix out' (2 * B) (S - 1) := by
  have hlen : 2 * E ≤ out'.length := by rw [hr.2.1]; exact hr.1
  refine ⟨by omega, ?_⟩
  intro j hj c hc
  have he : j / 2 < B := by omega
  obtain ⟨s0, s1⟩ := hr.slots (j / 2) (show j / 2 < (creaseParent creases E).E from by
    show j / 2 < E
    omega)
  obtain ⟨_, n0, n1, p0, p1, sh⟩ := hp.read ((j / 2 : Nat) : Int) (by omega) (by omega)
  simp only [Int.toNat_ofNat] at n0 n1 p0 p1 sh
  have hnext : (creaseParent creases E).next ((j / 2 : Nat) : Int)
      = (creases.getD (j / 2) default).nextID := by
    simp only [creaseParent, Int.toNat_ofNat]
  have hprev : (creaseParent creases E).prev ((j / 2 : Nat) : Int)
      = (creases.getD (j / 2) default).prevID := by
    simp only [creaseParent, Int.toNat_ofNat]
  have hsharp : (creaseParent creases E).sharp ((j / 2 : Nat) : Int)
      = (creases.getD (j / 2) default).sharpness := by
    simp only [creaseParent, Int.toNat_ofNat]
  obtain ⟨_, _, _, _, _, shn⟩ := hp.read _ n0 n1
  obtain ⟨_, _, _, _, _, shp⟩ := hp.read _ p0 p1
  have hj2 : j = 2 * (j / 2) ∨ j = 2 * (j / 2) + 1 := by omega
  rcases hj2 with e | e
  · rw [e] at hc
    rw [Option.mem_def, s0] at hc
    have := Option.some.inj hc
    subst this
    simp only [creaseChild0, hprev, hsharp]
    refine ⟨by omega, by omega, ?_, ?_, ?_⟩
    · split_ifs <;> omega
    · split_ifs <;> omega
    · apply le_max_of_le_right
      have : (creaseParent creases E).sharp (creases.getD (j / 2) default).prevID
          = (creases.getD (creases.getD (j / 2) default).prevID.toNat default).sharpness := rfl
      rw [this]
      linarith
  · rw [e] at hc
    rw [Option.mem_def, s1] at hc
    have := Option.some.inj hc
    subst this
    simp only [creaseChild1, hnext, hsharp]
    refine ⟨?_, ?_, by omega, by omega, ?_⟩
    · split_ifs <;> omega
    · split_ifs <;> omega
    · apply le_max_of_le_right
      have : (creaseParent creases E).sharp (creases.getD (j / 2) default).nextID
          = (creases.getD (creases.getD (j / 2) default).nextID.toNat default).sharpness := rfl
      rw [this]
      linarith

/-- The edges of level `l` that descend from the edges of the cage are edges of
the level. -/
theorem cage_edges_le (cage : cc_Mesh) (l : Nat) :
    2 ^ l * ccm_EdgeCount cage ≤ ccm_EdgeCountAtDepth_Fast cage l := by
  induction l with
  | zero => simp [ccm_EdgeCountAtDepth_Fast]
  | succ n ih =>
    have : ccm_EdgeCountAtDepth_Fast cage (n + 1)
        = 2 * ccm_EdgeCountAtDepth_Fast cage n + ccm_HalfedgeCountAtDepth cage n := rfl
    rw [this, pow_succ]
    nlinarith

/-- In the regions of the levels `1 .. k` of the crease buffer, the creases that
descend from the creases of the cage (the first `2^l E0` of level `l`) hold
links among themselves and a sharpness of at least `S0 - l`. -/
def ccs_SharpLevels (cage : cc_Mesh) (creases : List (List cc_Crease)) (S0 : ℚ) (k : Nat) :
    Prop :=
  ∀ l : Nat, l < k → ∀ cr ∈ creases[l]?,
    ccs_SharpPrefix cr (2 ^ (l + 1) * ccm_EdgeCount cage) (S0 - ((l + 1 : Nat) : ℚ))

theorem sharpLevels_set (cage : cc_Mesh) (cr : List (List cc_Crease)) (S0 : ℚ) (k : Nat)
    (o : List cc_Crease) (hk : k < cr.length) (hs : ccs_SharpLevels cage cr S0 k)
    (ho : ccs_SharpPrefix o (2 ^ (k + 1) * ccm_EdgeCount cage) (S0 - ((k + 1 : Nat) : ℚ))) :
    ccs_SharpLevels cage (cr.set k o) S0 (k + 1) := by
  intro l hl c hc
  by_cases e : l = k
  · subst e
    rw [Option.mem_def, List.getElem?_set_self hk] at hc
    have := Option.some.inj hc
    subst this
    exact ho
  · rw [Option.mem_def, List.getElem?_set_ne (fun x => e x.symm)] at hc
    exact hs l (by omega) c (Option.mem_def.mpr hc)

/-- The kernel `ccs__RefineCageCreases` on a cage whose creases have a sharpness
of at least `S0`. -/
theorem refineCageCreases_sharp (S0 : cc_Subd) (hD : 1 ≤ ccs_MaxDepth S0)
    (ha : ccs_CreasesAllocated S0.cage (ccs_MaxDepth S0) S0.creases)
    (hw : ccs_CreaseLinksInBounds S0.cage.creases (ccm_EdgeCount S0.cage)) (Sh : ℚ)
    (hs : ccs_SharpPrefix S0.cage.creases (ccm_EdgeCount S0.cage) Sh) :
    ∃ S, ccs__RefineCageCreases S0 = some S ∧ ccs_CreaseStage S0 S 1 ∧
      ccs_SharpLevels S0.cage S.creases Sh 1 := by
  obtain ⟨S, e1, e2⟩ := refineCageCreases_stage S0 hD ha hw
  refine ⟨S, e1, e2, ?_⟩
  have hlt : 0 < S0.creases.length := by have := ha.1; omega
  have hout : S0.creases[0]? = some S0.creases[0] := List.getElem?_eq_getElem hlt
  obtain ⟨b1, _⟩ := ha.2 0 hD _ (Option.mem_def.mpr hout)
  have hE : ccm_EdgeCountAtDepth_Fast S0.cage (0 + 1)
      = 2 * ccm_EdgeCount S0.cage + ccm_HalfedgeCountAtDepth S0.cage 0 := rfl
  obtain ⟨o, f1, f2⟩ := cage_crease_kernel_spec S0 _ hout hw (by omega)
  rw [e1] at f1
  cases f1
  have hsh := creaseRefined_sharp _ _ (ccm_EdgeCount S0.cage) Sh (le_refl _) hs _ _ f2
  have := sharpLevels_set S0.cage S0.creases Sh 0 o hlt
    (fun l hl => absurd hl (Nat.not_lt_zero l))
    (by
      simp only [zero_add, pow_one, Nat.cast_one]
      exact hsh)
  exact this

/-- The kernel `ccs__RefineCreases` at a depth `1 ≤ k < maxDepth`. -/
theorem refineCreases_sharp_stage (S0 S : cc_Subd) (k : Nat) (hs : ccs_CreaseStage S0 S k)
    (Sh : ℚ) (hsh : ccs_SharpLevels S0.cage S.creases Sh k)
    (h1 : 1 ≤ k) (h2 : k < ccs_MaxDepth S0) :
    ∃ S', ccs__RefineCreases S k = some S' ∧ ccs_CreaseStage S0 S' (k + 1) ∧
      ccs_SharpLevels S0.cage S'.creases Sh (k + 1) := by
  obtain ⟨S', g1, g2⟩ := refineCreases_stage S0 S k hs h1 h2
  refine ⟨S', g1, g2, ?_⟩
  obtain ⟨⟨cr, rfl⟩, ha, hprev⟩ := hs
  have ha' : ccs_CreasesAllocated S0.cage (ccs_MaxDepth S0) cr := ha
  have hprev' : ∀ d : Nat, d < k → ∀ l ∈ cr[d]?,
      ccs_CreaseLinksInBounds l (ccm_EdgeCountAtDepth_Fast S0.cage (d + 1)) := hprev
  have hsh' : ccs_SharpLevels S0.cage cr Sh k := hsh
  have hlt : k < cr.length := by have := ha'.1; omega
  have hlt1 : k - 1 < cr.length := by omega
  have hout : cr[k]? = some cr[k] := List.getElem?_eq_getElem hlt
  have hin : cr[k - 1]? = some cr[k - 1] := List.getElem?_eq_getElem hlt1
  obtain ⟨b1, _⟩ := ha'.2 k h2 _ (Option.mem_def.mpr hout)
  have hlinks := hprev' (k - 1) (by omega) _ (Option.mem_def.mpr hin)
  have hpre := hsh' (k - 1) (by omega) _ (Option.mem_def.mpr hin)
  have hk : k - 1 + 1 = k := by omega
  rw [hk] at hlinks hpre
  have hE : ccm_EdgeCountAtDepth_Fast S0.cage (k + 1)
      = 2 * ccm_EdgeCountAtDepth_Fast S0.cage k + ccm_HalfedgeCountAtDepth S0.cage k := rfl
  obtain ⟨o, e1, e2⟩ := level_crease_kernel_spec { S0 with creases := cr } k cr[k - 1] cr[k]
    (by unfold ccs__Level; rw [if_pos h1]; exact hin)
    (by rw [ccs__Level_succ]; exact hout)
    hlinks
    (by
      show 2 * ccm_EdgeCountAtDepth_Fast S0.cage k ≤ cr[k].length
      omega)
  rw [g1] at e1
  cases e1
  have hnew := creaseRefined_sharp cr[k - 1] (ccm_EdgeCountAtDepth_Fast S0.cage k)
    (2 ^ k * ccm_EdgeCount S0.cage) (Sh - ((k : Nat) : ℚ)) (cage_edges_le S0.cage k) hpre _ _ e2
  refine sharpLevels_set S0.cage cr Sh k o hlt hsh' ?_
  have e3 : 2 ^ (k + 1) * ccm_EdgeCount S0.cage = 2 * (2 ^ k * ccm_EdgeCount S0.cage) := by
    rw [pow_succ]
    ring
  have e4 : Sh - ((k + 1 : Nat) : ℚ) = Sh - ((k : Nat) : ℚ) - 1 := by
    push_cast
    ring
  rw [e3, e4]
  exact hnew

theorem refineCreases_sharp_fold (S0 S1 : cc_Subd) (hs : ccs_CreaseStage S0 S1 1) (Sh : ℚ)
    (hsh : ccs_SharpLevels S0.cage S1.creases Sh 1) :
    ∀ n : Nat, n + 1 ≤ ccs_MaxDepth S0 →
      ∃ S, (List.range' 1 n).foldlM (fun s depth => ccs__RefineCreases s depth) S1 = some S ∧
        ccs_CreaseStage S0 S (n + 1) ∧ ccs_SharpLevels S0.cage S.creases Sh (n + 1) := by
  intro n
  induction n with
  | zero =>
    intro _
    exact ⟨S1, rfl, hs, hsh⟩
  | succ n ih =>
    intro hn
    obtain ⟨S, e1, e2, e3⟩ := ih (by omega)
    obtain ⟨S', f1, f2, f3⟩ := refineCreases_sharp_stage S0 S (n + 1) e2 Sh e3 (by omega)
      (by omega)
    refine ⟨S', ?_, f2, f3⟩
    rw [List.range'_concat, List.foldlM_append, e1]
    simp only [Option.bind_eq_bind, Option.some_bind, one_mul, List.foldlM_cons,
      List.foldlM_nil]
    have : 1 + n = n + 1 := by omega
    rw [this, f1]
    rfl

/-- The entry point `ccs_RefineCreases` on a cage whose edges have a sharpness
of at least `Sh`: at every level `l`, the creases that descend from the creases
of the cage have a sharpness of at least `Sh - l`. -/
theorem refineCreases_sharp (S0 : cc_Subd) (hD : 1 ≤ ccs_MaxDepth S0)
    (ha : ccs_CreasesAllocated S0.cage (ccs_MaxDepth S0) S0.creases)
    (hw : ccs_CreaseLinksInBounds S0.cage.creases (ccm_EdgeCount S0.cage)) (Sh : ℚ)
    (hs : ccs_SharpPrefix S0.cage.creases (ccm_EdgeCount S0.cage) Sh) :
    ∃ S, ccs_RefineCreases S0 = some S ∧
      ccs_SharpLevels S0.cage S.creases Sh (ccs_MaxDepth S0) := by
  obtain ⟨S1, e1, e2, e3⟩ := refineCageCreases_sharp S0 hD ha hw Sh hs
  obtain ⟨S, f1, _, f3⟩ := refineCreases_sharp_fold S0 S1 e2 Sh e3 (ccs_MaxDepth S0 - 1)
    (by omega)
  refine ⟨S, ?_, ?_⟩
  · unfold ccs_RefineCreases
    simp only [e1, Option.bind_eq_bind, Option.some_bind]
    exact f1
  · have : ccs_MaxDepth S0 - 1 + 1 = ccs_MaxDepth S0 := by omega
    rw [this] at f3
    exact f3

/-! ### The vertices whose edges descend from edges of the cage -/

/-- The halfedge `p` of level `depth` is on an edge with an identifier in
`[0, B)`. -/
def ccs_EdgeBelow (subd : cc_Subd) (depth : Nat) (B : Nat) (p : Int) : Prop :=
  ∃ e ∈ ccs_HalfedgeEdgeID subd p depth, 0 ≤ e ∧ e < (B : Int)

instance (subd : cc_Subd) (depth : Nat) (B : Nat) (p : Int) :
    Decidable (ccs_EdgeBelow subd depth B p) := by
  unfold ccs_EdgeBelow
  infer_instance

/-- The edges around the vertex `v` of level `depth` have identifiers in
`[0, B)`, and there are at least two of them: the edges are those of the
predecessors of the halfedges of the first walk of the kernel
`ccs__CreasedVertexPoints_Gather` around `v`, those of the successors of the
halfedges of its second walk, and, when the first walk leaves the mesh, the
edge of the halfedge of `v` itself. -/
def ccs_EdgesBelow (subd : cc_Subd) (edgeToHalfedgeID : Int → Nat → Int)
    (vertexToHalfedgeID_First : Int → Int) (depth fuel : Nat) (B : Nat) (v : Int) : Prop :=
  ∃ h ∈ ccs_VertexPointToHalfedgeID subd.cage edgeToHalfedgeID vertexToHalfedgeID_First
      v depth fuel,
    ∃ r ∈ ccs_VertexRing subd depth fuel h,
      ∃ back ∈ ccs_VertexRingBackward subd depth fuel h r.2,
        (∀ g ∈ r.1, ccs_EdgeBelow subd depth B (ccs_HalfedgePrevID subd g depth)) ∧
        (∀ g ∈ back, ccs_EdgeBelow subd depth B (ccs_HalfedgeNextID subd g depth)) ∧
        (r.2 < 0 → ccs_EdgeBelow subd depth B h) ∧
        2 ≤ r.1.length + back.length + (if r.2 < 0 then 1 else 0)

instance (subd : cc_Subd) (edgeToHalfedgeID : Int → Nat → Int)
    (vertexToHalfedgeID_First : Int → Int) (depth fuel : Nat) (B : Nat) (v : Int) :
    Decidable (ccs_EdgesBelow subd edgeToHalfedgeID vertexToHalfedgeID_First depth fuel B v) := by
  unfold ccs_EdgesBelow
  infer_instance

/-- The cage vertex `v` has at least two edges: the halfedges of the walk of the
kernel `ccs__CreasedCageVertexPoints_Gather` around `v`, and one more when the
walk leaves the mesh. -/
def ccm_TwoEdges (cage : cc_Mesh) (fuel : Nat) (v : Int) : Prop :=
  ∃ h ∈ ccm_VertexToHalfedgeID cage v, ∃ r ∈ ccm_VertexRing cage fuel h,
    2 ≤ r.1.length + (if r.2 < 0 then 1 else 0)

instance (cage : cc_Mesh) (fuel : Nat) (v : Int) : Decidable (ccm_TwoEdges cage fuel v) := by
  unfold ccm_TwoEdges
  infer_instance

theorem mem_of_map_eq_map_some {α β : Type} (f : α → Option β) :
    ∀ (l : List α) (items : List β), l.map f = items.map some →
      l.length = items.length ∧ ∀ r ∈ items, ∃ g ∈ l, f g = some r := by
  intro l
  induction l with
  | nil =>
    intro items h
    cases items with
    | nil => exact ⟨rfl, fun r hr => absurd hr (List.not_mem_nil r)⟩
    | cons _ _ => simp at h
  | cons a t ih =>
    intro items h
    cases items with
    | nil => simp at h
    | cons p ps =>
      simp only [List.map_cons, List.cons.injEq] at h
      obtain ⟨i1, i2⟩ := ih ps h.2
      refine ⟨by simp [i1], ?_⟩
      intro r hr
      rcases List.mem_cons.mp hr with e | e
      · exact ⟨a, List.mem_cons_self _ _, by rw [e]; exact h.1⟩
      · obtain ⟨g, hg, hfg⟩ := i2 r e
        exact ⟨g, List.mem_cons_of_mem _ hg, hfg⟩

/-- The sharpness of a halfedge of a level on an edge among the first `B`, whose
creases have a sharpness of at least `S`. -/
theorem level_halfedge_sharp (subd : cc_Subd) (depth : Nat) (cr : List cc_Crease) (B : Nat)
    (S : ℚ) (hcr : ccs__Level subd.creases depth = some cr) (hp : ccs_SharpPrefix cr B S)
    (p : Int) (hb : ccs_EdgeBelow subd depth B p) (Sx : ℚ)
    (hx : ccs_HalfedgeSharpness subd p depth = some Sx) : S ≤ Sx := by
  obtain ⟨e, he, e0, e1⟩ := hb
  rw [Option.mem_def] at he
  obtain ⟨hr, _, _, _, _, sh⟩ := hp.read e e0 e1
  unfold ccs_HalfedgeSharpness ccs_CreaseSharpness at hx
  rw [he, Option.some_bind, hcr] at hx
  simp only [Option.bind_eq_bind, Option.some_bind] at hx
  rw [(readAt_eq_some_iff _ _ _).mpr ⟨e0, hr⟩, Option.map_some', Option.some.injEq] at hx
  rw [← hx]
  exact sh

theorem level_newPoints_sharp (subd : cc_Subd) (depth : Nat) (cr : List cc_Crease) (B : Nat)
    (S : ℚ) (hcr : ccs__Level subd.creases depth = some cr) (hp : ccs_SharpPrefix cr B S)
    (V F : Int) (pts : List cc_VertexPoint) (p : Int) (hb : ccs_EdgeBelow subd depth B p)
    (x : cc_VertexPoint × cc_VertexPoint × ℚ)
    (hx : ccs_HalfedgeNewPoints subd depth V F pts p = some x) : S ≤ x.2.2 := by
  unfold ccs_HalfedgeNewPoints at hx
  simp only [Option.bind_eq_bind, Option.bind_eq_some, Option.some.injEq] at hx
  obtain ⟨e, _, Ep, _, Fp, _, Sx, hS, rfl⟩ := hx
  exact level_halfedge_sharp subd depth cr B S hcr hp p hb Sx hS

/-- The kernel `ccs__CreasedVertexPoints_Gather` on a readable level whose first
`B` creases have a positive sharpness: a vertex whose edges are among these `B`
and that has at least two of them keeps its position. -/
theorem level_vertex_pinned (u : cc_Subd) (e2h : Int → Nat → Int) (v2h : Int → Int)
    (d fuel : Nat) (out : List cc_VertexPoint)
    (hout : ccs__Level u.vertexPoints (d + 1) = some out)
    (hlen : ccm_VertexCountAtDepth_Fast u.cage d + ccm_FaceCountAtDepth_Fast u.cage d
      + ccm_EdgeCountAtDepth_Fast u.cage d ≤ out.length)
    (hv : ccs_CreasedVertexRingsReadable u e2h v2h d fuel)
    (cr : List cc_Crease) (B : Nat) (S : ℚ) (hS : 0 < S)
    (hcr : ccs__Level u.creases d = some cr) (hp : ccs_SharpPrefix cr B S) :
    ∃ out', ccs__CreasedVertexPoints_Gather u e2h v2h d fuel =
        some { u with vertexPoints := u.vertexPoints.set d out' } ∧
      out'.length = out.length ∧
      ∀ v : Nat, v < ccm_VertexCountAtDepth_Fast u.cage d →
        ccs_EdgesBelow u e2h v2h d fuel B v →
        ∃ Vp, ccs_VertexPoint u v d = some Vp ∧ out'[v]? = some Vp := by
  obtain ⟨o, e1, e2, _, e4⟩ := level_creased_vertex_kernel u e2h v2h d fuel out hout hlen hv
  refine ⟨o, e1, e2, ?_⟩
  intro v hlt hb
  obtain ⟨h, Vp, Eh, thisS, ring, back, last, itemsF, itemsB, a1, a2, a3, a4, _, a5, a6, a7, _,
    a8, _⟩ := level_creased_vertex_reads u e2h v2h d fuel hv out out hlen (fun _ _ => rfl) v hlt
  obtain ⟨h', hh', r', hr', back', hback', c1, c2, c3, c4⟩ := hb
  rw [Option.mem_def, a1] at hh'
  cases hh'
  rw [Option.mem_def, a5] at hr'
  cases hr'
  rw [Option.mem_def, a6] at hback'
  cases hback'
  obtain ⟨lF, mF⟩ := mem_of_map_eq_map_some _ ring itemsF a7
  obtain ⟨lB, mB⟩ := mem_of_map_eq_map_some _ back itemsB a8
  have hitems : ∀ r ∈ itemsF ++ itemsB, 0 < r.2.2 := by
    intro r hr
    rcases List.mem_append.mp hr with m | m
    · obtain ⟨g, hg, hfg⟩ := mF r m
      exact lt_of_lt_of_le hS (level_newPoints_sharp u d cr B S hcr hp _ _ out _ (c1 g hg) r hfg)
    · obtain ⟨g, hg, hfg⟩ := mB r m
      exact lt_of_lt_of_le hS (level_newPoints_sharp u d cr B S hcr hp _ _ out _ (c2 g hg) r hfg)
  have hT : last < 0 → 0 < thisS := fun hl =>
    lt_of_lt_of_le hS (level_halfedge_sharp u d cr B S hcr hp h (c3 hl) thisS a3)
  have hn : 2 ≤ (itemsF ++ itemsB).length + (if last < 0 then 1 else 0) := by
    rw [List.length_append, ← lF, ← lB]
    exact c4
  obtain ⟨n, k1, k2, k3, k4⟩ := sharp_counts (itemsF ++ itemsB) last thisS hitems hT hn
  refine ⟨Vp, a2, ?_⟩
  rw [e4 v hlt h Vp Eh thisS ring back last itemsF itemsB a1 a2 a3 a4 a5 a6 a7 a8,
    (level_rule_branches Vp Eh (cc__Signf thisS) last (cc_VertexLocals.sum (itemsF ++ itemsB))
      n n _ k1 k2 rfl).2.1 k3 k4]

/-- The sharpness of a halfedge of a cage whose halfedges have their edge in
range and whose creases have a sharpness of at least `S`. -/
theorem cage_halfedge_sharp (cage : cc_Mesh) (hc : ccm_Covered cage) (S : ℚ)
    (hp : ccs_SharpPrefix cage.creases (ccm_EdgeCount cage) S) (p : Int) (Sx : ℚ)
    (hx : ccm_HalfedgeSharpness cage p = some Sx) : S ≤ Sx := by
  unfold ccm_HalfedgeSharpness ccm_HalfedgeEdgeID at hx
  cases hrd : readAt cage.halfedges p with
  | none => simp [hrd] at hx
  | some r =>
    rw [hrd, Option.map_some', Option.some_bind] at hx
    obtain ⟨p0, p1⟩ := (readAt_eq_some_iff _ _ _).mp hrd
    obtain ⟨_, _, _, _, e0, e1⟩ := hc.1 r (List.getElem?_mem p1)
    obtain ⟨hr, _, _, _, _, sh⟩ := hp.read r.edgeID e0 e1
    unfold ccm_CreaseSharpness at hx
    rw [(readAt_eq_some_iff _ _ _).mpr ⟨e0, hr⟩, Option.map_some', Option.some.injEq] at hx
    rw [← hx]
    exact sh

theorem cage_newPoints_sharp (cage : cc_Mesh) (hc : ccm_Covered cage) (S : ℚ)
    (hp : ccs_SharpPrefix cage.creases (ccm_EdgeCount cage) S) (pts : List cc_VertexPoint)
    (g : Int) (x : cc_VertexPoint × cc_VertexPoint × ℚ)
    (hx : ccm_PrevNewPoints cage pts g = some x) : S ≤ x.2.2 := by
  unfold ccm_PrevNewPoints at hx
  obtain ⟨p, _, hx⟩ := Option.bind_eq_some.mp hx
  unfold ccm_HalfedgeNewPoints at hx
  simp only [Option.bind_eq_bind, Option.bind_eq_some, Option.some.injEq] at hx
  obtain ⟨e, _, f, _, Ep, _, Fp, _, Sx, hS, rfl⟩ := hx
  exact cage_halfedge_sharp cage hc S hp p Sx hS

/-- The kernel `ccs__CreasedCageVertexPoints_Gather` on a readable cage whose
creases have a positive sharpness: a vertex that has at least two edges keeps
its position. -/
theorem cage_vertex_pinned (u : cc_Subd) (fuel : Nat) (out : List cc_VertexPoint)
    (hout : u.vertexPoints[0]? = some out)
    (hlen : ccm_VertexCount u.cage + ccm_FaceCount u.cage + ccm_EdgeCount u.cage ≤ out.length)
    (hv : ccm_CreasedVertexRingsReadable u.cage fuel) (hc : ccm_Covered u.cage)
    (S : ℚ) (hS : 0 < S) (hp : ccs_SharpPrefix u.cage.creases (ccm_EdgeCount u.cage) S) :
    ∃ out', ccs__CreasedCageVertexPoints_Gather u fuel =
        some { u with vertexPoints := u.vertexPoints.set 0 out' } ∧
      out'.length = out.length ∧
      ∀ v : Nat, v < ccm_VertexCount u.cage → ccm_TwoEdges u.cage fuel v →
        ∃ Vp, ccm_VertexPoint u.cage v = some Vp ∧ out'[v]? = some Vp := by
  obtain ⟨o, e1, e2, _, e4⟩ := cage_creased_vertex_kernel u fuel out hout hlen hv
  refine ⟨o, e1, e2, ?_⟩
  intro v hlt hb
  obtain ⟨h, Vp, Eh, thisS, ring, last, items, a1, a2, a3, a4, _, a5, a6, _⟩ :=
    cage_creased_vertex_reads u.cage fuel hv out out hlen (fun _ _ => rfl) v hlt
  obtain ⟨h', hh', r', hr', c4⟩ := hb
  rw [Option.mem_def, a1] at hh'
  cases hh'
  rw [Option.mem_def, a5] at hr'
  cases hr'
  obtain ⟨lF, mF⟩ := mem_of_map_eq_map_some _ ring items a6
  have hitems : ∀ r ∈ items, 0 < r.2.2 := by
    intro r hr
    obtain ⟨g, hg, hfg⟩ := mF r hr
    exact lt_of_lt_of_le hS (cage_newPoints_sharp u.cage hc S hp out g r hfg)
  have hT : last < 0 → 0 < thisS := fun _ =>
    lt_of_lt_of_le hS (cage_halfedge_sharp u.cage hc S hp h thisS a3)
  have hn : 2 ≤ items.length + (if last < 0 then 1 else 0) := by
    rw [← lF]
    exact c4
  obtain ⟨n, k1, k2, k3, k4⟩ := sharp_counts items last thisS hitems hT hn
  refine ⟨Vp, a2, ?_⟩
  rw [e4 v hlt h Vp Eh thisS ring last items a1 a2 a3 a4 a5 a6,
    (cage_rule_branches Vp Eh (cc__Signf thisS) last (cc_VertexLocals.sum items) n n _
      k1 k2 rfl).2.1 k3 k4]

/-! ### The vertex point kernels of `ccs_RefineVertexPoints_Gather`, one depth
after the other -/

theorem ccs__Level_set_ne {α : Type} (buf : List (List α)) (d k : Nat) (x : List α)
    (hk : k ≠ d + 1) : ccs__Level (buf.set d x) k = ccs__Level buf k := by
  unfold ccs__Level
  split
  · rw [List.getElem?_set_ne (by omega)]
  · rfl

theorem ccs__Level_set_self {α : Type} (buf : List (List α)) (d : Nat) (x : List α)
    (hd : d < buf.length) : ccs__Level (buf.set d x) (d + 1) = some x := by
  rw [ccs__Level_succ, List.getElem?_set_self hd]

/-- A kernel that writes the region of level `d + 1` of the vertex point buffer
leaves the points of the other levels as they are. -/
theorem vertexPoint_set_ne (A A' : cc_Subd) (d : Nat) (out : List cc_VertexPoint)
    (h : A'.vertexPoints = A.vertexPoints.set d out) (v : Int) (k : Nat) (hk : k ≠ d + 1) :
    ccs_VertexPoint A' v k = ccs_VertexPoint A v k := by
  unfold ccs_VertexPoint
  rw [h, ccs__Level_set_ne _ _ _ _ hk]

theorem ccs_EdgesBelow_congr (A A' : cc_Subd) (hc : A'.cage = A.cage)
    (hh : A'.halfedges = A.halfedges) (e2h : Int → Nat → Int) (v2h : Int → Int)
    (depth fuel B : Nat) (v : Int) :
    ccs_EdgesBelow A' e2h v2h depth fuel B v = ccs_EdgesBelow A e2h v2h depth fuel B v := by
  obtain ⟨c, D, he, cr, vp⟩ := A
  obtain ⟨c', D', he', cr', vp'⟩ := A'
  simp only at hc hh
  subst hc hh
  rfl

/-- The three kernels of a depth `1 ≤ d < maxDepth` return on a ready
subdivision; they write the region of level `d + 1` of the vertex point buffer,
and when the first `B` creases of level `d` have a positive sharpness, a vertex
whose edges are among these and that has at least two of them keeps its
position. -/
theorem ccs_Ready.level_kernels_pinned {u : cc_Subd} {e2h : Int → Nat → Int}
    {v2h : Int → Int} {fuel : Nat} (hr : ccs_Ready u e2h v2h fuel) (d : Nat) (d1 : 1 ≤ d)
    (d2 : d < ccs_MaxDepth u) (cr : List cc_Crease) (B : Nat) (S : ℚ) (hS : 0 < S)
    (hcr : ccs__Level u.creases d = some cr) (hp : ccs_SharpPrefix cr B S) :
    ∃ u3, ccs_RefineVertexPoints_Gather_depth e2h v2h fuel u d = some u3 ∧
      ccs_SameShape u3 u ∧ (∃ out, u3.vertexPoints = u.vertexPoints.set d out) ∧
      ∀ v : Nat, v < ccm_VertexCountAtDepth_Fast u.cage d →
        ccs_EdgesBelow u e2h v2h d fuel B v →
        ∃ Vp, ccs_VertexPoint u v d = some Vp ∧ ccs_VertexPoint u3 v (d + 1) = some Vp := by
  have hHd : ccm_HalfedgeCountAtDepth u.cage d ≤ fuel :=
    le_trans (ccm_HalfedgeCountAtDepth_mono u.cage d (ccs_MaxDepth u) (by omega)) hr.fuel_le
  have hF := ccm_HalfedgeCountAtDepth_eq_faces u.cage d d1
  have hV : ccm_VertexCountAtDepth_Fast u.cage (d + 1)
      = ccm_VertexCountAtDepth_Fast u.cage d + ccm_FaceCountAtDepth_Fast u.cage d
        + ccm_EdgeCountAtDepth_Fast u.cage d := rfl
  obtain ⟨hs, out, ho, hlen⟩ := hr.levels d d1 d2
  obtain ⟨o1, e1, l1⟩ := level_face_total u d fuel out ho (by omega) (by omega) hs.facePoints
  rw [ccs__Level_succ] at ho
  have sh1 := sameShape_of_set u d out o1 ho l1
  have hr1 := hr.of_sameShape sh1
  obtain ⟨hs1, out1, ho1, hlen1⟩ := hr1.levels d d1 d2
  obtain ⟨o2, e2, l2, _⟩ := level_creased_edge_kernel _ e2h d out1 ho1 hlen1
    (hs1.edgeReadsInBounds e2h (hr1.helpers.1 d d2 d1))
  rw [ccs__Level_succ] at ho1
  have sh2 := sameShape_of_set _ d out1 o2 ho1 l2
  have hr2 := hr1.of_sameShape sh2
  obtain ⟨hs2, out2, ho2, hlen2⟩ := hr2.levels d d1 d2
  obtain ⟨o3, e3, l3, e4⟩ := level_vertex_pinned _ e2h v2h d fuel out2 ho2 hlen2
    (hs2.vertexRingsReadable e2h v2h fuel hHd (by
      intro v hv
      obtain ⟨l, _, hvl⟩ := hs2.halfedges
      obtain ⟨c, hc, _⟩ := hvl.2.2.2.1.2 v hv
      have hpos : 0 < ccm_HalfedgeCount u.cage := by
        by_contra hz
        have hz' : ccm_HalfedgeCount u.cage = 0 := by omega
        have : ccm_HalfedgeCountAtDepth u.cage d = 0 := by
          unfold ccm_HalfedgeCountAtDepth
          rw [hz', Nat.zero_mul]
        have hc' : c < ccm_HalfedgeCountAtDepth u.cage d := hc
        omega
      have hfl := hr.fuel_le
      have hpow : ccs_MaxDepth u < 4 ^ ccs_MaxDepth u := Nat.lt_pow_self (by norm_num) _
      have hge : 4 ^ ccs_MaxDepth u ≤ ccm_HalfedgeCountAtDepth u.cage (ccs_MaxDepth u) := by
        unfold ccm_HalfedgeCountAtDepth
        exact Nat.le_mul_of_pos_left _ hpos
      exact vertexPoint_loop_range _ _ e2h v2h hr2.helpers d fuel d1 (le_of_lt d2)
        (by omega) v (by omega) (by exact_mod_cast hv)))
    cr B S hS hcr hp
  have ho2' := ho2
  rw [ccs__Level_succ] at ho2
  have sh3 := sameShape_of_set _ d out2 o3 ho2 l3
  have hdlt : d < u.vertexPoints.length := by
    by_contra hc
    rw [List.getElem?_eq_none (by omega)] at ho
    cases ho
  refine ⟨_, ?_, (sh3.trans sh2).trans sh1, ⟨o3, ?_⟩, ?_⟩
  · unfold ccs_RefineVertexPoints_Gather_depth
    rw [e1, Option.some_bind, e2, Option.some_bind, e3]
  · show ((u.vertexPoints.set d o1).set d o2).set d o3 = u.vertexPoints.set d o3
    rw [List.set_set, List.set_set]
  · intro v hv hb
    obtain ⟨Vp, a1, a2⟩ := e4 v hv hb
    refine ⟨Vp, ?_, ?_⟩
    · rw [← a1]
      unfold ccs_VertexPoint
      show _ = (ccs__Level ((u.vertexPoints.set d o1).set d o2) d).bind _
      rw [ccs__Level_set_ne _ _ _ _ (by omega), ccs__Level_set_ne _ _ _ _ (by omega)]
      rfl
    · unfold ccs_VertexPoint
      show (ccs__Level (((u.vertexPoints.set d o1).set d o2).set d o3) (d + 1)).bind _ = _
      rw [ccs__Level_set_self _ _ _ (by simp only [List.length_set]; exact hdlt)]
      simp only [Option.bind_eq_bind, Option.some_bind, readAt_natCast]
      exact a2

/-- The three cage kernels return on a ready subdivision; they write the region
of level 1 of the vertex point buffer, and when the creases of the cage have a
positive sharpness, a vertex that has at least two edges keeps its position. -/
theorem ccs_Ready.cage_kernels_pinned {u : cc_Subd} {e2h : Int → Nat → Int} {v2h : Int → Int}
    {fuel : Nat} (hr : ccs_Ready u e2h v2h fuel) (S : ℚ) (hS : 0 < S)
    (hp : ccs_SharpPrefix u.cage.creases (ccm_EdgeCount u.cage) S) :
    ∃ u1 u2 u3, ccs__CageFacePoints_Gather u fuel = some u1 ∧
      ccs__CreasedCageEdgePoints_Gather u1 = some u2 ∧
      ccs__CreasedCageVertexPoints_Gather u2 fuel = some u3 ∧ ccs_SameShape u3 u ∧
      ∀ v : Nat, v < ccm_VertexCount u.cage → ccm_TwoEdges u.cage fuel v →
        ∃ Vp, ccm_VertexPoint u.cage v = some Vp ∧ ccs_VertexPoint u3 v 1 = some Vp := by
  have hH0 : ccm_HalfedgeCount u.cage ≤ fuel + 1 := by
    have := ccm_HalfedgeCountAtDepth_mono u.cage 0 (ccs_MaxDepth u) (Nat.zero_le _)
    have h2 := hr.fuel_le
    rw [ccm_HalfedgeCountAtDepth_zero] at this
    omega
  obtain ⟨out, ho, hlen⟩ := hr.points0
  rw [ccs__Level_succ] at ho
  have hlen' : ccm_VertexCount u.cage + ccm_FaceCount u.cage + ccm_EdgeCount u.cage
      ≤ out.length := hlen
  obtain ⟨o1, e1, l1, _⟩ := cage_face_kernel u fuel out ho (by omega)
    (hr.cage.faceRingsReadable fuel hH0)
  have sh1 := sameShape_of_set u 0 out o1 ho l1
  have hr1 := hr.of_sameShape sh1
  obtain ⟨out1, ho1, hlen1⟩ := hr1.points0
  rw [ccs__Level_succ] at ho1
  obtain ⟨o2, e2, l2, _⟩ := cage_creased_edge_kernel _ out1 ho1 hlen1
    hr1.cage.creasedEdgeReadsInBounds
  have sh2 := sameShape_of_set _ 0 out1 o2 ho1 l2
  have hr2 := hr1.of_sameShape sh2
  obtain ⟨out2, ho2, hlen2⟩ := hr2.points0
  rw [ccs__Level_succ] at ho2
  obtain ⟨o3, e3, l3, e4⟩ := cage_vertex_pinned _ fuel out2 ho2 hlen2
    (hr2.cage.creasedVertexRingsReadable fuel hH0) hr.cage.2.2.2.1 S hS hp
  have sh3 := sameShape_of_set _ 0 out2 o3 ho2 l3
  have h0lt : 0 < u.vertexPoints.length := by
    by_contra hc
    rw [List.getElem?_eq_none (by omega)] at ho
    cases ho
  refine ⟨_, _, _, e1, e2, e3, (sh3.trans sh2).trans sh1, ?_⟩
  intro v hv hb
  obtain ⟨Vp, a1, a2⟩ := e4 v hv hb
  refine ⟨Vp, a1, ?_⟩
  unfold ccs_VertexPoint
  show (ccs__Level (((u.vertexPoints.set 0 o1).set 0 o2).set 0 o3) (0 + 1)).bind _ = _
  rw [ccs__Level_set_self _ _ _ (by simp only [List.length_set]; exact h0lt)]
  simp only [Option.bind_eq_bind, Option.some_bind, readAt_natCast]
  exact a2

/-- The levels `1 ≤ l < k` of the subdivision `A` are pinned: a vertex of level
`l` whose edges descend from edges of the cage and that has at least two of them
has at level `l + 1` the position it has at level `l`. -/
def ccs_LevelsPinned (A : cc_Subd) (e2h : Int → Nat → Int) (v2h : Int → Int) (fuel k : Nat) :
    Prop :=
  ∀ l : Nat, 1 ≤ l → l < k → ∀ v : Nat, v < ccm_VertexCountAtDepth_Fast A.cage l →
    ccs_EdgesBelow A e2h v2h l fuel (2 ^ l * ccm_EdgeCount A.cage) v →
    ∃ Vp, ccs_VertexPoint A v l = some Vp ∧ ccs_VertexPoint A v (l + 1) = some Vp

/-- The vertices of the cage are pinned in the subdivision `A`: a vertex that
has at least two edges has at level 1 the position it has in the cage. -/
def ccs_CagePinned (A : cc_Subd) (fuel : Nat) : Prop :=
  ∀ v : Nat, v < ccm_VertexCount A.cage → ccm_TwoEdges A.cage fuel v →
    ∃ Vp, ccm_VertexPoint A.cage v = some Vp ∧ ccs_VertexPoint A v 1 = some Vp

/-- The entry point `ccs_RefineVertexPoints_Gather` on a ready subdivision whose
creases that descend from the creases of the cage have, at every level
`l < maxDepth`, a sharpness of at least `Sh - l`, with `Sh ≥ maxDepth`: it
returns, and the vertices whose edges descend from edges of the cage and that
have at least two edges keep their position, at every level. -/
theorem ccs_Ready.gather_pinned {u : cc_Subd} {e2h : Int → Nat → Int} {v2h : Int → Int}
    {fuel : Nat} (hr : ccs_Ready u e2h v2h fuel) (Sh : ℚ)
    (hSh : ((ccs_MaxDepth u : Nat) : ℚ) ≤ Sh) (hD : 1 ≤ ccs_MaxDepth u)
    (hp : ccs_SharpPrefix u.cage.creases (ccm_EdgeCount u.cage) Sh)
    (hl : ccs_SharpLevels u.cage u.creases Sh (ccs_MaxDepth u)) :
    ∃ r, ccs_RefineVertexPoints_Gather u e2h v2h fuel = some r ∧ ccs_SameShape r u ∧
      ccs_CagePinned r fuel ∧ ccs_LevelsPinned r e2h v2h fuel (ccs_MaxDepth u) := by
  have hSpos : (0 : ℚ) < Sh := by
    have : (1 : ℚ) ≤ ((ccs_MaxDepth u : Nat) : ℚ) := by exact_mod_cast hD
    linarith
  obtain ⟨u1, u2, u3, e1, e2, e3, sh, hpin⟩ := hr.cage_kernels_pinned Sh hSpos hp
  unfold ccs_RefineVertexPoints_Gather
  simp only [e1, e2, e3, Option.bind_eq_bind, Option.some_bind]
  have hm : ccs_MaxDepth u3 = ccs_MaxDepth u := sh.2.1
  rw [hm]
  have key : ∀ n : Nat, n + 1 ≤ ccs_MaxDepth u →
      ∃ A, (List.range' 1 n).foldlM (ccs_RefineVertexPoints_Gather_depth e2h v2h fuel) u3
          = some A ∧ ccs_SameShape A u ∧ ccs_CagePinned A fuel ∧
        ccs_LevelsPinned A e2h v2h fuel (n + 1) := by
    intro n
    induction n with
    | zero =>
      intro _
      refine ⟨u3, rfl, sh, ?_, ?_⟩
      · intro v hv hb
        rw [sh.1] at hv hb ⊢
        exact hpin v hv hb
      · intro l l1 l2
        omega
    | succ n ih =>
      intro hn
      obtain ⟨A, f1, shA, cA, lA⟩ := ih (by omega)
      have hrA := hr.of_sameShape shA
      have hmA : ccs_MaxDepth A = ccs_MaxDepth u := shA.2.1
      have hlt : n < u.creases.length := by
        by_contra hc
        obtain ⟨hs, _⟩ := hr.levels (n + 1) (by omega) (by omega)
        obtain ⟨c, hc1, _⟩ := hs.creases
        rw [ccs__Level_succ, List.getElem?_eq_none (by omega)] at hc1
        cases hc1
      have hcr : ccs__Level A.creases (n + 1) = some u.creases[n] := by
        rw [shA.2.2.2.1, ccs__Level_succ]
        exact List.getElem?_eq_getElem hlt
      have hpre := hl n (by omega) _ (Option.mem_def.mpr (List.getElem?_eq_getElem hlt))
      have hpos : (0 : ℚ) < Sh - ((n + 1 : Nat) : ℚ) := by
        have : ((n + 1 + 1 : Nat) : ℚ) ≤ ((ccs_MaxDepth u : Nat) : ℚ) := by exact_mod_cast hn
        push_cast at this ⊢
        linarith
      obtain ⟨A', g1, shA', ⟨out, hset⟩, hnew⟩ := hrA.level_kernels_pinned (n + 1) (by omega)
        (by rw [hmA]; omega) u.creases[n] (2 ^ (n + 1) * ccm_EdgeCount u.cage)
        (Sh - ((n + 1 : Nat) : ℚ)) hpos hcr hpre
      refine ⟨A', ?_, shA'.trans shA, ?_, ?_⟩
      · rw [List.range'_concat, List.foldlM_append, f1]
        simp only [Option.bind_eq_bind, Option.some_bind, one_mul, List.foldlM_cons,
          List.foldlM_nil]
        have : 1 + n = n + 1 := by omega
        rw [this, g1]
        rfl
      · intro v hv hb
        rw [shA'.1] at hv hb ⊢
        obtain ⟨Vp, a1, a2⟩ := cA v hv hb
        refine ⟨Vp, a1, ?_⟩
        rw [vertexPoint_set_ne A A' (n + 1) out hset v 1 (by omega)]
        exact a2
      · intro l l1 l2 v hv hb
        rw [shA'.1] at hv
        rw [ccs_EdgesBelow_congr A A' shA'.1 shA'.2.2.1, shA'.1] at hb
        by_cases c : l = n + 1
        · subst c
          rw [shA.1] at hb
          obtain ⟨Vp, a1, a2⟩ := hnew v hv hb
          refine ⟨Vp, ?_, a2⟩
          rw [vertexPoint_set_ne A A' (n + 1) out hset v (n + 1) (by omega)]
          exact a1
        · obtain ⟨Vp, a1, a2⟩ := lA l l1 (by omega) v hv hb
          refine ⟨Vp, ?_, ?_⟩
          · rw [vertexPoint_set_ne A A' (n + 1) out hset v l (by omega)]
            exact a1
          · rw [vertexPoint_set_ne A A' (n + 1) out hset v (l + 1) (by omega)]
            exact a2
  obtain ⟨A, f, shA, cA, lA⟩ := key (ccs_MaxDepth u - 1) (by omega)
  have : ccs_MaxDepth u - 1 + 1 = ccs_MaxDepth u := by omega
  rw [this] at lA
  exact ⟨A, f, shA, cA, lA⟩

/-- The entry point `ccs_RefineHalfedges` changes neither the cage nor the
depth. -/
theorem ccs_RefineHalfedges_keeps_cage (S T : cc_Subd) (h : ccs_RefineHalfedges S = some T) :
    T.cage = S.cage ∧ ccs_MaxDepth T = ccs_MaxDepth S := by
  unfold ccs_RefineHalfedges at h
  obtain ⟨S1, h1, h2⟩ := Option.bind_eq_some.mp h
  have k1 : S1.cage = S.cage ∧ S1.maxDepth = S.maxDepth := by
    unfold ccs__RefineCageHalfedges at h1
    simp only [Option.bind_eq_bind, Option.bind_eq_some, Option.some.injEq] at h1
    obtain ⟨p, _, out, _, rfl⟩ := h1
    exact ⟨rfl, rfl⟩
  have k2 := foldlM_keeps (fun S => (S.cage, S.maxDepth))
    (fun s depth => ccs__RefineHalfedges s depth)
    (by
      intro A B d hAB
      unfold ccs__RefineHalfedges at hAB
      simp only [Option.bind_eq_bind, Option.bind_eq_some, Option.some.injEq] at hAB
      obtain ⟨p, _, out, _, rfl⟩ := hAB
      rfl) _ S1 T h2
  simp only [Prod.mk.injEq] at k2
  exact ⟨k2.1.trans k1.1, k2.2.trans k1.2⟩

/-- The creases of a cage whose edges all have a sharpness of at least `Sh`. -/
theorem cage_sharpPrefix (cage : cc_Mesh)
    (hw : ccs_CreaseLinksInBounds cage.creases (ccm_EdgeCount cage)) (Sh : ℚ)
    (hsharp : ∀ e : Nat, e < ccm_EdgeCount cage → ∃ S ∈ ccm_CreaseSharpness cage e, Sh ≤ S) :
    ccs_SharpPrefix cage.creases (ccm_EdgeCount cage) Sh := by
  refine ⟨hw.1, ?_⟩
  intro e he c hc
  obtain ⟨n0, n1, p0, p1⟩ := hw.2 e he c hc
  obtain ⟨S, hS, hle⟩ := hsharp e he
  unfold ccm_CreaseSharpness at hS
  rw [Option.mem_def, readAt_natCast, Option.mem_def.mp hc, Option.map_some',
    Option.some.injEq] at hS
  rw [hS]
  exact ⟨n0, n1, p0, p1, hle⟩

/-- C26 (as amended): on a cage whose edges all have a sharpness of at least the
depth `D`, the creased vertex point kernels keep the vertices whose edges all
descend from edges of the cage.  On a subdivision `s` of depth `D ≥ 1` of a cage
that satisfies the invariants of the data model, whose buffers are allocated
(`ccs_Constructed`), with helpers that return halfedges of their level and loops
that may run for `H_D` iterations, when every edge of the cage has a sharpness
of at least `D`, `ccs_Refine_Gather` returns: `ccs__RefineTopology` gives a
subdivision `T` and the vertex point kernels the subdivision `r`, in which

* every vertex `v` of the cage that has at least two edges (`ccm_TwoEdges`) has
  at level 1 the position it has in the cage: that is what
  `ccs__CreasedCageVertexPoints_Gather` has written for it;
* at every level `1 ≤ l < D`, every vertex `v` whose edges all descend from
  edges of the cage (their identifiers are below `2^l E0`) and that has at least
  two of them (`ccs_EdgesBelow`) has at level `l + 1` the position it has at
  level `l`: that is what `ccs__CreasedVertexPoints_Gather` at the depth `l` has
  written for it.

Nothing is claimed for the vertices that have an edge interior to a face of a
previous level, whose crease record no kernel writes. -/
theorem C26_sharp_vertices_pinned (cc__EncodeUv : cc_VertexUv → Int)
    (cc__DecodeUv : Int → cc_VertexUv) (s : cc_Subd) (edgeToHalfedgeID : Int → Nat → Int)
    (vertexToHalfedgeID_First : Int → Int) (fuel : Nat) (hD : 1 ≤ ccs_MaxDepth s)
    (hcage : ccm_Valid s.cage)
    (huv : 0 < ccm_UvCount s.cage → ccm_UvIDsInBounds s.cage)
    (hc : ccs_Constructed s)
    (hh : ccs_HelpersInBounds s.cage (ccs_MaxDepth s) edgeToHalfedgeID
      vertexToHalfedgeID_First)
    (hf : ccm_HalfedgeCountAtDepth s.cage (ccs_MaxDepth s) ≤ fuel)
    (hsharp : ∀ e : Nat, e < ccm_EdgeCount s.cage →
      ∃ S ∈ ccm_CreaseSharpness s.cage e, ((ccs_MaxDepth s : Nat) : ℚ) ≤ S) :
    ∃ T r, ccs__RefineTopology cc__EncodeUv cc__DecodeUv s fuel = some T ∧
      ccs_RefineVertexPoints_Gather T edgeToHalfedgeID vertexToHalfedgeID_First fuel = some r ∧
      ccs_Refine_Gather cc__EncodeUv cc__DecodeUv s edgeToHalfedgeID
        vertexToHalfedgeID_First fuel = some r ∧
      (∀ v : Nat, v < ccm_VertexCount s.cage → ccm_TwoEdges s.cage fuel v →
        ∃ Vp, ccm_VertexPoint s.cage v = some Vp ∧ ccs_VertexPoint r v 1 = some Vp) ∧
      ∀ l : Nat, 1 ≤ l → l < ccs_MaxDepth s →
        ∀ v : Nat, v < ccm_VertexCountAtDepth_Fast s.cage l →
          ccs_EdgesBelow T edgeToHalfedgeID vertexToHalfedgeID_First l fuel
            (2 ^ l * ccm_EdgeCount s.cage) v →
          ∃ Vp, ccs_VertexPoint r v l = some Vp ∧ ccs_VertexPoint r v (l + 1) = some Vp := by
  obtain ⟨T1, T2, T, a1, a2, a3, a4, _, sh, a5, hcT, hmT⟩ := refineTopology_total cc__EncodeUv
    cc__DecodeUv s edgeToHalfedgeID vertexToHalfedgeID_First fuel hD hcage huv hc hh hf
  obtain ⟨k1, k2⟩ := ccs_RefineHalfedges_keeps s T1 a1
  obtain ⟨k3, k4⟩ := ccs_RefineHalfedges_keeps_cage s T1 a1
  have hp := cage_sharpPrefix s.cage hcage.2.2.2.2.1 _ hsharp
  obtain ⟨S, b1, b2⟩ := refineCreases_sharp T1 (by rw [k4]; exact hD)
    (by rw [k3, k4, k1]; exact hc.2.1) (by rw [k3]; exact hcage.2.2.2.2.1)
    ((ccs_MaxDepth s : Nat) : ℚ) (by rw [k3]; exact hp)
  rw [a2] at b1
  cases b1
  rw [k3, k4] at b2
  obtain ⟨r, g1, shr, g2, g3⟩ := a5.gather_pinned ((ccs_MaxDepth s : Nat) : ℚ)
    (by rw [hmT]) (by rw [hmT]; exact hD) (by rw [hcT]; exact hp)
    (by rw [hcT, hmT, sh.creases_eq]; exact b2)
  have hcr : r.cage = s.cage := shr.1.trans hcT
  refine ⟨T, r, a4, g1, ?_, ?_, ?_⟩
  · unfold ccs_Refine_Gather
    simp only [a4, g1, Option.bind_eq_bind, Option.some_bind]
  · intro v hv hb
    have := g2 v (by rw [hcr]; exact hv) (by rw [hcr]; exact hb)
    rw [hcr] at this
    exact this
  · intro l l1 l2 v hv hb
    have := g3 l l1 (by rw [hmT]; exact l2) v (by rw [hcr]; exact hv)
      (by rw [ccs_EdgesBelow_congr T r shr.1 shr.2.2.1, hcr]; exact hb)
    exact this

/-- C26 (as amended), witness: the triangle `sharpTriangle`, whose three edges
have the sharpness 3, refined to the depth 2 on zeroed buffers.  The vertex 0 of
the cage has two edges and keeps its position at level 1; in the refined
topology the vertex 0 of level 1 has two edges, the edges 0 and 5 of level 1,
which descend from the edges 0 and 2 of the cage, and it keeps its position at
level 2. -/
theorem C26_sharp_vertices_pinned_witness :
    ccm_Valid sharpTriangle ∧ ccs_Constructed sharpTriangleBlank ∧
    ccs_HelpersInBounds sharpTriangle 2 sharpTriangleEdgeToHalfedgeID
      sharpTriangleVertexToHalfedgeID_First ∧
    (∀ e : Nat, e < ccm_EdgeCount sharpTriangle →
      ∃ S ∈ ccm_CreaseSharpness sharpTriangle e, ((2 : Nat) : ℚ) ≤ S) ∧
    ∃ T r, ccs__RefineTopology (fun _ => 0) (fun _ => (0, 0)) sharpTriangleBlank 48 = some T ∧
      ccs_Refine_Gather (fun _ => 0) (fun _ => (0, 0)) sharpTriangleBlank
        sharpTriangleEdgeToHalfedgeID sharpTriangleVertexToHalfedgeID_First 48 = some r ∧
      ccm_TwoEdges sharpTriangle 48 0 ∧
      (∃ Vp, ccm_VertexPoint sharpTriangle 0 = some Vp ∧ ccs_VertexPoint r 0 1 = some Vp) ∧
      ccs_EdgesBelow T sharpTriangleEdgeToHalfedgeID sharpTriangleVertexToHalfedgeID_First
        1 48 6 0 ∧
      ∃ Vp, ccs_VertexPoint r 0 1 = some Vp ∧ ccs_VertexPoint r 0 2 = some Vp := by
  have hs : ∀ e : Nat, e < ccm_EdgeCount sharpTriangle →
      ∃ S ∈ ccm_CreaseSharpness sharpTriangle e, ((2 : Nat) : ℚ) ≤ S := by decide!
  obtain ⟨T, r, hT, _, hr, hc, hl⟩ := C26_sharp_vertices_pinned (fun _ => 0) (fun _ => (0, 0))
    sharpTriangleBlank sharpTriangleEdgeToHalfedgeID sharpTriangleVertexToHalfedgeID_First 48
    (by decide) (by decide) (fun h => absurd h (by decide)) (by decide) (by decide)
    (by decide) hs
  have h2 : ccm_TwoEdges sharpTriangle 48 0 := by decide
  have hall : (ccs__RefineTopology (fun _ => 0) (fun _ => (0, 0)) sharpTriangleBlank 48).all
      (fun T => decide (ccs_EdgesBelow T sharpTriangleEdgeToHalfedgeID
        sharpTriangleVertexToHalfedgeID_First 1 48 6 0)) = true := by decide!
  rw [hT] at hall
  have hE : ccs_EdgesBelow T sharpTriangleEdgeToHalfedgeID
      sharpTriangleVertexToHalfedgeID_First 1 48 6 0 := of_decide_eq_true hall
  exact ⟨by decide, by decide, by decide, hs, T, r, hT, hr, h2, hc 0 (by decide) h2, hE,
    hl 1 (by decide) (by decide) 0 (by decide) hE⟩

/-! ## C25: the creases of a cage without sharpness

The crease kernels write the sharpness `max(0, (S_p + 3S)/4 - 1)`, which is 0
when the parent creases have the sharpness 0.  The records of a level that no
kernel writes (the records from `2 * E_d` on) keep what the buffer held. -/

/-- The first `E` records of a crease array hold the sharpness 0. -/
def ccs_ZeroSharp (creases : List cc_Crease) (E : Nat) : Prop :=
  ∀ e : Nat, e < E → ∀ c ∈ creases[e]?, c.sharpness = 0

instance (creases : List cc_Crease) (E : Nat) : Decidable (ccs_ZeroSharp creases E) := by
  unfold ccs_ZeroSharp
  infer_instance

/-- The crease records of the levels `1 .. maxDepth` that no kernel writes (the
records from `2 * E_d` on of the region of level `d + 1`) hold the sharpness 0,
as in a zeroed buffer. -/
def ccs_CreasesBlank (cage : cc_Mesh) (maxDepth : Nat) (creases : List (List cc_Crease)) :
    Prop :=
  ∀ d : Nat, d < maxDepth → ∀ l ∈ creases[d]?,
    ∀ j : Nat, j < ccm_EdgeCountAtDepth_Fast cage (d + 1) →
      2 * ccm_EdgeCountAtDepth_Fast cage d ≤ j → ∀ c ∈ l[j]?, c.sharpness = 0

instance (cage : cc_Mesh) (maxDepth : Nat) (creases : List (List cc_Crease)) :
    Decidable (ccs_CreasesBlank cage maxDepth creases) := by
  unfold ccs_CreasesBlank
  infer_instance

theorem ccs_ZeroSharp.read_zero {creases : List cc_Crease} {E : Nat} (hz : ccs_ZeroSharp creases E)
    (hE : E ≤ creases.length) (e : Int) (e0 : 0 ≤ e) (e1 : e < (E : Int)) :
    (creases.getD e.toNat default).sharpness = 0 := by
  have hlt : e.toNat < creases.length := by omega
  have hr : creases[e.toNat]? = some (creases.getD e.toNat default) := by
    simp [List.getD_eq_getElem?_getD, List.getElem?_eq_getElem hlt]
  exact hz e.toNat (by omega) _ (Option.mem_def.mpr hr)

/-- The children of creases of sharpness 0 have the sharpness 0. -/
theorem creaseRefined_zero (creases : List cc_Crease) (E E' : Nat)
    (hw : ccs_CreaseLinksInBounds creases E) (hz : ccs_ZeroSharp creases E)
    (out out' : List cc_Crease) (hr : CreaseRefined (creaseParent creases E) out out')
    (hb : ∀ j : Nat, j < E' → 2 * E ≤ j → ∀ c ∈ out[j]?, c.sharpness = 0) :
    ccs_ZeroSharp out' E' := by
  intro j hj c hc
  by_cases c2 : j < 2 * E
  · have he : j / 2 < E := by omega
    obtain ⟨s0, s1⟩ := hr.slots (j / 2) (show j / 2 < (creaseParent creases E).E from he)
    obtain ⟨n0, n1, p0, p1⟩ := creaseParent_range creases E hw ((j / 2 : Nat) : Int) (by omega)
      (by omega)
    have z0 : (creaseParent creases E).sharp ((j / 2 : Nat) : Int) = 0 :=
      hz.read_zero hw.1 _ (by omega) (by omega)
    have zn : (creaseParent creases E).sharp
        ((creaseParent creases E).next ((j / 2 : Nat) : Int)) = 0 := hz.read_zero hw.1 _ n0 n1
    have zp : (creaseParent creases E).sharp
        ((creaseParent creases E).prev ((j / 2 : Nat) : Int)) = 0 := hz.read_zero hw.1 _ p0 p1
    have hj2 : j = 2 * (j / 2) ∨ j = 2 * (j / 2) + 1 := by omega
    rcases hj2 with e | e
    · rw [e] at hc
      rw [Option.mem_def, s0] at hc
      have := Option.some.inj hc
      subst this
      simp only [creaseChild0, z0, zp]
      norm_num
    · rw [e] at hc
      rw [Option.mem_def, s1] at hc
      have := Option.some.inj hc
      subst this
      simp only [creaseChild1, z0, zn]
      norm_num
  · rw [Option.mem_def, hr.untouched j (show 2 * (creaseParent creases E).E ≤ j from by
      show 2 * E ≤ j
      omega)] at hc
    exact hb j hj (by omega) c (Option.mem_def.mpr hc)

/-- In the regions of the levels `1 .. k` of the crease buffer, every crease of
the level has the sharpness 0. -/
def ccs_ZeroLevels (cage : cc_Mesh) (creases : List (List cc_Crease)) (k : Nat) : Prop :=
  ∀ l : Nat, l < k → ∀ cr ∈ creases[l]?,
    ccs_ZeroSharp cr (ccm_EdgeCountAtDepth_Fast cage (l + 1))

theorem zeroLevels_set (cage : cc_Mesh) (D : Nat) (cr : List (List cc_Crease)) (k : Nat)
    (o : List cc_Crease) (hk : k < cr.length) (hb : ccs_CreasesBlank cage D cr)
    (hs : ccs_ZeroLevels cage cr k)
    (ho : ccs_ZeroSharp o (ccm_EdgeCountAtDepth_Fast cage (k + 1))) :
    ccs_CreasesBlank cage D (cr.set k o) ∧ ccs_ZeroLevels cage (cr.set k o) (k + 1) := by
  constructor
  · intro d hd l hl j hj1 hj2 c hc
    by_cases e : d = k
    · subst e
      rw [Option.mem_def, List.getElem?_set_self hk] at hl
      have := Option.some.inj hl
      subst this
      exact ho j hj1 c hc
    · rw [Option.mem_def, List.getElem?_set_ne (fun x => e x.symm)] at hl
      exact hb d hd l (Option.mem_def.mpr hl) j hj1 hj2 c hc
  · intro l hl c hc
    by_cases e : l = k
    · subst e
      rw [Option.mem_def, List.getElem?_set_self hk] at hc
      have := Option.some.inj hc
      subst this
      exact ho
    · rw [Option.mem_def, List.getElem?_set_ne (fun x => e x.symm)] at hc
      exact hs l (by omega) c (Option.mem_def.mpr hc)

/-- The kernel `ccs__RefineCageCreases` on a cage whose creases have the
sharpness 0. -/
theorem refineCageCreases_zero (S0 : cc_Subd) (hD : 1 ≤ ccs_MaxDepth S0)
    (ha : ccs_CreasesAllocated S0.cage (ccs_MaxDepth S0) S0.creases)
    (hw : ccs_CreaseLinksInBounds S0.cage.creases (ccm_EdgeCount S0.cage))
    (hz : ccs_ZeroSharp S0.cage.creases (ccm_EdgeCount S0.cage))
    (hb : ccs_CreasesBlank S0.cage (ccs_MaxDepth S0) S0.creases) :
    ∃ S, ccs__RefineCageCreases S0 = some S ∧ ccs_CreaseStage S0 S 1 ∧
      ccs_CreasesBlank S0.cage (ccs_MaxDepth S0) S.creases ∧
      ccs_ZeroLevels S0.cage S.creases 1 := by
  obtain ⟨S, e1, e2⟩ := refineCageCreases_stage S0 hD ha hw
  refine ⟨S, e1, e2, ?_⟩
  have hlt : 0 < S0.creases.length := by have := ha.1; omega
  have hout : S0.creases[0]? = some S0.creases[0] := List.getElem?_eq_getElem hlt
  obtain ⟨b1, _⟩ := ha.2 0 hD _ (Option.mem_def.mpr hout)
  have hE : ccm_EdgeCountAtDepth_Fast S0.cage (0 + 1)
      = 2 * ccm_EdgeCount S0.cage + ccm_HalfedgeCountAtDepth S0.cage 0 := rfl
  obtain ⟨o, f1, f2⟩ := cage_crease_kernel_spec S0 _ hout hw (by omega)
  rw [e1] at f1
  cases f1
  have hzo := creaseRefined_zero _ (ccm_EdgeCount S0.cage)
    (ccm_EdgeCountAtDepth_Fast S0.cage (0 + 1)) hw hz _ _ f2
    (fun j hj1 hj2 c hc => hb 0 hD _ (Option.mem_def.mpr hout) j hj1 hj2 c hc)
  exact zeroLevels_set S0.cage (ccs_MaxDepth S0) S0.creases 0 o hlt hb
    (fun l hl => absurd hl (Nat.not_lt_zero l)) hzo

/-- The kernel `ccs__RefineCreases` at a depth `1 ≤ k < maxDepth` whose creases
have the sharpness 0. -/
theorem refineCreases_zero_stage (S0 S : cc_Subd) (k : Nat) (hs : ccs_CreaseStage S0 S k)
    (hb : ccs_CreasesBlank S0.cage (ccs_MaxDepth S0) S.creases)
    (hz : ccs_ZeroLevels S0.cage S.creases k) (h1 : 1 ≤ k) (h2 : k < ccs_MaxDepth S0) :
    ∃ S', ccs__RefineCreases S k = some S' ∧ ccs_CreaseStage S0 S' (k + 1) ∧
      ccs_CreasesBlank S0.cage (ccs_MaxDepth S0) S'.creases ∧
      ccs_ZeroLevels S0.cage S'.creases (k + 1) := by
  obtain ⟨S', g1, g2⟩ := refineCreases_stage S0 S k hs h1 h2
  refine ⟨S', g1, g2, ?_⟩
  obtain ⟨⟨cr, rfl⟩, ha, hprev⟩ := hs
  have ha' : ccs_CreasesAllocated S0.cage (ccs_MaxDepth S0) cr := ha
  have hprev' : ∀ d : Nat, d < k → ∀ l ∈ cr[d]?,
      ccs_CreaseLinksInBounds l (ccm_EdgeCountAtDepth_Fast S0.cage (d + 1)) := hprev
  have hb' : ccs_CreasesBlank S0.cage (ccs_MaxDepth S0) cr := hb
  have hz' : ccs_ZeroLevels S0.cage cr k := hz
  have hlt : k < cr.length := by have := ha'.1; omega
  have hlt1 : k - 1 < cr.length := by omega
  have hout : cr[k]? = some cr[k] := List.getElem?_eq_getElem hlt
  have hin : cr[k - 1]? = some cr[k - 1] := List.getElem?_eq_getElem hlt1
  obtain ⟨b1, _⟩ := ha'.2 k h2 _ (Option.mem_def.mpr hout)
  have hlinks := hprev' (k - 1) (by omega) _ (Option.mem_def.mpr hin)
  have hpre := hz' (k - 1) (by omega) _ (Option.mem_def.mpr hin)
  have hk : k - 1 + 1 = k := by omega
  rw [hk] at hlinks hpre
  have hE : ccm_EdgeCountAtDepth_Fast S0.cage (k + 1)
      = 2 * ccm_EdgeCountAtDepth_Fast S0.cage k + ccm_HalfedgeCountAtDepth S0.cage k := rfl
  obtain ⟨o, e1, e2⟩ := level_crease_kernel_spec { S0 with creases := cr } k cr[k - 1] cr[k]
    (by unfold ccs__Level; rw [if_pos h1]; exact hin)
    (by rw [ccs__Level_succ]; exact hout)
    hlinks
    (by
      show 2 * ccm_EdgeCountAtDepth_Fast S0.cage k ≤ cr[k].length
      omega)
  rw [g1] at e1
  cases e1
  have hnew := creaseRefined_zero cr[k - 1] (ccm_EdgeCountAtDepth_Fast S0.cage k)
    (ccm_EdgeCountAtDepth_Fast S0.cage (k + 1)) hlinks hpre _ _ e2
    (fun j hj1 hj2 c hc => hb' k h2 _ (Option.mem_def.mpr hout) j hj1 hj2 c hc)
  exact zeroLevels_set S0.cage (ccs_MaxDepth S0) cr k o hlt hb' hz' hnew

theorem refineCreases_zero_fold (S0 S1 : cc_Subd) (hs : ccs_CreaseStage S0 S1 1)
    (hb : ccs_CreasesBlank S0.cage (ccs_MaxDepth S0) S1.creases)
    (hz : ccs_ZeroLevels S0.cage S1.creases 1) :
    ∀ n : Nat, n + 1 ≤ ccs_MaxDepth S0 →
      ∃ S, (List.range' 1 n).foldlM (fun s depth => ccs__RefineCreases s depth) S1 = some S ∧
        ccs_CreaseStage S0 S (n + 1) ∧
        ccs_CreasesBlank S0.cage (ccs_MaxDepth S0) S.creases ∧
        ccs_ZeroLevels S0.cage S.creases (n + 1) := by
  intro n
  induction n with
  | zero =>
    intro _
    exact ⟨S1, rfl, hs, hb, hz⟩
  | succ n ih =>
    intro hn
    obtain ⟨S, e1, e2, e3, e4⟩ := ih (by omega)
    obtain ⟨S', f1, f2, f3, f4⟩ := refineCreases_zero_stage S0 S (n + 1) e2 e3 e4 (by omega)
      (by omega)
    refine ⟨S', ?_, f2, f3, f4⟩
    rw [List.range'_concat, List.foldlM_append, e1]
    simp only [Option.bind_eq_bind, Option.some_bind, one_mul, List.foldlM_cons,
      List.foldlM_nil]
    have : 1 + n = n + 1 := by omega
    rw [this, f1]
    rfl

/-- The entry point `ccs_RefineCreases` on a cage whose edges have the sharpness
0, in a buffer whose records that no kernel writes hold the sharpness 0: every
crease of every level has the sharpness 0. -/
theorem refineCreases_zero (S0 : cc_Subd) (hD : 1 ≤ ccs_MaxDepth S0)
    (ha : ccs_CreasesAllocated S0.cage (ccs_MaxDepth S0) S0.creases)
    (hw : ccs_CreaseLinksInBounds S0.cage.creases (ccm_EdgeCount S0.cage))
    (hz : ccs_ZeroSharp S0.cage.creases (ccm_EdgeCount S0.cage))
    (hb : ccs_CreasesBlank S0.cage (ccs_MaxDepth S0) S0.creases) :
    ∃ S, ccs_RefineCreases S0 = some S ∧
      ccs_ZeroLevels S0.cage S.creases (ccs_MaxDepth S0) := by
  obtain ⟨S1, e1, e2, e3, e4⟩ := refineCageCreases_zero S0 hD ha hw hz hb
  obtain ⟨S, f1, _, _, f4⟩ := refineCreases_zero_fold S0 S1 e2 e3 e4 (ccs_MaxDepth S0 - 1)
    (by omega)
  refine ⟨S, ?_, ?_⟩
  · unfold ccs_RefineCreases
    simp only [e1, Option.bind_eq_bind, Option.some_bind]
    exact f1
  · have : ccs_MaxDepth S0 - 1 + 1 = ccs_MaxDepth S0 := by omega
    rw [this] at f4
    exact f4

/-! ## C25: the halfedges of a cage without boundary

The four children of a halfedge have the twins `4 * next(twin(h)) + 3`,
`4 * next(h) + 2`, `4 * prev(h) + 1` and `4 * twin(prev(h))`: when every halfedge
of the parent level has a twin, every halfedge of the child level has one. -/

/-- Every halfedge of the parent level has a twin. -/
def Parent.Closed (P : Parent) : Prop :=
  ∀ h : Int, 0 ≤ h → h < P.H → 0 ≤ P.twin h

/-- Every one of the first `n` halfedges of a level has a twin. -/
def ccs_ClosedLevel (halfedges : List cc_Halfedge_SemiRegular) (n : Nat) : Prop :=
  ∀ c : Nat, c < n → ∀ r ∈ halfedges[c]?, 0 ≤ r.twinID

/-- No halfedge of the cage is on a boundary: every halfedge has a twin. -/
def ccm_Closed (cage : cc_Mesh) : Prop :=
  ∀ h : Nat, h < ccm_HalfedgeCount cage → ∃ t ∈ ccm_HalfedgeTwinID cage h, 0 ≤ t

instance (cage : cc_Mesh) : Decidable (ccm_Closed cage) := by
  unfold ccm_Closed
  infer_instance

/-- Every halfedge of level `depth` of the subdivision has a twin. -/
def ccs_ClosedAt (u : cc_Subd) (depth : Nat) : Prop :=
  ∀ h : Int, 0 ≤ h → h < (ccm_HalfedgeCountAtDepth u.cage depth : Int) →
    ∃ t, ccs_HalfedgeTwinID u h depth = some t ∧ 0 ≤ t

/-- Every edge of level `depth` of the subdivision has the sharpness 0. -/
def ccs_ZeroAt (u : cc_Subd) (depth : Nat) : Prop :=
  ∀ e : Int, 0 ≤ e → e < (ccm_EdgeCountAtDepth_Fast u.cage depth : Int) →
    ccs_CreaseSharpness u e depth = some 0

theorem Refined.closedLevel {P : Parent} {out out' : List cc_Halfedge_SemiRegular}
    (hr : Refined P out out') (hv : P.Valid) (hcl : P.Closed) :
    ccs_ClosedLevel out' (4 * P.H) := by
  intro c hc r hrc
  obtain ⟨a, _, _⟩ := hr.slotNat c hc r (Option.mem_def.mp hrc)
  rw [a]
  have h0 : (0 : Int) ≤ ((c / 4 : Nat) : Int) := by omega
  have h1 : ((c / 4 : Nat) : Int) < P.H := by omega
  obtain ⟨n0, n1⟩ := hv.next_range _ h0 h1
  obtain ⟨p0, p1⟩ := hv.prev_range _ h0 h1
  have t0 := hcl _ h0 h1
  have tl := hv.twin_lt _ h0 h1
  have tn := hv.twinNext_pos _ h0 h1 t0
  obtain ⟨q0, _⟩ := hv.next_range _ t0 tl
  have tp := hcl _ p0 p1
  have h4 : c % 4 = 0 ∨ c % 4 = 1 ∨ c % 4 = 2 ∨ c % 4 = 3 := by omega
  rcases h4 with e | e | e | e <;> rw [e] <;> simp only [Parent.cTwin] <;> omega

theorem cageParent_closed (cage : cc_Mesh) (hcl : ccm_Closed cage) :
    (cageParent cage).Closed := by
  intro h h0 h1
  have h2 : h < (ccm_HalfedgeCount cage : Int) := h1
  obtain ⟨t, ht, t0⟩ := hcl h.toNat (by omega)
  have hcast : ((h.toNat : Nat) : Int) = h := by omega
  rw [hcast, Option.mem_def, cage_twin_eq cage h h0 h2] at ht
  rw [Option.some.inj ht]
  exact t0

theorem levelParent_closed (cage : cc_Mesh) (depth : Nat) (l : List cc_Halfedge_SemiRegular)
    (hlen : l.length = ccm_HalfedgeCountAtDepth cage depth)
    (hcl : ccs_ClosedLevel l (ccm_HalfedgeCountAtDepth cage depth)) :
    (levelParent cage depth l).Closed := by
  intro h h0 h1
  have h2 : h < (ccm_HalfedgeCountAtDepth cage depth : Int) := h1
  have hlt : h.toNat < l.length := by omega
  have hr : l[h.toNat]? = some (l.getD h.toNat default) := by
    simp [List.getD_eq_getElem?_getD, List.getElem?_eq_getElem hlt]
  exact hcl h.toNat (by omega) _ (Option.mem_def.mpr hr)

/-- The levels that `ccs_RefineHalfedges` has refined from a cage without boundary
are valid and have no boundary. -/
theorem RefinedLevels.closedLevels {subd0 s : cc_Subd} {k : Nat}
    (hr : RefinedLevels subd0 s k) (ha : ccs_Allocated subd0)
    (hnp : ccm_NextPrevInvariant subd0.cage) (htw : ccm_TwinInvariant subd0.cage)
    (hne : ccm_TwinIrreflexive subd0.cage) (hc : ccm_Covered subd0.cage)
    (hcl : ccm_Closed subd0.cage) :
    ∀ d : Nat, 1 ≤ d → d ≤ k → d ≤ ccs_MaxDepth subd0 →
      ∃ l, ccs__Level s.halfedges d = some l ∧ ccs_ValidLevel subd0.cage d l ∧
        ccs_ClosedLevel l (ccm_HalfedgeCountAtDepth subd0.cage d) := by
  intro d
  induction d with
  | zero => intro h; omega
  | succ d ih =>
    intro _ h2 h3
    by_cases hd : d = 0
    · subst hd
      obtain ⟨out, out', a, b, c⟩ := hr.first
      have hcz := c.closedLevel (cageParent_valid subd0.cage hnp htw)
        (cageParent_closed subd0.cage hcl)
      have hH : 4 * (cageParent subd0.cage).H = ccm_HalfedgeCountAtDepth subd0.cage (0 + 1) := by
        rw [ccm_HalfedgeCountAtDepth_succ, ccm_HalfedgeCountAtDepth_zero]
        rfl
      rw [hH] at hcz
      refine ⟨out', ?_, cage_child_valid subd0.cage out out' c (ha.2 0 (by omega) _ a)
        hnp htw hne hc, hcz⟩
      unfold ccs__Level
      rw [if_pos (by omega)]
      exact b
    · obtain ⟨l, x, y, z⟩ := ih (by omega) (by omega) (by omega)
      obtain ⟨hin, out, out', a, b, c, e⟩ := hr.next d (by omega) (by omega)
      unfold ccs__Level at x
      rw [if_pos (by omega), a] at x
      have := Option.some.inj x
      subst this
      have hcz := e.closedLevel (levelParent_valid subd0.cage d (by omega) hin y.1 y.2.1)
        (levelParent_closed subd0.cage d hin y.1 z)
      have hH : 4 * (levelParent subd0.cage d hin).H
          = ccm_HalfedgeCountAtDepth subd0.cage (d + 1) := by
        rw [ccm_HalfedgeCountAtDepth_succ]
        rfl
      rw [hH] at hcz
      refine ⟨out', ?_, level_child_valid subd0.cage d (by omega) hin out out' e
        (ha.2 d (by omega) _ b) y, hcz⟩
      unfold ccs__Level
      rw [if_pos (by omega)]
      exact c

/-- After `ccs_RefineHalfedges` on a cage without boundary, every halfedge of
every level has a twin. -/
theorem refineHalfedges_closed (s T1 : cc_Subd) (hD : 1 ≤ ccs_MaxDepth s)
    (hcage : ccm_Valid s.cage) (ha : ccs_Allocated s) (hcl : ccm_Closed s.cage)
    (h1 : ccs_RefineHalfedges s = some T1) :
    ∀ d : Nat, 1 ≤ d → d ≤ ccs_MaxDepth s → ccs_ClosedAt T1 d := by
  obtain ⟨hnp, htw, hne, hcov, _, _, _⟩ := hcage
  obtain ⟨T, a1, a2⟩ := refine_all_levels s ha hD (cage_linksInBounds s.cage hnp htw)
  rw [h1] at a1
  cases a1
  intro d d1 d2 h h0 hH
  obtain ⟨l, hl, hv, hz⟩ := a2.closedLevels ha hnp htw hne hcov hcl d d1 d2 d2
  rw [a2.cage_eq] at hH
  have hlt : h.toNat < l.length := by rw [hv.1]; omega
  have hr : l[h.toNat]? = some (l.getD h.toNat default) := by
    simp [List.getD_eq_getElem?_getD, List.getElem?_eq_getElem hlt]
  refine ⟨_, level_twin_eq T1 d l hl h h0 (by rw [hv.1]; exact hH), ?_⟩
  exact hz h.toNat (by omega) _ (Option.mem_def.mpr hr)

/-! ## C25: the kernels on levels without boundary and without sharpness -/

/-- A valid cage without boundary whose edges have the sharpness 0 is closed and
not sharp in the sense of the kernels (`ccm_SmoothClosed`). -/
theorem ccm_Valid.cage_smooth {cage : cc_Mesh} (hv : ccm_Valid cage) (fuel : Nat)
    (hf : ccm_HalfedgeCount cage ≤ fuel + 1) (hcl : ccm_Closed cage)
    (hface : ccm_NextKeepsFace cage)
    (hz : ∀ e : Nat, e < ccm_EdgeCount cage → ccm_CreaseSharpness cage e = some 0) :
    ccm_SmoothClosed cage fuel := by
  have hv' := hv
  obtain ⟨hnp, htw, _, hc, hw, hp, htv, hte, _⟩ := hv
  have hP := cageParent_valid cage hnp htw
  have hC := cageParent_closed cage hcl
  refine ⟨?_, ?_, hv'.creasedVertexRingsReadable fuel hf, ?_⟩
  · intro e he
    obtain ⟨h, hh, h0, h1⟩ := hte e he
    exact ⟨hz e he, h, hh, _, Option.mem_def.mpr (cage_twin_eq cage h h0 h1), hC h h0 h1⟩
  · intro v hvv
    obtain ⟨h, hh, h0, h1⟩ := htv v hvv
    obtain ⟨r, hr1, hr2⟩ := ccm_VertexRing_total cage hP fuel hf h h0 h1
    refine ⟨?_, h, hh, r, Option.mem_def.mpr hr1, ?_⟩
    · unfold ccm_VertexPoint
      exact readAt_isSome _ _ (by omega) (by omega)
    · intro g hg
      obtain ⟨g0, g1⟩ := hr2 g hg
      exact (cage_halfedge_creaseReadable cage hc hw g g0 g1).1
  · intro v hvv
    obtain ⟨h, hh, h0, h1⟩ := htv v hvv
    obtain ⟨r, hr1, hr2⟩ := ccm_VertexRing_total cage hP fuel hf h h0 h1
    refine ⟨h, hh, r, Option.mem_def.mpr hr1, ?_⟩
    intro g hg
    obtain ⟨g0, g1⟩ := hr2 g hg
    obtain ⟨p0, p1⟩ := hP.prev_range g g0 g1
    have p1' : (cageParent cage).prev g < (ccm_HalfedgeCount cage : Int) := p1
    have t0 := hC _ p0 p1
    have t1 : (cageParent cage).twin ((cageParent cage).prev g)
        < (ccm_HalfedgeCount cage : Int) := hP.twin_lt _ p0 p1
    obtain ⟨_, _, e0, e1⟩ := cage_ids_range cage hc _ p0 p1'
    refine ⟨_, Option.mem_def.mpr (cage_prev_eq cage g g0 g1), _,
      Option.mem_def.mpr (cage_twin_eq cage _ p0 p1'), t0, ?_, ?_, ?_⟩
    · rw [cage_edge_eq cage _ t0 t1, cage_edge_eq cage _ p0 p1', hP.twin_edge _ p0 p1 t0]
    · have hk := hface ((cageParent cage).prev g).toNat (by omega)
      have hcast : ((((cageParent cage).prev g).toNat : Nat) : Int) = (cageParent cage).prev g := by
        omega
      rw [hcast, cage_next_eq cage _ p0 p1', Option.some_bind, hP.next_prev g g0 g1] at hk
      exact hk.symm
    · unfold ccm_HalfedgeSharpness
      rw [cage_edge_eq cage _ p0 p1', Option.some_bind]
      have hk := hz ((cageParent cage).edge ((cageParent cage).prev g)).toNat (by omega)
      have hcast : ((((cageParent cage).edge ((cageParent cage).prev g)).toNat : Nat) : Int)
          = (cageParent cage).edge ((cageParent cage).prev g) := by omega
      rw [hcast] at hk
      exact hk

/-- A level without boundary whose edges have the sharpness 0, in a subdivision
that is ready for the vertex point kernels, is closed and not sharp in the sense
of the kernels (`ccs_SmoothClosed`). -/
theorem ccs_Ready.level_smoothClosed {u : cc_Subd} {e2h : Int → Nat → Int} {v2h : Int → Int}
    {fuel : Nat} (hr : ccs_Ready u e2h v2h fuel) (d : Nat) (d1 : 1 ≤ d)
    (d2 : d < ccs_MaxDepth u) (hcl : ccs_ClosedAt u d) (hz : ccs_ZeroAt u d) :
    ccs_SmoothClosed u e2h v2h d fuel := by
  have hHd : ccm_HalfedgeCountAtDepth u.cage d ≤ fuel :=
    le_trans (ccm_HalfedgeCountAtDepth_mono u.cage d (ccs_MaxDepth u) (by omega)) hr.fuel_le
  have hV : ccm_VertexCountAtDepth_Fast u.cage (d + 1)
      = ccm_VertexCountAtDepth_Fast u.cage d + ccm_FaceCountAtDepth_Fast u.cage d
        + ccm_EdgeCountAtDepth_Fast u.cage d := rfl
  obtain ⟨hs, out, ho, hlen⟩ := hr.levels d d1 d2
  obtain ⟨_, l, hl, hlen', hv, hrd⟩ := hs.reads
  obtain ⟨pts, hpts, hpl⟩ := hs.points
  have hvp : ∀ v : Nat, v < ccm_VertexCountAtDepth_Fast u.cage d →
      ∃ h, ccs_VertexPointToHalfedgeID u.cage e2h v2h v d fuel = some h ∧ 0 ≤ h ∧
        h < (ccm_HalfedgeCountAtDepth u.cage d : Int) := by
    intro v hvv
    obtain ⟨l', _, hvl⟩ := hs.halfedges
    obtain ⟨c, hc, _⟩ := hvl.2.2.2.1.2 v hvv
    have hpos : 0 < ccm_HalfedgeCount u.cage := by
      by_contra hz'
      have hz'' : ccm_HalfedgeCount u.cage = 0 := by omega
      have : ccm_HalfedgeCountAtDepth u.cage d = 0 := by
        unfold ccm_HalfedgeCountAtDepth
        rw [hz'', Nat.zero_mul]
      have hc' : c < ccm_HalfedgeCountAtDepth u.cage d := hc
      omega
    have hfl := hr.fuel_le
    have hpow : ccs_MaxDepth u < 4 ^ ccs_MaxDepth u := Nat.lt_pow_self (by norm_num) _
    have hge : 4 ^ ccs_MaxDepth u ≤ ccm_HalfedgeCountAtDepth u.cage (ccs_MaxDepth u) := by
      unfold ccm_HalfedgeCountAtDepth
      exact Nat.le_mul_of_pos_left _ hpos
    exact vertexPoint_loop_range _ _ e2h v2h hr.helpers d fuel d1 (le_of_lt d2)
      (by omega) v (by omega) (by exact_mod_cast hvv)
  refine ⟨?_, ?_, hs.vertexRingsReadable e2h v2h fuel hHd hvp, ?_, out, Option.mem_def.mpr ho,
    by omega⟩
  · intro e he
    obtain ⟨h0, h1⟩ := hr.helpers.1 d d2 d1 e he
    obtain ⟨t, ht, t0⟩ := hcl _ h0 h1
    exact ⟨hz e (by omega) (by exact_mod_cast he), t, Option.mem_def.mpr ht, t0⟩
  · intro v hvv
    obtain ⟨h, hh, h0, h1⟩ := hvp v hvv
    obtain ⟨r, hr1, hr2⟩ := ccs_VertexRing_total u d l hl hlen' hv fuel (by omega) h h0 h1
    refine ⟨?_, h, Option.mem_def.mpr hh, r, Option.mem_def.mpr hr1, ?_⟩
    · unfold ccs_VertexPoint
      rw [hpts]
      simp only [Option.bind_eq_bind, Option.some_bind]
      exact readAt_isSome _ _ (by omega) (by omega)
    · intro g hg
      exact (hrd g (hr2 g hg).1 (hr2 g hg).2).1.1
  · intro v hvv
    obtain ⟨h, hh, h0, h1⟩ := hvp v hvv
    obtain ⟨r, hr1, hr2⟩ := ccs_VertexRing_total u d l hl hlen' hv fuel (by omega) h h0 h1
    refine ⟨h, Option.mem_def.mpr hh, r, Option.mem_def.mpr hr1, ?_⟩
    intro g hg
    obtain ⟨g0, g1⟩ := hr2 g hg
    obtain ⟨p0, p1⟩ := hv.prev_range g g0 g1
    have hp : ccs_HalfedgePrevID u g d = (levelParent u.cage d l).prev g := rfl
    have p1' : (levelParent u.cage d l).prev g < (ccm_HalfedgeCountAtDepth u.cage d : Int) := p1
    have p2 : (levelParent u.cage d l).prev g < (l.length : Int) := by rw [hlen']; exact p1'
    obtain ⟨t, ht, t0⟩ := hcl _ p0 p1'
    rw [level_twin_eq u d l hl _ p0 p2] at ht
    have := Option.some.inj ht
    subst this
    have t1 : (levelParent u.cage d l).twin ((levelParent u.cage d l).prev g)
        < (l.length : Int) := by
      rw [hlen']
      exact hv.twin_lt _ p0 p1
    obtain ⟨e, he, e0, e1⟩ := (hrd _ p0 p1').1.1.1
    rw [Option.mem_def, level_edge_eq u d l hl _ p0 p2] at he
    have := Option.some.inj he
    subst this
    unfold ccs_SmoothFan
    rw [hp]
    refine ⟨_, Option.mem_def.mpr (level_twin_eq u d l hl _ p0 p2), t0, ?_, ?_⟩
    · rw [level_edge_eq u d l hl _ t0 t1, level_edge_eq u d l hl _ p0 p2,
        hv.twin_edge _ p0 p1 t0]
    · unfold ccs_HalfedgeSharpness
      rw [level_edge_eq u d l hl _ p0 p2, Option.some_bind]
      exact hz _ e0 e1

/-- A subdivision that is ready for the vertex point kernels, whose cage and
levels have no boundary and no sharpness, is closed and not sharp at every depth
(`ccs_SmoothLevels`). -/
theorem ccs_Ready.smoothLevels {u : cc_Subd} {e2h : Int → Nat → Int} {v2h : Int → Int}
    {fuel : Nat} (hr : ccs_Ready u e2h v2h fuel) (hD : 1 ≤ ccs_MaxDepth u)
    (hcl : ccm_Closed u.cage) (hface : ccm_NextKeepsFace u.cage)
    (hz : ∀ e : Nat, e < ccm_EdgeCount u.cage → ccm_CreaseSharpness u.cage e = some 0)
    (hcls : ∀ d : Nat, 1 ≤ d → d < ccs_MaxDepth u → ccs_ClosedAt u d)
    (hzs : ∀ d : Nat, 1 ≤ d → d < ccs_MaxDepth u → ccs_ZeroAt u d) :
    ccs_SmoothLevels u e2h v2h fuel := by
  have hH0 : ccm_HalfedgeCount u.cage ≤ fuel + 1 := by
    have := ccm_HalfedgeCountAtDepth_mono u.cage 0 (ccs_MaxDepth u) (Nat.zero_le _)
    have h2 := hr.fuel_le
    rw [ccm_HalfedgeCountAtDepth_zero] at this
    omega
  obtain ⟨out, ho, hlen⟩ := hr.points0
  rw [ccs__Level_succ] at ho
  refine ⟨hr.cage.cage_smooth fuel hH0 hcl hface hz, ⟨out, Option.mem_def.mpr ho, hlen⟩, ?_⟩
  intro d hd
  rw [List.mem_range'_1] at hd
  exact hr.level_smoothClosed d hd.1 (by omega) (hcls d hd.1 (by omega)) (hzs d hd.1 (by omega))

/-! ## C25: the two gather pipelines on a cage without boundary and without sharpness -/

/-- The entry point `ccs_RefineCreases` changes neither the cage, nor the depth,
nor the halfedges. -/
theorem ccs_RefineCreases_keeps_halfedges (S T : cc_Subd) (h : ccs_RefineCreases S = some T) :
    T.cage = S.cage ∧ ccs_MaxDepth T = ccs_MaxDepth S ∧ T.halfedges = S.halfedges := by
  unfold ccs_RefineCreases at h
  obtain ⟨S1, c1, c2⟩ := Option.bind_eq_some.mp h
  have q1 : S1.cage = S.cage ∧ S1.maxDepth = S.maxDepth ∧ S1.halfedges = S.halfedges := by
    unfold ccs__RefineCageCreases at c1
    simp only [Option.bind_eq_bind, Option.bind_eq_some, Option.some.injEq] at c1
    obtain ⟨p, _, out, _, rfl⟩ := c1
    exact ⟨rfl, rfl, rfl⟩
  have q2 := foldlM_keeps (fun S => (S.cage, S.maxDepth, S.halfedges))
    (fun s depth => ccs__RefineCreases s depth)
    (by
      intro A B d hAB
      unfold ccs__RefineCreases at hAB
      simp only [Option.bind_eq_bind, Option.bind_eq_some, Option.some.injEq] at hAB
      obtain ⟨p, _, out, _, rfl⟩ := hAB
      rfl) _ S1 T c2
  simp only [Prod.mk.injEq] at q2
  exact ⟨q2.1.trans q1.1, q2.2.1.trans q1.2.1, q2.2.2.trans q1.2.2⟩

/-- The creases of a cage whose edges all have the sharpness 0. -/
theorem cage_zeroSharp (cage : cc_Mesh)
    (hsharp : ∀ e : Nat, e < ccm_EdgeCount cage → ccm_CreaseSharpness cage e = some 0) :
    ccs_ZeroSharp cage.creases (ccm_EdgeCount cage) := by
  intro e he c hc
  have hS := hsharp e he
  unfold ccm_CreaseSharpness at hS
  rw [readAt_natCast, Option.mem_def.mp hc, Option.map_some', Option.some.injEq] at hS
  exact hS

/-- C25 (as amended): on a cage without boundary whose edges all have the
sharpness 0, `ccs_Refine_Gather` and `ccs_Refine_NoCreases_Gather` return the
same subdivision, in exact arithmetic.  The subdivision `s` has a depth `D ≥ 1`
and a cage that satisfies the invariants of the data model (`ccm_Valid`, and
`next` stays in the face of its halfedge, `ccm_NextKeepsFace`; the identifiers
`uvID` are in range when the cage has texture coordinates); its buffers are
allocated (`ccs_Constructed`) and the crease records that no kernel writes hold
the sharpness 0 (`ccs_CreasesBlank`); the helpers return halfedges of their level
and the loops may run for `H_D` iterations.  When every halfedge of the cage has
a twin (`ccm_Closed`) and every edge of the cage has the sharpness 0, both entry
points return, and they return the same subdivision `r`: the same vertex points
at every level. -/
theorem C25_closed_smooth_gather (cc__EncodeUv : cc_VertexUv → Int)
    (cc__DecodeUv : Int → cc_VertexUv) (s : cc_Subd) (edgeToHalfedgeID : Int → Nat → Int)
    (vertexToHalfedgeID_First : Int → Int) (fuel : Nat) (hD : 1 ≤ ccs_MaxDepth s)
    (hcage : ccm_Valid s.cage) (hface : ccm_NextKeepsFace s.cage)
    (huv : 0 < ccm_UvCount s.cage → ccm_UvIDsInBounds s.cage)
    (hc : ccs_Constructed s)
    (hblank : ccs_CreasesBlank s.cage (ccs_MaxDepth s) s.creases)
    (hh : ccs_HelpersInBounds s.cage (ccs_MaxDepth s) edgeToHalfedgeID
      vertexToHalfedgeID_First)
    (hf : ccm_HalfedgeCountAtDepth s.cage (ccs_MaxDepth s) ≤ fuel)
    (hclosed : ccm_Closed s.cage)
    (hsharp : ∀ e : Nat, e < ccm_EdgeCount s.cage → ccm_CreaseSharpness s.cage e = some 0) :
    ∃ r, ccs_Refine_Gather cc__EncodeUv cc__DecodeUv s edgeToHalfedgeID
        vertexToHalfedgeID_First fuel = some r ∧
      ccs_Refine_NoCreases_Gather cc__EncodeUv cc__DecodeUv s edgeToHalfedgeID
        vertexToHalfedgeID_First fuel = some r := by
  obtain ⟨T1, T2, T, a1, a2, a3, a4, _, sh, a5, hcT, hmT⟩ := refineTopology_total cc__EncodeUv
    cc__DecodeUv s edgeToHalfedgeID vertexToHalfedgeID_First fuel hD hcage huv hc hh hf
  obtain ⟨k1, k2⟩ := ccs_RefineHalfedges_keeps s T1 a1
  obtain ⟨k3, k4⟩ := ccs_RefineHalfedges_keeps_cage s T1 a1
  obtain ⟨k5, k6, k7⟩ := ccs_RefineCreases_keeps_halfedges T1 T2 a2
  obtain ⟨S, b1, b2⟩ := refineCreases_zero T1 (by rw [k4]; exact hD)
    (by rw [k3, k4, k1]; exact hc.2.1) (by rw [k3]; exact hcage.2.2.2.2.1)
    (by rw [k3]; exact cage_zeroSharp s.cage hsharp)
    (by rw [k3, k4, k1]; exact hblank)
  rw [a2] at b1
  cases b1
  rw [k3, k4] at b2
  have hcl1 := refineHalfedges_closed s T1 hD hcage hc.1 hclosed a1
  have hcls : ∀ d : Nat, 1 ≤ d → d < ccs_MaxDepth T → ccs_ClosedAt T d := by
    intro d d1 d2 h h0 hH
    rw [hcT] at hH
    obtain ⟨t, ht, t0⟩ := hcl1 d d1 (by rw [← hmT]; omega) h h0 (by rw [k3]; exact hH)
    refine ⟨t, ?_, t0⟩
    rw [sh.twin_eq]
    unfold ccs_HalfedgeTwinID at ht ⊢
    rw [k7]
    exact ht
  have hzs : ∀ d : Nat, 1 ≤ d → d < ccs_MaxDepth T → ccs_ZeroAt T d := by
    intro d d1 d2 e e0 e1
    obtain ⟨hs, _⟩ := a5.levels d d1 d2
    obtain ⟨l, hl, hlen⟩ := hs.creases
    have hl' := hl
    unfold ccs__Level at hl'
    rw [if_pos d1, sh.creases_eq] at hl'
    have hz := b2 (d - 1) (by rw [← hmT]; omega) l (Option.mem_def.mpr hl')
    have hk : d - 1 + 1 = d := by omega
    rw [hk, ← hcT] at hz
    unfold ccs_CreaseSharpness
    rw [hl]
    simp only [Option.bind_eq_bind, Option.some_bind]
    rw [readAt_getD l e e0 (by omega), Option.map_some', hz.read_zero hlen e e0 e1]
  have hT := a5.smoothLevels (by rw [hmT]; exact hD) (by rw [hcT]; exact hclosed)
    (by rw [hcT]; exact hface) (by rw [hcT]; exact hsharp) hcls hzs
  have heq := refineVertexPoints_gather_smooth T edgeToHalfedgeID vertexToHalfedgeID_First fuel
    hT
  obtain ⟨r, g⟩ := a5.gather_total
  refine ⟨r, ?_, ?_⟩
  · unfold ccs_Refine_Gather
    simp only [a4, g, Option.bind_eq_bind, Option.some_bind]
  · unfold ccs_Refine_NoCreases_Gather
    simp only [a4, ← heq, g, Option.bind_eq_bind, Option.some_bind]

/-- C25 (as amended), witness: the closed cage `pillow`, two triangles glued
along their three edges, all of sharpness 0, at the depth 2 on zeroed buffers,
with loops that may run for `H_2 = 96` iterations. -/
theorem C25_closed_smooth_gather_witness :
    ccm_Valid pillow ∧ ccm_NextKeepsFace pillow ∧ ccm_Closed pillow ∧
    (∀ e : Nat, e < ccm_EdgeCount pillow → ccm_CreaseSharpness pillow e = some 0) ∧
    ccs_Constructed pillowBlank ∧ ccs_CreasesBlank pillow 2 pillowBlank.creases ∧
    ∃ r, ccs_Refine_Gather (fun _ => 0) (fun _ => (0, 0)) pillowBlank pillowEdgeToHalfedgeID
        pillowVertexToHalfedgeID_First 96 = some r ∧
      ccs_Refine_NoCreases_Gather (fun _ => 0) (fun _ => (0, 0)) pillowBlank
        pillowEdgeToHalfedgeID pillowVertexToHalfedgeID_First 96 = some r :=
  ⟨by decide, by decide, by decide, by decide!, by decide, by decide!,
    C25_closed_smooth_gather (fun _ => 0) (fun _ => (0, 0)) pillowBlank pillowEdgeToHalfedgeID
      pillowVertexToHalfedgeID_First 96 (by decide) (by decide) (by decide)
      (fun h => absurd h (by decide)) (by decide) (by decide!) (by decide) (by decide)
      (by decide) (by decide!)⟩

/-- C25, counterexample.  With boundary: the two glued triangles have the
sharpness 0 on every edge, and the halfedge 1 has no twin.  At the depth 1 the
four entry points return; the new point of the boundary edge 1 (slot 7) is
`(5/12, 5/12, 0)` after `ccs_Refine_Gather` and `(1/2, 1/2, 0)` after
`ccs_Refine_NoCreases_Gather`, and it is `(1/3, 1/12, 0)` after
`ccs_Refine_Scatter` and `(1/2, 1/2, 0)` after `ccs_Refine_NoCreases_Scatter`;
the new point of the boundary vertex 0 (slot 0) is `(5/27, 5/27, 0)` after
`ccs_Refine_Gather` and `(0, 0, 0)` after `ccs_Refine_NoCreases_Gather`.
Without boundary, for the two scatter entry points: the cage `pillow` is valid,
every halfedge has a twin and every edge has the sharpness 0; at the depth 2 the
vertex 0 of level 2 is at `(5/12, 5/12, 0)` after `ccs_Refine_Scatter` and at
`(5/16, 5/16, 0)` after `ccs_Refine_NoCreases_Scatter`. -/
theorem C25_counterexample :
    (∀ e : Nat, e < 5 → ccm_CreaseSharpness trianglesMesh e = some 0) ∧
    ccm_HalfedgeTwinID trianglesMesh 1 = some (-1) ∧
    (ccs_Refine_Gather (fun _ => 0) (fun _ => (0, 0)) trianglesBlank (fun _ _ => 0) (fun _ => 0) 4).bind
      (fun s => (s.vertexPoints[0]?).bind (fun l => l[7]?))
      = some ((5 / 12, 5 / 12, 0) : cc_VertexPoint) ∧
    (ccs_Refine_NoCreases_Gather (fun _ => 0) (fun _ => (0, 0)) trianglesBlank (fun _ _ => 0) (fun _ => 0) 4).bind
      (fun s => (s.vertexPoints[0]?).bind (fun l => l[7]?))
      = some ((1 / 2, 1 / 2, 0) : cc_VertexPoint) ∧
    (ccs_Refine_Scatter (fun _ => 0) (fun _ => (0, 0)) trianglesBlank 4).bind
      (fun s => (s.vertexPoints[0]?).bind (fun l => l[7]?))
      = some ((1 / 3, 1 / 12, 0) : cc_VertexPoint) ∧
    (ccs_Refine_NoCreases_Scatter (fun _ => 0) (fun _ => (0, 0)) trianglesBlank 4).bind
      (fun s => (s.vertexPoints[0]?).bind (fun l => l[7]?))
      = some ((1 / 2, 1 / 2, 0) : cc_VertexPoint) ∧
    (ccs_Refine_Gather (fun _ => 0) (fun _ => (0, 0)) trianglesBlank (fun _ _ => 0) (fun _ => 0) 4).bind
      (fun s => (s.vertexPoints[0]?).bind (fun l => l[0]?))
      = some ((5 / 27, 5 / 27, 0) : cc_VertexPoint) ∧
    (ccs_Refine_NoCreases_Gather (fun _ => 0) (fun _ => (0, 0)) trianglesBlank (fun _ _ => 0) (fun _ => 0) 4).bind
      (fun s => (s.vertexPoints[0]?).bind (fun l => l[0]?))
      = some ((0, 0, 0) : cc_VertexPoint) ∧
    ccm_Valid pillow ∧ ccm_Closed pillow ∧
    (∀ e : Nat, e < ccm_EdgeCount pillow → ccm_CreaseSharpness pillow e = some 0) ∧
    (ccs_Refine_Scatter (fun _ => 0) (fun _ => (0, 0)) pillowBlank 96).bind
      (fun s => (s.vertexPoints[1]?).bind (fun l => l[0]?))
      = some ((5 / 12, 5 / 12, 0) : cc_VertexPoint) ∧
    (ccs_Refine_NoCreases_Scatter (fun _ => 0) (fun _ => (0, 0)) pillowBlank 96).bind
      (fun s => (s.vertexPoints[1]?).bind (fun l => l[0]?))
      = some ((5 / 16, 5 / 16, 0) : cc_VertexPoint) := by
  decide!

end CatmullClark
